import Mathlib

/-!
# Screen layer of libvterm (`src/src/screen.c`)

A shallow embedding of the screen model: the cell grid, the damage
accumulator and the sink callbacks, followed by theorems about them.

Conventions of the embedding.

* C `int` values are `Int`; no operation below is applied outside the range of
  a 32-bit `int` when its arguments describe positions and rectangles of a
  grid, so wrap-around is not modelled.
* A pointer to a cell is the offset of the cell in the active buffer.  `NULL`
  is `none`.  Dereferencing `NULL`, or touching memory outside a buffer, has no
  defined behaviour in C: such a run yields `none`.
* `vterm_screen_flush_damage`, `damagerect` and `moverect_user` call each
  other.  The recursion is unfolded by a fuel counter; `none` is also the
  result of a run that needs more nested calls than the fuel allows.
* Calls made to the host are recorded in `trace`, in call order.
-/

set_option linter.unusedVariables false

namespace Screen

/-! ## Data model -/

/-- Modelled from the spec: the constant `VTERM_MAX_CHARS_PER_CELL` of `vterm.h`
(not under `src/`); the spec gives it as six codepoints per cell. -/
def VTERM_MAX_CHARS_PER_CELL : Nat := 6

/-- The marker `(uint32_t)-1` stored in `chars[0]` of the trailing half of a
double-width glyph. -/
def WIDE_CONT : Nat := 4294967295

def UNICODE_SPACE : Nat := 0x20

def UNICODE_LINEFEED : Nat := 0x0a

/-- Modelled from the spec: `VTermPos` of `vterm.h`, a row and a column. -/
structure VTermPos where
  row : Int
  col : Int
deriving DecidableEq, Repr

/-- Modelled from the spec: `VTermRect` of `vterm.h`, half-open in both
directions. -/
structure VTermRect where
  start_row : Int
  end_row : Int
  start_col : Int
  end_col : Int
deriving DecidableEq, Repr

/-- Modelled from the spec: `VTermColor` of `vterm.h`, a type tag and three
bytes of payload. -/
structure VTermColor where
  type : Nat
  red : Nat
  green : Nat
  blue : Nat
deriving DecidableEq, Repr

/-- The type `ScreenPen` (screen.c lines 23-43).  Bit-fields are naturals; the
width of a field is applied where a value is stored into it. -/
structure ScreenPen where
  fg : VTermColor
  bg : VTermColor
  bold : Nat
  underline : Nat
  italic : Nat
  blink : Nat
  reverse : Nat
  conceal : Nat
  strike : Nat
  font : Nat
  small : Nat
  baseline : Nat
  protected_cell : Nat
  dwl : Nat
  dhl : Nat
deriving DecidableEq, Repr

/-- The type `ScreenCell` (screen.c lines 46-50): `chars` is the array of
`VTERM_MAX_CHARS_PER_CELL` codepoints. -/
structure ScreenCell where
  chars : List Nat
  pen : ScreenPen
deriving DecidableEq, Repr

instance : Inhabited VTermColor := ⟨⟨0, 0, 0, 0⟩⟩

instance : Inhabited ScreenPen := ⟨⟨default, default, 0, 0, 0, 0, 0, 0, 0, 0, 0, 0, 0, 0, 0⟩⟩

/-- The codepoint in `chars[0]` of a cell. -/
def ScreenCell.char0 (c : ScreenCell) : Nat := c.chars.getD 0 0

/-- Modelled from the spec: `VTermLineInfo` of `vterm.h`, the per-row flags
shared with the state layer. -/
structure VTermLineInfo where
  doublewidth : Nat
  doubleheight : Nat
  continuation : Nat
deriving DecidableEq, Repr

/-- Modelled from the spec: `VTermGlyphInfo` of `vterm.h`.  `chars` is the
zero-terminated codepoint array the state layer hands over: the list is what
precedes the terminator. -/
structure VTermGlyphInfo where
  chars : List Nat
  width : Int
  protected_cell : Nat
  dwl : Nat
  dhl : Nat
deriving DecidableEq, Repr

/-- Modelled from the spec: the four damage-merge levels of `VTermDamageSize`. -/
inductive VTermDamageSize where
  | CELL
  | ROW
  | SCREEN
  | SCROLL
deriving DecidableEq, Repr

/-- Index into `buffers[]`: which of the two grids `screen->buffer` points to. -/
inductive BufIdx where
  | PRIMARY
  | ALTSCREEN
deriving DecidableEq, Repr

/-- Modelled from the spec: the attribute record of the external cell
(`VTermScreenCellAttrs` of `vterm.h`). -/
structure VTermScreenCellAttrs where
  bold : Nat
  underline : Nat
  italic : Nat
  blink : Nat
  reverse : Nat
  conceal : Nat
  strike : Nat
  font : Nat
  dwl : Nat
  dhl : Nat
  small : Nat
  baseline : Nat
deriving DecidableEq, Repr

/-- Modelled from the spec: the external cell `VTermScreenCell` of `vterm.h`. -/
structure VTermScreenCell where
  chars : List Nat
  width : Int
  attrs : VTermScreenCellAttrs
  fg : VTermColor
  bg : VTermColor
deriving DecidableEq, Repr

/-- Modelled from the spec: `VTermValue` of `vterm.h`; the member a callback
reads is the one that belongs to the attribute. -/
structure VTermValue where
  boolean : Int
  number : Int
  color : VTermColor
deriving DecidableEq, Repr

/-- Modelled from the spec: the terminal properties of `VTermProp` (`vterm.h`).
The screen acts on `ALTSCREEN` and `REVERSE`; every other property, here
`OTHER` with its number, is only passed on. -/
inductive VTermProp where
  | ALTSCREEN
  | REVERSE
  | OTHER (tag : Nat)
deriving DecidableEq, Repr

/-- A call made to a host callback.  A push of a row to the scrollback carries
the `cols` cells the host can read through the pointer it is given. -/
inductive HostEvent where
  | damage (rect : VTermRect)
  | moverect (dest : VTermRect) (src : VTermRect)
  | settermprop (prop : VTermProp) (val : VTermValue)
  | sb_pushline (cols : Int) (cells : List VTermScreenCell)
  | sb_pushline4 (cols : Int) (cells : List VTermScreenCell) (continuation : Bool)
  | sb_peek
  | sb_popline (cols : Int)
  | resize (rows : Int) (cols : Int)
deriving DecidableEq, Repr

/-- The host's callback table.  `damage`, `sb_pushline` and `sb_pushline4` tell
whether the slot is non-NULL (the screen ignores what the last two return); a
registered `moverect`, `settermprop` or `resize` is the host's answer, which
may depend on the calls it has seen so far.  A registered `sb_peek` answers
with its return value and with what it leaves in `*cols` and `*continuation`,
given what they held; a registered `sb_popline` answers with its return value
and the cells it writes to the head of the buffer it is handed. -/
structure VTermScreenCallbacks where
  damage : Bool
  moverect : Option (List HostEvent → VTermRect → VTermRect → Int)
  settermprop : Option (List HostEvent → VTermProp → VTermValue → Int)
  sb_pushline : Bool
  sb_pushline4 : Bool
  sb_peek : Option (List HostEvent → Int → Bool → Int × Int × Bool)
  sb_popline : Option (List HostEvent → Int → Int × List VTermScreenCell)
  resize : Option (List HostEvent → Int → Int → Int)

/-- The type `struct VTermScreen` (screen.c lines 52-85), with the fields of
the state layer the screen reads (`state->rows` and the line-info array of the
active buffer) and the trace of host calls. -/
structure VTermScreen where
  callbacks : Option VTermScreenCallbacks
  callbacks_has_pushline4 : Bool
  damage_merge : VTermDamageSize
  damaged : VTermRect
  pending_scrollrect : VTermRect
  pending_scroll_downward : Int
  pending_scroll_rightward : Int
  rows : Int
  cols : Int
  global_reverse : Nat
  reflow : Nat
  with_conpty : Nat
  buffers_primary : List ScreenCell
  buffers_altscreen : Option (List ScreenCell)
  buffer : BufIdx
  sb_buffer : List VTermScreenCell
  pen : ScreenPen
  state_rows : Int
  lineinfo : List VTermLineInfo
  trace : List HostEvent

/-! ## Rectangles -/

/-- Modelled from the spec: `rect_expand` of `rect.h` (not under `src/`), which
grows `dst` to the bounding rectangle of `dst` and `src`. -/
def rect_expand (dst src : VTermRect) : VTermRect :=
  { start_row := if dst.start_row > src.start_row then src.start_row else dst.start_row
    start_col := if dst.start_col > src.start_col then src.start_col else dst.start_col
    end_row := if dst.end_row < src.end_row then src.end_row else dst.end_row
    end_col := if dst.end_col < src.end_col then src.end_col else dst.end_col }

/-- Modelled from the spec: `rect_clip` of `rect.h` (not under `src/`), which
clips `dst` to `bounds` and never leaves it negatively sized. -/
def rect_clip (dst bounds : VTermRect) : VTermRect :=
  let sr := if dst.start_row < bounds.start_row then bounds.start_row else dst.start_row
  let sc := if dst.start_col < bounds.start_col then bounds.start_col else dst.start_col
  let er := if dst.end_row > bounds.end_row then bounds.end_row else dst.end_row
  let ec := if dst.end_col > bounds.end_col then bounds.end_col else dst.end_col
  { start_row := sr
    start_col := sc
    end_row := if er < sr then sr else er
    end_col := if ec < sc then sc else ec }

/-- Modelled from the spec: `rect_equal` of `rect.h` (not under `src/`). -/
def rect_equal (a b : VTermRect) : Bool :=
  decide (a.start_row = b.start_row ∧ a.start_col = b.start_col ∧
    a.end_row = b.end_row ∧ a.end_col = b.end_col)

/-- Modelled from the spec: `rect_contains` of `rect.h` (not under `src/`):
`small` lies entirely within `big`. -/
def rect_contains (big small : VTermRect) : Bool :=
  decide (big.start_row ≤ small.start_row ∧ big.start_col ≤ small.start_col ∧
    small.end_row ≤ big.end_row ∧ small.end_col ≤ big.end_col)

/-- Modelled from the spec: `rect_intersects` of `rect.h` (not under `src/`):
the two rectangles overlap or touch. -/
def rect_intersects (a b : VTermRect) : Bool :=
  if a.start_row > b.end_row ∨ b.start_row > a.end_row then false
  else if a.start_col > b.end_col ∨ b.start_col > a.end_col then false
  else true

/-- Modelled from the spec: `vterm_rect_move` of `vterm.h` (not under `src/`),
a translation of the rectangle. -/
def vterm_rect_move (rect : VTermRect) (row_delta col_delta : Int) : VTermRect :=
  { start_row := rect.start_row + row_delta
    end_row := rect.end_row + row_delta
    start_col := rect.start_col + col_delta
    end_col := rect.end_col + col_delta }

/-! ## Loops and cell access -/

/-- A counted loop: `n` iterations of `body`, the loop variable starting at `i`
and moving by `inc` after each iteration. -/
def forLoop {σ : Type} : Nat → Int → Int → (Int → σ → Option σ) → σ → Option σ
  | 0, _, _, _, s => some s
  | n + 1, i, inc, body, s => (body i s).bind (forLoop n (i + inc) inc body)

/-- The cells of the active buffer, `screen->buffer`; `none` when it points to
the alternate buffer and that one is not allocated. -/
def VTermScreen.cells (s : VTermScreen) : Option (List ScreenCell) :=
  match s.buffer with
  | BufIdx.PRIMARY => some s.buffers_primary
  | BufIdx.ALTSCREEN => s.buffers_altscreen

/-- Replace the cells of the active buffer. -/
def VTermScreen.setCells (s : VTermScreen) (b : List ScreenCell) : VTermScreen :=
  match s.buffer with
  | BufIdx.PRIMARY => { s with buffers_primary := b }
  | BufIdx.ALTSCREEN => { s with buffers_altscreen := some b }

/-- The function `getcell` (screen.c lines 93-100): the offset of the cell in the
active buffer, `none` for a position off the grid. -/
def getcell (s : VTermScreen) (row col : Int) : Option Nat :=
  if row < 0 ∨ row ≥ s.rows then none
  else if col < 0 ∨ col ≥ s.cols then none
  else some (s.cols * row + col).toNat

/-- Read through a cell pointer. -/
def readcell (s : VTermScreen) (p : Option Nat) : Option ScreenCell :=
  match p, s.cells with
  | some i, some b => b[i]?
  | _, _ => none

/-- Write through a cell pointer. -/
def writecell (s : VTermScreen) (p : Option Nat) (c : ScreenCell) : Option VTermScreen :=
  match p, s.cells with
  | some i, some b => if i < b.length then some (s.setCells (b.set i c)) else none
  | _, _ => none

/-- Read-modify-write through a cell pointer. -/
def modifycell (s : VTermScreen) (p : Option Nat) (f : ScreenCell → ScreenCell) :
    Option VTermScreen :=
  (readcell s p).bind (fun c => writecell s p (f c))

/-- The cell the grid shows at a position: `getcell` followed by a read. -/
def cellAt (s : VTermScreen) (row col : Int) : Option ScreenCell :=
  readcell s (getcell s row col)

/-- Walk over the buffer from offset `i`, replacing each cell in
`[dst, dst + n)` by the cell the original buffer `b` holds `src - dst` further. -/
def memmove_go (b : List ScreenCell) (dst src n : Nat) : Nat → List ScreenCell → List ScreenCell
  | _, [] => []
  | i, c :: rest =>
    (if dst ≤ i ∧ i < dst + n then (b[src + (i - dst)]?).getD c else c) ::
      memmove_go b dst src n (i + 1) rest

/-- The C library's `memmove` on cells of one buffer: `n` cells from offset
`src` to offset `dst`, as if through a temporary copy. -/
def memmove_list (b : List ScreenCell) (dst src n : Nat) : List ScreenCell :=
  memmove_go b dst src n 0 b

/-- The function `clearcell` (screen.c lines 87-91): only `chars[0]` is reset, the
pen is left as it is. -/
def clearcell (cell : ScreenCell) : ScreenCell :=
  { cell with chars := cell.chars.set 0 0 }

/-! ## Scrolling and the damage accumulator -/

/-- The rectangle `dest` computed by `vterm_scroll_rect`: where the surviving
cells end up. -/
def scroll_dest (rect : VTermRect) (downward rightward : Int) : VTermRect :=
  { start_row := if downward ≥ 0 then rect.start_row else rect.start_row + -downward
    end_row := if downward ≥ 0 then rect.end_row - downward else rect.end_row
    start_col := if rightward ≥ 0 then rect.start_col else rect.start_col + -rightward
    end_col := if rightward ≥ 0 then rect.end_col - rightward else rect.end_col }

/-- The rectangle `src` computed by `vterm_scroll_rect`: where the surviving
cells come from. -/
def scroll_src (rect : VTermRect) (downward rightward : Int) : VTermRect :=
  { start_row := if downward ≥ 0 then rect.start_row + downward else rect.start_row
    end_row := if downward ≥ 0 then rect.end_row else rect.end_row - -downward
    start_col := if rightward ≥ 0 then rect.start_col + rightward else rect.start_col
    end_col := if rightward ≥ 0 then rect.end_col else rect.end_col - -rightward }

/-- The strip `vterm_scroll_rect` erases after the move: `rect` cut down to the
rows, then to the columns, that the scroll vacates. -/
def scroll_gap (rect : VTermRect) (downward rightward : Int) : VTermRect :=
  let rect1 : VTermRect :=
    if downward > 0 then { rect with start_row := rect.end_row - downward }
    else if downward < 0 then { rect with end_row := rect.start_row - downward }
    else rect
  if rightward > 0 then { rect1 with start_col := rect1.end_col - rightward }
  else if rightward < 0 then { rect1 with end_col := rect1.start_col - rightward }
  else rect1

/-- The test `vterm_scroll_rect` starts with: the scroll is by at least the
height or the width of the rectangle. -/
def scroll_big (rect : VTermRect) (downward rightward : Int) : Prop :=
  |downward| ≥ rect.end_row - rect.start_row ∨ |rightward| ≥ rect.end_col - rect.start_col

instance (rect : VTermRect) (downward rightward : Int) :
    Decidable (scroll_big rect downward rightward) := by
  unfold scroll_big; infer_instance

/-- Modelled from the spec: `vterm_scroll_rect` of `vterm.c` (not under `src/`).
A scroll by at least the height or width of the rectangle erases the whole
rectangle; any other scroll moves the surviving part by `(downward, rightward)`
cells through `moverect` and erases the vacated strip through `eraserect`. -/
def vterm_scroll_rect {σ : Type} (rect : VTermRect) (downward rightward : Int)
    (moverect : Option (VTermRect → VTermRect → σ → Option σ))
    (eraserect : VTermRect → Int → σ → Option σ) (s : σ) : Option σ :=
  if scroll_big rect downward rightward then
    eraserect rect 0 s
  else
    (match moverect with
      | some mv => mv (scroll_dest rect downward rightward) (scroll_src rect downward rightward) s
      | none => some s).bind (eraserect (scroll_gap rect downward rightward) 0)

/-- The call `(*screen->callbacks->damage)(emit, ...)` under its guard
(screen.c lines 168-169 and 1540-1541). -/
def emit_damage (s : VTermScreen) (emit : VTermRect) : VTermScreen :=
  match s.callbacks with
  | some cb => if cb.damage then { s with trace := s.trace ++ [HostEvent.damage emit] } else s
  | none => s

/-- The function `damagerect` (screen.c lines 115-170); `flush` stands for the
call of `vterm_screen_flush_damage`. -/
def damagerect (flush : VTermScreen → Option VTermScreen) (s : VTermScreen) (rect : VTermRect) :
    Option VTermScreen :=
  match s.damage_merge with
  | VTermDamageSize.CELL => some (emit_damage s rect)
  | VTermDamageSize.ROW =>
    if rect.end_row > rect.start_row + 1 then
      (flush s).bind (fun s1 => some (emit_damage s1 rect))
    else if s.damaged.start_row = -1 then
      some { s with damaged := rect }
    else if rect.start_row = s.damaged.start_row then
      let d1 : VTermRect :=
        if s.damaged.start_col > rect.start_col then
          { s.damaged with start_col := rect.start_col } else s.damaged
      let d2 : VTermRect :=
        if d1.end_col < rect.end_col then { d1 with end_col := rect.end_col } else d1
      some { s with damaged := d2 }
    else
      some (emit_damage { s with damaged := rect } s.damaged)
  | VTermDamageSize.SCREEN | VTermDamageSize.SCROLL =>
    if s.damaged.start_row = -1 then some { s with damaged := rect }
    else some { s with damaged := rect_expand s.damaged rect }

/-- The function `moverect_user` (screen.c lines 288-304). -/
def moverect_user (flush : VTermScreen → Option VTermScreen) (dest src : VTermRect)
    (s : VTermScreen) : Option VTermScreen :=
  match s.callbacks.bind (fun cb => cb.moverect) with
  | some host =>
    (if s.damage_merge ≠ VTermDamageSize.SCROLL then flush s else some s).bind (fun s1 =>
      let handled := host s1.trace dest src
      let s2 := { s1 with trace := s1.trace ++ [HostEvent.moverect dest src] }
      if handled ≠ 0 then some s2 else damagerect flush s2 dest)
  | none => damagerect flush s dest

/-- The function `erase_user` (screen.c lines 333-340). -/
def erase_user (flush : VTermScreen → Option VTermScreen) (rect : VTermRect) (_selective : Int)
    (s : VTermScreen) : Option VTermScreen :=
  damagerect flush s rect

/-- The first half of `vterm_screen_flush_damage` (screen.c lines 1532-1537):
replay the deferred scroll to the host and forget it. -/
def flush_pending (flush : VTermScreen → Option VTermScreen) (s : VTermScreen) :
    Option VTermScreen :=
  if s.pending_scrollrect.start_row ≠ -1 then
    (vterm_scroll_rect s.pending_scrollrect s.pending_scroll_downward
      s.pending_scroll_rightward (some (moverect_user flush)) (erase_user flush) s).bind
      (fun s1 => some { s1 with pending_scrollrect := { s1.pending_scrollrect with start_row := -1 } })
  else some s

/-- The second half of `vterm_screen_flush_damage` (screen.c lines 1539-1544):
emit the stored damage and forget it. -/
def flush_damaged (s : VTermScreen) : VTermScreen :=
  if s.damaged.start_row ≠ -1 then
    let s3 := emit_damage s s.damaged
    { s3 with damaged := { s3.damaged with start_row := -1 } }
  else s

/-- The body of `vterm_screen_flush_damage` (screen.c lines 1530-1545); `flush`
stands for the nested calls of the function itself. -/
def flush_damage_body (flush : VTermScreen → Option VTermScreen) (s : VTermScreen) :
    Option VTermScreen :=
  (flush_pending flush s).bind (fun s2 => some (flush_damaged s2))

/-- The function `vterm_screen_flush_damage` (screen.c lines 1530-1545), with
the depth of nested calls bounded by the fuel. -/
def vterm_screen_flush_damage : Nat → VTermScreen → Option VTermScreen
  | 0, _ => none
  | fuel + 1, s => flush_damage_body (vterm_screen_flush_damage fuel) s

/-- The function `damagescreen` (screen.c lines 172-182). -/
def damagescreen (fuel : Nat) (s : VTermScreen) : Option VTermScreen :=
  damagerect (vterm_screen_flush_damage fuel) s
    { start_row := 0, end_row := s.rows, start_col := 0, end_col := s.cols }

/-- The function `vterm_screen_set_damage_merge` (screen.c lines 1547-1551). -/
def vterm_screen_set_damage_merge (fuel : Nat) (s : VTermScreen) (size : VTermDamageSize) :
    Option VTermScreen :=
  (vterm_screen_flush_damage fuel s).bind (fun s1 => some { s1 with damage_merge := size })

/-! ## Sink callbacks -/

/-- The copying loop of `putglyph` (screen.c lines 193-196): while `i` is below
the bound and `info->chars[i]` is not zero, store the codepoint and the pen.
Returns the final `i` with the cell. -/
def putglyph_copy (chars : List Nat) (pen : ScreenPen) : Nat → Nat → ScreenCell → Nat × ScreenCell
  | 0, i, cell => (i, cell)
  | fuel + 1, i, cell =>
    if chars.getD i 0 ≠ 0 then
      putglyph_copy chars pen fuel (i + 1) { chars := cell.chars.set i (chars.getD i 0), pen := pen }
    else (i, cell)

/-- The lines 193-198 of screen.c applied to the cell at `pos`. -/
def putglyph_cell (chars : List Nat) (pen : ScreenPen) (cell : ScreenCell) : ScreenCell :=
  let r := putglyph_copy chars pen VTERM_MAX_CHARS_PER_CELL 0 cell
  if r.1 < VTERM_MAX_CHARS_PER_CELL then { r.2 with chars := r.2.chars.set r.1 0 } else r.2

/-- The store of the marker into `chars[0]` (screen.c line 201). -/
def mark_wide (c : ScreenCell) : ScreenCell :=
  { c with chars := c.chars.set 0 WIDE_CONT }

/-- The stores of screen.c lines 210-212 into the pen of the cell. -/
def set_glyph_flags (info : VTermGlyphInfo) (c : ScreenCell) : ScreenCell :=
  { c with pen := { c.pen with protected_cell := info.protected_cell % 2
                               dwl := info.dwl % 2
                               dhl := info.dhl % 4 } }

/-- The rectangle `putglyph` reports as damaged (screen.c lines 203-208). -/
def glyph_rect (info : VTermGlyphInfo) (pos : VTermPos) : VTermRect :=
  { start_row := pos.row, end_row := pos.row + 1
    start_col := pos.col, end_col := pos.col + info.width }

/-- The function `putglyph` (screen.c lines 184-217).  Returns the screen and
the C return value. -/
def putglyph (fuel : Nat) (info : VTermGlyphInfo) (pos : VTermPos) (s : VTermScreen) :
    Option (VTermScreen × Int) :=
  let cell := getcell s pos.row pos.col
  match cell with
  | none => some (s, 0)
  | some _ =>
    (modifycell s cell (putglyph_cell info.chars s.pen)).bind fun s1 =>
    (forLoop (info.width - 1).toNat 1 1 (fun col st =>
      modifycell st (getcell st pos.row (pos.col + col)) mark_wide) s1).bind fun s2 =>
    (modifycell s2 cell (set_glyph_flags info)).bind fun s3 =>
    (damagerect (vterm_screen_flush_damage fuel) s3 (glyph_rect info pos)).bind fun s4 =>
      some (s4, 1)

/-- Modelled from the spec: `vterm_state_get_lineinfo` of `state.c` (not under
`src/`), the line-info record of a row of the active buffer. -/
def vterm_state_get_lineinfo (s : VTermScreen) (row : Int) : Option VTermLineInfo :=
  if row < 0 then none else s.lineinfo[row.toNat]?

/-- The pen an erased cell receives (screen.c lines 320-326). -/
def erased_pen (pen : ScreenPen) (info : VTermLineInfo) : ScreenPen :=
  { fg := pen.fg, bg := pen.bg
    bold := 0, underline := 0, italic := 0, blink := 0, reverse := 0, conceal := 0
    strike := 0, font := 0, small := 0, baseline := 0, protected_cell := 0
    dwl := info.doublewidth % 2, dhl := info.doubleheight % 4 }

/-- The body of the inner loop of `erase_internal` (screen.c lines 314-326). -/
def erase_cell (selective : Int) (row col : Int) (s : VTermScreen) : Option VTermScreen :=
  let cell := getcell s row col
  (readcell s cell).bind fun c =>
    if selective ≠ 0 ∧ c.pen.protected_cell ≠ 0 then some s
    else
      (vterm_state_get_lineinfo s row).bind fun info =>
        writecell s cell { chars := c.chars.set 0 0, pen := erased_pen s.pen info }

/-- The function `erase_internal` (screen.c lines 306-331). -/
def erase_internal (rect : VTermRect) (selective : Int) (s : VTermScreen) : Option VTermScreen :=
  forLoop (min s.state_rows rect.end_row - rect.start_row).toNat rect.start_row 1
    (fun row st =>
      forLoop (rect.end_col - rect.start_col).toNat rect.start_col 1
        (fun col st2 => erase_cell selective row col st2) st) s

/-- The function `erase` (screen.c lines 342-346). -/
def erase (fuel : Nat) (rect : VTermRect) (selective : Int) (s : VTermScreen) :
    Option (VTermScreen × Int) :=
  (erase_internal rect selective s).bind fun s1 =>
    (erase_user (vterm_screen_flush_damage fuel) rect 0 s1).bind fun s2 => some (s2, 1)

/-- The call of `memmove` on `n` cells between two cell pointers of the active
buffer. -/
def memmove_cells (s : VTermScreen) (dst src : Option Nat) (n : Int) : Option VTermScreen :=
  match dst, src, s.cells with
  | some d, some r, some b =>
    if 0 ≤ n ∧ d + n.toNat ≤ b.length ∧ r + n.toNat ≤ b.length then
      some (s.setCells (memmove_list b d r n.toNat))
    else none
  | _, _, _ => none

/-- The function `moverect_internal` (screen.c lines 261-286).  The loop
`for(row = init_row; row != test_row; row += inc_row)` makes
`(test_row - init_row) * inc_row` iterations when that is not negative, and
otherwise walks off the grid. -/
def moverect_internal (dest src : VTermRect) (s : VTermScreen) : Option VTermScreen :=
  let cols := src.end_col - src.start_col
  let downward := src.start_row - dest.start_row
  let init_row := if downward < 0 then dest.end_row - 1 else dest.start_row
  let test_row := if downward < 0 then dest.start_row - 1 else dest.end_row
  let inc_row : Int := if downward < 0 then -1 else 1
  if (test_row - init_row) * inc_row < 0 then none
  else
    forLoop ((test_row - init_row) * inc_row).toNat init_row inc_row
      (fun row st =>
        memmove_cells st (getcell st row dest.start_col)
          (getcell st (row + downward) src.start_col) cols) s

/-- The adjustment of the pending damage at the end of `scrollrect` (screen.c
lines 394-427). -/
def scrollrect_adjust (rect : VTermRect) (downward rightward : Int) (damaged : VTermRect) :
    VTermRect :=
  if rect_contains rect damaged then
    rect_clip (vterm_rect_move damaged (-downward) (-rightward)) rect
  else if rect.start_col ≤ damaged.start_col ∧ rect.end_col ≥ damaged.end_col ∧
      rightward = 0 then
    let d1 : VTermRect :=
      if damaged.start_row ≥ rect.start_row ∧ damaged.start_row < rect.end_row then
        let r0 := damaged.start_row - downward
        let r1 := if r0 < rect.start_row then rect.start_row else r0
        let r2 := if r1 > rect.end_row then rect.end_row else r1
        { damaged with start_row := r2 }
      else damaged
    if d1.end_row ≥ rect.start_row ∧ d1.end_row < rect.end_row then
      let r0 := d1.end_row - downward
      let r1 := if r0 < rect.start_row then rect.start_row else r0
      let r2 := if r1 > rect.end_row then rect.end_row else r1
      { d1 with end_row := r2 }
    else d1
  else damaged

/-- The function `scrollrect` (screen.c lines 348-430). -/
def scrollrect (fuel : Nat) (rect : VTermRect) (downward rightward : Int) (s : VTermScreen) :
    Option (VTermScreen × Int) :=
  let flush := vterm_screen_flush_damage fuel
  if s.damage_merge ≠ VTermDamageSize.SCROLL then
    (vterm_scroll_rect rect downward rightward (some moverect_internal) erase_internal s).bind
      fun s1 =>
    (flush s1).bind fun s2 =>
    (vterm_scroll_rect rect downward rightward (some (moverect_user flush))
      (erase_user flush) s2).bind fun s3 => some (s3, 1)
  else
    (if s.damaged.start_row ≠ -1 ∧ ¬ rect_intersects rect s.damaged then flush s
      else some s).bind fun s1 =>
    (if s1.pending_scrollrect.start_row = -1 then
      some { s1 with pending_scrollrect := rect
                     pending_scroll_downward := downward
                     pending_scroll_rightward := rightward }
    else if rect_equal s1.pending_scrollrect rect ∧
        ((s1.pending_scroll_downward = 0 ∧ downward = 0) ∨
          (s1.pending_scroll_rightward = 0 ∧ rightward = 0)) then
      some { s1 with pending_scroll_downward := s1.pending_scroll_downward + downward
                     pending_scroll_rightward := s1.pending_scroll_rightward + rightward }
    else
      (flush s1).bind fun s1f =>
        some { s1f with pending_scrollrect := rect
                        pending_scroll_downward := downward
                        pending_scroll_rightward := rightward }).bind fun s2 =>
    (vterm_scroll_rect rect downward rightward (some moverect_internal) erase_internal s2).bind
      fun s3 =>
    if s3.damaged.start_row = -1 then some (s3, 1)
    else some ({ s3 with damaged := scrollrect_adjust rect downward rightward s3.damaged }, 1)

/-- Modelled from the spec: the attribute tags of `VTermAttr` (`vterm.h`), one
per pen field the spec lists, and the count `VTERM_N_ATTRS`. -/
inductive VTermAttr where
  | BOLD
  | UNDERLINE
  | ITALIC
  | BLINK
  | REVERSE
  | CONCEAL
  | STRIKE
  | FONT
  | FOREGROUND
  | BACKGROUND
  | SMALL
  | BASELINE
  | N_ATTRS
deriving DecidableEq, Repr

/-- The function `setpenattr` (screen.c lines 442-489). -/
def setpenattr (attr : VTermAttr) (val : VTermValue) (s : VTermScreen) : VTermScreen × Int :=
  match attr with
  | VTermAttr.BOLD => ({ s with pen := { s.pen with bold := (val.boolean % 2).toNat } }, 1)
  | VTermAttr.UNDERLINE => ({ s with pen := { s.pen with underline := (val.number % 4).toNat } }, 1)
  | VTermAttr.ITALIC => ({ s with pen := { s.pen with italic := (val.boolean % 2).toNat } }, 1)
  | VTermAttr.BLINK => ({ s with pen := { s.pen with blink := (val.boolean % 2).toNat } }, 1)
  | VTermAttr.REVERSE => ({ s with pen := { s.pen with reverse := (val.boolean % 2).toNat } }, 1)
  | VTermAttr.CONCEAL => ({ s with pen := { s.pen with conceal := (val.boolean % 2).toNat } }, 1)
  | VTermAttr.STRIKE => ({ s with pen := { s.pen with strike := (val.boolean % 2).toNat } }, 1)
  | VTermAttr.FONT => ({ s with pen := { s.pen with font := (val.number % 16).toNat } }, 1)
  | VTermAttr.FOREGROUND => ({ s with pen := { s.pen with fg := val.color } }, 1)
  | VTermAttr.BACKGROUND => ({ s with pen := { s.pen with bg := val.color } }, 1)
  | VTermAttr.SMALL => ({ s with pen := { s.pen with small := (val.boolean % 2).toNat } }, 1)
  | VTermAttr.BASELINE => ({ s with pen := { s.pen with baseline := (val.number % 4).toNat } }, 1)
  | VTermAttr.N_ATTRS => (s, 0)

/-- The store into the pen of a cell in `setlineinfo` (screen.c lines 1249-1250). -/
def set_line_flags (newinfo : VTermLineInfo) (c : ScreenCell) : ScreenCell :=
  { c with pen := { c.pen with dwl := newinfo.doublewidth % 2
                               dhl := newinfo.doubleheight % 4 } }

/-- The function `setlineinfo` (screen.c lines 1241-1270). -/
def setlineinfo (fuel : Nat) (row : Int) (newinfo oldinfo : VTermLineInfo) (s : VTermScreen) :
    Option (VTermScreen × Int) :=
  if newinfo.doublewidth ≠ oldinfo.doublewidth ∨
      newinfo.doubleheight ≠ oldinfo.doubleheight then
    (forLoop s.cols.toNat 0 1 (fun col st =>
      modifycell st (getcell st row col) (set_line_flags newinfo)) s).bind
      fun s1 =>
    let rect : VTermRect :=
      { start_row := row, end_row := row + 1, start_col := 0
        end_col := if newinfo.doublewidth ≠ 0 then s1.cols.tdiv 2 else s1.cols }
    (damagerect (vterm_screen_flush_damage fuel) s1 rect).bind fun s2 =>
    if newinfo.doublewidth ≠ 0 then
      (erase_internal { rect with start_col := s2.cols.tdiv 2, end_col := s2.cols } 0 s2).bind
        fun s3 => some (s3, 1)
    else some (s2, 1)
  else some (s, 1)

/-- The call `(*screen->callbacks->settermprop)(prop, val, ...)` under its guard
(screen.c lines 514-517): the screen with the call recorded, and the C return
value, which is the host's answer or 1. -/
def settermprop_forward (prop : VTermProp) (val : VTermValue) (s : VTermScreen) :
    VTermScreen × Int :=
  match s.callbacks.bind (fun cb => cb.settermprop) with
  | some host =>
    ({ s with trace := s.trace ++ [HostEvent.settermprop prop val] }, host s.trace prop val)
  | none => (s, 1)

/-- The function `settermprop` (screen.c lines 491-519). -/
def settermprop (fuel : Nat) (prop : VTermProp) (val : VTermValue) (s : VTermScreen) :
    Option (VTermScreen × Int) :=
  match prop with
  | VTermProp.ALTSCREEN =>
    if val.boolean ≠ 0 ∧ s.buffers_altscreen = none then some (s, 0)
    else
      let s1 : VTermScreen :=
        { s with buffer := if val.boolean ≠ 0 then BufIdx.ALTSCREEN else BufIdx.PRIMARY }
      (if val.boolean = 0 then damagescreen fuel s1 else some s1).map
        (settermprop_forward prop val)
  | VTermProp.REVERSE =>
    (damagescreen fuel { s with global_reverse := (val.boolean % 2).toNat }).map
      (settermprop_forward prop val)
  | VTermProp.OTHER _ => some (settermprop_forward prop val s)

/-! ## Queries -/

/-- The copying loop of `vterm_screen_get_cell` (screen.c lines 1423-1427): copy
codepoints up to and including the first zero. -/
def get_cell_copy (src : List Nat) : Nat → Nat → List Nat → List Nat
  | 0, _, dst => dst
  | fuel + 1, i, dst =>
    if src.getD i 0 = 0 then dst.set i (src.getD i 0)
    else get_cell_copy src fuel (i + 1) (dst.set i (src.getD i 0))

/-- The copying part of `vterm_screen_get_cell` (screen.c lines 1423-1444):
codepoints, attributes and colours of the internal cell written over the
external one; `width` is set afterwards. -/
def get_cell_fields (s : VTermScreen) (intcell : ScreenCell) (cell : VTermScreenCell) :
    VTermScreenCell :=
  { chars := get_cell_copy intcell.chars VTERM_MAX_CHARS_PER_CELL 0 cell.chars
    width := cell.width
    attrs :=
      { bold := intcell.pen.bold, underline := intcell.pen.underline
        italic := intcell.pen.italic, blink := intcell.pen.blink
        reverse := (intcell.pen.reverse ^^^ s.global_reverse) % 2
        conceal := intcell.pen.conceal, strike := intcell.pen.strike
        font := intcell.pen.font, small := intcell.pen.small
        baseline := intcell.pen.baseline
        dwl := intcell.pen.dwl, dhl := intcell.pen.dhl }
    fg := intcell.pen.fg, bg := intcell.pen.bg }

/-- The function `vterm_screen_get_cell` (screen.c lines 1417-1453): the cell
written through the out-pointer and the C return value. -/
def vterm_screen_get_cell (s : VTermScreen) (pos : VTermPos) (cell : VTermScreenCell) :
    Option (VTermScreenCell × Int) :=
  match getcell s pos.row pos.col with
  | none => some (cell, 0)
  | some p =>
    (readcell s (some p)).bind fun intcell =>
    let out := get_cell_fields s intcell cell
    if pos.col < s.cols - 1 then
      (readcell s (getcell s pos.row (pos.col + 1))).bind fun right =>
        if right.char0 = WIDE_CONT then some ({ out with width := 2 }, 1)
        else some ({ out with width := 1 }, 1)
    else some ({ out with width := 1 }, 1)

/-- Modelled from the spec: `VTermAttrMask` of `vterm.h`, the set of attributes
a caller selects; one flag for each mask bit `attrs_differ` tests. -/
structure VTermAttrMask where
  bold : Bool
  underline : Bool
  italic : Bool
  blink : Bool
  reverse : Bool
  conceal : Bool
  strike : Bool
  font : Bool
  foreground : Bool
  background : Bool
  small : Bool
  baseline : Bool
deriving DecidableEq, Repr

/-- The tests of `attrs_differ` (screen.c lines 1555-1578) on the pens of two
cells.  `color_is_equal` stands for `vterm_color_is_equal` of `pen.c`, which
is not under `src/`: nothing is assumed of it. -/
def pens_differ (color_is_equal : VTermColor → VTermColor → Bool) (attrs : VTermAttrMask)
    (a b : ScreenPen) : Bool :=
  if attrs.bold ∧ a.bold ≠ b.bold then true
  else if attrs.underline ∧ a.underline ≠ b.underline then true
  else if attrs.italic ∧ a.italic ≠ b.italic then true
  else if attrs.blink ∧ a.blink ≠ b.blink then true
  else if attrs.reverse ∧ a.reverse ≠ b.reverse then true
  else if attrs.conceal ∧ a.conceal ≠ b.conceal then true
  else if attrs.strike ∧ a.strike ≠ b.strike then true
  else if attrs.font ∧ a.font ≠ b.font then true
  else if attrs.foreground ∧ ¬ color_is_equal a.fg b.fg then true
  else if attrs.background ∧ ¬ color_is_equal a.bg b.bg then true
  else if attrs.small ∧ a.small ≠ b.small then true
  else if attrs.baseline ∧ a.baseline ≠ b.baseline then true
  else false

/-- Some attribute is selected by the mask. -/
def VTermAttrMask.any (attrs : VTermAttrMask) : Bool :=
  attrs.bold || attrs.underline || attrs.italic || attrs.blink || attrs.reverse ||
  attrs.conceal || attrs.strike || attrs.font || attrs.foreground || attrs.background ||
  attrs.small || attrs.baseline

/-- The function `attrs_differ` (screen.c lines 1553-1581) on two cell
pointers, given as what they point to.  The cells are read as soon as one
attribute is selected; with an empty mask nothing is read. -/
def attrs_differ (color_is_equal : VTermColor → VTermColor → Bool) (attrs : VTermAttrMask)
    (a b : Option ScreenCell) : Option Int :=
  if attrs.any then
    match a, b with
    | some x, some y => some (if pens_differ color_is_equal attrs x.pen y.pen then 1 else 0)
    | _, _ => none
  else some 0

/-- The loop `for(col = pos.col - 1; col >= extent->start_col; col--)` of
`vterm_screen_get_attrs_extent` (screen.c lines 1598-1600): the value of `col`
when the loop is left. -/
def extent_scan_left (differ : Int → Option Int) (start_col : Int) : Nat → Int → Option Int
  | 0, _ => none
  | fuel + 1, col =>
    if col ≥ start_col then
      (differ col).bind fun d =>
        if d ≠ 0 then some col else extent_scan_left differ start_col fuel (col - 1)
    else some col

/-- The loop `for(col = pos.col + 1; col < extent->end_col; col++)` of
`vterm_screen_get_attrs_extent` (screen.c lines 1603-1605): the value of `col`
when the loop is left. -/
def extent_scan_right (differ : Int → Option Int) (end_col : Int) : Nat → Int → Option Int
  | 0, _ => none
  | fuel + 1, col =>
    if col < end_col then
      (differ col).bind fun d =>
        if d ≠ 0 then some col else extent_scan_right differ end_col fuel (col + 1)
    else some col

/-- The function `vterm_screen_get_attrs_extent` (screen.c lines 1583-1609):
the extent written through the in-out pointer and the C return value.  Each
loop makes at most as many iterations as there are columns between its start
and its bound, which is what the counters passed to the loops allow. -/
def vterm_screen_get_attrs_extent (color_is_equal : VTermColor → VTermColor → Bool)
    (s : VTermScreen) (extent : VTermRect) (pos : VTermPos) (attrs : VTermAttrMask) :
    Option (VTermRect × Int) :=
  let target := readcell s (getcell s pos.row pos.col)
  let differ : Int → Option Int := fun col =>
    attrs_differ color_is_equal attrs target (readcell s (getcell s pos.row col))
  let e1 : VTermRect := { extent with start_row := pos.row, end_row := pos.row + 1 }
  let e2 : VTermRect := if e1.start_col < 0 then { e1 with start_col := 0 } else e1
  let e3 : VTermRect := if e2.end_col < 0 then { e2 with end_col := s.cols } else e2
  (extent_scan_left differ e3.start_col ((pos.col - e3.start_col).toNat + 1) (pos.col - 1)).bind
    fun col =>
  let e4 : VTermRect := { e3 with start_col := col + 1 }
  (extent_scan_right differ e4.end_col ((e4.end_col - pos.col).toNat + 1) (pos.col + 1)).bind
    fun col2 =>
  some ({ e4 with end_col := col2 - 1 }, 1)

/-- Modelled from the spec: `utf8_seqlen` of `utf8.h` (not under `src/`), the
number of bytes the UTF-8 form of a codepoint takes. -/
def utf8_seqlen (c : Nat) : Nat :=
  if c < 0x80 then 1
  else if c < 0x800 then 2
  else if c < 0x10000 then 3
  else if c < 0x200000 then 4
  else if c < 0x4000000 then 5
  else 6

/-- Modelled from the spec: `fill_utf8` of `utf8.h` (not under `src/`), the
bytes of the UTF-8 form of a codepoint, as many as `utf8_seqlen` tells; the C
function stores them and returns their number. -/
def fill_utf8 (c : Nat) : List Nat :=
  if c < 0x80 then [c]
  else if c < 0x800 then [0xc0 + c / 0x40 % 0x20, 0x80 + c % 0x40]
  else if c < 0x10000 then [0xe0 + c / 0x1000 % 0x10, 0x80 + c / 0x40 % 0x40, 0x80 + c % 0x40]
  else if c < 0x200000 then
    [0xf0 + c / 0x40000 % 0x08, 0x80 + c / 0x1000 % 0x40, 0x80 + c / 0x40 % 0x40,
      0x80 + c % 0x40]
  else if c < 0x4000000 then
    [0xf8 + c / 0x1000000 % 0x04, 0x80 + c / 0x40000 % 0x40, 0x80 + c / 0x1000 % 0x40,
      0x80 + c / 0x40 % 0x40, 0x80 + c % 0x40]
  else
    [0xfc + c / 0x40000000 % 0x02, 0x80 + c / 0x1000000 % 0x40, 0x80 + c / 0x40000 % 0x40,
      0x80 + c / 0x1000 % 0x40, 0x80 + c / 0x40 % 0x40, 0x80 + c % 0x40]

/-- The local variables of `_get_chars` (screen.c lines 1358-1359) with the
output buffer: `none` is a `NULL` buffer, a list is the memory the caller
handed over, one entry per code unit.  `padding` only ever counts up from 0
and back down to 0. -/
structure CharsOut where
  buffer : Option (List Nat)
  outpos : Nat
  padding : Nat
deriving DecidableEq, Repr

/-- Store code units into the buffer from offset `pos` on; `none` when a store
falls outside the memory of the buffer. -/
def store_units (b : List Nat) (pos : Nat) : List Nat → Option (List Nat)
  | [] => some b
  | u :: us => if pos < b.length then store_units (b.set pos u) (pos + 1) us else none

/-- The macro `PUT` of `_get_chars` (screen.c lines 1361-1374). -/
def PUT (utf8 : Bool) (len : Nat) (c : Nat) (st : CharsOut) : Option CharsOut :=
  if utf8 then
    let thislen := utf8_seqlen c
    match st.buffer with
    | some b =>
      if st.outpos + thislen ≤ len then
        (store_units b st.outpos (fill_utf8 c)).map fun b1 =>
          { st with buffer := some b1, outpos := st.outpos + (fill_utf8 c).length }
      else some { st with outpos := st.outpos + thislen }
    | none => some { st with outpos := st.outpos + thislen }
  else
    match st.buffer with
    | some b =>
      if st.outpos + 1 ≤ len then
        (store_units b st.outpos [c]).map fun b1 =>
          { st with buffer := some b1, outpos := st.outpos + 1 }
      else some { st with outpos := st.outpos + 1 }
    | none => some { st with outpos := st.outpos + 1 }

/-- The loop `while(padding) { PUT(UNICODE_SPACE); padding--; }` (screen.c
lines 1387-1390), run for the `padding` iterations it makes. -/
def put_padding (utf8 : Bool) (len : Nat) : Nat → CharsOut → Option CharsOut
  | 0, st => some st
  | n + 1, st =>
    (PUT utf8 len UNICODE_SPACE st).bind fun st1 =>
      put_padding utf8 len n { st1 with padding := st1.padding - 1 }

/-- The loop over the codepoints of a cell (screen.c lines 1391-1393): while
`i` is below the bound and `chars[i]` is not zero, `PUT(chars[i])`. -/
def put_chars (utf8 : Bool) (len : Nat) (chars : List Nat) : Nat → Nat → CharsOut → Option CharsOut
  | 0, _, st => some st
  | fuel + 1, i, st =>
    if chars.getD i 0 ≠ 0 then
      (PUT utf8 len (chars.getD i 0) st).bind (put_chars utf8 len chars fuel (i + 1))
    else some st

/-- The body of the inner loop of `_get_chars` (screen.c lines 1380-1394) once
the cell is read. -/
def get_chars_cell (utf8 : Bool) (len : Nat) (cell : ScreenCell) (st : CharsOut) :
    Option CharsOut :=
  if cell.char0 = 0 then some { st with padding := st.padding + 1 }
  else if cell.char0 = WIDE_CONT then some st
  else
    (put_padding utf8 len st.padding st).bind
      (put_chars utf8 len cell.chars VTERM_MAX_CHARS_PER_CELL 0)

/-- The function `_get_chars` (screen.c lines 1356-1404): the buffer as the
call leaves it and the C return value. -/
def _get_chars (s : VTermScreen) (utf8 : Bool) (buffer : Option (List Nat)) (len : Nat)
    (rect : VTermRect) : Option (Option (List Nat) × Nat) :=
  (forLoop (rect.end_row - rect.start_row).toNat rect.start_row 1
    (fun row st =>
      (forLoop (rect.end_col - rect.start_col).toNat rect.start_col 1
        (fun col st2 =>
          (readcell s (getcell s row col)).bind fun cell => get_chars_cell utf8 len cell st2)
        st).bind fun st3 =>
      if row < rect.end_row - 1 then
        (PUT utf8 len UNICODE_LINEFEED st3).map fun st4 => { st4 with padding := 0 }
      else some st3)
    { buffer := buffer, outpos := 0, padding := 0 }).map fun st => (st.buffer, st.outpos)

/-- The function `vterm_screen_get_chars` (screen.c lines 1406-1409). -/
def vterm_screen_get_chars (s : VTermScreen) (chars : Option (List Nat)) (len : Nat)
    (rect : VTermRect) : Option (Option (List Nat) × Nat) :=
  _get_chars s false chars len rect

/-- The function `vterm_screen_get_text` (screen.c lines 1411-1414). -/
def vterm_screen_get_text (s : VTermScreen) (str : Option (List Nat)) (len : Nat)
    (rect : VTermRect) : Option (Option (List Nat) × Nat) :=
  _get_chars s true str len rect

/-- The loop of `vterm_screen_is_eol` (screen.c lines 1458-1462), from column
`col` on; the counter bounds the iterations, of which there are at most
`cols - col`. -/
def is_eol_loop (s : VTermScreen) (row : Int) : Nat → Int → Option Int
  | 0, _ => none
  | fuel + 1, col =>
    if col < s.cols then
      (readcell s (getcell s row col)).bind fun cell =>
        if cell.char0 ≠ 0 then some 0 else is_eol_loop s row fuel (col + 1)
    else some 1

/-- The function `vterm_screen_is_eol` (screen.c lines 1455-1465). -/
def vterm_screen_is_eol (s : VTermScreen) (pos : VTermPos) : Option Int :=
  is_eol_loop s pos.row ((s.cols - pos.col).toNat + 1) pos.col

/-- The codepoints of a cell: what `chars` holds before its first zero. -/
def cell_codepoints (c : ScreenCell) : List Nat :=
  (c.chars.take VTERM_MAX_CHARS_PER_CELL).takeWhile (fun x => x ≠ 0)

/-- A cell that is neither erased nor the trailing half of a wide glyph. -/
def ScreenCell.is_glyph (c : ScreenCell) : Bool :=
  decide (c.char0 ≠ 0 ∧ c.char0 ≠ WIDE_CONT)

/-- The text of a row as the spec words it: the codepoints of the cells that
are neither erased nor `WIDE_CONT`, in column order, and one space for each
erased cell that has such a cell later in the row. -/
def spec_row : List ScreenCell → List Nat
  | [] => []
  | c :: rest =>
    (if c.char0 = 0 then (if rest.any ScreenCell.is_glyph then [UNICODE_SPACE] else [])
      else if c.char0 = WIDE_CONT then []
      else cell_codepoints c) ++ spec_row rest

/-- The text of a rectangle as the spec words it: the texts of its rows with
one linefeed between consecutive rows and none after the last. -/
def spec_text : List (List ScreenCell) → List Nat
  | [] => []
  | [r] => spec_row r
  | r :: r2 :: rest => spec_row r ++ [UNICODE_LINEFEED] ++ spec_text (r2 :: rest)

/-- The cells the grid shows in `n` columns of a row, from column `c0` on. -/
def grid_row (s : VTermScreen) (row c0 : Int) (n : Nat) : List ScreenCell :=
  (List.range n).filterMap fun (j : Nat) => cellAt s row (c0 + (j : Int))

/-- The rows of cells the grid shows in a rectangle. -/
def rect_rows (s : VTermScreen) (rect : VTermRect) : List (List ScreenCell) :=
  (List.range (rect.end_row - rect.start_row).toNat).map fun (i : Nat) =>
    grid_row s (rect.start_row + (i : Int)) rect.start_col
      (rect.end_col - rect.start_col).toNat

/-- The code units of a list of codepoints: the codepoints themselves, or the
bytes of their UTF-8 forms. -/
def code_units (utf8 : Bool) (codes : List Nat) : List Nat :=
  if utf8 then codes.flatMap fill_utf8 else codes

/-- The calls of `PUT` for a list of codepoints, in order. -/
def put_all (utf8 : Bool) (len : Nat) : List Nat → CharsOut → Option CharsOut
  | [], st => some st
  | c :: cs, st => (PUT utf8 len c st).bind (put_all utf8 len cs)

/-- What a cell makes `_get_chars` put, and the padding count after the cell,
from the padding count before it. -/
def cell_out (pad : Nat) (c : ScreenCell) : List Nat × Nat :=
  if c.char0 = 0 then ([], pad + 1)
  else if c.char0 = WIDE_CONT then ([], pad)
  else (List.replicate pad UNICODE_SPACE ++ cell_codepoints c, 0)

/-- What the cells of a row make `_get_chars` put, and the padding count after
the row. -/
def row_out (pad : Nat) : List ScreenCell → List Nat × Nat
  | [] => ([], pad)
  | c :: rest =>
    ((cell_out pad c).1 ++ (row_out (cell_out pad c).2 rest).1,
      (row_out (cell_out pad c).2 rest).2)

/-- The loop of `sb_pushline_from_row_with_cols` (screen.c lines 222-223): each
of the first `cols` columns of the row is converted by `vterm_screen_get_cell`
into its slot of `sb_buffer`; the return value of the conversion is dropped.
A slot outside `sb_buffer` is touched only when the position is on the grid. -/
def sb_fill_row (s : VTermScreen) (row : Int) (cols : Int) : Option VTermScreen :=
  forLoop cols.toNat 0 1
    (fun col st =>
      match st.sb_buffer[col.toNat]? with
      | some slot =>
        (vterm_screen_get_cell st { row := row, col := col } slot).map fun r =>
          { st with sb_buffer := st.sb_buffer.set col.toNat r.1 }
      | none => if (getcell st row col).isNone then some st else none) s

/-- The call of the push callback at the end of `sb_pushline_from_row_with_cols`
(screen.c lines 225-228): the extended callback when the host opted in and
registered it, the legacy one, without the flag, otherwise.  The host reads
`cols` cells from `sb_buffer`. -/
def sb_push_call (s : VTermScreen) (cols : Int) (continuation : Bool) : Option VTermScreen :=
  match s.callbacks with
  | none => none
  | some cb =>
    if s.callbacks_has_pushline4 ∧ cb.sb_pushline4 then
      some { s with trace := s.trace ++
        [HostEvent.sb_pushline4 cols (s.sb_buffer.take cols.toNat) continuation] }
    else if cb.sb_pushline then
      some { s with trace := s.trace ++ [HostEvent.sb_pushline cols (s.sb_buffer.take cols.toNat)] }
    else none

/-- The function `sb_pushline_from_row_with_cols` (screen.c lines 219-229). -/
def sb_pushline_from_row_with_cols (s : VTermScreen) (row : Int) (continuation : Bool)
    (cols : Int) : Option VTermScreen :=
  (sb_fill_row s row cols).bind fun s1 => sb_push_call s1 cols continuation

/-- The function `sb_pushline_from_row` (screen.c lines 231-241). -/
def sb_pushline_from_row (s : VTermScreen) (row : Int) (continuation : Bool) :
    Option VTermScreen :=
  (sb_fill_row s row s.cols).bind fun s1 => sb_push_call s1 s1.cols continuation

/-- The test for a push callback in `premove` (screen.c lines 247-248): the
legacy callback is registered, or the host opted in to the extended one and
registered it. -/
def has_pushline (s : VTermScreen) : Bool :=
  match s.callbacks with
  | some cb => cb.sb_pushline || (s.callbacks_has_pushline4 && cb.sb_pushline4)
  | none => false

/-- The function `premove` (screen.c lines 243-259). -/
def premove (rect : VTermRect) (s : VTermScreen) : Option (VTermScreen × Int) :=
  if has_pushline s ∧ rect.start_row = 0 ∧ rect.start_col = 0 ∧ rect.end_col = s.cols ∧
      s.buffer = BufIdx.PRIMARY then
    (forLoop rect.end_row.toNat 0 1
      (fun row st =>
        (vterm_state_get_lineinfo st row).bind fun lineinfo =>
          sb_pushline_from_row st row (decide (lineinfo.continuation ≠ 0))) s).map
      fun s1 => (s1, 1)
  else some (s, 1)

/-- The call a push of a row makes to the host of screen `s`, as a host event:
through `sb_pushline4` with the flag when the host opted in and registered it,
through `sb_pushline`, which takes no flag, otherwise. -/
def push_event (s : VTermScreen) (cells : List VTermScreenCell) (continuation : Bool) :
    HostEvent :=
  if s.callbacks_has_pushline4 ∧ (s.callbacks.map fun cb => cb.sb_pushline4) = some true then
    HostEvent.sb_pushline4 s.cols cells continuation
  else HostEvent.sb_pushline s.cols cells

/-- The continuation flag of a row as `premove` passes it on. -/
def row_continuation (s : VTermScreen) (row : Nat) : Bool :=
  match s.lineinfo[row]? with
  | some info => decide (info.continuation ≠ 0)
  | none => false

/-- The calls a push of the rows `0 .. lines.length - 1` makes to the host of
screen `s`, top row first, `lines` being the cells handed over for each row. -/
def push_events (s : VTermScreen) (lines : List (List VTermScreenCell)) : List HostEvent :=
  (List.range lines.length).map fun (r : Nat) =>
    push_event s (lines.getD r []) (row_continuation s r)

/-- The cells of a pushed row are the columns of the grid row, each converted
by `vterm_screen_get_cell` into some slot. -/
def row_converted (s : VTermScreen) (row : Nat) (cells : List VTermScreenCell) : Prop :=
  cells.length = s.cols.toNat ∧
  ∀ col : Nat, col < s.cols.toNat →
    ∃ slot out, cells[col]? = some out ∧
      vterm_screen_get_cell s { row := (row : Int), col := (col : Int) } slot = some (out, 1)

/-- The read `buffer[i]` of a cell of a buffer given as a pointer; `none`
outside the memory of the buffer. -/
def bufAt (buffer : List ScreenCell) (i : Int) : Option ScreenCell :=
  if i < 0 then none else buffer[i.toNat]?

/-- The loop of `line_popcount` (screen.c lines 535-537): the value `col + 1`
with which the function returns.  The loop makes at most `cols` iterations,
which is what the counter allows. -/
def line_popcount_loop (buffer : List ScreenCell) (row cols : Int) : Nat → Int → Option Int
  | 0, _ => none
  | fuel + 1, col =>
    if col ≥ 0 then
      (bufAt buffer (row * cols + col)).bind fun c =>
        if c.char0 = 0 then line_popcount_loop buffer row cols fuel (col - 1)
        else some (col + 1)
    else some (col + 1)

/-- The function `line_popcount` (screen.c lines 533-539). -/
def line_popcount (buffer : List ScreenCell) (row cols : Int) : Option Int :=
  line_popcount_loop buffer row cols (cols.toNat + 1) (cols - 1)

/-- The C library's `memcpy` of `n` cells from offset `r` of the buffer `src`
to offset `d` of another buffer `dst`; `none` when a range leaves its buffer. -/
def memcpy_cells (dst : List ScreenCell) (d : Int) (src : List ScreenCell) (r : Int) (n : Int) :
    Option (List ScreenCell) :=
  if 0 ≤ d ∧ 0 ≤ r ∧ 0 ≤ n ∧ d + n ≤ dst.length ∧ r + n ≤ src.length then
    some (dst.take d.toNat ++ (src.drop r.toNat).take n.toNat ++ dst.drop (d.toNat + n.toNat))
  else none

/-- The call `clearcell(screen, &out_buffer[i])`. -/
def clear_at (out : List ScreenCell) (i : Int) : Option (List ScreenCell) :=
  if i < 0 then none else (out[i.toNat]?).map fun c => out.set i.toNat (clearcell c)

/-- The local variables of `reflow_line` (screen.c lines 613-620) with what its
out-pointers point to: `out_buffer` and `new_cursor`, `none` for `NULL`. -/
structure ReflowState where
  new_row : Int
  old_row : Int
  old_line_cells : Int
  old_line_taken : Int
  new_line_filled : Int
  out_buffer : Option (List ScreenCell)
  new_cursor : Option VTermPos

/-- The two blocks of `reflow_line` that copy `count` cells of the old line to
the new line and move the cursor with them (screen.c lines 628-640 and
665-677).  `bounded` is set for the second block, whose cursor test has an
upper bound on the column. -/
def reflow_copy (old_buffer : List ScreenCell) (old_cols new_cols skip_rows new_row_start : Int)
    (old_cursor : Option VTermPos) (count : Int) (bounded : Bool) (st : ReflowState) :
    Option ReflowState :=
  match st.out_buffer with
  | none => some st
  | some out =>
    if st.new_row ≥ skip_rows then
      (memcpy_cells out ((st.new_row - skip_rows) * new_cols + st.new_line_filled) old_buffer
        (st.old_row * old_cols + st.old_line_taken) count).bind fun out1 =>
      old_cursor.bind fun oc =>
        if oc.row = st.old_row ∧ oc.col ≥ st.old_line_taken ∧
            (bounded = true → oc.col < st.old_line_taken + count) then
          st.new_cursor.bind fun _ =>
            some { st with out_buffer := some out1
                           new_cursor := some { row := new_row_start + st.new_row
                                                col := st.new_line_filled +
                                                  (oc.col - st.old_line_taken) } }
        else some { st with out_buffer := some out1 }
    else some st

/-- The back-off of `reflow_line` when the next cell of the old line is the
trailing half of a wide glyph (screen.c lines 682-689). -/
def reflow_backoff (new_cols skip_rows : Int) (st : ReflowState) : Option ReflowState :=
  match st.out_buffer with
  | none => some { st with old_line_taken := st.old_line_taken - 1 }
  | some out =>
    if st.new_row ≥ skip_rows then
      (clear_at out ((st.new_row - skip_rows) * new_cols + new_cols - 1)).map fun out1 =>
        { st with old_line_taken := st.old_line_taken - 1, out_buffer := some out1 }
    else some { st with old_line_taken := st.old_line_taken - 1 }

/-- The loop `while (1)` of `reflow_line` (screen.c lines 622-695): the state
with which the loop is left.  The fuel bounds the number of iterations. -/
def reflow_loop (old_buffer : List ScreenCell)
    (old_row_end old_cols new_cols skip_rows new_row_start : Int) (old_cursor : Option VTermPos) :
    Nat → ReflowState → Option ReflowState
  | 0, _ => none
  | fuel + 1, st =>
    let new_line_need_cells := new_cols - st.new_line_filled
    let old_line_have := st.old_line_cells - st.old_line_taken
    if old_line_have ≤ new_line_need_cells then
      (reflow_copy old_buffer old_cols new_cols skip_rows new_row_start old_cursor
        old_line_have false st).bind fun st1 =>
      let st2 : ReflowState :=
        { st1 with new_line_filled := st1.new_line_filled + old_line_have
                   old_row := st1.old_row + 1
                   old_line_taken := 0 }
      if st2.old_row > old_row_end then some st2
      else
        let st3 : ReflowState :=
          if old_line_have = new_line_need_cells then
            { st2 with new_row := st2.new_row + 1, new_line_filled := 0 }
          else st2
        (line_popcount old_buffer st3.old_row old_cols).bind fun n =>
          reflow_loop old_buffer old_row_end old_cols new_cols skip_rows new_row_start
            old_cursor fuel { st3 with old_line_cells := n }
    else
      (reflow_copy old_buffer old_cols new_cols skip_rows new_row_start old_cursor
        new_line_need_cells true st).bind fun st1 =>
      let st2 : ReflowState :=
        { st1 with old_line_taken := st1.old_line_taken + new_line_need_cells }
      (bufAt old_buffer (st2.old_row * old_cols + st2.old_line_taken)).bind fun cell =>
      (if cell.char0 = WIDE_CONT then reflow_backoff new_cols skip_rows st2 else some st2).bind
        fun st3 =>
      reflow_loop old_buffer old_row_end old_cols new_cols skip_rows new_row_start old_cursor
        fuel { st3 with new_row := st3.new_row + 1, new_line_filled := 0 }

/-- The end of `reflow_line` (screen.c lines 697-705): the rest of the last new
line is cleared when the line holds cells. -/
def reflow_finish (new_cols skip_rows : Int) (st : ReflowState) :
    Option (Option (List ScreenCell)) :=
  if st.new_line_filled > 0 then
    match st.out_buffer with
    | none => some none
    | some out =>
      if st.new_row ≥ skip_rows then
        (forLoop (new_cols - st.new_line_filled).toNat st.new_line_filled 1
          (fun c o => clear_at o ((st.new_row - skip_rows) * new_cols + c)) out).map some
      else some (some out)
  else some st.out_buffer

/-- The function `reflow_line` (screen.c lines 606-705): the position written
to `out_rect`, the output buffer and the new cursor as the call leaves them.
`out_buffer` is the memory from the pointer the caller passes on. -/
def reflow_line (fuel : Nat) (old_buffer : List ScreenCell)
    (old_row_start old_row_end old_cols new_cols : Int) (out_buffer : Option (List ScreenCell))
    (skip_rows : Int) (old_cursor new_cursor : Option VTermPos) (new_row_start : Int) :
    Option (VTermPos × Option (List ScreenCell) × Option VTermPos) :=
  (line_popcount old_buffer old_row_start old_cols).bind fun n =>
  (reflow_loop old_buffer old_row_end old_cols new_cols skip_rows new_row_start old_cursor fuel
    { new_row := 0, old_row := old_row_start, old_line_cells := n, old_line_taken := 0
      new_line_filled := 0, out_buffer := out_buffer, new_cursor := new_cursor }).bind fun st =>
  (reflow_finish new_cols skip_rows st).map fun out1 =>
    ({ col := if st.new_line_filled ≤ 0 then 0 else st.new_line_filled - 1, row := st.new_row },
      out1, st.new_cursor)

/-- The rows the spec asks of a reflow, from the cells `cur` the current line
holds and the cells still to come, in reading order: a line takes cells until
it holds `w`; when the cell after a full line is the trailing half of a wide
glyph, the leading half, the last cell of the line, moves to the next line. -/
def wrap_cells (w : Nat) : List ScreenCell → List ScreenCell → List (List ScreenCell)
  | cur, [] => if cur = [] then [] else [cur]
  | cur, x :: xs =>
    if cur.length < w then wrap_cells w (cur ++ [x]) xs
    else if x.char0 = WIDE_CONT then
      cur.dropLast :: wrap_cells w (cur.drop (cur.length - 1) ++ [x]) xs
    else cur :: wrap_cells w [x] xs

/-- The cells of a row of the old buffer without its trailing blank cells. -/
def stripped_row (old_buffer : List ScreenCell) (old_cols : Int) (row : Int) : List ScreenCell :=
  match line_popcount old_buffer row old_cols with
  | some n => (old_buffer.drop (row * old_cols).toNat).take n.toNat
  | none => []

/-- The cells of `m` rows of the old buffer from row `row` on, each row without
its trailing blank cells, in reading order. -/
def paragraph_cells (old_buffer : List ScreenCell) (old_cols : Int) : Nat → Int → List ScreenCell
  | 0, _ => []
  | m + 1, row =>
    stripped_row old_buffer old_cols row ++ paragraph_cells old_buffer old_cols m (row + 1)

/-- The rows `rows` lie in the output buffer from line `j` on: cell `c` of row
`k` is at offset `(j + k) * w + c`. -/
def RowsLaid (out : List ScreenCell) (w j : Nat) (rows : List (List ScreenCell)) : Prop :=
  ∀ k c : Nat, k < rows.length → c < (rows.getD k []).length →
    out[(j + k) * w + c]? = (rows.getD k [])[c]?

/-- In the first `n` of the lines that hold `rows`, every cell after the cells
of the row is blank. -/
def RowsPadded (out : List ScreenCell) (w j : Nat) (rows : List (List ScreenCell)) (n : Nat) :
    Prop :=
  ∀ k c : Nat, k < n → (rows.getD k []).length ≤ c → c < w →
    ∃ x, out[(j + k) * w + c]? = some x ∧ x.char0 = 0

/-- The total of `line_popcount` over `m` rows of the old buffer from row `row`
on. -/
def paragraph_popcount (old_buffer : List ScreenCell) (old_cols : Int) : Nat → Int → Int
  | 0, _ => 0
  | m + 1, row =>
    (line_popcount old_buffer row old_cols).getD 0 +
      paragraph_popcount old_buffer old_cols m (row + 1)

/-- Every trailing half of a wide glyph in the list comes right after a cell
that is not one: its leading cell. -/
def WidePaired (l : List ScreenCell) : Prop :=
  ∀ (i : Nat) (x : ScreenCell), l[i]? = some x → x.char0 = WIDE_CONT →
    ∃ (j : Nat) (y : ScreenCell), i = j + 1 ∧ l[j]? = some y ∧ y.char0 ≠ WIDE_CONT

/-! ## Resizing -/

/-- Modelled from the spec: `VTermStateFields` of `vterm_internal.h`, the
fields of the state layer that `resize` reads and writes: the cursor position
and the line-info arrays of the two buffers, `none` for `NULL`. -/
structure VTermStateFields where
  pos : VTermPos
  lineinfos_primary : Option (List VTermLineInfo)
  lineinfos_altscreen : Option (List VTermLineInfo)
deriving DecidableEq, Repr

/-- Modelled from the spec: the memory `vterm_allocator_malloc` of `vterm.c`
hands out.  The spec leaves open what a new block holds; `cell i`,
`lineinfo i` and `sb_cell i` are entry `i` of a new block of the three kinds
of entries `screen.c` allocates. -/
structure VTermAllocator where
  cell : Nat → ScreenCell
  lineinfo : Nat → VTermLineInfo
  sb_cell : Nat → VTermScreenCell

/-- A new block of `n` cells. -/
def VTermAllocator.cells (a : VTermAllocator) (n : Int) : List ScreenCell :=
  (List.range n.toNat).map a.cell

/-- A new block of `n` line-info records. -/
def VTermAllocator.lineinfos (a : VTermAllocator) (n : Int) : List VTermLineInfo :=
  (List.range n.toNat).map a.lineinfo

/-- The function `alloc_sb_buffer` (screen.c lines 551-557); `sb_buffer_cols` is
the length of the list. -/
def alloc_sb_buffer (a : VTermAllocator) (cols : Int) (s : VTermScreen) : VTermScreen :=
  { s with sb_buffer := (List.range cols.toNat).map a.sb_cell }

/-- The function `ensure_sb_buffer_cols` (screen.c lines 559-563). -/
def ensure_sb_buffer_cols (a : VTermAllocator) (cols : Int) (s : VTermScreen) : VTermScreen :=
  if (s.sb_buffer.length : Int) < cols then alloc_sb_buffer a cols s else s

/-- The read `lineinfo[i]`; `none` outside the memory of the array. -/
def infoAt (lineinfo : List VTermLineInfo) (i : Int) : Option VTermLineInfo :=
  if i < 0 then none else lineinfo[i.toNat]?

/-- The store `lineinfo[i].continuation = v`. -/
def set_continuation (lineinfo : List VTermLineInfo) (i : Int) (v : Nat) :
    Option (List VTermLineInfo) :=
  (infoAt lineinfo i).map fun info => lineinfo.set i.toNat { info with continuation := v }

/-- The C library's `memmove` of `n` entries inside one array, from offset `r`
to offset `d`; `none` when a range leaves the array. -/
def memmove_in {α : Type} (l : List α) (d r n : Int) : Option (List α) :=
  if 0 ≤ d ∧ 0 ≤ r ∧ 0 ≤ n ∧ d + n ≤ l.length ∧ r + n ≤ l.length then
    some (l.take d.toNat ++ (l.drop r.toNat).take n.toNat ++ l.drop (d.toNat + n.toNat))
  else none

/-- The loop of `sb_line_popcount` (screen.c lines 545-547). -/
def sb_line_popcount_loop (buffer : List VTermScreenCell) : Nat → Int → Option Int
  | 0, _ => none
  | fuel + 1, col =>
    if col ≥ 0 then
      (buffer[col.toNat]?).bind fun c =>
        if c.chars.getD 0 0 = 0 then sb_line_popcount_loop buffer fuel (col - 1)
        else some (col + 1)
    else some (col + 1)

/-- The function `sb_line_popcount` (screen.c lines 543-549). -/
def sb_line_popcount (buffer : List VTermScreenCell) (cols : Int) : Option Int :=
  sb_line_popcount_loop buffer (cols.toNat + 1) (cols - 1)

/-- The function `copy_sb_cell_to_screen_cell` (screen.c lines 565-585): the
cell `dst` after the copy from the external cell `src`. -/
def copy_sb_cell_to_screen_cell (s : VTermScreen) (dst : ScreenCell) (src : VTermScreenCell) :
    ScreenCell :=
  { chars := get_cell_copy src.chars VTERM_MAX_CHARS_PER_CELL 0 dst.chars
    pen :=
      { dst.pen with
        bold := src.attrs.bold, underline := src.attrs.underline, italic := src.attrs.italic
        blink := src.attrs.blink, reverse := (src.attrs.reverse ^^^ s.global_reverse) % 2
        conceal := src.attrs.conceal, strike := src.attrs.strike, font := src.attrs.font
        small := src.attrs.small, baseline := src.attrs.baseline
        fg := src.fg, bg := src.bg } }

/-- The two copying loops of `reflow_sb_line` (screen.c lines 725-731 and
749-755): the cells of `sb_line` from column `col` up to `stop` go to the
output line that starts at offset `base`, column `taken` first; the loop
steps by the width of the cell it copied. -/
def sb_copy_loop (s : VTermScreen) (sb_line : List VTermScreenCell)
    (new_cols base taken stop : Int) : Nat → Int → List ScreenCell → Option (List ScreenCell)
  | 0, _, _ => none
  | fuel + 1, col, out =>
    if col < stop then
      (if col < 0 then none else sb_line[col.toNat]?).bind fun src =>
      (bufAt out (base + (col - taken))).bind fun dst =>
      let out1 := out.set (base + (col - taken)).toNat (copy_sb_cell_to_screen_cell s dst src)
      (if src.width = 2 ∧ col < new_cols - 1 then
        (bufAt out1 (base + (col - taken) + 1)).map fun d1 =>
          out1.set (base + (col - taken) + 1).toNat (mark_wide d1)
      else some out1).bind fun out2 =>
      sb_copy_loop s sb_line new_cols base taken stop fuel (col + src.width) out2
    else some out

/-- The loop `while (1)` of `reflow_sb_line` (screen.c lines 718-777), from the
head of an iteration: the position written to `out_rect` and the output
buffer. -/
def reflow_sb_loop (s : VTermScreen) (sb_line : List VTermScreenCell)
    (sb_line_len new_cols skip_rows : Int) :
    Nat → Int → Int → Option (List ScreenCell) → Option (VTermPos × Option (List ScreenCell))
  | 0, _, _, _ => none
  | fuel + 1, new_row, sb_cell_taken, out_buffer =>
    let sb_cell_have := sb_line_len - sb_cell_taken
    if sb_cell_have ≤ new_cols then
      (match out_buffer with
        | some out =>
          if new_row ≥ skip_rows then
            (sb_copy_loop s sb_line new_cols ((new_row - skip_rows) * new_cols) sb_cell_taken
              sb_line_len (sb_line_len.toNat + 1) sb_cell_taken out).bind fun out1 =>
            (forLoop (new_cols - sb_cell_have).toNat sb_cell_have 1
              (fun col o => clear_at o ((new_row - skip_rows) * new_cols + col)) out1).map some
          else some (some out)
        | none => some none).map fun out2 =>
        ({ row := new_row, col := sb_cell_have - 1 }, out2)
    else
      (match out_buffer with
        | some out =>
          if new_row ≥ skip_rows then
            (sb_copy_loop s sb_line new_cols ((new_row - skip_rows) * new_cols) sb_cell_taken
              (sb_cell_taken + new_cols) (sb_line_len.toNat + 1) sb_cell_taken out).map some
          else some (some out)
        | none => some none).bind fun out1 =>
      if sb_cell_taken + new_cols = sb_line_len then
        some ({ row := new_row, col := new_cols - 1 }, out1)
      else
        (if sb_cell_taken + new_cols - 1 < 0 then none
          else sb_line[(sb_cell_taken + new_cols - 1).toNat]?).bind fun cell =>
        (if cell.width > 1 then
          (match out1 with
            | some o =>
              if new_row ≥ skip_rows then
                (clear_at o ((new_row - skip_rows) * new_cols + new_cols - 1)).map some
              else some (some o)
            | none => some none).map fun o2 => (sb_cell_taken + new_cols - 1, o2)
        else some (sb_cell_taken + new_cols, out1)).bind fun r =>
        reflow_sb_loop s sb_line sb_line_len new_cols skip_rows fuel (new_row + 1) r.1 r.2

/-- The function `reflow_sb_line` (screen.c lines 708-778). -/
def reflow_sb_line (fuel : Nat) (s : VTermScreen) (sb_line : List VTermScreenCell)
    (sb_line_len new_cols : Int) (out_buffer : Option (List ScreenCell)) (skip_rows : Int) :
    Option (VTermPos × Option (List ScreenCell)) :=
  reflow_sb_loop s sb_line sb_line_len new_cols skip_rows fuel 0 0 out_buffer

/-- The local variables of `combine_contination_lines` that its loop changes
(screen.c lines 785-789), with the buffer. -/
structure CombineState where
  target_row : Int
  target_row_line_count : Int
  src_row : Int
  delta_count : Int
  buffer : List ScreenCell

/-- The step to the next target row inside the loop of
`combine_contination_lines` (screen.c lines 794-803 and 847-855): the loop is
left at the end of the grid or at a row that is not a continuation;
otherwise the row is counted and the loop goes on, `some` of the state with
which it does. -/
def combine_next_target (rows cols : Int) (lineinfo : List VTermLineInfo) (ge : Bool)
    (st : CombineState) : Option (CombineState × Bool) :=
  let t := st.target_row + 1
  if t ≥ rows then some ({ st with target_row := t }, false)
  else
    (infoAt lineinfo t).bind fun info =>
      if info.continuation = 0 then some ({ st with target_row := t }, false)
      else
        (line_popcount st.buffer t cols).map fun n =>
          ({ st with target_row := t, target_row_line_count := n
                     src_row := if (if ge then t ≥ st.src_row else st.src_row = t) then t + 1
                                else st.src_row }, true)

/-- The loop `while (1)` of `combine_contination_lines` (screen.c lines
791-882): the state with which the loop is left. -/
def combine_loop (rows cols : Int) (lineinfo : List VTermLineInfo) :
    Nat → CombineState → Option CombineState
  | 0, _ => none
  | fuel + 1, st =>
    if st.target_row_line_count = cols then
      (combine_next_target rows cols lineinfo true st).bind fun r =>
        if r.2 then combine_loop rows cols lineinfo fuel r.1 else some r.1
    else if st.src_row ≥ rows then some st
    else if st.target_row ≥ rows then some st
    else
      (infoAt lineinfo st.src_row).bind fun info =>
      if info.continuation = 0 then some st
      else
        let target_line_spare := cols - st.target_row_line_count
        (line_popcount st.buffer st.src_row cols).bind fun src_line_count =>
        if src_line_count ≤ target_line_spare then
          (memmove_in st.buffer (st.target_row * cols + st.target_row_line_count)
            (st.src_row * cols) src_line_count).bind fun b1 =>
          let count := st.target_row_line_count + src_line_count
          combine_loop rows cols lineinfo fuel
            { target_row := if count ≥ cols then st.target_row + 1 else st.target_row
              target_row_line_count := if count ≥ cols then 0 else count
              src_row := st.src_row + 1
              delta_count := st.delta_count - 1
              buffer := b1 }
        else
          (bufAt st.buffer (st.src_row * cols + target_line_spare)).bind fun cell =>
          let wrap_line_end : Bool := decide (cell.char0 = WIDE_CONT)
          let move_up_count := if wrap_line_end then target_line_spare - 1 else target_line_spare
          if move_up_count = 0 then
            (clear_at st.buffer (st.target_row * cols + cols - 1)).bind fun b1 =>
            (combine_next_target rows cols lineinfo false { st with buffer := b1 }).bind fun r =>
              if r.2 then combine_loop rows cols lineinfo fuel r.1 else some r.1
          else
            let part2_count := src_line_count - move_up_count
            (memmove_in st.buffer (st.target_row * cols + st.target_row_line_count)
              (st.src_row * cols) move_up_count).bind fun b1 =>
            (if wrap_line_end then clear_at b1 (st.target_row * cols + cols - 1)
              else some b1).bind fun b2 =>
            (memmove_in b2 ((st.target_row + 1) * cols) (st.src_row * cols + move_up_count)
              part2_count).bind fun b3 =>
            combine_loop rows cols lineinfo fuel
              { target_row := st.target_row + 1
                target_row_line_count := part2_count
                src_row := st.src_row + 1
                delta_count := st.delta_count
                buffer := b3 }

/-- The function `combine_contination_lines` (screen.c lines 780-908): the
value it returns, the buffer and the line-info array. -/
def combine_contination_lines (fuel : Nat) (buffer : List ScreenCell) (row_start rows cols : Int)
    (lineinfo : List VTermLineInfo) :
    Option (Int × List ScreenCell × List VTermLineInfo) :=
  (line_popcount buffer row_start cols).bind fun n =>
  (combine_loop rows cols lineinfo fuel
    { target_row := row_start, target_row_line_count := n, src_row := row_start + 1
      delta_count := 0, buffer := buffer }).bind fun st =>
  (forLoop (cols - st.target_row_line_count).toNat st.target_row_line_count 1
    (fun i b => clear_at b (st.target_row * cols + i)) st.buffer).bind fun b1 =>
  if st.delta_count < 0 then
    (memmove_in b1 ((row_start - st.delta_count) * cols) (row_start * cols)
      (-st.delta_count * cols)).bind fun b2 =>
    (memmove_in lineinfo (row_start - st.delta_count) row_start (-st.delta_count)).bind fun li =>
    (forLoop (-st.delta_count).toNat 0 1
      (fun i b => forLoop cols.toNat 0 1
        (fun j b' => clear_at b' ((row_start + i) * cols + j)) b) b2).map fun b3 =>
      (st.delta_count, b3, li)
  else some (st.delta_count, b1, lineinfo)

/-- The loop `while(old_lineinfo && old_row >= 0 &&
old_lineinfo[old_row].continuation) old_row--` of `resize_buffer` (screen.c
lines 945-946): the value of `old_row` after it. -/
def paragraph_start (old_lineinfo : Option (List VTermLineInfo)) : Nat → Int → Option Int
  | 0, _ => none
  | fuel + 1, old_row =>
    match old_lineinfo with
    | none => some old_row
    | some li =>
      if old_row ≥ 0 then
        (infoAt li old_row).bind fun info =>
          if info.continuation ≠ 0 then paragraph_start old_lineinfo fuel (old_row - 1)
          else some old_row
      else some old_row

/-- The local variables of `resize_buffer` that its first loop changes (screen.c
lines 921-932). -/
structure ResizeState where
  old_row : Int
  new_row : Int
  new_buffer : List ScreenCell
  new_lineinfo : List VTermLineInfo
  new_cursor : VTermPos
  final_blank_row : Int

/-- The attempt of `resize_buffer` to scroll the placed content down (screen.c
lines 975-999): the state after it with `new_row_start` and `new_row_end`. -/
def resize_scroll_down (new_rows new_cols : Int) (active : Bool) (st : ResizeState)
    (new_row_start new_row_end : Int) : Option (ResizeState × Int × Int) :=
  let spare_rows := new_rows - st.final_blank_row
  if new_row_start < 0 ∧ spare_rows ≥ 0 ∧
      (active = false ∨ st.new_cursor.row = -1 ∨ st.new_cursor.row - new_row_start < new_rows) then
    let downwards := if -new_row_start > spare_rows then spare_rows else -new_row_start
    let rowcount := new_rows - downwards
    (memmove_in st.new_buffer (downwards * new_cols) 0 (rowcount * new_cols)).bind fun nb =>
    (memmove_in st.new_lineinfo downwards 0 rowcount).map fun nli =>
      ({ st with new_buffer := nb, new_lineinfo := nli, new_row := st.new_row + downwards
                 new_cursor := if st.new_cursor.row ≥ 0 then
                     { st.new_cursor with row := st.new_cursor.row + downwards }
                   else st.new_cursor
                 final_blank_row := st.final_blank_row + downwards },
        new_row_start + downwards, new_row_end + downwards)
  else some (st, new_row_start, new_row_end)

/-- The cursor `resize_buffer` falls back to when the cursor is in rows that
are not placed (screen.c lines 1003-1006 and 1037-1040). -/
def clamp_cursor (old_cursor : VTermPos) (new_cols : Int) : VTermPos :=
  { row := 0, col := if old_cursor.col ≥ new_cols then new_cols - 1 else old_cursor.col }

/-- The real reflow of one paragraph into the new buffer with the stores into
the new line-info array that follow it (screen.c lines 1015-1026). -/
def resize_copy (fuel : Nat) (old_buffer : List ScreenCell)
    (old_lineinfo : Option (List VTermLineInfo)) (old_cols new_cols : Int) (old_cursor : VTermPos)
    (old_row_start old_row_end new_row_start new_row_end : Int) (st : ResizeState) :
    Option ResizeState :=
  if new_row_start * new_cols < 0 ∨ new_row_start * new_cols > st.new_buffer.length then none
  else
    (reflow_line fuel old_buffer old_row_start old_row_end old_cols new_cols
      (some (st.new_buffer.drop (new_row_start * new_cols).toNat)) 0 (some old_cursor)
      (some st.new_cursor) new_row_start).bind fun real =>
    match real.2.1, real.2.2 with
    | some outf, some nc =>
      (forLoop (new_row_end - new_row_start).toNat (new_row_start + 1) 1
        (fun r li => set_continuation li r 1) st.new_lineinfo).bind fun li1 =>
      (old_lineinfo.bind fun oli => infoAt oli old_row_start).bind fun oinfo =>
      (set_continuation li1 new_row_start (if oinfo.continuation ≠ 0 then 1 else 0)).map fun li2 =>
        { st with old_row := old_row_start - 1, new_row := new_row_start - 1
                  new_buffer := st.new_buffer.take (new_row_start * new_cols).toNat ++ outf
                  new_lineinfo := li2, new_cursor := nc }
    | _, _ => none

/-- The loop `while(old_row >= 0)` of `resize_buffer` (screen.c lines 942-1033):
the state with which the loop is left.  The second number bounds the
iterations of the loop, `fuel` those of the loops of `reflow_line`. -/
def resize_place (fuel : Nat) (old_buffer : List ScreenCell)
    (old_lineinfo : Option (List VTermLineInfo)) (old_cols new_rows new_cols : Int)
    (active : Bool) (old_cursor : VTermPos) : Nat → ResizeState → Option ResizeState
  | 0, _ => none
  | n + 1, st =>
    if st.old_row ≥ 0 then
      (paragraph_start old_lineinfo (st.old_row.toNat + 2) st.old_row).bind fun r0 =>
      let old_row_start := if r0 < 0 then 0 else r0
      (reflow_line fuel old_buffer old_row_start st.old_row old_cols new_cols none 0 none none
        0).bind fun dry =>
      let width := new_cols * (dry.1.row + 1) + dry.1.col + 1
      let final_blank_row :=
        if st.final_blank_row = st.new_row + 1 ∧ width = 0 then st.new_row
        else st.final_blank_row
      let new_height := dry.1.row + 1
      (resize_scroll_down new_rows new_cols active { st with final_blank_row := final_blank_row }
        (st.new_row - new_height + 1) st.new_row).bind fun r =>
      if r.2.1 < 0 then
        some { r.1 with
          old_row := st.old_row
          new_cursor :=
            if old_row_start ≤ old_cursor.row ∧ old_cursor.row < st.old_row then
              clamp_cursor old_cursor new_cols
            else r.1.new_cursor }
      else
        (resize_copy fuel old_buffer old_lineinfo old_cols new_cols old_cursor old_row_start
          st.old_row r.2.1 r.2.2 r.1).bind fun st2 =>
        resize_place fuel old_buffer old_lineinfo old_cols new_rows new_cols active old_cursor n
          st2
    else some st

/-- The loop of `resize_buffer` that pushes the rows that are not placed to the
scrollback (screen.c lines 1055-1058), `screen->buffer` pointing to the old
buffer. -/
def resize_push (old_lineinfo : Option (List VTermLineInfo)) (old_cols old_row : Int)
    (s : VTermScreen) : Option VTermScreen :=
  forLoop (old_row + 1).toNat 0 1
    (fun row st =>
      (old_lineinfo.bind fun oli => infoAt oli row).bind fun lineinfo =>
        sb_pushline_from_row_with_cols st row (decide (lineinfo.continuation ≠ 0)) old_cols) s

/-- What the loop of `resize_buffer` that refills the grid from the scrollback
changes (screen.c lines 1069-1144). -/
structure PopState where
  new_row : Int
  new_buffer : List ScreenCell
  new_lineinfo : List VTermLineInfo
  screen : VTermScreen
  pos : VTermPos

/-- The placement of a popped line that fits into a row (screen.c lines
1123-1142). -/
def resize_pop_short (fuel : Nat) (new_rows new_cols : Int) (active : Bool) (pop_cols : Int)
    (continuation below : Bool) (st : PopState) : Option PopState :=
  if st.new_row * new_cols < 0 ∨ st.new_row * new_cols > st.new_buffer.length then none
  else
    (reflow_sb_line fuel st.screen st.screen.sb_buffer pop_cols new_cols
      (some (st.new_buffer.drop (st.new_row * new_cols).toNat)) 0).bind fun r =>
    match r.2 with
    | none => none
    | some outf =>
      (set_continuation st.new_lineinfo st.new_row (if continuation then 1 else 0)).bind fun li =>
      (if below then
        combine_contination_lines fuel (st.new_buffer.take (st.new_row * new_cols).toNat ++ outf)
          st.new_row new_rows new_cols li
      else some (0, st.new_buffer.take (st.new_row * new_cols).toNat ++ outf, li)).map fun c =>
        { st with new_row := st.new_row - c.1 - 1, new_buffer := c.2.1, new_lineinfo := c.2.2
                  pos := if active then { st.pos with row := st.pos.row + (1 + c.1) }
                         else st.pos }

/-- The loop `while(new_row >= 0)` of `resize_buffer` that pops lines from the
scrollback (screen.c lines 1069-1144).  `sb_peek` and `sb_pushline4` are
called without a test of the slot.  The number bounds the iterations of the
loop, which goes on for as long as the host hands out lines that combine with
the rows below them. -/
def resize_pop (fuel : Nat) (alloc : VTermAllocator) (old_cols new_rows new_cols : Int)
    (active : Bool) : Nat → PopState → Option PopState
  | 0, _ => none
  | n + 1, st =>
    if st.new_row ≥ 0 then
      st.screen.callbacks.bind fun cb =>
      cb.sb_peek.bind fun peek =>
      let answer := peek st.screen.trace old_cols false
      let s1 := { st.screen with trace := st.screen.trace ++ [HostEvent.sb_peek] }
      if answer.1 = 0 then some { st with screen := s1 }
      else
        let pop_cols := answer.2.1
        let continuation := answer.2.2
        let s2 := ensure_sb_buffer_cols alloc pop_cols s1
        cb.sb_popline.bind fun pop =>
        let popped := pop s2.trace pop_cols
        let written := (popped.2.take pop_cols.toNat).take s2.sb_buffer.length
        let s3 := { s2 with trace := s2.trace ++ [HostEvent.sb_popline pop_cols]
                            sb_buffer := written ++ s2.sb_buffer.drop written.length }
        if popped.1 = 0 then some { st with screen := s3 }
        else
          (sb_line_popcount s3.sb_buffer pop_cols).bind fun count =>
          (if st.new_row < new_rows - 1 then
            (infoAt st.new_lineinfo (st.new_row + 1)).map fun info =>
              decide (info.continuation ≠ 0)
          else some false).bind fun below =>
          if count > new_cols then
            if cb.sb_pushline4 then
              some { st with screen := { s3 with trace := s3.trace ++
                [HostEvent.sb_pushline4 pop_cols (s3.sb_buffer.take pop_cols.toNat)
                  continuation] } }
            else none
          else
            (resize_pop_short fuel new_rows new_cols active count continuation below
              { st with screen := s3 }).bind fun st1 =>
            resize_pop fuel alloc old_cols new_rows new_cols active n st1
    else some st

/-- The end of `resize_buffer` when rows at the top are left unused (screen.c
lines 1146-1159): the content moves up to row 0 and the rows below it are
cleared. -/
def resize_fill (new_rows new_cols new_row : Int) (new_buffer : List ScreenCell)
    (new_lineinfo : List VTermLineInfo) (new_cursor : VTermPos) :
    Option (List ScreenCell × List VTermLineInfo × VTermPos) :=
  if new_row ≥ 0 then
    let moverows := new_rows - new_row - 1
    (memmove_in new_buffer 0 ((new_row + 1) * new_cols) (moverows * new_cols)).bind fun nb =>
    (memmove_in new_lineinfo 0 (new_row + 1) moverows).bind fun nli =>
    (forLoop (new_rows - moverows).toNat moverows 1
      (fun row st =>
        (forLoop new_cols.toNat 0 1
          (fun col b => clear_at b (row * new_cols + col)) st.1).bind fun b1 =>
        (infoAt st.2 row).map fun _ =>
          (b1, st.2.set row.toNat { doublewidth := 0, doubleheight := 0, continuation := 0 }))
      (nb, nli)).map fun r =>
      (r.1, r.2, { new_cursor with row := new_cursor.row - (new_row + 1) })
  else some (new_buffer, new_lineinfo, new_cursor)

/-- The function `resize_buffer` (screen.c lines 910-1195): the screen and the
fields of the state layer as the call leaves them.  `abort()` is `none`. -/
def resize_buffer (fuel : Nat) (alloc : VTermAllocator) (bufidx : BufIdx)
    (new_rows new_cols : Int) (active : Bool) (fields : VTermStateFields) (s : VTermScreen) :
    Option (VTermScreen × VTermStateFields) :=
  let old_rows := s.rows
  let old_cols := s.cols
  (match bufidx with
    | BufIdx.PRIMARY => some s.buffers_primary
    | BufIdx.ALTSCREEN => s.buffers_altscreen).bind fun old_buffer =>
  let old_lineinfo :=
    match bufidx with
    | BufIdx.PRIMARY => fields.lineinfos_primary
    | BufIdx.ALTSCREEN => fields.lineinfos_altscreen
  let old_cursor := fields.pos
  (resize_place fuel old_buffer old_lineinfo old_cols new_rows new_cols active old_cursor
    (old_rows.toNat + 1)
    { old_row := old_rows - 1, new_row := new_rows - 1
      new_buffer := alloc.cells (new_rows * new_cols)
      new_lineinfo := alloc.lineinfos new_rows
      new_cursor := { row := -1, col := -1 }
      final_blank_row := new_rows }).bind fun st =>
  let new_cursor :=
    if old_cursor.row ≤ st.old_row then clamp_cursor old_cursor new_cols else st.new_cursor
  if active = true ∧ (new_cursor.row = -1 ∨ new_cursor.col = -1) then none
  else
    (if st.old_row ≥ 0 ∧ bufidx = BufIdx.PRIMARY then
      (if has_pushline s then
        (resize_push old_lineinfo old_cols st.old_row { s with buffer := BufIdx.PRIMARY }).map
          fun (s1 : VTermScreen) => { s1 with buffer := s.buffer }
      else some s).map fun (s1 : VTermScreen) =>
        (s1, if active then
            ({ fields.pos with row := fields.pos.row - (st.old_row + 1) } : VTermPos)
          else fields.pos)
    else some (s, fields.pos)).bind fun pushed =>
    (if pushed.1.with_conpty = 0 ∧ st.new_row ≥ 0 ∧ bufidx = BufIdx.PRIMARY ∧
        (pushed.1.callbacks.bind fun cb => cb.sb_popline).isSome then
      resize_pop fuel alloc old_cols new_rows new_cols active fuel
        { new_row := st.new_row, new_buffer := st.new_buffer, new_lineinfo := st.new_lineinfo
          screen := pushed.1, pos := pushed.2 }
    else
      some { new_row := st.new_row, new_buffer := st.new_buffer
             new_lineinfo := st.new_lineinfo, screen := pushed.1, pos := pushed.2 }).bind
      fun popped =>
    (resize_fill new_rows new_cols popped.new_row popped.new_buffer popped.new_lineinfo
      new_cursor).map fun (filled : List ScreenCell × List VTermLineInfo × VTermPos) =>
      ((match bufidx with
        | BufIdx.PRIMARY => { popped.screen with buffers_primary := filled.1 }
        | BufIdx.ALTSCREEN => { popped.screen with buffers_altscreen := some filled.1 }),
       (match bufidx with
        | BufIdx.PRIMARY =>
          { pos := if active then filled.2.2 else popped.pos
            lineinfos_primary := some filled.2.1
            lineinfos_altscreen := fields.lineinfos_altscreen }
        | BufIdx.ALTSCREEN =>
          { pos := if active then filled.2.2 else popped.pos
            lineinfos_primary := fields.lineinfos_primary
            lineinfos_altscreen := some filled.2.1 }))

/-- The function `resize` (screen.c lines 1197-1239): the screen, the fields of
the state layer and the value the call returns. -/
def resize (fuel : Nat) (alloc : VTermAllocator) (new_rows new_cols : Int)
    (fields : VTermStateFields) (s : VTermScreen) :
    Option (VTermScreen × VTermStateFields × Int) :=
  let altscreen_active : Bool :=
    s.buffers_altscreen.isSome && decide (s.buffer = BufIdx.ALTSCREEN)
  let old_rows := s.rows
  (resize_buffer fuel alloc BufIdx.PRIMARY new_rows new_cols (!altscreen_active) fields
    (ensure_sb_buffer_cols alloc new_cols s)).bind fun r1 =>
  (if r1.1.buffers_altscreen.isSome then
    resize_buffer fuel alloc BufIdx.ALTSCREEN new_rows new_cols altscreen_active r1.2 r1.1
  else if new_rows ≠ old_rows then
    some (r1.1,
      { r1.2 with
        lineinfos_altscreen := some (List.replicate new_rows.toNat
          { doublewidth := 0, doubleheight := 0, continuation := 0 }) })
  else some r1).bind fun r2 =>
  (damagescreen fuel
    (alloc_sb_buffer alloc new_cols
      { r2.1 with buffer := if altscreen_active then BufIdx.ALTSCREEN else BufIdx.PRIMARY
                  rows := new_rows, cols := new_cols })).map fun s5 =>
    match s5.callbacks.bind fun cb => cb.resize with
    | some host =>
      ({ s5 with trace := s5.trace ++ [HostEvent.resize new_rows new_cols] }, r2.2,
        host s5.trace new_rows new_cols)
    | none => (s5, r2.2, 1)

/-- The cursor a copy block of `reflow_line` leaves (screen.c lines 634-637 and
670-674): the cursor moves with its cell when it is on the old line at or
after the first cell that is copied and, in the second block, before the cell
after the last one. -/
def copy_cursor (nrs : Int) (ocur nc : VTermPos) (bounded : Bool) (j f n : Nat) (r t : Int) :
    VTermPos :=
  if ocur.row = r ∧ ocur.col ≥ t ∧ (bounded = true → ocur.col < t + (n : Int)) then
    { row := nrs + (j : Int), col := (f : Int) + (ocur.col - t) }
  else nc

/-- The run of the loop of `reflow_line` with an output buffer and both cursor
pointers set, from the head of an iteration with `f` cells in the new line `j`
and the old row `r` taken up to column `t`, when the run without a buffer ends
in line `jf` with `ff` cells: the run returns with the same counters, lays
the cells still to come out in rows, blanks the rest of every line but the
last, leaves the rest of the buffer alone and moves the cursor only with a
cell of the rows. -/
def ReflowReal (old : List ScreenCell) (hi old_cols : Int) (w fuel : Nat) (r pc t : Int)
    (j f : Nat) (cells : List ScreenCell) (jf ff : Nat) (rf pcf tf : Int) : Prop :=
  ∀ (nrs : Int) (ocur nc : VTermPos) (cur out : List ScreenCell),
    cur.length = f → (∀ c : Nat, c < cur.length → out[j * w + c]? = cur[c]?) →
    (jf + 1) * w ≤ out.length →
    ∃ (outf : List ScreenCell) (ncf : VTermPos) (rows : List (List ScreenCell)),
      reflow_loop old hi old_cols (w : Int) 0 nrs (some ocur) fuel
        { new_row := (j : Int), old_row := r, old_line_cells := pc, old_line_taken := t
          new_line_filled := (f : Int), out_buffer := some out
          new_cursor := some nc } =
      some { new_row := (jf : Int), old_row := rf, old_line_cells := pcf
             old_line_taken := tf, new_line_filled := (ff : Int)
             out_buffer := some outf, new_cursor := some ncf } ∧
      outf.length = out.length ∧
      (∀ i, i < j * w → outf[i]? = out[i]?) ∧
      (∀ i, jf * w + ff ≤ i → outf[i]? = out[i]?) ∧
      rows.flatten = cur ++ cells ∧
      rows.length + j = jf + 1 ∧
      (∀ row ∈ rows, row.length ≤ w) ∧
      (rows.getD (jf - j) []).length = ff ∧
      RowsLaid outf w j rows ∧ RowsPadded outf w j rows (rows.length - 1) ∧
      ((ocur.row < r ∨ hi < ocur.row ∨ (ocur.row = r ∧ ocur.col < t)) → ncf = nc) ∧
      (r ≤ ocur.row → ocur.row ≤ hi → (ocur.row = r → t ≤ ocur.col) → 0 ≤ ocur.col →
        nrs + (j : Int) ≤ ncf.row ∧ 0 ≤ ncf.col)

/-- The cursor after `reflow_line` when every row of the paragraph but the last
is full and the width stays: the cursor keeps its place in the paragraph. -/
def aligned_cursor (nrs : Int) (ocur nc : VTermPos) (j : Nat) (r hi : Int) : VTermPos :=
  if r ≤ ocur.row ∧ ocur.row ≤ hi ∧ 0 ≤ ocur.col then
    { row := nrs + (j : Int) + (ocur.row - r), col := ocur.col }
  else nc

/-- Row `r` of the new buffer holds the cells of row `r` of the old buffer up
to its last glyph, and blank cells after them. -/
def RowKept (old nb : List ScreenCell) (w : Nat) (r : Nat) : Prop :=
  ∀ (c : Nat) (pk : Int), c < w → line_popcount old (r : Int) (w : Int) = some pk →
    ((c : Int) < pk → nb[r * w + c]? = old[r * w + c]?) ∧
    (pk ≤ (c : Int) → ∃ x, nb[r * w + c]? = some x ∧ x.char0 = 0)

/-- Row `k` has in the new line-info array the continuation flag it has in the
old one. -/
def FlagKept (li nli : List VTermLineInfo) (k : Nat) : Prop :=
  ∃ info oinfo, nli[k]? = some info ∧ li[k]? = some oinfo ∧
    info.continuation = if oinfo.continuation ≠ 0 then 1 else 0

/-- What holds of the local variables of `resize_buffer` each time the test of
its first loop is reached with `q` rows of the old buffer left, when the size
stays and every row that a continuation row follows is full: the rows from `q`
on are placed in the rows they had, the rows above are blank, and the cursor is
the old one when it is in a row from `q` on. -/
def AlignedInv (old : List ScreenCell) (li : List VTermLineInfo) (R w : Nat) (ocur : VTermPos)
    (q : Nat) (st : ResizeState) : Prop :=
  st.old_row = (q : Int) - 1 ∧ st.new_row = (q : Int) - 1 ∧
  st.final_blank_row = (R : Int) ∧ st.new_buffer.length = R * w ∧
  st.new_lineinfo.length = R ∧
  (∀ i, i < q * w → ∃ x, st.new_buffer[i]? = some x ∧ x.char0 = 0) ∧
  (∀ r, q ≤ r → r < R → RowKept old st.new_buffer w r) ∧
  (∀ r, q ≤ r → r < R → FlagKept li st.new_lineinfo r) ∧
  st.new_cursor = (if (q : Int) ≤ ocur.row then ocur else { row := -1, col := -1 })

/-- The buffer `resize_buffer` works on. -/
def buffer_of (bufidx : BufIdx) (s : VTermScreen) : Option (List ScreenCell) :=
  match bufidx with
  | BufIdx.PRIMARY => some s.buffers_primary
  | BufIdx.ALTSCREEN => s.buffers_altscreen

/-- The line-info array `resize_buffer` works on. -/
def lineinfo_of (bufidx : BufIdx) (fields : VTermStateFields) : Option (List VTermLineInfo) :=
  match bufidx with
  | BufIdx.PRIMARY => fields.lineinfos_primary
  | BufIdx.ALTSCREEN => fields.lineinfos_altscreen

/-- The screen with a new buffer in the slot `bufidx`. -/
def with_buffer (bufidx : BufIdx) (s : VTermScreen) (nb : List ScreenCell) : VTermScreen :=
  match bufidx with
  | BufIdx.PRIMARY => { s with buffers_primary := nb }
  | BufIdx.ALTSCREEN => { s with buffers_altscreen := some nb }

/-- The state fields with a new line-info array in the slot `bufidx`. -/
def with_lineinfo (bufidx : BufIdx) (fields : VTermStateFields) (nli : List VTermLineInfo) :
    VTermStateFields :=
  match bufidx with
  | BufIdx.PRIMARY => { fields with lineinfos_primary := some nli }
  | BufIdx.ALTSCREEN => { fields with lineinfos_altscreen := some nli }

/-- Every row of the buffer that a continuation row follows is full: its last
cell is not blank. -/
def ContinuedRowsFull (b : List ScreenCell) (li : List VTermLineInfo) (R w : Nat) : Prop :=
  ∀ r : Nat, r + 1 < R → (∃ info, li[r + 1]? = some info ∧ info.continuation ≠ 0) →
    line_popcount b (r : Int) (w : Int) = some (w : Int)

/-- The text of `m` rows of a buffer from row `row` on: the rows in reading
order, each without its trailing blank cells, without the trailing halves of
wide glyphs, every cell given by its codepoints. -/
def paragraph_text (buffer : List ScreenCell) (cols : Int) (m : Nat) (row : Int) :
    List (List Nat) :=
  ((paragraph_cells buffer cols m row).filter fun c => decide (c.char0 ≠ WIDE_CONT)).map
    fun c => c.chars

/-- The rows `lo .. hi` are a paragraph of the grid that is all on the grid: row
`lo` is not a continuation row, the rows after it up to `hi` are, and the row
after `hi`, when there is one, is not. -/
def IsParagraph (li : List VTermLineInfo) (lo hi : Nat) : Prop :=
  lo ≤ hi ∧ hi < li.length ∧ (∃ info, li[lo]? = some info ∧ info.continuation = 0) ∧
  (∀ k, lo < k → k ≤ hi → ∃ info, li[k]? = some info ∧ info.continuation ≠ 0) ∧
  (∀ info, li[hi + 1]? = some info → info.continuation = 0)

/-- The paragraph `lo .. hi` of the old buffer lies in the new buffer, in lines
below line `nr`, as a paragraph with the same stripped cells. -/
def Placed (old : List ScreenCell) (wo lo hi : Nat) (nb : List ScreenCell)
    (nli : List VTermLineInfo) (w : Nat) (nr : Int) : Prop :=
  ∃ lo' h : Nat, nr < (lo' : Int) ∧ IsParagraph nli lo' (lo' + h) ∧
    paragraph_cells nb (w : Int) (h + 1) (lo' : Int) =
      paragraph_cells old (wo : Int) (hi - lo + 1) (lo : Int)

/-- What holds of the local variables of `resize_buffer` each time the test of
its first loop is reached, with `q` rows of the old buffer left, as long as
`final_blank_row` is the number of new rows: the lines up to `new_row` are
blank; the row `q` starts a paragraph, and so does the line `new_row + 1`; the
cursor is set when it is in a row from `q` on; the rows `lo .. hi`, when they
are a paragraph without a blank cell before the end of a row, are placed when
they are among these rows. -/
def PlaceInv (old : List ScreenCell) (li : List VTermLineInfo) (Ro wo R w : Nat)
    (ocur : VTermPos) (lo hi q : Nat) (st : ResizeState) : Prop :=
  st.old_row = (q : Int) - 1 ∧ -1 ≤ st.new_row ∧ st.new_row < (R : Int) ∧
  st.final_blank_row = (R : Int) ∧ st.new_buffer.length = R * w ∧
  st.new_lineinfo.length = R ∧
  (∀ i, i < (st.new_row + 1).toNat * w → ∃ x, st.new_buffer[i]? = some x ∧ x.char0 = 0) ∧
  (0 < q → q < Ro → ∃ info, li[q]? = some info ∧ info.continuation = 0) ∧
  (0 < q → ∀ info, st.new_lineinfo[(st.new_row + 1).toNat]? = some info →
    info.continuation = 0) ∧
  ((q : Int) ≤ ocur.row → ocur.row < (Ro : Int) → 0 ≤ ocur.col →
    0 ≤ st.new_cursor.row ∧ 0 ≤ st.new_cursor.col) ∧
  (q ≤ lo → IsParagraph li lo hi →
    (∀ x ∈ paragraph_cells old (wo : Int) (hi - lo + 1) (lo : Int), x.char0 ≠ 0) →
    Placed old wo lo hi st.new_buffer st.new_lineinfo w st.new_row)

/-! ## Sequences of sink events -/

/-- A call of one of the sink callbacks that write to the grid. -/
inductive SinkEvent where
  | putglyph (info : VTermGlyphInfo) (pos : VTermPos)
  | erase (rect : VTermRect) (selective : Int)
  | scrollrect (rect : VTermRect) (downward rightward : Int)
  | setlineinfo (row : Int) (newinfo oldinfo : VTermLineInfo)

/-- The screen after one sink event. -/
def sink (fuel : Nat) (e : SinkEvent) (s : VTermScreen) : Option VTermScreen :=
  match e with
  | SinkEvent.putglyph info pos => (putglyph fuel info pos s).map Prod.fst
  | SinkEvent.erase rect selective => (erase fuel rect selective s).map Prod.fst
  | SinkEvent.scrollrect rect downward rightward =>
    (scrollrect fuel rect downward rightward s).map Prod.fst
  | SinkEvent.setlineinfo row newinfo oldinfo =>
    (setlineinfo fuel row newinfo oldinfo s).map Prod.fst

/-- The screen after a sequence of sink events. -/
def run_sink (fuel : Nat) : List SinkEvent → VTermScreen → Option VTermScreen
  | [], s => some s
  | e :: es, s => (sink fuel e s).bind (run_sink fuel es)

/-! ## Well-formed screens -/

/-- The shape a screen has between two calls: non-negative dimensions, the
state layer agreeing on the number of rows, one line-info record per row, an
allocated active buffer of `rows * cols` cells, each with its full array of
codepoints. -/
def WF (s : VTermScreen) : Prop :=
  0 ≤ s.rows ∧ 0 ≤ s.cols ∧ s.state_rows = s.rows ∧ s.lineinfo.length = s.rows.toNat ∧
  ∃ b, s.cells = some b ∧ b.length = (s.rows * s.cols).toNat ∧
    ∀ c ∈ b, c.chars.length = VTERM_MAX_CHARS_PER_CELL

/-- The state of the damage accumulator never holds a deferred scroll unless
the policy is `SCROLL`: the scroll is only ever stored under that policy, and
`vterm_screen_set_damage_merge` flushes before it changes the policy. -/
def DamageInv (s : VTermScreen) : Prop :=
  s.damage_merge ≠ VTermDamageSize.SCROLL → s.pending_scrollrect.start_row = -1

/-- A position on the grid. -/
def InGrid (s : VTermScreen) (row col : Int) : Prop :=
  0 ≤ row ∧ row < s.rows ∧ 0 ≤ col ∧ col < s.cols

/-- A rectangle inside the grid. -/
def RectInGrid (s : VTermScreen) (rect : VTermRect) : Prop :=
  0 ≤ rect.start_row ∧ rect.start_row ≤ rect.end_row ∧ rect.end_row ≤ s.rows ∧
  0 ≤ rect.start_col ∧ rect.start_col ≤ rect.end_col ∧ rect.end_col ≤ s.cols

/-- A position inside a rectangle. -/
def InRect (rect : VTermRect) (row col : Int) : Prop :=
  rect.start_row ≤ row ∧ row < rect.end_row ∧ rect.start_col ≤ col ∧ col < rect.end_col

instance (rect : VTermRect) (row col : Int) : Decidable (InRect rect row col) := by
  unfold InRect; infer_instance

instance (s : VTermScreen) (row col : Int) : Decidable (InGrid s row col) := by
  unfold InGrid; infer_instance

instance (s : VTermScreen) (rect : VTermRect) : Decidable (RectInGrid s rect) := by
  unfold RectInGrid; infer_instance

/-- Two screens show the same grid: dimensions, both buffers, the choice of the
active buffer, the pen register and the line-info agree. -/
def sameGrid (s t : VTermScreen) : Prop :=
  t.rows = s.rows ∧ t.cols = s.cols ∧ t.buffers_primary = s.buffers_primary ∧
  t.buffers_altscreen = s.buffers_altscreen ∧ t.buffer = s.buffer ∧ t.pen = s.pen ∧
  t.state_rows = s.state_rows ∧ t.lineinfo = s.lineinfo

/-- Only the damage accumulator and the trace differ between the two screens. -/
def OnlyDamage (s s' : VTermScreen) : Prop :=
  ∃ d p pd pr tr, s' = { s with damaged := d, pending_scrollrect := p
                                pending_scroll_downward := pd
                                pending_scroll_rightward := pr, trace := tr }

/-- The second screen is the first with other cells in its active buffer, and is
well-formed. -/
def GridStep (s s' : VTermScreen) : Prop :=
  (∃ b', s' = s.setCells b') ∧ WF s'

/-- What `erase_internal` leaves in a cell of its rectangle: a protected cell
survives a selective erase, any other cell loses `chars[0]` and gets the erased
pen of its row. -/
def erase_result (selective : Int) (pen : ScreenPen) (info : VTermLineInfo) (c : ScreenCell) :
    ScreenCell :=
  if selective ≠ 0 ∧ c.pen.protected_cell ≠ 0 then c
  else { chars := c.chars.set 0 0, pen := erased_pen pen info }

/-- The cell `erase_internal` leaves at a position of row `row`, from the cell
that was there. -/
def erase_at (selective : Int) (s : VTermScreen) (row : Int) (x : Option ScreenCell) :
    Option ScreenCell :=
  x.bind fun c => (vterm_state_get_lineinfo s row).map fun info =>
    erase_result selective s.pen info c

/-- Every cell of the second grid is a cell of the same column of the first. -/
def ColFrom (s s' : VTermScreen) : Prop :=
  ∀ r c, InGrid s r c → ∃ r', InGrid s r' c ∧ cellAt s' r c = cellAt s r' c

/-- Every cell of the second grid is a cell of the same column of the first, or
has `chars[0] = 0`. -/
def ColSafe (s s' : VTermScreen) : Prop :=
  ∀ r c, InGrid s r c →
    (∃ r', InGrid s r' c ∧ cellAt s' r c = cellAt s r' c) ∨
    (∃ x, cellAt s' r c = some x ∧ x.char0 = 0)

/-- An operation on the grid that reads nothing but the grid: run on a screen
showing the same grid it succeeds alike and leaves the same cells. -/
def GridNatural (op : VTermScreen → Option VTermScreen) : Prop :=
  ∀ s u s', (∃ b, s.cells = some b) → sameGrid s u → op s = some s' →
    ∃ b', s' = s.setCells b' ∧ op u = some (u.setCells b')

/-- The events of the state layer this development follows through the grid: a
glyph on the grid fits into its row and its first codepoint is not the
reserved marker; erase and scroll rectangles lie inside the grid; a scroll is
vertical; a line-info change is for a row of the grid. -/
def SinkEvent.fits (s : VTermScreen) : SinkEvent → Prop
  | SinkEvent.putglyph info pos =>
    (InGrid s pos.row pos.col → pos.col + info.width ≤ s.cols) ∧
      info.chars.getD 0 0 ≠ WIDE_CONT
  | SinkEvent.erase rect _ => RectInGrid s rect
  | SinkEvent.scrollrect rect _ rightward => RectInGrid s rect ∧ rightward = 0
  | SinkEvent.setlineinfo row _ _ => 0 ≤ row ∧ row < s.rows

/-- No cell of column 0 holds the marker `WIDE_CONT` in `chars[0]`. -/
def NoWideCol0 (s : VTermScreen) : Prop :=
  ∀ r x, cellAt s r 0 = some x → x.char0 ≠ WIDE_CONT

/-- What holds of a screen between two sink events. -/
def SinkInv (s : VTermScreen) : Prop :=
  WF s ∧ DamageInv s ∧ NoWideCol0 s

/-- Every cell of column 0 of the second grid has the `chars[0]` of a cell of
column 0 of the first, or a `chars[0]` that is not the marker. -/
def CharSafe (s g : VTermScreen) : Prop :=
  ∀ r x, cellAt g r 0 = some x →
    (∃ r' x0, cellAt s r' 0 = some x0 ∧ x.char0 = x0.char0) ∨ x.char0 ≠ WIDE_CONT

/-- The fields of the damage accumulator and the active buffer as `screen_new`
leaves them (screen.c lines 1310-1312 and 1324-1326): the `CELL` policy, no
stored damage, no deferred scroll, the primary buffer active. -/
def IsFresh (s : VTermScreen) : Prop :=
  s.damage_merge = VTermDamageSize.CELL ∧ s.damaged.start_row = -1 ∧
  s.pending_scrollrect.start_row = -1 ∧ s.buffer = BufIdx.PRIMARY

/-- The states a screen passes through from a freshly created one by calls of
`damagerect`, `scrollrect`, `vterm_screen_flush_damage` and
`vterm_screen_set_damage_merge` that return, together with the states between
the steps of `scrollrect` and of the flush: the scroll of the grid and the
calls of `moverect_user`. -/
inductive Reachable : VTermScreen → Prop
  | fresh (s : VTermScreen) : IsFresh s → Reachable s
  | by_damagerect (fuel : Nat) (rect : VTermRect) (s s' : VTermScreen) : Reachable s →
      damagerect (vterm_screen_flush_damage fuel) s rect = some s' → Reachable s'
  | by_scrollrect (fuel : Nat) (rect : VTermRect) (downward rightward : Int)
      (s s' : VTermScreen) (ret : Int) : Reachable s →
      scrollrect fuel rect downward rightward s = some (s', ret) → Reachable s'
  | by_flush_damage (fuel : Nat) (s s' : VTermScreen) : Reachable s →
      vterm_screen_flush_damage fuel s = some s' → Reachable s'
  | by_set_damage_merge (fuel : Nat) (size : VTermDamageSize) (s s' : VTermScreen) :
      Reachable s → vterm_screen_set_damage_merge fuel s size = some s' → Reachable s'
  | by_scroll_grid (rect : VTermRect) (downward rightward : Int) (s s' : VTermScreen) :
      Reachable s →
      vterm_scroll_rect rect downward rightward (some moverect_internal) erase_internal s =
        some s' → Reachable s'
  | by_moverect_user (fuel : Nat) (dest src : VTermRect) (s s' : VTermScreen) : Reachable s →
      moverect_user (vterm_screen_flush_damage fuel) dest src s = some s' → Reachable s'

/-- The invariant of the reachable states: the active buffer is allocated, and a
deferred scroll is stored only under the `SCROLL` policy. -/
def ReachInv (s : VTermScreen) : Prop :=
  (∃ b, s.cells = some b) ∧ DamageInv s

/-- The part of `resize_buffer` after the check of the cursor (screen.c lines
1049-1195): the push of the rows that were not placed, the refill from the
scrollback, the fill of the lines left over and the stores into the screen and
the state fields.  `st` is the state the first loop leaves, `new_cursor` the
cursor that went through the check. -/
def resize_scrollback (fuel : Nat) (alloc : VTermAllocator) (bufidx : BufIdx)
    (new_rows new_cols : Int) (active : Bool) (fields : VTermStateFields) (s : VTermScreen)
    (st : ResizeState) (new_cursor : VTermPos) : Option (VTermScreen × VTermStateFields) :=
  let old_cols := s.cols
  let old_lineinfo :=
    match bufidx with
    | BufIdx.PRIMARY => fields.lineinfos_primary
    | BufIdx.ALTSCREEN => fields.lineinfos_altscreen
  (if st.old_row ≥ 0 ∧ bufidx = BufIdx.PRIMARY then
    (if has_pushline s then
      (resize_push old_lineinfo old_cols st.old_row { s with buffer := BufIdx.PRIMARY }).map
        fun (s1 : VTermScreen) => { s1 with buffer := s.buffer }
    else some s).map fun (s1 : VTermScreen) =>
      (s1, if active then
          ({ fields.pos with row := fields.pos.row - (st.old_row + 1) } : VTermPos)
        else fields.pos)
  else some (s, fields.pos)).bind fun pushed =>
  (if pushed.1.with_conpty = 0 ∧ st.new_row ≥ 0 ∧ bufidx = BufIdx.PRIMARY ∧
      (pushed.1.callbacks.bind fun cb => cb.sb_popline).isSome then
    resize_pop fuel alloc old_cols new_rows new_cols active fuel
      { new_row := st.new_row, new_buffer := st.new_buffer, new_lineinfo := st.new_lineinfo
        screen := pushed.1, pos := pushed.2 }
  else
    some { new_row := st.new_row, new_buffer := st.new_buffer
           new_lineinfo := st.new_lineinfo, screen := pushed.1, pos := pushed.2 }).bind
    fun popped =>
  (resize_fill new_rows new_cols popped.new_row popped.new_buffer popped.new_lineinfo
    new_cursor).map fun (filled : List ScreenCell × List VTermLineInfo × VTermPos) =>
    ((match bufidx with
      | BufIdx.PRIMARY => { popped.screen with buffers_primary := filled.1 }
      | BufIdx.ALTSCREEN => { popped.screen with buffers_altscreen := some filled.1 }),
     (match bufidx with
      | BufIdx.PRIMARY =>
        { pos := if active then filled.2.2 else popped.pos
          lineinfos_primary := some filled.2.1
          lineinfos_altscreen := fields.lineinfos_altscreen }
      | BufIdx.ALTSCREEN =>
        { pos := if active then filled.2.2 else popped.pos
          lineinfos_primary := fields.lineinfos_primary
          lineinfos_altscreen := some filled.2.1 }))

/-- What the first loop of `resize_buffer` keeps about the cursor, with `q` old
rows still to place: the loop state is in range, `final_blank_row` is the number
of new rows, and the new cursor is set when the old cursor is in a row that was
placed. -/
def CursorInv (Ro R w : Nat) (ocur : VTermPos) (q : Nat) (st : ResizeState) : Prop :=
  st.old_row = (q : Int) - 1 ∧ -1 ≤ st.new_row ∧ st.new_row < (R : Int) ∧
  st.final_blank_row = (R : Int) ∧ st.new_buffer.length = R * w ∧
  st.new_lineinfo.length = R ∧
  ((q : Int) ≤ ocur.row → ocur.row < (Ro : Int) → 0 ≤ ocur.col →
    0 ≤ st.new_cursor.row ∧ 0 ≤ st.new_cursor.col)

/-! ## Example screens -/

/-- An erased cell with the reset pen. -/
def blank_cell : ScreenCell := { chars := [0, 0, 0, 0, 0, 0], pen := default }

/-- A host that listens for damage only. -/
def damage_host : VTermScreenCallbacks :=
  { damage := true, moverect := none, settermprop := none, sb_pushline := false
    sb_pushline4 := false, sb_peek := none, sb_popline := none, resize := none }

/-- A blank screen of two rows and three columns on the primary buffer, with
nothing stored in the damage accumulator. -/
def small_screen (policy : VTermDamageSize) : VTermScreen :=
  { callbacks := some damage_host
    callbacks_has_pushline4 := false
    damage_merge := policy
    damaged := { start_row := -1, end_row := 0, start_col := 0, end_col := 0 }
    pending_scrollrect := { start_row := -1, end_row := 0, start_col := 0, end_col := 0 }
    pending_scroll_downward := 0
    pending_scroll_rightward := 0
    rows := 2
    cols := 3
    global_reverse := 0
    reflow := 0
    with_conpty := 0
    buffers_primary := List.replicate 6 blank_cell
    buffers_altscreen := none
    buffer := BufIdx.PRIMARY
    sb_buffer := []
    pen := default
    state_rows := 2
    lineinfo := List.replicate 2 { doublewidth := 0, doubleheight := 0, continuation := 0 }
    trace := [] }

/-- A blank screen of two rows and three columns as `screen_new` leaves it
(screen.c lines 1296-1335): `CELL` policy, no callbacks, nothing stored in the
damage accumulator, every `chars[0]` cleared. -/
def fresh_screen : VTermScreen :=
  { small_screen VTermDamageSize.CELL with callbacks := none }

/-- The cell of a protected letter `A`. -/
def protected_A : ScreenCell :=
  { chars := [0x41, 0, 0, 0, 0, 0], pen := { (default : ScreenPen) with protected_cell := 1 } }

/-- The small screen with a protected `A` in its top-left cell. -/
def marked_screen : VTermScreen :=
  { small_screen VTermDamageSize.CELL with
    buffers_primary := protected_A :: List.replicate 5 blank_cell }

/-- A glyph of one codepoint and the given width. -/
def glyph (c : Nat) (width : Int) : VTermGlyphInfo :=
  { chars := [c], width := width, protected_cell := 0, dwl := 0, dhl := 0 }

/-- The small screen under the `SCROLL` policy with the whole of row 1 stored
as damage. -/
def damaged_screen : VTermScreen :=
  { small_screen VTermDamageSize.SCROLL with
    damaged := { start_row := 1, end_row := 2, start_col := 0, end_col := 3 } }

/-- A host that listens for damage and for property changes, and accepts every
property. -/
def prop_host : VTermScreenCallbacks :=
  { damage := true, moverect := none, settermprop := some (fun _ _ _ => 1)
    sb_pushline := false, sb_pushline4 := false, sb_peek := none, sb_popline := none
    resize := none }

/-- The small screen with the property host and an allocated alternate buffer. -/
def alt_screen : VTermScreen :=
  { small_screen VTermDamageSize.CELL with
    callbacks := some prop_host
    buffers_altscreen := some (List.replicate 6 blank_cell) }

/-- The mask that selects the `bold` attribute only. -/
def bold_mask : VTermAttrMask :=
  { bold := true, underline := false, italic := false, blink := false, reverse := false
    conceal := false, strike := false, font := false, foreground := false
    background := false, small := false, baseline := false }

/-- An extent with no limits set. -/
def no_limits : VTermRect := { start_row := -1, end_row := -1, start_col := -1, end_col := -1 }

/-- The screen after a width-2 glyph is written at the top-left of the fresh
screen: the glyph, its trailing half, and blank cells. -/
def wide_screen : VTermScreen :=
  { fresh_screen with
    buffers_primary :=
      { chars := [0x4e2d, 0, 0, 0, 0, 0], pen := default } ::
      { chars := [WIDE_CONT, 0, 0, 0, 0, 0], pen := default } :: List.replicate 4 blank_cell }

/-- An external cell with every field zero. -/
def blank_ext_cell : VTermScreenCell :=
  { chars := [0, 0, 0, 0, 0, 0], width := 0, attrs := ⟨0, 0, 0, 0, 0, 0, 0, 0, 0, 0, 0, 0⟩
    fg := default, bg := default }

/-- A host that registered the legacy push callback only. -/
def legacy_host : VTermScreenCallbacks :=
  { damage := true, moverect := none, settermprop := none, sb_pushline := true
    sb_pushline4 := false, sb_peek := none, sb_popline := none, resize := none }

/-- The screen with a width-2 glyph at its top-left, the legacy host, a staging
buffer of one row, and row 0 flagged as a continuation row. -/
def pushing_screen : VTermScreen :=
  { wide_screen with
    callbacks := some legacy_host
    sb_buffer := List.replicate 3 blank_ext_cell
    lineinfo := [{ doublewidth := 0, doubleheight := 0, continuation := 1 },
                 { doublewidth := 0, doubleheight := 0, continuation := 0 }] }

/-- A cell with one codepoint and the reset pen. -/
def letter (c : Nat) : ScreenCell := { chars := [c, 0, 0, 0, 0, 0], pen := default }

/-- Two rows of ten columns: `HELLO WORL` and `D`. -/
def hello_buffer : List ScreenCell :=
  [letter 0x48, letter 0x45, letter 0x4c, letter 0x4c, letter 0x4f, letter 0x20, letter 0x57,
    letter 0x4f, letter 0x52, letter 0x4c, letter 0x44] ++ List.replicate 9 blank_cell

/-- A wide glyph after three letters in a row of six columns. -/
def wide_buffer : List ScreenCell :=
  [letter 0x41, letter 0x42, letter 0x43, letter 0x4e2d,
    { chars := [WIDE_CONT, 0, 0, 0, 0, 0], pen := default }, blank_cell]

/-- The small screen under the `SCROLL` policy with a stored scroll of its
first column by one row and stored damage in its last column, which the first
column neither overlaps nor touches. -/
def scrolled_screen : VTermScreen :=
  { small_screen VTermDamageSize.SCROLL with
    pending_scrollrect := { start_row := 0, end_row := 2, start_col := 0, end_col := 1 }
    pending_scroll_downward := 1
    pending_scroll_rightward := 0
    damaged := { start_row := 0, end_row := 2, start_col := 2, end_col := 3 } }

/-- A line-info record with every flag clear. -/
def zero_info : VTermLineInfo := { doublewidth := 0, doubleheight := 0, continuation := 0 }

/-- The line-info record of a continuation row. -/
def cont_info : VTermLineInfo := { doublewidth := 0, doubleheight := 0, continuation := 1 }

/-- An allocator that hands out zeroed memory. -/
def zero_alloc : VTermAllocator :=
  { cell := fun _ => blank_cell, lineinfo := fun _ => zero_info, sb_cell := fun _ => blank_ext_cell }

/-- The cells of a row of letters, `0` for a blank cell. -/
def letters (l : List Nat) : List ScreenCell :=
  l.map fun c => if c = 0 then blank_cell else letter c

/-- Two rows of three columns with `A` at the top-left, and the state fields
with the cursor on it. -/
def a_screen : VTermScreen :=
  { fresh_screen with buffers_primary := letters [0x41, 0, 0, 0, 0, 0] }

/-- The state fields for a grid of two rows without continuation rows, the
cursor at the top-left. -/
def a_fields : VTermStateFields :=
  { pos := { row := 0, col := 0 }, lineinfos_primary := some [zero_info, zero_info]
    lineinfos_altscreen := none }

/-- Two rows of five columns, `HELLO` and `WORLD`. -/
def hw_screen : VTermScreen :=
  { fresh_screen with
    rows := 2, cols := 5
    buffers_primary := letters [0x48, 0x45, 0x4c, 0x4c, 0x4f, 0x57, 0x4f, 0x52, 0x4c, 0x44] }

/-- The state fields for `hw_screen`: the second row continues the first, the
cursor is on the `L` of `WORLD`. -/
def hw_fields : VTermStateFields :=
  { pos := { row := 1, col := 3 }, lineinfos_primary := some [zero_info, cont_info]
    lineinfos_altscreen := none }

/-- One row of ten columns that starts with `AB`. -/
def ab_screen : VTermScreen :=
  { fresh_screen with
    rows := 1, cols := 10, buffers_primary := letters [0x41, 0x42, 0, 0, 0, 0, 0, 0, 0, 0] }

/-- The state fields for `ab_screen`, the cursor in column 8. -/
def ab_fields : VTermStateFields :=
  { pos := { row := 0, col := 8 }, lineinfos_primary := some [zero_info]
    lineinfos_altscreen := none }

/-- An external cell with one letter. -/
def ext_letter (c : Nat) : VTermScreenCell :=
  { blank_ext_cell with chars := [c, 0, 0, 0, 0, 0], width := 1 }

/-- A host with a scrollback of one line of four columns, `AB`, that is not a
continuation: `sb_peek` offers the line until `sb_popline` has handed it out. -/
def pop_host : VTermScreenCallbacks :=
  { damage := false, moverect := none, settermprop := none, sb_pushline := false
    sb_pushline4 := false
    sb_peek := some fun tr _ _ => if HostEvent.sb_popline 4 ∈ tr then (0, 0, false) else (1, 4, false)
    sb_popline := some fun _ _ => (1, [ext_letter 0x41, ext_letter 0x42, blank_ext_cell, blank_ext_cell])
    resize := none }

/-- One row of four columns that holds `CD`, with the host `pop_host`. -/
def cd_screen : VTermScreen :=
  { fresh_screen with
    rows := 1, cols := 4, buffers_primary := letters [0x43, 0x44, 0, 0]
    callbacks := some pop_host, sb_buffer := List.replicate 4 blank_ext_cell }

/-- The state fields for `cd_screen`: the row continues a line of the
scrollback, the cursor is on the `D`. -/
def cd_fields : VTermStateFields :=
  { pos := { row := 0, col := 1 }, lineinfos_primary := some [cont_info]
    lineinfos_altscreen := none }

/-- Two rows of five columns with an allocated alternate buffer that holds
`HELLO` and `WORLD`, a staging buffer of one row, and a host that registered
every scrollback callback and has lines to hand out. -/
def alt_hw_screen : VTermScreen :=
  { hw_screen with
    buffers_altscreen := some (letters [0x48, 0x45, 0x4c, 0x4c, 0x4f, 0x57, 0x4f, 0x52, 0x4c, 0x44])
    buffer := BufIdx.ALTSCREEN
    callbacks := some
      { damage := false, moverect := none, settermprop := none, sb_pushline := true
        sb_pushline4 := true, sb_peek := some fun _ _ _ => (1, 5, false)
        sb_popline := some fun _ _ => (1, []), resize := none }
    callbacks_has_pushline4 := true
    sb_buffer := List.replicate 5 blank_ext_cell }

/-- The state fields for `alt_hw_screen`: no continuation rows in the alternate
buffer, the cursor on the `L` of `WORLD`. -/
def alt_hw_fields : VTermStateFields :=
  { hw_fields with lineinfos_altscreen := some [zero_info, zero_info] }

/-- Two rows of three columns, `A` and `B`, each followed by blank cells. -/
def short_rows_screen : VTermScreen :=
  { fresh_screen with buffers_primary := letters [0x41, 0, 0, 0x42, 0, 0] }

/-- The state fields for a grid of two rows whose second row continues the
first, the cursor at the top-left. -/
def cont_fields : VTermStateFields :=
  { pos := { row := 0, col := 0 }, lineinfos_primary := some [zero_info, cont_info]
    lineinfos_altscreen := none }

/-- A blank cell with a bold pen. -/
def bold_blank : ScreenCell :=
  { chars := [0, 0, 0, 0, 0, 0], pen := { (default : ScreenPen) with bold := 1 } }

/-- Two rows of three columns: `A`, a blank cell with a bold pen, and blank
cells. -/
def styled_screen : VTermScreen :=
  { fresh_screen with
    buffers_primary := [letter 0x41, bold_blank, blank_cell, blank_cell, blank_cell, blank_cell] }

/-- The state fields for a grid of two rows whose first row is a double-width
line, the cursor at the top-left. -/
def dwl_fields : VTermStateFields :=
  { pos := { row := 0, col := 0 }
    lineinfos_primary := some [{ doublewidth := 1, doubleheight := 0, continuation := 0 },
      zero_info]
    lineinfos_altscreen := none }

/-- One row of four columns: `A`, a blank cell, `B`, a blank cell. -/
def gap_screen : VTermScreen :=
  { fresh_screen with rows := 1, cols := 4, buffers_primary := letters [0x41, 0, 0x42, 0] }

/-- The state fields for `gap_screen`: no continuation row, the cursor at the
top-left. -/
def gap_fields : VTermStateFields :=
  { pos := { row := 0, col := 0 }, lineinfos_primary := some [zero_info]
    lineinfos_altscreen := none }

/-- A cell with the letter `A` drawn in reverse video, bold, in font 3. -/
def reversed_A : ScreenCell :=
  { chars := [0x41, 0x301, 0, 0x42, 0, 0]
    pen := { (default : ScreenPen) with reverse := 1, bold := 1, font := 3 } }

/-- The small screen with `reversed_A` in its top-left cell and the global
reverse flag set. -/
def reversed_screen : VTermScreen :=
  { small_screen VTermDamageSize.CELL with
    global_reverse := 1
    buffers_primary := reversed_A :: List.replicate 5 blank_cell }

/-- A blank glyph of width 1: `chars[0]` is the terminator. -/
def empty_glyph : VTermGlyphInfo :=
  { chars := [], width := 1, protected_cell := 0, dwl := 0, dhl := 0 }

/-- The fresh screen with `reversed_A` in its top-left cell; the pen register
is the default pen. -/
def stale_pen_screen : VTermScreen :=
  { fresh_screen with buffers_primary := reversed_A :: List.replicate 5 blank_cell }

/-- One row of two columns that holds a wide glyph: the glyph and its trailing
half. -/
def wide_pair : List ScreenCell :=
  [{ chars := [0x4e2d, 0, 0, 0, 0, 0], pen := default },
    { chars := [WIDE_CONT, 0, 0, 0, 0, 0], pen := default }]

/-- Two rows of two columns: `AB` and a blank row. -/
def ab_blank_buffer : List ScreenCell := letters [0x41, 0x42, 0, 0]

/-- Output memory that holds the letter `Z` in each of its `n` cells. -/
def stale_cells (n : Nat) : List ScreenCell := List.replicate n (letter 0x5a)

/-- Three rows of three columns with `A` at the top-left and two blank rows
below it. -/
def top_screen : VTermScreen :=
  { fresh_screen with
    rows := 3, state_rows := 3
    buffers_primary := letters [0x41, 0, 0, 0, 0, 0, 0, 0, 0]
    lineinfo := List.replicate 3 zero_info }

/-- The state fields for `top_screen`: no continuation rows, the cursor at the
top-left. -/
def top_fields : VTermStateFields :=
  { pos := { row := 0, col := 0 }, lineinfos_primary := some [zero_info, zero_info, zero_info]
    lineinfos_altscreen := none }

/-- Three rows of four columns that hold one paragraph: `AB`, then the
continuation rows `CDEF` and `GH`. -/
def split_paragraph : List ScreenCell :=
  letters [0x41, 0x42, 0, 0, 0x43, 0x44, 0x45, 0x46, 0x47, 0x48, 0, 0]

/-! ## Basic lemmas -/

section basics

variable {s : VTermScreen}

@[simp] theorem setCells_rows (b : List ScreenCell) : (s.setCells b).rows = s.rows := by
  unfold VTermScreen.setCells; split <;> rfl

@[simp] theorem setCells_cols (b : List ScreenCell) : (s.setCells b).cols = s.cols := by
  unfold VTermScreen.setCells; split <;> rfl

@[simp] theorem setCells_pen (b : List ScreenCell) : (s.setCells b).pen = s.pen := by
  unfold VTermScreen.setCells; split <;> rfl

@[simp] theorem setCells_state_rows (b : List ScreenCell) :
    (s.setCells b).state_rows = s.state_rows := by
  unfold VTermScreen.setCells; split <;> rfl

@[simp] theorem setCells_lineinfo (b : List ScreenCell) :
    (s.setCells b).lineinfo = s.lineinfo := by
  unfold VTermScreen.setCells; split <;> rfl

@[simp] theorem setCells_buffer (b : List ScreenCell) : (s.setCells b).buffer = s.buffer := by
  unfold VTermScreen.setCells; split <;> rfl

@[simp] theorem setCells_damage_merge (b : List ScreenCell) :
    (s.setCells b).damage_merge = s.damage_merge := by
  unfold VTermScreen.setCells; split <;> rfl

@[simp] theorem setCells_damaged (b : List ScreenCell) :
    (s.setCells b).damaged = s.damaged := by
  unfold VTermScreen.setCells; split <;> rfl

@[simp] theorem setCells_pending (b : List ScreenCell) :
    (s.setCells b).pending_scrollrect = s.pending_scrollrect := by
  unfold VTermScreen.setCells; split <;> rfl

@[simp] theorem setCells_pending_down (b : List ScreenCell) :
    (s.setCells b).pending_scroll_downward = s.pending_scroll_downward := by
  unfold VTermScreen.setCells; split <;> rfl

@[simp] theorem setCells_pending_right (b : List ScreenCell) :
    (s.setCells b).pending_scroll_rightward = s.pending_scroll_rightward := by
  unfold VTermScreen.setCells; split <;> rfl

@[simp] theorem setCells_trace (b : List ScreenCell) : (s.setCells b).trace = s.trace := by
  unfold VTermScreen.setCells; split <;> rfl

@[simp] theorem setCells_callbacks (b : List ScreenCell) :
    (s.setCells b).callbacks = s.callbacks := by
  unfold VTermScreen.setCells; split <;> rfl

@[simp] theorem setCells_cells (b : List ScreenCell) : (s.setCells b).cells = some b := by
  cases hb : s.buffer <;> simp [VTermScreen.setCells, VTermScreen.cells, hb]

@[simp] theorem setCells_setCells (b b' : List ScreenCell) :
    (s.setCells b).setCells b' = s.setCells b' := by
  cases hb : s.buffer <;> simp [VTermScreen.setCells, hb]

theorem setCells_self {b : List ScreenCell} (h : s.cells = some b) : s.setCells b = s := by
  cases s with
  | mk a1 a2 a3 a4 a5 a6 a7 a8 a9 a10 a11 a12 bp ba bsel asb a16 a17 a18 a19 =>
    cases bsel <;> simp_all [VTermScreen.setCells, VTermScreen.cells]

@[simp] theorem getcell_setCells (b : List ScreenCell) (row col : Int) :
    getcell (s.setCells b) row col = getcell s row col := by
  simp [getcell]

theorem getcell_some {row col : Int} (h : InGrid s row col) :
    getcell s row col = some (s.cols * row + col).toNat := by
  obtain ⟨h1, h2, h3, h4⟩ := h
  simp [getcell, not_lt.mpr h1, not_le.mpr h2, not_lt.mpr h3, not_le.mpr h4]

theorem getcell_none {row col : Int} (h : ¬ InGrid s row col) : getcell s row col = none := by
  unfold InGrid at h
  unfold getcell
  split
  · rfl
  · split
    · rfl
    · exfalso; apply h; omega

theorem flat_lt {rows cols row col : Int} (h1 : 0 ≤ row) (h2 : row < rows) (h3 : 0 ≤ col)
    (h4 : col < cols) : (cols * row + col).toNat < (rows * cols).toNat := by
  have h5 : cols * row + col < rows * cols := by nlinarith
  have h6 : 0 ≤ cols * row + col := by nlinarith
  omega

theorem flat_inj {cols r c r' c' : Int} (hc : 0 ≤ c) (hc' : c < cols) (hd : 0 ≤ c')
    (hd' : c' < cols) (hr : 0 ≤ r) (hr' : 0 ≤ r')
    (h : (cols * r + c).toNat = (cols * r' + c').toNat) : r = r' ∧ c = c' := by
  have h1 : 0 ≤ cols * r + c := by nlinarith
  have h2 : 0 ≤ cols * r' + c' := by nlinarith
  have h3 : cols * r + c = cols * r' + c' := by omega
  have h4 : r = r' := by
    rcases lt_trichotomy r r' with hlt | heq | hgt
    · exfalso; nlinarith
    · exact heq
    · exfalso; nlinarith
  subst h4
  exact ⟨rfl, by linarith⟩

theorem forLoop_spec {σ : Type} (Inv : Nat → σ → Prop) (n : Nat) (i inc : Int)
    (body : Int → σ → Option σ) (s : σ) (h0 : Inv 0 s)
    (hstep : ∀ k, k < n → ∀ st, Inv k st →
      ∃ st', body (i + inc * (k : Int)) st = some st' ∧ Inv (k + 1) st') :
    ∃ s', forLoop n i inc body s = some s' ∧ Inv n s' := by
  induction n generalizing i s Inv with
  | zero => exact ⟨s, rfl, h0⟩
  | succ n ih =>
    obtain ⟨st', hb, hi⟩ := hstep 0 (Nat.succ_pos n) s h0
    simp only [Nat.cast_zero, mul_zero, add_zero] at hb
    have := ih (fun k st => Inv (k + 1) st) (i + inc) st' hi (by
      intro k hk st hst
      obtain ⟨st2, hb2, hi2⟩ := hstep (k + 1) (Nat.succ_lt_succ hk) st hst
      refine ⟨st2, ?_, hi2⟩
      rw [← hb2]
      congr 1
      push_cast
      ring)
    obtain ⟨s', hs', hinv⟩ := this
    exact ⟨s', by simp [forLoop, hb, hs'], hinv⟩

theorem cellAt_eq {b : List ScreenCell} (hb : s.cells = some b) (row col : Int) :
    cellAt s row col = if InGrid s row col then b[(s.cols * row + col).toNat]? else none := by
  unfold cellAt
  by_cases h : InGrid s row col
  · simp [getcell_some h, readcell, hb, h]
  · simp [getcell_none h, readcell, h]

theorem cellAt_setCells_set {b : List ScreenCell} (hb : s.cells = some b)
    (hlen : b.length = (s.rows * s.cols).toNat) {r c : Int} (h : InGrid s r c)
    (x : ScreenCell) (r' c' : Int) :
    cellAt (s.setCells (b.set (s.cols * r + c).toNat x)) r' c' =
      if r' = r ∧ c' = c then some x else cellAt s r' c' := by
  rw [cellAt_eq (setCells_cells _) r' c', cellAt_eq hb r' c']
  have hig : InGrid (s.setCells (b.set (s.cols * r + c).toNat x)) r' c' ↔ InGrid s r' c' := by
    simp [InGrid]
  simp only [hig, setCells_cols]
  by_cases hin : InGrid s r' c'
  · simp only [hin, if_true]
    by_cases heq : r' = r ∧ c' = c
    · obtain ⟨rfl, rfl⟩ := heq
      have := flat_lt hin.1 hin.2.1 hin.2.2.1 hin.2.2.2
      simp [List.getElem?_set, hlen, this]
    · rw [if_neg heq, List.getElem?_set]
      have hne : (s.cols * r + c).toNat ≠ (s.cols * r' + c').toNat := by
        intro he
        have := flat_inj h.2.2.1 h.2.2.2 hin.2.2.1 hin.2.2.2 h.1 hin.1 he
        exact heq ⟨this.1.symm, this.2.symm⟩
      simp [hne]
  · have hne : ¬ (r' = r ∧ c' = c) := by
      rintro ⟨rfl, rfl⟩; exact hin h
    simp [hin, hne]

theorem readcell_getcell {b : List ScreenCell} (hb : s.cells = some b)
    (hlen : b.length = (s.rows * s.cols).toNat) {r c : Int} (h : InGrid s r c) :
    ∃ x, readcell s (getcell s r c) = some x ∧ b[(s.cols * r + c).toNat]? = some x ∧ x ∈ b := by
  have hlt := flat_lt h.1 h.2.1 h.2.2.1 h.2.2.2
  rw [← hlen] at hlt
  refine ⟨b[(s.cols * r + c).toNat], ?_, ?_, List.getElem_mem _⟩
  · simp [getcell_some h, readcell, hb, List.getElem?_eq_getElem hlt]
  · exact List.getElem?_eq_getElem hlt

theorem writecell_getcell {b : List ScreenCell} (hb : s.cells = some b)
    (hlen : b.length = (s.rows * s.cols).toNat) {r c : Int} (h : InGrid s r c)
    (x : ScreenCell) :
    writecell s (getcell s r c) x = some (s.setCells (b.set (s.cols * r + c).toNat x)) := by
  have hlt := flat_lt h.1 h.2.1 h.2.2.1 h.2.2.2
  rw [← hlen] at hlt
  simp [getcell_some h, writecell, hb, hlt]

theorem WF_setCells_set {b : List ScreenCell} (hwf : WF s) (hb : s.cells = some b) (i : Nat)
    (x : ScreenCell) (hx : x.chars.length = VTERM_MAX_CHARS_PER_CELL) :
    WF (s.setCells (b.set i x)) := by
  obtain ⟨h1, h2, h3, h4, b0, hb0, hlen, hall⟩ := hwf
  rw [hb] at hb0; cases hb0
  refine ⟨by simpa using h1, by simpa using h2, by simpa using h3, by simpa using h4,
    b.set i x, setCells_cells _, by simpa using hlen, ?_⟩
  intro c hc
  rcases List.mem_or_eq_of_mem_set hc with h | h
  · exact hall c h
  · rw [h]; exact hx

/-- What a read-modify-write of a cell on the grid does. -/
theorem modifycell_spec (hwf : WF s) {r c : Int} (h : InGrid s r c) (f : ScreenCell → ScreenCell)
    (hf : ∀ x, (f x).chars.length = x.chars.length) :
    ∃ s' b', modifycell s (getcell s r c) f = some s' ∧ s' = s.setCells b' ∧ WF s' ∧
      ∀ r' c', cellAt s' r' c' =
        if r' = r ∧ c' = c then (cellAt s r c).map f else cellAt s r' c' := by
  obtain ⟨h1, h2, h3, h4, b, hb, hlen, hall⟩ := hwf
  obtain ⟨x, hx, hx', hmem⟩ := readcell_getcell hb hlen h
  refine ⟨s.setCells (b.set (s.cols * r + c).toNat (f x)), b.set (s.cols * r + c).toNat (f x),
    ?_, rfl, ?_, ?_⟩
  · unfold modifycell
    rw [hx]
    exact writecell_getcell hb hlen h (f x)
  · exact WF_setCells_set ⟨h1, h2, h3, h4, b, hb, hlen, hall⟩ hb _ _
      (by rw [hf]; exact hall x hmem)
  · intro r' c'
    rw [cellAt_setCells_set hb hlen h]
    have : cellAt s r c = some x := hx
    simp [this]

end basics

/-! ## Lemmas on rectangles -/

theorem rect_expand_contains_left (d r : VTermRect) : rect_contains (rect_expand d r) d = true := by
  simp only [rect_contains, rect_expand, decide_eq_true_eq]
  refine ⟨?_, ?_, ?_, ?_⟩ <;> split_ifs <;> omega

theorem rect_expand_contains_right (d r : VTermRect) :
    rect_contains (rect_expand d r) r = true := by
  simp only [rect_contains, rect_expand, decide_eq_true_eq]
  refine ⟨?_, ?_, ?_, ?_⟩ <;> split_ifs <;> omega

theorem rect_expand_least (d r big : VTermRect) (h1 : rect_contains big d = true)
    (h2 : rect_contains big r = true) : rect_contains big (rect_expand d r) = true := by
  simp only [rect_contains, rect_expand, decide_eq_true_eq] at *
  refine ⟨?_, ?_, ?_, ?_⟩ <;> split_ifs <;> omega

theorem rect_contains_trans (a b c : VTermRect) (h1 : rect_contains a b = true)
    (h2 : rect_contains b c = true) : rect_contains a c = true := by
  simp only [rect_contains, decide_eq_true_eq] at *
  omega

theorem rect_contains_refl (a : VTermRect) : rect_contains a a = true := by
  simp [rect_contains]

theorem rect_expand_start_row (d r : VTermRect) (h1 : 0 ≤ d.start_row) (h2 : 0 ≤ r.start_row) :
    0 ≤ (rect_expand d r).start_row := by
  simp only [rect_expand]; split_ifs <;> omega

theorem not_scroll_big {rect : VTermRect} {down right : Int} (h : ¬ scroll_big rect down right) :
    (-(rect.end_row - rect.start_row) < down ∧ down < rect.end_row - rect.start_row) ∧
    (-(rect.end_col - rect.start_col) < right ∧ right < rect.end_col - rect.start_col) := by
  unfold scroll_big at h
  push_neg at h
  exact ⟨abs_lt.mp h.1, abs_lt.mp h.2⟩

theorem scroll_dest_start_row (rect : VTermRect) (down right : Int) :
    rect.start_row ≤ (scroll_dest rect down right).start_row := by
  simp only [scroll_dest]; split_ifs <;> omega

theorem scroll_gap_start_row {rect : VTermRect} {down right : Int}
    (h : ¬ scroll_big rect down right) :
    rect.start_row ≤ (scroll_gap rect down right).start_row := by
  have := not_scroll_big h
  simp only [scroll_gap]
  split_ifs <;> first | omega | (simp only; omega)

/-! ## Loops over cells -/

theorem GridStep.gs_refl {s : VTermScreen} (hwf : WF s) : GridStep s s := by
  obtain ⟨h1, h2, h3, h4, b, hb, hlen, hall⟩ := hwf
  exact ⟨⟨b, (setCells_self hb).symm⟩, h1, h2, h3, h4, b, hb, hlen, hall⟩

theorem GridStep.gs_trans {a b c : VTermScreen} (h1 : GridStep a b) (h2 : GridStep b c) :
    GridStep a c := by
  obtain ⟨⟨b1, rfl⟩, -⟩ := h1
  obtain ⟨⟨b2, rfl⟩, hw⟩ := h2
  exact ⟨⟨b2, by simp⟩, hw⟩

theorem GridStep.rows {a b : VTermScreen} (h : GridStep a b) : b.rows = a.rows := by
  obtain ⟨⟨b1, rfl⟩, -⟩ := h; simp

theorem GridStep.cols {a b : VTermScreen} (h : GridStep a b) : b.cols = a.cols := by
  obtain ⟨⟨b1, rfl⟩, -⟩ := h; simp

theorem GridStep.pen {a b : VTermScreen} (h : GridStep a b) : b.pen = a.pen := by
  obtain ⟨⟨b1, rfl⟩, -⟩ := h; simp

theorem GridStep.lineinfo {a b : VTermScreen} (h : GridStep a b) : b.lineinfo = a.lineinfo := by
  obtain ⟨⟨b1, rfl⟩, -⟩ := h; simp

theorem GridStep.state_rows {a b : VTermScreen} (h : GridStep a b) :
    b.state_rows = a.state_rows := by
  obtain ⟨⟨b1, rfl⟩, -⟩ := h; simp

theorem GridStep.trace {a b : VTermScreen} (h : GridStep a b) : b.trace = a.trace := by
  obtain ⟨⟨b1, rfl⟩, -⟩ := h; simp

theorem GridStep.gs_damage_merge {a b : VTermScreen} (h : GridStep a b) :
    b.damage_merge = a.damage_merge := by
  obtain ⟨⟨b1, rfl⟩, -⟩ := h; simp

theorem GridStep.damaged {a b : VTermScreen} (h : GridStep a b) : b.damaged = a.damaged := by
  obtain ⟨⟨b1, rfl⟩, -⟩ := h; simp

theorem GridStep.pending {a b : VTermScreen} (h : GridStep a b) :
    b.pending_scrollrect = a.pending_scrollrect := by
  obtain ⟨⟨b1, rfl⟩, -⟩ := h; simp

theorem GridStep.gs_callbacks {a b : VTermScreen} (h : GridStep a b) :
    b.callbacks = a.callbacks := by
  obtain ⟨⟨b1, rfl⟩, -⟩ := h; simp

theorem GridStep.InGrid {a b : VTermScreen} (h : GridStep a b) (r c : Int) :
    InGrid b r c ↔ InGrid a r c := by
  unfold Screen.InGrid; rw [h.rows, h.cols]

theorem GridStep.DamageInv {a b : VTermScreen} (h : GridStep a b) (hi : DamageInv a) :
    DamageInv b := by
  unfold Screen.DamageInv; rw [h.gs_damage_merge, h.pending]; exact hi

theorem modifycell_step {s : VTermScreen} (hwf : WF s) {r c : Int} (h : InGrid s r c)
    (f : ScreenCell → ScreenCell) (hf : ∀ x, (f x).chars.length = x.chars.length) :
    ∃ s', modifycell s (getcell s r c) f = some s' ∧ GridStep s s' ∧
      ∀ r' c', cellAt s' r' c' =
        if r' = r ∧ c' = c then (cellAt s r c).map f else cellAt s r' c' := by
  obtain ⟨s', b', h1, h2, h3, h4⟩ := modifycell_spec hwf h f hf
  exact ⟨s', h1, ⟨⟨b', h2⟩, h3⟩, h4⟩

/-- A loop that rewrites one cell per iteration, walking along a row, rewrites
the segment it walks over. -/
theorem forLoop_row_map (s0 : VTermScreen) (hwf : WF s0) (row c0 : Int) (n : Nat)
    (body : Int → VTermScreen → Option VTermScreen)
    (G : Option ScreenCell → Option ScreenCell)
    (hrow : 0 ≤ row ∧ row < s0.rows) (hc0 : 0 ≤ c0) (hfit : c0 + n ≤ s0.cols)
    (hbody : ∀ st col, GridStep s0 st → InGrid st row col →
      ∃ st', body col st = some st' ∧ GridStep st st' ∧
        ∀ r' c', cellAt st' r' c' =
          if r' = row ∧ c' = col then G (cellAt st row col) else cellAt st r' c') :
    ∃ s', forLoop n c0 1 body s0 = some s' ∧ GridStep s0 s' ∧
      ∀ r c, cellAt s' r c =
        if r = row ∧ c0 ≤ c ∧ c < c0 + n then G (cellAt s0 r c) else cellAt s0 r c := by
  have := forLoop_spec
    (fun k st => GridStep s0 st ∧ ∀ r c, cellAt st r c =
      if r = row ∧ c0 ≤ c ∧ c < c0 + (k : Int) then G (cellAt s0 r c) else cellAt s0 r c)
    n c0 1 body s0
    ⟨GridStep.gs_refl hwf, by
      intro r c
      have : ¬ (r = row ∧ c0 ≤ c ∧ c < c0 + ((0 : Nat) : Int)) := by
        simp only [Nat.cast_zero, add_zero]; omega
      rw [if_neg this]⟩
    (by
      intro k hk st ⟨hgs, hcells⟩
      have hin : Screen.InGrid st row (c0 + 1 * (k : Int)) := by
        rw [hgs.InGrid]; unfold Screen.InGrid; omega
      obtain ⟨st', hb, hgs', hc'⟩ := hbody st _ hgs hin
      refine ⟨st', hb, hgs.gs_trans hgs', ?_⟩
      intro r c
      rw [hc', hcells, hcells]
      by_cases h1 : r = row ∧ c = c0 + 1 * (k : Int)
      · obtain ⟨rfl, rfl⟩ := h1
        have h2 : ¬ (r = r ∧ c0 ≤ c0 + 1 * (k : Int) ∧ c0 + 1 * (k : Int) < c0 + (k : Int)) := by
          omega
        have h3 : r = r ∧ c0 ≤ c0 + 1 * (k : Int) ∧ c0 + 1 * (k : Int) < c0 + ((k + 1 : Nat) : Int) := by
          push_cast; omega
        rw [if_pos ⟨rfl, rfl⟩, if_neg h2, if_pos h3]
      · rw [if_neg h1]
        by_cases h2 : r = row ∧ c0 ≤ c ∧ c < c0 + (k : Int)
        · have h3 : r = row ∧ c0 ≤ c ∧ c < c0 + ((k + 1 : Nat) : Int) := by
            push_cast; omega
          rw [if_pos h2, if_pos h3]
        · have h3 : ¬ (r = row ∧ c0 ≤ c ∧ c < c0 + ((k + 1 : Nat) : Int)) := by
            push_cast; omega
          rw [if_neg h2, if_neg h3])
  obtain ⟨s', h1, h2, h3⟩ := this
  exact ⟨s', h1, h2, h3⟩

/-- A loop over rows whose body rewrites a segment of its row rewrites the
rectangle it walks over. -/
theorem forLoop_rows_map (s0 : VTermScreen) (hwf : WF s0) (r0 c0 c1 : Int) (n : Nat)
    (body : Int → VTermScreen → Option VTermScreen)
    (G : Int → Option ScreenCell → Option ScreenCell)
    (hr0 : 0 ≤ r0) (hfit : r0 + n ≤ s0.rows)
    (hbody : ∀ st row, GridStep s0 st → 0 ≤ row ∧ row < s0.rows →
      ∃ st', body row st = some st' ∧ GridStep st st' ∧
        ∀ r' c', cellAt st' r' c' =
          if r' = row ∧ c0 ≤ c' ∧ c' < c1 then G row (cellAt st r' c') else cellAt st r' c') :
    ∃ s', forLoop n r0 1 body s0 = some s' ∧ GridStep s0 s' ∧
      ∀ r c, cellAt s' r c =
        if (r0 ≤ r ∧ r < r0 + n) ∧ c0 ≤ c ∧ c < c1 then G r (cellAt s0 r c)
        else cellAt s0 r c := by
  have := forLoop_spec
    (fun k st => GridStep s0 st ∧ ∀ r c, cellAt st r c =
      if (r0 ≤ r ∧ r < r0 + (k : Int)) ∧ c0 ≤ c ∧ c < c1 then G r (cellAt s0 r c)
      else cellAt s0 r c)
    n r0 1 body s0
    ⟨GridStep.gs_refl hwf, by
      intro r c
      have : ¬ ((r0 ≤ r ∧ r < r0 + ((0 : Nat) : Int)) ∧ c0 ≤ c ∧ c < c1) := by
        simp only [Nat.cast_zero, add_zero]; omega
      rw [if_neg this]⟩
    (by
      intro k hk st ⟨hgs, hcells⟩
      obtain ⟨st', hb, hgs', hc'⟩ := hbody st (r0 + 1 * (k : Int)) hgs (by omega)
      refine ⟨st', hb, hgs.gs_trans hgs', ?_⟩
      intro r c
      rw [hc', hcells]
      by_cases h1 : r = r0 + 1 * (k : Int) ∧ c0 ≤ c ∧ c < c1
      · have h2 : ¬ ((r0 ≤ r ∧ r < r0 + (k : Int)) ∧ c0 ≤ c ∧ c < c1) := by omega
        have h3 : (r0 ≤ r ∧ r < r0 + ((k + 1 : Nat) : Int)) ∧ c0 ≤ c ∧ c < c1 := by
          push_cast; omega
        rw [if_pos h1, if_neg h2, if_pos h3, h1.1]
      · rw [if_neg h1]
        by_cases h2 : (r0 ≤ r ∧ r < r0 + (k : Int)) ∧ c0 ≤ c ∧ c < c1
        · have h3 : (r0 ≤ r ∧ r < r0 + ((k + 1 : Nat) : Int)) ∧ c0 ≤ c ∧ c < c1 := by
            push_cast; omega
          rw [if_pos h2, if_pos h3]
        · have h3 : ¬ ((r0 ≤ r ∧ r < r0 + ((k + 1 : Nat) : Int)) ∧ c0 ≤ c ∧ c < c1) := by
            push_cast; omega
          rw [if_neg h2, if_neg h3])
  obtain ⟨s', h1, h2, h3⟩ := this
  exact ⟨s', h1, h2, h3⟩

theorem forLoop_shift {σ : Type} (body : Int → σ → Option σ) (a inc : Int) :
    ∀ (n : Nat) (i : Int) (s : σ),
      forLoop n i inc (fun j => body (a + j)) s = forLoop n (a + i) inc body s
  | 0, _, _ => rfl
  | n + 1, i, s => by
    simp only [forLoop]
    congr 1
    funext s'
    rw [forLoop_shift body a inc n (i + inc) s', add_assoc]

/-! ## Writing a glyph -/

theorem putglyph_copy_spec (chars : List Nat) (pen : ScreenPen) :
    ∀ (fuel i : Nat) (cell : ScreenCell), i + fuel ≤ cell.chars.length →
      i ≤ (putglyph_copy chars pen fuel i cell).1 ∧
      (putglyph_copy chars pen fuel i cell).1 ≤ i + fuel ∧
      (putglyph_copy chars pen fuel i cell).2.chars.length = cell.chars.length ∧
      (∀ k, i ≤ k → k < (putglyph_copy chars pen fuel i cell).1 →
        chars.getD k 0 ≠ 0 ∧
        (putglyph_copy chars pen fuel i cell).2.chars.getD k 0 = chars.getD k 0) ∧
      (∀ k, k < i →
        (putglyph_copy chars pen fuel i cell).2.chars.getD k 0 = cell.chars.getD k 0) ∧
      ((putglyph_copy chars pen fuel i cell).1 < i + fuel →
        chars.getD (putglyph_copy chars pen fuel i cell).1 0 = 0)
  | 0, i, cell, _ => by
    have h0 : putglyph_copy chars pen 0 i cell = (i, cell) := rfl
    rw [h0]
    exact ⟨le_refl _, le_refl _, rfl, fun k h1 h2 => absurd h2 (by omega), fun _ _ => rfl,
      fun h => absurd h (by omega)⟩
  | fuel + 1, i, cell, hlen => by
    by_cases hz : chars.getD i 0 ≠ 0
    · have hstep : putglyph_copy chars pen (fuel + 1) i cell =
          putglyph_copy chars pen fuel (i + 1)
            { chars := cell.chars.set i (chars.getD i 0), pen := pen } := by
        simp only [putglyph_copy, if_pos hz]
      rw [hstep]
      obtain ⟨a1, a2, a3, a4, a5, a6⟩ := putglyph_copy_spec chars pen fuel (i + 1)
        { chars := cell.chars.set i (chars.getD i 0), pen := pen }
        (by simp only [List.length_set]; omega)
      refine ⟨by omega, by omega, by rw [a3]; simp, ?_, ?_, fun h => a6 (by omega)⟩
      · intro k hk1 hk2
        by_cases hki : k = i
        · subst hki
          refine ⟨hz, ?_⟩
          rw [a5 k (by omega)]
          have : k < cell.chars.length := by omega
          simp [List.getD_eq_getElem?_getD, List.getElem?_set, this]
        · exact a4 k (by omega) hk2
      · intro k hk
        rw [a5 k (by omega)]
        have : i ≠ k := by omega
        simp [List.getD_eq_getElem?_getD, List.getElem?_set, this]
    · have hstep : putglyph_copy chars pen (fuel + 1) i cell = (i, cell) := by
        simp only [putglyph_copy, if_neg hz]
      rw [hstep]
      exact ⟨le_refl _, by omega, rfl, fun k h1 h2 => absurd h2 (by omega), fun _ _ => rfl,
        fun _ => by simpa using hz⟩

theorem putglyph_cell_length (chars : List Nat) (pen : ScreenPen) (x : ScreenCell)
    (hx : x.chars.length = VTERM_MAX_CHARS_PER_CELL) :
    (putglyph_cell chars pen x).chars.length = x.chars.length := by
  obtain ⟨-, -, a3, -⟩ := putglyph_copy_spec chars pen VTERM_MAX_CHARS_PER_CELL 0 x
    (by rw [hx]; simp)
  unfold putglyph_cell
  simp only
  split_ifs
  · simp [a3]
  · exact a3

/-- The cell `putglyph` leaves at the position holds the leading non-zero
codepoints of the glyph, at most `VTERM_MAX_CHARS_PER_CELL` of them, followed by
a zero when there is room. -/
theorem putglyph_cell_chars (chars : List Nat) (pen : ScreenPen) (x : ScreenCell)
    (hx : x.chars.length = VTERM_MAX_CHARS_PER_CELL) :
    ∃ n, n ≤ VTERM_MAX_CHARS_PER_CELL ∧
      (∀ k, k < n → chars.getD k 0 ≠ 0 ∧
        (putglyph_cell chars pen x).chars.getD k 0 = chars.getD k 0) ∧
      (n < VTERM_MAX_CHARS_PER_CELL →
        chars.getD n 0 = 0 ∧ (putglyph_cell chars pen x).chars.getD n 0 = 0) := by
  obtain ⟨-, a2, a3, a4, -, a6⟩ := putglyph_copy_spec chars pen VTERM_MAX_CHARS_PER_CELL 0 x
    (by rw [hx]; simp)
  refine ⟨(putglyph_copy chars pen VTERM_MAX_CHARS_PER_CELL 0 x).1, by omega, ?_, ?_⟩
  · intro k hk
    obtain ⟨b1, b2⟩ := a4 k (Nat.zero_le _) hk
    refine ⟨b1, ?_⟩
    rw [← b2]
    unfold putglyph_cell
    simp only
    split_ifs
    · have : (putglyph_copy chars pen VTERM_MAX_CHARS_PER_CELL 0 x).1 ≠ k := by omega
      simp [List.getD_eq_getElem?_getD, List.getElem?_set, this]
    · rfl
  · intro hn
    refine ⟨a6 (by omega), ?_⟩
    unfold putglyph_cell
    simp only [if_pos hn]
    simp only [List.getD_eq_getElem?_getD, List.getElem?_set]
    split_ifs <;> simp_all

theorem putglyph_copy_length (chars : List Nat) (pen : ScreenPen) :
    ∀ (fuel i : Nat) (cell : ScreenCell),
      (putglyph_copy chars pen fuel i cell).2.chars.length = cell.chars.length
  | 0, _, _ => rfl
  | fuel + 1, i, cell => by
    simp only [putglyph_copy]
    split_ifs
    · rw [putglyph_copy_length chars pen fuel (i + 1)]; simp
    · rfl

theorem putglyph_cell_length' (chars : List Nat) (pen : ScreenPen) (x : ScreenCell) :
    (putglyph_cell chars pen x).chars.length = x.chars.length := by
  unfold putglyph_cell
  simp only
  split_ifs
  · simp [putglyph_copy_length]
  · exact putglyph_copy_length _ _ _ _ _

theorem GridStep.gs_getcell {a b : VTermScreen} (h : GridStep a b) (r c : Int) :
    getcell b r c = getcell a r c := by
  obtain ⟨⟨b1, rfl⟩, -⟩ := h; simp

/-- The grid after `putglyph` at a position of the grid, for a glyph that fits
into the row: the cell at the position and the cells the glyph covers to its
right are rewritten, and the damage of the glyph is handed to `damagerect`. -/
theorem putglyph_spec (fuel : Nat) (s : VTermScreen) (info : VTermGlyphInfo) (pos : VTermPos)
    (hwf : WF s) (hpos : InGrid s pos.row pos.col) (hfit : pos.col + info.width ≤ s.cols) :
    ∃ s3, GridStep s s3 ∧
      (∀ r c, cellAt s3 r c =
        if r = pos.row ∧ c = pos.col then
          (cellAt s r c).map (fun x => set_glyph_flags info (putglyph_cell info.chars s.pen x))
        else if r = pos.row ∧ pos.col + 1 ≤ c ∧ c < pos.col + info.width then
          (cellAt s r c).map mark_wide
        else cellAt s r c) ∧
      putglyph fuel info pos s =
        (damagerect (vterm_screen_flush_damage fuel) s3 (glyph_rect info pos)).bind
          (fun s4 => some (s4, 1)) := by
  have hg := getcell_some hpos
  obtain ⟨s1, e1, g1, c1⟩ := modifycell_step hwf hpos (putglyph_cell info.chars s.pen)
    (putglyph_cell_length' _ _)
  have hrow1 : 0 ≤ pos.row ∧ pos.row < s1.rows := by rw [g1.rows]; exact ⟨hpos.1, hpos.2.1⟩
  obtain ⟨s2, e2, g2, c2⟩ := forLoop_row_map s1 g1.2 pos.row (pos.col + 1)
    (info.width - 1).toNat
    (fun col st => modifycell st (getcell st pos.row col) mark_wide)
    (fun x => x.map mark_wide) hrow1 (by have := hpos.2.2.1; omega)
    (by rw [g1.cols]; have := hpos.2.2.2; omega)
    (by
      intro st col _ hin
      exact modifycell_step (by assumption : GridStep s1 st).2 hin mark_wide
        (fun x => by simp [mark_wide]))
  have hpos2 : InGrid s2 pos.row pos.col := by
    rw [(g1.gs_trans g2).InGrid]; exact hpos
  obtain ⟨s3, e3, g3, c3⟩ := modifycell_step g2.2 hpos2 (set_glyph_flags info)
    (fun x => by simp [set_glyph_flags])
  refine ⟨s3, (g1.gs_trans g2).gs_trans g3, ?_, ?_⟩
  · intro r c
    rw [c3, c2, c2, c1, c1]
    by_cases h1 : r = pos.row ∧ c = pos.col
    · obtain ⟨rfl, rfl⟩ := h1
      have h2 : ¬ (pos.row = pos.row ∧ pos.col + 1 ≤ pos.col ∧
          pos.col < pos.col + 1 + ((info.width - 1).toNat : Int)) := by omega
      rw [if_pos ⟨rfl, rfl⟩, if_neg h2, if_pos ⟨rfl, rfl⟩, if_pos ⟨rfl, rfl⟩]
      cases cellAt s pos.row pos.col <;> rfl
    · rw [if_neg h1, if_neg h1, if_neg h1]
      by_cases h2 : r = pos.row ∧ pos.col + 1 ≤ c ∧ c < pos.col + info.width
      · have h3 : r = pos.row ∧ pos.col + 1 ≤ c ∧
            c < pos.col + 1 + ((info.width - 1).toNat : Int) := by omega
        rw [if_pos h2, if_pos h3]
      · have h3 : ¬ (r = pos.row ∧ pos.col + 1 ≤ c ∧
            c < pos.col + 1 + ((info.width - 1).toNat : Int)) := by omega
        rw [if_neg h2, if_neg h3]
  · have e2' : forLoop (info.width - 1).toNat 1 1 (fun col st =>
        modifycell st (getcell st pos.row (pos.col + col)) mark_wide) s1 = some s2 := by
      rw [← e2]
      exact forLoop_shift (fun col st => modifycell st (getcell st pos.row col) mark_wide)
        pos.col 1 _ 1 s1
    rw [(g1.gs_trans g2).gs_getcell] at e3
    unfold putglyph
    rw [hg] at e1 e3
    simp only [hg, e1, Option.some_bind, e2', e3]

/-! ## Erasing -/

theorem get_lineinfo_some {s : VTermScreen} (hwf : WF s) {row : Int}
    (h : 0 ≤ row ∧ row < s.rows) : ∃ info, vterm_state_get_lineinfo s row = some info := by
  obtain ⟨h1, h2, h3, h4, -⟩ := hwf
  have hlt : row.toNat < s.lineinfo.length := by omega
  refine ⟨s.lineinfo[row.toNat], ?_⟩
  unfold vterm_state_get_lineinfo
  rw [if_neg (by omega), List.getElem?_eq_getElem hlt]

theorem erase_at_congr {s0 st : VTermScreen} (h : GridStep s0 st) (sel : Int) (row : Int) :
    erase_at sel st row = erase_at sel s0 row := by
  funext x
  unfold erase_at vterm_state_get_lineinfo
  rw [h.pen, h.lineinfo]

theorem erase_result_length (sel : Int) (pen : ScreenPen) (info : VTermLineInfo)
    (c : ScreenCell) : (erase_result sel pen info c).chars.length = c.chars.length := by
  unfold erase_result
  split_ifs <;> simp

theorem erase_cell_step {s : VTermScreen} (hwf : WF s) {row col : Int} (h : InGrid s row col)
    (sel : Int) :
    ∃ s', erase_cell sel row col s = some s' ∧ GridStep s s' ∧
      ∀ r' c', cellAt s' r' c' =
        if r' = row ∧ c' = col then erase_at sel s row (cellAt s row col)
        else cellAt s r' c' := by
  obtain ⟨info, hinfo⟩ := get_lineinfo_some hwf ⟨h.1, h.2.1⟩
  have hwf' := hwf
  obtain ⟨h1, h2, h3, h4, b, hb, hlen, hall⟩ := hwf
  obtain ⟨x, hx, hx', hmem⟩ := readcell_getcell hb hlen h
  have hcell : cellAt s row col = some x := hx
  have hat : erase_at sel s row (cellAt s row col) = some (erase_result sel s.pen info x) := by
    rw [hcell]; simp [erase_at, hinfo]
  by_cases hprot : sel ≠ 0 ∧ x.pen.protected_cell ≠ 0
  · refine ⟨s, ?_, GridStep.gs_refl hwf', ?_⟩
    · unfold erase_cell
      simp only [hx, Option.some_bind, if_pos hprot]
    · intro r' c'
      rw [hat]
      by_cases he : r' = row ∧ c' = col
      · obtain ⟨rfl, rfl⟩ := he
        rw [if_pos ⟨rfl, rfl⟩, hcell]
        simp [erase_result, hprot]
      · rw [if_neg he]
  · refine ⟨s.setCells (b.set (s.cols * row + col).toNat (erase_result sel s.pen info x)),
      ?_, ⟨⟨_, rfl⟩, ?_⟩, ?_⟩
    · unfold erase_cell
      simp only [hx, Option.some_bind, if_neg hprot, hinfo]
      rw [writecell_getcell hb hlen h]
      simp [erase_result, hprot]
    · exact WF_setCells_set hwf' hb _ _ (by rw [erase_result_length]; exact hall x hmem)
    · intro r' c'
      rw [cellAt_setCells_set hb hlen h, hat]

/-- What `erase_internal` does to a rectangle inside the grid. -/
theorem erase_internal_spec {s : VTermScreen} (hwf : WF s) {rect : VTermRect}
    (hrect : RectInGrid s rect) (sel : Int) :
    ∃ s', erase_internal rect sel s = some s' ∧ GridStep s s' ∧
      ∀ r c, cellAt s' r c =
        if InRect rect r c then erase_at sel s r (cellAt s r c) else cellAt s r c := by
  obtain ⟨g1, g2, g3, g4, g5, g6⟩ := hrect
  have hsr : s.state_rows = s.rows := hwf.2.2.1
  have hn : ((min s.state_rows rect.end_row - rect.start_row).toNat : Int) =
      rect.end_row - rect.start_row := by
    rw [hsr]; omega
  have hm : (((rect.end_col - rect.start_col).toNat : Nat) : Int) =
      rect.end_col - rect.start_col := by omega
  obtain ⟨s', h1, h2, h3⟩ := forLoop_rows_map s hwf rect.start_row rect.start_col rect.end_col
    (min s.state_rows rect.end_row - rect.start_row).toNat
    (fun row st =>
      forLoop (rect.end_col - rect.start_col).toNat rect.start_col 1
        (fun col st2 => erase_cell sel row col st2) st)
    (fun row => erase_at sel s row) g1 (by rw [hn]; omega)
    (by
      intro st row hgs hrow
      obtain ⟨st', e1, e2, e3⟩ := forLoop_row_map st hgs.2 row rect.start_col
        (rect.end_col - rect.start_col).toNat (fun col st2 => erase_cell sel row col st2)
        (erase_at sel s row) (by rw [hgs.rows]; exact hrow) g4 (by rw [hm, hgs.cols]; omega)
        (by
          intro st2 col hgs2 hin
          obtain ⟨st3, f1, f2, f3⟩ := erase_cell_step hgs2.2 hin sel
          refine ⟨st3, f1, f2, ?_⟩
          intro r' c'
          rw [f3, erase_at_congr (hgs.gs_trans hgs2)])
      refine ⟨st', e1, e2, ?_⟩
      intro r' c'
      rw [e3, hm]
      have : rect.start_col + (rect.end_col - rect.start_col) = rect.end_col := by ring
      rw [this])
  refine ⟨s', h1, h2, ?_⟩
  intro r c
  rw [h3, hn]
  have : rect.start_row + (rect.end_row - rect.start_row) = rect.end_row := by ring
  rw [this]
  unfold InRect
  by_cases hh : (rect.start_row ≤ r ∧ r < rect.end_row) ∧ rect.start_col ≤ c ∧ c < rect.end_col
  · rw [if_pos hh, if_pos ⟨hh.1.1, hh.1.2, hh.2.1, hh.2.2⟩]
  · rw [if_neg hh, if_neg (fun h => hh ⟨⟨h.1, h.2.1⟩, h.2.2.1, h.2.2.2⟩)]

/-! ## Moving cells -/

theorem memmove_go_length (b : List ScreenCell) (d sr n : Nat) :
    ∀ (l : List ScreenCell) (i : Nat), (memmove_go b d sr n i l).length = l.length
  | [], _ => rfl
  | _ :: rest, i => by
    simp only [memmove_go, List.length_cons, memmove_go_length b d sr n rest (i + 1)]

theorem memmove_go_getElem? (b : List ScreenCell) (d sr n : Nat) :
    ∀ (l : List ScreenCell) (i k : Nat), (memmove_go b d sr n i l)[k]? =
      (l[k]?).map (fun c =>
        if d ≤ i + k ∧ i + k < d + n then (b[sr + (i + k - d)]?).getD c else c)
  | [], _, _ => by simp [memmove_go]
  | c :: rest, i, 0 => by simp [memmove_go]
  | c :: rest, i, k + 1 => by
    simp only [memmove_go, List.getElem?_cons_succ]
    rw [memmove_go_getElem? b d sr n rest (i + 1) k]
    have : i + 1 + k = i + (k + 1) := by omega
    rw [this]

theorem memmove_go_mem (b : List ScreenCell) (d sr n : Nat) :
    ∀ (l : List ScreenCell) (i : Nat) (x : ScreenCell),
      x ∈ memmove_go b d sr n i l → x ∈ b ∨ x ∈ l
  | [], _, _, h => by simp [memmove_go] at h
  | c :: rest, i, x, h => by
    simp only [memmove_go, List.mem_cons] at h
    rcases h with h | h
    · split_ifs at h
      · cases hb : b[sr + (i - d)]? with
        | none => rw [hb] at h; right; simp [h]
        | some y =>
          rw [hb] at h
          left
          simp only [Option.getD_some] at h
          rw [h]
          exact List.getElem?_mem hb
      · right; simp [h]
    · rcases memmove_go_mem b d sr n rest (i + 1) x h with h' | h'
      · exact Or.inl h'
      · exact Or.inr (List.mem_cons_of_mem _ h')

theorem memmove_list_length (b : List ScreenCell) (d sr n : Nat) :
    (memmove_list b d sr n).length = b.length :=
  memmove_go_length b d sr n b 0

theorem memmove_list_getElem? (b : List ScreenCell) (d sr n k : Nat)
    (hsrc : sr + n ≤ b.length) :
    (memmove_list b d sr n)[k]? =
      if d ≤ k ∧ k < d + n ∧ k < b.length then b[sr + (k - d)]? else b[k]? := by
  unfold memmove_list
  rw [memmove_go_getElem?]
  simp only [Nat.zero_add]
  by_cases hk : k < b.length
  · rw [List.getElem?_eq_getElem hk]
    by_cases h : d ≤ k ∧ k < d + n
    · have h2 : sr + (k - d) < b.length := by omega
      simp [h, hk, List.getElem?_eq_getElem h2]
    · have h3 : ¬ (d ≤ k ∧ k < d + n ∧ k < b.length) := fun hh => h ⟨hh.1, hh.2.1⟩
      simp [h, h3]
  · have hn : b[k]? = none := List.getElem?_eq_none (by omega)
    have h3 : ¬ (d ≤ k ∧ k < d + n ∧ k < b.length) := fun hh => hk hh.2.2
    simp [hn, h3]

theorem memmove_list_mem (b : List ScreenCell) (d sr n : Nat) (x : ScreenCell)
    (h : x ∈ memmove_list b d sr n) : x ∈ b := by
  rcases memmove_go_mem b d sr n b 0 x h with h | h <;> exact h

theorem flat_bounds {rows cols r : Int} (hc : 0 ≤ cols) (h1 : 0 ≤ r) (h2 : r < rows) :
    0 ≤ cols * r ∧ cols * r + cols ≤ rows * cols := by
  have e1 : 0 ≤ cols * r := mul_nonneg hc h1
  have e2 : cols * (r + 1) ≤ cols * rows := mul_le_mul_of_nonneg_left (by omega) hc
  have e3 : cols * (r + 1) = cols * r + cols := by ring
  have e4 : cols * rows = rows * cols := by ring
  exact ⟨e1, by omega⟩

theorem flat_row_eq {cols r r' : Int} (a a' : Int) (ha : 0 ≤ a) (ha' : a < cols) (hb : 0 ≤ a')
    (hb' : a' < cols) (h : cols * r + a = cols * r' + a') : r = r' := by
  have hc : 0 ≤ cols := by omega
  rcases lt_trichotomy r r' with hlt | heq | hgt
  · exfalso
    have e2 : cols * (r + 1) ≤ cols * r' := mul_le_mul_of_nonneg_left (by omega) hc
    have e3 : cols * (r + 1) = cols * r + cols := by ring
    omega
  · exact heq
  · exfalso
    have e2 : cols * (r' + 1) ≤ cols * r := mul_le_mul_of_nonneg_left (by omega) hc
    have e3 : cols * (r' + 1) = cols * r' + cols := by ring
    omega

/-- One call of `memmove` inside `moverect_internal`: a segment of a row is
replaced by the segment of the same length of another (or the same) row. -/
theorem memmove_cells_step {s : VTermScreen} (hwf : WF s) {r r2 dc sc : Int} (n : Int)
    (h1 : InGrid s r dc) (h2 : InGrid s r2 sc) (hn : 0 ≤ n) (hd : dc + n ≤ s.cols)
    (hs : sc + n ≤ s.cols) :
    ∃ s', memmove_cells s (getcell s r dc) (getcell s r2 sc) n = some s' ∧ GridStep s s' ∧
      ∀ r' c', cellAt s' r' c' =
        if r' = r ∧ dc ≤ c' ∧ c' < dc + n then cellAt s r2 (sc + (c' - dc))
        else cellAt s r' c' := by
  have hwf' := hwf
  obtain ⟨w1, w2, w3, w4, b, hb, hlen, hall⟩ := hwf
  obtain ⟨a1, a2, a3, a4⟩ := h1
  obtain ⟨b1, b2, b3, b4⟩ := h2
  obtain ⟨hp1, hr1⟩ := flat_bounds w2 a1 a2
  obtain ⟨hp2, hr2⟩ := flat_bounds w2 b1 b2
  have hbd : (s.cols * r + dc).toNat + n.toNat ≤ b.length := by
    rw [hlen]; omega
  have hbs : (s.cols * r2 + sc).toNat + n.toNat ≤ b.length := by
    rw [hlen]; omega
  have hres : memmove_cells s (getcell s r dc) (getcell s r2 sc) n =
      some (s.setCells (memmove_list b (s.cols * r + dc).toNat (s.cols * r2 + sc).toNat
        n.toNat)) := by
    rw [getcell_some ⟨a1, a2, a3, a4⟩, getcell_some ⟨b1, b2, b3, b4⟩]
    simp only [memmove_cells, hb]
    rw [if_pos ⟨hn, hbd, hbs⟩]
  refine ⟨_, hres, ⟨⟨_, rfl⟩, ?_⟩, ?_⟩
  · refine ⟨by simpa using w1, by simpa using w2, by simpa using w3, by simpa using w4,
      _, setCells_cells _, ?_, ?_⟩
    · rw [memmove_list_length]; simpa using hlen
    · intro c hc
      exact hall c (memmove_list_mem _ _ _ _ c hc)
  · intro r' c'
    rw [cellAt_eq (setCells_cells _) r' c', cellAt_eq hb r' c', cellAt_eq hb r2 (sc + (c' - dc))]
    have hig : InGrid (s.setCells (memmove_list b (s.cols * r + dc).toNat
        (s.cols * r2 + sc).toNat n.toNat)) r' c' ↔ InGrid s r' c' := by
      simp [InGrid]
    simp only [hig, setCells_cols]
    by_cases hin : InGrid s r' c'
    · obtain ⟨c1, c2, c3, c4⟩ := hin
      obtain ⟨hq0, hq1⟩ := flat_bounds w2 c1 c2
      have hklt : (s.cols * r' + c').toNat < b.length := by
        rw [hlen]; omega
      have e0 : (if InGrid s r' c' then
          (memmove_list b (s.cols * r + dc).toNat (s.cols * r2 + sc).toNat n.toNat)[
            (s.cols * r' + c').toNat]? else none) =
          (memmove_list b (s.cols * r + dc).toNat (s.cols * r2 + sc).toNat n.toNat)[
            (s.cols * r' + c').toNat]? := if_pos ⟨c1, c2, c3, c4⟩
      have e1 : (if InGrid s r' c' then b[(s.cols * r' + c').toNat]? else none) =
          b[(s.cols * r' + c').toNat]? := if_pos ⟨c1, c2, c3, c4⟩
      rw [e0, e1, memmove_list_getElem? _ _ _ _ _ hbs]
      by_cases hseg : r' = r ∧ dc ≤ c' ∧ c' < dc + n
      · have hin2 : InGrid s r2 (sc + (c' - dc)) := ⟨b1, b2, by omega, by omega⟩
        have hidx : (s.cols * r + dc).toNat ≤ (s.cols * r' + c').toNat ∧
            (s.cols * r' + c').toNat < (s.cols * r + dc).toNat + n.toNat ∧
            (s.cols * r' + c').toNat < b.length := by
          obtain ⟨hrr, s1, s2⟩ := hseg
          rw [hrr]
          rw [hrr] at hq0
          exact ⟨by omega, by omega, by rw [← hrr]; exact hklt⟩
        rw [if_pos hidx, if_pos hseg, if_pos hin2]
        congr 1
        obtain ⟨hrr, s1, s2⟩ := hseg
        rw [hrr]
        rw [hrr] at hq0
        omega
      · have hno : ¬ ((s.cols * r + dc).toNat ≤ (s.cols * r' + c').toNat ∧
            (s.cols * r' + c').toNat < (s.cols * r + dc).toNat + n.toNat ∧
            (s.cols * r' + c').toNat < b.length) := by
          rintro ⟨k1, k2, -⟩
          have k3 : s.cols * r + dc ≤ s.cols * r' + c' := by omega
          have k4 : s.cols * r' + c' < s.cols * r + dc + n := by omega
          have hrr : r' = r :=
            flat_row_eq c' (s.cols * r' + c' - s.cols * r) c3 c4 (by omega)
              (by omega) (by ring)
          exact hseg ⟨hrr, by rw [hrr] at k3; omega, by rw [hrr] at k4; omega⟩
        rw [if_neg hno, if_neg hseg]
    · have hseg : ¬ (r' = r ∧ dc ≤ c' ∧ c' < dc + n) := by
        rintro ⟨hrr, s1, s2⟩
        exact hin ⟨by rw [hrr]; exact a1, by rw [hrr]; exact a2, by omega, by omega⟩
      have e0 : (if InGrid s r' c' then
          (memmove_list b (s.cols * r + dc).toNat (s.cols * r2 + sc).toNat n.toNat)[
            (s.cols * r' + c').toNat]? else none) = none := if_neg hin
      have e1 : (if InGrid s r' c' then b[(s.cols * r' + c').toNat]? else none) = none :=
        if_neg hin
      rw [e0, e1, if_neg hseg]

theorem ColFrom.cf_refl (s : VTermScreen) : ColFrom s s :=
  fun r _ h => ⟨r, h, rfl⟩

/-- What `moverect_internal` does for two rectangles of the grid of the same
size and non-zero width: it returns, only the cells of the active buffer
change, and when the two rectangles start in the same column every cell stays
in its column. -/
theorem moverect_internal_step {s : VTermScreen} (hwf : WF s) {dest src : VTermRect}
    (hdest : RectInGrid s dest) (hsrc : RectInGrid s src)
    (hh : dest.end_row - dest.start_row = src.end_row - src.start_row)
    (hw : dest.end_col - dest.start_col = src.end_col - src.start_col)
    (hne : src.start_col < src.end_col) :
    ∃ s', moverect_internal dest src s = some s' ∧ GridStep s s' ∧
      (dest.start_col = src.start_col → ColFrom s s') := by
  obtain ⟨d1, d2, d3, d4, d5, d6⟩ := hdest
  obtain ⟨s1, s2, s3, s4, s5, s6⟩ := hsrc
  have hbody : ∀ (row : Int), dest.start_row ≤ row → row < dest.end_row →
      ∀ st, (GridStep s st ∧ (dest.start_col = src.start_col → ColFrom s st)) →
      ∃ st', memmove_cells st (getcell st row dest.start_col)
          (getcell st (row + (src.start_row - dest.start_row)) src.start_col)
          (src.end_col - src.start_col) = some st' ∧
        (GridStep s st' ∧ (dest.start_col = src.start_col → ColFrom s st')) := by
    intro row hr1 hr2 st ⟨hgs, hcf⟩
    have i1 : InGrid st row dest.start_col := by
      rw [hgs.InGrid]; unfold InGrid; omega
    have i2 : InGrid st (row + (src.start_row - dest.start_row)) src.start_col := by
      rw [hgs.InGrid]; unfold InGrid; omega
    obtain ⟨st', e1, e2, e3⟩ := memmove_cells_step hgs.2
      (src.end_col - src.start_col) i1 i2 (by omega) (by rw [hgs.cols]; omega) (by rw [hgs.cols]; omega)
    refine ⟨st', e1, hgs.gs_trans e2, ?_⟩
    intro hcol r c hin
    rw [e3]
    by_cases hseg : r = row ∧ dest.start_col ≤ c ∧ c < dest.start_col +
        (src.end_col - src.start_col)
    · rw [if_pos hseg]
      have hc : src.start_col + (c - dest.start_col) = c := by omega
      rw [hc]
      have hin2 : InGrid s (row + (src.start_row - dest.start_row)) c := by
        have := hin; unfold InGrid at *; omega
      obtain ⟨r', hr', he⟩ := hcf hcol _ _ hin2
      exact ⟨r', hr', he⟩
    · rw [if_neg hseg]
      exact hcf hcol r c hin
  unfold moverect_internal
  simp only
  by_cases hdown : src.start_row - dest.start_row < 0
  · simp only [if_pos hdown]
    have hcount : ¬ ((dest.start_row - 1 - (dest.end_row - 1)) * (-1 : Int) < 0) := by omega
    rw [if_neg hcount]
    obtain ⟨s', e1, e2⟩ := forLoop_spec
      (fun _ st => GridStep s st ∧ (dest.start_col = src.start_col → ColFrom s st))
      ((dest.start_row - 1 - (dest.end_row - 1)) * (-1 : Int)).toNat (dest.end_row - 1) (-1)
      (fun row st => memmove_cells st (getcell st row dest.start_col)
          (getcell st (row + (src.start_row - dest.start_row)) src.start_col)
          (src.end_col - src.start_col)) s
      ⟨GridStep.gs_refl hwf, fun _ => ColFrom.cf_refl s⟩
      (fun k hk st hst => hbody _ (by omega) (by omega) st hst)
    exact ⟨s', e1, e2⟩
  · simp only [if_neg hdown]
    have hcount : ¬ ((dest.end_row - dest.start_row) * (1 : Int) < 0) := by omega
    rw [if_neg hcount]
    obtain ⟨s', e1, e2⟩ := forLoop_spec
      (fun _ st => GridStep s st ∧ (dest.start_col = src.start_col → ColFrom s st))
      ((dest.end_row - dest.start_row) * (1 : Int)).toNat dest.start_row 1
      (fun row st => memmove_cells st (getcell st row dest.start_col)
          (getcell st (row + (src.start_row - dest.start_row)) src.start_col)
          (src.end_col - src.start_col)) s
      ⟨GridStep.gs_refl hwf, fun _ => ColFrom.cf_refl s⟩
      (fun k hk st hst => hbody _ (by omega) (by omega) st hst)
    exact ⟨s', e1, e2⟩

/-! ## Scrolling the grid -/

theorem erase_ColSafe {s g : VTermScreen} (hwf : WF s) (rect : VTermRect) (sel : Int)
    (h : ∀ r c, cellAt g r c =
      if InRect rect r c then erase_at sel s r (cellAt s r c) else cellAt s r c) :
    ColSafe s g := by
  intro r c hin
  rw [h]
  by_cases hr : InRect rect r c
  · rw [if_pos hr]
    obtain ⟨info, hinfo⟩ := get_lineinfo_some hwf ⟨hin.1, hin.2.1⟩
    obtain ⟨h1, h2, h3, h4, b, hb, hlen, hall⟩ := hwf
    obtain ⟨x, hx, -, -⟩ := readcell_getcell hb hlen hin
    have hcell : cellAt s r c = some x := hx
    rw [hcell]
    by_cases hp : sel ≠ 0 ∧ x.pen.protected_cell ≠ 0
    · left
      exact ⟨r, hin, by rw [hcell]; simp [erase_at, hinfo, erase_result, hp]⟩
    · right
      refine ⟨erase_result sel s.pen info x, by simp [erase_at, hinfo], ?_⟩
      simp only [erase_result, if_neg hp, ScreenCell.char0]
      cases x.chars <;> simp
  · rw [if_neg hr]
    exact Or.inl ⟨r, hin, rfl⟩

theorem scroll_dest_src_geometry {s : VTermScreen} {rect : VTermRect} {down right : Int}
    (hrect : RectInGrid s rect) (hbig : ¬ scroll_big rect down right) :
    RectInGrid s (scroll_dest rect down right) ∧ RectInGrid s (scroll_src rect down right) ∧
    (scroll_dest rect down right).end_row - (scroll_dest rect down right).start_row =
      (scroll_src rect down right).end_row - (scroll_src rect down right).start_row ∧
    (scroll_dest rect down right).end_col - (scroll_dest rect down right).start_col =
      (scroll_src rect down right).end_col - (scroll_src rect down right).start_col ∧
    (scroll_src rect down right).start_col < (scroll_src rect down right).end_col ∧
    (right = 0 →
      (scroll_dest rect down right).start_col = (scroll_src rect down right).start_col) ∧
    RectInGrid s (scroll_gap rect down right) := by
  obtain ⟨⟨b1, b2⟩, ⟨b3, b4⟩⟩ := not_scroll_big hbig
  obtain ⟨a1, a2, a3, a4, a5, a6⟩ := hrect
  unfold RectInGrid scroll_dest scroll_src scroll_gap
  refine ⟨?_, ?_, ?_, ?_, ?_, ?_, ?_⟩
  · simp only; split_ifs <;> omega
  · simp only; split_ifs <;> omega
  · simp only; split_ifs <;> omega
  · simp only; split_ifs <;> omega
  · simp only; split_ifs <;> omega
  · intro h0; simp only; split_ifs <;> omega
  · simp only; split_ifs <;> first | omega | (simp only; omega)

/-- The immediate scroll of the grid, for a rectangle inside the grid: it
returns, only the cells of the active buffer change, and after a vertical
scroll every cell is a cell that was in its column, or is erased. -/
theorem scroll_internal_step {s : VTermScreen} (hwf : WF s) {rect : VTermRect}
    (hrect : RectInGrid s rect) (down right : Int) :
    ∃ g, vterm_scroll_rect rect down right (some moverect_internal) erase_internal s = some g ∧
      GridStep s g ∧ (right = 0 → ColSafe s g) := by
  unfold vterm_scroll_rect
  by_cases hbig : scroll_big rect down right
  · rw [if_pos hbig]
    obtain ⟨g, e1, e2, e3⟩ := erase_internal_spec hwf hrect 0
    exact ⟨g, e1, e2, fun _ => erase_ColSafe hwf rect 0 e3⟩
  · rw [if_neg hbig]
    obtain ⟨g1, g2, g3, g4, g5, g6, g7⟩ := scroll_dest_src_geometry hrect hbig
    obtain ⟨s1, e1, e2, e3⟩ := moverect_internal_step hwf g1 g2 g3 g4 g5
    have hgap : RectInGrid s1 (scroll_gap rect down right) := by
      unfold RectInGrid; rw [e2.rows, e2.cols]; exact g7
    obtain ⟨g, f1, f2, f3⟩ := erase_internal_spec e2.2 hgap 0
    refine ⟨g, by simp only [e1, Option.some_bind, f1], e2.gs_trans f2, ?_⟩
    intro h0 r c hin
    have hin1 : InGrid s1 r c := by rw [e2.InGrid]; exact hin
    rcases erase_ColSafe e2.2 _ 0 f3 r c hin1 with ⟨r', hr', he⟩ | ⟨x, hx, hx0⟩
    · have hr'' : InGrid s r' c := by rw [← e2.InGrid]; exact hr'
      obtain ⟨r2, hr2, he2⟩ := e3 (g6 h0) r' c hr''
      exact Or.inl ⟨r2, hr2, by rw [he, he2]⟩
    · exact Or.inr ⟨x, hx, hx0⟩

/-! ## Grid operations read the grid only -/

theorem sameGrid.sg_refl (s : VTermScreen) : sameGrid s s :=
  ⟨rfl, rfl, rfl, rfl, rfl, rfl, rfl, rfl⟩

theorem sameGrid.symm {s t : VTermScreen} (h : sameGrid s t) : sameGrid t s := by
  obtain ⟨h1, h2, h3, h4, h5, h6, h7, h8⟩ := h
  exact ⟨h1.symm, h2.symm, h3.symm, h4.symm, h5.symm, h6.symm, h7.symm, h8.symm⟩

theorem sameGrid.sg_trans {a b c : VTermScreen} (h : sameGrid a b) (h' : sameGrid b c) :
    sameGrid a c := by
  obtain ⟨h1, h2, h3, h4, h5, h6, h7, h8⟩ := h
  obtain ⟨k1, k2, k3, k4, k5, k6, k7, k8⟩ := h'
  exact ⟨k1.trans h1, k2.trans h2, k3.trans h3, k4.trans h4, k5.trans h5, k6.trans h6,
    k7.trans h7, k8.trans h8⟩

theorem sameGrid.sg_cells {s u : VTermScreen} (h : sameGrid s u) : u.cells = s.cells := by
  obtain ⟨h1, h2, h3, h4, h5, h6, h7, h8⟩ := h
  unfold VTermScreen.cells
  rw [h5, h3, h4]

theorem sameGrid.sg_getcell {s u : VTermScreen} (h : sameGrid s u) (r c : Int) :
    getcell u r c = getcell s r c := by
  unfold Screen.getcell
  rw [h.1, h.2.1]

theorem sameGrid.setCells {s u : VTermScreen} (h : sameGrid s u) (b : List ScreenCell) :
    sameGrid (s.setCells b) (u.setCells b) := by
  obtain ⟨h1, h2, h3, h4, h5, h6, h7, h8⟩ := h
  unfold VTermScreen.setCells
  rw [h5]
  cases s.buffer <;> simp [sameGrid, h1, h2, h3, h4, h5, h6, h7, h8]

theorem sameGrid_setCells_self (s : VTermScreen) (b : List ScreenCell) (t : VTermScreen)
    (h : sameGrid (s.setCells b) t) : t.cells = some b := by
  rw [h.sg_cells]; simp

theorem GridNatural_forLoop (body : Int → VTermScreen → Option VTermScreen)
    (hbody : ∀ i, GridNatural (body i)) :
    ∀ (n : Nat) (i inc : Int), GridNatural (forLoop n i inc body)
  | 0, _, _ => by
    intro s u s' ⟨b, hb⟩ hsg h
    simp only [forLoop, Option.some.injEq] at h
    subst h
    refine ⟨b, (setCells_self hb).symm, ?_⟩
    have hu : u.cells = some b := by rw [hsg.sg_cells]; exact hb
    simp [forLoop, setCells_self hu]
  | n + 1, i, inc => by
    intro s u s' hc hsg h
    simp only [forLoop] at h ⊢
    cases h1 : body i s with
    | none => simp [h1] at h
    | some s1 =>
      rw [h1] at h
      simp only [Option.some_bind] at h
      obtain ⟨b1, rfl, hu1⟩ := hbody i s u s1 hc hsg h1
      obtain ⟨b', rfl, hu'⟩ := GridNatural_forLoop body hbody n (i + inc) inc
        (s.setCells b1) (u.setCells b1) s' ⟨b1, setCells_cells _⟩ (hsg.setCells b1) h
      refine ⟨b', by simp, ?_⟩
      rw [hu1]
      simp only [Option.some_bind, hu']
      simp

theorem GridNatural_modifycell (r c : Int) (f : ScreenCell → ScreenCell) :
    GridNatural (fun st => modifycell st (getcell st r c) f) := by
  intro s u s' _ hsg h
  simp only [modifycell, readcell, writecell] at h ⊢
  rw [hsg.sg_getcell, hsg.sg_cells]
  cases hp : getcell s r c with
  | none => simp [hp] at h
  | some i =>
    cases hc : s.cells with
    | none => simp [hp, hc] at h
    | some b =>
      simp only [hp, hc] at h ⊢
      cases hx : b[i]? with
      | none => simp [hx] at h
      | some x =>
        simp only [hx, Option.some_bind] at h ⊢
        split_ifs at h ⊢ with hlt
        cases h
        exact ⟨_, rfl, rfl⟩

theorem GridNatural_erase_cell (sel row col : Int) :
    GridNatural (fun st => erase_cell sel row col st) := by
  intro s u s' ⟨b0, hb0⟩ hsg h
  simp only [erase_cell, readcell, writecell, vterm_state_get_lineinfo] at h ⊢
  rw [hsg.sg_getcell, hsg.sg_cells, hsg.2.2.2.2.2.1, hsg.2.2.2.2.2.2.2]
  cases hp : getcell s row col with
  | none => simp [hp] at h
  | some i =>
    cases hc : s.cells with
    | none => simp [hp, hc] at h
    | some b =>
      simp only [hp, hc] at h ⊢
      cases hx : b[i]? with
      | none => simp [hx] at h
      | some x =>
        simp only [hx, Option.some_bind] at h ⊢
        by_cases hprot : sel ≠ 0 ∧ x.pen.protected_cell ≠ 0
        · rw [if_pos hprot] at h ⊢
          cases h
          have hu : u.cells = some b := by rw [hsg.sg_cells]; exact hc
          exact ⟨b, (setCells_self hc).symm, by rw [setCells_self hu]⟩
        · rw [if_neg hprot] at h ⊢
          by_cases hrow : row < 0
          · simp [hrow] at h
          · rw [if_neg hrow] at h ⊢
            cases hl : s.lineinfo[row.toNat]? with
            | none => simp [hl] at h
            | some info =>
              simp only [hl, Option.some_bind] at h ⊢
              split_ifs at h ⊢ with hlt
              cases h
              exact ⟨_, rfl, rfl⟩

theorem GridNatural_erase_internal (rect : VTermRect) (sel : Int) :
    GridNatural (erase_internal rect sel) := by
  intro s u s' hc hsg h
  unfold erase_internal at h ⊢
  rw [hsg.2.2.2.2.2.2.1]
  exact GridNatural_forLoop _
    (fun row => GridNatural_forLoop _ (fun col => GridNatural_erase_cell sel row col) _ _ _)
    _ _ _ s u s' hc hsg h

theorem GridNatural_memmove (r r2 dc sc n : Int) :
    GridNatural (fun st => memmove_cells st (getcell st r dc) (getcell st r2 sc) n) := by
  intro s u s' _ hsg h
  simp only [memmove_cells] at h ⊢
  rw [hsg.sg_getcell, hsg.sg_getcell, hsg.sg_cells]
  cases hp : getcell s r dc with
  | none => simp [hp] at h
  | some i =>
    cases hq : getcell s r2 sc with
    | none => simp [hp, hq] at h
    | some j =>
      cases hc : s.cells with
      | none => simp [hp, hq, hc] at h
      | some b =>
        simp only [hp, hq, hc] at h ⊢
        split_ifs at h ⊢ with hlt
        cases h
        exact ⟨_, rfl, rfl⟩

theorem GridNatural_moverect_internal (dest src : VTermRect) :
    GridNatural (moverect_internal dest src) := by
  intro s u s' hc hsg h
  unfold moverect_internal at h ⊢
  simp only at h ⊢
  split_ifs at h ⊢ with h1 <;>
    exact GridNatural_forLoop _ (fun row => GridNatural_memmove _ _ _ _ _) _ _ _ s u s' hc hsg h

theorem GridNatural_scroll (rect : VTermRect) (down right : Int) :
    GridNatural (vterm_scroll_rect rect down right (some moverect_internal) erase_internal) := by
  intro s u s' hc hsg h
  unfold vterm_scroll_rect at h ⊢
  by_cases hbig : scroll_big rect down right
  · rw [if_pos hbig] at h ⊢
    exact GridNatural_erase_internal rect 0 s u s' hc hsg h
  · rw [if_neg hbig] at h ⊢
    simp only at h ⊢
    cases h1 : moverect_internal (scroll_dest rect down right) (scroll_src rect down right) s with
    | none => simp [h1] at h
    | some s1 =>
      rw [h1] at h
      simp only [Option.some_bind] at h
      obtain ⟨b1, rfl, hu1⟩ := GridNatural_moverect_internal _ _ s u s1 hc hsg h1
      obtain ⟨b', rfl, hu'⟩ := GridNatural_erase_internal (scroll_gap rect down right) 0
        (s.setCells b1) (u.setCells b1) s' ⟨b1, setCells_cells _⟩ (hsg.setCells b1) h
      refine ⟨b', by simp, ?_⟩
      rw [hu1]
      simp only [Option.some_bind, hu']
      simp

/-! ## The damage accumulator leaves the grid alone -/

theorem OnlyDamage.od_refl (s : VTermScreen) : OnlyDamage s s :=
  ⟨s.damaged, s.pending_scrollrect, s.pending_scroll_downward, s.pending_scroll_rightward,
    s.trace, rfl⟩

theorem OnlyDamage.od_trans {a b c : VTermScreen} (h1 : OnlyDamage a b) (h2 : OnlyDamage b c) :
    OnlyDamage a c := by
  obtain ⟨d, p, pd, pr, tr, rfl⟩ := h1
  obtain ⟨d', p', pd', pr', tr', rfl⟩ := h2
  exact ⟨d', p', pd', pr', tr', rfl⟩

theorem OnlyDamage.sameGrid {a b : VTermScreen} (h : OnlyDamage a b) : sameGrid a b := by
  obtain ⟨d, p, pd, pr, tr, rfl⟩ := h
  simp [Screen.sameGrid]

theorem OnlyDamage.od_damage_merge {a b : VTermScreen} (h : OnlyDamage a b) :
    b.damage_merge = a.damage_merge := by
  obtain ⟨d, p, pd, pr, tr, rfl⟩ := h; rfl

theorem OnlyDamage.od_callbacks {a b : VTermScreen} (h : OnlyDamage a b) :
    b.callbacks = a.callbacks := by
  obtain ⟨d, p, pd, pr, tr, rfl⟩ := h; rfl

theorem OnlyDamage.od_cells {a b : VTermScreen} (h : OnlyDamage a b) : b.cells = a.cells := by
  obtain ⟨d, p, pd, pr, tr, rfl⟩ := h; rfl

theorem OnlyDamage.od_WF {a b : VTermScreen} (h : OnlyDamage a b) (hwf : WF a) : WF b := by
  obtain ⟨d, p, pd, pr, tr, rfl⟩ := h; exact hwf

theorem OnlyDamage.od_cellAt {a b : VTermScreen} (h : OnlyDamage a b) (r c : Int) :
    cellAt b r c = cellAt a r c := by
  obtain ⟨d, p, pd, pr, tr, rfl⟩ := h; rfl

theorem emit_damage_only (s : VTermScreen) (r : VTermRect) : OnlyDamage s (emit_damage s r) := by
  unfold emit_damage
  split
  · split
    · exact ⟨s.damaged, s.pending_scrollrect, s.pending_scroll_downward,
        s.pending_scroll_rightward, _, rfl⟩
    · exact OnlyDamage.od_refl s
  · exact OnlyDamage.od_refl s

@[simp] theorem emit_damage_damaged (s : VTermScreen) (r : VTermRect) :
    (emit_damage s r).damaged = s.damaged := by
  unfold emit_damage; split <;> [split; skip] <;> rfl

@[simp] theorem emit_damage_pending (s : VTermScreen) (r : VTermRect) :
    (emit_damage s r).pending_scrollrect = s.pending_scrollrect := by
  unfold emit_damage; split <;> [split; skip] <;> rfl

@[simp] theorem emit_damage_merge (s : VTermScreen) (r : VTermRect) :
    (emit_damage s r).damage_merge = s.damage_merge := by
  unfold emit_damage; split <;> [split; skip] <;> rfl

@[simp] theorem emit_damage_callbacks (s : VTermScreen) (r : VTermRect) :
    (emit_damage s r).callbacks = s.callbacks := by
  unfold emit_damage; split <;> [split; skip] <;> rfl

/-- The damage rectangles the host has been handed when its callback is
registered. -/
theorem emit_damage_trace_registered (s : VTermScreen) (r : VTermRect)
    (cb : VTermScreenCallbacks) (hcb : s.callbacks = some cb) (hd : cb.damage = true) :
    (emit_damage s r).trace = s.trace ++ [HostEvent.damage r] := by
  simp [emit_damage, hcb, hd]

theorem damagerect_only {flush : VTermScreen → Option VTermScreen}
    (hflush : ∀ x x', flush x = some x' → OnlyDamage x x') {s s' : VTermScreen}
    {rect : VTermRect} (h : damagerect flush s rect = some s') : OnlyDamage s s' := by
  unfold damagerect at h
  split at h
  · cases h; exact emit_damage_only s rect
  · by_cases h1 : rect.end_row > rect.start_row + 1
    · rw [if_pos h1] at h
      cases hf : flush s with
      | none => simp [hf] at h
      | some s1 =>
        simp [hf] at h
        subst h
        exact (hflush _ _ hf).od_trans (emit_damage_only s1 rect)
    · rw [if_neg h1] at h
      by_cases h2 : s.damaged.start_row = -1
      · rw [if_pos h2] at h
        cases h
        exact ⟨rect, s.pending_scrollrect, s.pending_scroll_downward,
          s.pending_scroll_rightward, s.trace, rfl⟩
      · rw [if_neg h2] at h
        by_cases h3 : rect.start_row = s.damaged.start_row
        · rw [if_pos h3] at h
          cases h
          exact ⟨_, s.pending_scrollrect, s.pending_scroll_downward,
            s.pending_scroll_rightward, s.trace, rfl⟩
        · rw [if_neg h3] at h
          cases h
          exact OnlyDamage.od_trans ⟨rect, s.pending_scrollrect, s.pending_scroll_downward,
            s.pending_scroll_rightward, s.trace, rfl⟩ (emit_damage_only _ _)
  · split_ifs at h
    · cases h
      exact ⟨rect, s.pending_scrollrect, s.pending_scroll_downward,
        s.pending_scroll_rightward, s.trace, rfl⟩
    · cases h
      exact ⟨_, s.pending_scrollrect, s.pending_scroll_downward,
        s.pending_scroll_rightward, s.trace, rfl⟩
  · split_ifs at h
    · cases h
      exact ⟨rect, s.pending_scrollrect, s.pending_scroll_downward,
        s.pending_scroll_rightward, s.trace, rfl⟩
    · cases h
      exact ⟨_, s.pending_scrollrect, s.pending_scroll_downward,
        s.pending_scroll_rightward, s.trace, rfl⟩

theorem moverect_user_only {flush : VTermScreen → Option VTermScreen}
    (hflush : ∀ x x', flush x = some x' → OnlyDamage x x') {s s' : VTermScreen}
    {dest src : VTermRect} (h : moverect_user flush dest src s = some s') : OnlyDamage s s' := by
  unfold moverect_user at h
  split at h
  · rename_i host _
    have key : ∀ s1, OnlyDamage s s1 →
        (let handled := host s1.trace dest src
         let s2 := { s1 with trace := s1.trace ++ [HostEvent.moverect dest src] }
         if handled ≠ 0 then some s2 else damagerect flush s2 dest) = some s' →
        OnlyDamage s s' := by
      intro s1 h1 h2
      have hs2 : OnlyDamage s1 { s1 with trace := s1.trace ++ [HostEvent.moverect dest src] } :=
        ⟨s1.damaged, s1.pending_scrollrect, s1.pending_scroll_downward,
          s1.pending_scroll_rightward, _, rfl⟩
      simp only at h2
      split_ifs at h2
      · cases h2; exact h1.od_trans hs2
      · exact (h1.od_trans hs2).od_trans (damagerect_only hflush h2)
    split_ifs at h with hp
    · cases hf : flush s with
      | none => simp [hf] at h
      | some s1 =>
        rw [hf] at h
        exact key s1 (hflush _ _ hf) h
    · exact key s (OnlyDamage.od_refl s) h
  · exact damagerect_only hflush h

theorem erase_user_only {flush : VTermScreen → Option VTermScreen}
    (hflush : ∀ x x', flush x = some x' → OnlyDamage x x') {s s' : VTermScreen}
    {rect : VTermRect} {sel : Int} (h : erase_user flush rect sel s = some s') :
    OnlyDamage s s' :=
  damagerect_only hflush h

/-- A relation that both callbacks respect is respected by the scroll. -/
theorem vterm_scroll_rect_rel {σ : Type} (R : σ → σ → Prop)
    (htrans : ∀ a b c, R a b → R b c → R a c)
    (mv : VTermRect → VTermRect → σ → Option σ) (er : VTermRect → Int → σ → Option σ)
    (hmv : ∀ d r a b, mv d r a = some b → R a b)
    (her : ∀ r sel a b, er r sel a = some b → R a b)
    (rect : VTermRect) (down right : Int) (s s' : σ)
    (h : vterm_scroll_rect rect down right (some mv) er s = some s') : R s s' := by
  unfold vterm_scroll_rect at h
  split_ifs at h
  · exact her _ _ _ _ h
  · simp only at h
    cases hm : mv (scroll_dest rect down right) (scroll_src rect down right) s with
    | none => simp [hm] at h
    | some s1 =>
      simp only [hm, Option.some_bind] at h
      exact htrans _ _ _ (hmv _ _ _ _ hm) (her _ _ _ _ h)

theorem flush_damaged_only (s : VTermScreen) : OnlyDamage s (flush_damaged s) := by
  unfold flush_damaged
  split_ifs
  · exact (emit_damage_only s _).od_trans
      ⟨_, (emit_damage s s.damaged).pending_scrollrect,
        (emit_damage s s.damaged).pending_scroll_downward,
        (emit_damage s s.damaged).pending_scroll_rightward,
        (emit_damage s s.damaged).trace, rfl⟩
  · exact OnlyDamage.od_refl s

theorem flush_pending_only {flush : VTermScreen → Option VTermScreen}
    (hflush : ∀ x x', flush x = some x' → OnlyDamage x x') {s s' : VTermScreen}
    (h : flush_pending flush s = some s') : OnlyDamage s s' := by
  unfold flush_pending at h
  split_ifs at h with hp
  · cases hv : vterm_scroll_rect s.pending_scrollrect s.pending_scroll_downward
        s.pending_scroll_rightward (some (moverect_user flush)) (erase_user flush) s with
    | none => simp [hv] at h
    | some s1 =>
      simp only [hv, Option.some_bind, Option.some.injEq] at h
      have h1 : OnlyDamage s s1 :=
        vterm_scroll_rect_rel OnlyDamage
          (fun _ _ _ => OnlyDamage.od_trans) _ _
          (fun _ _ _ _ hm => moverect_user_only hflush hm)
          (fun _ _ _ _ he => erase_user_only hflush he) _ _ _ _ _ hv
      subst h
      exact h1.od_trans ⟨s1.damaged, _, s1.pending_scroll_downward,
        s1.pending_scroll_rightward, s1.trace, rfl⟩
  · cases h; exact OnlyDamage.od_refl s

theorem flush_damage_body_only {flush : VTermScreen → Option VTermScreen}
    (hflush : ∀ x x', flush x = some x' → OnlyDamage x x') {s s' : VTermScreen}
    (h : flush_damage_body flush s = some s') : OnlyDamage s s' := by
  unfold flush_damage_body at h
  cases hp : flush_pending flush s with
  | none => simp [hp] at h
  | some s2 =>
    simp only [hp, Option.some_bind, Option.some.injEq] at h
    subst h
    exact (flush_pending_only hflush hp).od_trans (flush_damaged_only s2)

theorem flush_damage_only : ∀ (fuel : Nat) (s s' : VTermScreen),
    vterm_screen_flush_damage fuel s = some s' → OnlyDamage s s'
  | 0, _, _, h => by simp [vterm_screen_flush_damage] at h
  | fuel + 1, _, _, h => by
    unfold vterm_screen_flush_damage at h
    exact flush_damage_body_only (flush_damage_only fuel) h

/-! ## The damage accumulator: results -/

theorem damagerect_cell {flush : VTermScreen → Option VTermScreen} {s : VTermScreen}
    (rect : VTermRect) (h : s.damage_merge = VTermDamageSize.CELL) :
    damagerect flush s rect = some (emit_damage s rect) := by
  unfold damagerect; rw [h]

theorem damagerect_accumulate {flush : VTermScreen → Option VTermScreen} {s : VTermScreen}
    (rect : VTermRect)
    (h : s.damage_merge = VTermDamageSize.SCREEN ∨ s.damage_merge = VTermDamageSize.SCROLL) :
    damagerect flush s rect =
      some { s with damaged := if s.damaged.start_row = -1 then rect
                               else rect_expand s.damaged rect } := by
  unfold damagerect
  rcases h with h | h <;> rw [h] <;> simp only <;> split_ifs <;> rfl

theorem flush_pending_none {flush : VTermScreen → Option VTermScreen} {s : VTermScreen}
    (h : s.pending_scrollrect.start_row = -1) : flush_pending flush s = some s := by
  unfold flush_pending; simp [h]

theorem flush_eq_of_no_pending (fuel : Nat) {s : VTermScreen}
    (h : s.pending_scrollrect.start_row = -1) :
    vterm_screen_flush_damage (fuel + 1) s = some (flush_damaged s) := by
  unfold vterm_screen_flush_damage flush_damage_body
  rw [flush_pending_none h]; rfl

@[simp] theorem flush_damaged_start_row (s : VTermScreen) :
    (flush_damaged s).damaged.start_row = -1 := by
  unfold flush_damaged
  split_ifs with h
  · rfl
  · simpa using h

@[simp] theorem flush_damaged_pending (s : VTermScreen) :
    (flush_damaged s).pending_scrollrect = s.pending_scrollrect := by
  unfold flush_damaged
  split_ifs <;> simp

/-- Under the `SCROLL` policy neither user callback needs a nested flush: both
succeed, and they keep any property of the damage state that `damagerect`
keeps. -/
theorem moverect_user_scroll {flush : VTermScreen → Option VTermScreen} (P : VTermScreen → Prop)
    (hP : ∀ a d r, P a → P { a with trace := a.trace ++ [HostEvent.moverect d r] })
    (hD : ∀ a, P a → a.damage_merge = VTermDamageSize.SCROLL)
    (dest src : VTermRect)
    (hdr : ∀ a, P a → ∃ b, damagerect flush a dest = some b ∧ P b)
    (s : VTermScreen) (hs : P s) :
    ∃ s', moverect_user flush dest src s = some s' ∧ P s' := by
  unfold moverect_user
  split
  · rename_i host _
    have hsc : ¬ (s.damage_merge ≠ VTermDamageSize.SCROLL) := by simp [hD s hs]
    rw [if_neg hsc]
    simp only [Option.some_bind]
    by_cases hh : host s.trace dest src ≠ 0
    · rw [if_pos hh]
      exact ⟨_, rfl, hP _ _ _ hs⟩
    · rw [if_neg hh]
      exact hdr _ (hP _ _ _ hs)
  · exact hdr s hs

/-- Totality of the scroll when both callbacks are total on the states that
satisfy `P`, each on the rectangles the scroll hands it. -/
theorem vterm_scroll_rect_total {σ : Type} (P : σ → Prop)
    (mv : VTermRect → VTermRect → σ → Option σ) (er : VTermRect → Int → σ → Option σ)
    (rect : VTermRect) (down right : Int)
    (hmv : ¬ scroll_big rect down right → ∀ a, P a →
      ∃ b, mv (scroll_dest rect down right) (scroll_src rect down right) a = some b ∧ P b)
    (her1 : scroll_big rect down right → ∀ a, P a → ∃ b, er rect 0 a = some b ∧ P b)
    (her2 : ¬ scroll_big rect down right → ∀ a, P a →
      ∃ b, er (scroll_gap rect down right) 0 a = some b ∧ P b)
    (s : σ) (hs : P s) :
    ∃ s', vterm_scroll_rect rect down right (some mv) er s = some s' ∧ P s' := by
  unfold vterm_scroll_rect
  by_cases hbig : scroll_big rect down right
  · rw [if_pos hbig]
    exact her1 hbig s hs
  · rw [if_neg hbig]
    obtain ⟨b, hb, hPb⟩ := hmv hbig s hs
    simp only [hb, Option.some_bind]
    exact her2 hbig b hPb

/-- Under `SCROLL` the replay of the deferred scroll succeeds with any fuel. -/
theorem flush_pending_scroll {flush : VTermScreen → Option VTermScreen} (P : VTermScreen → Prop)
    (hP : ∀ a d r, P a → P { a with trace := a.trace ++ [HostEvent.moverect d r] })
    (hPp : ∀ a p, P a → P { a with pending_scrollrect := p })
    (hD : ∀ a, P a → a.damage_merge = VTermDamageSize.SCROLL)
    (s : VTermScreen)
    (hdr1 : s.pending_scrollrect.start_row ≠ -1 →
      scroll_big s.pending_scrollrect s.pending_scroll_downward s.pending_scroll_rightward →
      ∀ a, P a → ∃ b, damagerect flush a s.pending_scrollrect = some b ∧ P b)
    (hdr2 : s.pending_scrollrect.start_row ≠ -1 →
      ¬ scroll_big s.pending_scrollrect s.pending_scroll_downward s.pending_scroll_rightward →
      ∀ a, P a → ∃ b, damagerect flush a
      (scroll_dest s.pending_scrollrect s.pending_scroll_downward s.pending_scroll_rightward)
        = some b ∧ P b)
    (hdr3 : s.pending_scrollrect.start_row ≠ -1 →
      ¬ scroll_big s.pending_scrollrect s.pending_scroll_downward s.pending_scroll_rightward →
      ∀ a, P a → ∃ b, damagerect flush a
      (scroll_gap s.pending_scrollrect s.pending_scroll_downward s.pending_scroll_rightward)
        = some b ∧ P b)
    (hs : P s) :
    ∃ s', flush_pending flush s = some s' ∧ P s' ∧ s'.pending_scrollrect.start_row = -1 := by
  unfold flush_pending
  split_ifs with hp
  · obtain ⟨s1, h1, hP1⟩ := vterm_scroll_rect_total P (moverect_user flush) (erase_user flush)
      s.pending_scrollrect s.pending_scroll_downward s.pending_scroll_rightward
      (fun hb a ha => moverect_user_scroll P hP hD _ _ (hdr2 hp hb) a ha)
      (fun hb a ha => hdr1 hp hb a ha) (fun hb a ha => hdr3 hp hb a ha) s hs
    rw [h1]
    exact ⟨_, rfl, hPp _ _ hP1, rfl⟩
  · exact ⟨s, rfl, hs, by simpa using hp⟩

/-- With fuel for one call, a flush of a screen whose damage state satisfies
`DamageInv` returns, and leaves both the stored damage and the deferred scroll
empty. -/
theorem flush_total (fuel : Nat) (s : VTermScreen) (hinv : DamageInv s) :
    ∃ s', vterm_screen_flush_damage (fuel + 1) s = some s' ∧
      s'.damaged.start_row = -1 ∧ s'.pending_scrollrect.start_row = -1 ∧ OnlyDamage s s' := by
  by_cases hsc : s.damage_merge = VTermDamageSize.SCROLL
  · have hdr : ∀ r a, a.damage_merge = VTermDamageSize.SCROLL →
        ∃ b, damagerect (vterm_screen_flush_damage fuel) a r = some b ∧
          b.damage_merge = VTermDamageSize.SCROLL := by
      intro r a ha
      exact ⟨_, damagerect_accumulate r (Or.inr ha), ha⟩
    obtain ⟨s2, h2, -, hp2⟩ := flush_pending_scroll
      (fun a => a.damage_merge = VTermDamageSize.SCROLL)
      (fun _ _ _ h => h) (fun _ _ h => h) (fun _ h => h) s (fun _ _ => hdr _) (fun _ _ => hdr _)
      (fun _ _ => hdr _) hsc
    have hfl : vterm_screen_flush_damage (fuel + 1) s = some (flush_damaged s2) := by
      unfold vterm_screen_flush_damage flush_damage_body
      rw [h2]; rfl
    exact ⟨_, hfl, by simp, by simpa using hp2, flush_damage_only _ _ _ hfl⟩
  · have hp := hinv hsc
    have hfl := flush_eq_of_no_pending fuel hp
    exact ⟨_, hfl, by simp, by simpa using hp, flush_damage_only _ _ _ hfl⟩

/-- With fuel for one call, `damagerect` returns from every damage state the
screen can be in, changes the damage accumulator only, and leaves a damage
state the screen can be in. -/
theorem damagerect_total (fuel : Nat) (s : VTermScreen) (rect : VTermRect) (hinv : DamageInv s) :
    ∃ s', damagerect (vterm_screen_flush_damage (fuel + 1)) s rect = some s' ∧
      OnlyDamage s s' ∧ DamageInv s' := by
  have key : ∃ s', damagerect (vterm_screen_flush_damage (fuel + 1)) s rect = some s' ∧
      (s.damage_merge ≠ VTermDamageSize.SCROLL → s'.pending_scrollrect.start_row = -1) := by
    cases hpol : s.damage_merge with
    | CELL =>
      exact ⟨_, damagerect_cell rect hpol, fun _ => by
        simpa using hinv (by simp [hpol])⟩
    | ROW =>
      have hp : s.pending_scrollrect.start_row = -1 := hinv (by simp [hpol])
      unfold damagerect
      simp only [hpol]
      by_cases h1 : rect.end_row > rect.start_row + 1
      · rw [if_pos h1]
        obtain ⟨s1, e1, -, e3, -⟩ := flush_total fuel s hinv
        rw [e1]
        exact ⟨_, rfl, fun _ => by simpa using e3⟩
      · rw [if_neg h1]
        split_ifs <;>
          first
          | exact ⟨_, rfl, fun _ => hp⟩
          | exact ⟨_, rfl, fun _ => by simpa using hp⟩
    | SCREEN =>
      exact ⟨_, damagerect_accumulate rect (Or.inl hpol), fun _ => hinv (by simp [hpol])⟩
    | SCROLL =>
      exact ⟨_, damagerect_accumulate rect (Or.inr hpol), fun h => absurd rfl h⟩
  obtain ⟨s', h1, h2⟩ := key
  have ho := damagerect_only (flush_damage_only (fuel + 1)) h1
  refine ⟨s', h1, ho, ?_⟩
  unfold DamageInv
  rw [ho.od_damage_merge]
  exact h2

theorem DamageInv_trace {s : VTermScreen} (h : DamageInv s) (tr : List HostEvent) :
    DamageInv { s with trace := tr } := h

theorem moverect_user_total (fuel : Nat) (s : VTermScreen) (dest src : VTermRect)
    (hinv : DamageInv s) :
    ∃ s', moverect_user (vterm_screen_flush_damage (fuel + 1)) dest src s = some s' ∧
      OnlyDamage s s' ∧ DamageInv s' := by
  have key : ∃ s', moverect_user (vterm_screen_flush_damage (fuel + 1)) dest src s = some s' ∧
      DamageInv s' := by
    unfold moverect_user
    split
    · rename_i host _
      have step : ∀ s1 : VTermScreen, DamageInv s1 →
          ∃ s', (let handled := host s1.trace dest src
            let s2 : VTermScreen := { s1 with trace := s1.trace ++ [HostEvent.moverect dest src] }
            if handled ≠ 0 then some s2
            else damagerect (vterm_screen_flush_damage (fuel + 1)) s2 dest) = some s' ∧
            DamageInv s' := by
        intro s1 h1
        simp only
        split_ifs
        · exact ⟨_, rfl, DamageInv_trace h1 _⟩
        · obtain ⟨s', e1, -, e3⟩ := damagerect_total fuel _ dest (DamageInv_trace h1 _)
          exact ⟨s', e1, e3⟩
      by_cases hp : s.damage_merge ≠ VTermDamageSize.SCROLL
      · rw [if_pos hp]
        obtain ⟨s1, e1, -, e3, e4⟩ := flush_total fuel s hinv
        rw [e1]
        simp only [Option.some_bind]
        exact step s1 (fun _ => e3)
      · rw [if_neg hp]
        simp only [Option.some_bind]
        exact step s hinv
    · obtain ⟨s', e1, -, e3⟩ := damagerect_total fuel s dest hinv
      exact ⟨s', e1, e3⟩
  obtain ⟨s', h1, h2⟩ := key
  exact ⟨s', h1, moverect_user_only (flush_damage_only (fuel + 1)) h1, h2⟩

/-- The replay of a scroll to the host through `moverect_user` and `erase_user`
returns and changes the damage accumulator only. -/
theorem scroll_user_total (fuel : Nat) (s : VTermScreen) (rect : VTermRect) (down right : Int)
    (hinv : DamageInv s) :
    ∃ s', vterm_scroll_rect rect down right
        (some (moverect_user (vterm_screen_flush_damage (fuel + 1))))
        (erase_user (vterm_screen_flush_damage (fuel + 1))) s = some s' ∧
      OnlyDamage s s' ∧ DamageInv s' := by
  obtain ⟨s', h1, h2, h3⟩ := vterm_scroll_rect_total
    (fun a => OnlyDamage s a ∧ DamageInv a)
    (moverect_user (vterm_screen_flush_damage (fuel + 1)))
    (erase_user (vterm_screen_flush_damage (fuel + 1))) rect down right
    (fun _ a ⟨ha1, ha2⟩ => by
      obtain ⟨b, e1, e2, e3⟩ := moverect_user_total fuel a _ _ ha2
      exact ⟨b, e1, ha1.od_trans e2, e3⟩)
    (fun _ a ⟨ha1, ha2⟩ => by
      obtain ⟨b, e1, e2, e3⟩ := damagerect_total fuel a rect ha2
      exact ⟨b, e1, ha1.od_trans e2, e3⟩)
    (fun _ a ⟨ha1, ha2⟩ => by
      obtain ⟨b, e1, e2, e3⟩ := damagerect_total fuel a _ ha2
      exact ⟨b, e1, ha1.od_trans e2, e3⟩)
    s ⟨OnlyDamage.od_refl s, hinv⟩
  exact ⟨s', h1, h2, h3⟩

theorem DamageInv_setCells {u : VTermScreen} (h : DamageInv u) (b : List ScreenCell) :
    DamageInv (u.setCells b) := by
  unfold DamageInv at *
  simpa using h

/-- From any screen that shows the grid of `s` and is in a damage state the
screen can be in, `scrollrect` returns 1 and leaves the grid that the
immediate scroll of `s` produces. -/
theorem scrollrect_grid (n : Nat) (s u g : VTermScreen) (rect : VTermRect) (down right : Int)
    (hwf : WF s) (hsg : sameGrid s u) (hinv : DamageInv u)
    (hg : vterm_scroll_rect rect down right (some moverect_internal) erase_internal s = some g) :
    ∃ u', scrollrect (n + 1) rect down right u = some (u', 1) ∧ sameGrid g u' ∧
      DamageInv u' := by
  have hc : ∃ b, s.cells = some b := by
    obtain ⟨-, -, -, -, b, hb, -⟩ := hwf
    exact ⟨b, hb⟩
  have nat : ∀ v, sameGrid s v → ∃ b', g = s.setCells b' ∧
      vterm_scroll_rect rect down right (some moverect_internal) erase_internal v =
        some (v.setCells b') :=
    fun v hv => GridNatural_scroll rect down right s v g hc hv hg
  by_cases hpol : u.damage_merge ≠ VTermDamageSize.SCROLL
  · obtain ⟨b', hgb, hu1⟩ := nat u hsg
    obtain ⟨u2, e2, -, p2, o2⟩ := flush_total n (u.setCells b') (DamageInv_setCells hinv b')
    obtain ⟨u3, e3, o3, i3⟩ := scroll_user_total n u2 rect down right (fun _ => p2)
    refine ⟨u3, ?_, ?_, i3⟩
    · unfold scrollrect
      simp only [if_pos hpol, hu1, Option.some_bind, e2, e3]
    · rw [hgb]
      exact ((hsg.setCells b').sg_trans o2.sameGrid).sg_trans o3.sameGrid
  · have hsc : u.damage_merge = VTermDamageSize.SCROLL := by
      by_contra hne; exact hpol hne
    -- the optional flush of damage that the scroll does not touch
    have h1 : ∃ u1, (if u.damaged.start_row ≠ -1 ∧ ¬ rect_intersects rect u.damaged then
          vterm_screen_flush_damage (n + 1) u else some u) = some u1 ∧
        OnlyDamage u u1 ∧ DamageInv u1 := by
      split_ifs
      · obtain ⟨u1, e1, -, p1, o1⟩ := flush_total n u hinv
        exact ⟨u1, e1, o1, fun _ => p1⟩
      · exact ⟨u, rfl, OnlyDamage.od_refl u, hinv⟩
    obtain ⟨u1, e1, o1, i1⟩ := h1
    -- the deferred scroll is stored, merged, or flushed and replaced
    have h2 : ∃ u2, (if u1.pending_scrollrect.start_row = -1 then
          some { u1 with pending_scrollrect := rect
                         pending_scroll_downward := down
                         pending_scroll_rightward := right }
        else if rect_equal u1.pending_scrollrect rect ∧
            ((u1.pending_scroll_downward = 0 ∧ down = 0) ∨
              (u1.pending_scroll_rightward = 0 ∧ right = 0)) then
          some { u1 with pending_scroll_downward := u1.pending_scroll_downward + down
                         pending_scroll_rightward := u1.pending_scroll_rightward + right }
        else
          (vterm_screen_flush_damage (n + 1) u1).bind fun s1f =>
            some { s1f with pending_scrollrect := rect
                            pending_scroll_downward := down
                            pending_scroll_rightward := right }) = some u2 ∧
        OnlyDamage u1 u2 := by
      split_ifs
      · exact ⟨_, rfl, u1.damaged, rect, down, right, u1.trace, rfl⟩
      · exact ⟨_, rfl, u1.damaged, u1.pending_scrollrect, _, _, u1.trace, rfl⟩
      · obtain ⟨uf, ef, -, -, of⟩ := flush_total n u1 i1
        rw [ef]
        exact ⟨_, rfl, of.od_trans ⟨uf.damaged, rect, down, right, uf.trace, rfl⟩⟩
    obtain ⟨u2, e2, o2⟩ := h2
    have hsg2 : sameGrid s u2 := (hsg.sg_trans o1.sameGrid).sg_trans o2.sameGrid
    obtain ⟨b', hgb, hu3⟩ := nat u2 hsg2
    have hm3 : (u2.setCells b').damage_merge = VTermDamageSize.SCROLL := by
      rw [setCells_damage_merge, o2.od_damage_merge, o1.od_damage_merge]; exact hsc
    have hsg3 : sameGrid g (u2.setCells b') := by
      rw [hgb]; exact hsg2.setCells b'
    have hfinal : scrollrect (n + 1) rect down right u =
        if (u2.setCells b').damaged.start_row = -1 then some (u2.setCells b', 1)
        else some ({ u2.setCells b' with
          damaged := scrollrect_adjust rect down right (u2.setCells b').damaged }, 1) := by
      unfold scrollrect
      simp only [if_neg hpol, e1, Option.some_bind, e2, hu3]
    rw [hfinal]
    split_ifs
    · exact ⟨_, rfl, hsg3, fun h => absurd hm3 h⟩
    · refine ⟨_, rfl, ?_, fun h => absurd hm3 h⟩
      exact hsg3.sg_trans (OnlyDamage.sameGrid ⟨_, (u2.setCells b').pending_scrollrect,
        (u2.setCells b').pending_scroll_downward, (u2.setCells b').pending_scroll_rightward,
        (u2.setCells b').trace, rfl⟩)

/-! ## Sequences of sink events keep the marker out of column 0 -/

theorem cellAt_some_InGrid {s : VTermScreen} {r c : Int} {x : ScreenCell}
    (h : cellAt s r c = some x) : InGrid s r c := by
  by_contra hn
  unfold cellAt at h
  rw [getcell_none hn] at h
  simp [readcell] at h

theorem sameGrid.sg_cellAt {s u : VTermScreen} (h : sameGrid s u) (r c : Int) :
    cellAt u r c = cellAt s r c := by
  unfold Screen.cellAt readcell
  rw [h.sg_getcell, h.sg_cells]

theorem sameGrid.sg_WF {s u : VTermScreen} (h : sameGrid s u) (hwf : WF s) : WF u := by
  obtain ⟨w1, w2, w3, w4, b, hb, hlen, hall⟩ := hwf
  have hc := h.sg_cells
  obtain ⟨h1, h2, h3, h4, h5, h6, h7, h8⟩ := h
  exact ⟨by rw [h1]; exact w1, by rw [h2]; exact w2, by rw [h7, h1]; exact w3,
    by rw [h8, h1]; exact w4, b, by rw [hc]; exact hb, by rw [h1, h2]; exact hlen, hall⟩

theorem NoWideCol0_of_CharSafe {s g : VTermScreen} (hn : NoWideCol0 s) (hcs : CharSafe s g) :
    NoWideCol0 g := by
  intro r x hx
  rcases hcs r x hx with ⟨r', x0, h0, he⟩ | h
  · rw [he]; exact hn r' x0 h0
  · exact h

theorem CharSafe_of_ColSafe {s g : VTermScreen} (hig : ∀ r c, InGrid g r c → InGrid s r c)
    (hcs : ColSafe s g) : CharSafe s g := by
  intro r x hx
  have hin := hig r 0 (cellAt_some_InGrid hx)
  rcases hcs r 0 hin with ⟨r', -, he⟩ | ⟨x', hx', h0⟩
  · left
    exact ⟨r', x, by rw [← he]; exact hx, rfl⟩
  · right
    rw [hx] at hx'
    cases hx'
    rw [h0]
    decide

theorem CharSafe_of_cellAt_eq {s g : VTermScreen} (h : ∀ r c, cellAt g r c = cellAt s r c) :
    CharSafe s g := by
  intro r x hx
  left
  exact ⟨r, x, by rw [← h]; exact hx, rfl⟩

theorem putglyph_off_grid (fuel : Nat) (info : VTermGlyphInfo) (pos : VTermPos)
    (s : VTermScreen) (h : ¬ InGrid s pos.row pos.col) :
    putglyph fuel info pos s = some (s, 0) := by
  simp [putglyph, getcell_none h]

theorem sink_putglyph_inv (n : Nat) (s : VTermScreen) (info : VTermGlyphInfo) (pos : VTermPos)
    (hinv : SinkInv s) (hfit : (SinkEvent.putglyph info pos).fits s) :
    ∃ s', sink (n + 1) (SinkEvent.putglyph info pos) s = some s' ∧ SinkInv s' ∧
      s'.rows = s.rows ∧ s'.cols = s.cols := by
  obtain ⟨hwf, hdi, hnw⟩ := hinv
  obtain ⟨hf1, hf2⟩ := hfit
  by_cases hpos : InGrid s pos.row pos.col
  · obtain ⟨s3, g3, c3, e3⟩ := putglyph_spec (n + 1) s info pos hwf hpos (hf1 hpos)
    obtain ⟨s4, e4, o4, i4⟩ := damagerect_total n s3 (glyph_rect info pos) (g3.DamageInv hdi)
    refine ⟨s4, ?_, ⟨o4.od_WF g3.2, i4, ?_⟩, ?_, ?_⟩
    · simp only [sink, e3, e4, Option.some_bind, Option.map_some']
    · apply NoWideCol0_of_CharSafe hnw
      intro r x hx
      rw [o4.od_cellAt, c3] at hx
      by_cases h1 : r = pos.row ∧ (0 : Int) = pos.col
      · rw [if_pos h1] at hx
        right
        obtain ⟨w1, w2, w3, w4, b, hb, hlen, hall⟩ := hwf
        have hin : InGrid s r 0 := by rw [h1.1, h1.2]; exact hpos
        obtain ⟨x0, hx0, -, hmem⟩ := readcell_getcell hb hlen hin
        have hcell : cellAt s r 0 = some x0 := hx0
        rw [hcell] at hx
        simp only [Option.map_some', Option.some.injEq] at hx
        obtain ⟨m, hm1, hm2, hm3⟩ := putglyph_cell_chars info.chars s.pen x0 (hall x0 hmem)
        have hch : x.char0 = (putglyph_cell info.chars s.pen x0).chars.getD 0 0 := by
          rw [← hx]; rfl
        rw [hch]
        by_cases hm : 0 < m
        · rw [(hm2 0 hm).2]; exact hf2
        · have hm0 : m = 0 := by omega
          subst hm0
          rw [(hm3 (by decide)).2]
          decide
      · rw [if_neg h1] at hx
        have h2 : ¬ (r = pos.row ∧ pos.col + 1 ≤ 0 ∧ (0 : Int) < pos.col + info.width) := by
          have := hpos.2.2.1; omega
        rw [if_neg h2] at hx
        left
        exact ⟨r, x, hx, rfl⟩
    · rw [OnlyDamage.sameGrid o4 |>.1, g3.rows]
    · rw [OnlyDamage.sameGrid o4 |>.2.1, g3.cols]
  · refine ⟨s, ?_, ⟨hwf, hdi, hnw⟩, rfl, rfl⟩
    simp only [sink, putglyph_off_grid _ _ _ _ hpos, Option.map_some']

theorem sink_erase_inv (n : Nat) (s : VTermScreen) (rect : VTermRect) (sel : Int)
    (hinv : SinkInv s) (hfit : (SinkEvent.erase rect sel).fits s) :
    ∃ s', sink (n + 1) (SinkEvent.erase rect sel) s = some s' ∧ SinkInv s' ∧
      s'.rows = s.rows ∧ s'.cols = s.cols := by
  obtain ⟨hwf, hdi, hnw⟩ := hinv
  obtain ⟨s1, e1, g1, c1⟩ := erase_internal_spec hwf hfit sel
  obtain ⟨s2, e2, o2, i2⟩ := damagerect_total n s1 rect (g1.DamageInv hdi)
  refine ⟨s2, ?_, ⟨o2.od_WF g1.2, i2, ?_⟩, ?_, ?_⟩
  · simp only [sink, erase, erase_user, e1, e2, Option.some_bind, Option.map_some']
  · apply NoWideCol0_of_CharSafe hnw
    apply CharSafe_of_ColSafe
    · intro r c h
      have : InGrid s1 r c := by
        unfold InGrid at *; rw [← OnlyDamage.sameGrid o2 |>.1, ← OnlyDamage.sameGrid o2 |>.2.1]
        exact h
      exact (g1.InGrid r c).mp this
    · intro r c hin
      rw [o2.od_cellAt]
      exact erase_ColSafe hwf rect sel c1 r c hin
  · rw [OnlyDamage.sameGrid o2 |>.1, g1.rows]
  · rw [OnlyDamage.sameGrid o2 |>.2.1, g1.cols]

theorem sink_scroll_inv (n : Nat) (s : VTermScreen) (rect : VTermRect) (down right : Int)
    (hinv : SinkInv s) (hfit : (SinkEvent.scrollrect rect down right).fits s) :
    ∃ s', sink (n + 1) (SinkEvent.scrollrect rect down right) s = some s' ∧ SinkInv s' ∧
      s'.rows = s.rows ∧ s'.cols = s.cols := by
  obtain ⟨hwf, hdi, hnw⟩ := hinv
  obtain ⟨hrect, hright⟩ := hfit
  obtain ⟨g, hg, gs, hcs⟩ := scroll_internal_step hwf hrect down right
  obtain ⟨s', e1, sg, i1⟩ := scrollrect_grid n s s g rect down right hwf (sameGrid.sg_refl s) hdi hg
  refine ⟨s', ?_, ⟨sg.sg_WF gs.2, i1, ?_⟩, ?_, ?_⟩
  · simp only [sink, e1, Option.map_some']
  · apply NoWideCol0_of_CharSafe hnw
    apply CharSafe_of_ColSafe
    · intro r c h
      have : InGrid g r c := by
        unfold InGrid at *; rw [← sg.1, ← sg.2.1]; exact h
      exact (gs.InGrid r c).mp this
    · intro r c hin
      rw [sg.sg_cellAt]
      exact hcs hright r c hin
  · rw [sg.1, gs.rows]
  · rw [sg.2.1, gs.cols]

theorem sink_setlineinfo_inv (n : Nat) (s : VTermScreen) (row : Int)
    (newinfo oldinfo : VTermLineInfo)
    (hinv : SinkInv s) (hfit : (SinkEvent.setlineinfo row newinfo oldinfo).fits s) :
    ∃ s', sink (n + 1) (SinkEvent.setlineinfo row newinfo oldinfo) s = some s' ∧ SinkInv s' ∧
      s'.rows = s.rows ∧ s'.cols = s.cols := by
  obtain ⟨hwf, hdi, hnw⟩ := hinv
  by_cases hchg : newinfo.doublewidth ≠ oldinfo.doublewidth ∨
      newinfo.doubleheight ≠ oldinfo.doubleheight
  · have hcols : 0 ≤ s.cols := hwf.2.1
    obtain ⟨s1, e1, g1, c1⟩ := forLoop_row_map s hwf row 0 s.cols.toNat
      (fun col st => modifycell st (getcell st row col) (set_line_flags newinfo))
      (fun x => x.map (set_line_flags newinfo)) hfit (le_refl _) (by omega)
      (by
        intro st col hgs hin
        exact modifycell_step hgs.2 hin _ (fun x => by simp [set_line_flags]))
    have hn1 : NoWideCol0 s1 := by
      apply NoWideCol0_of_CharSafe hnw
      intro r x hx
      rw [c1] at hx
      left
      split_ifs at hx
      · cases hc : cellAt s r 0 with
        | none => rw [hc] at hx; simp at hx
        | some x0 =>
          rw [hc] at hx
          simp only [Option.map_some', Option.some.injEq] at hx
          exact ⟨r, x0, hc, by rw [← hx]; rfl⟩
      · exact ⟨r, x, hx, rfl⟩
    obtain ⟨s2, e2, o2, i2⟩ := damagerect_total n s1
      { start_row := row, end_row := row + 1, start_col := 0
        end_col := if newinfo.doublewidth ≠ 0 then s1.cols.tdiv 2 else s1.cols }
      (g1.DamageInv hdi)
    have hr2 : s2.rows = s.rows := by rw [OnlyDamage.sameGrid o2 |>.1, g1.rows]
    have hc2 : s2.cols = s.cols := by rw [OnlyDamage.sameGrid o2 |>.2.1, g1.cols]
    have hn2 : NoWideCol0 s2 := by
      intro r x hx
      rw [o2.od_cellAt] at hx
      exact hn1 r x hx
    by_cases hdw : newinfo.doublewidth ≠ 0
    · have hwf2 : WF s2 := o2.od_WF g1.2
      have hrect : RectInGrid s2
          { start_row := row, end_row := row + 1, start_col := s2.cols.tdiv 2
            end_col := s2.cols } := by
        have ht : s2.cols.tdiv 2 = s2.cols / 2 :=
          Int.tdiv_eq_ediv (by rw [hc2]; exact hcols) (by decide)
        unfold RectInGrid
        simp only
        rw [ht, hr2]
        have := hfit.1; have := hfit.2
        rw [hc2]
        omega
      obtain ⟨s3, e3, g3, c3⟩ := erase_internal_spec hwf2 hrect 0
      rw [if_pos hdw] at e2
      refine ⟨s3, ?_, ⟨g3.2, g3.DamageInv i2, ?_⟩, by rw [g3.rows, hr2], by rw [g3.cols, hc2]⟩
      · simp only [sink, setlineinfo, if_pos hchg, e1, Option.some_bind, if_pos hdw, e2, e3,
          Option.map_some']
      · apply NoWideCol0_of_CharSafe hn2
        apply CharSafe_of_ColSafe
        · intro r c h
          exact (g3.InGrid r c).mp h
        · exact erase_ColSafe hwf2 _ 0 c3
    · rw [if_neg hdw] at e2
      refine ⟨s2, ?_, ⟨o2.od_WF g1.2, i2, hn2⟩, hr2, hc2⟩
      simp only [sink, setlineinfo, if_pos hchg, e1, Option.some_bind, if_neg hdw, e2,
        Option.map_some']
  · refine ⟨s, ?_, ⟨hwf, hdi, hnw⟩, rfl, rfl⟩
    simp only [sink, setlineinfo, if_neg hchg, Option.map_some']

theorem sink_inv (n : Nat) (s : VTermScreen) (e : SinkEvent) (hinv : SinkInv s)
    (hfit : e.fits s) :
    ∃ s', sink (n + 1) e s = some s' ∧ SinkInv s' ∧ s'.rows = s.rows ∧ s'.cols = s.cols := by
  cases e with
  | putglyph info pos => exact sink_putglyph_inv n s info pos hinv hfit
  | erase rect sel => exact sink_erase_inv n s rect sel hinv hfit
  | scrollrect rect down right => exact sink_scroll_inv n s rect down right hinv hfit
  | setlineinfo row ni oi => exact sink_setlineinfo_inv n s row ni oi hinv hfit

theorem fits_congr {s s' : VTermScreen} (h1 : s'.rows = s.rows) (h2 : s'.cols = s.cols)
    (e : SinkEvent) (h : e.fits s) : e.fits s' := by
  cases e <;> simp only [SinkEvent.fits, InGrid, RectInGrid, h1, h2] at h ⊢ <;> exact h

theorem run_sink_inv (n : Nat) : ∀ (events : List SinkEvent) (s : VTermScreen),
    SinkInv s → (∀ e ∈ events, e.fits s) →
    ∃ s', run_sink (n + 1) events s = some s' ∧ SinkInv s'
  | [], s, hinv, _ => ⟨s, rfl, hinv⟩
  | e :: es, s, hinv, hfit => by
    obtain ⟨s1, e1, i1, r1, c1⟩ := sink_inv n s e hinv (hfit e (List.mem_cons_self _ _))
    obtain ⟨s', e2, i2⟩ := run_sink_inv n es s1 i1
      (fun e' he' => fits_congr r1 c1 e' (hfit e' (List.mem_cons_of_mem _ he')))
    exact ⟨s', by simp only [run_sink, e1, Option.some_bind, e2], i2⟩

/-- Left of a cell that holds the marker, `vterm_screen_get_cell` reports
width 2. -/
theorem get_cell_left_of_marker {s : VTermScreen} (hwf : WF s) {r c : Int} {x : ScreenCell}
    (hx : cellAt s r c = some x) (hm : x.char0 = WIDE_CONT) (hc : 1 ≤ c)
    (cell : VTermScreenCell) :
    ∃ out, vterm_screen_get_cell s { row := r, col := c - 1 } cell = some (out, 1) ∧
      out.width = 2 := by
  have hin := cellAt_some_InGrid hx
  have hpos : InGrid s r (c - 1) := by unfold InGrid at *; omega
  obtain ⟨h1, h2, h3, h4, b, hb, hlen, hall⟩ := hwf
  obtain ⟨y, hy, -, -⟩ := readcell_getcell hb hlen hpos
  rw [getcell_some hpos] at hy
  have hlt : (c - 1 : Int) < s.cols - 1 := by have := hin.2.2.2; omega
  have hright : readcell s (getcell s r (c - 1 + 1)) = some x := by
    have : c - 1 + 1 = c := by ring
    rw [this]; exact hx
  refine ⟨{ get_cell_fields s y cell with width := 2 }, ?_, rfl⟩
  unfold vterm_screen_get_cell
  rw [getcell_some hpos]
  simp only [hy, Option.some_bind, if_pos hlt, hright, if_pos hm]

theorem small_screen_WF (policy : VTermDamageSize) : WF (small_screen policy) :=
  ⟨by show (0 : Int) ≤ 2; decide, by show (0 : Int) ≤ 3; decide, rfl, rfl,
    List.replicate 6 blank_cell, rfl, rfl, by decide⟩

/-! ## Claims about `putglyph` and `vterm_screen_get_cell` -/

/-- C2: for a position whose row lies outside `[0, rows)` or whose column lies
outside `[0, cols)`, `putglyph` returns 0 and hands back the very screen it was
given: every cell of both buffers, the damage accumulator and the trace of host
calls are what they were, so no host callback has been invoked. -/
theorem putglyph_out_of_bounds (fuel : Nat) (info : VTermGlyphInfo) (pos : VTermPos)
    (s : VTermScreen)
    (h : pos.row < 0 ∨ pos.row ≥ s.rows ∨ pos.col < 0 ∨ pos.col ≥ s.cols) :
    putglyph fuel info pos s = some (s, 0) := by
  have hg : getcell s pos.row pos.col = none := by
    apply getcell_none
    unfold InGrid
    omega
  simp [putglyph, hg]

theorem putglyph_out_of_bounds_witness :
    putglyph 1 { chars := [0x41], width := 1, protected_cell := 0, dwl := 0, dhl := 0 }
      { row := 5, col := 0 } (small_screen VTermDamageSize.CELL) =
      some (small_screen VTermDamageSize.CELL, 0) :=
  putglyph_out_of_bounds 1 _ { row := 5, col := 0 } (small_screen VTermDamageSize.CELL)
    (by decide)

/-- C1: for a position on the grid and a glyph of width `w ≥ 1` that fits into the
row, `putglyph` returns 1 (from every damage state the screen can be in, with
fuel for one call).  The cell at the position then holds the leading non-zero
codepoints of the glyph, `n ≤ VTERM_MAX_CHARS_PER_CELL` of them, followed by a
zero when `n` is below the bound.  Each cell in the columns
`pos.col+1 .. pos.col+w-1` of the row is the old cell with `WIDE_CONT` stored
in `chars[0]`.  No other cell changes at all.  Under the `CELL` policy the
damage callback of a listening host is called once, with the rectangle
`(pos.row, pos.row+1, pos.col, pos.col+w)`, and nothing else is called. -/
theorem putglyph_writes (fuel : Nat) (s : VTermScreen) (info : VTermGlyphInfo) (pos : VTermPos)
    (hwf : WF s) (hinv : DamageInv s) (hfuel : 0 < fuel)
    (hpos : InGrid s pos.row pos.col) (hw : 1 ≤ info.width)
    (hfit : pos.col + info.width ≤ s.cols) :
    ∃ s', putglyph fuel info pos s = some (s', 1) ∧
      (∃ c n, cellAt s' pos.row pos.col = some c ∧ n ≤ VTERM_MAX_CHARS_PER_CELL ∧
        (∀ k, k < n → info.chars.getD k 0 ≠ 0 ∧ c.chars.getD k 0 = info.chars.getD k 0) ∧
        (n < VTERM_MAX_CHARS_PER_CELL → info.chars.getD n 0 = 0 ∧ c.chars.getD n 0 = 0)) ∧
      (∀ col, pos.col + 1 ≤ col → col < pos.col + info.width →
        ∃ old, cellAt s pos.row col = some old ∧
          cellAt s' pos.row col = some { old with chars := old.chars.set 0 WIDE_CONT } ∧
          ({ old with chars := old.chars.set 0 WIDE_CONT } : ScreenCell).char0 = WIDE_CONT) ∧
      (∀ r c, ¬ (r = pos.row ∧ pos.col ≤ c ∧ c < pos.col + info.width) →
        cellAt s' r c = cellAt s r c) ∧
      (s.damage_merge = VTermDamageSize.CELL → ∀ cb, s.callbacks = some cb → cb.damage = true →
        s'.trace = s.trace ++ [HostEvent.damage
          { start_row := pos.row, end_row := pos.row + 1
            start_col := pos.col, end_col := pos.col + info.width }]) := by
  obtain ⟨m, rfl⟩ : ∃ m, fuel = m + 1 := ⟨fuel - 1, by omega⟩
  obtain ⟨s3, g3, c3, e3⟩ := putglyph_spec (m + 1) s info pos hwf hpos hfit
  obtain ⟨s', e4, o4, -⟩ := damagerect_total m s3 (glyph_rect info pos) (g3.DamageInv hinv)
  have hwf' := hwf
  obtain ⟨h1, h2, h3, h4, b, hb, hlen, hall⟩ := hwf
  refine ⟨s', by rw [e3, e4]; rfl, ?_, ?_, ?_, ?_⟩
  · obtain ⟨x, hx, -, hmem⟩ := readcell_getcell hb hlen hpos
    have hcell : cellAt s pos.row pos.col = some x := hx
    obtain ⟨n, hn1, hn2, hn3⟩ := putglyph_cell_chars info.chars s.pen x (hall x hmem)
    refine ⟨set_glyph_flags info (putglyph_cell info.chars s.pen x), n, ?_, hn1, hn2, hn3⟩
    rw [o4.od_cellAt, c3, if_pos ⟨rfl, rfl⟩, hcell]
    rfl
  · intro col hc1 hc2
    have hin : InGrid s pos.row col := by
      have := hpos; unfold InGrid at *; omega
    obtain ⟨x, hx, -, hmem⟩ := readcell_getcell hb hlen hin
    have hcell : cellAt s pos.row col = some x := hx
    refine ⟨x, hcell, ?_, ?_⟩
    · rw [o4.od_cellAt, c3, if_neg (by omega), if_pos ⟨rfl, hc1, hc2⟩, hcell]
      rfl
    · have hl : 0 < x.chars.length := by rw [hall x hmem]; decide
      simp [ScreenCell.char0, List.getD_eq_getElem?_getD, List.getElem?_set, hl]
  · intro r c hout
    rw [o4.od_cellAt, c3, if_neg (by omega), if_neg (by omega)]
  · intro hcell cb hcb hd
    have hm : s3.damage_merge = VTermDamageSize.CELL := by rw [g3.gs_damage_merge]; exact hcell
    rw [damagerect_cell _ hm] at e4
    cases e4
    rw [emit_damage_trace_registered _ _ cb (by rw [g3.gs_callbacks]; exact hcb) hd, g3.trace]
    rfl

theorem putglyph_writes_witness :
    ∃ s', putglyph 1 (glyph 0x4e2d 2) { row := 0, col := 0 }
        (small_screen VTermDamageSize.CELL) = some (s', 1) ∧
      (∃ old, cellAt (small_screen VTermDamageSize.CELL) 0 1 = some old ∧
        cellAt s' 0 1 = some { old with chars := old.chars.set 0 WIDE_CONT }) ∧
      cellAt s' 1 0 = cellAt (small_screen VTermDamageSize.CELL) 1 0 ∧
      s'.trace = [] ++ [HostEvent.damage
        { start_row := 0, end_row := 0 + 1, start_col := 0, end_col := 0 + 2 }] := by
  obtain ⟨s', h1, -, h3, h4, h5⟩ := putglyph_writes 1 (small_screen VTermDamageSize.CELL)
    (glyph 0x4e2d 2) { row := 0, col := 0 } (small_screen_WF _) (fun _ => rfl) (by decide)
    (by decide) (by decide) (by decide)
  obtain ⟨old, o1, o2, -⟩ := h3 1 (by decide) (by decide)
  exact ⟨s', h1, ⟨old, o1, o2⟩, h4 1 0 (by decide), h5 rfl damage_host rfl rfl⟩

/-- C3: for a position on the grid, `vterm_screen_get_cell` succeeds and reports
width 2 or width 1; left of the last column the width is 2 exactly when
`chars[0]` of the cell to the right is `WIDE_CONT`, and in the last column it
is 1. -/
theorem get_cell_width (s : VTermScreen) (pos : VTermPos) (cell : VTermScreenCell)
    (hwf : WF s) (hpos : InGrid s pos.row pos.col) :
    ∃ out, vterm_screen_get_cell s pos cell = some (out, 1) ∧
      (out.width = 2 ∨ out.width = 1) ∧
      (pos.col < s.cols - 1 →
        ∃ right, cellAt s pos.row (pos.col + 1) = some right ∧
          (out.width = 2 ↔ right.char0 = WIDE_CONT)) ∧
      (¬ pos.col < s.cols - 1 → out.width = 1) := by
  obtain ⟨h1, h2, h3, h4, b, hb, hlen, hall⟩ := hwf
  obtain ⟨x, hx, -, -⟩ := readcell_getcell hb hlen hpos
  rw [getcell_some hpos] at hx
  by_cases hc : pos.col < s.cols - 1
  · have hin : InGrid s pos.row (pos.col + 1) := by
      unfold InGrid at *; omega
    obtain ⟨y, hy, -, -⟩ := readcell_getcell hb hlen hin
    by_cases hw : y.char0 = WIDE_CONT
    · refine ⟨{ get_cell_fields s x cell with width := 2 }, ?_, Or.inl rfl,
        fun _ => ⟨y, hy, ?_⟩, fun h => absurd hc h⟩
      · unfold vterm_screen_get_cell
        rw [getcell_some hpos]
        simp only [hx, Option.some_bind, if_pos hc, hy, if_pos hw]
      · simp [hw]
    · refine ⟨{ get_cell_fields s x cell with width := 1 }, ?_, Or.inr rfl,
        fun _ => ⟨y, hy, ?_⟩, fun h => absurd hc h⟩
      · unfold vterm_screen_get_cell
        rw [getcell_some hpos]
        simp only [hx, Option.some_bind, if_pos hc, hy, if_neg hw]
      · simp [hw]
  · refine ⟨{ get_cell_fields s x cell with width := 1 }, ?_, Or.inr rfl,
      fun h => absurd h hc, fun _ => rfl⟩
    unfold vterm_screen_get_cell
    rw [getcell_some hpos]
    simp only [hx, Option.some_bind, if_neg hc]

theorem get_cell_width_witness :
    InGrid wide_screen 0 0 ∧ (0 : Int) < wide_screen.cols - 1 ∧
    (cellAt wide_screen 0 (0 + 1)).map ScreenCell.char0 = some WIDE_CONT ∧
    ∃ out, vterm_screen_get_cell wide_screen { row := 0, col := 0 } blank_ext_cell =
        some (out, 1) ∧ out.width = 2 := by
  obtain ⟨out, h1, -, h3, -⟩ := get_cell_width wide_screen { row := 0, col := 0 } blank_ext_cell
    ⟨by decide, by decide, rfl, rfl, _, rfl, rfl, by decide⟩ (by decide)
  obtain ⟨right, hr, hiff⟩ := h3 (by decide)
  have hc : (cellAt wide_screen 0 (0 + 1)).map ScreenCell.char0 = some WIDE_CONT := by decide
  refine ⟨by decide, by decide, hc, out, h1, hiff.mpr ?_⟩
  have hr1 : cellAt wide_screen 0 (0 + 1) = some right := hr
  rw [hr1] at hc
  simpa using hc

/-! ## Claims about the damage accumulator -/

/-- C8: whatever the damage-merge policy, a flush of a screen whose damage state
is one the screen can be in (`DamageInv`: a deferred scroll exists only under
`SCROLL`) returns as soon as it has fuel for one call, and then the damaged
rectangle is empty (`start_row = -1`) and the pending scroll rectangle is empty
(`start_row = -1`). -/
theorem flush_damage_empties (fuel : Nat) (s : VTermScreen) (hinv : DamageInv s)
    (hfuel : 0 < fuel) :
    ∃ s', vterm_screen_flush_damage fuel s = some s' ∧
      s'.damaged.start_row = -1 ∧ s'.pending_scrollrect.start_row = -1 := by
  obtain ⟨n, rfl⟩ : ∃ n, fuel = n + 1 := ⟨fuel - 1, by omega⟩
  obtain ⟨s', h1, h2, h3, -⟩ := flush_total n s hinv
  exact ⟨s', h1, h2, h3⟩

theorem flush_damage_empties_witness :
    DamageInv scrolled_screen ∧ scrolled_screen.damaged.start_row = 0 ∧
    scrolled_screen.pending_scrollrect.start_row = 0 ∧
    ∃ s', vterm_screen_flush_damage 1 scrolled_screen = some s' ∧
      s'.damaged.start_row = -1 ∧ s'.pending_scrollrect.start_row = -1 :=
  ⟨fun h => absurd rfl h, rfl, rfl,
    flush_damage_empties 1 scrolled_screen (fun h => absurd rfl h) (by decide)⟩

/-- C9: under the `ROW` policy, with a listening host and nothing stored, two
successive single-row damages `r1`, `r2` behave as follows.  The first is
stored without emission.  If the second is on the same row, nothing is
emitted and the stored segment keeps the row and spans the columns
`[min start_col, max end_col)` of the two.  If it is on another row, the
stored segment `r1` is emitted unchanged and `r2` is stored.  In that case the
calls made to the host by the two damages and a following flush are exactly
`damage r1`, `damage r2`, in this order. -/
theorem row_policy_merges (fuel : Nat) (s : VTermScreen) (cb : VTermScreenCallbacks)
    (r1 r2 : VTermRect)
    (hpol : s.damage_merge = VTermDamageSize.ROW) (hinv : DamageInv s)
    (hcb : s.callbacks = some cb) (hd : cb.damage = true)
    (hempty : s.damaged.start_row = -1)
    (h1 : r1.end_row = r1.start_row + 1) (h2 : r2.end_row = r2.start_row + 1)
    (hr1 : 0 ≤ r1.start_row) (hr2 : 0 ≤ r2.start_row) :
    ∃ s1 s2 s3, damagerect (vterm_screen_flush_damage fuel) s r1 = some s1 ∧
      damagerect (vterm_screen_flush_damage fuel) s1 r2 = some s2 ∧
      vterm_screen_flush_damage (fuel + 1) s2 = some s3 ∧
      s1.trace = s.trace ∧ s1.damaged = r1 ∧
      (r2.start_row = r1.start_row →
        s2.trace = s.trace ∧
        s2.damaged = { start_row := r1.start_row, end_row := r1.end_row
                       start_col := min r1.start_col r2.start_col
                       end_col := max r1.end_col r2.end_col }) ∧
      (r2.start_row ≠ r1.start_row →
        s2.trace = s.trace ++ [HostEvent.damage r1] ∧ s2.damaged = r2 ∧
        s3.trace = s.trace ++ [HostEvent.damage r1, HostEvent.damage r2]) := by
  have hp : s.pending_scrollrect.start_row = -1 := hinv (by simp [hpol])
  have hn1 : ¬ (r1.end_row > r1.start_row + 1) := by omega
  have hn2 : ¬ (r2.end_row > r2.start_row + 1) := by omega
  have e1 : damagerect (vterm_screen_flush_damage fuel) s r1 = some { s with damaged := r1 } := by
    unfold damagerect
    rw [hpol]
    simp only [if_neg hn1, if_pos hempty]
  have hne : ¬ (r1.start_row = -1) := by omega
  by_cases hrow : r2.start_row = r1.start_row
  · let d1 : VTermRect :=
      if r1.start_col > r2.start_col then { r1 with start_col := r2.start_col } else r1
    let d2 : VTermRect := if d1.end_col < r2.end_col then { d1 with end_col := r2.end_col } else d1
    have e2 : damagerect (vterm_screen_flush_damage fuel) { s with damaged := r1 } r2 =
        some { s with damaged := d2 } := by
      unfold damagerect
      simp only [hpol, if_neg hn2, if_neg hne, if_pos hrow]
    have hp2 : ({ s with damaged := d2 } : VTermScreen).pending_scrollrect.start_row = -1 := hp
    refine ⟨_, _, _, e1, e2, flush_eq_of_no_pending fuel hp2, rfl, rfl, ?_, fun h => absurd hrow h⟩
    intro _
    refine ⟨rfl, ?_⟩
    show d2 = _
    by_cases c1 : r1.start_col > r2.start_col
    · by_cases c2 : r1.end_col < r2.end_col
      · simp only [d2, d1, if_pos c1, if_pos c2]
        rw [min_eq_right (by omega), max_eq_right (by omega)]
      · simp only [d2, d1, if_pos c1, if_neg c2]
        rw [min_eq_right (by omega), max_eq_left (by omega)]
    · by_cases c2 : r1.end_col < r2.end_col
      · simp only [d2, d1, if_neg c1, if_pos c2]
        rw [min_eq_left (by omega), max_eq_right (by omega)]
      · simp only [d2, d1, if_neg c1, if_neg c2]
        rw [min_eq_left (by omega), max_eq_left (by omega)]
  · have e2 : damagerect (vterm_screen_flush_damage fuel) { s with damaged := r1 } r2 =
        some (emit_damage { s with damaged := r2 } r1) := by
      unfold damagerect
      simp only [hpol, if_neg hn2, if_neg hne, if_neg hrow]
    have et : (emit_damage { s with damaged := r2 } r1).trace =
        s.trace ++ [HostEvent.damage r1] :=
      emit_damage_trace_registered _ r1 cb hcb hd
    have hp2 : (emit_damage { s with damaged := r2 } r1).pending_scrollrect.start_row = -1 := by
      simpa using hp
    refine ⟨_, _, _, e1, e2, flush_eq_of_no_pending fuel hp2, rfl, rfl,
      fun h => absurd h hrow, fun _ => ⟨et, by simp, ?_⟩⟩
    have hne2 : (emit_damage { s with damaged := r2 } r1).damaged.start_row ≠ -1 := by
      simp only [emit_damage_damaged]; omega
    unfold flush_damaged
    rw [if_pos hne2]
    show (emit_damage (emit_damage { s with damaged := r2 } r1)
      (emit_damage { s with damaged := r2 } r1).damaged).trace = _
    rw [emit_damage_trace_registered _ _ cb (by simpa using hcb) hd, et]
    simp

theorem row_policy_merges_witness :
    ∃ s1 s2 s3,
      damagerect (vterm_screen_flush_damage 1) (small_screen VTermDamageSize.ROW)
        { start_row := 0, end_row := 1, start_col := 0, end_col := 2 } = some s1 ∧
      damagerect (vterm_screen_flush_damage 1) s1
        { start_row := 1, end_row := 2, start_col := 1, end_col := 3 } = some s2 ∧
      vterm_screen_flush_damage 2 s2 = some s3 ∧
      s1.trace = [] ∧ s1.damaged = { start_row := 0, end_row := 1, start_col := 0, end_col := 2 } ∧
      ((1 : Int) = 0 →
        s2.trace = [] ∧
        s2.damaged = { start_row := 0, end_row := 1
                       start_col := min 0 1, end_col := max 2 3 }) ∧
      ((1 : Int) ≠ 0 →
        s2.trace = [] ++ [HostEvent.damage { start_row := 0, end_row := 1, start_col := 0, end_col := 2 }] ∧
        s2.damaged = { start_row := 1, end_row := 2, start_col := 1, end_col := 3 } ∧
        s3.trace = [] ++
          [HostEvent.damage { start_row := 0, end_row := 1, start_col := 0, end_col := 2 },
           HostEvent.damage { start_row := 1, end_row := 2, start_col := 1, end_col := 3 }]) :=
  row_policy_merges 1 (small_screen VTermDamageSize.ROW) damage_host
    { start_row := 0, end_row := 1, start_col := 0, end_col := 2 }
    { start_row := 1, end_row := 2, start_col := 1, end_col := 3 }
    rfl (fun _ => rfl) rfl rfl rfl rfl rfl (by decide) (by decide)

/-- C10: under the `SCREEN` and `SCROLL` policies `damagerect` returns without
any call to the host (the trace is unchanged, for every fuel).  Afterwards the
stored rectangle is the new one when nothing was stored, and otherwise the
smallest rectangle that contains the stored and the new one: it contains
both, and every rectangle containing both contains it.  For a listening host
and a damage state the screen can be in, the flush that follows ends with
exactly one damage call, of a rectangle that contains the reported one; what
precedes it adds no damage call to the trace. -/
theorem damage_accumulates (fuel : Nat) (s : VTermScreen) (rect : VTermRect)
    (hpol : s.damage_merge = VTermDamageSize.SCREEN ∨ s.damage_merge = VTermDamageSize.SCROLL) :
    ∃ s', damagerect (vterm_screen_flush_damage fuel) s rect = some s' ∧
      s'.trace = s.trace ∧
      (s.damaged.start_row = -1 → s'.damaged = rect) ∧
      (s.damaged.start_row ≠ -1 →
        rect_contains s'.damaged s.damaged = true ∧ rect_contains s'.damaged rect = true ∧
        ∀ r, rect_contains r s.damaged = true → rect_contains r rect = true →
          rect_contains r s'.damaged = true) ∧
      (∀ cb, s.callbacks = some cb → cb.damage = true → DamageInv s → 0 ≤ rect.start_row →
        (s.damaged.start_row = -1 ∨ 0 ≤ s.damaged.start_row) →
        (s.pending_scrollrect.start_row = -1 ∨ 0 ≤ s.pending_scrollrect.start_row) →
        ∃ s'' l R, vterm_screen_flush_damage (fuel + 1) s' = some s'' ∧
          s''.trace = s.trace ++ l ++ [HostEvent.damage R] ∧
          (∀ r, HostEvent.damage r ∉ l) ∧ rect_contains R rect = true) := by
  refine ⟨_, damagerect_accumulate rect hpol, rfl, ?_, ?_, ?_⟩
  · intro h; simp [h]
  · intro h
    simp only [if_neg h]
    exact ⟨rect_expand_contains_left _ _, rect_expand_contains_right _ _,
      fun r h1 h2 => rect_expand_least _ _ r h1 h2⟩
  · intro cb hcb hd hinv hrect hdam hpend
    -- the state after the report
    set s' : VTermScreen := { s with damaged := if s.damaged.start_row = -1 then rect
                                               else rect_expand s.damaged rect } with hs'
    have hd0 : 0 ≤ s'.damaged.start_row ∧ rect_contains s'.damaged rect = true := by
      simp only [hs']
      split_ifs with h
      · exact ⟨hrect, rect_contains_refl _⟩
      · exact ⟨rect_expand_start_row _ _ (by omega) hrect, rect_expand_contains_right _ _⟩
    -- what the replay of a deferred scroll keeps
    let P : VTermScreen → Prop := fun a =>
      a.damage_merge = VTermDamageSize.SCROLL ∧ a.callbacks = some cb ∧
      (0 ≤ a.damaged.start_row ∧ rect_contains a.damaged rect = true) ∧
      ∃ l, a.trace = s.trace ++ l ∧ ∀ r, HostEvent.damage r ∉ l
    have hdr : ∀ X : VTermRect, 0 ≤ X.start_row → ∀ a, P a →
        ∃ b, damagerect (vterm_screen_flush_damage fuel) a X = some b ∧ P b := by
      intro X hX a ha
      obtain ⟨ha1, ha2, ⟨ha3, ha4⟩, ha5⟩ := ha
      refine ⟨_, damagerect_accumulate X (Or.inr ha1), ha1, ha2, ?_, ha5⟩
      have hne : ¬ (a.damaged.start_row = -1) := by omega
      simp only [if_neg hne]
      exact ⟨rect_expand_start_row _ _ ha3 hX,
        rect_contains_trans _ _ _ (rect_expand_contains_left _ _) ha4⟩
    have hfin : ∀ s2 : VTermScreen, s2.callbacks = some cb →
        (0 ≤ s2.damaged.start_row ∧ rect_contains s2.damaged rect = true) →
        (∃ l, s2.trace = s.trace ++ l ∧ ∀ r, HostEvent.damage r ∉ l) →
        ∃ l R, (flush_damaged s2).trace = s.trace ++ l ++ [HostEvent.damage R] ∧
          (∀ r, HostEvent.damage r ∉ l) ∧ rect_contains R rect = true := by
      intro s2 hc2 hd2 ⟨l, hl, hl2⟩
      have hne : s2.damaged.start_row ≠ -1 := by omega
      refine ⟨l, s2.damaged, ?_, hl2, hd2.2⟩
      unfold flush_damaged
      rw [if_pos hne]
      show (emit_damage s2 s2.damaged).trace = _
      rw [emit_damage_trace_registered _ _ cb hc2 hd, hl]
    by_cases hp : s.pending_scrollrect.start_row = -1
    · have hp' : s'.pending_scrollrect.start_row = -1 := hp
      obtain ⟨l, R, h1, h2, h3⟩ := hfin s' hcb hd0 ⟨[], by simp [hs'], by simp⟩
      exact ⟨_, l, R, flush_eq_of_no_pending fuel hp', h1, h2, h3⟩
    · have hsc : s.damage_merge = VTermDamageSize.SCROLL := by
        by_contra hc; exact hp (hinv hc)
      have hp0 : 0 ≤ s.pending_scrollrect.start_row := by omega
      have hPs : P s' := ⟨hsc, hcb, hd0, [], by simp [hs'], by simp⟩
      obtain ⟨s2, h2, ⟨-, hc2, hd2, hl2⟩, -⟩ := flush_pending_scroll P
        (fun a d r ⟨a1, a2, a3, l, a4, a5⟩ => ⟨a1, a2, a3, l ++ [HostEvent.moverect d r],
          by simp [a4], by
            intro r0 hmem
            rcases List.mem_append.mp hmem with h | h
            · exact a5 r0 h
            · simp at h⟩)
        (fun a p ha => ha) (fun a ha => ha.1) s'
        (fun _ _ => hdr _ hp0)
        (fun _ _ => hdr _ (le_trans hp0 (scroll_dest_start_row _ _ _)))
        (fun _ hb => hdr _ (le_trans hp0 (scroll_gap_start_row hb)))
        hPs
      obtain ⟨l, R, h1, h3, h4⟩ := hfin s2 hc2 hd2 hl2
      refine ⟨flush_damaged s2, l, R, ?_, h1, h3, h4⟩
      unfold vterm_screen_flush_damage flush_damage_body
      rw [h2]; rfl

theorem damage_accumulates_witness :
    ∃ s', damagerect (vterm_screen_flush_damage 1) (small_screen VTermDamageSize.SCREEN)
        { start_row := 0, end_row := 1, start_col := 1, end_col := 2 } = some s' ∧
      s'.trace = [] ∧
      s'.damaged = { start_row := 0, end_row := 1, start_col := 1, end_col := 2 } ∧
      ∃ s'' l R, vterm_screen_flush_damage 2 s' = some s'' ∧
        s''.trace = [] ++ l ++ [HostEvent.damage R] ∧
        (∀ r, HostEvent.damage r ∉ l) ∧
        rect_contains R { start_row := 0, end_row := 1, start_col := 1, end_col := 2 } = true := by
  obtain ⟨s', h1, h2, h3, -, h5⟩ := damage_accumulates 1 (small_screen VTermDamageSize.SCREEN)
    { start_row := 0, end_row := 1, start_col := 1, end_col := 2 } (Or.inl rfl)
  exact ⟨s', h1, h2, h3 rfl,
    h5 damage_host rfl rfl (fun _ => rfl) (by decide) (Or.inl rfl) (Or.inl rfl)⟩

/-! ## Claims about `erase` -/

/-- C5: for a rectangle inside the grid, non-selective `erase` returns 1.  In the
resulting screen every cell of the rectangle has `chars[0] = 0` and a pen whose
`fg` and `bg` are those of the pen register, whose boolean and enum attributes
and protected flag are zero, and whose `dwl` and `dhl` are the `doublewidth`
and `doubleheight` flags of the line-info of its row (as one-bit and two-bit
fields); every cell outside the rectangle is what it was.  The damage of the
rectangle is handed to `damagerect`, which under the `CELL` policy calls the
damage callback of a listening host with exactly that rectangle. -/
theorem erase_clears (fuel : Nat) (s : VTermScreen) (rect : VTermRect) (hwf : WF s)
    (hinv : DamageInv s) (hrect : RectInGrid s rect) (hfuel : 0 < fuel) :
    ∃ s1 s', erase_internal rect 0 s = some s1 ∧
      damagerect (vterm_screen_flush_damage fuel) s1 rect = some s' ∧
      erase fuel rect 0 s = some (s', 1) ∧
      (∀ r c, InRect rect r c → ∃ x info, cellAt s' r c = some x ∧
        vterm_state_get_lineinfo s r = some info ∧ x.char0 = 0 ∧
        x.pen.fg = s.pen.fg ∧ x.pen.bg = s.pen.bg ∧
        (x.pen.bold = 0 ∧ x.pen.underline = 0 ∧ x.pen.italic = 0 ∧ x.pen.blink = 0 ∧
          x.pen.reverse = 0 ∧ x.pen.conceal = 0 ∧ x.pen.strike = 0 ∧ x.pen.font = 0 ∧
          x.pen.small = 0 ∧ x.pen.baseline = 0) ∧
        x.pen.protected_cell = 0 ∧
        x.pen.dwl = info.doublewidth % 2 ∧ x.pen.dhl = info.doubleheight % 4) ∧
      (∀ r c, ¬ InRect rect r c → cellAt s' r c = cellAt s r c) ∧
      (s.damage_merge = VTermDamageSize.CELL → ∀ cb, s.callbacks = some cb → cb.damage = true →
        s'.trace = s.trace ++ [HostEvent.damage rect]) := by
  obtain ⟨n, rfl⟩ : ∃ n, fuel = n + 1 := ⟨fuel - 1, by omega⟩
  obtain ⟨s1, e1, g1, c1⟩ := erase_internal_spec hwf hrect 0
  obtain ⟨s', e2, o2, -⟩ := damagerect_total n s1 rect (g1.DamageInv hinv)
  refine ⟨s1, s', e1, e2, ?_, ?_, ?_, ?_⟩
  · unfold erase erase_user
    simp only [e1, Option.some_bind, e2]
  · intro r c hin
    have hg : InGrid s r c := by
      obtain ⟨a1, a2, a3, a4, a5, a6⟩ := hrect
      obtain ⟨b1, b2, b3, b4⟩ := hin
      unfold InGrid; omega
    obtain ⟨info, hinfo⟩ := get_lineinfo_some hwf ⟨hg.1, hg.2.1⟩
    obtain ⟨h1, h2, h3, h4, b, hb, hlen, hall⟩ := hwf
    obtain ⟨x, hx, -, -⟩ := readcell_getcell hb hlen hg
    have hcell : cellAt s r c = some x := hx
    refine ⟨erase_result 0 s.pen info x, info, ?_, hinfo, ?_⟩
    · rw [o2.od_cellAt, c1, if_pos hin, hcell]
      simp [erase_at, hinfo]
    · simp [erase_result, erased_pen, ScreenCell.char0]
      cases x.chars <;> simp
  · intro r c hout
    rw [o2.od_cellAt, c1, if_neg hout]
  · intro hcell cb hcb hd
    have hm : s1.damage_merge = VTermDamageSize.CELL := by rw [g1.gs_damage_merge]; exact hcell
    rw [damagerect_cell rect hm] at e2
    cases e2
    rw [emit_damage_trace_registered _ _ cb (by rw [g1.gs_callbacks]; exact hcb) hd, g1.trace]

theorem erase_clears_witness :
    ∃ s1 s', erase_internal { start_row := 0, end_row := 1, start_col := 0, end_col := 3 } 0
        marked_screen = some s1 ∧
      damagerect (vterm_screen_flush_damage 1) s1
        { start_row := 0, end_row := 1, start_col := 0, end_col := 3 } = some s' ∧
      erase 1 { start_row := 0, end_row := 1, start_col := 0, end_col := 3 } 0 marked_screen
        = some (s', 1) ∧
      (∃ x, cellAt s' 0 0 = some x ∧ x.char0 = 0 ∧ x.pen.protected_cell = 0) ∧
      cellAt s' 1 0 = cellAt marked_screen 1 0 ∧
      s'.trace = [] ++ [HostEvent.damage
        { start_row := 0, end_row := 1, start_col := 0, end_col := 3 }] := by
  obtain ⟨s1, s', h1, h2, h3, h4, h5, h6⟩ := erase_clears 1 marked_screen
    { start_row := 0, end_row := 1, start_col := 0, end_col := 3 }
    ⟨by decide, by decide, rfl, rfl, _, rfl, rfl, by decide⟩ (fun _ => rfl) (by decide)
    (by decide)
  obtain ⟨x, info, a1, -, a3, -, -, -, a4, -⟩ := h4 0 0 (by decide)
  exact ⟨s1, s', h1, h2, h3, ⟨x, a1, a3, a4⟩, h5 1 0 (by decide), h6 rfl damage_host rfl rfl⟩

/-- C6: for a rectangle inside the grid, selective `erase_internal` succeeds, as
does the non-selective one, and cell by cell over the whole grid: a cell whose
pen has the protected flag set is unchanged, chars and pen; any other cell is
what the non-selective erase makes of it. -/
theorem selective_erase_skips_protected (s : VTermScreen) (rect : VTermRect) (selective : Int)
    (hsel : selective ≠ 0) (hwf : WF s) (hrect : RectInGrid s rect) :
    ∃ s1 s0, erase_internal rect selective s = some s1 ∧ erase_internal rect 0 s = some s0 ∧
      ∀ r c, InGrid s r c → ∃ x, cellAt s r c = some x ∧
        (x.pen.protected_cell ≠ 0 → cellAt s1 r c = some x) ∧
        (x.pen.protected_cell = 0 → cellAt s1 r c = cellAt s0 r c) := by
  obtain ⟨s1, e1, -, c1⟩ := erase_internal_spec hwf hrect selective
  obtain ⟨s0, e0, -, c0⟩ := erase_internal_spec hwf hrect 0
  refine ⟨s1, s0, e1, e0, ?_⟩
  intro r c hg
  obtain ⟨info, hinfo⟩ := get_lineinfo_some hwf ⟨hg.1, hg.2.1⟩
  obtain ⟨h1, h2, h3, h4, b, hb, hlen, hall⟩ := hwf
  obtain ⟨x, hx, -, -⟩ := readcell_getcell hb hlen hg
  have hcell : cellAt s r c = some x := hx
  refine ⟨x, hcell, ?_, ?_⟩
  · intro hp
    rw [c1]
    split_ifs
    · rw [hcell]; simp [erase_at, hinfo, erase_result, hsel, hp]
    · exact hcell
  · intro hp
    rw [c1, c0]
    split_ifs
    · rw [hcell]; simp [erase_at, hinfo, erase_result, hp]
    · rfl

theorem selective_erase_skips_protected_witness :
    ∃ s1 s0, erase_internal { start_row := 0, end_row := 2, start_col := 0, end_col := 3 } 1
        marked_screen = some s1 ∧
      erase_internal { start_row := 0, end_row := 2, start_col := 0, end_col := 3 } 0
        marked_screen = some s0 ∧
      cellAt s1 0 0 = some protected_A ∧ cellAt s1 0 1 = cellAt s0 0 1 := by
  obtain ⟨s1, s0, h1, h2, h3⟩ := selective_erase_skips_protected marked_screen
    { start_row := 0, end_row := 2, start_col := 0, end_col := 3 } 1 (by decide)
    ⟨by decide, by decide, rfl, rfl, _, rfl, rfl, by decide⟩ (by decide)
  obtain ⟨x, a1, a2, -⟩ := h3 0 0 (by decide)
  obtain ⟨y, b1, -, b3⟩ := h3 0 1 (by decide)
  have hx : x = protected_A := by
    have : cellAt marked_screen 0 0 = some protected_A := rfl
    rw [this] at a1; cases a1; rfl
  have hy : y = blank_cell := by
    have : cellAt marked_screen 0 1 = some blank_cell := rfl
    rw [this] at b1; cases b1; rfl
  subst hx; subst hy
  exact ⟨s1, s0, h1, h2, a2 (by decide), b3 rfl⟩

/-! ## Claims about `scrollrect` -/

set_option maxRecDepth 100000 in
/-- C4, as stated, fails on a horizontal scroll and on a resize.  On a fresh
screen of three columns, write a width-2 glyph at `(0, 0)` (it fits: `0 + 2 ≤ 3`)
and scroll the row `(0, 1, 0, 3)` by `rightward = 1`: the trailing half of the
glyph moves to column 0, which then holds `WIDE_CONT` in `chars[0]`.  On the
same screen, write a width-2 glyph at `(0, 1)` and then one at `(0, 0)` (both
fit): row 0 holds the glyph and two markers.  The resize to 3 x 2 rewraps the
row, steps back by one cell before the second marker and starts the second
line with the first marker: the cell `(1, 0)` holds `WIDE_CONT`. -/
theorem wide_cont_reaches_column_zero :
    InGrid fresh_screen 0 0 ∧ (0 : Int) + 2 ≤ fresh_screen.cols ∧
    RectInGrid fresh_screen { start_row := 0, end_row := 1, start_col := 0, end_col := 3 } ∧
    (run_sink 1
      [SinkEvent.putglyph (glyph 0x4e2d 2) { row := 0, col := 0 },
       SinkEvent.scrollrect { start_row := 0, end_row := 1, start_col := 0, end_col := 3 } 0 1]
      fresh_screen).bind (fun s => (cellAt s 0 0).map ScreenCell.char0) = some WIDE_CONT ∧
    InGrid fresh_screen 0 1 ∧ (1 : Int) + 2 ≤ fresh_screen.cols ∧
    (run_sink 1
      [SinkEvent.putglyph (glyph 0x4e2d 2) { row := 0, col := 1 },
       SinkEvent.putglyph (glyph 0x4e2d 2) { row := 0, col := 0 }]
      fresh_screen).map (fun s => s.buffers_primary.map ScreenCell.char0) =
        some [0x4e2d, WIDE_CONT, WIDE_CONT, 0, 0, 0] ∧
    ((run_sink 1
      [SinkEvent.putglyph (glyph 0x4e2d 2) { row := 0, col := 1 },
       SinkEvent.putglyph (glyph 0x4e2d 2) { row := 0, col := 0 }]
      fresh_screen).bind (fun s => resize 20 zero_alloc 3 2 a_fields s)).bind
        (fun x => (cellAt x.1 1 0).map ScreenCell.char0) = some WIDE_CONT := by
  refine ⟨by decide, by decide, by decide, rfl, by decide, by decide, by decide, by decide⟩

/-- C4 (amended): start from a well-formed screen in which every cell has
`chars[0] = 0`, as a freshly created screen is, and run any sequence of
`putglyph` (on the grid only with `pos.col + width ≤ cols`, first codepoint
not the marker), `erase` and vertical `scrollrect` (`rightward = 0`) on
rectangles inside the grid, and `setlineinfo` on rows of the grid.  The run
returns, no cell in column 0 has `chars[0] = WIDE_CONT`, and every cell with
`chars[0] = WIDE_CONT` has a left neighbour for which `vterm_screen_get_cell`
reports width 2. -/
theorem wide_cont_invariant (fuel : Nat) (s0 : VTermScreen) (events : List SinkEvent)
    (hfuel : 0 < fuel) (hwf : WF s0) (hinv : DamageInv s0)
    (hfresh : ∀ r c x, cellAt s0 r c = some x → x.char0 = 0)
    (hev : ∀ e ∈ events, e.fits s0) :
    ∃ s, run_sink fuel events s0 = some s ∧
      (∀ r x, cellAt s r 0 = some x → x.char0 ≠ WIDE_CONT) ∧
      (∀ r c x, cellAt s r c = some x → x.char0 = WIDE_CONT →
        1 ≤ c ∧ ∀ cell, ∃ out,
          vterm_screen_get_cell s { row := r, col := c - 1 } cell = some (out, 1) ∧
          out.width = 2) := by
  obtain ⟨n, rfl⟩ : ∃ n, fuel = n + 1 := ⟨fuel - 1, by omega⟩
  have h0 : NoWideCol0 s0 := by
    intro r x hx
    rw [hfresh r 0 x hx]
    decide
  obtain ⟨s, e1, hwf', -, hnw⟩ := run_sink_inv n events s0 ⟨hwf, hinv, h0⟩ hev
  refine ⟨s, e1, hnw, ?_⟩
  intro r c x hx hm
  have hin := cellAt_some_InGrid hx
  have hc : 1 ≤ c := by
    by_contra hlt
    have hc0 : c = 0 := by have := hin.2.2.1; omega
    subst hc0
    exact hnw r x hx hm
  exact ⟨hc, fun cell => get_cell_left_of_marker hwf' hx hm hc cell⟩

theorem wide_cont_invariant_witness :
    ∃ s, run_sink 1
        [SinkEvent.putglyph (glyph 0x4e2d 2) { row := 0, col := 0 },
         SinkEvent.scrollrect { start_row := 0, end_row := 2, start_col := 0, end_col := 3 } (-1) 0,
         SinkEvent.erase { start_row := 0, end_row := 1, start_col := 0, end_col := 3 } 0]
        fresh_screen = some s ∧
      (∀ r x, cellAt s r 0 = some x → x.char0 ≠ WIDE_CONT) ∧
      (∀ r c x, cellAt s r c = some x → x.char0 = WIDE_CONT →
        1 ≤ c ∧ ∀ cell, ∃ out,
          vterm_screen_get_cell s { row := r, col := c - 1 } cell = some (out, 1) ∧
          out.width = 2) :=
  wide_cont_invariant 1 fresh_screen _ (by decide)
    ⟨by decide, by decide, rfl, rfl, _, rfl, rfl, by decide⟩ (fun _ => rfl)
    (by
      intro r c x hx
      have hb : fresh_screen.cells = some (List.replicate 6 blank_cell) := rfl
      rw [cellAt_eq hb] at hx
      split_ifs at hx
      have hmem := List.getElem?_mem hx
      rw [List.eq_of_mem_replicate hmem]
      rfl)
    (by
      intro e he
      simp only [List.mem_cons, List.mem_singleton, List.not_mem_nil, or_false] at he
      rcases he with rfl | rfl | rfl
      · exact ⟨fun _ => by decide, by decide⟩
      · exact ⟨by decide, rfl⟩
      · show RectInGrid _ _
        decide)

/-! ## Terminal properties -/

theorem settermprop_forward_fst (prop : VTermProp) (val : VTermValue) (s : VTermScreen) :
    OnlyDamage s (settermprop_forward prop val s).1 := by
  unfold settermprop_forward
  split
  · exact ⟨_, _, _, _, _, rfl⟩
  · exact OnlyDamage.od_refl s

theorem OnlyDamage.od_buffers {s s' : VTermScreen} (h : OnlyDamage s s') :
    s'.buffer = s.buffer ∧ s'.buffers_primary = s.buffers_primary ∧
      s'.buffers_altscreen = s.buffers_altscreen := by
  obtain ⟨d, p, pd, pr, tr, rfl⟩ := h
  exact ⟨rfl, rfl, rfl⟩

/-! ## Claims about `settermprop` -/

/-- C14: on a screen in a damage state it can be in and whose active buffer is
allocated, `settermprop(ALTSCREEN, val)` does the following.  With `val` true
and no alternate buffer it returns 0 and the screen is the one it was given:
active buffer, every other field, and the calls made to the host (no damage,
no forwarded property).  With `val` true and the alternate buffer allocated it
returns with the alternate buffer active.  With `val` false it returns with
the primary buffer active.  The two buffers themselves are never changed, and
in every case the call returns with an allocated active buffer. -/
theorem settermprop_altscreen (fuel : Nat) (val : VTermValue) (s : VTermScreen)
    (hinv : DamageInv s) (hbuf : ∃ b, s.cells = some b) :
    (val.boolean ≠ 0 → s.buffers_altscreen = none →
      settermprop (fuel + 1) VTermProp.ALTSCREEN val s = some (s, 0)) ∧
    (∀ b, val.boolean ≠ 0 → s.buffers_altscreen = some b →
      ∃ s' r, settermprop (fuel + 1) VTermProp.ALTSCREEN val s = some (s', r) ∧
        s'.buffer = BufIdx.ALTSCREEN ∧ s'.cells = some b ∧
        s'.buffers_primary = s.buffers_primary ∧ s'.buffers_altscreen = s.buffers_altscreen) ∧
    (val.boolean = 0 →
      ∃ s' r, settermprop (fuel + 1) VTermProp.ALTSCREEN val s = some (s', r) ∧
        s'.buffer = BufIdx.PRIMARY ∧ s'.cells = some s.buffers_primary ∧
        s'.buffers_primary = s.buffers_primary ∧ s'.buffers_altscreen = s.buffers_altscreen) ∧
    (∃ s' r, settermprop (fuel + 1) VTermProp.ALTSCREEN val s = some (s', r) ∧
      ∃ b, s'.cells = some b) := by
  have hA : val.boolean ≠ 0 → s.buffers_altscreen = none →
      settermprop (fuel + 1) VTermProp.ALTSCREEN val s = some (s, 0) := by
    intro hv hn
    unfold settermprop
    simp only [if_pos (And.intro hv hn)]
  have hB : ∀ b, val.boolean ≠ 0 → s.buffers_altscreen = some b →
      ∃ s' r, settermprop (fuel + 1) VTermProp.ALTSCREEN val s = some (s', r) ∧
        s'.buffer = BufIdx.ALTSCREEN ∧ s'.cells = some b ∧
        s'.buffers_primary = s.buffers_primary ∧
        s'.buffers_altscreen = s.buffers_altscreen := by
    intro b hv hb
    have hne : ¬ (val.boolean ≠ 0 ∧ s.buffers_altscreen = none) := by
      rw [hb]; simp
    obtain ⟨e1, e2, e3⟩ := (settermprop_forward_fst VTermProp.ALTSCREEN val
      { s with buffer := BufIdx.ALTSCREEN }).od_buffers
    refine ⟨(settermprop_forward VTermProp.ALTSCREEN val { s with buffer := BufIdx.ALTSCREEN }).1,
      (settermprop_forward VTermProp.ALTSCREEN val { s with buffer := BufIdx.ALTSCREEN }).2,
      ?_, e1, ?_, e2, e3⟩
    · unfold settermprop
      simp only [if_neg hne, if_neg hv, if_pos hv, Option.map_some']
    · unfold VTermScreen.cells
      rw [e1, e3]
      exact hb
  have hC : val.boolean = 0 →
      ∃ s' r, settermprop (fuel + 1) VTermProp.ALTSCREEN val s = some (s', r) ∧
        s'.buffer = BufIdx.PRIMARY ∧ s'.cells = some s.buffers_primary ∧
        s'.buffers_primary = s.buffers_primary ∧
        s'.buffers_altscreen = s.buffers_altscreen := by
    intro hv
    have hne : ¬ (val.boolean ≠ 0 ∧ s.buffers_altscreen = none) := fun h => h.1 hv
    have hinv1 : DamageInv { s with buffer := BufIdx.PRIMARY } := hinv
    obtain ⟨s2, h2, hod, -⟩ := damagerect_total fuel { s with buffer := BufIdx.PRIMARY }
      { start_row := 0, end_row := s.rows, start_col := 0, end_col := s.cols } hinv1
    obtain ⟨d1, d2, d3⟩ := hod.od_buffers
    obtain ⟨e1, e2, e3⟩ := (settermprop_forward_fst VTermProp.ALTSCREEN val s2).od_buffers
    refine ⟨(settermprop_forward VTermProp.ALTSCREEN val s2).1,
      (settermprop_forward VTermProp.ALTSCREEN val s2).2,
      ?_, e1.trans d1, ?_, e2.trans d2, e3.trans d3⟩
    · unfold settermprop
      simp only [if_neg hne, if_pos hv, if_neg (not_not.mpr hv)]
      unfold damagescreen
      rw [h2]
      rfl
    · unfold VTermScreen.cells
      rw [e1.trans d1, e2.trans d2]
  refine ⟨hA, hB, hC, ?_⟩
  by_cases hv : val.boolean = 0
  · obtain ⟨s', r, h, -, hc, -⟩ := hC hv
    exact ⟨s', r, h, _, hc⟩
  · cases hal : s.buffers_altscreen with
    | none => exact ⟨s, 0, hA hv hal, hbuf⟩
    | some b =>
      obtain ⟨s', r, h, -, hc, -⟩ := hB b hv hal
      exact ⟨s', r, h, _, hc⟩

theorem settermprop_altscreen_witness :
    DamageInv alt_screen ∧ (∃ b, alt_screen.cells = some b) ∧
    ∃ s' r, settermprop 1 VTermProp.ALTSCREEN { boolean := 1, number := 0, color := default }
        alt_screen = some (s', r) ∧
      s'.buffer = BufIdx.ALTSCREEN ∧ s'.cells = some (List.replicate 6 blank_cell) ∧
      s'.buffers_primary = alt_screen.buffers_primary ∧
      s'.buffers_altscreen = alt_screen.buffers_altscreen :=
  ⟨fun _ => rfl, ⟨_, rfl⟩,
    (settermprop_altscreen 0 { boolean := 1, number := 0, color := default } alt_screen
      (fun _ => rfl) ⟨_, rfl⟩).2.1 _ (by decide) rfl⟩

/-! ## Claims about the deferred scroll -/

/-- C11: what `scrollrect` does on the 2 x 3 screen under the `SCROLL` policy
with the whole of row 1 stored as damage, for the rectangle `(0, 2, 0, 2)`
scrolled by `downward = 1`.  The rectangle touches the damage, does not contain
it (the damage reaches column 2) and does not span its columns, so the call
ends in the branch that only logs.  It returns 1 with the damage still stored
as `(1, 2, 0, 3)`, the scroll stored as pending, and no call made to the host:
neither of the two is flushed. -/
theorem scrollrect_todo_branch :
    (scrollrect 1 { start_row := 0, end_row := 2, start_col := 0, end_col := 2 } 1 0
      damaged_screen).map
      (fun r => (r.1.damaged, r.1.pending_scrollrect, r.1.pending_scroll_downward, r.1.trace, r.2))
    = some ({ start_row := 1, end_row := 2, start_col := 0, end_col := 3 },
        { start_row := 0, end_row := 2, start_col := 0, end_col := 2 }, 1, [], 1) := by
  rfl

/-! ## Attribute extents -/

theorem attrs_differ_cases (ce : VTermColor → VTermColor → Bool) (attrs : VTermAttrMask)
    (x y : ScreenCell) :
    attrs_differ ce attrs (some x) (some y) = some 0 ∨
      attrs_differ ce attrs (some x) (some y) = some 1 := by
  unfold attrs_differ
  split
  · simp only
    split
    · exact Or.inr rfl
    · exact Or.inl rfl
  · exact Or.inl rfl

theorem extent_scan_left_spec (differ : Int → Option Int) (lo : Int) :
    ∀ (fuel : Nat) (hi : Int), (hi - lo + 1).toNat < fuel →
      (∀ col, lo ≤ col → col ≤ hi → differ col = some 0 ∨ differ col = some 1) →
      ∃ c, extent_scan_left differ lo fuel hi = some c ∧ (lo - 1 ≤ hi → lo - 1 ≤ c) ∧ c ≤ hi ∧
        (∀ col, c < col → col ≤ hi → differ col = some 0) ∧
        (lo ≤ c → differ c = some 1)
  | 0, _, h, _ => by omega
  | fuel + 1, hi, h, hd => by
    unfold extent_scan_left
    by_cases hge : hi ≥ lo
    · rw [if_pos hge]
      rcases hd hi hge le_rfl with h0 | h1
      · obtain ⟨c, e, b1, b2, b3, b4⟩ := extent_scan_left_spec differ lo fuel (hi - 1) (by omega)
          (fun col a b => hd col a (by omega))
        refine ⟨c, ?_, fun _ => b1 (by omega), by omega, ?_, b4⟩
        · simp only [h0, Option.some_bind, ne_eq, not_true_eq_false, if_false]
          exact e
        · intro col hc hle
          by_cases heq : col = hi
          · subst heq; exact h0
          · exact b3 col hc (by omega)
      · refine ⟨hi, ?_, fun _ => by omega, le_rfl, fun col a b => by omega, fun _ => h1⟩
        simp [h1]
    · rw [if_neg hge]
      exact ⟨hi, rfl, fun h => h, le_rfl, fun col a b => by omega, fun h => by omega⟩

theorem extent_scan_right_spec (differ : Int → Option Int) (hi : Int) :
    ∀ (fuel : Nat) (lo : Int), (hi - lo + 1).toNat < fuel →
      (∀ col, lo ≤ col → col < hi → differ col = some 0 ∨ differ col = some 1) →
      ∃ c, extent_scan_right differ hi fuel lo = some c ∧ c ≤ max hi lo ∧ lo ≤ c ∧
        (∀ col, lo ≤ col → col < c → differ col = some 0) ∧
        (c < hi → differ c = some 1)
  | 0, _, h, _ => by omega
  | fuel + 1, lo, h, hd => by
    unfold extent_scan_right
    by_cases hlt : lo < hi
    · rw [if_pos hlt]
      rcases hd lo le_rfl hlt with h0 | h1
      · obtain ⟨c, e, b1, b2, b3, b4⟩ := extent_scan_right_spec differ hi fuel (lo + 1) (by omega)
          (fun col a b => hd col (by omega) b)
        refine ⟨c, ?_, ?_, by omega, ?_, b4⟩
        · simp only [h0, Option.some_bind, ne_eq, not_true_eq_false, if_false]
          exact e
        · have : max hi (lo + 1) = hi := max_eq_left (by omega)
          rw [this] at b1
          exact le_trans b1 (le_max_left _ _)
        · intro col hc hle
          by_cases heq : col = lo
          · subst heq; exact h0
          · exact b3 col (by omega) hle
      · refine ⟨lo, ?_, le_max_right _ _, le_rfl, fun col a b => by omega, fun _ => h1⟩
        simp [h1]
    · rw [if_neg hlt]
      exact ⟨lo, rfl, le_max_right _ _, le_rfl, fun col a b => by omega, fun h => by omega⟩

/-! ## Claims about attribute extents -/

/-- C18 (amended): on a well-formed screen, for a position on the grid, any
mask, any colour comparison, and an extent whose `start_col` and `end_col` are
negative (no limits), `vterm_screen_get_attrs_extent` returns 1 with the
rectangle `(pos.row, pos.row + 1, start_col, end_col)` in which `end_col` is
the last column of the run, not the column after it:
`0 ≤ start_col ≤ pos.col ≤ end_col < cols`, every cell of the columns
`start_col .. end_col` other than `pos` itself agrees with the cell at `pos`
on the selected attributes (`attrs_differ` returns 0), and the run is maximal:
the cell at `start_col - 1`, if any, and the cell at `end_col + 1`, if any,
differ from the cell at `pos`. -/
theorem get_attrs_extent_inclusive (ce : VTermColor → VTermColor → Bool) (s : VTermScreen)
    (extent : VTermRect) (pos : VTermPos) (attrs : VTermAttrMask) (hwf : WF s)
    (hpos : InGrid s pos.row pos.col) (hs : extent.start_col < 0) (he : extent.end_col < 0) :
    ∃ e, vterm_screen_get_attrs_extent ce s extent pos attrs = some (e, 1) ∧
      e.start_row = pos.row ∧ e.end_row = pos.row + 1 ∧
      0 ≤ e.start_col ∧ e.start_col ≤ pos.col ∧ pos.col ≤ e.end_col ∧ e.end_col < s.cols ∧
      (∀ col, e.start_col ≤ col → col ≤ e.end_col → col ≠ pos.col →
        attrs_differ ce attrs (cellAt s pos.row pos.col) (cellAt s pos.row col) = some 0) ∧
      (0 < e.start_col →
        attrs_differ ce attrs (cellAt s pos.row pos.col) (cellAt s pos.row (e.start_col - 1))
          = some 1) ∧
      (e.end_col + 1 < s.cols →
        attrs_differ ce attrs (cellAt s pos.row pos.col) (cellAt s pos.row (e.end_col + 1))
          = some 1) := by
  obtain ⟨h1, h2, h3, h4, b, hb, hlen, hall⟩ := hwf
  have hcell : ∀ col, 0 ≤ col → col < s.cols → ∃ y, cellAt s pos.row col = some y := by
    intro col c0 c1
    have hin : InGrid s pos.row col := ⟨hpos.1, hpos.2.1, c0, c1⟩
    obtain ⟨y, hy, -, -⟩ := readcell_getcell hb hlen hin
    exact ⟨y, hy⟩
  obtain ⟨x, hx⟩ := hcell pos.col hpos.2.2.1 hpos.2.2.2
  have hd : ∀ col, 0 ≤ col → col < s.cols →
      attrs_differ ce attrs (cellAt s pos.row pos.col) (cellAt s pos.row col) = some 0 ∨
      attrs_differ ce attrs (cellAt s pos.row pos.col) (cellAt s pos.row col) = some 1 := by
    intro col c0 c1
    obtain ⟨y, hy⟩ := hcell col c0 c1
    rw [hx, hy]
    exact attrs_differ_cases ce attrs x y
  have hp0 := hpos.2.2.1
  have hp1 := hpos.2.2.2
  obtain ⟨cl, el, l1, l2, l3, l4⟩ := extent_scan_left_spec
    (fun col => attrs_differ ce attrs (cellAt s pos.row pos.col) (cellAt s pos.row col)) 0
    ((pos.col - 0).toNat + 1) (pos.col - 1) (by omega)
    (fun col a b => hd col a (by omega))
  obtain ⟨cr, er, r1, r2, r3, r4⟩ := extent_scan_right_spec
    (fun col => attrs_differ ce attrs (cellAt s pos.row pos.col) (cellAt s pos.row col)) s.cols
    ((s.cols - pos.col).toNat + 1) (pos.col + 1) (by omega)
    (fun col a b => hd col (by omega) b)
  have l1' := l1 (by omega)
  have hmax : max s.cols (pos.col + 1) = s.cols := max_eq_left (by omega)
  rw [hmax] at r1
  refine ⟨{ start_row := pos.row, end_row := pos.row + 1, start_col := cl + 1
            end_col := cr - 1 }, ?_, rfl, rfl, ?_, ?_, ?_, ?_, ?_, ?_, ?_⟩
  · unfold vterm_screen_get_attrs_extent
    simp only [if_pos hs, if_pos he]
    unfold cellAt at el er
    rw [el]
    simp only [Option.some_bind]
    rw [er]
    rfl
  · show 0 ≤ cl + 1; omega
  · show cl + 1 ≤ pos.col; omega
  · show pos.col ≤ cr - 1; omega
  · show cr - 1 < s.cols; omega
  · intro col a b hne
    have a' : cl + 1 ≤ col := a
    have b' : col ≤ cr - 1 := b
    rcases lt_or_gt_of_ne hne with hlt | hgt
    · exact l3 col (by omega) (by omega)
    · exact r3 col (by omega) (by omega)
  · intro h
    have h' : 0 < cl + 1 := h
    have := l4 (by omega)
    show attrs_differ ce attrs _ (cellAt s pos.row (cl + 1 - 1)) = some 1
    rw [show cl + 1 - 1 = cl by ring]
    exact this
  · intro h
    have h' : cr - 1 + 1 < s.cols := h
    have := r4 (by omega)
    show attrs_differ ce attrs _ (cellAt s pos.row (cr - 1 + 1)) = some 1
    rw [show cr - 1 + 1 = cr by ring]
    exact this

theorem get_attrs_extent_inclusive_witness :
    WF (small_screen VTermDamageSize.CELL) ∧ InGrid (small_screen VTermDamageSize.CELL) 0 1 ∧
    no_limits.start_col < 0 ∧ no_limits.end_col < 0 ∧
    ∃ e, vterm_screen_get_attrs_extent (fun a b => decide (a = b))
        (small_screen VTermDamageSize.CELL) no_limits { row := 0, col := 1 } bold_mask
        = some (e, 1) ∧
      e.start_row = 0 ∧ e.end_row = 0 + 1 ∧
      0 ≤ e.start_col ∧ e.start_col ≤ 1 ∧ 1 ≤ e.end_col ∧
      e.end_col < (small_screen VTermDamageSize.CELL).cols :=
  ⟨small_screen_WF _, by decide, by decide, by decide, by
    obtain ⟨e, h1, h2, h3, h4, h5, h6, h7, -⟩ :=
      get_attrs_extent_inclusive (fun a b => decide (a = b)) (small_screen VTermDamageSize.CELL)
        no_limits { row := 0, col := 1 } bold_mask (small_screen_WF _) (by decide) (by decide)
        (by decide)
    exact ⟨e, h1, h2, h3, h4, h5, h6, h7⟩⟩

/-- C18, as stated, fails on the blank 2 x 3 screen, all of whose cells agree.
For `pos = (0, 0)` and no limits the call returns `(0, 1, 0, 2)`: read as a
half-open range the columns `[0, 2)` are not maximal, since column 2 is on the
grid and its cell agrees with the cell at `pos`.  For `pos = (0, 2)` it
returns the same rectangle, so that `pos.col < end_col` fails. -/
theorem get_attrs_extent_not_half_open :
    InGrid (small_screen VTermDamageSize.CELL) 0 0 ∧
    vterm_screen_get_attrs_extent (fun a b => decide (a = b)) (small_screen VTermDamageSize.CELL)
      no_limits { row := 0, col := 0 } bold_mask
      = some ({ start_row := 0, end_row := 1, start_col := 0, end_col := 2 }, 1) ∧
    (2 : Int) < (small_screen VTermDamageSize.CELL).cols ∧
    attrs_differ (fun a b => decide (a = b)) bold_mask
      (cellAt (small_screen VTermDamageSize.CELL) 0 0)
      (cellAt (small_screen VTermDamageSize.CELL) 0 2) = some 0 ∧
    vterm_screen_get_attrs_extent (fun a b => decide (a = b)) (small_screen VTermDamageSize.CELL)
      no_limits { row := 0, col := 2 } bold_mask
      = some ({ start_row := 0, end_row := 1, start_col := 0, end_col := 2 }, 1) := by
  refine ⟨by decide, ?_, by decide, ?_, ?_⟩
  · rfl
  · rfl
  · rfl

/-! ## The text of a rectangle -/

theorem fill_utf8_length (c : Nat) : (fill_utf8 c).length = utf8_seqlen c := by
  unfold fill_utf8 utf8_seqlen
  split_ifs <;> rfl

theorem utf8_seqlen_pos (c : Nat) : 0 < utf8_seqlen c := by
  unfold utf8_seqlen
  split_ifs <;> decide

theorem store_units_spec : ∀ (us : List Nat) (b : List Nat) (pos : Nat),
    pos + us.length ≤ b.length →
    ∃ b1, store_units b pos us = some b1 ∧ b1.length = b.length ∧
      b1.take (pos + us.length) = b.take pos ++ us
  | [], b, pos, _ => ⟨b, rfl, rfl, by simp⟩
  | u :: us, b, pos, h => by
    have hlen : (u :: us).length = us.length + 1 := rfl
    have hpos : pos < b.length := by omega
    obtain ⟨b1, e1, l1, t1⟩ := store_units_spec us (b.set pos u) (pos + 1)
      (by rw [List.length_set]; omega)
    refine ⟨b1, ?_, by rw [l1, List.length_set], ?_⟩
    · unfold store_units
      rw [if_pos hpos]
      exact e1
    · have e2 : pos + (u :: us).length = pos + 1 + us.length := by rw [hlen]; omega
      rw [e2, t1]
      have e3 : (b.set pos u).take (pos + 1) = b.take pos ++ [u] := by
        rw [List.take_succ, List.set_take, List.set_eq_of_length_le (by simp)]
        simp [hpos]
      rw [e3]
      simp

/-- The code units `PUT` presents for one codepoint. -/
theorem code_units_cons (utf8 : Bool) (c : Nat) (cs : List Nat) :
    code_units utf8 (c :: cs) = code_units utf8 [c] ++ code_units utf8 cs := by
  unfold code_units
  cases utf8 <;> simp

theorem code_units_nil (utf8 : Bool) : code_units utf8 [] = [] := by
  unfold code_units
  cases utf8 <;> simp

theorem code_units_single_pos (utf8 : Bool) (c : Nat) : 0 < (code_units utf8 [c]).length := by
  unfold code_units
  cases utf8
  · simp
  · simp [fill_utf8_length, utf8_seqlen_pos]

theorem code_units_append (utf8 : Bool) (a b : List Nat) :
    code_units utf8 (a ++ b) = code_units utf8 a ++ code_units utf8 b := by
  unfold code_units
  cases utf8 <;> simp

/-- One `PUT`: the position moves by the number of code units of the codepoint
whatever the buffer; the units are stored when they fit below `len`. -/
theorem PUT_spec (utf8 : Bool) (len c : Nat) (st : CharsOut) :
    (st.buffer = none →
      PUT utf8 len c st = some { st with outpos := st.outpos + (code_units utf8 [c]).length }) ∧
    (∀ b, st.buffer = some b → len ≤ b.length →
      ∃ b1, PUT utf8 len c st =
          some { st with buffer := some b1
                         outpos := st.outpos + (code_units utf8 [c]).length } ∧
        b1.length = b.length ∧
        (st.outpos + (code_units utf8 [c]).length ≤ len →
          b1.take (st.outpos + (code_units utf8 [c]).length) =
            b.take st.outpos ++ code_units utf8 [c])) := by
  have hu : (code_units true [c]).length = utf8_seqlen c := by
    simp [code_units, fill_utf8_length]
  have hu2 : code_units true [c] = fill_utf8 c := by simp [code_units]
  have hc : code_units false [c] = [c] := rfl
  constructor
  · intro hn
    unfold PUT
    cases utf8
    · simp [hn, hc]
    · simp [hn, hu]
  · intro b hb hlen
    unfold PUT
    cases utf8
    · simp only [Bool.false_eq_true, if_false, hb, hc, List.length_singleton]
      by_cases hfit : st.outpos + 1 ≤ len
      · obtain ⟨b1, e1, l1, t1⟩ := store_units_spec [c] b st.outpos
          (by simp only [List.length_singleton]; omega)
        refine ⟨b1, ?_, l1, fun _ => t1⟩
        rw [if_pos hfit, e1]
        rfl
      · refine ⟨b, ?_, rfl, fun h => absurd h hfit⟩
        rw [if_neg hfit]
    · simp only [if_true, hb, hu2, fill_utf8_length]
      by_cases hfit : st.outpos + utf8_seqlen c ≤ len
      · obtain ⟨b1, e1, l1, t1⟩ := store_units_spec (fill_utf8 c) b st.outpos
          (by rw [fill_utf8_length]; omega)
        rw [fill_utf8_length] at t1
        refine ⟨b1, ?_, l1, fun _ => t1⟩
        rw [if_pos hfit, e1]
        rfl
      · refine ⟨b, ?_, rfl, fun h => absurd h hfit⟩
        rw [if_neg hfit]

theorem PUT_padding (utf8 : Bool) (len c p : Nat) (st : CharsOut) :
    PUT utf8 len c { st with padding := p } =
      (PUT utf8 len c st).map (fun t => { t with padding := p }) := by
  unfold PUT
  cases utf8
  · simp only [Bool.false_eq_true, if_false]
    cases hb : st.buffer with
    | none => simp
    | some b =>
      simp only
      split_ifs
      · cases store_units b st.outpos [c] <;> simp
      · simp
  · simp only [if_true]
    cases hb : st.buffer with
    | none => simp
    | some b =>
      simp only
      split_ifs
      · cases store_units b st.outpos (fill_utf8 c) <;> simp
      · simp

theorem put_all_padding (utf8 : Bool) (len p : Nat) : ∀ (cs : List Nat) (st : CharsOut),
    put_all utf8 len cs { st with padding := p } =
      (put_all utf8 len cs st).map (fun t => { t with padding := p })
  | [], st => rfl
  | c :: cs, st => by
    unfold put_all
    rw [PUT_padding]
    cases h : PUT utf8 len c st with
    | none => rfl
    | some t =>
      simp only [Option.map_some', Option.some_bind]
      exact put_all_padding utf8 len p cs t

theorem put_all_append (utf8 : Bool) (len : Nat) : ∀ (a b : List Nat) (st : CharsOut),
    put_all utf8 len (a ++ b) st = (put_all utf8 len a st).bind (put_all utf8 len b)
  | [], b, st => rfl
  | c :: a, b, st => by
    simp only [List.cons_append, put_all]
    cases h : PUT utf8 len c st with
    | none => rfl
    | some t =>
      simp only [Option.some_bind]
      exact put_all_append utf8 len a b t

theorem PUT_keeps_padding {utf8 : Bool} {len c : Nat} {st t : CharsOut}
    (h : PUT utf8 len c st = some t) : t.padding = st.padding := by
  cases hb : st.buffer with
  | none =>
    rw [(PUT_spec utf8 len c st).1 hb] at h
    cases h; rfl
  | some b =>
    unfold PUT at h
    cases utf8
    · simp only [Bool.false_eq_true, if_false, hb] at h
      split_ifs at h
      · cases hs : store_units b st.outpos [c] with
        | none => simp [hs] at h
        | some b1 => simp [hs] at h; subst h; rfl
      · cases h; rfl
    · simp only [if_true, hb] at h
      split_ifs at h
      · cases hs : store_units b st.outpos (fill_utf8 c) with
        | none => simp [hs] at h
        | some b1 => simp [hs] at h; subst h; rfl
      · cases h; rfl

theorem put_all_keeps_padding {utf8 : Bool} {len : Nat} : ∀ {cs : List Nat} {st t : CharsOut},
    put_all utf8 len cs st = some t → t.padding = st.padding
  | [], st, t, h => by cases h; rfl
  | c :: cs, st, t, h => by
    simp only [put_all] at h
    cases h1 : PUT utf8 len c st with
    | none => simp [h1] at h
    | some u =>
      rw [h1] at h
      exact (put_all_keeps_padding h).trans (PUT_keeps_padding h1)

theorem put_padding_eq (utf8 : Bool) (len : Nat) : ∀ (n : Nat) (st : CharsOut),
    put_padding utf8 len n st =
      (put_all utf8 len (List.replicate n UNICODE_SPACE) st).map
        (fun t => { t with padding := st.padding - n })
  | 0, st => by simp [put_padding, put_all]
  | n + 1, st => by
    simp only [put_padding, List.replicate_succ, put_all]
    cases h1 : PUT utf8 len UNICODE_SPACE st with
    | none => rfl
    | some u =>
      simp only [Option.some_bind]
      rw [put_padding_eq utf8 len n, put_all_padding]
      have hp := PUT_keeps_padding h1
      cases h2 : put_all utf8 len (List.replicate n UNICODE_SPACE) u with
      | none => rfl
      | some v =>
        simp only [Option.map_some', hp]
        congr 2
        omega

theorem put_chars_eq (utf8 : Bool) (len : Nat) (chars : List Nat) :
    ∀ (fuel i : Nat) (st : CharsOut),
      put_chars utf8 len chars fuel i st =
        put_all utf8 len (((chars.drop i).take fuel).takeWhile (fun x => x ≠ 0)) st
  | 0, i, st => by simp [put_chars, put_all]
  | fuel + 1, i, st => by
    unfold put_chars
    rcases Nat.lt_or_ge i chars.length with hlt | hge
    · have hd : chars.drop i = chars[i] :: chars.drop (i + 1) := List.drop_eq_getElem_cons hlt
      have hg : chars.getD i 0 = chars[i] := by
        simp [List.getD, List.getElem?_eq_getElem hlt]
      rw [hg, hd, List.take_succ_cons]
      by_cases hz : chars[i] = 0
      · simp [hz, put_all]
      · rw [if_pos hz, List.takeWhile_cons_of_pos (by simpa using hz)]
        simp only [put_all]
        cases h1 : PUT utf8 len chars[i] st with
        | none => rfl
        | some u =>
          simp only [Option.some_bind]
          exact put_chars_eq utf8 len chars fuel (i + 1) u
    · have hd : chars.drop i = [] := List.drop_eq_nil_of_le hge
      have hg : chars.getD i 0 = 0 := by
        simp [List.getD, List.getElem?_eq_none hge]
      rw [hg, hd]
      simp [put_all]

theorem cell_codepoints_eq (c : ScreenCell) :
    ((c.chars.drop 0).take VTERM_MAX_CHARS_PER_CELL).takeWhile (fun x => x ≠ 0) =
      cell_codepoints c := by
  simp [cell_codepoints]

/-- The body of the inner loop of `_get_chars` puts what `cell_out` lists. -/
theorem get_chars_cell_eq (utf8 : Bool) (len : Nat) (cell : ScreenCell) (st : CharsOut) :
    get_chars_cell utf8 len cell st =
      (put_all utf8 len (cell_out st.padding cell).1 st).map
        (fun t => { t with padding := (cell_out st.padding cell).2 }) := by
  unfold get_chars_cell cell_out
  by_cases h0 : cell.char0 = 0
  · simp [h0, put_all]
  · rw [if_neg h0, if_neg h0]
    by_cases hw : cell.char0 = WIDE_CONT
    · rw [if_pos hw, if_pos hw]
      simp [put_all]
    · rw [if_neg hw, if_neg hw]
      simp only
      have e : put_chars utf8 len cell.chars VTERM_MAX_CHARS_PER_CELL 0 =
          put_all utf8 len (cell_codepoints cell) :=
        funext (fun u => by rw [put_chars_eq, cell_codepoints_eq])
      rw [put_all_append, put_padding_eq, e]
      cases h1 : put_all utf8 len (List.replicate st.padding UNICODE_SPACE) st with
      | none => rfl
      | some u =>
        simp only [Option.map_some', Option.some_bind, Nat.sub_self]
        rw [put_all_padding]

theorem grid_row_succ (s : VTermScreen) (row c0 : Int) (n : Nat) :
    grid_row s row c0 (n + 1) =
      (cellAt s row c0).toList ++ grid_row s row (c0 + 1) n := by
  unfold grid_row
  rw [List.range_succ_eq_map, List.filterMap_cons]
  have e : List.filterMap (fun j : Nat => cellAt s row (c0 + (j : Int)))
      (List.map Nat.succ (List.range n)) =
      List.filterMap (fun j : Nat => cellAt s row (c0 + 1 + (j : Int))) (List.range n) := by
    rw [List.filterMap_map]
    congr 1
    funext j
    simp only [Function.comp, Nat.succ_eq_add_one, Nat.cast_add, Nat.cast_one]
    congr 1
    ring
  rw [e]
  simp only [Nat.cast_zero, add_zero]
  cases cellAt s row c0 <;> simp

theorem row_out_append_pad (utf8 : Bool) (len : Nat) (cell : ScreenCell) (rest : List ScreenCell)
    (st : CharsOut) :
    (get_chars_cell utf8 len cell st).bind (fun t =>
      (put_all utf8 len (row_out t.padding rest).1 t).map
        (fun v => { v with padding := (row_out t.padding rest).2 })) =
    (put_all utf8 len (row_out st.padding (cell :: rest)).1 st).map
      (fun v => { v with padding := (row_out st.padding (cell :: rest)).2 }) := by
  rw [get_chars_cell_eq]
  simp only [row_out]
  rw [put_all_append]
  cases h1 : put_all utf8 len (cell_out st.padding cell).1 st with
  | none => rfl
  | some u =>
    simp only [Option.map_some', Option.some_bind]
    rw [put_all_padding]
    cases h2 : put_all utf8 len (row_out (cell_out st.padding cell).2 rest).1 u with
    | none => rfl
    | some v => rfl

/-- The inner loop of `_get_chars` over `n` columns of a row of the grid puts
what `row_out` lists for the cells of these columns. -/
theorem get_chars_row_eq (utf8 : Bool) (len : Nat) (s : VTermScreen) (row : Int) :
    ∀ (n : Nat) (c0 : Int) (st : CharsOut),
      (∀ j : Nat, j < n → ∃ x, cellAt s row (c0 + (j : Int)) = some x) →
      forLoop n c0 1 (fun col st2 =>
        (readcell s (getcell s row col)).bind fun cell => get_chars_cell utf8 len cell st2) st =
      (put_all utf8 len (row_out st.padding (grid_row s row c0 n)).1 st).map
        (fun v => { v with padding := (row_out st.padding (grid_row s row c0 n)).2 })
  | 0, c0, st, _ => by simp [forLoop, grid_row, row_out, put_all]
  | n + 1, c0, st, h => by
    obtain ⟨x, hx⟩ := h 0 (Nat.succ_pos n)
    simp only [Nat.cast_zero, add_zero] at hx
    have hx2 : readcell s (getcell s row c0) = some x := hx
    rw [grid_row_succ, hx]
    simp only [Option.toList, List.singleton_append]
    rw [← row_out_append_pad]
    simp only [forLoop, hx2, Option.some_bind]
    cases h1 : get_chars_cell utf8 len x st with
    | none => rfl
    | some t =>
      simp only [Option.some_bind]
      apply get_chars_row_eq utf8 len s row n (c0 + 1) t
      intro j hj
      obtain ⟨y, hy⟩ := h (j + 1) (Nat.succ_lt_succ hj)
      refine ⟨y, ?_⟩
      rw [← hy]
      congr 1
      push_cast
      ring

theorem cell_codepoints_ne_nil {c : ScreenCell} (h : c.char0 ≠ 0) : cell_codepoints c ≠ [] := by
  unfold cell_codepoints ScreenCell.char0 at *
  cases hc : c.chars with
  | nil => simp [hc] at h
  | cons x rest =>
    rw [hc] at h
    have hx : x ≠ 0 := by simpa using h
    simp [VTERM_MAX_CHARS_PER_CELL, List.takeWhile_cons, hx]

/-- What the code puts for a row is the text of the row in the spec's words,
after the pending spaces if the row holds a glyph. -/
theorem row_out_spec : ∀ (cells : List ScreenCell) (pad : Nat),
    (row_out pad cells).1 =
      (if cells.any ScreenCell.is_glyph then List.replicate pad UNICODE_SPACE else []) ++
        spec_row cells
  | [], pad => by simp [row_out, spec_row]
  | c :: rest, pad => by
    simp only [row_out, spec_row, cell_out, List.any_cons]
    by_cases h0 : c.char0 = 0
    · have hg : c.is_glyph = false := by simp [ScreenCell.is_glyph, h0]
      simp only [h0, if_true, hg, Bool.false_or, List.nil_append]
      rw [row_out_spec rest (pad + 1)]
      by_cases hr : rest.any ScreenCell.is_glyph = true
      · simp only [hr, if_true, List.replicate_succ']
        simp
      · simp only [hr]
        simp
    · by_cases hw : c.char0 = WIDE_CONT
      · have hg : c.is_glyph = false := by simp [ScreenCell.is_glyph, hw]
        simp only [if_neg h0, if_pos hw, hg, Bool.false_or, List.nil_append]
        exact row_out_spec rest pad
      · have hg : c.is_glyph = true := by simp [ScreenCell.is_glyph, h0, hw]
        simp only [if_neg h0, if_neg hw, hg, Bool.true_or, if_true]
        rw [row_out_spec rest 0]
        simp

theorem spec_text_cons (r : List ScreenCell) {rows : List (List ScreenCell)} (h : rows ≠ []) :
    spec_text (r :: rows) = spec_row r ++ [UNICODE_LINEFEED] ++ spec_text rows := by
  cases rows with
  | nil => exact absurd rfl h
  | cons r2 rest => rfl

theorem range_map_succ {α : Type} (f : Nat → α) (m : Nat) :
    (List.range (m + 1)).map f = f 0 :: (List.range m).map (fun i => f (i + 1)) := by
  rw [List.range_succ_eq_map, List.map_cons, List.map_map]
  rfl

theorem CharsOut.padding_eta (v : CharsOut) (p : Nat) (h : v.padding = p) :
    { v with padding := p } = v := by
  cases v
  simp_all

/-- The loops of `_get_chars` over the rows from `r0` to the end of the
rectangle put the text of these rows in the spec's words. -/
theorem get_chars_rows_eq (utf8 : Bool) (len : Nat) (s : VTermScreen) (rect : VTermRect)
    (w : Nat) (c0 : Int) :
    ∀ (m : Nat) (r0 : Int) (st : CharsOut), st.padding = 0 → rect.end_row = r0 + (m : Int) →
      (∀ i j : Nat, i < m → j < w → ∃ x, cellAt s (r0 + (i : Int)) (c0 + (j : Int)) = some x) →
      (forLoop m r0 1
        (fun row st =>
          (forLoop w c0 1
            (fun col st2 =>
              (readcell s (getcell s row col)).bind fun cell => get_chars_cell utf8 len cell st2)
            st).bind fun st3 =>
          if row < rect.end_row - 1 then
            (PUT utf8 len UNICODE_LINEFEED st3).map fun st4 => { st4 with padding := 0 }
          else some st3) st).map (fun st => (st.buffer, st.outpos)) =
      (put_all utf8 len
        (spec_text ((List.range m).map fun (i : Nat) => grid_row s (r0 + (i : Int)) c0 w))
        st).map (fun st => (st.buffer, st.outpos))
  | 0, r0, st, _, _, _ => by simp [forLoop, spec_text, put_all]
  | m + 1, r0, st, hp, hend, hcells => by
    have hrow : ∀ j : Nat, j < w → ∃ x, cellAt s r0 (c0 + (j : Int)) = some x := by
      intro j hj
      have := hcells 0 j (Nat.succ_pos m) hj
      simpa using this
    have hinner := get_chars_row_eq utf8 len s r0 w c0 st hrow
    rw [row_out_spec, hp] at hinner
    simp only [List.replicate_zero, ite_self, List.nil_append] at hinner
    rw [range_map_succ]
    simp only [Nat.cast_zero, add_zero]
    simp only [forLoop]
    rw [hinner]
    cases m with
    | zero =>
      have hlast : ¬ r0 < rect.end_row - 1 := by rw [hend]; push_cast; omega
      simp only [if_neg hlast, forLoop, List.range_zero, List.map_nil, spec_text]
      cases h1 : put_all utf8 len (spec_row (grid_row s r0 c0 w)) st with
      | none => rfl
      | some u => rfl
    | succ k =>
      have hmore : r0 < rect.end_row - 1 := by rw [hend]; push_cast; omega
      have hne : ((List.range (k + 1)).map
          fun (i : Nat) => grid_row s (r0 + ((i + 1 : Nat) : Int)) c0 w) ≠ [] := by
        simp
      rw [spec_text_cons _ hne, put_all_append, put_all_append]
      simp only [if_pos hmore]
      cases h1 : put_all utf8 len (spec_row (grid_row s r0 c0 w)) st with
      | none => rfl
      | some u =>
        have hu : u.padding = 0 := (put_all_keeps_padding h1).trans hp
        simp only [Option.map_some', Option.some_bind, put_all]
        rw [PUT_padding]
        cases h2 : PUT utf8 len UNICODE_LINEFEED u with
        | none => rfl
        | some v =>
          have hv : v.padding = 0 := (PUT_keeps_padding h2).trans hu
          simp only [Option.map_some', Option.some_bind]
          rw [CharsOut.padding_eta v 0 hv]
          have ih := get_chars_rows_eq utf8 len s rect w c0 (k + 1) (r0 + 1) v hv
            (by rw [hend]; push_cast; ring)
            (by
              intro i j hi hj
              obtain ⟨x, hx⟩ := hcells (i + 1) j (Nat.succ_lt_succ hi) hj
              refine ⟨x, ?_⟩
              rw [← hx]
              congr 1
              push_cast
              ring)
          rw [ih]
          congr 3
          apply List.map_congr_left
          intro i _
          congr 1
          push_cast
          ring

theorem put_all_none (utf8 : Bool) (len : Nat) : ∀ (cs : List Nat) (st : CharsOut),
    st.buffer = none →
    put_all utf8 len cs st =
      some { st with outpos := st.outpos + (code_units utf8 cs).length }
  | [], st, _ => by simp [put_all, code_units_nil]
  | c :: cs, st, h => by
    simp only [put_all]
    rw [(PUT_spec utf8 len c st).1 h]
    simp only [Option.some_bind]
    rw [put_all_none utf8 len cs
      { st with outpos := st.outpos + (code_units utf8 [c]).length } h,
      code_units_cons utf8 c cs, List.length_append]
    simp only [Nat.add_assoc]

theorem put_all_some (utf8 : Bool) (len : Nat) : ∀ (cs : List Nat) (st : CharsOut) (b : List Nat),
    st.buffer = some b → len ≤ b.length →
    ∃ b1, put_all utf8 len cs st =
        some { st with buffer := some b1
                       outpos := st.outpos + (code_units utf8 cs).length } ∧
      b1.length = b.length ∧
      (st.outpos + (code_units utf8 cs).length ≤ len →
        b1.take (st.outpos + (code_units utf8 cs).length) =
          b.take st.outpos ++ code_units utf8 cs)
  | [], st, b, h, _ => by
    refine ⟨b, ?_, rfl, fun _ => ?_⟩
    · simp only [put_all, code_units_nil, List.length_nil, add_zero]
      cases st
      simp_all
    · simp [code_units_nil]
  | c :: cs, st, b, h, hlen => by
    obtain ⟨b1, e1, l1, t1⟩ := (PUT_spec utf8 len c st).2 b h hlen
    obtain ⟨b2, e2, l2, t2⟩ := put_all_some utf8 len cs
      { st with buffer := some b1, outpos := st.outpos + (code_units utf8 [c]).length } b1 rfl
      (by rw [l1]; exact hlen)
    refine ⟨b2, ?_, l2.trans l1, fun hfit => ?_⟩
    · simp only [put_all]
      rw [e1]
      simp only [Option.some_bind]
      rw [e2, code_units_cons utf8 c cs, List.length_append]
      simp only [Nat.add_assoc]
    · rw [code_units_cons utf8 c cs, List.length_append] at hfit ⊢
      have t2' := t2 (by simp only; omega)
      simp only at t2'
      rw [← Nat.add_assoc, t2', t1 (by omega)]
      simp

theorem rect_cells_exist {s : VTermScreen} (hwf : WF s) {rect : VTermRect}
    (hr : RectInGrid s rect) (i j : Nat) (hi : i < (rect.end_row - rect.start_row).toNat)
    (hj : j < (rect.end_col - rect.start_col).toNat) :
    ∃ x, cellAt s (rect.start_row + (i : Int)) (rect.start_col + (j : Int)) = some x := by
  obtain ⟨h1, h2, h3, h4, b, hb, hlen, hall⟩ := hwf
  obtain ⟨r1, r2, r3, r4, r5, r6⟩ := hr
  have hin : InGrid s (rect.start_row + (i : Int)) (rect.start_col + (j : Int)) := by
    unfold InGrid; omega
  obtain ⟨y, hy, -, -⟩ := readcell_getcell hb hlen hin
  exact ⟨y, hy⟩

/-- On a well-formed screen and a rectangle inside the grid, `_get_chars`
returns the number of code units of the text of the rectangle whatever buffer
it is given, and a buffer with room for the text receives it. -/
theorem get_chars_spec {s : VTermScreen} (hwf : WF s) {rect : VTermRect}
    (hr : RectInGrid s rect) (utf8 : Bool) :
    (∀ len, _get_chars s utf8 none len rect =
      some (none, (code_units utf8 (spec_text (rect_rows s rect))).length)) ∧
    (∀ b len, len ≤ b.length →
      ∃ b1, _get_chars s utf8 (some b) len rect =
          some (some b1, (code_units utf8 (spec_text (rect_rows s rect))).length) ∧
        b1.length = b.length ∧
        ((code_units utf8 (spec_text (rect_rows s rect))).length ≤ len →
          b1.take (code_units utf8 (spec_text (rect_rows s rect))).length =
            code_units utf8 (spec_text (rect_rows s rect)))) := by
  have hend : rect.end_row = rect.start_row + ((rect.end_row - rect.start_row).toNat : Int) := by
    have := hr.2.1
    omega
  have key : ∀ (buffer : Option (List Nat)) (len : Nat),
      _get_chars s utf8 buffer len rect =
        (put_all utf8 len (spec_text (rect_rows s rect))
          { buffer := buffer, outpos := 0, padding := 0 }).map
          (fun st => (st.buffer, st.outpos)) := by
    intro buffer len
    unfold _get_chars rect_rows
    exact get_chars_rows_eq utf8 len s rect _ rect.start_col _ rect.start_row _ rfl hend
      (fun i j hi hj => rect_cells_exist hwf hr i j hi hj)
  constructor
  · intro len
    rw [key, put_all_none utf8 len _ _ rfl]
    simp
  · intro b len hlen
    obtain ⟨b1, e1, l1, t1⟩ := put_all_some utf8 len (spec_text (rect_rows s rect))
      { buffer := some b, outpos := 0, padding := 0 } b rfl hlen
    refine ⟨b1, ?_, l1, fun hfit => ?_⟩
    · rw [key, e1]
      simp
    · have := t1 (by simpa using hfit)
      simpa using this

/-! ## The end of a line -/

theorem grid_row_get (s : VTermScreen) (row : Int) : ∀ (n : Nat) (c0 : Int),
    (∀ j : Nat, j < n → ∃ x, cellAt s row (c0 + (j : Int)) = some x) →
    (grid_row s row c0 n).length = n ∧
      ∀ j : Nat, j < n → (grid_row s row c0 n)[j]? = cellAt s row (c0 + (j : Int))
  | 0, c0, _ => ⟨by simp [grid_row], fun j hj => absurd hj (Nat.not_lt_zero j)⟩
  | n + 1, c0, h => by
    obtain ⟨x, hx⟩ := h 0 (Nat.succ_pos n)
    simp only [Nat.cast_zero, add_zero] at hx
    have htail : ∀ j : Nat, j < n → ∃ y, cellAt s row (c0 + 1 + (j : Int)) = some y := by
      intro j hj
      obtain ⟨y, hy⟩ := h (j + 1) (Nat.succ_lt_succ hj)
      refine ⟨y, ?_⟩
      rw [← hy]; congr 1; push_cast; ring
    obtain ⟨l, g⟩ := grid_row_get s row n (c0 + 1) htail
    rw [grid_row_succ, hx]
    simp only [Option.toList, List.singleton_append, List.length_cons, l, true_and]
    intro j hj
    cases j with
    | zero => simp [hx]
    | succ k =>
      simp only [List.getElem?_cons_succ]
      rw [g k (by omega)]
      congr 1; push_cast; ring

theorem mem_grid_row {s : VTermScreen} {row c0 : Int} {n : Nat} {x : ScreenCell} :
    x ∈ grid_row s row c0 n ↔ ∃ j : Nat, j < n ∧ cellAt s row (c0 + (j : Int)) = some x := by
  unfold grid_row
  simp only [List.mem_filterMap, List.mem_range]

theorem is_eol_loop_spec (s : VTermScreen) (row : Int) :
    ∀ (n fuel : Nat) (c0 : Int), n < fuel → s.cols = c0 + (n : Int) →
      (∀ j : Nat, j < n → ∃ x, cellAt s row (c0 + (j : Int)) = some x) →
      is_eol_loop s row fuel c0 =
        some (if ∀ x ∈ grid_row s row c0 n, x.char0 = 0 then 1 else 0)
  | _, 0, _, h, _, _ => absurd h (Nat.not_lt_zero _)
  | 0, fuel + 1, c0, _, hc, _ => by
    have : ¬ c0 < s.cols := by rw [hc]; simp
    simp [is_eol_loop, this, grid_row]
  | n + 1, fuel + 1, c0, hf, hc, h => by
    obtain ⟨x, hx⟩ := h 0 (Nat.succ_pos n)
    simp only [Nat.cast_zero, add_zero] at hx
    have hx2 : readcell s (getcell s row c0) = some x := hx
    have hlt : c0 < s.cols := by rw [hc]; push_cast; omega
    have htail : ∀ j : Nat, j < n → ∃ y, cellAt s row (c0 + 1 + (j : Int)) = some y := by
      intro j hj
      obtain ⟨y, hy⟩ := h (j + 1) (Nat.succ_lt_succ hj)
      refine ⟨y, ?_⟩
      rw [← hy]; congr 1; push_cast; ring
    have ih := is_eol_loop_spec s row n fuel (c0 + 1) (by omega) (by rw [hc]; push_cast; ring)
      htail
    unfold is_eol_loop
    rw [if_pos hlt, hx2, grid_row_succ, hx]
    simp only [Option.some_bind, Option.toList, List.singleton_append, List.mem_cons,
      forall_eq_or_imp]
    by_cases h0 : x.char0 = 0
    · simp only [h0, ne_eq, not_true_eq_false, if_false, true_and]
      exact ih
    · simp [h0]

theorem spec_row_eq_nil : ∀ (cells : List ScreenCell),
    spec_row cells = [] ↔ ∀ x ∈ cells, x.char0 = 0 ∨ x.char0 = WIDE_CONT
  | [] => by simp [spec_row]
  | c :: rest => by
    have ih := spec_row_eq_nil rest
    simp only [spec_row, List.append_eq_nil, List.mem_cons, forall_eq_or_imp]
    constructor
    · rintro ⟨h1, h2⟩
      refine ⟨?_, ih.mp h2⟩
      by_cases h0 : c.char0 = 0
      · exact Or.inl h0
      · by_cases hw : c.char0 = WIDE_CONT
        · exact Or.inr hw
        · rw [if_neg h0, if_neg hw] at h1
          exact absurd h1 (cell_codepoints_ne_nil h0)
    · rintro ⟨h1, h2⟩
      refine ⟨?_, ih.mpr h2⟩
      have hany : rest.any ScreenCell.is_glyph = false := by
        rw [List.any_eq_false]
        intro x hx
        rcases h2 x hx with h | h <;> simp [ScreenCell.is_glyph, h]
      rcases h1 with h | h
      · simp [h, hany]
      · by_cases h0 : c.char0 = 0
        · simp [h0, hany]
        · rw [if_neg h0, if_pos h]

theorem code_units_length_eq_zero (utf8 : Bool) (l : List Nat) :
    (code_units utf8 l).length = 0 ↔ l = [] := by
  cases l with
  | nil => simp [code_units_nil]
  | cons c cs =>
    rw [code_units_cons, List.length_append]
    have := code_units_single_pos utf8 c
    simp only [reduceCtorEq, iff_false]
    omega

theorem wide_screen_WF : WF wide_screen :=
  ⟨by decide, by decide, rfl, rfl, _, rfl, rfl, by decide⟩

theorem WIDE_CONT_ne_zero : WIDE_CONT ≠ 0 := by decide

/-- The rows of a rectangle inside the grid hold the cells the grid shows. -/
theorem rect_rows_get {s : VTermScreen} (hwf : WF s) {rect : VTermRect}
    (hr : RectInGrid s rect) :
    (rect_rows s rect).length = (rect.end_row - rect.start_row).toNat ∧
    ∀ i j : Nat, i < (rect.end_row - rect.start_row).toNat →
      j < (rect.end_col - rect.start_col).toNat →
      ((rect_rows s rect)[i]?).bind (fun r => r[j]?) =
        cellAt s (rect.start_row + (i : Int)) (rect.start_col + (j : Int)) := by
  unfold rect_rows
  refine ⟨by simp, fun i j hi hj => ?_⟩
  rw [List.getElem?_map, List.getElem?_range hi]
  simp only [Option.map_some', Option.some_bind]
  exact (grid_row_get s _ _ _ (fun j hj => rect_cells_exist hwf hr i j hi hj)).2 j hj

/-! ## Claims about the queries -/

/-- C15: for a rectangle inside the grid of a well-formed screen, the value
`vterm_screen_get_chars` (codepoints) and `vterm_screen_get_text` (UTF-8 bytes)
return is the same for a `NULL` buffer and for every buffer with every length
`len` the buffer has room for, `len = 0` included: it is the length of one
list `out` of code units, the full output, which is what a buffer with
`out.length ≤ len` holds in its first `out.length` entries after the call. -/
theorem get_chars_length_independent (s : VTermScreen) (rect : VTermRect) (hwf : WF s)
    (hr : RectInGrid s rect) :
    (∃ out : List Nat,
      (∀ len, vterm_screen_get_chars s none len rect = some (none, out.length)) ∧
      (∀ b len, len ≤ b.length →
        ∃ b1, vterm_screen_get_chars s (some b) len rect = some (some b1, out.length) ∧
          (out.length ≤ len → b1.take out.length = out))) ∧
    (∃ out : List Nat,
      (∀ len, vterm_screen_get_text s none len rect = some (none, out.length)) ∧
      (∀ b len, len ≤ b.length →
        ∃ b1, vterm_screen_get_text s (some b) len rect = some (some b1, out.length) ∧
          (out.length ≤ len → b1.take out.length = out))) := by
  constructor
  · obtain ⟨h1, h2⟩ := get_chars_spec hwf hr false
    refine ⟨_, h1, fun b len hlen => ?_⟩
    obtain ⟨b1, e, -, t⟩ := h2 b len hlen
    exact ⟨b1, e, t⟩
  · obtain ⟨h1, h2⟩ := get_chars_spec hwf hr true
    refine ⟨_, h1, fun b len hlen => ?_⟩
    obtain ⟨b1, e, -, t⟩ := h2 b len hlen
    exact ⟨b1, e, t⟩

theorem get_chars_length_independent_witness :
    WF wide_screen ∧
    RectInGrid wide_screen { start_row := 0, end_row := 2, start_col := 0, end_col := 3 } ∧
    (∃ out : List Nat,
      (∀ len, vterm_screen_get_chars wide_screen none len
        { start_row := 0, end_row := 2, start_col := 0, end_col := 3 } = some (none, out.length)) ∧
      (∀ b len, len ≤ b.length →
        ∃ b1, vterm_screen_get_chars wide_screen (some b) len
            { start_row := 0, end_row := 2, start_col := 0, end_col := 3 }
            = some (some b1, out.length) ∧
          (out.length ≤ len → b1.take out.length = out))) ∧
    (∃ out : List Nat,
      (∀ len, vterm_screen_get_text wide_screen none len
        { start_row := 0, end_row := 2, start_col := 0, end_col := 3 } = some (none, out.length)) ∧
      (∀ b len, len ≤ b.length →
        ∃ b1, vterm_screen_get_text wide_screen (some b) len
            { start_row := 0, end_row := 2, start_col := 0, end_col := 3 }
            = some (some b1, out.length) ∧
          (out.length ≤ len → b1.take out.length = out))) :=
  ⟨wide_screen_WF, by decide,
    get_chars_length_independent wide_screen
      { start_row := 0, end_row := 2, start_col := 0, end_col := 3 } wide_screen_WF (by decide)⟩

/-- C16: for a rectangle inside the grid of a well-formed screen, let `rows` be
the rows of cells the grid shows in the rectangle.  Called with a buffer that
has room for it, `vterm_screen_get_chars` leaves in the buffer, and counts,
the text `spec_text rows`: row by row the codepoints of the cells that are
neither erased nor `WIDE_CONT`, in column order, with one space for an erased
cell exactly when a later cell of the row is neither erased nor `WIDE_CONT`,
one linefeed between consecutive rows and none after the last. -/
theorem get_chars_text (s : VTermScreen) (rect : VTermRect) (b : List Nat) (len : Nat)
    (hwf : WF s) (hr : RectInGrid s rect) (hlen : len ≤ b.length)
    (hfit : (spec_text (rect_rows s rect)).length ≤ len) :
    (rect_rows s rect).length = (rect.end_row - rect.start_row).toNat ∧
    (∀ i j : Nat, i < (rect.end_row - rect.start_row).toNat →
      j < (rect.end_col - rect.start_col).toNat →
      ((rect_rows s rect)[i]?).bind (fun r => r[j]?) =
        cellAt s (rect.start_row + (i : Int)) (rect.start_col + (j : Int))) ∧
    ∃ b1, vterm_screen_get_chars s (some b) len rect =
        some (some b1, (spec_text (rect_rows s rect)).length) ∧
      b1.take (spec_text (rect_rows s rect)).length = spec_text (rect_rows s rect) := by
  obtain ⟨g1, g2⟩ := rect_rows_get hwf hr
  refine ⟨g1, g2, ?_⟩
  obtain ⟨b1, e, -, t⟩ := (get_chars_spec hwf hr false).2 b len hlen
  exact ⟨b1, e, t hfit⟩

theorem get_chars_text_witness :
    WF wide_screen ∧
    RectInGrid wide_screen { start_row := 0, end_row := 2, start_col := 0, end_col := 3 } ∧
    (4 : Nat) ≤ [0, 0, 0, 0].length ∧
    (spec_text (rect_rows wide_screen
      { start_row := 0, end_row := 2, start_col := 0, end_col := 3 })).length ≤ 4 ∧
    spec_text (rect_rows wide_screen
      { start_row := 0, end_row := 2, start_col := 0, end_col := 3 }) = [0x4e2d, 0x0a] ∧
    ∃ b1, vterm_screen_get_chars wide_screen (some [0, 0, 0, 0]) 4
        { start_row := 0, end_row := 2, start_col := 0, end_col := 3 } =
        some (some b1, (spec_text (rect_rows wide_screen
          { start_row := 0, end_row := 2, start_col := 0, end_col := 3 })).length) ∧
      b1.take (spec_text (rect_rows wide_screen
          { start_row := 0, end_row := 2, start_col := 0, end_col := 3 })).length =
        spec_text (rect_rows wide_screen
          { start_row := 0, end_row := 2, start_col := 0, end_col := 3 }) :=
  ⟨wide_screen_WF, by decide, by decide, by decide, by decide,
    (get_chars_text wide_screen { start_row := 0, end_row := 2, start_col := 0, end_col := 3 }
      [0, 0, 0, 0] 4 wide_screen_WF (by decide) (by decide) (by decide)).2.2⟩

/-- C17, as stated, fails at the trailing half of a wide glyph.  Writing a
width-2 glyph at `(0, 0)` of the fresh screen gives the grid of `wide_screen`.
At `pos = (0, 1)`, which is on the grid, `vterm_screen_is_eol` returns 0,
because `chars[0]` of the cell is `WIDE_CONT` and not zero, while
`vterm_screen_get_chars` on `(0, 1, 1, 3)` returns 0 code units. -/
theorem is_eol_differs_on_wide_cont :
    (putglyph 1 (glyph 0x4e2d 2) { row := 0, col := 0 } fresh_screen).map
      (fun r => r.1.buffers_primary) = some wide_screen.buffers_primary ∧
    InGrid wide_screen 0 1 ∧
    vterm_screen_is_eol wide_screen { row := 0, col := 1 } = some 0 ∧
    vterm_screen_get_chars wide_screen none 0
      { start_row := 0, end_row := 0 + 1, start_col := 1, end_col := wide_screen.cols }
      = some (none, 0) := by
  refine ⟨by rfl, by decide, by rfl, by rfl⟩

/-- C17 (amended): on a well-formed screen and for a position on the grid,
`vterm_screen_is_eol` returns, `_get_chars` on the rectangle
`(pos.row, pos.row + 1, pos.col, cols)` returns a number `n` of code units in
either form, and `vterm_screen_is_eol` is true exactly when `n = 0` and no
cell from `pos` rightward on the row holds `WIDE_CONT` in `chars[0]`. -/
theorem is_eol_iff_no_chars (s : VTermScreen) (pos : VTermPos) (utf8 : Bool) (hwf : WF s)
    (hpos : InGrid s pos.row pos.col) :
    ∃ r n, vterm_screen_is_eol s pos = some r ∧
      _get_chars s utf8 none 0
        { start_row := pos.row, end_row := pos.row + 1, start_col := pos.col, end_col := s.cols }
        = some (none, n) ∧
      (r ≠ 0 ↔ (n = 0 ∧ ∀ col x, pos.col ≤ col → cellAt s pos.row col = some x →
        x.char0 ≠ WIDE_CONT)) := by
  have hr : RectInGrid s
      { start_row := pos.row, end_row := pos.row + 1, start_col := pos.col, end_col := s.cols } := by
    unfold InGrid at hpos
    unfold RectInGrid
    simp only
    omega
  have hcells : ∀ j : Nat, j < (s.cols - pos.col).toNat →
      ∃ x, cellAt s pos.row (pos.col + (j : Int)) = some x := by
    intro j hj
    have := rect_cells_exist hwf hr 0 j (by simp) (by simpa using hj)
    simpa using this
  have heol := is_eol_loop_spec s pos.row (s.cols - pos.col).toNat
    ((s.cols - pos.col).toNat + 1) pos.col (Nat.lt_succ_self _)
    (by have := hpos.2.2.2; omega) hcells
  have hrows : rect_rows s
      { start_row := pos.row, end_row := pos.row + 1, start_col := pos.col, end_col := s.cols } =
      [grid_row s pos.row pos.col (s.cols - pos.col).toNat] := by
    unfold rect_rows
    simp [List.range_succ]
  have hget := (get_chars_spec hwf hr utf8).1 0
  rw [hrows] at hget
  simp only [spec_text] at hget
  refine ⟨_, _, heol, hget, ?_⟩
  rw [code_units_length_eq_zero, spec_row_eq_nil]
  constructor
  · intro h
    have hall : ∀ x ∈ grid_row s pos.row pos.col (s.cols - pos.col).toNat, x.char0 = 0 := by
      by_contra hc
      rw [if_neg hc] at h
      exact h rfl
    refine ⟨fun x hx => Or.inl (hall x hx), fun col x hcol hx hw => ?_⟩
    have hin := cellAt_some_InGrid hx
    have hmem : x ∈ grid_row s pos.row pos.col (s.cols - pos.col).toNat := by
      rw [mem_grid_row]
      refine ⟨(col - pos.col).toNat, ?_, ?_⟩
      · have := hin.2.2.2; omega
      · rw [← hx]; congr 1; omega
    rw [hall x hmem] at hw
    exact WIDE_CONT_ne_zero hw.symm
  · rintro ⟨h1, h2⟩
    have hall : ∀ x ∈ grid_row s pos.row pos.col (s.cols - pos.col).toNat, x.char0 = 0 := by
      intro x hx
      rcases h1 x hx with h | h
      · exact h
      · obtain ⟨j, hj, hc⟩ := mem_grid_row.mp hx
        exact absurd h (h2 _ x (by omega) hc)
    rw [if_pos hall]
    decide

theorem is_eol_iff_no_chars_witness :
    WF wide_screen ∧ InGrid wide_screen 0 2 ∧
    ∃ r n, vterm_screen_is_eol wide_screen { row := 0, col := 2 } = some r ∧
      _get_chars wide_screen false none 0
        { start_row := 0, end_row := 0 + 1, start_col := 2, end_col := wide_screen.cols }
        = some (none, n) ∧
      (r ≠ 0 ↔ (n = 0 ∧ ∀ col x, (2 : Int) ≤ col → cellAt wide_screen 0 col = some x →
        x.char0 ≠ WIDE_CONT)) :=
  ⟨wide_screen_WF, by decide,
    is_eol_iff_no_chars wide_screen { row := 0, col := 2 } false wide_screen_WF (by decide)⟩

/-! ## Pushing rows to the scrollback -/

theorem get_cell_sb (s : VTermScreen) (sb : List VTermScreenCell) (tr : List HostEvent)
    (pos : VTermPos) (cell : VTermScreenCell) :
    vterm_screen_get_cell { s with sb_buffer := sb, trace := tr } pos cell =
      vterm_screen_get_cell s pos cell := rfl

/-- On the grid `vterm_screen_get_cell` returns 1 with the fields of the cell
copied and the width set from the right neighbour. -/
theorem get_cell_eq {s : VTermScreen} (hwf : WF s) {pos : VTermPos}
    (hpos : InGrid s pos.row pos.col) (cell : VTermScreenCell) :
    ∃ x w, cellAt s pos.row pos.col = some x ∧ (w = 1 ∨ w = 2) ∧
      (w = 2 ↔ ∃ y, cellAt s pos.row (pos.col + 1) = some y ∧ y.char0 = WIDE_CONT) ∧
      vterm_screen_get_cell s pos cell =
        some ({ get_cell_fields s x cell with width := w }, 1) := by
  obtain ⟨h1, h2, h3, h4, b, hb, hlen, hall⟩ := hwf
  obtain ⟨x, hx, -, -⟩ := readcell_getcell hb hlen hpos
  have hx' : cellAt s pos.row pos.col = some x := hx
  rw [getcell_some hpos] at hx
  by_cases hc : pos.col < s.cols - 1
  · have hin : InGrid s pos.row (pos.col + 1) := by unfold InGrid at *; omega
    obtain ⟨y, hy, -, -⟩ := readcell_getcell hb hlen hin
    have hy' : cellAt s pos.row (pos.col + 1) = some y := hy
    by_cases hw : y.char0 = WIDE_CONT
    · refine ⟨x, 2, hx', Or.inr rfl, ⟨fun _ => ⟨y, hy', hw⟩, fun _ => rfl⟩, ?_⟩
      unfold vterm_screen_get_cell
      rw [getcell_some hpos]
      simp only [hx, Option.some_bind, if_pos hc, hy, if_pos hw]
    · refine ⟨x, 1, hx', Or.inl rfl, ⟨fun h => by omega, ?_⟩, ?_⟩
      · rintro ⟨y', hy2, hw2⟩
        rw [hy'] at hy2
        cases hy2
        exact absurd hw2 hw
      · unfold vterm_screen_get_cell
        rw [getcell_some hpos]
        simp only [hx, Option.some_bind, if_pos hc, hy, if_neg hw]
  · refine ⟨x, 1, hx', Or.inl rfl, ⟨fun h => by omega, ?_⟩, ?_⟩
    · rintro ⟨y, hy, -⟩
      have := (cellAt_some_InGrid hy).2.2.2
      omega
    · unfold vterm_screen_get_cell
      rw [getcell_some hpos]
      simp only [hx, Option.some_bind, if_neg hc]

theorem WF_sb {s : VTermScreen} (hwf : WF s) (sb : List VTermScreenCell) (tr : List HostEvent) :
    WF { s with sb_buffer := sb, trace := tr } := by
  obtain ⟨h1, h2, h3, h4, b, hb, hlen, hall⟩ := hwf
  refine ⟨h1, h2, h3, h4, b, ?_, hlen, hall⟩
  unfold VTermScreen.cells at hb ⊢
  exact hb

/-- The conversion loop of a push fills the first `cols` slots of `sb_buffer`
with the external cells of the row and changes nothing else. -/
theorem sb_fill_row_spec {s : VTermScreen} (hwf : WF s) {row : Int} (hr0 : 0 ≤ row)
    (hr1 : row < s.rows) (hsb : s.cols.toNat ≤ s.sb_buffer.length) :
    ∃ sb, sb_fill_row s row s.cols = some { s with sb_buffer := sb } ∧
      sb.length = s.sb_buffer.length ∧
      ∀ col : Nat, col < s.cols.toNat →
        ∃ slot out, sb[col]? = some out ∧ s.sb_buffer[col]? = some slot ∧
          vterm_screen_get_cell s { row := row, col := (col : Int) } slot = some (out, 1) := by
  have hloop := forLoop_spec
    (fun k st => ∃ sb, st = { s with sb_buffer := sb } ∧ sb.length = s.sb_buffer.length ∧
      (∀ col : Nat, k ≤ col → sb[col]? = s.sb_buffer[col]?) ∧
      ∀ col : Nat, col < k →
        ∃ slot out, sb[col]? = some out ∧ s.sb_buffer[col]? = some slot ∧
          vterm_screen_get_cell s { row := row, col := (col : Int) } slot = some (out, 1))
    s.cols.toNat 0 1
    (fun col st =>
      match st.sb_buffer[col.toNat]? with
      | some slot =>
        (vterm_screen_get_cell st { row := row, col := col } slot).map fun r =>
          { st with sb_buffer := st.sb_buffer.set col.toNat r.1 }
      | none => if (getcell st row col).isNone then some st else none) s
    ⟨s.sb_buffer, rfl, rfl, fun _ _ => rfl, fun col h => absurd h (Nat.not_lt_zero col)⟩
    (by
      intro k hk st hinv
      obtain ⟨sb, rfl, hl, hrest, hdone⟩ := hinv
      have hklt : k < sb.length := by omega
      have hpos : InGrid s row (k : Int) := by
        refine ⟨hr0, hr1, by omega, ?_⟩
        have := hwf.2.1
        omega
      have hslot : sb[k]? = s.sb_buffer[k]? := hrest k le_rfl
      have hk2 : k < s.sb_buffer.length := by omega
      obtain ⟨x, w, hx, hw, hw2, hget⟩ :=
        @get_cell_eq s hwf { row := row, col := (k : Int) } hpos s.sb_buffer[k]
      simp only [zero_add, one_mul, Int.toNat_ofNat]
      have e1 : sb[k]? = some s.sb_buffer[k] := by
        rw [hslot, List.getElem?_eq_getElem hk2]
      simp only [e1]
      have hget2 : vterm_screen_get_cell { s with sb_buffer := sb }
          { row := row, col := (k : Int) } s.sb_buffer[k] =
          some ({ get_cell_fields s x s.sb_buffer[k] with width := w }, 1) := hget
      rw [hget2]
      refine ⟨_, rfl, sb.set k { get_cell_fields s x s.sb_buffer[k] with width := w }, rfl,
        by rw [List.length_set]; exact hl, ?_, ?_⟩
      · intro col hcol
        rw [List.getElem?_set_ne (by omega)]
        exact hrest col (by omega)
      · intro col hcol
        by_cases hck : col = k
        · subst hck
          refine ⟨s.sb_buffer[col], _, ?_, List.getElem?_eq_getElem hk2, hget⟩
          rw [List.getElem?_set_eq_of_lt _ hklt]
        · obtain ⟨slot, out, a1, a2, a3⟩ := hdone col (by omega)
          refine ⟨slot, out, ?_, a2, a3⟩
          rw [List.getElem?_set_ne (by omega)]
          exact a1)
  obtain ⟨s1, hs1, sb, rfl, hl, -, hdone⟩ := hloop
  exact ⟨sb, hs1, hl, hdone⟩

theorem push_events_snoc (s : VTermScreen) (lines : List (List VTermScreenCell))
    (l : List VTermScreenCell) :
    push_events s (lines ++ [l]) =
      push_events s lines ++ [push_event s l (row_continuation s lines.length)] := by
  unfold push_events
  rw [List.length_append, List.length_singleton, List.range_succ, List.map_append]
  congr 1
  · apply List.map_congr_left
    intro r hr
    rw [List.mem_range] at hr
    rw [List.getD_append _ _ _ _ hr]
  · simp [List.getD_append_right]

/-- One push of a row of the grid: the staging buffer and the trace change,
the trace by the one call of the callback the host registered; the cells
handed over are the columns of the row, each converted into its slot. -/
theorem sb_pushline_from_row_cells {s : VTermScreen} (hwf : WF s) {row : Nat}
    (hr1 : (row : Int) < s.rows) (hsb : s.cols.toNat ≤ s.sb_buffer.length)
    (hreg : has_pushline s = true) (continuation : Bool) :
    ∃ sb cells, sb_pushline_from_row s (row : Int) continuation =
        some { s with sb_buffer := sb
                      trace := s.trace ++ [push_event s cells continuation] } ∧
      sb.length = s.sb_buffer.length ∧ cells.length = s.cols.toNat ∧
      ∀ col : Nat, col < s.cols.toNat →
        ∃ slot out, cells[col]? = some out ∧ s.sb_buffer[col]? = some slot ∧
          vterm_screen_get_cell s { row := (row : Int), col := (col : Int) } slot =
            some (out, 1) := by
  obtain ⟨sb, hfill, hl, hcells⟩ := sb_fill_row_spec hwf (Int.natCast_nonneg row) hr1 hsb
  refine ⟨sb, sb.take s.cols.toNat, ?_, hl, ?_, ?_⟩
  · unfold sb_pushline_from_row
    rw [hfill]
    simp only [Option.some_bind]
    unfold sb_push_call push_event
    unfold has_pushline at hreg
    cases hcb : s.callbacks with
    | none => rw [hcb] at hreg; cases hreg
    | some cb =>
      rw [hcb] at hreg
      simp only [Option.map_some', Option.some.injEq]
      by_cases h4 : s.callbacks_has_pushline4 = true ∧ cb.sb_pushline4 = true
      · rw [if_pos h4, if_pos h4]
      · rw [if_neg h4, if_neg h4]
        have hleg : cb.sb_pushline = true := by
          rcases Bool.or_eq_true _ _ |>.mp hreg with h | h
          · exact h
          · exact absurd (by simpa using h) h4
        rw [if_pos hleg]
  · rw [List.length_take]
    omega
  · intro col hcol
    obtain ⟨slot, out, a1, a2, a3⟩ := hcells col hcol
    refine ⟨slot, out, ?_, a2, a3⟩
    rw [List.getElem?_take_of_lt hcol]
    exact a1

theorem sb_pushline_from_row_spec {s : VTermScreen} (hwf : WF s) {row : Nat}
    (hr1 : (row : Int) < s.rows) (hsb : s.cols.toNat ≤ s.sb_buffer.length)
    (hreg : has_pushline s = true) (continuation : Bool) :
    ∃ sb cells, sb_pushline_from_row s (row : Int) continuation =
        some { s with sb_buffer := sb
                      trace := s.trace ++ [push_event s cells continuation] } ∧
      sb.length = s.sb_buffer.length ∧ row_converted s row cells := by
  obtain ⟨sb, cells, e, l, cl, hc⟩ := sb_pushline_from_row_cells hwf hr1 hsb hreg continuation
  refine ⟨sb, cells, e, l, cl, fun col hcol => ?_⟩
  obtain ⟨slot, out, a1, -, a3⟩ := hc col hcol
  exact ⟨slot, out, a1, a3⟩

theorem row_converted_sb {s : VTermScreen} (sb : List VTermScreenCell) (tr : List HostEvent)
    {row : Nat} {cells : List VTermScreenCell}
    (h : row_converted { s with sb_buffer := sb, trace := tr } row cells) :
    row_converted s row cells := h

/-- The pushes of `premove`: each row from the top of the grid down to
`rect.end_row - 1` is converted and handed to the host, in this order; the
staging buffer and the trace change and nothing else does. -/
theorem premove_spec {s : VTermScreen} (hwf : WF s) {rect : VTermRect}
    (hrows : rect.end_row ≤ s.rows) (hsb : s.cols.toNat ≤ s.sb_buffer.length)
    (hcond : has_pushline s = true ∧ rect.start_row = 0 ∧ rect.start_col = 0 ∧
      rect.end_col = s.cols ∧ s.buffer = BufIdx.PRIMARY) :
    ∃ sb lines, premove rect s =
        some ({ s with sb_buffer := sb, trace := s.trace ++ push_events s lines }, 1) ∧
      lines.length = rect.end_row.toNat ∧
      ∀ row : Nat, row < rect.end_row.toNat → row_converted s row (lines.getD row []) := by
  have hloop := forLoop_spec
    (fun k st => ∃ sb lines, st = { s with sb_buffer := sb
                                           trace := s.trace ++ push_events s lines } ∧
      sb.length = s.sb_buffer.length ∧ lines.length = k ∧
      ∀ row : Nat, row < k → row_converted s row (lines.getD row []))
    rect.end_row.toNat 0 1
    (fun row st =>
      (vterm_state_get_lineinfo st row).bind fun lineinfo =>
        sb_pushline_from_row st row (decide (lineinfo.continuation ≠ 0))) s
    ⟨s.sb_buffer, [], by simp [push_events], rfl, rfl,
      fun row h => absurd h (Nat.not_lt_zero row)⟩
    (by
      intro k hk st hinv
      obtain ⟨sb, lines, rfl, hl, hlen, hdone⟩ := hinv
      have h1 := hwf.1
      have h3 := hwf.2.2.1
      have h4 := hwf.2.2.2.1
      have hkrows : (k : Int) < s.rows := by omega
      have hklt : k < s.lineinfo.length := by omega
      simp only [zero_add, one_mul]
      have hinfo : vterm_state_get_lineinfo
          { s with sb_buffer := sb, trace := s.trace ++ push_events s lines } (k : Int) =
          some s.lineinfo[k] := by
        unfold vterm_state_get_lineinfo
        rw [if_neg (by omega)]
        simp only [Int.toNat_ofNat]
        exact List.getElem?_eq_getElem hklt
      rw [hinfo]
      simp only [Option.some_bind]
      obtain ⟨sb2, cells, e, l2, hconv⟩ := @sb_pushline_from_row_spec _
        (WF_sb hwf sb (s.trace ++ push_events s lines)) k hkrows
        (by show s.cols.toNat ≤ sb.length; omega) hcond.1
        (decide (s.lineinfo[k].continuation ≠ 0))
      rw [e]
      have hflag : row_continuation s k = decide (s.lineinfo[k].continuation ≠ 0) := by
        unfold row_continuation
        rw [List.getElem?_eq_getElem hklt]
      refine ⟨_, rfl, sb2, lines ++ [cells], ?_, l2.trans hl, by simp [hlen], ?_⟩
      · rw [push_events_snoc, hlen, hflag, List.append_assoc]
        rfl
      · intro row hrow
        by_cases hrk : row = k
        · subst hrk
          rw [List.getD_append_right _ _ _ _ (by omega)]
          simp only [hlen, Nat.sub_self, List.getD_cons_zero]
          exact row_converted_sb sb _ hconv
        · rw [List.getD_append _ _ _ _ (by omega)]
          exact hdone row (by omega))
  obtain ⟨s1, hs1, sb, lines, rfl, -, hlen, hdone⟩ := hloop
  refine ⟨sb, lines, ?_, hlen, hdone⟩
  unfold premove
  rw [if_pos hcond, hs1]
  rfl

theorem get_cell_copy_keeps (src : List Nat) : ∀ (fuel i : Nat) (dst : List Nat) (j : Nat),
    j < i → (get_cell_copy src fuel i dst)[j]? = dst[j]?
  | 0, _, _, _, _ => rfl
  | fuel + 1, i, dst, j, h => by
    unfold get_cell_copy
    split
    · rw [List.getElem?_set_ne (by omega)]
    · rw [get_cell_copy_keeps src fuel (i + 1) _ j (by omega), List.getElem?_set_ne (by omega)]

theorem get_cell_copy_head (src dst : List Nat) (fuel : Nat) (h : 0 < dst.length) :
    (get_cell_copy src (fuel + 1) 0 dst).getD 0 0 = src.getD 0 0 := by
  have e : (get_cell_copy src (fuel + 1) 0 dst)[0]? = some (src.getD 0 0) := by
    unfold get_cell_copy
    split
    · rw [List.getElem?_set_eq_of_lt _ h]
    · rw [get_cell_copy_keeps src fuel 1 _ 0 (by omega), List.getElem?_set_eq_of_lt _ h]
  rw [List.getD_eq_getElem?_getD, e]
  rfl

theorem pushing_screen_WF : WF pushing_screen :=
  ⟨by decide, by decide, rfl, rfl, _, rfl, rfl, by decide⟩

/-! ## Claims about the scrollback push -/

/-- C12, as stated, fails for a host that registered the legacy callback.  On
the 2 x 3 screen `pushing_screen`, whose row 0 has its continuation flag set,
`premove` of the full-width rectangle `(0, 1, 0, 3)` on the primary grid makes
one call to the host, `sb_pushline(3, cells)`, which has no continuation
argument: the row is pushed without its flag, and the calls are the same as
those made when the flag of the row is clear. -/
theorem premove_legacy_drops_flag :
    has_pushline pushing_screen = true ∧ pushing_screen.buffer = BufIdx.PRIMARY ∧
    row_continuation pushing_screen 0 = true ∧
    (premove { start_row := 0, end_row := 1, start_col := 0, end_col := 3 } pushing_screen).map
      (fun r => (r.1.trace, r.2)) =
      some ([HostEvent.sb_pushline 3
        [{ blank_ext_cell with chars := [0x4e2d, 0, 0, 0, 0, 0], width := 2 },
         { blank_ext_cell with chars := [WIDE_CONT, 0, 0, 0, 0, 0], width := 1 },
         { blank_ext_cell with width := 1 }]], 1) ∧
    (premove { start_row := 0, end_row := 1, start_col := 0, end_col := 3 }
      { pushing_screen with lineinfo := fresh_screen.lineinfo }).map (fun r => (r.1.trace, r.2)) =
    (premove { start_row := 0, end_row := 1, start_col := 0, end_col := 3 } pushing_screen).map
      (fun r => (r.1.trace, r.2)) := by
  refine ⟨by decide, by decide, by decide, by decide, by decide⟩

/-- C12 (amended): on a well-formed screen whose staging buffer has a slot for
each column, and for a rectangle that ends on the grid, `premove` returns 1 and
leaves the grid as it is.  When a push callback is registered (the legacy one,
or the extended one together with the opt-in),
`rect.start_row = 0`, `rect.start_col = 0`, `rect.end_col = cols` and the
primary grid is active, the calls it makes to the host are one push for each
of the rows `0 .. rect.end_row - 1`, top row first, each with the `cols` cells
of the row converted by `vterm_screen_get_cell`; the push carries the
continuation flag of the row when it goes through the extended callback
`sb_pushline4` and carries no flag when it goes through the legacy callback
`sb_pushline` (`push_event`).  In every other case it makes no call and
changes nothing. -/
theorem premove_pushes (rect : VTermRect) (s : VTermScreen) (hwf : WF s)
    (hsb : s.cols.toNat ≤ s.sb_buffer.length) (hrows : rect.end_row ≤ s.rows) :
    ∃ s', premove rect s = some (s', 1) ∧ sameGrid s s' ∧
      ((has_pushline s = true ∧ rect.start_row = 0 ∧ rect.start_col = 0 ∧
          rect.end_col = s.cols ∧ s.buffer = BufIdx.PRIMARY) →
        ∃ lines : List (List VTermScreenCell), lines.length = rect.end_row.toNat ∧
          (∀ row : Nat, row < rect.end_row.toNat → row_converted s row (lines.getD row [])) ∧
          s'.trace = s.trace ++
            (List.range rect.end_row.toNat).map (fun (r : Nat) =>
              if s.callbacks_has_pushline4 ∧
                  (s.callbacks.map fun cb => cb.sb_pushline4) = some true then
                HostEvent.sb_pushline4 s.cols (lines.getD r []) (row_continuation s r)
              else HostEvent.sb_pushline s.cols (lines.getD r []))) ∧
      (¬ (has_pushline s = true ∧ rect.start_row = 0 ∧ rect.start_col = 0 ∧
          rect.end_col = s.cols ∧ s.buffer = BufIdx.PRIMARY) → s' = s) := by
  by_cases hcond : has_pushline s = true ∧ rect.start_row = 0 ∧ rect.start_col = 0 ∧
      rect.end_col = s.cols ∧ s.buffer = BufIdx.PRIMARY
  · obtain ⟨sb, lines, e, hlen, hconv⟩ := premove_spec hwf hrows hsb hcond
    refine ⟨_, e, ⟨rfl, rfl, rfl, rfl, rfl, rfl, rfl, rfl⟩,
      fun _ => ⟨lines, hlen, hconv, ?_⟩, fun h => absurd hcond h⟩
    show s.trace ++ push_events s lines = _
    unfold push_events push_event
    rw [hlen]
  · refine ⟨s, ?_, sameGrid.sg_refl s, fun h => absurd h hcond, fun _ => rfl⟩
    unfold premove
    rw [if_neg hcond]

theorem premove_pushes_witness :
    WF pushing_screen ∧ pushing_screen.cols.toNat ≤ pushing_screen.sb_buffer.length ∧
    (1 : Int) ≤ pushing_screen.rows ∧
    ∃ s', premove { start_row := 0, end_row := 1, start_col := 0, end_col := 3 } pushing_screen
        = some (s', 1) ∧ sameGrid pushing_screen s' :=
  ⟨pushing_screen_WF, by decide, by decide, by
    obtain ⟨s', h1, h2, -⟩ := premove_pushes
      { start_row := 0, end_row := 1, start_col := 0, end_col := 3 } pushing_screen
      pushing_screen_WF (by decide) (by decide)
    exact ⟨s', h1, h2⟩⟩

/-- C13, as stated, fails: `WIDE_CONT` cells are not skipped.  Pushing row 0 of
`pushing_screen`, which holds a width-2 glyph in columns 0 and 1, hands three
external cells to the host; the one of column 1 has `chars[0] = WIDE_CONT`. -/
theorem pushed_row_holds_wide_cont :
    (sb_pushline_from_row pushing_screen 0 true).map (fun s => s.trace) =
      some [HostEvent.sb_pushline 3
        [{ blank_ext_cell with chars := [0x4e2d, 0, 0, 0, 0, 0], width := 2 },
         { blank_ext_cell with chars := [WIDE_CONT, 0, 0, 0, 0, 0], width := 1 },
         { blank_ext_cell with width := 1 }]] := by
  decide

/-- C13 (amended): when a row of the grid of a well-formed screen is serialized
for the push callback, every column is converted, `WIDE_CONT` cells included:
the host is handed `cols` external cells, the cell of column `col` has in
`chars[0]` what the grid cell holds there (so `WIDE_CONT` for the trailing
half of a wide glyph), and its width is 2 exactly when the grid cell to its
right holds `WIDE_CONT`, and 1 otherwise.  A double-width glyph is thus its
leading cell with width 2 followed by the external cell of its trailing half. -/
theorem pushed_row_keeps_wide_cont (s : VTermScreen) (row : Nat) (continuation : Bool)
    (hwf : WF s) (hr1 : (row : Int) < s.rows) (hsb : s.cols.toNat ≤ s.sb_buffer.length)
    (hslots : ∀ c ∈ s.sb_buffer, c.chars.length = VTERM_MAX_CHARS_PER_CELL)
    (hreg : has_pushline s = true) :
    ∃ s' cells, sb_pushline_from_row s (row : Int) continuation = some s' ∧
      s'.trace = s.trace ++ [push_event s cells continuation] ∧
      cells.length = s.cols.toNat ∧
      ∀ col : Nat, col < s.cols.toNat →
        ∃ x out, cellAt s (row : Int) (col : Int) = some x ∧ cells[col]? = some out ∧
          out.chars.getD 0 0 = x.char0 ∧ (out.width = 1 ∨ out.width = 2) ∧
          (out.width = 2 ↔
            ∃ y, cellAt s (row : Int) ((col : Int) + 1) = some y ∧ y.char0 = WIDE_CONT) := by
  obtain ⟨sb, cells, e, -, cl, hc⟩ := sb_pushline_from_row_cells hwf hr1 hsb hreg continuation
  refine ⟨_, cells, e, rfl, cl, fun col hcol => ?_⟩
  obtain ⟨slot, out, a1, a2, a3⟩ := hc col hcol
  have hpos : InGrid s (row : Int) (col : Int) := by
    refine ⟨Int.natCast_nonneg row, hr1, Int.natCast_nonneg col, ?_⟩
    have := hwf.2.1
    omega
  obtain ⟨x, w, hx, hw, hw2, hget⟩ :=
    @get_cell_eq s hwf { row := (row : Int), col := (col : Int) } hpos slot
  rw [hget] at a3
  have hout : out = { get_cell_fields s x slot with width := w } := by
    cases a3; rfl
  have hslot : 0 < slot.chars.length := by
    rw [hslots slot (List.getElem?_mem a2)]
    decide
  refine ⟨x, out, hx, a1, ?_, ?_, ?_⟩
  · rw [hout]
    exact get_cell_copy_head x.chars slot.chars 5 hslot
  · rw [hout]; exact hw
  · rw [hout]; exact hw2

theorem pushed_row_keeps_wide_cont_witness :
    WF pushing_screen ∧ ((0 : Nat) : Int) < pushing_screen.rows ∧
    pushing_screen.cols.toNat ≤ pushing_screen.sb_buffer.length ∧
    (∀ c ∈ pushing_screen.sb_buffer, c.chars.length = VTERM_MAX_CHARS_PER_CELL) ∧
    has_pushline pushing_screen = true ∧
    ∃ s' cells, sb_pushline_from_row pushing_screen ((0 : Nat) : Int) true = some s' ∧
      s'.trace = pushing_screen.trace ++ [push_event pushing_screen cells true] ∧
      cells.length = pushing_screen.cols.toNat :=
  ⟨pushing_screen_WF, by decide, by decide, by decide, by decide, by
    obtain ⟨s', cells, h1, h2, h3, -⟩ := pushed_row_keeps_wide_cont pushing_screen 0 true
      pushing_screen_WF (by decide) (by decide) (by decide) (by decide)
    exact ⟨s', cells, h1, h2, h3⟩⟩

/-! ## Rewrapping a paragraph -/

theorem bufAt_some {b : List ScreenCell} {i : Int} (h0 : 0 ≤ i) (h1 : i < b.length) :
    ∃ c, bufAt b i = some c ∧ b[i.toNat]? = some c := by
  have hlt : i.toNat < b.length := by omega
  refine ⟨b[i.toNat], ?_, List.getElem?_eq_getElem hlt⟩
  unfold bufAt
  rw [if_neg (by omega)]
  exact List.getElem?_eq_getElem hlt

theorem bufAt_nat (b : List ScreenCell) (i : Nat) : bufAt b (i : Int) = b[i]? := by
  unfold bufAt
  rw [if_neg (by omega)]
  simp

theorem flat_index {cols row col : Int} (hc : 0 ≤ cols) (hr : 0 ≤ row) (h0 : 0 ≤ col) :
    0 ≤ row * cols ∧ (row * cols + col).toNat = (row * cols).toNat + col.toNat := by
  have : 0 ≤ row * cols := mul_nonneg hr hc
  exact ⟨this, by omega⟩

theorem row_in_buffer {b : List ScreenCell} {cols row col : Int} (hc : 0 ≤ cols) (hr : 0 ≤ row)
    (hb : (row + 1) * cols ≤ b.length) (h0 : 0 ≤ col) (h1 : col < cols) :
    0 ≤ row * cols + col ∧ row * cols + col < b.length := by
  have h2 : 0 ≤ row * cols := mul_nonneg hr hc
  have h3 : (row + 1) * cols = row * cols + cols := by ring
  omega

/-- The loop of `line_popcount` returns the number of cells before the trailing
blank cells of the part of the row it looks at. -/
theorem line_popcount_loop_spec {b : List ScreenCell} {cols row : Int} (hc : 0 ≤ cols)
    (hr : 0 ≤ row) (hb : (row + 1) * cols ≤ b.length) :
    ∀ (fuel : Nat) (col : Int), -1 ≤ col → col < cols → (col + 1).toNat < fuel →
      ∃ n, line_popcount_loop b row cols fuel col = some n ∧ 0 ≤ n ∧ n ≤ col + 1 ∧
        (0 < n → ∃ c, bufAt b (row * cols + (n - 1)) = some c ∧ c.char0 ≠ 0) ∧
        (∀ k, n ≤ k → k ≤ col → ∃ c, bufAt b (row * cols + k) = some c ∧ c.char0 = 0)
  | 0, _, _, _, h => by omega
  | fuel + 1, col, h0, h1, hf => by
    unfold line_popcount_loop
    by_cases hge : col ≥ 0
    · rw [if_pos hge]
      obtain ⟨i0, i1⟩ := row_in_buffer hc hr hb hge h1
      obtain ⟨c, hcell, -⟩ := bufAt_some i0 i1
      rw [hcell]
      simp only [Option.some_bind]
      by_cases hz : c.char0 = 0
      · rw [if_pos hz]
        obtain ⟨n, e, a1, a2, a3, a4⟩ := line_popcount_loop_spec hc hr hb fuel (col - 1)
          (by omega) (by omega) (by omega)
        refine ⟨n, e, a1, by omega, a3, fun k k0 k1 => ?_⟩
        by_cases hk : k = col
        · subst hk; exact ⟨c, hcell, hz⟩
        · exact a4 k k0 (by omega)
      · rw [if_neg hz]
        refine ⟨col + 1, rfl, by omega, le_rfl, fun _ => ⟨c, ?_, hz⟩, fun k k0 k1 => by omega⟩
        rw [show col + 1 - 1 = col by ring]
        exact hcell
    · rw [if_neg hge]
      exact ⟨col + 1, rfl, by omega, le_rfl, fun h => by omega, fun k k0 k1 => by omega⟩

/-- `line_popcount` returns for every row inside the buffer: a number `n` of
cells between 0 and `cols`, the last of which is not blank, with only blank
cells after them. -/
theorem line_popcount_spec {b : List ScreenCell} {cols row : Int} (hc : 0 ≤ cols) (hr : 0 ≤ row)
    (hb : (row + 1) * cols ≤ b.length) :
    ∃ n, line_popcount b row cols = some n ∧ 0 ≤ n ∧ n ≤ cols ∧
      (0 < n → ∃ c, bufAt b (row * cols + (n - 1)) = some c ∧ c.char0 ≠ 0) ∧
      (∀ k, n ≤ k → k < cols → ∃ c, bufAt b (row * cols + k) = some c ∧ c.char0 = 0) := by
  obtain ⟨n, e, a1, a2, a3, a4⟩ := line_popcount_loop_spec hc hr hb (cols.toNat + 1) (cols - 1)
    (by omega) (by omega) (by omega)
  exact ⟨n, e, a1, by omega, a3, fun k k0 k1 => a4 k k0 (by omega)⟩

theorem memcpy_cells_nat (dst src : List ScreenCell) (d r n : Nat) (hd : d + n ≤ dst.length)
    (hs : r + n ≤ src.length) :
    memcpy_cells dst (d : Int) src (r : Int) (n : Int) =
      some (dst.take d ++ (src.drop r).take n ++ dst.drop (d + n)) := by
  unfold memcpy_cells
  rw [if_pos (by omega)]
  simp

theorem memcpy_result_length (dst src : List ScreenCell) (d r n : Nat) (hd : d + n ≤ dst.length)
    (hs : r + n ≤ src.length) :
    (dst.take d ++ (src.drop r).take n ++ dst.drop (d + n)).length = dst.length := by
  simp only [List.length_append, List.length_take, List.length_drop]
  omega

theorem memcpy_result_before (dst src : List ScreenCell) (d r n : Nat) (hd : d + n ≤ dst.length)
    (i : Nat) (hi : i < d) :
    (dst.take d ++ (src.drop r).take n ++ dst.drop (d + n))[i]? = dst[i]? := by
  rw [List.append_assoc, List.getElem?_append_left (by rw [List.length_take]; omega),
    List.getElem?_take_of_lt hi]

theorem memcpy_result_at (dst src : List ScreenCell) (d r n : Nat) (hd : d + n ≤ dst.length)
    (hs : r + n ≤ src.length) (k : Nat) (hk : k < n) :
    (dst.take d ++ (src.drop r).take n ++ dst.drop (d + n))[d + k]? =
      ((src.drop r).take n)[k]? := by
  have h1 : (dst.take d).length = d := by rw [List.length_take]; omega
  have h2 : ((src.drop r).take n).length = n := by
    rw [List.length_take, List.length_drop]; omega
  rw [List.append_assoc, List.getElem?_append_right (by omega), h1,
    List.getElem?_append_left (by omega)]
  congr 1
  omega

theorem memcpy_result_after (dst src : List ScreenCell) (d r n : Nat) (hd : d + n ≤ dst.length)
    (hs : r + n ≤ src.length) (i : Nat) (hi : d + n ≤ i) :
    (dst.take d ++ (src.drop r).take n ++ dst.drop (d + n))[i]? = dst[i]? := by
  have h1 : (dst.take d).length = d := by rw [List.length_take]; omega
  have h2 : ((src.drop r).take n).length = n := by
    rw [List.length_take, List.length_drop]; omega
  rw [List.getElem?_append_right (by rw [List.length_append]; omega), List.length_append, h1, h2,
    List.getElem?_drop]
  congr 1
  omega

theorem clear_at_nat (out : List ScreenCell) (i : Nat) (x : ScreenCell) (h : out[i]? = some x) :
    clear_at out (i : Int) = some (out.set i (clearcell x)) := by
  unfold clear_at
  rw [if_neg (by omega)]
  simp [h]

theorem clearcell_char0 (x : ScreenCell) : (clearcell x).char0 = 0 := by
  unfold clearcell ScreenCell.char0
  cases hc : x.chars with
  | nil => simp
  | cons a rest => simp

theorem wrap_cells_append (w : Nat) : ∀ (a cur rest : List ScreenCell),
    cur.length + a.length ≤ w → wrap_cells w cur (a ++ rest) = wrap_cells w (cur ++ a) rest
  | [], cur, rest, _ => by simp
  | x :: a, cur, rest, h => by
    have hlt : cur.length < w := by simp only [List.length_cons] at h; omega
    rw [List.cons_append, wrap_cells, if_pos hlt,
      wrap_cells_append w a (cur ++ [x]) rest (by simp only [List.length_append,
        List.length_cons, List.length_nil] at h ⊢; omega)]
    simp

theorem wrap_cells_nil_cons (w : Nat) (hw : 0 < w) (x : ScreenCell) (xs : List ScreenCell) :
    wrap_cells w [] (x :: xs) = wrap_cells w [x] xs := by
  rw [wrap_cells, if_pos (by simpa using hw)]
  rfl

theorem wrap_cells_full (w : Nat) (hw : 0 < w) (cur rest : List ScreenCell)
    (hcur : cur.length = w) (hrest : ∀ x, rest.head? = some x → x.char0 ≠ WIDE_CONT) :
    wrap_cells w cur rest = cur :: wrap_cells w [] rest := by
  cases rest with
  | nil =>
    have hne : cur ≠ [] := by
      intro h; rw [h] at hcur; simp at hcur; omega
    simp [wrap_cells, hne]
  | cons x xs =>
    rw [wrap_cells, if_neg (by omega), if_neg (hrest x rfl), wrap_cells_nil_cons w hw]

theorem wrap_cells_backoff (w : Nat) (hw : 2 ≤ w) (init : List ScreenCell) (l x : ScreenCell)
    (xs : List ScreenCell) (hcur : init.length + 1 = w) (hx : x.char0 = WIDE_CONT) :
    wrap_cells w (init ++ [l]) (x :: xs) = init :: wrap_cells w [] (l :: x :: xs) := by
  have hlen : (init ++ [l]).length = w := by simp [hcur]
  rw [wrap_cells, if_neg (by omega), if_pos hx, wrap_cells_nil_cons w (by omega),
    wrap_cells.eq_def w [l] (x :: xs)]
  simp only [List.length_singleton, if_pos (show 1 < w by omega)]
  rw [List.dropLast_concat, hlen]
  congr 2
  rw [← hcur]
  simp

theorem wrap_cells_ne_nil (w : Nat) : ∀ (rest cur : List ScreenCell),
    cur ++ rest ≠ [] → wrap_cells w cur rest ≠ []
  | [], cur, h => by
    have : cur ≠ [] := by simpa using h
    simp [wrap_cells, this]
  | x :: xs, cur, _ => by
    rw [wrap_cells]
    split
    · exact wrap_cells_ne_nil w xs _ (by simp)
    · split <;> simp

/-- A copy block of `reflow_line`, run with an output buffer and both cursor
pointers set, copies the cells and leaves the counters alone. -/
theorem reflow_copy_lit (old out : List ScreenCell) (old_cols nrs : Int) (w : Nat)
    (ocur nc : VTermPos) (bounded : Bool) (j f n : Nat) (r pc t : Int)
    (hsrc : 0 ≤ r * old_cols + t) (hd : j * w + f + n ≤ out.length)
    (hs : (r * old_cols + t).toNat + n ≤ old.length) :
    ∃ nc1, reflow_copy old old_cols (w : Int) 0 nrs (some ocur) (n : Int) bounded
        { new_row := (j : Int), old_row := r, old_line_cells := pc, old_line_taken := t
          new_line_filled := (f : Int), out_buffer := some out, new_cursor := some nc } =
      some { new_row := (j : Int), old_row := r, old_line_cells := pc, old_line_taken := t
             new_line_filled := (f : Int)
             out_buffer := some (out.take (j * w + f) ++
               (old.drop (r * old_cols + t).toNat).take n ++ out.drop (j * w + f + n))
             new_cursor := some nc1 } := by
  have e1 : ((j : Int) - 0) * (w : Int) + (f : Int) = ((j * w + f : Nat) : Int) := by
    push_cast; ring
  have e2 : r * old_cols + t = (((r * old_cols + t).toNat : Nat) : Int) := by omega
  have hm := memcpy_cells_nat out old (j * w + f) (r * old_cols + t).toNat n hd hs
  rw [← e2] at hm
  unfold reflow_copy
  simp only [ge_iff_le, Int.natCast_nonneg, if_true, e1, hm, Option.some_bind]
  split
  · exact ⟨_, rfl⟩
  · exact ⟨nc, rfl⟩

theorem stripped_row_eq {old : List ScreenCell} {old_cols row pc : Int}
    (h : line_popcount old row old_cols = some pc) :
    stripped_row old old_cols row = (old.drop (row * old_cols).toNat).take pc.toNat := by
  unfold stripped_row
  rw [h]

/-- The first cell of a run of stripped rows is the cell in column 0 of one of
the rows, which is not the trailing half of a wide glyph. -/
theorem paragraph_head {old : List ScreenCell} {old_cols lo hi : Int} (hc : 0 ≤ old_cols)
    (hrows : ∀ r, lo ≤ r → r ≤ hi → 0 ≤ r ∧ (r + 1) * old_cols ≤ old.length)
    (hcol0 : ∀ r, lo ≤ r → r ≤ hi → ∀ x, 0 < old_cols → bufAt old (r * old_cols) = some x →
      x.char0 ≠ WIDE_CONT) :
    ∀ (m : Nat) (r : Int), lo ≤ r → r + (m : Int) ≤ hi + 1 →
      ∀ x, (paragraph_cells old old_cols m r).head? = some x → x.char0 ≠ WIDE_CONT
  | 0, _, _, _, x, h => by simp [paragraph_cells] at h
  | m + 1, r, h0, h1, x, h => by
    have hr := hrows r h0 (by push_cast at h1; omega)
    obtain ⟨pc, e, a1, a2, -, -⟩ := line_popcount_spec hc hr.1 hr.2
    rw [paragraph_cells, stripped_row_eq e] at h
    by_cases hpc : pc = 0
    · subst hpc
      simp only [Int.toNat_zero, List.take_zero, List.nil_append] at h
      exact paragraph_head hc hrows hcol0 m (r + 1) (by omega) (by push_cast at h1 ⊢; omega) x h
    · have hpos : 0 < pc.toNat := by omega
      obtain ⟨k, hk⟩ : ∃ k, pc.toNat = k + 1 := ⟨pc.toNat - 1, by omega⟩
      have i0 := (row_in_buffer hc hr.1 hr.2 (le_refl 0) (by omega : (0 : Int) < old_cols))
      simp only [add_zero] at i0
      obtain ⟨c, hcell, hget⟩ := bufAt_some i0.1 i0.2
      have hd : old.drop (r * old_cols).toNat =
          c :: old.drop ((r * old_cols).toNat + 1) := by
        have hlt : (r * old_cols).toNat < old.length := by omega
        rw [List.drop_eq_getElem_cons hlt]
        congr 1
        rw [List.getElem?_eq_getElem hlt] at hget
        exact Option.some.inj hget
      rw [hd, hk, List.take_succ_cons, List.cons_append, List.head?_cons] at h
      cases h
      exact hcol0 r h0 (by push_cast at h1; omega) x (by omega) hcell

/-- A finished line in front of lines that lie in the buffer. -/
theorem rows_laid_cons {out2 outf : List ScreenCell} {w j : Nat} {row0 : List ScreenCell}
    {rows1 : List (List ScreenCell)}
    (hkeep : ∀ i, i < (j + 1) * w → outf[i]? = out2[i]?)
    (hrow0 : ∀ c, c < row0.length → out2[j * w + c]? = row0[c]?) (hlen : row0.length ≤ w)
    (hlaid : RowsLaid outf w (j + 1) rows1)
    (hpad : RowsPadded outf w (j + 1) rows1 (rows1.length - 1))
    (hpad0 : rows1 ≠ [] → ∀ c, row0.length ≤ c → c < w →
      ∃ x, out2[j * w + c]? = some x ∧ x.char0 = 0) :
    RowsLaid outf w j (row0 :: rows1) ∧
      RowsPadded outf w j (row0 :: rows1) ((row0 :: rows1).length - 1) := by
  have hidx : ∀ k c : Nat, (j + (k + 1)) * w + c = (j + 1 + k) * w + c := by
    intro k c; ring
  have hj1 : (j + 1) * w = j * w + w := by ring
  constructor
  · intro k c hk hc
    cases k with
    | zero =>
      simp only [List.getD_cons_zero, add_zero] at hc ⊢
      rw [hkeep _ (by omega), hrow0 c hc]
    | succ k =>
      simp only [List.getD_cons_succ] at hc ⊢
      rw [hidx]
      exact hlaid k c (by simpa using hk) hc
  · intro k c hk hc hcw
    simp only [List.length_cons, Nat.add_sub_cancel] at hk
    cases k with
    | zero =>
      simp only [List.getD_cons_zero, add_zero] at hc ⊢
      have hne : rows1 ≠ [] := by
        intro h; rw [h] at hk; simp at hk
      rw [hkeep _ (by omega)]
      exact hpad0 hne c hc hcw
    | succ k =>
      simp only [List.getD_cons_succ] at hc ⊢
      rw [hidx]
      exact hpad k c (by omega) hc hcw

/-- A finished line in front of lines that are padded to their ends. -/
theorem rows_padded_cons {out2 outf : List ScreenCell} {w j : Nat} {row0 : List ScreenCell}
    {rows1 : List (List ScreenCell)}
    (hkeep : ∀ i, i < (j + 1) * w → outf[i]? = out2[i]?)
    (hpad0 : ∀ c, row0.length ≤ c → c < w → ∃ x, out2[j * w + c]? = some x ∧ x.char0 = 0)
    (hpad : RowsPadded outf w (j + 1) rows1 rows1.length) :
    RowsPadded outf w j (row0 :: rows1) (row0 :: rows1).length := by
  have hidx : ∀ k c : Nat, (j + (k + 1)) * w + c = (j + 1 + k) * w + c := by
    intro k c; ring
  have hj1 : (j + 1) * w = j * w + w := by ring
  intro k c hk hc hcw
  simp only [List.length_cons] at hk
  cases k with
  | zero =>
    simp only [List.getD_cons_zero, add_zero] at hc ⊢
    rw [hkeep _ (by omega)]
    exact hpad0 c hc hcw
  | succ k =>
    simp only [List.getD_cons_succ] at hc ⊢
    rw [hidx]
    exact hpad k c (by omega) hc hcw

/-- The clearing loop at the end of `reflow_line` blanks the cells it walks
over and touches no other cell. -/
theorem clear_loop_spec (base : Nat) : ∀ (n c0 : Nat) (out : List ScreenCell),
    base + c0 + n ≤ out.length →
    ∃ out1, forLoop n (c0 : Int) 1 (fun c o => clear_at o ((base : Int) + c)) out = some out1 ∧
      out1.length = out.length ∧
      (∀ i, i < base + c0 ∨ base + c0 + n ≤ i → out1[i]? = out[i]?) ∧
      (∀ k, k < n → ∃ x, out1[base + c0 + k]? = some x ∧ x.char0 = 0)
  | 0, c0, out, _ => ⟨out, rfl, rfl, fun _ _ => rfl, fun k hk => absurd hk (Nat.not_lt_zero k)⟩
  | n + 1, c0, out, h => by
    have hlt : base + c0 < out.length := by omega
    have e1 : clear_at out ((base : Int) + (c0 : Int)) =
        some (out.set (base + c0) (clearcell out[base + c0])) := by
      have := clear_at_nat out (base + c0) out[base + c0] (List.getElem?_eq_getElem hlt)
      rw [← this]
      congr 1
    obtain ⟨out1, e2, l2, k2, c2⟩ := clear_loop_spec base n (c0 + 1)
      (out.set (base + c0) (clearcell out[base + c0])) (by rw [List.length_set]; omega)
    refine ⟨out1, ?_, by rw [l2, List.length_set], ?_, ?_⟩
    · simp only [forLoop, e1, Option.some_bind]
      have : ((c0 : Int) + 1) = ((c0 + 1 : Nat) : Int) := by push_cast; ring
      rw [this]
      exact e2
    · intro i hi
      rw [k2 i (by omega), List.getElem?_set_ne (by omega)]
    · intro k hk
      cases k with
      | zero =>
        refine ⟨clearcell out[base + c0], ?_, clearcell_char0 _⟩
        rw [k2 (base + c0 + 0) (by omega)]
        simp only [add_zero]
        rw [List.getElem?_set_eq_of_lt _ hlt]
      | succ k =>
        obtain ⟨x, hx, hz⟩ := c2 k (by omega)
        refine ⟨x, ?_, hz⟩
        rw [← hx]
        congr 1
        omega

/-- One iteration of the loop of `reflow_line` when the rest of the old line
fits into the new line: the `n` cells are copied and the loop goes on to the
next old line, or is left after the last one. -/
theorem reflow_loop_fits (old out : List ScreenCell) (old_cols hi nrs : Int) (w : Nat)
    (ocur nc : VTermPos) (fuel j f n : Nat) (r pc t : Int)
    (hn : pc - t = (n : Int)) (hfit : f + n ≤ w)
    (hsrc : 0 ≤ r * old_cols + t) (hd : j * w + f + n ≤ out.length)
    (hs : (r * old_cols + t).toNat + n ≤ old.length) :
    ∃ nc1, reflow_loop old hi old_cols (w : Int) 0 nrs (some ocur) (fuel + 1)
        { new_row := (j : Int), old_row := r, old_line_cells := pc, old_line_taken := t
          new_line_filled := (f : Int), out_buffer := some out, new_cursor := some nc } =
      if r + 1 > hi then
        some { new_row := (j : Int), old_row := r + 1, old_line_cells := pc, old_line_taken := 0
               new_line_filled := ((f + n : Nat) : Int)
               out_buffer := some (out.take (j * w + f) ++
                 (old.drop (r * old_cols + t).toNat).take n ++ out.drop (j * w + f + n))
               new_cursor := some nc1 }
      else
        (line_popcount old (r + 1) old_cols).bind fun pc1 =>
          reflow_loop old hi old_cols (w : Int) 0 nrs (some ocur) fuel
            (if f + n = w then
              { new_row := ((j + 1 : Nat) : Int), old_row := r + 1, old_line_cells := pc1
                old_line_taken := 0, new_line_filled := ((0 : Nat) : Int)
                out_buffer := some (out.take (j * w + f) ++
                  (old.drop (r * old_cols + t).toNat).take n ++ out.drop (j * w + f + n))
                new_cursor := some nc1 }
            else
              { new_row := (j : Int), old_row := r + 1, old_line_cells := pc1
                old_line_taken := 0, new_line_filled := ((f + n : Nat) : Int)
                out_buffer := some (out.take (j * w + f) ++
                  (old.drop (r * old_cols + t).toNat).take n ++ out.drop (j * w + f + n))
                new_cursor := some nc1 }) := by
  obtain ⟨nc1, ecopy⟩ := reflow_copy_lit old out old_cols nrs w ocur nc false j f n r pc t
    hsrc hd hs
  refine ⟨nc1, ?_⟩
  have hbr : (n : Int) ≤ (w : Int) - (f : Int) := by omega
  rw [reflow_loop]
  simp only [hn, if_pos hbr, ecopy, Option.some_bind]
  by_cases hlast : r + 1 > hi
  · rw [if_pos hlast, if_pos hlast]
    simp
  · rw [if_neg hlast, if_neg hlast]
    by_cases hfull : f + n = w
    · have hfull2 : (n : Int) = (w : Int) - (f : Int) := by omega
      simp only [if_pos hfull, if_pos hfull2]
      simp
    · have hfull2 : ¬ (n : Int) = (w : Int) - (f : Int) := by omega
      simp only [if_neg hfull, if_neg hfull2]
      simp

/-- One iteration of the loop of `reflow_line` when the rest of the old line
does not fit into the new line: the new line is filled, and the next new line
starts with the cell after the copied ones, or, when that cell is the trailing
half of a wide glyph, with the last copied cell, which is blanked in the line
just filled. -/
theorem reflow_loop_splits (old out : List ScreenCell) (old_cols hi nrs : Int) (w : Nat)
    (ocur nc : VTermPos) (fuel j f n : Nat) (r pc t : Int) (x y : ScreenCell)
    (hn : f + n = w) (hf : f < w) (hmore : (n : Int) < pc - t)
    (hsrc : 0 ≤ r * old_cols + t) (hd : j * w + f + n ≤ out.length)
    (hs : (r * old_cols + t).toNat + n ≤ old.length)
    (hx : old[(r * old_cols + t).toNat + n]? = some x)
    (hy : (out.take (j * w + f) ++ (old.drop (r * old_cols + t).toNat).take n ++
      out.drop (j * w + f + n))[j * w + w - 1]? = some y) :
    ∃ nc1, reflow_loop old hi old_cols (w : Int) 0 nrs (some ocur) (fuel + 1)
        { new_row := (j : Int), old_row := r, old_line_cells := pc, old_line_taken := t
          new_line_filled := (f : Int), out_buffer := some out, new_cursor := some nc } =
      reflow_loop old hi old_cols (w : Int) 0 nrs (some ocur) fuel
        (if x.char0 = WIDE_CONT then
          { new_row := ((j + 1 : Nat) : Int), old_row := r, old_line_cells := pc
            old_line_taken := t + (n : Int) - 1, new_line_filled := ((0 : Nat) : Int)
            out_buffer := some ((out.take (j * w + f) ++
              (old.drop (r * old_cols + t).toNat).take n ++ out.drop (j * w + f + n)).set
                (j * w + w - 1) (clearcell y))
            new_cursor := some nc1 }
        else
          { new_row := ((j + 1 : Nat) : Int), old_row := r, old_line_cells := pc
            old_line_taken := t + (n : Int), new_line_filled := ((0 : Nat) : Int)
            out_buffer := some (out.take (j * w + f) ++
              (old.drop (r * old_cols + t).toNat).take n ++ out.drop (j * w + f + n))
            new_cursor := some nc1 }) := by
  obtain ⟨nc1, ecopy⟩ := reflow_copy_lit old out old_cols nrs w ocur nc true j f n r pc t
    hsrc hd hs
  refine ⟨nc1, ?_⟩
  have hbr : ¬ pc - t ≤ (n : Int) := by omega
  have hneed : (w : Int) - (f : Int) = (n : Int) := by omega
  have hidx : r * old_cols + (t + (n : Int)) = (((r * old_cols + t).toNat + n : Nat) : Int) := by
    push_cast; omega
  have hcell : bufAt old (r * old_cols + (t + (n : Int))) = some x := by
    rw [hidx, bufAt_nat]; exact hx
  have hclr : ((j : Int) - 0) * (w : Int) + (w : Int) - 1 = ((j * w + w - 1 : Nat) : Int) := by
    have : 1 ≤ j * w + w := by omega
    push_cast [Nat.cast_sub this]; ring
  rw [reflow_loop]
  simp only [hneed, if_neg hbr, ecopy, Option.some_bind, hcell]
  by_cases hwc : x.char0 = WIDE_CONT
  · simp only [if_pos hwc]
    unfold reflow_backoff
    simp only [ge_iff_le, Int.natCast_nonneg, if_true, hclr, clear_at_nat _ _ _ hy,
      Option.map_some', Option.some_bind]
    simp
  · simp only [if_neg hwc, Option.some_bind]
    simp

theorem take_drop_take (l : List ScreenCell) (a n k : Nat) (h : k ≤ n) :
    ((l.drop a).take n).take k = (l.drop a).take k := by
  rw [List.take_take, Nat.min_eq_left h]

theorem drop_take_drop (l : List ScreenCell) (a n k : Nat) :
    ((l.drop a).take n).drop k = (l.drop (a + k)).take (n - k) := by
  rw [List.drop_take, List.drop_drop]

theorem after_line {j w c i : Nat} (hc : c < w) (h : (j + 1) * w ≤ i) :
    j * w + c + (w - c) ≤ i ∧ j * w + w - 1 ≠ i := by
  have e : (j + 1) * w = j * w + w := by ring
  omega

theorem final_cons {rows1 : List (List ScreenCell)} (row0 : List ScreenCell) {jf ff : Int} {j : Nat}
    (h0 : ff = 0 → jf = ((j + 1 : Nat) : Int) + (rows1.length : Int))
    (hp : 0 < ff → ∃ last, rows1.getLast? = some last ∧
      jf + 1 = ((j + 1 : Nat) : Int) + (rows1.length : Int) ∧ ff = (last.length : Int)) :
    (ff = 0 → jf = (j : Int) + ((row0 :: rows1).length : Int)) ∧
    (0 < ff → ∃ last, (row0 :: rows1).getLast? = some last ∧
      jf + 1 = (j : Int) + ((row0 :: rows1).length : Int) ∧ ff = (last.length : Int)) := by
  constructor
  · intro h
    rw [h0 h, List.length_cons]
    push_cast
    ring
  · intro h
    obtain ⟨last, e1, e2, e3⟩ := hp h
    refine ⟨last, ?_, ?_, e3⟩
    · cases rows1 with
      | nil => simp at e1
      | cons a b => rw [List.getLast?_cons_cons]; exact e1
    · rw [List.length_cons]
      push_cast at e2 ⊢
      omega

set_option maxHeartbeats 4000000 in
/-- The loop of `reflow_line`, started at the head of an iteration with the
cells `cur` in the current new line, lays out the rows the spec asks for from
the cells still to come. -/
theorem reflow_loop_spec {old : List ScreenCell} {old_cols lo hi nrs : Int} {w : Nat}
    {ocur : VTermPos} (hc : 0 ≤ old_cols) (hw : 0 < w)
    (hrows : ∀ r, lo ≤ r → r ≤ hi → 0 ≤ r ∧ (r + 1) * old_cols ≤ old.length)
    (hcol0 : ∀ r, lo ≤ r → r ≤ hi → ∀ x, 0 < old_cols → bufAt old (r * old_cols) = some x →
      x.char0 ≠ WIDE_CONT)
    (hprog : 2 ≤ w ∨ ∀ r, lo ≤ r → r ≤ hi → ∀ c, 0 ≤ c → c < old_cols →
      ∀ x, bufAt old (r * old_cols + c) = some x → x.char0 ≠ WIDE_CONT) :
    ∀ (fuel : Nat) (r pc t : Int) (m j : Nat) (cur rowrest later out : List ScreenCell)
      (nc : VTermPos),
      lo ≤ r → r + (m : Int) = hi + 1 → 0 < m →
      line_popcount old r old_cols = some pc → 0 ≤ t →
      pc - t = (rowrest.length : Int) →
      rowrest = (old.drop (r * old_cols + t).toNat).take rowrest.length →
      (0 < t → rowrest ≠ []) →
      later = paragraph_cells old old_cols (m - 1) (r + 1) →
      cur.length < w →
      (∀ c : Nat, c < cur.length → out[j * w + c]? = cur[c]?) →
      (j + (wrap_cells w cur (rowrest ++ later)).length) * w ≤ out.length →
      2 * (rowrest ++ later).length + m + (if cur = [] then 0 else 1) < fuel →
      ∃ (jf rf pcf tf ff : Int) (outf : List ScreenCell) (ncf : VTermPos),
        reflow_loop old hi old_cols (w : Int) 0 nrs (some ocur) fuel
          { new_row := (j : Int), old_row := r, old_line_cells := pc, old_line_taken := t
            new_line_filled := (cur.length : Int), out_buffer := some out
            new_cursor := some nc } =
        some { new_row := jf, old_row := rf, old_line_cells := pcf, old_line_taken := tf
               new_line_filled := ff, out_buffer := some outf, new_cursor := some ncf } ∧
        outf.length = out.length ∧
        (∀ i, i < j * w → outf[i]? = out[i]?) ∧
        RowsLaid outf w j (wrap_cells w cur (rowrest ++ later)) ∧
        RowsPadded outf w j (wrap_cells w cur (rowrest ++ later))
          ((wrap_cells w cur (rowrest ++ later)).length - 1) ∧
        0 ≤ ff ∧ ff ≤ (w : Int) ∧
        (ff = 0 → jf = (j : Int) + ((wrap_cells w cur (rowrest ++ later)).length : Int)) ∧
        (0 < ff → ∃ last, (wrap_cells w cur (rowrest ++ later)).getLast? = some last ∧
          jf + 1 = (j : Int) + ((wrap_cells w cur (rowrest ++ later)).length : Int) ∧
          ff = (last.length : Int)) ∧
        (stripped_row old old_cols hi ≠ [] → 0 < ff) ∧
        (∀ i, (j + (wrap_cells w cur (rowrest ++ later)).length) * w ≤ i →
          outf[i]? = out[i]?) ∧
        (∀ k c : Nat, ff = 0 → k < (wrap_cells w cur (rowrest ++ later)).length →
          ((wrap_cells w cur (rowrest ++ later)).getD k []).length ≤ c → c < w →
          ∃ x, outf[(j + k) * w + c]? = some x ∧ x.char0 = 0) := by
  intro fuel
  induction fuel with
  | zero => intro r pc t m j cur rowrest later out nc _ _ _ _ _ _ _ _ _ _ _ _ h; omega
  | succ fuel ih =>
    intro r pc t m j cur rowrest later out nc hlo hm hmpos hpop ht hhave hrr htpos hlater hcur
      hlaid hroom hmeas
    have hr := hrows r hlo (by omega)
    obtain ⟨pc0, e0, p1, p2, -, -⟩ := line_popcount_spec hc hr.1 hr.2
    have hpc : pc0 = pc := by rw [hpop] at e0; exact (Option.some.inj e0).symm
    subst hpc
    have hsrc0 : 0 ≤ r * old_cols := mul_nonneg hr.1 hc
    have hsrc : 0 ≤ r * old_cols + t := by omega
    have hrowend : r * old_cols + pc0 ≤ old.length := by
      have : (r + 1) * old_cols = r * old_cols + old_cols := by ring
      omega
    have hsidx : (r * old_cols + t).toNat + rowrest.length ≤ old.length := by omega
    have hjw : j * w ≤ (j + (wrap_cells w cur (rowrest ++ later)).length) * w :=
      Nat.mul_le_mul_right w (Nat.le_add_right _ _)
    have hrow1 : cur ++ (rowrest ++ later) ≠ [] →
        (j + 1) * w ≤ out.length := by
      intro hne
      have h1 := wrap_cells_ne_nil w (rowrest ++ later) cur hne
      have h2 : 1 ≤ (wrap_cells w cur (rowrest ++ later)).length :=
        Nat.one_le_iff_ne_zero.mpr (by simpa using h1)
      exact le_trans (Nat.mul_le_mul_right w (by omega)) hroom
    by_cases hbr : rowrest.length ≤ w - cur.length
    · -- the rest of the old line fits into the new line
      have hd : j * w + cur.length + rowrest.length ≤ out.length := by
        by_cases hemp : cur ++ (rowrest ++ later) = []
        · have h1 : cur = [] := (List.append_eq_nil.mp hemp).1
          have h2 : rowrest = [] := (List.append_eq_nil.mp (List.append_eq_nil.mp hemp).2).1
          rw [h1, h2]
          simp only [List.length_nil, add_zero]
          omega
        · have := hrow1 hemp
          have e : (j + 1) * w = j * w + w := by ring
          omega
      obtain ⟨nc1, estep⟩ := reflow_loop_fits old out old_cols hi nrs w ocur nc fuel j cur.length
        rowrest.length r pc0 t hhave (by omega) hsrc hd hsidx
      rw [← hrr] at estep
      have hout1len := memcpy_result_length out old (j * w + cur.length) (r * old_cols + t).toNat
        rowrest.length hd hsidx
      rw [← hrr] at hout1len
      have hbefore := memcpy_result_before out old (j * w + cur.length)
        (r * old_cols + t).toNat rowrest.length hd
      rw [← hrr] at hbefore
      have hat := memcpy_result_at out old (j * w + cur.length) (r * old_cols + t).toNat
        rowrest.length hd hsidx
      rw [← hrr] at hat
      have hafter := memcpy_result_after out old (j * w + cur.length) (r * old_cols + t).toNat
        rowrest.length hd hsidx
      rw [← hrr] at hafter
      have hjw2 : (j + 1) * w = j * w + w := by ring
      have hlaid1 : ∀ c : Nat, c < (cur ++ rowrest).length →
          (out.take (j * w + cur.length) ++ rowrest ++ out.drop (j * w + cur.length + rowrest.length))[
            j * w + c]? = (cur ++ rowrest)[c]? := by
        intro c hcl
        by_cases hcc : c < cur.length
        · rw [hbefore _ (by omega), hlaid c hcc, List.getElem?_append_left hcc]
        · rw [List.length_append] at hcl
          have e : j * w + c = j * w + cur.length + (c - cur.length) := by omega
          rw [e, hat _ (by omega), List.getElem?_append_right (by omega)]
      by_cases hlast : r + 1 > hi
      · -- the last old line: the loop is left
        rw [if_pos hlast] at estep
        have hm1 : m = 1 := by omega
        have hlat : later = [] := by rw [hlater, hm1]; rfl
        have hwrap : wrap_cells w cur (rowrest ++ later) =
            if cur ++ rowrest = [] then [] else [cur ++ rowrest] := by
          rw [hlat, List.append_nil]
          have := wrap_cells_append w rowrest cur [] (by omega)
          rw [List.append_nil] at this
          rw [this, wrap_cells]
        refine ⟨_, _, _, _, _, _, nc1, estep, hout1len, fun i hib => hbefore i (by omega),
          ?_, ?_, by omega, by push_cast; omega, ?_, ?_, ?_, ?_, ?_⟩
        · rw [hwrap]
          intro k c hk hcl
          by_cases hemp : cur ++ rowrest = []
          · rw [if_pos hemp] at hk; simp at hk
          · rw [if_neg hemp] at hk hcl ⊢
            have hk0 : k = 0 := by simpa using hk
            subst hk0
            simp only [List.getD_cons_zero, add_zero] at hcl ⊢
            exact hlaid1 c hcl
        · rw [hwrap]
          intro k c hk
          by_cases hemp : cur ++ rowrest = []
          · rw [if_pos hemp] at hk; simp at hk
          · rw [if_neg hemp] at hk; simp at hk
        · intro hz
          have h1 : cur = [] := List.length_eq_zero.mp (by omega)
          have h2 : rowrest = [] := List.length_eq_zero.mp (by omega)
          rw [hwrap, h1, h2]
          simp
        · intro hpos
          have hemp : cur ++ rowrest ≠ [] := by
            intro h
            have := congrArg List.length h
            rw [List.length_append] at this
            simp only [List.length_nil] at this
            omega
          refine ⟨cur ++ rowrest, ?_, ?_, ?_⟩
          · rw [hwrap, if_neg hemp]; rfl
          · rw [hwrap, if_neg hemp]; simp
          · rw [List.length_append]
        · intro hne
          have hrhi : r = hi := by omega
          by_contra hff
          have hrl : rowrest.length = 0 := by omega
          have hrn : rowrest = [] := List.length_eq_zero.mp hrl
          have ht0 : t = 0 := by
            by_contra htne
            exact htpos (by omega) hrn
          have hpc0 : pc0 = 0 := by omega
          rw [← hrhi, stripped_row_eq hpop, hpc0] at hne
          simp at hne
        · intro i hib
          apply hafter i
          rw [hwrap] at hib
          by_cases hemp : cur ++ rowrest = []
          · have h1 : cur = [] := (List.append_eq_nil.mp hemp).1
            have h2 : rowrest = [] := (List.append_eq_nil.mp hemp).2
            rw [if_pos hemp] at hib
            rw [h1, h2]
            simpa using hib
          · rw [if_neg hemp] at hib
            simp only [List.length_singleton] at hib
            omega
        · intro k c hz0 hk
          have h1 : cur = [] := List.length_eq_zero.mp (by omega)
          have h2 : rowrest = [] := List.length_eq_zero.mp (by omega)
          rw [hwrap, h1, h2] at hk
          simp at hk
      · -- a further old line follows
        rw [if_neg hlast] at estep
        have hm2 : 2 ≤ m := by omega
        have hr1 := hrows (r + 1) (by omega) (by omega)
        obtain ⟨pc1, e1, q1, q2, -, -⟩ := line_popcount_spec hc hr1.1 hr1.2
        rw [e1] at estep
        simp only [Option.some_bind] at estep
        have hsrc1 : 0 ≤ (r + 1) * old_cols := mul_nonneg hr1.1 hc
        have hrow1end : (r + 1) * old_cols + pc1 ≤ old.length := by
          have : (r + 1 + 1) * old_cols = (r + 1) * old_cols + old_cols := by ring
          omega
        have hnext : stripped_row old old_cols (r + 1) =
            (old.drop ((r + 1) * old_cols + 0).toNat).take pc1.toNat := by
          rw [stripped_row_eq e1, add_zero]
        have hnextlen : (stripped_row old old_cols (r + 1)).length = pc1.toNat := by
          rw [hnext, List.length_take, List.length_drop]
          omega
        have hlat : later = stripped_row old old_cols (r + 1) ++
            paragraph_cells old old_cols (m - 1 - 1) (r + 1 + 1) := by
          rw [hlater]
          obtain ⟨k, hk⟩ : ∃ k, m - 1 = k + 1 := ⟨m - 2, by omega⟩
          rw [hk]
          rfl
        by_cases hfull : cur.length + rowrest.length = w
        · -- the new line is full: the next old line starts the next new line
          rw [if_pos hfull] at estep
          have hwrap : wrap_cells w cur (rowrest ++ later) =
              (cur ++ rowrest) :: wrap_cells w [] later := by
            rw [wrap_cells_append w rowrest cur later (by omega)]
            apply wrap_cells_full w hw
            · rw [List.length_append]; exact hfull
            · rw [hlater]
              exact paragraph_head hc hrows hcol0 (m - 1) (r + 1) (by omega)
                (by push_cast [Nat.cast_sub (show 1 ≤ m by omega)]; omega)
          obtain ⟨jf, rf, pcf, tf, ff, outf, ncf, hE, hLen, hKeep, hLaidF, hPadF, hff0, hffw, hz,
              hp, hs, hAfter, hPadAll⟩ :=
            ih (r + 1) pc1 0 (m - 1) (j + 1) [] (stripped_row old old_cols (r + 1))
              (paragraph_cells old old_cols (m - 1 - 1) (r + 1 + 1))
              (out.take (j * w + cur.length) ++ rowrest ++
                out.drop (j * w + cur.length + rowrest.length)) nc1
              (by omega) (by push_cast [Nat.cast_sub (show 1 ≤ m by omega)]; omega) (by omega)
              e1 le_rfl (by rw [hnextlen]; omega)
              (by rw [hnextlen]; exact hnext) (fun h => absurd h (lt_irrefl 0)) rfl
              (by simpa using hw) (fun c hcl => absurd hcl (Nat.not_lt_zero c))
              (by
                rw [← hlat, hout1len]
                rw [hwrap] at hroom
                simp only [List.length_cons] at hroom
                have e : j + 1 + (wrap_cells w [] later).length =
                    j + ((wrap_cells w [] later).length + 1) := by omega
                rw [e]; exact hroom)
              (by
                rw [← hlat]
                simp only [List.length_append, if_true] at hmeas ⊢
                omega)
          rw [← hlat] at hLaidF hPadF hz hp hPadAll
          have hcomb := @rows_laid_cons (out.take (j * w + cur.length) ++ rowrest ++
              out.drop (j * w + cur.length + rowrest.length)) outf w j (cur ++ rowrest)
            (wrap_cells w [] later) hKeep hlaid1
            (by rw [List.length_append]; omega) hLaidF hPadF
            (fun _ c h1 h2 => by rw [List.length_append] at h1; omega)
          have hfin := final_cons (cur ++ rowrest) hz hp
          rw [hwrap]
          refine ⟨jf, rf, pcf, tf, ff, outf, ncf, ?_, hLen.trans hout1len, ?_, hcomb.1, hcomb.2,
            hff0, hffw, hfin.1, hfin.2, hs, ?_, fun k c h => rows_padded_cons hKeep
              (fun c h1 h2 => by rw [List.length_append] at h1; omega)
              (fun k c => hPadAll k c h) k c⟩
          · rw [estep]
            exact hE
          · intro i hib
            rw [hKeep i (by omega), hbefore i (by omega)]
          · intro i hib
            rw [← hlat] at hAfter
            simp only [List.length_cons] at hib
            have e : (j + ((wrap_cells w [] later).length + 1)) * w =
                (j + 1 + (wrap_cells w [] later).length) * w := by ring
            rw [e] at hib
            have h1 : (j + 1) * w ≤ (j + 1 + (wrap_cells w [] later).length) * w :=
              Nat.mul_le_mul_right w (Nat.le_add_right _ _)
            rw [hAfter i hib, hafter i (by omega)]
        · -- the new line has room left: the next old line goes on in it
          rw [if_neg hfull] at estep
          rw [← List.length_append] at estep
          have hwrap : wrap_cells w cur (rowrest ++ later) =
              wrap_cells w (cur ++ rowrest) (stripped_row old old_cols (r + 1) ++
                paragraph_cells old old_cols (m - 1 - 1) (r + 1 + 1)) := by
            rw [wrap_cells_append w rowrest cur later (by omega), hlat]
          have hifle : (if cur ++ rowrest = [] then 0 else 1) ≤
              (if cur = [] then 0 else 1) + 2 * rowrest.length := by
            by_cases h1 : rowrest = []
            · rw [h1, List.append_nil]; omega
            · have : 0 < rowrest.length := List.length_pos.mpr h1
              split <;> omega
          obtain ⟨jf, rf, pcf, tf, ff, outf, ncf, hE, hLen, hKeep, hLaidF, hPadF, hff0, hffw, hz,
              hp, hs, hAfter, hPadAll⟩ :=
            ih (r + 1) pc1 0 (m - 1) j (cur ++ rowrest) (stripped_row old old_cols (r + 1))
              (paragraph_cells old old_cols (m - 1 - 1) (r + 1 + 1))
              (out.take (j * w + cur.length) ++ rowrest ++
                out.drop (j * w + cur.length + rowrest.length)) nc1
              (by omega) (by push_cast [Nat.cast_sub (show 1 ≤ m by omega)]; omega) (by omega)
              e1 le_rfl (by rw [hnextlen]; omega)
              (by rw [hnextlen]; exact hnext) (fun h => absurd h (lt_irrefl 0)) rfl
              (by rw [List.length_append]; omega) hlaid1
              (by rw [← hwrap, hout1len]; exact hroom)
              (by
                rw [← hlat]
                simp only [List.length_append] at hmeas ⊢
                omega)
          rw [hwrap]
          refine ⟨jf, rf, pcf, tf, ff, outf, ncf, ?_, hLen.trans hout1len, ?_, hLaidF, hPadF,
            hff0, hffw, hz, hp, hs, ?_, hPadAll⟩
          · rw [estep]
            exact hE
          · intro i hib
            rw [hKeep i hib, hbefore i (by omega)]
          · intro i hib
            rw [hAfter i hib]
            apply hafter i
            by_cases hemp : cur ++ (rowrest ++ later) = []
            · have h1 : cur = [] := (List.append_eq_nil.mp hemp).1
              have h2 : rowrest = [] :=
                (List.append_eq_nil.mp (List.append_eq_nil.mp hemp).2).1
              have h3 : j * w ≤
                  (j + (wrap_cells w (cur ++ rowrest) (stripped_row old old_cols (r + 1) ++
                    paragraph_cells old old_cols (m - 1 - 1) (r + 1 + 1))).length) * w :=
                Nat.mul_le_mul_right w (Nat.le_add_right _ _)
              rw [h1, h2] at h3 hib ⊢
              simp only [List.length_nil, add_zero]
              omega
            · have h1 := wrap_cells_ne_nil w (rowrest ++ later) cur hemp
              rw [hwrap] at h1
              have h2 : 1 ≤ (wrap_cells w (cur ++ rowrest) (stripped_row old old_cols (r + 1) ++
                  paragraph_cells old old_cols (m - 1 - 1) (r + 1 + 1))).length :=
                Nat.one_le_iff_ne_zero.mpr (by simpa using h1)
              have h3 : (j + 1) * w ≤
                  (j + (wrap_cells w (cur ++ rowrest) (stripped_row old old_cols (r + 1) ++
                    paragraph_cells old old_cols (m - 1 - 1) (r + 1 + 1))).length) * w :=
                Nat.mul_le_mul_right w (by omega)
              omega
    · -- the rest of the old line does not fit into the new line
      have hn1 : 1 ≤ w - cur.length := by omega
      have hnL : w - cur.length < rowrest.length := by omega
      have hne : cur ++ (rowrest ++ later) ≠ [] := by
        intro h
        have := (List.append_eq_nil.mp (List.append_eq_nil.mp h).2).1
        rw [this] at hnL
        simp at hnL
      have hroom1 := hrow1 hne
      have hjw1 : (j + 1) * w = j * w + w := by ring
      have hd : j * w + cur.length + (w - cur.length) ≤ out.length := by omega
      have hs2 : (r * old_cols + t).toNat + (w - cur.length) ≤ old.length := by omega
      have hxget : old[(r * old_cols + t).toNat + (w - cur.length)]? =
          rowrest[w - cur.length]? := by
        conv_rhs => rw [hrr]
        rw [List.getElem?_take_of_lt hnL, List.getElem?_drop]
      have hx : rowrest[w - cur.length]? = some rowrest[w - cur.length] :=
        List.getElem?_eq_getElem hnL
      have htake : (old.drop (r * old_cols + t).toNat).take (w - cur.length) =
          rowrest.take (w - cur.length) := by
        conv_rhs => rw [hrr]
        rw [take_drop_take _ _ _ _ (by omega)]
      have hout1len := memcpy_result_length out old (j * w + cur.length)
        (r * old_cols + t).toNat (w - cur.length) hd hs2
      obtain ⟨y, hy⟩ : ∃ y, (out.take (j * w + cur.length) ++
          (old.drop (r * old_cols + t).toNat).take (w - cur.length) ++
          out.drop (j * w + cur.length + (w - cur.length)))[j * w + w - 1]? = some y :=
        ⟨_, List.getElem?_eq_getElem (by rw [hout1len]; omega)⟩
      obtain ⟨nc1, estep⟩ := reflow_loop_splits old out old_cols hi nrs w ocur nc fuel j cur.length
        (w - cur.length) r pc0 t rowrest[w - cur.length] y (by omega) hcur (by omega) hsrc hd hs2
        (hxget.trans hx) hy
      have hbefore := memcpy_result_before out old (j * w + cur.length)
        (r * old_cols + t).toNat (w - cur.length) hd
      have hat := memcpy_result_at out old (j * w + cur.length) (r * old_cols + t).toNat
        (w - cur.length) hd hs2
      have hafter := memcpy_result_after out old (j * w + cur.length) (r * old_cols + t).toNat
        (w - cur.length) hd hs2
      generalize hout1 : out.take (j * w + cur.length) ++
          (old.drop (r * old_cols + t).toNat).take (w - cur.length) ++
          out.drop (j * w + cur.length + (w - cur.length)) = out1
        at estep hbefore hat hout1len hy hafter
      rw [htake] at hat
      have htl : (rowrest.take (w - cur.length)).length = w - cur.length := by
        rw [List.length_take]; omega
      have hlaid1 : ∀ c : Nat, c < (cur ++ rowrest.take (w - cur.length)).length →
          out1[j * w + c]? = (cur ++ rowrest.take (w - cur.length))[c]? := by
        intro c hcl
        by_cases hcc : c < cur.length
        · rw [hbefore _ (by omega), hlaid c hcc, List.getElem?_append_left hcc]
        · rw [List.length_append, htl] at hcl
          have e : j * w + c = j * w + cur.length + (c - cur.length) := by omega
          rw [e, hat _ (by omega), List.getElem?_append_right (by omega)]
      have hsplit : rowrest ++ later =
          rowrest.take (w - cur.length) ++ (rowrest.drop (w - cur.length) ++ later) := by
        rw [← List.append_assoc, List.take_append_drop]
      have hdropx : rowrest.drop (w - cur.length) =
          rowrest[w - cur.length] :: rowrest.drop (w - cur.length + 1) :=
        List.drop_eq_getElem_cons hnL
      have hidx : ∀ k : Nat, (r * old_cols + (t + (k : Int))).toNat =
          (r * old_cols + t).toNat + k := by
        intro k; omega
      by_cases hwc : rowrest[w - cur.length].char0 = WIDE_CONT
      · -- the split falls inside a wide glyph: back off by one cell
        rw [if_pos hwc] at estep
        have hbuf : bufAt old (r * old_cols + (t + ((w - cur.length : Nat) : Int))) =
            some rowrest[w - cur.length] := by
          have e : r * old_cols + (t + ((w - cur.length : Nat) : Int)) =
              (((r * old_cols + t).toNat + (w - cur.length) : Nat) : Int) := by
            push_cast; omega
          rw [e, bufAt_nat]
          exact hxget.trans hx
        have h2 : 2 ≤ w := by
          rcases hprog with h | h
          · exact h
          · exact absurd hwc (h r hlo (by omega) (t + ((w - cur.length : Nat) : Int)) (by omega)
              (by omega) _ hbuf)
        obtain ⟨k, hk⟩ : ∃ k, w - cur.length = k + 1 := ⟨w - cur.length - 1, by omega⟩
        have hkL : k < rowrest.length := by omega
        have hdropl : rowrest.drop k = rowrest[k] :: rowrest.drop (w - cur.length) := by
          rw [List.drop_eq_getElem_cons hkL, hk]
        have htakel : rowrest.take (w - cur.length) = rowrest.take k ++ [rowrest[k]] := by
          rw [hk, List.take_succ, List.getElem?_eq_getElem hkL]
          rfl
        have hinit : (cur ++ rowrest.take k).length + 1 = w := by
          rw [List.length_append, List.length_take]; omega
        have hwrap : wrap_cells w cur (rowrest ++ later) =
            (cur ++ rowrest.take k) :: wrap_cells w [] (rowrest.drop k ++ later) := by
          rw [hsplit, wrap_cells_append w _ cur _ (by rw [htl]; omega), hdropx, List.cons_append,
            htakel, ← List.append_assoc,
            wrap_cells_backoff w h2 (cur ++ rowrest.take k) rowrest[k] _ _ hinit hwc, hdropl,
            hdropx]
          rfl
        have hrr2 : rowrest.drop k =
            (old.drop (r * old_cols + (t + ((w - cur.length : Nat) : Int) - 1)).toNat).take
              (rowrest.drop k).length := by
          have e : (r * old_cols + (t + ((w - cur.length : Nat) : Int) - 1)).toNat =
              (r * old_cols + t).toNat + k := by omega
          rw [e, List.length_drop]
          conv_lhs => rw [hrr]
          rw [drop_take_drop]
        have hsetlen : (out1.set (j * w + w - 1) (clearcell y)).length =
            out.length := by
          rw [List.length_set]; exact hout1len
        obtain ⟨jf, rf, pcf, tf, ff, outf, ncf, hE, hLen, hKeep, hLaidF, hPadF, hff0, hffw, hz,
            hp, hs, hAfter, hPadAll⟩ :=
          ih r pc0 (t + ((w - cur.length : Nat) : Int) - 1) m (j + 1) [] (rowrest.drop k) later
            (out1.set (j * w + w - 1) (clearcell y)) nc1
            hlo hm hmpos hpop (by omega)
            (by rw [List.length_drop]; push_cast [Nat.cast_sub (le_of_lt hkL)]; omega)
            hrr2 (fun _ h => absurd (List.drop_eq_nil_iff.mp h) (by omega)) hlater
            (by simpa using hw) (fun c hcl => absurd hcl (Nat.not_lt_zero c))
            (by
              rw [hsetlen]
              rw [hwrap] at hroom
              simp only [List.length_cons] at hroom
              have e : j + 1 + (wrap_cells w [] (rowrest.drop k ++ later)).length =
                  j + ((wrap_cells w [] (rowrest.drop k ++ later)).length + 1) := by omega
              rw [e]; exact hroom)
            (by
              simp only [List.length_append, List.length_drop, if_true] at hmeas ⊢
              have hcn : cur ≠ [] ∨ 2 ≤ w - cur.length := by
                by_cases hce : cur = []
                · right; rw [hce]; simpa using h2
                · left; exact hce
              rcases hcn with hcn | hcn
              · rw [if_neg hcn] at hmeas; omega
              · split at hmeas <;> omega)
        have hcomb := @rows_laid_cons (out1.set (j * w + w - 1) (clearcell y)) outf w j
          (cur ++ rowrest.take k) (wrap_cells w [] (rowrest.drop k ++ later)) hKeep
          (by
            intro c hcl
            have hcl2 : c < w - 1 := by omega
            rw [List.getElem?_set_ne (by omega), hlaid1 c (by
              rw [List.length_append, htl]; omega), htakel, ← List.append_assoc,
              List.getElem?_append_left hcl])
          (by omega) hLaidF hPadF
          (by
            intro _ c hc1 hc2
            have hcw : c = w - 1 := by omega
            subst hcw
            refine ⟨clearcell y, ?_, clearcell_char0 _⟩
            have e : j * w + (w - 1) = j * w + w - 1 := by omega
            rw [e, List.getElem?_set_eq_of_lt _ (by rw [hout1len]; omega)])
        have hfin := final_cons (cur ++ rowrest.take k) hz hp
        rw [hwrap]
        refine ⟨jf, rf, pcf, tf, ff, outf, ncf, ?_, hLen.trans hsetlen, ?_, hcomb.1, hcomb.2,
          hff0, hffw, hfin.1, hfin.2, hs, ?_, fun k c h => rows_padded_cons hKeep (by
            intro c hc1 hc2
            have hcw : c = w - 1 := by omega
            subst hcw
            refine ⟨clearcell y, ?_, clearcell_char0 _⟩
            have e : j * w + (w - 1) = j * w + w - 1 := by omega
            rw [e, List.getElem?_set_eq_of_lt _ (by rw [hout1len]; omega)])
            (fun k c => hPadAll k c h) k c⟩
        · rw [estep]
          exact hE
        · intro i hib
          rw [hKeep i (by omega), List.getElem?_set_ne (by omega), hbefore i (by omega)]
        · intro i hib
          simp only [List.length_cons] at hib
          have e : (j + ((wrap_cells w [] (rowrest.drop k ++ later)).length + 1)) * w =
              (j + 1 + (wrap_cells w [] (rowrest.drop k ++ later)).length) * w := by ring
          rw [e] at hib
          have h1 : (j + 1) * w ≤
              (j + 1 + (wrap_cells w [] (rowrest.drop k ++ later)).length) * w :=
            Nat.mul_le_mul_right w (Nat.le_add_right _ _)
          rw [hAfter i hib, List.getElem?_set_ne (after_line hcur (le_trans h1 hib)).2,
            hafter i (after_line hcur (le_trans h1 hib)).1]
      · -- the next new line starts with the next cell of the old line
        rw [if_neg hwc] at estep
        have hwrap : wrap_cells w cur (rowrest ++ later) =
            (cur ++ rowrest.take (w - cur.length)) ::
              wrap_cells w [] (rowrest.drop (w - cur.length) ++ later) := by
          rw [hsplit, wrap_cells_append w _ cur _ (by rw [htl]; omega)]
          apply wrap_cells_full w hw
          · rw [List.length_append, htl]; omega
          · intro z hz
            rw [hdropx] at hz
            simp only [List.cons_append, List.head?_cons, Option.some.injEq] at hz
            rw [← hz]
            exact hwc
        have hrr2 : rowrest.drop (w - cur.length) =
            (old.drop (r * old_cols + (t + ((w - cur.length : Nat) : Int))).toNat).take
              (rowrest.drop (w - cur.length)).length := by
          rw [hidx, List.length_drop]
          conv_lhs => rw [hrr]
          rw [drop_take_drop]
        obtain ⟨jf, rf, pcf, tf, ff, outf, ncf, hE, hLen, hKeep, hLaidF, hPadF, hff0, hffw, hz,
            hp, hs, hAfter, hPadAll⟩ :=
          ih r pc0 (t + ((w - cur.length : Nat) : Int)) m (j + 1) []
            (rowrest.drop (w - cur.length)) later out1 nc1
            hlo hm hmpos hpop (by omega)
            (by rw [List.length_drop]; push_cast [Nat.cast_sub (le_of_lt hnL)]; omega)
            hrr2 (fun _ h => absurd (List.drop_eq_nil_iff.mp h) (by omega)) hlater
            (by simpa using hw) (fun c hcl => absurd hcl (Nat.not_lt_zero c))
            (by
              rw [hout1len]
              rw [hwrap] at hroom
              simp only [List.length_cons] at hroom
              have e : j + 1 + (wrap_cells w [] (rowrest.drop (w - cur.length) ++ later)).length =
                  j + ((wrap_cells w [] (rowrest.drop (w - cur.length) ++ later)).length + 1) := by
                omega
              rw [e]; exact hroom)
            (by
              simp only [List.length_append, List.length_drop, if_true] at hmeas ⊢
              omega)
        have hcomb := @rows_laid_cons out1 outf w j (cur ++ rowrest.take (w - cur.length))
          (wrap_cells w [] (rowrest.drop (w - cur.length) ++ later)) hKeep hlaid1
          (by rw [List.length_append, htl]; omega) hLaidF hPadF
          (fun _ c h1 h2 => by rw [List.length_append, htl] at h1; omega)
        have hfin := final_cons (cur ++ rowrest.take (w - cur.length)) hz hp
        rw [hwrap]
        refine ⟨jf, rf, pcf, tf, ff, outf, ncf, ?_, hLen.trans hout1len, ?_, hcomb.1, hcomb.2,
          hff0, hffw, hfin.1, hfin.2, hs, ?_, fun k c h => rows_padded_cons hKeep
            (fun c h1 h2 => by rw [List.length_append, htl] at h1; omega)
            (fun k c => hPadAll k c h) k c⟩
        · rw [estep]
          exact hE
        · intro i hib
          rw [hKeep i (by omega), hbefore i (by omega)]
        · intro i hib
          simp only [List.length_cons] at hib
          have e : (j + ((wrap_cells w [] (rowrest.drop (w - cur.length) ++ later)).length + 1)) *
              w = (j + 1 + (wrap_cells w [] (rowrest.drop (w - cur.length) ++ later)).length) *
              w := by ring
          rw [e] at hib
          have h1 : (j + 1) * w ≤
              (j + 1 + (wrap_cells w [] (rowrest.drop (w - cur.length) ++ later)).length) * w :=
            Nat.mul_le_mul_right w (Nat.le_add_right _ _)
          rw [hAfter i hib, hafter i (after_line hcur (le_trans h1 hib)).1]

/-- The rows of `wrap_cells` hold the cells in their order. -/
theorem wrap_cells_join (w : Nat) : ∀ (rest cur : List ScreenCell),
    (wrap_cells w cur rest).flatten = cur ++ rest
  | [], cur => by
    by_cases h : cur = []
    · simp [wrap_cells, h]
    · simp [wrap_cells, h]
  | x :: xs, cur => by
    rw [wrap_cells]
    split_ifs with h1 h2
    · rw [wrap_cells_join w xs]; simp
    · rw [List.flatten_cons, wrap_cells_join w xs, List.dropLast_eq_take, List.append_assoc,
        ← List.append_assoc (List.take _ _), List.take_append_drop]
      rfl
    · rw [List.flatten_cons, wrap_cells_join w xs]; simp

theorem ceil_step (n w : Nat) (hw : 0 < w) : (w + n + w - 1) / w = (n + w - 1) / w + 1 := by
  have : w + n + w - 1 = (n + w - 1) + w := by omega
  rw [this, Nat.add_div_right _ hw]

/-- Without the trailing half of a wide glyph among the cells to come, the rows
of `wrap_cells` are the cells cut into pieces of `w`. -/
theorem wrap_cells_chunks (w : Nat) (hw : 0 < w) : ∀ (rest cur : List ScreenCell),
    cur.length ≤ w → (∀ x ∈ rest, x.char0 ≠ WIDE_CONT) →
    (wrap_cells w cur rest).length = ((cur ++ rest).length + w - 1) / w ∧
    ∀ k, k < (wrap_cells w cur rest).length →
      (wrap_cells w cur rest).getD k [] = ((cur ++ rest).drop (k * w)).take w
  | [], cur, hcur, _ => by
    by_cases h : cur = []
    · subst h
      simp only [wrap_cells, if_true, List.length_nil, List.append_nil, Nat.zero_add]
      exact ⟨(Nat.div_eq_of_lt (by omega)).symm, fun k hk => absurd hk (Nat.not_lt_zero k)⟩
    · have hpos : 0 < cur.length := List.length_pos.mpr h
      simp only [wrap_cells, if_neg h, List.length_singleton, List.append_nil]
      refine ⟨(Nat.div_eq_of_lt_le (by omega) (by omega)).symm, ?_⟩
      intro k hk
      have : k = 0 := by omega
      subst this
      simp [List.take_of_length_le hcur]
  | x :: xs, cur, hcur, hfree => by
    have hx : x.char0 ≠ WIDE_CONT := hfree x (List.mem_cons_self _ _)
    have hxs : ∀ y ∈ xs, y.char0 ≠ WIDE_CONT := fun y hy => hfree y (List.mem_cons_of_mem _ hy)
    by_cases hlt : cur.length < w
    · rw [wrap_cells, if_pos hlt]
      have e : cur ++ x :: xs = (cur ++ [x]) ++ xs := by simp
      rw [e]
      exact wrap_cells_chunks w hw xs (cur ++ [x]) (by simp; omega) hxs
    · have hfull : cur.length = w := by omega
      rw [wrap_cells, if_neg hlt, if_neg hx]
      obtain ⟨h1, h2⟩ := wrap_cells_chunks w hw xs [x] (by simpa using hw) hxs
      constructor
      · rw [List.length_cons, h1]
        simp only [List.length_append, List.length_cons, List.length_nil, hfull]
        rw [← ceil_step _ w hw]
        congr 1
        omega
      · intro k hk
        cases k with
        | zero =>
          simp only [List.getD_cons_zero, Nat.zero_mul, List.drop_zero]
          rw [List.take_append_of_le_length (by omega), List.take_of_length_le (by omega)]
        | succ k =>
          simp only [List.getD_cons_succ]
          rw [h2 k (by simpa using hk)]
          have e : (k + 1) * w = cur.length + k * w := by rw [hfull]; ring
          rw [e, List.drop_append]
          rfl

theorem stripped_row_length {old : List ScreenCell} {old_cols row pc : Int} (hc : 0 ≤ old_cols)
    (hr : 0 ≤ row) (hb : (row + 1) * old_cols ≤ old.length)
    (h : line_popcount old row old_cols = some pc) :
    (stripped_row old old_cols row).length = pc.toNat := by
  obtain ⟨n, e, a1, a2, -, -⟩ := line_popcount_spec hc hr hb
  rw [h] at e
  cases e
  have h1 : 0 ≤ row * old_cols := mul_nonneg hr hc
  have h2 : (row + 1) * old_cols = row * old_cols + old_cols := by ring
  rw [stripped_row_eq h, List.length_take, List.length_drop]
  omega

/-- A cell of a stripped row is the cell of the old buffer in its column. -/
theorem stripped_row_get {old : List ScreenCell} {old_cols row : Int} (hc : 0 ≤ old_cols)
    (hr : 0 ≤ row) (hb : (row + 1) * old_cols ≤ old.length) (i : Nat) (x : ScreenCell)
    (h : (stripped_row old old_cols row)[i]? = some x) :
    (i : Int) < old_cols ∧ bufAt old (row * old_cols + (i : Int)) = some x := by
  obtain ⟨pc, e, a1, a2, -, -⟩ := line_popcount_spec hc hr hb
  rw [stripped_row_eq e, List.getElem?_take] at h
  by_cases hi : i < pc.toNat
  · rw [if_pos hi, List.getElem?_drop] at h
    have h0 : 0 ≤ row * old_cols := mul_nonneg hr hc
    refine ⟨by omega, ?_⟩
    have : row * old_cols + (i : Int) = (((row * old_cols).toNat + i : Nat) : Int) := by
      push_cast; omega
    rw [this, bufAt_nat]
    exact h
  · rw [if_neg hi] at h
    cases h

/-- Rows without the trailing half of a wide glyph give a paragraph without
one. -/
theorem paragraph_free {old : List ScreenCell} {old_cols lo hi : Int} (hc : 0 ≤ old_cols)
    (hrows : ∀ r, lo ≤ r → r ≤ hi → 0 ≤ r ∧ (r + 1) * old_cols ≤ old.length)
    (hfree : ∀ r, lo ≤ r → r ≤ hi → ∀ c, 0 ≤ c → c < old_cols →
      ∀ x, bufAt old (r * old_cols + c) = some x → x.char0 ≠ WIDE_CONT) :
    ∀ (m : Nat) (r : Int), lo ≤ r → r + (m : Int) ≤ hi + 1 →
      ∀ x ∈ paragraph_cells old old_cols m r, x.char0 ≠ WIDE_CONT
  | 0, _, _, _, x, hx => by simp [paragraph_cells] at hx
  | m + 1, r, h1, h2, x, hx => by
    rw [paragraph_cells, List.mem_append] at hx
    push_cast at h2
    rcases hx with hx | hx
    · obtain ⟨i, hi⟩ := List.mem_iff_getElem?.mp hx
      have hr := hrows r h1 (by omega)
      obtain ⟨b1, b2⟩ := stripped_row_get hc hr.1 hr.2 i x hi
      exact hfree r h1 (by omega) i (by omega) b1 x b2
    · exact paragraph_free hc hrows hfree m (r + 1) (by omega) (by omega) x hx

/-- The paragraph has as many cells as `line_popcount` counts in its rows. -/
theorem paragraph_cells_length {old : List ScreenCell} {old_cols lo hi : Int} (hc : 0 ≤ old_cols)
    (hrows : ∀ r, lo ≤ r → r ≤ hi → 0 ≤ r ∧ (r + 1) * old_cols ≤ old.length) :
    ∀ (m : Nat) (r : Int), lo ≤ r → r + (m : Int) ≤ hi + 1 →
      ((paragraph_cells old old_cols m r).length : Int) = paragraph_popcount old old_cols m r
  | 0, _, _, _ => rfl
  | m + 1, r, h1, h2 => by
    push_cast at h2
    have hr := hrows r h1 (by omega)
    obtain ⟨pc, e, a1, a2, -, -⟩ := line_popcount_spec hc hr.1 hr.2
    rw [paragraph_cells, paragraph_popcount, List.length_append, Nat.cast_add,
      paragraph_cells_length hc hrows m (r + 1) (by omega) (by omega),
      stripped_row_length hc hr.1 hr.2 e, e]
    simp only [Option.getD_some]
    omega

theorem widePaired_nil : WidePaired [] := by
  intro i x hx
  simp at hx

theorem widePaired_head {l : List ScreenCell} (h : WidePaired l) (y : ScreenCell)
    (hy : l[0]? = some y) : y.char0 ≠ WIDE_CONT := by
  intro hwc
  obtain ⟨j, _, e, _, _⟩ := h 0 y hy hwc
  omega

theorem widePaired_drop {l : List ScreenCell} (h : WidePaired l) (n : Nat)
    (hn : ∀ y, l[n]? = some y → y.char0 ≠ WIDE_CONT) : WidePaired (l.drop n) := by
  intro i x hx hwc
  rw [List.getElem?_drop] at hx
  obtain ⟨j, y, e, hy, hyn⟩ := h (n + i) x hx hwc
  cases i with
  | zero => exact absurd hwc (hn x hx)
  | succ i =>
    refine ⟨i, y, rfl, ?_, hyn⟩
    rw [List.getElem?_drop]
    have : j = n + i := by omega
    rw [← this]
    exact hy

theorem widePaired_append {a b : List ScreenCell} (ha : WidePaired a) (hb : WidePaired b) :
    WidePaired (a ++ b) := by
  intro i x hx hwc
  by_cases hi : i < a.length
  · rw [List.getElem?_append_left hi] at hx
    obtain ⟨j, y, e, hy, hyn⟩ := ha i x hx hwc
    exact ⟨j, y, e, by rw [List.getElem?_append_left (by omega)]; exact hy, hyn⟩
  · rw [List.getElem?_append_right (by omega)] at hx
    obtain ⟨j, y, e, hy, hyn⟩ := hb _ x hx hwc
    refine ⟨a.length + j, y, by omega, ?_, hyn⟩
    rw [List.getElem?_append_right (by omega)]
    have : a.length + j - a.length = j := by omega
    rw [this]
    exact hy

/-- In a row of the old buffer whose wide glyphs are whole, the stripped row
has them whole. -/
theorem stripped_row_paired {old : List ScreenCell} {old_cols row : Int} (hc : 0 ≤ old_cols)
    (hr : 0 ≤ row) (hb : (row + 1) * old_cols ≤ old.length)
    (hp : ∀ c, 0 ≤ c → c < old_cols → ∀ x, bufAt old (row * old_cols + c) = some x →
      x.char0 = WIDE_CONT →
      0 < c ∧ ∀ y, bufAt old (row * old_cols + (c - 1)) = some y → y.char0 ≠ WIDE_CONT) :
    WidePaired (stripped_row old old_cols row) := by
  intro i x hx hwc
  obtain ⟨b1, b2⟩ := stripped_row_get hc hr hb i x hx
  obtain ⟨hpos, hy⟩ := hp i (by omega) b1 x b2 hwc
  obtain ⟨j, rfl⟩ : ∃ j, i = j + 1 := ⟨i - 1, by omega⟩
  have hlen : j < (stripped_row old old_cols row).length := by
    have := (List.getElem?_eq_some.mp hx).1
    omega
  obtain ⟨y, hyj⟩ : ∃ y, (stripped_row old old_cols row)[j]? = some y :=
    ⟨_, List.getElem?_eq_getElem hlen⟩
  refine ⟨j, y, rfl, hyj, ?_⟩
  obtain ⟨-, c2⟩ := stripped_row_get hc hr hb j y hyj
  apply hy
  have : row * old_cols + (((j + 1 : Nat) : Int) - 1) = row * old_cols + (j : Int) := by
    push_cast; ring
  rw [this]
  exact c2

/-- Rows whose wide glyphs are whole give a paragraph whose wide glyphs are
whole. -/
theorem paragraph_paired {old : List ScreenCell} {old_cols lo hi : Int} (hc : 0 ≤ old_cols)
    (hrows : ∀ r, lo ≤ r → r ≤ hi → 0 ≤ r ∧ (r + 1) * old_cols ≤ old.length)
    (hp : ∀ r, lo ≤ r → r ≤ hi → ∀ c, 0 ≤ c → c < old_cols →
      ∀ x, bufAt old (r * old_cols + c) = some x → x.char0 = WIDE_CONT →
      0 < c ∧ ∀ y, bufAt old (r * old_cols + (c - 1)) = some y → y.char0 ≠ WIDE_CONT) :
    ∀ (m : Nat) (r : Int), lo ≤ r → r + (m : Int) ≤ hi + 1 →
      WidePaired (paragraph_cells old old_cols m r)
  | 0, _, _, _ => widePaired_nil
  | m + 1, r, h1, h2 => by
    push_cast at h2
    have hr := hrows r h1 (by omega)
    rw [paragraph_cells]
    exact widePaired_append (stripped_row_paired hc hr.1 hr.2 (hp r h1 (by omega)))
      (paragraph_paired hc hrows hp m (r + 1) (by omega) (by omega))

/-- The first row of `wrap_cells` begins with the cells the current line
holds, unless the line is full and a trailing half comes next. -/
theorem wrap_cells_first (w : Nat) : ∀ (rest cur : List ScreenCell), cur ≠ [] → cur.length ≤ w →
    (cur.length = w → ∀ x, rest.head? = some x → x.char0 ≠ WIDE_CONT) →
    ∃ t rows, wrap_cells w cur rest = (cur ++ t) :: rows
  | [], cur, hne, _, _ => ⟨[], [], by simp [wrap_cells, hne]⟩
  | x :: xs, cur, hne, hle, hnext => by
    by_cases hlt : cur.length < w
    · rw [wrap_cells, if_pos hlt]
      by_cases hcond : (cur ++ [x]).length = w → ∀ y, xs.head? = some y → y.char0 ≠ WIDE_CONT
      · obtain ⟨t, rows, e⟩ := wrap_cells_first w xs (cur ++ [x]) (by simp)
          (by simp only [List.length_append, List.length_singleton]; omega) hcond
        exact ⟨x :: t, rows, by rw [e]; simp⟩
      · push_neg at hcond
        obtain ⟨hfull, y, hy, hwc⟩ := hcond
        cases xs with
        | nil => simp at hy
        | cons z zs =>
          simp only [List.head?_cons, Option.some.injEq] at hy
          subst hy
          rw [wrap_cells, if_neg (by omega), if_pos hwc]
          exact ⟨[], wrap_cells w ((cur ++ [x]).drop ((cur ++ [x]).length - 1) ++ [z]) zs,
            by simp⟩
    · have hfull : cur.length = w := by omega
      rw [wrap_cells, if_neg hlt, if_neg (hnext hfull x rfl)]
      exact ⟨[], wrap_cells w [x] xs, by simp⟩

/-- When the wide glyphs of the cells are whole and a line has room for one,
every row of `wrap_cells` begins with a cell that is not a trailing half, and
a row that is not the last is full, or is one cell short in front of a row
that begins with a wide glyph. -/
theorem wrap_cells_paired (w : Nat) (hw : 2 ≤ w) : ∀ (rest cur : List ScreenCell),
    cur.length ≤ w → WidePaired (cur ++ rest) →
    (∀ row ∈ wrap_cells w cur rest,
      row.length ≤ w ∧ ∃ y ys, row = y :: ys ∧ y.char0 ≠ WIDE_CONT) ∧
    (∀ k, k + 1 < (wrap_cells w cur rest).length →
      ((wrap_cells w cur rest).getD k []).length = w ∨
      (((wrap_cells w cur rest).getD k []).length + 1 = w ∧
        ∃ y x ys, (wrap_cells w cur rest).getD (k + 1) [] = y :: x :: ys ∧
          x.char0 = WIDE_CONT))
  | [], cur, hle, hp => by
    by_cases h : cur = []
    · subst h
      simp [wrap_cells]
    · simp only [wrap_cells, if_neg h, List.mem_singleton, List.length_singleton]
      refine ⟨?_, fun k hk => absurd hk (by omega)⟩
      intro row hrow
      subst hrow
      refine ⟨hle, ?_⟩
      cases row with
      | nil => exact absurd rfl h
      | cons y ys => exact ⟨y, ys, rfl, widePaired_head hp y (by simp)⟩
  | x :: xs, cur, hle, hp => by
    by_cases hlt : cur.length < w
    · rw [wrap_cells, if_pos hlt]
      have e : cur ++ x :: xs = (cur ++ [x]) ++ xs := by simp
      rw [e] at hp
      exact wrap_cells_paired w hw xs (cur ++ [x])
        (by simp only [List.length_append, List.length_singleton]; omega) hp
    · have hfull : cur.length = w := by omega
      obtain ⟨init, l, rfl⟩ : ∃ init l, cur = init ++ [l] := by
        rcases List.eq_nil_or_concat cur with h | ⟨init, l, h⟩
        · rw [h] at hfull
          simp at hfull
          omega
        · exact ⟨init, l, by rw [h, List.concat_eq_append]⟩
      have hinit : init.length + 1 = w := by simpa using hfull
      obtain ⟨y0, ys0, hy0⟩ : ∃ y ys, init = y :: ys := by
        cases init with
        | nil => simp at hinit; omega
        | cons a b => exact ⟨a, b, rfl⟩
      have hhead : y0.char0 ≠ WIDE_CONT := widePaired_head hp y0 (by rw [hy0]; simp)
      have hxat : (init ++ [l] ++ x :: xs)[init.length + 1]? = some x := by
        rw [List.getElem?_append_right (by simp)]
        simp
      have hlat : (init ++ [l] ++ x :: xs)[init.length]? = some l := by
        rw [List.append_assoc, List.getElem?_append_right le_rfl]
        simp
      have e1 : (init ++ [l]).dropLast = init := by simp
      have e2 : (init ++ [l]).drop ((init ++ [l]).length - 1) ++ [x] = [l, x] := by simp
      have d1 : (init ++ [l] ++ x :: xs).drop init.length = [l, x] ++ xs := by simp
      have d2 : (init ++ [l] ++ x :: xs).drop (init.length + 1) = [x] ++ xs := by
        rw [List.drop_append_eq_append_drop]
        simp
      by_cases hwc : x.char0 = WIDE_CONT
      · rw [wrap_cells, if_neg hlt, if_pos hwc, e1, e2]
        have hl : l.char0 ≠ WIDE_CONT := by
          obtain ⟨j, y, e, hy, hyn⟩ := hp (init.length + 1) x hxat hwc
          have : j = init.length := by omega
          subst this
          rw [hlat] at hy
          cases hy
          exact hyn
        have hp2 : WidePaired ([l, x] ++ xs) := by
          rw [← d1]
          exact widePaired_drop hp init.length (fun y hy => by
            rw [hlat] at hy
            cases hy
            exact hl)
        obtain ⟨ih1, ih2⟩ := wrap_cells_paired w hw xs [l, x] (by simpa using hw) hp2
        have hcond : [l, x].length = w → ∀ z, xs.head? = some z → z.char0 ≠ WIDE_CONT := by
          intro _ z hz hzwc
          have hzat : ([l, x] ++ xs)[2]? = some z := by
            rw [List.getElem?_append_right (by simp)]
            simpa [List.head?_eq_getElem?] using hz
          obtain ⟨j, y, e, hy, hyn⟩ := hp2 2 z hzat hzwc
          have : j = 1 := by omega
          subst this
          simp at hy
          rw [← hy] at hyn
          exact hyn hwc
        obtain ⟨t, rows, hfirst⟩ := wrap_cells_first w xs [l, x] (by simp) (by simpa using hw)
          hcond
        constructor
        · intro row hrow
          rcases List.mem_cons.mp hrow with h | h
          · rw [h]
            exact ⟨by omega, y0, ys0, hy0, hhead⟩
          · exact ih1 row h
        · intro k hk
          cases k with
          | zero =>
            right
            simp only [List.getD_cons_zero, List.getD_cons_succ]
            refine ⟨hinit, l, x, t, ?_, hwc⟩
            rw [hfirst]
            rfl
          | succ k =>
            simp only [List.getD_cons_succ]
            exact ih2 k (by simpa using hk)
      · rw [wrap_cells, if_neg hlt, if_neg hwc]
        have hp3 : WidePaired ([x] ++ xs) := by
          rw [← d2]
          exact widePaired_drop hp (init.length + 1) (fun y hy => by
            rw [hxat] at hy
            cases hy
            exact hwc)
        obtain ⟨ih1, ih2⟩ := wrap_cells_paired w hw xs [x] (by simp; omega) hp3
        constructor
        · intro row hrow
          rcases List.mem_cons.mp hrow with h | h
          · rw [h]
            exact ⟨hle, y0, ys0 ++ [l], by rw [hy0]; rfl, hhead⟩
          · exact ih1 row h
        · intro k hk
          cases k with
          | zero =>
            left
            simpa using hinit
          | succ k =>
            simp only [List.getD_cons_succ]
            exact ih2 k (by simpa using hk)

/-- The end of `reflow_line`, run on lines that hold the rows with cells in
the last of them, blanks the rest of the last line and touches nothing
else. -/
theorem reflow_finish_spec {w : Nat} {rows : List (List ScreenCell)} {outf last : List ScreenCell}
    (rf pcf tf jf : Int) (ncf : VTermPos)
    (hlast : rows.getLast? = some last) (hpos : 0 < last.length)
    (hle : ∀ row ∈ rows, row.length ≤ w) (hjf : jf + 1 = (rows.length : Int))
    (hroom : rows.length * w ≤ outf.length)
    (hLaid : RowsLaid outf w 0 rows) (hPad : RowsPadded outf w 0 rows (rows.length - 1)) :
    ∃ out1, reflow_finish (w : Int) 0
        { new_row := jf, old_row := rf, old_line_cells := pcf, old_line_taken := tf
          new_line_filled := (last.length : Int), out_buffer := some outf
          new_cursor := some ncf } = some (some out1) ∧
      out1.length = outf.length ∧ RowsLaid out1 w 0 rows ∧
      RowsPadded out1 w 0 rows rows.length ∧
      ∀ i, rows.length * w ≤ i → out1[i]? = outf[i]? := by
  have hne : rows ≠ [] := by
    intro h
    rw [h] at hlast
    simp at hlast
  have hR : 0 < rows.length := List.length_pos.mpr hne
  have hgl : rows.getD (rows.length - 1) [] = last := by
    rw [List.getD_eq_getElem?_getD, ← List.getLast?_eq_getElem?, hlast]
    rfl
  have hlw : last.length ≤ w := hle last (List.mem_of_mem_getLast? hlast)
  have hrowle : ∀ k, k < rows.length → (rows.getD k []).length ≤ w := by
    intro k hk
    rw [List.getD_eq_getElem?_getD, List.getElem?_eq_getElem hk]
    exact hle _ (List.getElem_mem _)
  have hbw : (rows.length - 1) * w + w = rows.length * w := by
    have : rows.length = (rows.length - 1) + 1 := by omega
    conv_rhs => rw [this, Nat.add_mul, Nat.one_mul]
  have hlt : ∀ k, k < rows.length - 1 → (k + 1) * w ≤ (rows.length - 1) * w :=
    fun k hk => Nat.mul_le_mul_right w (by omega)
  obtain ⟨out1, e, hl, hkeep, hclr⟩ := clear_loop_spec ((rows.length - 1) * w)
    (w - last.length) last.length outf (by omega)
  have hbase : (jf - 0) * (w : Int) = (((rows.length - 1) * w : Nat) : Int) := by
    have : jf = ((rows.length - 1 : Nat) : Int) := by omega
    rw [this]
    push_cast
    ring
  have hn : ((w : Int) - (last.length : Int)).toNat = w - last.length := by omega
  refine ⟨out1, ?_, hl, ?_, ?_, ?_⟩
  · unfold reflow_finish
    simp only []
    rw [if_pos (by omega), if_pos (by omega), hbase, hn, e]
    rfl
  · intro k c hk hc
    rw [← hLaid k c hk hc]
    apply hkeep
    left
    rw [Nat.zero_add]
    by_cases hk2 : k < rows.length - 1
    · have h1 := hlt k hk2
      have h2 := hrowle k hk
      have h3 : (k + 1) * w = k * w + w := by ring
      omega
    · have : k = rows.length - 1 := by omega
      subst this
      rw [hgl] at hc
      omega
  · intro k c hk hc hcw
    by_cases hk2 : k < rows.length - 1
    · obtain ⟨x, hx, hz⟩ := hPad k c hk2 hc hcw
      refine ⟨x, ?_, hz⟩
      rw [← hx]
      apply hkeep
      left
      have h1 := hlt k hk2
      have h3 : (k + 1) * w = k * w + w := by ring
      simp only [Nat.zero_add]
      omega
    · have : k = rows.length - 1 := by omega
      subst this
      rw [hgl] at hc
      obtain ⟨x, hx, hz⟩ := hclr (c - last.length) (by omega)
      refine ⟨x, ?_, hz⟩
      rw [← hx]
      congr 1
      simp only [Nat.zero_add]
      omega
  · intro i hi
    apply hkeep
    right
    omega

theorem rows_in_buffer {old : List ScreenCell} {old_cols lo hi : Int} (hc : 0 ≤ old_cols)
    (h0 : 0 ≤ lo) (hb : (hi + 1) * old_cols ≤ old.length) :
    ∀ r, lo ≤ r → r ≤ hi → 0 ≤ r ∧ (r + 1) * old_cols ≤ old.length := by
  intro r h1 h2
  exact ⟨by omega, le_trans (mul_le_mul_of_nonneg_right (by omega) hc) hb⟩

/-- `reflow_line`, run with an output buffer that has room and with both cursor
pointers set, returns, lays out the rows the spec asks for, blanks the rest of
each line that holds a row, and leaves the cells after these lines alone.  It
reports the last of these lines, or the line after them when the paragraph
ends in a blank row and the cells before it fill their lines. -/
theorem reflow_line_spec {old out : List ScreenCell} {old_cols lo hi nrs : Int} {w fuel : Nat}
    {ocur nc : VTermPos} (hc : 0 ≤ old_cols) (hw : 0 < w) (h0 : 0 ≤ lo) (h1 : lo ≤ hi)
    (hb : (hi + 1) * old_cols ≤ old.length)
    (hcol0 : ∀ r, lo ≤ r → r ≤ hi → ∀ x, 0 < old_cols → bufAt old (r * old_cols) = some x →
      x.char0 ≠ WIDE_CONT)
    (hprog : 2 ≤ w ∨ ∀ r, lo ≤ r → r ≤ hi → ∀ c, 0 ≤ c → c < old_cols →
      ∀ x, bufAt old (r * old_cols + c) = some x → x.char0 ≠ WIDE_CONT)
    (hle : ∀ row ∈ wrap_cells w [] (paragraph_cells old old_cols (hi - lo + 1).toNat lo),
      row.length ≤ w)
    (hroom : (wrap_cells w [] (paragraph_cells old old_cols (hi - lo + 1).toNat lo)).length * w ≤
      out.length)
    (hfuel : 2 * (paragraph_cells old old_cols (hi - lo + 1).toNat lo).length +
      (hi - lo + 1).toNat < fuel) :
    ∃ rect outf ncf,
      reflow_line fuel old lo hi old_cols (w : Int) (some out) 0 (some ocur) (some nc) nrs =
        some (rect, some outf, some ncf) ∧
      outf.length = out.length ∧
      RowsLaid outf w 0 (wrap_cells w [] (paragraph_cells old old_cols (hi - lo + 1).toNat lo)) ∧
      RowsPadded outf w 0 (wrap_cells w [] (paragraph_cells old old_cols (hi - lo + 1).toNat lo))
        (wrap_cells w [] (paragraph_cells old old_cols (hi - lo + 1).toNat lo)).length ∧
      (∀ i, (wrap_cells w [] (paragraph_cells old old_cols (hi - lo + 1).toNat lo)).length * w ≤ i →
        outf[i]? = out[i]?) ∧
      ((rect.row = ((wrap_cells w [] (paragraph_cells old old_cols
            (hi - lo + 1).toNat lo)).length : Int) ∧ rect.col = 0 ∧
          stripped_row old old_cols hi = []) ∨
        (∃ last, (wrap_cells w [] (paragraph_cells old old_cols
            (hi - lo + 1).toNat lo)).getLast? = some last ∧
          rect.row + 1 = ((wrap_cells w [] (paragraph_cells old old_cols
            (hi - lo + 1).toNat lo)).length : Int) ∧
          rect.col + 1 = (last.length : Int))) := by
  have hrows := rows_in_buffer hc h0 hb
  obtain ⟨m1, hm1⟩ : ∃ m1, (hi - lo + 1).toNat = m1 + 1 := ⟨(hi - lo).toNat, by omega⟩
  have hr := hrows lo le_rfl h1
  obtain ⟨pc, e, p1, p2, -, -⟩ := line_popcount_spec hc hr.1 hr.2
  have hslen := stripped_row_length hc hr.1 hr.2 e
  have hpara : paragraph_cells old old_cols (hi - lo + 1).toNat lo =
      stripped_row old old_cols lo ++ paragraph_cells old old_cols ((hi - lo + 1).toNat - 1)
        (lo + 1) := by
    rw [hm1]; rfl
  rw [hpara] at hroom hfuel hle ⊢
  obtain ⟨jf, rf, pcf, tf, ff, outf, ncf, hE, hLen, hKeep, hLaidF, hPadF, hff0, hffw, hz, hp,
      hs, hAfter, hPadAll⟩ :=
    @reflow_loop_spec old old_cols lo hi nrs w ocur hc hw hrows hcol0 hprog fuel lo pc 0
      (hi - lo + 1).toNat 0 [] (stripped_row old old_cols lo)
      (paragraph_cells old old_cols ((hi - lo + 1).toNat - 1) (lo + 1)) out nc le_rfl (by omega)
      (by omega) e le_rfl (by rw [hslen]; omega)
      (by rw [hslen, add_zero]; exact stripped_row_eq e) (fun h => absurd h (lt_irrefl 0)) rfl
      (by simpa using hw) (fun c hcl => absurd hcl (Nat.not_lt_zero c))
      (by simpa using hroom) (by simpa using hfuel)
  simp only [Nat.cast_zero, List.length_nil, zero_add] at hE hz hp
  simp only [Nat.zero_add] at hAfter hPadAll
  generalize hrowsdef : wrap_cells w [] (stripped_row old old_cols lo ++
    paragraph_cells old old_cols ((hi - lo + 1).toNat - 1) (lo + 1)) = rows
    at hLaidF hPadF hz hp hAfter hroom hle hPadAll ⊢
  have hstart : reflow_line fuel old lo hi old_cols (w : Int) (some out) 0 (some ocur) (some nc)
      nrs = (reflow_finish (w : Int) 0
        { new_row := jf, old_row := rf, old_line_cells := pcf, old_line_taken := tf
          new_line_filled := ff, out_buffer := some outf, new_cursor := some ncf }).map fun out1 =>
        ({ col := if ff ≤ 0 then 0 else ff - 1, row := jf }, out1, some ncf) := by
    unfold reflow_line
    rw [e]
    simp only [Option.some_bind]
    rw [hE]
    rfl
  by_cases hzero : ff = 0
  · have hjf := hz hzero
    refine ⟨{ col := 0, row := jf }, outf, ncf, ?_, hLen, hLaidF, ?_, hAfter, Or.inl ⟨hjf, rfl, ?_⟩⟩
    · rw [hstart]
      unfold reflow_finish
      simp [hzero]
    · intro k c hk hc1 hc2
      rw [Nat.zero_add]
      exact hPadAll k c hzero hk hc1 hc2
    · by_contra hne
      have := hs hne
      omega
  · obtain ⟨last, hl1, hl2, hl3⟩ := hp (by omega)
    subst hl3
    obtain ⟨out1, e1, hlen1, hLaid1, hPad1, hAfter1⟩ := reflow_finish_spec rf pcf tf jf ncf hl1
      (by omega) hle hl2 (by rw [hLen]; exact hroom) hLaidF hPadF
    refine ⟨{ col := (last.length : Int) - 1, row := jf }, out1, ncf, ?_, by rw [hlen1, hLen],
      hLaid1, hPad1, fun i hi => by rw [hAfter1 i hi, hAfter i hi], Or.inr ⟨last, hl1, hl2, ?_⟩⟩
    · rw [hstart, e1, if_neg (by omega)]
      rfl
    · simp

theorem ceil_bounds (n w : Nat) (hw : 0 < w) :
    n ≤ (n + w - 1) / w * w ∧ (n + w - 1) / w * w < n + w := by
  have h := Nat.div_add_mod (n + w - 1) w
  have h2 := Nat.mod_lt (n + w - 1) hw
  rw [Nat.mul_comm] at h
  omega

/-- Rows that begin with a cell that is not a trailing half and that hold, one
after the other, cells whose wide glyphs are whole, have their wide glyphs
whole. -/
theorem rows_paired : ∀ (rows : List (List ScreenCell)),
    (∀ row ∈ rows, ∃ y ys, row = y :: ys ∧ y.char0 ≠ WIDE_CONT) → WidePaired rows.flatten →
    ∀ row ∈ rows, WidePaired row
  | [], _, _, row, h => by simp at h
  | r :: rs, hhead, hp, row, hrow => by
    rw [List.flatten_cons] at hp
    rcases List.mem_cons.mp hrow with h | h
    · subst h
      intro i x hx hwc
      have hi : i < row.length := (List.getElem?_eq_some.mp hx).1
      obtain ⟨j, y, e, hy, hyn⟩ := hp i x (by rw [List.getElem?_append_left hi]; exact hx) hwc
      refine ⟨j, y, e, ?_, hyn⟩
      rw [List.getElem?_append_left (by omega)] at hy
      exact hy
    · refine rows_paired rs (fun q hq => hhead q (List.mem_cons_of_mem _ hq)) ?_ row h
      have hd := widePaired_drop hp r.length (fun y hy => by
        rw [List.getElem?_append_right le_rfl, Nat.sub_self] at hy
        cases rs with
        | nil => simp at hy
        | cons q qs =>
          obtain ⟨z, zs, hq, hz⟩ := hhead q (by simp)
          rw [hq] at hy
          simp at hy
          rw [← hy]
          exact hz)
      rw [List.drop_left] at hd
      exact hd

theorem hello_buffer_free : ∀ r : Int, 0 ≤ r → r ≤ 1 → ∀ c : Int, 0 ≤ c → c < 10 →
    ∀ x, bufAt hello_buffer (r * 10 + c) = some x → x.char0 ≠ WIDE_CONT := by
  intro r h1 h2 c h3 h4 x hx
  have hall : ∀ y ∈ hello_buffer, y.char0 ≠ WIDE_CONT := by decide
  unfold bufAt at hx
  rw [if_neg (by omega)] at hx
  exact hall x (List.mem_iff_getElem?.mpr ⟨_, hx⟩)

theorem wide_buffer_paired : ∀ r : Int, 0 ≤ r → r ≤ 0 → ∀ c : Int, 0 ≤ c → c < 6 →
    ∀ x, bufAt wide_buffer (r * 6 + c) = some x → x.char0 = WIDE_CONT →
      0 < c ∧ ∀ y, bufAt wide_buffer (r * 6 + (c - 1)) = some y → y.char0 ≠ WIDE_CONT := by
  intro r h1 h2 c h3 h4 x hx hwc
  have hr : r = 0 := by omega
  subst hr
  have hall : ∀ i : Nat, i < 6 → ∀ x ∈ wide_buffer[i]?, x.char0 = WIDE_CONT →
      0 < i ∧ ∀ y ∈ wide_buffer[i - 1]?, y.char0 ≠ WIDE_CONT := by decide
  obtain ⟨i, rfl⟩ : ∃ i : Nat, c = (i : Int) := ⟨c.toNat, by omega⟩
  rw [zero_mul, zero_add, bufAt_nat] at hx
  obtain ⟨hpos, hy⟩ := hall i (by omega) x hx hwc
  refine ⟨by omega, fun y hy2 => hy y ?_⟩
  have e : (0 : Int) * 6 + ((i : Int) - 1) = ((i - 1 : Nat) : Int) := by omega
  rw [e, bufAt_nat] at hy2
  exact hy2

/-- C19.  A paragraph (the rows `lo` to `hi` of the old buffer) that holds no
`WIDE_CONT` cell and whose last row is not blank, with `n` the total of
`line_popcount` over its rows, is reflowed to a width `w ≥ 1` as follows, when
the output buffer has room for the lines and the loop has the iterations it
needs: `reflow_line` returns, `n ≥ 1`, the row it reports plus one, the height
its caller takes, is `ceil(n / w)`, cell `k` of the rows without their trailing
blank cells, one after the other, is at row `k / w`, column `k mod w` of the
output with its characters and its pen, and the cells after them in the last
of these lines are blank. -/
theorem reflow_line_wraps {old out : List ScreenCell} {old_cols lo hi : Int} {w n : Nat}
    (fuel : Nat) (nrs : Int) (ocur nc : VTermPos)
    (hc : 0 ≤ old_cols) (hw : 1 ≤ w) (h0 : 0 ≤ lo) (h1 : lo ≤ hi)
    (hb : (hi + 1) * old_cols ≤ old.length)
    (hfree : ∀ r, lo ≤ r → r ≤ hi → ∀ c, 0 ≤ c → c < old_cols →
      ∀ x, bufAt old (r * old_cols + c) = some x → x.char0 ≠ WIDE_CONT)
    (hlast : ∃ pc, line_popcount old hi old_cols = some pc ∧ 0 < pc)
    (hn : paragraph_popcount old old_cols (hi - lo + 1).toNat lo = (n : Int))
    (hroom : (n + w - 1) / w * w ≤ out.length)
    (hfuel : 2 * n + (hi - lo + 1).toNat < fuel) :
    ∃ rect outf ncf,
      reflow_line fuel old lo hi old_cols (w : Int) (some out) 0 (some ocur) (some nc) nrs =
        some (rect, some outf, some ncf) ∧
      1 ≤ n ∧ rect.row + 1 = (((n + w - 1) / w : Nat) : Int) ∧
      (∀ k, k < n → outf[k / w * w + k % w]? =
        (paragraph_cells old old_cols (hi - lo + 1).toNat lo)[k]?) ∧
      (∀ i, n ≤ i → i < (n + w - 1) / w * w → ∃ x, outf[i]? = some x ∧ x.char0 = 0) := by
  have hrows := rows_in_buffer hc h0 hb
  have hm : lo + (((hi - lo + 1).toNat : Nat) : Int) ≤ hi + 1 := by omega
  have hfreeP := paragraph_free hc hrows hfree (hi - lo + 1).toNat lo le_rfl hm
  have hlenP := paragraph_cells_length hc hrows (hi - lo + 1).toNat lo le_rfl hm
  rw [hn] at hlenP
  have hlen : (paragraph_cells old old_cols (hi - lo + 1).toNat lo).length = n := by omega
  obtain ⟨hR, hrowk⟩ := wrap_cells_chunks w hw (paragraph_cells old old_cols (hi - lo + 1).toNat lo)
    [] (Nat.zero_le _) hfreeP
  simp only [List.nil_append] at hR hrowk
  rw [hlen] at hR
  obtain ⟨pc, hpc, hpcpos⟩ := hlast
  have hr := hrows hi h1 le_rfl
  have hstrip : stripped_row old old_cols hi ≠ [] := by
    intro h
    have := stripped_row_length hc hr.1 hr.2 hpc
    rw [h] at this
    simp at this
    omega
  have hle : ∀ row ∈ wrap_cells w [] (paragraph_cells old old_cols (hi - lo + 1).toNat lo),
      row.length ≤ w := by
    intro row hrow
    obtain ⟨k, hk, e⟩ := List.getElem_of_mem hrow
    have := hrowk k hk
    rw [List.getD_eq_getElem?_getD, List.getElem?_eq_getElem hk, e] at this
    rw [show row = _ from this]
    exact List.length_take_le _ _
  obtain ⟨rect, outf, ncf, hE, -, hLaid, hPad, -, hrect⟩ :=
    @reflow_line_spec old out old_cols lo hi nrs w fuel ocur nc hc hw h0 h1 hb
      (fun r a b x _ hx => hfree r a b 0 le_rfl (by omega) x (by rw [add_zero]; exact hx))
      (Or.inr hfree) hle (by rw [hR]; exact hroom) (by rw [hlen]; exact hfuel)
  rw [hR] at hrect hrowk
  have hcb := ceil_bounds n w hw
  have hnpos : 1 ≤ n := by
    rcases hrect with ⟨-, -, h⟩ | ⟨last, hl, -, -⟩
    · exact absurd h hstrip
    · rcases Nat.eq_zero_or_pos n with h0 | h0
      · rw [h0, Nat.zero_add, Nat.div_eq_of_lt (by omega)] at hR
        rw [List.length_eq_zero.mp hR] at hl
        simp at hl
      · exact h0
  refine ⟨rect, outf, ncf, hE, hnpos, ?_, ?_, ?_⟩
  · rcases hrect with ⟨-, -, h⟩ | ⟨last, -, h, -⟩
    · exact absurd h hstrip
    · exact h
  · intro k hk
    have hdm := Nat.div_add_mod k w
    rw [Nat.mul_comm] at hdm
    have hkw : k / w < (n + w - 1) / w := (Nat.div_lt_iff_lt_mul hw).mpr (by omega)
    have hmod := Nat.mod_lt k hw
    have hrow := hrowk (k / w) hkw
    have hcl : k % w < ((wrap_cells w [] (paragraph_cells old old_cols
        (hi - lo + 1).toNat lo)).getD (k / w) []).length := by
      rw [hrow, List.length_take, List.length_drop, hlen]
      omega
    have := hLaid (k / w) (k % w) (by rw [hR]; exact hkw) hcl
    rw [Nat.zero_add] at this
    rw [this, hrow, List.getElem?_take_of_lt hmod, List.getElem?_drop, hdm]
  · intro i h1 h2
    have hRpos : 0 < (n + w - 1) / w := by
      rcases Nat.eq_zero_or_pos ((n + w - 1) / w) with h | h
      · rw [h] at h2; omega
      · exact h
    have hbw : ((n + w - 1) / w - 1) * w + w = (n + w - 1) / w * w := by
      have : (n + w - 1) / w = ((n + w - 1) / w - 1) + 1 := by omega
      conv_rhs => rw [this, Nat.add_mul, Nat.one_mul]
    have hrow := hrowk ((n + w - 1) / w - 1) (by omega)
    obtain ⟨x, hx, hz⟩ := hPad ((n + w - 1) / w - 1) (i - ((n + w - 1) / w - 1) * w)
      (by rw [hR]; omega)
      (by rw [hrow, List.length_take, List.length_drop, hlen]; omega) (by omega)
    refine ⟨x, ?_, hz⟩
    rw [← hx, Nat.zero_add]
    congr 1
    omega

theorem reflow_line_wraps_witness :
    reflow_line 30 hello_buffer 0 1 10 ((5 : Nat) : Int) (some (List.replicate 15 blank_cell)) 0
        (some { row := 0, col := 0 }) (some { row := 0, col := 0 }) 0 =
      some ({ row := 2, col := 0 },
        some ([letter 0x48, letter 0x45, letter 0x4c, letter 0x4c, letter 0x4f,
          letter 0x20, letter 0x57, letter 0x4f, letter 0x52, letter 0x4c,
          letter 0x44, blank_cell, blank_cell, blank_cell, blank_cell]),
        some { row := 0, col := 0 }) ∧
    ∃ rect outf ncf,
      reflow_line 30 hello_buffer 0 1 10 ((5 : Nat) : Int) (some (List.replicate 15 blank_cell)) 0
          (some { row := 0, col := 0 }) (some { row := 0, col := 0 }) 0 =
        some (rect, some outf, some ncf) ∧
      1 ≤ 11 ∧ rect.row + 1 = (((11 + 5 - 1) / 5 : Nat) : Int) ∧
      (∀ k, k < 11 → outf[k / 5 * 5 + k % 5]? =
        (paragraph_cells hello_buffer 10 ((1 : Int) - 0 + 1).toNat 0)[k]?) ∧
      (∀ i, 11 ≤ i → i < (11 + 5 - 1) / 5 * 5 → ∃ x, outf[i]? = some x ∧ x.char0 = 0) :=
  ⟨by decide,
    @reflow_line_wraps hello_buffer (List.replicate 15 blank_cell) 10 0 1 5 11 30 0
      { row := 0, col := 0 } { row := 0, col := 0 } (by decide) (by decide)
      (by decide) (by decide) (by decide) hello_buffer_free ⟨1, by decide, by decide⟩ (by decide)
      (by decide) (by decide)⟩

/-- C20.  A paragraph (the rows `lo` to `hi` of the old buffer) in which every
`WIDE_CONT` cell comes right after a cell of its row that is not one, its
leading cell, is reflowed to a width `w ≥ 2` as follows, when the output
buffer has room for the lines and the loop has the iterations it needs.
`reflow_line` returns; the lines it writes hold rows that are, one after the
other, the cells of the paragraph without the trailing blank cells of its
rows, each line blank after its row; it writes nothing after these lines, and
reports the last of them, or the line after them when the last row of the
paragraph is blank.  Every row has at most `w` cells, begins with a cell that
is not `WIDE_CONT`, and holds every `WIDE_CONT` cell right after its leading
cell.  A row that is not the last has `w` cells, or it has `w - 1` cells, the
last cell of its line is blank and the next row begins with a leading cell
and its `WIDE_CONT`. -/
theorem reflow_line_keeps_wide {old out : List ScreenCell} {old_cols lo hi : Int} {w : Nat}
    (fuel : Nat) (nrs : Int) (ocur nc : VTermPos) (rows : List (List ScreenCell))
    (hc : 0 ≤ old_cols) (hw : 2 ≤ w) (h0 : 0 ≤ lo) (h1 : lo ≤ hi)
    (hb : (hi + 1) * old_cols ≤ old.length)
    (hpair : ∀ r, lo ≤ r → r ≤ hi → ∀ c, 0 ≤ c → c < old_cols →
      ∀ x, bufAt old (r * old_cols + c) = some x → x.char0 = WIDE_CONT →
      0 < c ∧ ∀ y, bufAt old (r * old_cols + (c - 1)) = some y → y.char0 ≠ WIDE_CONT)
    (hrowsdef : rows = wrap_cells w [] (paragraph_cells old old_cols (hi - lo + 1).toNat lo))
    (hroom : rows.length * w ≤ out.length)
    (hfuel : 2 * (paragraph_cells old old_cols (hi - lo + 1).toNat lo).length +
      (hi - lo + 1).toNat < fuel) :
    ∃ rect outf ncf,
      reflow_line fuel old lo hi old_cols (w : Int) (some out) 0 (some ocur) (some nc) nrs =
        some (rect, some outf, some ncf) ∧
      rows.flatten = paragraph_cells old old_cols (hi - lo + 1).toNat lo ∧
      RowsLaid outf w 0 rows ∧ RowsPadded outf w 0 rows rows.length ∧
      (∀ i, rows.length * w ≤ i → outf[i]? = out[i]?) ∧
      (rect.row + 1 = (rows.length : Int) ∨
        (rect.row = (rows.length : Int) ∧ rect.col = 0 ∧
          line_popcount old hi old_cols = some 0)) ∧
      (∀ row ∈ rows, row.length ≤ w ∧ (∃ y ys, row = y :: ys ∧ y.char0 ≠ WIDE_CONT) ∧
        WidePaired row) ∧
      (∀ k, k + 1 < rows.length → (rows.getD k []).length = w ∨
        ((rows.getD k []).length + 1 = w ∧
          (∃ b, outf[k * w + (w - 1)]? = some b ∧ b.char0 = 0) ∧
          ∃ y x ys, rows.getD (k + 1) [] = y :: x :: ys ∧ x.char0 = WIDE_CONT)) := by
  subst hrowsdef
  have hrows := rows_in_buffer hc h0 hb
  have hm : lo + (((hi - lo + 1).toNat : Nat) : Int) ≤ hi + 1 := by omega
  have hpairP := paragraph_paired hc hrows hpair (hi - lo + 1).toNat lo le_rfl hm
  obtain ⟨hP23, hP4⟩ := wrap_cells_paired w hw
    (paragraph_cells old old_cols (hi - lo + 1).toNat lo) [] (Nat.zero_le _)
    (by rw [List.nil_append]; exact hpairP)
  have hflat := wrap_cells_join w (paragraph_cells old old_cols (hi - lo + 1).toNat lo) []
  rw [List.nil_append] at hflat
  obtain ⟨rect, outf, ncf, hE, -, hLaid, hPad, hAfter, hrect⟩ :=
    @reflow_line_spec old out old_cols lo hi nrs w fuel ocur nc hc (by omega) h0 h1 hb
      (fun r a b x hpos hx hwc => by
        have := (hpair r a b 0 le_rfl hpos x (by rw [add_zero]; exact hx) hwc).1
        omega)
      (Or.inl hw) (fun row h => (hP23 row h).1) hroom hfuel
  have hwp := rows_paired _ (fun row h => (hP23 row h).2) (by rw [hflat]; exact hpairP)
  refine ⟨rect, outf, ncf, hE, hflat, hLaid, hPad, hAfter, ?_,
    fun row h => ⟨(hP23 row h).1, (hP23 row h).2, hwp row h⟩, ?_⟩
  · rcases hrect with ⟨a, b, h⟩ | ⟨last, -, h, -⟩
    · right
      refine ⟨a, b, ?_⟩
      have hr := hrows hi h1 le_rfl
      obtain ⟨pc, e, p1, -, -, -⟩ := line_popcount_spec hc hr.1 hr.2
      have hl := stripped_row_length hc hr.1 hr.2 e
      rw [h, List.length_nil] at hl
      have : pc = 0 := by omega
      rw [e, this]
    · exact Or.inl h
  · intro k hk
    rcases hP4 k hk with h | ⟨h, hnext⟩
    · exact Or.inl h
    · right
      refine ⟨h, ?_, hnext⟩
      have := hPad k (w - 1) (by omega) (by omega) (by omega)
      rw [Nat.zero_add] at this
      exact this

theorem reflow_line_keeps_wide_witness :
    reflow_line 20 wide_buffer 0 0 6 ((4 : Nat) : Int) (some (List.replicate 8 (letter 0x58))) 0
        (some { row := 0, col := 0 }) (some { row := 0, col := 0 }) 0 =
      some ({ row := 1, col := 1 },
        some ([letter 0x41, letter 0x42, letter 0x43, { letter 0x58 with chars := [0, 0, 0, 0, 0, 0] },
          letter 0x4e2d, { chars := [WIDE_CONT, 0, 0, 0, 0, 0], pen := default },
          { letter 0x58 with chars := [0, 0, 0, 0, 0, 0] },
          { letter 0x58 with chars := [0, 0, 0, 0, 0, 0] }]),
        some { row := 0, col := 0 }) ∧
    wrap_cells 4 [] (paragraph_cells wide_buffer 6 ((0 : Int) - 0 + 1).toNat 0) =
      [[letter 0x41, letter 0x42, letter 0x43],
        [letter 0x4e2d, { chars := [WIDE_CONT, 0, 0, 0, 0, 0], pen := default }]] ∧
    ∃ rect outf ncf,
      reflow_line 20 wide_buffer 0 0 6 ((4 : Nat) : Int) (some (List.replicate 8 (letter 0x58))) 0
          (some { row := 0, col := 0 }) (some { row := 0, col := 0 }) 0 =
        some (rect, some outf, some ncf) ∧
      (∀ row ∈ wrap_cells 4 [] (paragraph_cells wide_buffer 6 ((0 : Int) - 0 + 1).toNat 0),
        row.length ≤ 4 ∧ (∃ y ys, row = y :: ys ∧ y.char0 ≠ WIDE_CONT) ∧ WidePaired row) ∧
      ∃ b, outf[0 * 4 + (4 - 1)]? = some b ∧ b.char0 = 0 :=
  ⟨by decide, by decide, by
    obtain ⟨rect, outf, ncf, hE, -, -, -, -, -, hrow, hgap⟩ :=
      @reflow_line_keeps_wide wide_buffer (List.replicate 8 (letter 0x58)) 6 0 0 4 20 0
        { row := 0, col := 0 } { row := 0, col := 0 } _ (by decide) (by decide) (by decide)
        (by decide) (by decide) wide_buffer_paired rfl (by decide) (by decide)
    refine ⟨rect, outf, ncf, hE, hrow, ?_⟩
    rcases hgap 0 (by decide) with h | ⟨-, h, -⟩
    · exact absurd h (by decide)
    · exact h⟩

/-! ## Claims about `putglyph` at the right edge, `moverect_internal` and the stored scroll -/

/-- C28: what `putglyph` does with a glyph of width 2 at the last column.  On
the fresh 2 x 3 screen the position `(0, 2)` is on the grid and `getcell` of
the column after it, `(0, 3)`, is `NULL`; the loop over the columns of the
glyph stores `WIDE_CONT` through that pointer without a test, so the call does
not return. -/
theorem putglyph_wide_at_last_column :
    getcell fresh_screen 0 2 = some 2 ∧ getcell fresh_screen 0 (2 + 1) = none ∧
    (putglyph 1 (glyph 0x4e2d 2) { row := 0, col := 2 } fresh_screen).isNone = true := by
  decide

/-- What `moverect_internal` leaves in every cell: inside `dest` the cell that
was at the same offset in `src`, outside `dest` the cell that was there. -/
theorem moverect_internal_cells {s : VTermScreen} (hwf : WF s) {dest src : VTermRect}
    (hdest : RectInGrid s dest) (hsrc : RectInGrid s src)
    (hh : dest.end_row - dest.start_row = src.end_row - src.start_row)
    (hw : dest.end_col - dest.start_col = src.end_col - src.start_col)
    (hcol : (dest.start_col < s.cols ∧ src.start_col < s.cols) ∨
      dest.start_row = dest.end_row) :
    ∃ s', moverect_internal dest src s = some s' ∧ GridStep s s' ∧
      ∀ r c, cellAt s' r c =
        if InRect dest r c then
          cellAt s (r + (src.start_row - dest.start_row)) (c + (src.start_col - dest.start_col))
        else cellAt s r c := by
  obtain ⟨d1, d2, d3, d4, d5, d6⟩ := hdest
  obtain ⟨s1, s2, s3, s4, s5, s6⟩ := hsrc
  -- one row of the loop, for a set of rows already done that the source row is not in
  have hbody : ∀ (P P' : Int → Prop) (row : Int), dest.start_row ≤ row → row < dest.end_row →
      ¬ P (row + (src.start_row - dest.start_row)) → ¬ P row → (∀ r, P' r ↔ P r ∨ r = row) →
      ∀ st, (GridStep s st ∧
          (∀ r c, P r → dest.start_col ≤ c → c < dest.end_col → cellAt st r c =
            cellAt s (r + (src.start_row - dest.start_row))
              (c + (src.start_col - dest.start_col))) ∧
          (∀ r c, ¬ (P r ∧ dest.start_col ≤ c ∧ c < dest.end_col) →
            cellAt st r c = cellAt s r c)) →
      ∃ st', memmove_cells st (getcell st row dest.start_col)
          (getcell st (row + (src.start_row - dest.start_row)) src.start_col)
          (src.end_col - src.start_col) = some st' ∧
        (GridStep s st' ∧
          (∀ r c, P' r → dest.start_col ≤ c → c < dest.end_col → cellAt st' r c =
            cellAt s (r + (src.start_row - dest.start_row))
              (c + (src.start_col - dest.start_col))) ∧
          (∀ r c, ¬ (P' r ∧ dest.start_col ≤ c ∧ c < dest.end_col) →
            cellAt st' r c = cellAt s r c)) := by
    intro P P' row hr1 hr2 hsrcP hrowP hP' st ⟨hgs, hin, hout⟩
    have hcols : dest.start_col < s.cols ∧ src.start_col < s.cols := by
      rcases hcol with h | h
      · exact h
      · omega
    have i1 : InGrid st row dest.start_col := by
      rw [hgs.InGrid]; unfold InGrid; omega
    have i2 : InGrid st (row + (src.start_row - dest.start_row)) src.start_col := by
      rw [hgs.InGrid]; unfold InGrid; omega
    obtain ⟨st', e1, e2, e3⟩ := memmove_cells_step hgs.2
      (src.end_col - src.start_col) i1 i2 (by omega) (by rw [hgs.cols]; omega)
      (by rw [hgs.cols]; omega)
    refine ⟨st', e1, hgs.gs_trans e2, ?_, ?_⟩
    · intro r c hr hc1 hc2
      rw [e3]
      by_cases hseg : r = row ∧ dest.start_col ≤ c ∧ c < dest.start_col +
          (src.end_col - src.start_col)
      · rw [if_pos hseg, hout _ _ (fun h => hsrcP h.1), hseg.1]
        congr 1
        omega
      · rw [if_neg hseg]
        rcases (hP' r).mp hr with h | h
        · exact hin r c h hc1 hc2
        · exact absurd ⟨h, hc1, by omega⟩ hseg
    · intro r c hn
      rw [e3, if_neg, hout]
      · exact fun h => hn ⟨(hP' r).mpr (Or.inl h.1), h.2⟩
      · exact fun h => hn ⟨(hP' r).mpr (Or.inr h.1), h.2.1, by omega⟩
  have hfin : ∀ (P : Int → Prop) (s' : VTermScreen),
      (∀ r, P r ↔ dest.start_row ≤ r ∧ r < dest.end_row) →
      (∀ r c, P r → dest.start_col ≤ c → c < dest.end_col → cellAt s' r c =
        cellAt s (r + (src.start_row - dest.start_row))
          (c + (src.start_col - dest.start_col))) →
      (∀ r c, ¬ (P r ∧ dest.start_col ≤ c ∧ c < dest.end_col) →
        cellAt s' r c = cellAt s r c) →
      ∀ r c, cellAt s' r c =
        if InRect dest r c then
          cellAt s (r + (src.start_row - dest.start_row)) (c + (src.start_col - dest.start_col))
        else cellAt s r c := by
    intro P s' hP hin hout r c
    by_cases h : InRect dest r c
    · rw [if_pos h]
      exact hin r c ((hP r).mpr ⟨h.1, h.2.1⟩) h.2.2.1 h.2.2.2
    · rw [if_neg h]
      exact hout r c (fun hh => h ⟨((hP r).mp hh.1).1, ((hP r).mp hh.1).2, hh.2.1, hh.2.2⟩)
  unfold moverect_internal
  simp only
  by_cases hdown : src.start_row - dest.start_row < 0
  · simp only [if_pos hdown]
    have hcount : ¬ ((dest.start_row - 1 - (dest.end_row - 1)) * (-1 : Int) < 0) := by omega
    rw [if_neg hcount]
    obtain ⟨s', e1, e2, e3, e4⟩ := forLoop_spec
      (fun k st => GridStep s st ∧
          (∀ r c, (dest.end_row - (k : Int) ≤ r ∧ r < dest.end_row) → dest.start_col ≤ c →
            c < dest.end_col → cellAt st r c =
            cellAt s (r + (src.start_row - dest.start_row))
              (c + (src.start_col - dest.start_col))) ∧
          (∀ r c, ¬ ((dest.end_row - (k : Int) ≤ r ∧ r < dest.end_row) ∧
            dest.start_col ≤ c ∧ c < dest.end_col) → cellAt st r c = cellAt s r c))
      ((dest.start_row - 1 - (dest.end_row - 1)) * (-1 : Int)).toNat (dest.end_row - 1) (-1)
      (fun row st => memmove_cells st (getcell st row dest.start_col)
          (getcell st (row + (src.start_row - dest.start_row)) src.start_col)
          (src.end_col - src.start_col)) s
      ⟨GridStep.gs_refl hwf, fun r c h => by simp only [Nat.cast_zero] at h; omega,
        fun _ _ _ => rfl⟩
      (fun k hk st hst => hbody
          (fun r => dest.end_row - (k : Int) ≤ r ∧ r < dest.end_row)
          (fun r => dest.end_row - ((k + 1 : Nat) : Int) ≤ r ∧ r < dest.end_row)
          (dest.end_row - 1 + -1 * (k : Int)) (by omega) (by omega) (by simp only; omega)
          (by simp only; omega) (fun r => by push_cast; omega) st hst)
    exact ⟨s', e1, e2, hfin _ s' (fun r => by omega) e3 e4⟩
  · simp only [if_neg hdown]
    have hcount : ¬ ((dest.end_row - dest.start_row) * (1 : Int) < 0) := by omega
    rw [if_neg hcount]
    obtain ⟨s', e1, e2, e3, e4⟩ := forLoop_spec
      (fun k st => GridStep s st ∧
          (∀ r c, (dest.start_row ≤ r ∧ r < dest.start_row + (k : Int)) → dest.start_col ≤ c →
            c < dest.end_col → cellAt st r c =
            cellAt s (r + (src.start_row - dest.start_row))
              (c + (src.start_col - dest.start_col))) ∧
          (∀ r c, ¬ ((dest.start_row ≤ r ∧ r < dest.start_row + (k : Int)) ∧
            dest.start_col ≤ c ∧ c < dest.end_col) → cellAt st r c = cellAt s r c))
      ((dest.end_row - dest.start_row) * (1 : Int)).toNat dest.start_row 1
      (fun row st => memmove_cells st (getcell st row dest.start_col)
          (getcell st (row + (src.start_row - dest.start_row)) src.start_col)
          (src.end_col - src.start_col)) s
      ⟨GridStep.gs_refl hwf, fun r c h => by simp only [Nat.cast_zero] at h; omega,
        fun _ _ _ => rfl⟩
      (fun k hk st hst => hbody
          (fun r => dest.start_row ≤ r ∧ r < dest.start_row + (k : Int))
          (fun r => dest.start_row ≤ r ∧ r < dest.start_row + ((k + 1 : Nat) : Int))
          (dest.start_row + 1 * (k : Int)) (by omega) (by omega) (by simp only; omega)
          (by simp only; omega) (fun r => by push_cast; omega) st hst)
    exact ⟨s', e1, e2, hfin _ s' (fun r => by omega) e3 e4⟩

/-- C29: for a well-formed screen and two rectangles of the same size inside
the grid, overlapping or not, `moverect_internal(dest, src)` returns and
leaves in each cell of `dest` the cell that was at the same offset in `src`
before the call, and in every other cell the cell that was there.  The
rectangles have their first column on the grid, or no row: for a rectangle of
no width at the right edge of the grid `getcell` hands `NULL` to `memmove`. -/
theorem moverect_internal_moves (s : VTermScreen) (dest src : VTermRect) (hwf : WF s)
    (hdest : RectInGrid s dest) (hsrc : RectInGrid s src)
    (hh : dest.end_row - dest.start_row = src.end_row - src.start_row)
    (hw : dest.end_col - dest.start_col = src.end_col - src.start_col)
    (hcol : (dest.start_col < s.cols ∧ src.start_col < s.cols) ∨
      dest.start_row = dest.end_row) :
    ∃ s', moverect_internal dest src s = some s' ∧
      (∀ r c, InRect dest r c → cellAt s' r c =
        cellAt s (r + (src.start_row - dest.start_row))
          (c + (src.start_col - dest.start_col))) ∧
      (∀ r c, ¬ InRect dest r c → cellAt s' r c = cellAt s r c) := by
  obtain ⟨s', e1, -, e2⟩ := moverect_internal_cells hwf hdest hsrc hh hw hcol
  refine ⟨s', e1, fun r c h => ?_, fun r c h => ?_⟩
  · rw [e2, if_pos h]
  · rw [e2, if_neg h]

theorem hw_screen_WF : WF hw_screen :=
  ⟨by decide, by decide, rfl, rfl, _, rfl, rfl, by decide⟩

theorem scrolled_screen_WF : WF scrolled_screen :=
  ⟨by decide, by decide, rfl, rfl, _, rfl, rfl, by decide⟩

theorem moverect_internal_moves_witness :
    WF hw_screen ∧
    ∃ s', moverect_internal { start_row := 0, end_row := 1, start_col := 1, end_col := 5 }
        { start_row := 0, end_row := 1, start_col := 0, end_col := 4 } hw_screen = some s' ∧
      cellAt s' 0 0 = some (letter 0x48) ∧ cellAt s' 0 1 = some (letter 0x48) ∧
      cellAt s' 0 2 = some (letter 0x45) ∧ cellAt s' 0 4 = some (letter 0x4c) ∧
      cellAt s' 1 0 = some (letter 0x57) := by
  refine ⟨hw_screen_WF, ?_⟩
  obtain ⟨s', h1, h2, h3⟩ := moverect_internal_moves hw_screen
    { start_row := 0, end_row := 1, start_col := 1, end_col := 5 }
    { start_row := 0, end_row := 1, start_col := 0, end_col := 4 } hw_screen_WF
    (by decide) (by decide) (by decide) (by decide) (Or.inl (by decide))
  refine ⟨s', h1, ?_, ?_, ?_, ?_, ?_⟩
  · rw [h3 0 0 (by decide)]; rfl
  · rw [h2 0 1 (by decide)]; rfl
  · rw [h2 0 2 (by decide)]; rfl
  · rw [h2 0 4 (by decide)]; rfl
  · rw [h3 1 0 (by decide)]; rfl

/-- The end of `scrollrect` under the `SCROLL` policy, from the scroll of the
grid on: it returns 1 and changes neither the stored scroll nor the trace. -/
theorem scrollrect_tail {s2 : VTermScreen} (hwf : WF s2) {rect : VTermRect}
    (hrect : RectInGrid s2 rect) (down right : Int) :
    ∃ s', ((vterm_scroll_rect rect down right (some moverect_internal) erase_internal s2).bind
        fun s3 =>
        if s3.damaged.start_row = -1 then some (s3, (1 : Int))
        else some ({ s3 with damaged := scrollrect_adjust rect down right s3.damaged }, 1)) =
        some (s', 1) ∧
      s'.pending_scrollrect = s2.pending_scrollrect ∧
      s'.pending_scroll_downward = s2.pending_scroll_downward ∧
      s'.pending_scroll_rightward = s2.pending_scroll_rightward ∧ s'.trace = s2.trace := by
  obtain ⟨g, e1, ⟨⟨b, rfl⟩, -⟩, -⟩ := scroll_internal_step hwf hrect down right
  rw [e1, Option.some_bind]
  split_ifs
  · exact ⟨_, rfl, by cases hb : s2.buffer <;> simp [VTermScreen.setCells, hb]⟩
  · exact ⟨_, rfl, by cases hb : s2.buffer <;> simp [VTermScreen.setCells, hb]⟩

/-- C30, as stated, fails: `scrolled_screen` stores a scroll of its first column
by one row down.  A second scroll of the same rectangle by one row down does
not add up to a stored scroll by two rows: the stored damage does not meet the
rectangle, so `scrollrect` starts with a flush, which hands the stored scroll
to the host with the damage, and then stores the new scroll alone. -/
theorem scrollrect_flushes_same_rect :
    scrolled_screen.damage_merge = VTermDamageSize.SCROLL ∧
    scrolled_screen.pending_scrollrect =
      { start_row := 0, end_row := 2, start_col := 0, end_col := 1 } ∧
    scrolled_screen.pending_scroll_downward = 1 ∧ scrolled_screen.pending_scroll_rightward = 0 ∧
    (scrollrect 1 { start_row := 0, end_row := 2, start_col := 0, end_col := 1 } 1 0
        scrolled_screen).map
      (fun r => (r.1.pending_scrollrect, r.1.pending_scroll_downward,
        r.1.pending_scroll_rightward, r.1.trace)) =
      some ({ start_row := 0, end_row := 2, start_col := 0, end_col := 1 }, 1, 0,
        [HostEvent.damage { start_row := 0, end_row := 2, start_col := 0, end_col := 3 }]) := by
  decide

/-- C30, amended: under the `SCROLL` policy `scrollrect` of a rectangle inside
the grid returns 1.  A scroll that arrives with no stored scroll is stored.  A
scroll of the same rectangle as the stored one, both purely vertical or both
purely horizontal, that arrives while the stored damage is empty or meets the
rectangle leaves the stored rectangle, adds the deltas to the stored ones and
calls nothing.  Any other scroll is stored after a flush: the trace is the one
`vterm_screen_flush_damage` leaves. -/
theorem scrollrect_stores_scroll (n : Nat) (s : VTermScreen) (rect : VTermRect)
    (down right : Int) (hwf : WF s) (hrect : RectInGrid s rect)
    (hpol : s.damage_merge = VTermDamageSize.SCROLL) :
    ∃ s', scrollrect (n + 1) rect down right s = some (s', 1) ∧
      (s.pending_scrollrect.start_row = -1 →
        s'.pending_scrollrect = rect ∧ s'.pending_scroll_downward = down ∧
        s'.pending_scroll_rightward = right) ∧
      (s.pending_scrollrect.start_row ≠ -1 → rect_equal s.pending_scrollrect rect = true →
        ((s.pending_scroll_downward = 0 ∧ down = 0) ∨
          (s.pending_scroll_rightward = 0 ∧ right = 0)) →
        (s.damaged.start_row = -1 ∨ rect_intersects rect s.damaged = true) →
        s'.pending_scrollrect = s.pending_scrollrect ∧
        s'.pending_scroll_downward = s.pending_scroll_downward + down ∧
        s'.pending_scroll_rightward = s.pending_scroll_rightward + right ∧
        s'.trace = s.trace) ∧
      (s.pending_scrollrect.start_row ≠ -1 →
        ¬ (rect_equal s.pending_scrollrect rect = true ∧
          ((s.pending_scroll_downward = 0 ∧ down = 0) ∨
            (s.pending_scroll_rightward = 0 ∧ right = 0)) ∧
          (s.damaged.start_row = -1 ∨ rect_intersects rect s.damaged = true)) →
        ∃ sf, vterm_screen_flush_damage (n + 1) s = some sf ∧ s'.trace = sf.trace ∧
          s'.pending_scrollrect = rect ∧ s'.pending_scroll_downward = down ∧
          s'.pending_scroll_rightward = right) := by
  have hinv : DamageInv s := fun h => absurd hpol h
  obtain ⟨sf, hf, -, hfp, hod⟩ := flush_total n s hinv
  have hsfwf : WF sf := hod.od_WF hwf
  have hsfrect : RectInGrid sf rect := by
    obtain ⟨d, p, pd, pr, tr, rfl⟩ := hod
    exact hrect
  unfold scrollrect
  simp only [hpol, ne_eq, not_true_eq_false, if_false]
  by_cases hF : s.damaged.start_row ≠ -1 ∧ ¬ rect_intersects rect s.damaged = true
  · rw [if_pos hF, hf, Option.some_bind, if_pos hfp, Option.some_bind]
    obtain ⟨s', e, p1, p2, p3, p4⟩ := @scrollrect_tail
      { sf with pending_scrollrect := rect, pending_scroll_downward := down
                pending_scroll_rightward := right } hsfwf rect hsfrect down right
    refine ⟨s', e, fun _ => ⟨p1, p2, p3⟩, fun _ _ _ hd => ?_, fun _ _ => ⟨sf, rfl, p4, p1, p2, p3⟩⟩
    rcases hd with hd | hd
    · exact absurd hd hF.1
    · exact absurd hd hF.2
  · rw [if_neg hF, Option.some_bind]
    have hD : s.damaged.start_row = -1 ∨ rect_intersects rect s.damaged = true := by
      by_cases h1 : s.damaged.start_row = -1
      · exact Or.inl h1
      · right
        by_contra h2
        exact hF ⟨h1, h2⟩
    by_cases hp : s.pending_scrollrect.start_row = -1
    · rw [if_pos hp, Option.some_bind]
      obtain ⟨s', e, p1, p2, p3, -⟩ := @scrollrect_tail
        { s with pending_scrollrect := rect, pending_scroll_downward := down
                 pending_scroll_rightward := right } hwf rect hrect down right
      exact ⟨s', e, fun _ => ⟨p1, p2, p3⟩, fun h => absurd hp h, fun h => absurd hp h⟩
    · rw [if_neg hp]
      by_cases hE : rect_equal s.pending_scrollrect rect = true ∧
          ((s.pending_scroll_downward = 0 ∧ down = 0) ∨
            (s.pending_scroll_rightward = 0 ∧ right = 0))
      · rw [if_pos hE, Option.some_bind]
        obtain ⟨s', e, p1, p2, p3, p4⟩ := @scrollrect_tail
          { s with pending_scroll_downward := s.pending_scroll_downward + down
                   pending_scroll_rightward := s.pending_scroll_rightward + right }
          hwf rect hrect down right
        exact ⟨s', e, fun h => absurd h hp, fun _ _ _ _ => ⟨p1, p2, p3, p4⟩,
          fun _ h => absurd ⟨hE.1, hE.2, hD⟩ h⟩
      · rw [if_neg hE, hf, Option.some_bind, Option.some_bind]
        obtain ⟨s', e, p1, p2, p3, p4⟩ := @scrollrect_tail
          { sf with pending_scrollrect := rect, pending_scroll_downward := down
                    pending_scroll_rightward := right } hsfwf rect hsfrect down right
        exact ⟨s', e, fun h => absurd h hp, fun _ h1 h2 _ => absurd ⟨h1, h2⟩ hE,
          fun _ _ => ⟨sf, rfl, p4, p1, p2, p3⟩⟩

theorem scrollrect_stores_scroll_witness :
    WF scrolled_screen ∧
    ∃ s', scrollrect 1 { start_row := 0, end_row := 2, start_col := 0, end_col := 1 } 1 0
        { scrolled_screen with
          damaged := { start_row := 0, end_row := 1, start_col := 0, end_col := 3 } } =
        some (s', 1) ∧
      s'.pending_scrollrect = { start_row := 0, end_row := 2, start_col := 0, end_col := 1 } ∧
      s'.pending_scroll_downward = 2 ∧ s'.pending_scroll_rightward = 0 ∧ s'.trace = [] := by
  refine ⟨scrolled_screen_WF, ?_⟩
  obtain ⟨s', h1, -, h2, -⟩ := scrollrect_stores_scroll 0
    { scrolled_screen with
      damaged := { start_row := 0, end_row := 1, start_col := 0, end_col := 3 } }
    { start_row := 0, end_row := 2, start_col := 0, end_col := 1 } 1 0 scrolled_screen_WF
    (by decide) rfl
  obtain ⟨p1, p2, p3, p4⟩ := h2 (by decide) (by decide) (Or.inr ⟨rfl, rfl⟩) (Or.inr (by decide))
  exact ⟨s', h1, p1, p2, p3, p4⟩

/-! ## Claims about `resize`: evaluations -/

set_option maxRecDepth 100000 in
/-- C22: `a_screen` holds the letter `A` in its first row and nothing else, no
row is a continuation, no callbacks are registered.  The resize from 2 x 3 to
1 x 3 places the blank second row and drops the first; the resize back to 2 x 3
leaves a blank grid. -/
theorem resize_round_trip_drops_row :
    a_screen.callbacks.isNone = true ∧ cellAt a_screen 0 0 = some (letter 0x41) ∧
    (resize 20 zero_alloc 1 3 a_fields a_screen).map (fun x => x.1.buffers_primary) =
      some (List.replicate 3 blank_cell) ∧
    ((resize 20 zero_alloc 1 3 a_fields a_screen).bind fun x =>
        resize 20 zero_alloc 2 3 x.2.1 x.1).map (fun x => (x.1.buffers_primary, x.2.1.pos)) =
      some (List.replicate 6 blank_cell, { row := 0, col := 0 }) := by
  decide

set_option maxRecDepth 100000 in
/-- C24: `cd_screen` has the cursor on the `D` of its row `CD`, which the resize
to 2 x 4 places.  The line `AB` that is popped from the scrollback is combined
with the row, and the cursor ends on the `B` in column 1 while the `D` is in
column 3.  Without the host the cursor stays on the `D`. -/
theorem resize_refill_leaves_cursor :
    cellAt cd_screen 0 1 = some (letter 0x44) ∧ cd_fields.pos = { row := 0, col := 1 } ∧
    (resize 20 zero_alloc 2 4 cd_fields cd_screen).map
        (fun x => (x.1.buffers_primary, x.2.1.pos)) =
      some (letters [0x41, 0x42, 0x43, 0x44, 0, 0, 0, 0], { row := 0, col := 1 }) ∧
    (resize 20 zero_alloc 2 4 cd_fields { cd_screen with callbacks := none }).map
        (fun x => (x.1.buffers_primary, x.2.1.pos)) =
      some (letters [0x43, 0x44, 0, 0, 0, 0, 0, 0], { row := 0, col := 1 }) := by
  decide

set_option maxRecDepth 100000 in
/-- C25: the cursor `(1, 3)` of `hw_screen` is inside the grid of 2 x 5.  The
resize to 1 x 5 stores the cursor `(-1, 3)`: the paragraph is not placed, the
cursor is brought to row 0 and the last block of `resize_buffer` moves it up
by one row.  On `ab_screen` the cursor `(0, 8)` of the grid of 1 x 10 stays in
column 8 of the grid of 1 x 5. -/
theorem resize_cursor_leaves_grid :
    (resize 20 zero_alloc 1 5 hw_fields hw_screen).map (fun x => (x.1.rows, x.1.cols, x.2.1.pos)) =
      some (1, 5, { row := -1, col := 3 }) ∧
    (resize 20 zero_alloc 1 5 ab_fields ab_screen).map (fun x => (x.1.rows, x.1.cols, x.2.1.pos)) =
      some (1, 5, { row := 0, col := 8 }) := by
  decide

set_option maxRecDepth 100000 in
/-- C27: `hw_screen` has the reflow option off.  The resize to 2 x 10 joins its
two rows in row 0, so the cell `(1, 0)` changes from `W` to blank; with the
option on the result is the same. -/
theorem resize_ignores_reflow_option :
    hw_screen.reflow = 0 ∧ cellAt hw_screen 1 0 = some (letter 0x57) ∧
    (resize 20 zero_alloc 2 10 hw_fields hw_screen).map (fun x => x.1.buffers_primary) =
      some (letters [0x48, 0x45, 0x4c, 0x4c, 0x4f, 0x57, 0x4f, 0x52, 0x4c, 0x44] ++
        List.replicate 10 blank_cell) ∧
    (resize 20 zero_alloc 2 10 hw_fields { hw_screen with reflow := 1 }).map
        (fun x => x.1.buffers_primary) =
      some (letters [0x48, 0x45, 0x4c, 0x4c, 0x4f, 0x57, 0x4f, 0x52, 0x4c, 0x44] ++
        List.replicate 10 blank_cell) := by
  decide

/-! ## Claims about `resize_buffer` on the alternate buffer -/

/-- What `resize_buffer` on the alternate buffer does to the screen: it stores
the new buffer. -/
theorem resize_buffer_altscreen_screen {fuel : Nat} {alloc : VTermAllocator}
    {new_rows new_cols : Int} {active : Bool} {fields : VTermStateFields} {s : VTermScreen}
    {r : VTermScreen × VTermStateFields}
    (h : resize_buffer fuel alloc BufIdx.ALTSCREEN new_rows new_cols active fields s = some r) :
    ∃ b, r.1 = { s with buffers_altscreen := some b } := by
  simp only [resize_buffer, reduceCtorEq, and_false, false_and, if_false, Option.some_bind] at h
  simp only [Option.bind_eq_some] at h
  obtain ⟨old, -, st, -, h⟩ := h
  split_ifs at h <;>
  · simp only [Option.map_eq_some'] at h
    obtain ⟨filled, -, rfl⟩ := h
    exact ⟨_, rfl⟩

/-- C26: `resize_buffer` on the alternate buffer calls no scrollback callback.
Whatever callback table the screen has, the call does what it does without
one, and when it returns the trace of host calls is the one it started with,
so there is no call to `sb_pushline`, `sb_pushline4`, `sb_peek` or
`sb_popline` in between. -/
theorem resize_altscreen_no_scrollback (fuel : Nat) (alloc : VTermAllocator)
    (new_rows new_cols : Int) (active : Bool) (fields : VTermStateFields) (s : VTermScreen) :
    resize_buffer fuel alloc BufIdx.ALTSCREEN new_rows new_cols active fields s =
      (resize_buffer fuel alloc BufIdx.ALTSCREEN new_rows new_cols active fields
        { s with callbacks := none }).map
        (fun r => ({ r.1 with callbacks := s.callbacks }, r.2)) ∧
    ∀ r, resize_buffer fuel alloc BufIdx.ALTSCREEN new_rows new_cols active fields s = some r →
      r.1.trace = s.trace := by
  constructor
  · simp only [resize_buffer, reduceCtorEq, and_false, false_and, if_false]
    cases s.buffers_altscreen with
    | none => rfl
    | some old =>
      simp only [Option.some_bind]
      cases resize_place fuel old fields.lineinfos_altscreen s.cols new_rows new_cols active
          fields.pos (s.rows.toNat + 1)
          { old_row := s.rows - 1, new_row := new_rows - 1
            new_buffer := alloc.cells (new_rows * new_cols)
            new_lineinfo := alloc.lineinfos new_rows
            new_cursor := { row := -1, col := -1 }
            final_blank_row := new_rows } with
      | none => rfl
      | some st =>
        simp only [Option.some_bind, Option.map_some']
        split_ifs <;> first | rfl | (simp only [Option.some_bind, Option.map_map]; rfl)
  · intro r h
    obtain ⟨b, hb⟩ := resize_buffer_altscreen_screen h
    rw [hb]

set_option maxRecDepth 100000 in
/-- The theorem `resize_altscreen_no_scrollback` on `alt_hw_screen`, whose host
registered every scrollback callback: the resize of the alternate buffer to
1 x 5 returns with the row `WORLD` and an empty trace, while the same resize of
the primary buffer calls the host four times. -/
theorem resize_altscreen_no_scrollback_witness :
    (resize_buffer 20 zero_alloc BufIdx.ALTSCREEN 1 5 true alt_hw_fields alt_hw_screen).map
        (fun r => (r.1.buffers_altscreen, r.1.trace)) =
      some (some (letters [0x57, 0x4f, 0x52, 0x4c, 0x44]), []) ∧
    (resize_buffer 20 zero_alloc BufIdx.PRIMARY 1 5 true alt_hw_fields alt_hw_screen).map
        (fun r => r.1.trace.length) = some 4 ∧
    ∃ r, resize_buffer 20 zero_alloc BufIdx.ALTSCREEN 1 5 true alt_hw_fields alt_hw_screen =
        some r ∧ r.1.trace = alt_hw_screen.trace := by
  refine ⟨by decide, by decide, ?_⟩
  have hs : (resize_buffer 20 zero_alloc BufIdx.ALTSCREEN 1 5 true alt_hw_fields
      alt_hw_screen).isSome = true := by decide
  obtain ⟨r, hr⟩ := Option.isSome_iff_exists.mp hs
  exact ⟨r, hr,
    (resize_altscreen_no_scrollback 20 zero_alloc 1 5 true alt_hw_fields alt_hw_screen).2 r hr⟩

/-! ## The loop of `reflow_line`, with and without an output buffer -/

/-- A copy block of `reflow_line`, run with an output buffer and both cursor
pointers set: the cells are copied and the cursor is `copy_cursor`. -/
theorem reflow_copy_run (old out : List ScreenCell) (old_cols nrs : Int) (w : Nat)
    (ocur nc : VTermPos) (bounded : Bool) (j f n : Nat) (r pc t : Int)
    (hsrc : 0 ≤ r * old_cols + t) (hd : j * w + f + n ≤ out.length)
    (hs : (r * old_cols + t).toNat + n ≤ old.length) :
    reflow_copy old old_cols (w : Int) 0 nrs (some ocur) (n : Int) bounded
        { new_row := (j : Int), old_row := r, old_line_cells := pc, old_line_taken := t
          new_line_filled := (f : Int), out_buffer := some out, new_cursor := some nc } =
      some { new_row := (j : Int), old_row := r, old_line_cells := pc, old_line_taken := t
             new_line_filled := (f : Int)
             out_buffer := some (out.take (j * w + f) ++
               (old.drop (r * old_cols + t).toNat).take n ++ out.drop (j * w + f + n))
             new_cursor := some (copy_cursor nrs ocur nc bounded j f n r t) } := by
  have e1 : ((j : Int) - 0) * (w : Int) + (f : Int) = ((j * w + f : Nat) : Int) := by
    push_cast; ring
  have e2 : r * old_cols + t = (((r * old_cols + t).toNat : Nat) : Int) := by omega
  have hm := memcpy_cells_nat out old (j * w + f) (r * old_cols + t).toNat n hd hs
  rw [← e2] at hm
  unfold reflow_copy copy_cursor
  simp only [ge_iff_le, Int.natCast_nonneg, if_true, e1, hm, Option.some_bind]
  split <;> rfl

/-- A copy block of `reflow_line` without an output buffer does nothing. -/
theorem reflow_copy_dry (old : List ScreenCell) (old_cols new_cols skip nrs : Int)
    (ocur : Option VTermPos) (count : Int) (bounded : Bool) (st : ReflowState)
    (h : st.out_buffer = none) :
    reflow_copy old old_cols new_cols skip nrs ocur count bounded st = some st := by
  unfold reflow_copy
  rw [h]

/-- One iteration of the loop of `reflow_line` when the rest of the old line
fits into the new line, with the cursor it leaves. -/
theorem reflow_loop_fits_run (old out : List ScreenCell) (old_cols hi nrs : Int) (w : Nat)
    (ocur nc : VTermPos) (fuel j f n : Nat) (r pc t : Int)
    (hn : pc - t = (n : Int)) (hfit : f + n ≤ w)
    (hsrc : 0 ≤ r * old_cols + t) (hd : j * w + f + n ≤ out.length)
    (hs : (r * old_cols + t).toNat + n ≤ old.length) :
    reflow_loop old hi old_cols (w : Int) 0 nrs (some ocur) (fuel + 1)
        { new_row := (j : Int), old_row := r, old_line_cells := pc, old_line_taken := t
          new_line_filled := (f : Int), out_buffer := some out, new_cursor := some nc } =
      if r + 1 > hi then
        some { new_row := (j : Int), old_row := r + 1, old_line_cells := pc, old_line_taken := 0
               new_line_filled := ((f + n : Nat) : Int)
               out_buffer := some (out.take (j * w + f) ++
                 (old.drop (r * old_cols + t).toNat).take n ++ out.drop (j * w + f + n))
               new_cursor := some (copy_cursor nrs ocur nc false j f n r t) }
      else
        (line_popcount old (r + 1) old_cols).bind fun pc1 =>
          reflow_loop old hi old_cols (w : Int) 0 nrs (some ocur) fuel
            (if f + n = w then
              { new_row := ((j + 1 : Nat) : Int), old_row := r + 1, old_line_cells := pc1
                old_line_taken := 0, new_line_filled := ((0 : Nat) : Int)
                out_buffer := some (out.take (j * w + f) ++
                  (old.drop (r * old_cols + t).toNat).take n ++ out.drop (j * w + f + n))
                new_cursor := some (copy_cursor nrs ocur nc false j f n r t) }
            else
              { new_row := (j : Int), old_row := r + 1, old_line_cells := pc1
                old_line_taken := 0, new_line_filled := ((f + n : Nat) : Int)
                out_buffer := some (out.take (j * w + f) ++
                  (old.drop (r * old_cols + t).toNat).take n ++ out.drop (j * w + f + n))
                new_cursor := some (copy_cursor nrs ocur nc false j f n r t) }) := by
  have ecopy := reflow_copy_run old out old_cols nrs w ocur nc false j f n r pc t hsrc hd hs
  have hbr : (n : Int) ≤ (w : Int) - (f : Int) := by omega
  rw [reflow_loop]
  simp only [hn, if_pos hbr, ecopy, Option.some_bind]
  by_cases hlast : r + 1 > hi
  · rw [if_pos hlast, if_pos hlast]
    simp
  · rw [if_neg hlast, if_neg hlast]
    by_cases hfull : f + n = w
    · have hfull2 : (n : Int) = (w : Int) - (f : Int) := by omega
      simp only [if_pos hfull, if_pos hfull2]
      simp
    · have hfull2 : ¬ (n : Int) = (w : Int) - (f : Int) := by omega
      simp only [if_neg hfull, if_neg hfull2]
      simp

/-- The same iteration without an output buffer. -/
theorem reflow_loop_fits_dry (old : List ScreenCell) (old_cols hi : Int) (w : Nat)
    (fuel j f n : Nat) (r pc t : Int) (hn : pc - t = (n : Int)) (hfit : f + n ≤ w) :
    reflow_loop old hi old_cols (w : Int) 0 0 none (fuel + 1)
        { new_row := (j : Int), old_row := r, old_line_cells := pc, old_line_taken := t
          new_line_filled := (f : Int), out_buffer := none, new_cursor := none } =
      if r + 1 > hi then
        some { new_row := (j : Int), old_row := r + 1, old_line_cells := pc, old_line_taken := 0
               new_line_filled := ((f + n : Nat) : Int), out_buffer := none, new_cursor := none }
      else
        (line_popcount old (r + 1) old_cols).bind fun pc1 =>
          reflow_loop old hi old_cols (w : Int) 0 0 none fuel
            (if f + n = w then
              { new_row := ((j + 1 : Nat) : Int), old_row := r + 1, old_line_cells := pc1
                old_line_taken := 0, new_line_filled := ((0 : Nat) : Int)
                out_buffer := none, new_cursor := none }
            else
              { new_row := (j : Int), old_row := r + 1, old_line_cells := pc1
                old_line_taken := 0, new_line_filled := ((f + n : Nat) : Int)
                out_buffer := none, new_cursor := none }) := by
  have hbr : (n : Int) ≤ (w : Int) - (f : Int) := by omega
  rw [reflow_loop]
  simp only [hn, if_pos hbr, reflow_copy_dry, Option.some_bind]
  by_cases hlast : r + 1 > hi
  · rw [if_pos hlast, if_pos hlast]
    simp
  · rw [if_neg hlast, if_neg hlast]
    by_cases hfull : f + n = w
    · have hfull2 : (n : Int) = (w : Int) - (f : Int) := by omega
      simp only [if_pos hfull, if_pos hfull2]
      simp
    · have hfull2 : ¬ (n : Int) = (w : Int) - (f : Int) := by omega
      simp only [if_neg hfull, if_neg hfull2]
      simp

/-- One iteration of the loop of `reflow_line` when the rest of the old line
does not fit into the new line, with the cursor it leaves. -/
theorem reflow_loop_splits_run (old out : List ScreenCell) (old_cols hi nrs : Int) (w : Nat)
    (ocur nc : VTermPos) (fuel j f n : Nat) (r pc t : Int) (x y : ScreenCell)
    (hn : f + n = w) (hf : f < w) (hmore : (n : Int) < pc - t)
    (hsrc : 0 ≤ r * old_cols + t) (hd : j * w + f + n ≤ out.length)
    (hs : (r * old_cols + t).toNat + n ≤ old.length)
    (hx : old[(r * old_cols + t).toNat + n]? = some x)
    (hy : (out.take (j * w + f) ++ (old.drop (r * old_cols + t).toNat).take n ++
      out.drop (j * w + f + n))[j * w + w - 1]? = some y) :
    reflow_loop old hi old_cols (w : Int) 0 nrs (some ocur) (fuel + 1)
        { new_row := (j : Int), old_row := r, old_line_cells := pc, old_line_taken := t
          new_line_filled := (f : Int), out_buffer := some out, new_cursor := some nc } =
      reflow_loop old hi old_cols (w : Int) 0 nrs (some ocur) fuel
        (if x.char0 = WIDE_CONT then
          { new_row := ((j + 1 : Nat) : Int), old_row := r, old_line_cells := pc
            old_line_taken := t + (n : Int) - 1, new_line_filled := ((0 : Nat) : Int)
            out_buffer := some ((out.take (j * w + f) ++
              (old.drop (r * old_cols + t).toNat).take n ++ out.drop (j * w + f + n)).set
                (j * w + w - 1) (clearcell y))
            new_cursor := some (copy_cursor nrs ocur nc true j f n r t) }
        else
          { new_row := ((j + 1 : Nat) : Int), old_row := r, old_line_cells := pc
            old_line_taken := t + (n : Int), new_line_filled := ((0 : Nat) : Int)
            out_buffer := some (out.take (j * w + f) ++
              (old.drop (r * old_cols + t).toNat).take n ++ out.drop (j * w + f + n))
            new_cursor := some (copy_cursor nrs ocur nc true j f n r t) }) := by
  have ecopy := reflow_copy_run old out old_cols nrs w ocur nc true j f n r pc t hsrc hd hs
  have hbr : ¬ pc - t ≤ (n : Int) := by omega
  have hneed : (w : Int) - (f : Int) = (n : Int) := by omega
  have hidx : r * old_cols + (t + (n : Int)) = (((r * old_cols + t).toNat + n : Nat) : Int) := by
    push_cast; omega
  have hcell : bufAt old (r * old_cols + (t + (n : Int))) = some x := by
    rw [hidx, bufAt_nat]; exact hx
  have hclr : ((j : Int) - 0) * (w : Int) + (w : Int) - 1 = ((j * w + w - 1 : Nat) : Int) := by
    have : 1 ≤ j * w + w := by omega
    push_cast [Nat.cast_sub this]; ring
  rw [reflow_loop]
  simp only [hneed, if_neg hbr, ecopy, Option.some_bind, hcell]
  by_cases hwc : x.char0 = WIDE_CONT
  · simp only [if_pos hwc]
    unfold reflow_backoff
    simp only [ge_iff_le, Int.natCast_nonneg, if_true, hclr, clear_at_nat _ _ _ hy,
      Option.map_some', Option.some_bind]
    simp
  · simp only [if_neg hwc, Option.some_bind]
    simp

/-- The same iteration without an output buffer. -/
theorem reflow_loop_splits_dry (old : List ScreenCell) (old_cols hi : Int) (w : Nat)
    (fuel j f n : Nat) (r pc t : Int) (x : ScreenCell)
    (hn : f + n = w) (hmore : (n : Int) < pc - t) (hsrc : 0 ≤ r * old_cols + t)
    (hx : old[(r * old_cols + t).toNat + n]? = some x) :
    reflow_loop old hi old_cols (w : Int) 0 0 none (fuel + 1)
        { new_row := (j : Int), old_row := r, old_line_cells := pc, old_line_taken := t
          new_line_filled := (f : Int), out_buffer := none, new_cursor := none } =
      reflow_loop old hi old_cols (w : Int) 0 0 none fuel
        (if x.char0 = WIDE_CONT then
          { new_row := ((j + 1 : Nat) : Int), old_row := r, old_line_cells := pc
            old_line_taken := t + (n : Int) - 1, new_line_filled := ((0 : Nat) : Int)
            out_buffer := none, new_cursor := none }
        else
          { new_row := ((j + 1 : Nat) : Int), old_row := r, old_line_cells := pc
            old_line_taken := t + (n : Int), new_line_filled := ((0 : Nat) : Int)
            out_buffer := none, new_cursor := none }) := by
  have hbr : ¬ pc - t ≤ (n : Int) := by omega
  have hneed : (w : Int) - (f : Int) = (n : Int) := by omega
  have hidx : r * old_cols + (t + (n : Int)) = (((r * old_cols + t).toNat + n : Nat) : Int) := by
    push_cast; omega
  have hcell : bufAt old (r * old_cols + (t + (n : Int))) = some x := by
    rw [hidx, bufAt_nat]; exact hx
  rw [reflow_loop]
  simp only [hneed, if_neg hbr, reflow_copy_dry, Option.some_bind, hcell]
  by_cases hwc : x.char0 = WIDE_CONT
  · simp only [if_pos hwc]
    unfold reflow_backoff
    simp
  · simp only [if_neg hwc, Option.some_bind]
    simp

theorem copy_cursor_keep {nrs : Int} {ocur nc : VTermPos} {bounded : Bool} {j f n : Nat}
    {r t : Int} (h : ocur.row ≠ r ∨ ocur.col < t) :
    copy_cursor nrs ocur nc bounded j f n r t = nc := by
  unfold copy_cursor
  rw [if_neg]
  rintro ⟨h1, h2, -⟩
  rcases h with h | h
  · exact h h1
  · omega

theorem copy_cursor_set {nrs : Int} {ocur nc : VTermPos} {bounded : Bool} {j f n : Nat}
    {r t : Int} (h1 : ocur.row = r) (h2 : t ≤ ocur.col)
    (h3 : bounded = true → ocur.col < t + (n : Int)) :
    copy_cursor nrs ocur nc bounded j f n r t =
      { row := nrs + (j : Int), col := (f : Int) + (ocur.col - t) } := by
  unfold copy_cursor
  rw [if_pos ⟨h1, h2, h3⟩]

/-- The cursor of a copy block is the old new cursor or a position in the line
that is being filled. -/
theorem copy_cursor_cases (nrs : Int) (ocur nc : VTermPos) (bounded : Bool) (j f n : Nat)
    (r t : Int) :
    copy_cursor nrs ocur nc bounded j f n r t = nc ∨
      (ocur.row = r ∧ t ≤ ocur.col ∧
        copy_cursor nrs ocur nc bounded j f n r t =
          { row := nrs + (j : Int), col := (f : Int) + (ocur.col - t) }) := by
  unfold copy_cursor
  split
  · rename_i h
    exact Or.inr ⟨h.1, h.2.1, rfl⟩
  · exact Or.inl rfl

/-- An iteration of the loop of `reflow_line` in which the rest of the old row
fits into the new line, run with an output buffer: the cells are copied and
the loop ends or goes on with the next old row. -/
theorem reflow_fits_step {old : List ScreenCell} {old_cols hi : Int} {w fuel j f : Nat}
    {r pc0 t : Int} {rowrest : List ScreenCell}
    (hhave : pc0 - t = (rowrest.length : Int)) (hbr : rowrest.length ≤ w - f) (hf : f < w)
    (hsrc : 0 ≤ r * old_cols + t)
    (hsidx : (r * old_cols + t).toNat + rowrest.length ≤ old.length)
    (hrr : rowrest = (old.drop (r * old_cols + t).toNat).take rowrest.length)
    (nrs : Int) (ocur nc : VTermPos) (cur out : List ScreenCell) (hcur : cur.length = f)
    (hlaid : ∀ c : Nat, c < cur.length → out[j * w + c]? = cur[c]?)
    (hroom : (j + 1) * w ≤ out.length) :
    ∃ out1, out1.length = out.length ∧
      (∀ i, i < j * w + f → out1[i]? = out[i]?) ∧
      (∀ i, j * w + f + rowrest.length ≤ i → out1[i]? = out[i]?) ∧
      (∀ c : Nat, c < (cur ++ rowrest).length → out1[j * w + c]? = (cur ++ rowrest)[c]?) ∧
      reflow_loop old hi old_cols (w : Int) 0 nrs (some ocur) (fuel + 1)
        { new_row := (j : Int), old_row := r, old_line_cells := pc0, old_line_taken := t
          new_line_filled := (f : Int), out_buffer := some out
          new_cursor := some nc } =
      if r + 1 > hi then
        some { new_row := (j : Int), old_row := r + 1, old_line_cells := pc0
               old_line_taken := 0
               new_line_filled := ((f + rowrest.length : Nat) : Int)
               out_buffer := some out1
               new_cursor := some (copy_cursor nrs ocur nc false j f rowrest.length r t) }
      else
        (line_popcount old (r + 1) old_cols).bind fun pc1 =>
          reflow_loop old hi old_cols (w : Int) 0 nrs (some ocur) fuel
            (if f + rowrest.length = w then
              { new_row := ((j + 1 : Nat) : Int), old_row := r + 1, old_line_cells := pc1
                old_line_taken := 0, new_line_filled := ((0 : Nat) : Int)
                out_buffer := some out1
                new_cursor := some
                  (copy_cursor nrs ocur nc false j f rowrest.length r t) }
            else
              { new_row := (j : Int), old_row := r + 1, old_line_cells := pc1
                old_line_taken := 0
                new_line_filled := ((f + rowrest.length : Nat) : Int)
                out_buffer := some out1
                new_cursor := some
                  (copy_cursor nrs ocur nc false j f rowrest.length r t) }) := by
  have hjw1 : (j + 1) * w = j * w + w := by ring
  have hd : j * w + f + rowrest.length ≤ out.length := by omega
  have estep := reflow_loop_fits_run old out old_cols hi nrs w ocur nc fuel j f
    rowrest.length r pc0 t hhave (by omega) hsrc hd hsidx
  rw [← hrr] at estep
  have hout1len := memcpy_result_length out old (j * w + f) (r * old_cols + t).toNat
    rowrest.length hd hsidx
  rw [← hrr] at hout1len
  have hbefore := memcpy_result_before out old (j * w + f)
    (r * old_cols + t).toNat rowrest.length hd
  rw [← hrr] at hbefore
  have hat := memcpy_result_at out old (j * w + f) (r * old_cols + t).toNat
    rowrest.length hd hsidx
  rw [← hrr] at hat
  have hafter := memcpy_result_after out old (j * w + f) (r * old_cols + t).toNat
    rowrest.length hd hsidx
  rw [← hrr] at hafter
  refine ⟨_, hout1len, hbefore, hafter, ?_, estep⟩
  intro c hcl
  by_cases hcc : c < cur.length
  · rw [hbefore _ (by omega), hlaid c hcc, List.getElem?_append_left hcc]
  · rw [List.length_append] at hcl
    have e : j * w + c = j * w + f + (c - cur.length) := by omega
    rw [e, hat _ (by omega), List.getElem?_append_right (by omega)]

/-- The run with an output buffer when the rest of the last old row fits into
the new line. -/
theorem reflow_real_last {old : List ScreenCell} {old_cols hi : Int} {w fuel j f : Nat}
    {r pc0 t : Int} {rowrest : List ScreenCell}
    (hrhi : r ≤ hi) (hlast : r + 1 > hi) (hhave : pc0 - t = (rowrest.length : Int))
    (hbr : rowrest.length ≤ w - f) (hf : f < w) (hsrc : 0 ≤ r * old_cols + t)
    (hsidx : (r * old_cols + t).toNat + rowrest.length ≤ old.length)
    (hrr : rowrest = (old.drop (r * old_cols + t).toNat).take rowrest.length) :
    ReflowReal old hi old_cols w (fuel + 1) r pc0 t j f (rowrest ++ []) j
      (f + rowrest.length) (r + 1) pc0 0 := by
  intro nrs ocur nc cur out hcur hlaid hroom
  obtain ⟨out1, hlen1, hbefore, hafter, hlaid1, estep⟩ :=
    @reflow_fits_step old old_cols hi w fuel j f r pc0 t rowrest hhave hbr hf hsrc hsidx hrr
      nrs ocur nc cur out hcur hlaid hroom
  rw [if_pos hlast] at estep
  refine ⟨out1, _, [cur ++ rowrest], estep, hlen1, fun i hi => hbefore i (by omega),
    fun i hi => hafter i (by omega), by simp,
    by rw [List.length_singleton]; omega, ?_, ?_, ?_, ?_, ?_, ?_⟩
  · intro row hrow
    simp only [List.mem_singleton] at hrow
    rw [hrow, List.length_append]
    omega
  · simp [hcur]
  · intro k c hk hcl
    have hk0 : k = 0 := by simpa using hk
    subst hk0
    simp only [List.getD_cons_zero, add_zero] at hcl ⊢
    exact hlaid1 c hcl
  · intro k c hk
    simp at hk
  · intro hcond
    apply copy_cursor_keep
    rcases hcond with h | h | h
    · left; omega
    · left; omega
    · right; exact h.2
  · intro h1 h2 h3 h4
    have hrow : ocur.row = r := by omega
    rw [copy_cursor_set hrow (h3 hrow) (fun h => by simp at h)]
    exact ⟨le_rfl, by show (0 : Int) ≤ (f : Int) + (ocur.col - t); have := h3 hrow; omega⟩

/-- The run with an output buffer when the rest of an old row fills the new
line and a further old row follows: the next old row starts the next line. -/
theorem reflow_real_full {old : List ScreenCell} {old_cols hi : Int} {w fuel j f : Nat}
    {r pc0 pc1 t : Int} {rowrest later : List ScreenCell} {jf ff : Nat} {rf pcf tf : Int}
    (hlast : ¬ r + 1 > hi) (e1 : line_popcount old (r + 1) old_cols = some pc1)
    (hfull : f + rowrest.length = w)
    (hhave : pc0 - t = (rowrest.length : Int))
    (hbr : rowrest.length ≤ w - f) (hf : f < w) (hsrc : 0 ≤ r * old_cols + t)
    (hsidx : (r * old_cols + t).toNat + rowrest.length ≤ old.length)
    (hrr : rowrest = (old.drop (r * old_cols + t).toNat).take rowrest.length)
    (hjf : j + 1 ≤ jf)
    (hR : ReflowReal old hi old_cols w fuel (r + 1) pc1 0 (j + 1) 0 later jf ff rf pcf tf) :
    ReflowReal old hi old_cols w (fuel + 1) r pc0 t j f (rowrest ++ later) jf ff rf pcf tf := by
  intro nrs ocur nc cur out hcur hlaid hroom
  have hjw1 : (j + 1) * w = j * w + w := by ring
  have hroom1 : (j + 1) * w ≤ out.length :=
    le_trans (Nat.mul_le_mul_right w (by omega)) hroom
  obtain ⟨out1, hlen1, hbefore, hafter, hlaid1, estep⟩ :=
    @reflow_fits_step old old_cols hi w fuel j f r pc0 t rowrest hhave hbr hf hsrc hsidx hrr
      nrs ocur nc cur out hcur hlaid hroom1
  rw [if_neg hlast, e1] at estep
  simp only [Option.some_bind, if_pos hfull] at estep
  obtain ⟨outf, ncf, rows1, hE, hLen, hKeep, hAfter, hFlat, hCount, hLe, hLast, hLaidF,
      hPadF, hC1, hC2⟩ :=
    hR nrs ocur (copy_cursor nrs ocur nc false j f rowrest.length r t) [] out1 rfl
      (fun c hcl => absurd hcl (Nat.not_lt_zero c)) (by rw [hlen1]; exact hroom)
  have hjfw : (j + 1) * w ≤ jf * w := Nat.mul_le_mul_right w hjf
  have hcomb := @rows_laid_cons out1 outf w j (cur ++ rowrest) rows1 hKeep hlaid1
    (by rw [List.length_append]; omega) hLaidF hPadF
    (fun _ c h1 h2 => by rw [List.length_append] at h1; omega)
  refine ⟨outf, ncf, (cur ++ rowrest) :: rows1, by rw [estep]; exact hE,
    hLen.trans hlen1, ?_, ?_, ?_, ?_, ?_, ?_, hcomb.1, hcomb.2, ?_, ?_⟩
  · intro i hib
    rw [hKeep i (by omega), hbefore i (by omega)]
  · intro i hib
    rw [hAfter i hib, hafter i (by omega)]
  · rw [List.flatten_cons, hFlat]
    simp
  · rw [List.length_cons]; omega
  · intro row hrow
    rcases List.mem_cons.mp hrow with h | h
    · rw [h, List.length_append]; omega
    · exact hLe row h
  · have e : jf - j = (jf - (j + 1)) + 1 := by omega
    rw [e, List.getD_cons_succ]
    exact hLast
  · intro hcond
    rw [hC1 (by
      rcases hcond with h | h | h
      · left; omega
      · right; left; exact h
      · left; omega)]
    apply copy_cursor_keep
    rcases hcond with h | h | h
    · left; omega
    · left; omega
    · right; exact h.2
  · intro h1 h2 h3 h4
    by_cases hrow : ocur.row = r
    · rw [hC1 (Or.inl (by omega)),
        copy_cursor_set hrow (h3 hrow) (fun h => by simp at h)]
      exact ⟨le_rfl, by
        show (0 : Int) ≤ (f : Int) + (ocur.col - t); have := h3 hrow; omega⟩
    · have := hC2 (by omega) h2 (fun _ => h4) h4
      exact ⟨by push_cast at this; omega, this.2⟩

/-- The run with an output buffer when the rest of an old row leaves room in the
new line and a further old row follows: the next old row goes on in the
line. -/
theorem reflow_real_more {old : List ScreenCell} {old_cols hi : Int} {w fuel j f : Nat}
    {r pc0 pc1 t : Int} {rowrest later : List ScreenCell} {jf ff : Nat} {rf pcf tf : Int}
    (hlast : ¬ r + 1 > hi) (e1 : line_popcount old (r + 1) old_cols = some pc1)
    (hfull : ¬ f + rowrest.length = w)
    (hhave : pc0 - t = (rowrest.length : Int))
    (hbr : rowrest.length ≤ w - f) (hf : f < w) (hsrc : 0 ≤ r * old_cols + t)
    (hsidx : (r * old_cols + t).toNat + rowrest.length ≤ old.length)
    (hrr : rowrest = (old.drop (r * old_cols + t).toNat).take rowrest.length)
    (hjf : j ≤ jf)
    (hR : ReflowReal old hi old_cols w fuel (r + 1) pc1 0 j (f + rowrest.length) later jf ff
      rf pcf tf) :
    ReflowReal old hi old_cols w (fuel + 1) r pc0 t j f (rowrest ++ later) jf ff rf pcf tf := by
  intro nrs ocur nc cur out hcur hlaid hroom
  have hjw1 : (j + 1) * w = j * w + w := by ring
  have hroom1 : (j + 1) * w ≤ out.length :=
    le_trans (Nat.mul_le_mul_right w (by omega)) hroom
  obtain ⟨out1, hlen1, hbefore, hafter, hlaid1, estep⟩ :=
    @reflow_fits_step old old_cols hi w fuel j f r pc0 t rowrest hhave hbr hf hsrc hsidx hrr
      nrs ocur nc cur out hcur hlaid hroom1
  rw [if_neg hlast, e1] at estep
  simp only [Option.some_bind, if_neg hfull] at estep
  obtain ⟨outf, ncf, rows1, hE, hLen, hKeep, hAfter, hFlat, hCount, hLe, hLast, hLaidF,
      hPadF, hC1, hC2⟩ :=
    hR nrs ocur (copy_cursor nrs ocur nc false j f rowrest.length r t) (cur ++ rowrest)
      out1 (by rw [List.length_append, hcur]) hlaid1 (by rw [hlen1]; exact hroom)
  have hjfw : j * w ≤ jf * w := Nat.mul_le_mul_right w hjf
  refine ⟨outf, ncf, rows1, by rw [estep]; exact hE,
    hLen.trans hlen1, ?_, ?_, ?_, hCount, hLe, hLast, hLaidF, hPadF, ?_, ?_⟩
  · intro i hib
    rw [hKeep i hib, hbefore i (by omega)]
  · intro i hib
    rw [hAfter i hib]
    apply hafter i
    -- the loop ends in a later line, or in this line after the cells copied
    by_cases hj : j = jf
    · subst hj
      have h0 : (rows1.getD 0 []).length = ff := by simpa using hLast
      have h1 : rows1.length = 1 := by omega
      obtain ⟨row0, hrow0⟩ : ∃ row0, rows1 = [row0] := by
        match rows1, h1 with
        | [row0], _ => exact ⟨row0, rfl⟩
      rw [hrow0] at hFlat h0
      simp only [List.flatten_cons, List.flatten_nil, List.append_nil,
        List.getD_cons_zero] at hFlat h0
      have := congrArg List.length hFlat
      simp only [List.length_append] at this
      omega
    · have : (j + 1) * w ≤ jf * w := Nat.mul_le_mul_right w (by omega)
      omega
  · rw [hFlat]
    simp
  · intro hcond
    rw [hC1 (by
      rcases hcond with h | h | h
      · left; omega
      · right; left; exact h
      · left; omega)]
    apply copy_cursor_keep
    rcases hcond with h | h | h
    · left; omega
    · left; omega
    · right; exact h.2
  · intro h1 h2 h3 h4
    by_cases hrow : ocur.row = r
    · rw [hC1 (Or.inl (by omega)),
        copy_cursor_set hrow (h3 hrow) (fun h => by simp at h)]
      exact ⟨le_rfl, by
        show (0 : Int) ≤ (f : Int) + (ocur.col - t); have := h3 hrow; omega⟩
    · exact hC2 (by omega) h2 (fun _ => h4) h4

/-- An iteration of the loop of `reflow_line` in which the rest of the old row
does not fit into the new line, run with an output buffer: the line is filled
and the loop goes on in the next line, one cell back when the next cell is the
trailing half of a wide glyph. -/
theorem reflow_splits_step {old : List ScreenCell} {old_cols hi : Int} {w fuel j f n : Nat}
    {r pc0 t : Int} {rowrest : List ScreenCell} {x : ScreenCell} (hn : f + n = w)
    (hx : rowrest[n]? = some x)
    (hhave : pc0 - t = (rowrest.length : Int)) (hnL : n < rowrest.length) (hf : f < w)
    (hsrc : 0 ≤ r * old_cols + t)
    (hsidx : (r * old_cols + t).toNat + rowrest.length ≤ old.length)
    (hrr : rowrest = (old.drop (r * old_cols + t).toNat).take rowrest.length)
    (nrs : Int) (ocur nc : VTermPos) (cur out : List ScreenCell) (hcur : cur.length = f)
    (hlaid : ∀ c : Nat, c < cur.length → out[j * w + c]? = cur[c]?)
    (hroom : (j + 1) * w ≤ out.length) :
    ∃ out1 y, out1.length = out.length ∧ out1[j * w + w - 1]? = some y ∧
      (∀ i, i < j * w + f → out1[i]? = out[i]?) ∧
      (∀ i, (j + 1) * w ≤ i → out1[i]? = out[i]?) ∧
      (∀ c : Nat, c < (cur ++ rowrest.take (n)).length →
        out1[j * w + c]? = (cur ++ rowrest.take (n))[c]?) ∧
      reflow_loop old hi old_cols (w : Int) 0 nrs (some ocur) (fuel + 1)
        { new_row := (j : Int), old_row := r, old_line_cells := pc0, old_line_taken := t
          new_line_filled := (f : Int), out_buffer := some out
          new_cursor := some nc } =
      reflow_loop old hi old_cols (w : Int) 0 nrs (some ocur) fuel
        (if x.char0 = WIDE_CONT then
          { new_row := ((j + 1 : Nat) : Int), old_row := r, old_line_cells := pc0
            old_line_taken := t + ((n : Nat) : Int) - 1
            new_line_filled := ((0 : Nat) : Int)
            out_buffer := some (out1.set (j * w + w - 1) (clearcell y))
            new_cursor := some (copy_cursor nrs ocur nc true j f (n) r t) }
        else
          { new_row := ((j + 1 : Nat) : Int), old_row := r, old_line_cells := pc0
            old_line_taken := t + ((n : Nat) : Int)
            new_line_filled := ((0 : Nat) : Int)
            out_buffer := some out1
            new_cursor := some (copy_cursor nrs ocur nc true j f (n) r t) }) := by
  have hjw1 : (j + 1) * w = j * w + w := by ring
  have hs2 : (r * old_cols + t).toNat + (n) ≤ old.length := by omega
  have hxget : old[(r * old_cols + t).toNat + (n)]? = rowrest[n]? := by
    conv_rhs => rw [hrr]
    rw [List.getElem?_take_of_lt hnL, List.getElem?_drop]
  have htake : (old.drop (r * old_cols + t).toNat).take (n) = rowrest.take (n) := by
    conv_rhs => rw [hrr]
    rw [take_drop_take _ _ _ _ (by omega)]
  have htl : (rowrest.take (n)).length = n := by
    rw [List.length_take]; omega
  have hd : j * w + f + (n) ≤ out.length := by omega
  have hout1len := memcpy_result_length out old (j * w + f)
    (r * old_cols + t).toNat (n) hd hs2
  obtain ⟨y, hy⟩ : ∃ y, (out.take (j * w + f) ++
      (old.drop (r * old_cols + t).toNat).take (n) ++
      out.drop (j * w + f + (n)))[j * w + w - 1]? = some y :=
    ⟨_, List.getElem?_eq_getElem (by rw [hout1len]; omega)⟩
  have estep := reflow_loop_splits_run old out old_cols hi nrs w ocur nc fuel j f
    (n) r pc0 t x y (by omega) hf (by omega) hsrc hd hs2
    (hxget.trans hx) hy
  have hbefore := memcpy_result_before out old (j * w + f)
    (r * old_cols + t).toNat (n) hd
  have hat := memcpy_result_at out old (j * w + f) (r * old_cols + t).toNat
    (n) hd hs2
  have hafter := memcpy_result_after out old (j * w + f) (r * old_cols + t).toNat
    (n) hd hs2
  generalize hout1 : out.take (j * w + f) ++
      (old.drop (r * old_cols + t).toNat).take (n) ++
      out.drop (j * w + f + (n)) = out1
    at estep hbefore hat hout1len hy hafter
  rw [htake] at hat
  refine ⟨out1, y, hout1len, hy, hbefore, fun i hi => hafter i (by omega), ?_, estep⟩
  intro c hcl
  by_cases hcc : c < cur.length
  · rw [hbefore _ (by omega), hlaid c hcc, List.getElem?_append_left hcc]
  · rw [List.length_append, htl] at hcl
    have e : j * w + c = j * w + f + (c - cur.length) := by omega
    rw [e, hat _ (by omega), List.getElem?_append_right (by omega)]

/-- The run with an output buffer when the new line is full at the trailing half
of a wide glyph: the leading half moves to the next line. -/
theorem reflow_real_wide {old : List ScreenCell} {old_cols hi : Int} {w fuel j f k n : Nat}
    {r pc0 t : Int} {rowrest later : List ScreenCell} {jf ff : Nat} {rf pcf tf : Int}
    {x : ScreenCell} (hn : f + n = w) (hx : rowrest[n]? = some x)
    (hrhi : r ≤ hi) (hwc : x.char0 = WIDE_CONT) (hk : n = k + 1)
    (hhave : pc0 - t = (rowrest.length : Int)) (hnL : n < rowrest.length) (hf : f < w)
    (hsrc : 0 ≤ r * old_cols + t)
    (hsidx : (r * old_cols + t).toNat + rowrest.length ≤ old.length)
    (hrr : rowrest = (old.drop (r * old_cols + t).toNat).take rowrest.length)
    (hjf : j + 1 ≤ jf)
    (hR : ReflowReal old hi old_cols w fuel r pc0 (t + ((n : Nat) : Int) - 1) (j + 1) 0
      (rowrest.drop k ++ later) jf ff rf pcf tf) :
    ReflowReal old hi old_cols w (fuel + 1) r pc0 t j f (rowrest ++ later) jf ff rf pcf tf := by
  intro nrs ocur nc cur out hcur hlaid hroom
  have hjw1 : (j + 1) * w = j * w + w := by ring
  have hkL : k < rowrest.length := by omega
  have htl : (rowrest.take (n)).length = n := by
    rw [List.length_take]; omega
  have htakel : rowrest.take (n) = rowrest.take k ++ [rowrest[k]] := by
    rw [hk, List.take_succ, List.getElem?_eq_getElem hkL]
    rfl
  have hroom1 : (j + 1) * w ≤ out.length :=
    le_trans (Nat.mul_le_mul_right w (by omega)) hroom
  obtain ⟨out1, y, hlen1, hy, hbefore, hafter, hlaid1, estep⟩ :=
    @reflow_splits_step old old_cols hi w fuel j f n r pc0 t rowrest x hn hx hhave hnL hf hsrc
      hsidx hrr nrs ocur nc cur out hcur hlaid hroom1
  rw [if_pos hwc] at estep
  have hlastidx : j * w + w - 1 = j * w + (f + k) := by omega
  rw [hlastidx] at hy estep
  have hsetlen : (out1.set (j * w + (f + k)) (clearcell y)).length = out.length := by
    rw [List.length_set]; exact hlen1
  obtain ⟨outf, ncf, rows1, hE, hLen, hKeep, hAfter, hFlat, hCount, hLe, hLast, hLaidF,
      hPadF, hC1, hC2⟩ :=
    hR nrs ocur (copy_cursor nrs ocur nc true j f (n) r t) []
      (out1.set (j * w + (f + k)) (clearcell y)) rfl
      (fun c hcl => absurd hcl (Nat.not_lt_zero c)) (by rw [hsetlen]; exact hroom)
  have hjfw : (j + 1) * w ≤ jf * w := Nat.mul_le_mul_right w hjf
  have hrow0len : (cur ++ rowrest.take k).length = f + k := by
    rw [List.length_append, List.length_take]; omega
  have hpad0 : ∀ c, (cur ++ rowrest.take k).length ≤ c → c < w →
      ∃ x, (out1.set (j * w + (f + k)) (clearcell y))[j * w + c]? = some x ∧
        x.char0 = 0 := by
    intro c hc1 hc2
    have hcw : c = f + k := by omega
    subst hcw
    refine ⟨clearcell y, ?_, clearcell_char0 _⟩
    rw [List.getElem?_set_eq_of_lt _ (by rw [hlen1]; omega)]
  have hcomb := @rows_laid_cons (out1.set (j * w + (f + k)) (clearcell y)) outf w j
    (cur ++ rowrest.take k) rows1 hKeep
    (by
      intro c hcl
      have hcl2 : c < f + k := by omega
      rw [List.getElem?_set_ne (by omega), hlaid1 c (by
        rw [List.length_append, htl]; omega), htakel, ← List.append_assoc,
        List.getElem?_append_left hcl])
    (by omega) hLaidF hPadF (fun _ => hpad0)
  refine ⟨outf, ncf, (cur ++ rowrest.take k) :: rows1, by rw [estep]; exact hE,
    hLen.trans hsetlen, ?_, ?_, ?_, ?_, ?_, ?_, hcomb.1, hcomb.2, ?_, ?_⟩
  · intro i hib
    rw [hKeep i (by omega), List.getElem?_set_ne (by omega), hbefore i (by omega)]
  · intro i hib
    rw [hAfter i hib, List.getElem?_set_ne (by omega), hafter i (by omega)]
  · rw [List.flatten_cons, hFlat]
    simp only [List.nil_append, List.append_assoc]
    congr 1
    rw [← List.append_assoc, List.take_append_drop]
  · rw [List.length_cons]; omega
  · intro row hrow
    rcases List.mem_cons.mp hrow with h | h
    · rw [h]; omega
    · exact hLe row h
  · have e : jf - j = (jf - (j + 1)) + 1 := by omega
    rw [e, List.getD_cons_succ]
    exact hLast
  · intro hcond
    rw [hC1 (by
      rcases hcond with h | h | h
      · left; exact h
      · right; left; exact h
      · right; right; exact ⟨h.1, by omega⟩)]
    apply copy_cursor_keep
    rcases hcond with h | h | h
    · left; omega
    · left; omega
    · right; exact h.2
  · intro h1 h2 h3 h4
    by_cases hrow : ocur.row = r
    · by_cases hcol : ocur.col < t + ((n : Nat) : Int) - 1
      · rw [hC1 (Or.inr (Or.inr ⟨hrow, hcol⟩)),
          copy_cursor_set hrow (h3 hrow) (fun _ => by omega)]
        exact ⟨le_rfl, by
          show (0 : Int) ≤ (f : Int) + (ocur.col - t); have := h3 hrow; omega⟩
      · have := hC2 h1 h2 (fun _ => by omega) h4
        exact ⟨by push_cast at this; omega, this.2⟩
    · have := hC2 h1 h2 (fun h => absurd h hrow) h4
      exact ⟨by push_cast at this; omega, this.2⟩

/-- The run with an output buffer when the new line is full before the end of
the old row: the next cell of the old row starts the next line. -/
theorem reflow_real_split {old : List ScreenCell} {old_cols hi : Int} {w fuel j f n : Nat}
    {r pc0 t : Int} {rowrest later : List ScreenCell} {jf ff : Nat} {rf pcf tf : Int}
    {x : ScreenCell} (hn : f + n = w) (hx : rowrest[n]? = some x)
    (hrhi : r ≤ hi) (hwc : ¬ x.char0 = WIDE_CONT)
    (hhave : pc0 - t = (rowrest.length : Int)) (hnL : n < rowrest.length) (hf : f < w)
    (hsrc : 0 ≤ r * old_cols + t)
    (hsidx : (r * old_cols + t).toNat + rowrest.length ≤ old.length)
    (hrr : rowrest = (old.drop (r * old_cols + t).toNat).take rowrest.length)
    (hjf : j + 1 ≤ jf)
    (hR : ReflowReal old hi old_cols w fuel r pc0 (t + ((n : Nat) : Int)) (j + 1) 0
      (rowrest.drop (n) ++ later) jf ff rf pcf tf) :
    ReflowReal old hi old_cols w (fuel + 1) r pc0 t j f (rowrest ++ later) jf ff rf pcf tf := by
  intro nrs ocur nc cur out hcur hlaid hroom
  have hjw1 : (j + 1) * w = j * w + w := by ring
  have htl : (rowrest.take (n)).length = n := by
    rw [List.length_take]; omega
  have hroom1 : (j + 1) * w ≤ out.length :=
    le_trans (Nat.mul_le_mul_right w (by omega)) hroom
  obtain ⟨out1, y, hlen1, hy, hbefore, hafter, hlaid1, estep⟩ :=
    @reflow_splits_step old old_cols hi w fuel j f n r pc0 t rowrest x hn hx hhave hnL hf hsrc
      hsidx hrr nrs ocur nc cur out hcur hlaid hroom1
  rw [if_neg hwc] at estep
  obtain ⟨outf, ncf, rows1, hE, hLen, hKeep, hAfter, hFlat, hCount, hLe, hLast, hLaidF,
      hPadF, hC1, hC2⟩ :=
    hR nrs ocur (copy_cursor nrs ocur nc true j f (n) r t) [] out1 rfl
      (fun c hcl => absurd hcl (Nat.not_lt_zero c)) (by rw [hlen1]; exact hroom)
  have hjfw : (j + 1) * w ≤ jf * w := Nat.mul_le_mul_right w hjf
  have hcomb := @rows_laid_cons out1 outf w j (cur ++ rowrest.take (n)) rows1 hKeep
    hlaid1 (by rw [List.length_append, htl]; omega) hLaidF hPadF
    (fun _ c h1 h2 => by rw [List.length_append, htl] at h1; omega)
  refine ⟨outf, ncf, (cur ++ rowrest.take (n)) :: rows1, by rw [estep]; exact hE,
    hLen.trans hlen1, ?_, ?_, ?_, ?_, ?_, ?_, hcomb.1, hcomb.2, ?_, ?_⟩
  · intro i hib
    rw [hKeep i (by omega), hbefore i (by omega)]
  · intro i hib
    rw [hAfter i hib, hafter i (by omega)]
  · rw [List.flatten_cons, hFlat]
    simp only [List.nil_append, List.append_assoc]
    congr 1
    rw [← List.append_assoc, List.take_append_drop]
  · rw [List.length_cons]; omega
  · intro row hrow
    rcases List.mem_cons.mp hrow with h | h
    · rw [h, List.length_append, htl]; omega
    · exact hLe row h
  · have e : jf - j = (jf - (j + 1)) + 1 := by omega
    rw [e, List.getD_cons_succ]
    exact hLast
  · intro hcond
    rw [hC1 (by
      rcases hcond with h | h | h
      · left; exact h
      · right; left; exact h
      · right; right; exact ⟨h.1, by omega⟩)]
    apply copy_cursor_keep
    rcases hcond with h | h | h
    · left; omega
    · left; omega
    · right; exact h.2
  · intro h1 h2 h3 h4
    by_cases hrow : ocur.row = r
    · by_cases hcol : ocur.col < t + ((n : Nat) : Int)
      · rw [hC1 (Or.inr (Or.inr ⟨hrow, hcol⟩)),
          copy_cursor_set hrow (h3 hrow) (fun _ => hcol)]
        exact ⟨le_rfl, by
          show (0 : Int) ≤ (f : Int) + (ocur.col - t); have := h3 hrow; omega⟩
      · have := hC2 h1 h2 (fun _ => by omega) h4
        exact ⟨by push_cast at this; omega, this.2⟩
    · have := hC2 h1 h2 (fun h => absurd h hrow) h4
      exact ⟨by push_cast at this; omega, this.2⟩

set_option maxHeartbeats 1000000 in
/-- The loop of `reflow_line` from the head of an iteration, with `f` cells in
the current new line.  Run without an output buffer it returns; run with a
buffer that has room up to the line it ends in, it returns with the same
counters, lays the cells still to come out in rows, blanks the rest of every
line but the last, leaves the rest of the buffer alone and moves the cursor
only with a cell of the rows. -/
theorem reflow_loop_run {old : List ScreenCell} {old_cols lo hi : Int} {w : Nat}
    (hc : 0 ≤ old_cols) (hw : 0 < w)
    (hrows : ∀ r, lo ≤ r → r ≤ hi → 0 ≤ r ∧ (r + 1) * old_cols ≤ old.length)
    (hprog : 2 ≤ w ∨ ∀ r, lo ≤ r → r ≤ hi → ∀ c, 0 ≤ c → c < old_cols →
      ∀ x, bufAt old (r * old_cols + c) = some x → x.char0 ≠ WIDE_CONT) :
    ∀ (fuel : Nat) (r pc t : Int) (m j f : Nat) (rowrest later : List ScreenCell),
      lo ≤ r → r + (m : Int) = hi + 1 → 0 < m →
      line_popcount old r old_cols = some pc → 0 ≤ t →
      pc - t = (rowrest.length : Int) →
      rowrest = (old.drop (r * old_cols + t).toNat).take rowrest.length →
      later = paragraph_cells old old_cols (m - 1) (r + 1) →
      f < w →
      2 * (rowrest ++ later).length + m + (if f = 0 then 0 else 1) < fuel →
      ∃ (jf ff : Nat) (rf pcf tf : Int),
        reflow_loop old hi old_cols (w : Int) 0 0 none fuel
          { new_row := (j : Int), old_row := r, old_line_cells := pc, old_line_taken := t
            new_line_filled := (f : Int), out_buffer := none, new_cursor := none } =
        some { new_row := (jf : Int), old_row := rf, old_line_cells := pcf, old_line_taken := tf
               new_line_filled := (ff : Int), out_buffer := none, new_cursor := none } ∧
        j ≤ jf ∧ ff ≤ w ∧
        ∀ (nrs : Int) (ocur nc : VTermPos) (cur out : List ScreenCell),
          cur.length = f → (∀ c : Nat, c < cur.length → out[j * w + c]? = cur[c]?) →
          (jf + 1) * w ≤ out.length →
          ∃ (outf : List ScreenCell) (ncf : VTermPos) (rows : List (List ScreenCell)),
            reflow_loop old hi old_cols (w : Int) 0 nrs (some ocur) fuel
              { new_row := (j : Int), old_row := r, old_line_cells := pc, old_line_taken := t
                new_line_filled := (f : Int), out_buffer := some out
                new_cursor := some nc } =
            some { new_row := (jf : Int), old_row := rf, old_line_cells := pcf
                   old_line_taken := tf, new_line_filled := (ff : Int)
                   out_buffer := some outf, new_cursor := some ncf } ∧
            outf.length = out.length ∧
            (∀ i, i < j * w → outf[i]? = out[i]?) ∧
            (∀ i, jf * w + ff ≤ i → outf[i]? = out[i]?) ∧
            rows.flatten = cur ++ (rowrest ++ later) ∧
            rows.length + j = jf + 1 ∧
            (∀ row ∈ rows, row.length ≤ w) ∧
            (rows.getD (jf - j) []).length = ff ∧
            RowsLaid outf w j rows ∧ RowsPadded outf w j rows (rows.length - 1) ∧
            ((ocur.row < r ∨ hi < ocur.row ∨ (ocur.row = r ∧ ocur.col < t)) → ncf = nc) ∧
            (r ≤ ocur.row → ocur.row ≤ hi → (ocur.row = r → t ≤ ocur.col) → 0 ≤ ocur.col →
              nrs + (j : Int) ≤ ncf.row ∧ 0 ≤ ncf.col) := by
  intro fuel
  induction fuel with
  | zero => intro r pc t m j f rowrest later _ _ _ _ _ _ _ _ _ h; omega
  | succ fuel ih =>
    intro r pc t m j f rowrest later hlo hm hmpos hpop ht hhave hrr hlater hf hmeas
    have hr := hrows r hlo (by omega)
    obtain ⟨pc0, e0, p1, p2, -, -⟩ := line_popcount_spec hc hr.1 hr.2
    have hpc : pc0 = pc := by rw [hpop] at e0; exact (Option.some.inj e0).symm
    subst hpc
    have hsrc0 : 0 ≤ r * old_cols := mul_nonneg hr.1 hc
    have hsrc : 0 ≤ r * old_cols + t := by omega
    have hrowend : r * old_cols + pc0 ≤ old.length := by
      have : (r + 1) * old_cols = r * old_cols + old_cols := by ring
      omega
    have hsidx : (r * old_cols + t).toNat + rowrest.length ≤ old.length := by omega
    have hrhi : r ≤ hi := by omega
    by_cases hbr : rowrest.length ≤ w - f
    · -- the rest of the old line fits into the new line
      have edry := reflow_loop_fits_dry old old_cols hi w fuel j f rowrest.length r pc0 t hhave
        (by omega)
      by_cases hlast : r + 1 > hi
      · -- the last old line: the loop is left
        rw [if_pos hlast] at edry
        have hm1 : m = 1 := by omega
        have hlat : later = [] := by rw [hlater, hm1]; rfl
        rw [hlat]
        exact ⟨j, f + rowrest.length, _, _, _, edry, le_rfl, by omega,
          reflow_real_last hrhi hlast hhave hbr hf hsrc hsidx hrr⟩
      · -- a further old line follows
        rw [if_neg hlast] at edry
        have hm2 : 2 ≤ m := by omega
        have hr1 := hrows (r + 1) (by omega) (by omega)
        obtain ⟨pc1, e1, q1, q2, -, -⟩ := line_popcount_spec hc hr1.1 hr1.2
        rw [e1] at edry
        simp only [Option.some_bind] at edry
        have hsrc1 : 0 ≤ (r + 1) * old_cols := mul_nonneg hr1.1 hc
        have hrow1end : (r + 1) * old_cols + pc1 ≤ old.length := by
          have : (r + 1 + 1) * old_cols = (r + 1) * old_cols + old_cols := by ring
          omega
        have hnext : stripped_row old old_cols (r + 1) =
            (old.drop ((r + 1) * old_cols + 0).toNat).take pc1.toNat := by
          rw [stripped_row_eq e1, add_zero]
        have hnextlen : (stripped_row old old_cols (r + 1)).length = pc1.toNat := by
          rw [hnext, List.length_take, List.length_drop]
          omega
        have hlat : later = stripped_row old old_cols (r + 1) ++
            paragraph_cells old old_cols (m - 1 - 1) (r + 1 + 1) := by
          rw [hlater]
          obtain ⟨k, hk⟩ : ∃ k, m - 1 = k + 1 := ⟨m - 2, by omega⟩
          rw [hk]
          rfl
        have hm' : r + 1 + ((m - 1 : Nat) : Int) = hi + 1 := by
          push_cast [Nat.cast_sub (show 1 ≤ m by omega)]; omega
        by_cases hfull : f + rowrest.length = w
        · -- the new line is full: the next old line starts the next new line
          rw [if_pos hfull] at edry
          obtain ⟨jf, ff, rf, pcf, tf, hD, hjf, hffw, hR⟩ :=
            ih (r + 1) pc1 0 (m - 1) (j + 1) 0 (stripped_row old old_cols (r + 1))
              (paragraph_cells old old_cols (m - 1 - 1) (r + 1 + 1))
              (by omega) hm' (by omega)
              e1 le_rfl (by rw [hnextlen]; omega)
              (by rw [hnextlen]; exact hnext) rfl hw
              (by
                rw [← hlat]
                simp only [List.length_append, if_true] at hmeas ⊢
                omega)
          rw [← hlat] at hR
          exact ⟨jf, ff, rf, pcf, tf, by rw [edry]; exact hD, by omega, hffw,
            reflow_real_full hlast e1 hfull hhave hbr hf hsrc hsidx hrr hjf hR⟩
        · -- the new line has room left: the next old line goes on in it
          rw [if_neg hfull] at edry
          obtain ⟨jf, ff, rf, pcf, tf, hD, hjf, hffw, hR⟩ :=
            ih (r + 1) pc1 0 (m - 1) j (f + rowrest.length) (stripped_row old old_cols (r + 1))
              (paragraph_cells old old_cols (m - 1 - 1) (r + 1 + 1))
              (by omega) hm' (by omega)
              e1 le_rfl (by rw [hnextlen]; omega)
              (by rw [hnextlen]; exact hnext) rfl (by omega)
              (by
                rw [← hlat]
                simp only [List.length_append] at hmeas ⊢
                split at hmeas <;> split <;> omega)
          rw [← hlat] at hR
          exact ⟨jf, ff, rf, pcf, tf, by rw [edry]; exact hD, hjf, hffw,
            reflow_real_more hlast e1 hfull hhave hbr hf hsrc hsidx hrr hjf hR⟩
    · -- the rest of the old line does not fit into the new line
      have hn1 : 1 ≤ w - f := by omega
      have hnL : w - f < rowrest.length := by omega
      have hn : f + (w - f) = w := by omega
      have hxget : old[(r * old_cols + t).toNat + (w - f)]? = rowrest[w - f]? := by
        conv_rhs => rw [hrr]
        rw [List.getElem?_take_of_lt hnL, List.getElem?_drop]
      have hx : rowrest[w - f]? = some rowrest[w - f] := List.getElem?_eq_getElem hnL
      have hidx : ∀ k : Nat, (r * old_cols + (t + (k : Int))).toNat =
          (r * old_cols + t).toNat + k := by
        intro k; omega
      have edry := reflow_loop_splits_dry old old_cols hi w fuel j f (w - f) r pc0 t
        rowrest[w - f] (by omega) (by omega) hsrc (hxget.trans hx)
      by_cases hwc : rowrest[w - f].char0 = WIDE_CONT
      · -- the split falls inside a wide glyph: back off by one cell
        rw [if_pos hwc] at edry
        have hbuf : bufAt old (r * old_cols + (t + ((w - f : Nat) : Int))) =
            some rowrest[w - f] := by
          have e : r * old_cols + (t + ((w - f : Nat) : Int)) =
              (((r * old_cols + t).toNat + (w - f) : Nat) : Int) := by
            push_cast; omega
          rw [e, bufAt_nat]
          exact hxget.trans hx
        have h2 : 2 ≤ w := by
          rcases hprog with h | h
          · exact h
          · exact absurd hwc (h r hlo (by omega) (t + ((w - f : Nat) : Int)) (by omega)
              (by omega) _ hbuf)
        obtain ⟨k, hk⟩ : ∃ k, w - f = k + 1 := ⟨w - f - 1, by omega⟩
        have hkL : k < rowrest.length := by omega
        have hrr2 : rowrest.drop k =
            (old.drop (r * old_cols + (t + ((w - f : Nat) : Int) - 1)).toNat).take
              (rowrest.drop k).length := by
          have e : (r * old_cols + (t + ((w - f : Nat) : Int) - 1)).toNat =
              (r * old_cols + t).toNat + k := by omega
          rw [e, List.length_drop]
          conv_lhs => rw [hrr]
          rw [drop_take_drop]
        obtain ⟨jf, ff, rf, pcf, tf, hD, hjf, hffw, hR⟩ :=
          ih r pc0 (t + ((w - f : Nat) : Int) - 1) m (j + 1) 0 (rowrest.drop k) later
            hlo hm hmpos hpop (by omega)
            (by rw [List.length_drop]; push_cast [Nat.cast_sub (le_of_lt hkL)]; omega)
            hrr2 hlater hw
            (by
              simp only [List.length_append, List.length_drop, if_true] at hmeas ⊢
              have hcn : f ≠ 0 ∨ 2 ≤ w - f := by
                by_cases hce : f = 0
                · right; omega
                · left; exact hce
              rcases hcn with hcn | hcn
              · rw [if_neg hcn] at hmeas; omega
              · split at hmeas <;> omega)
        exact ⟨jf, ff, rf, pcf, tf, by rw [edry]; exact hD, by omega, hffw,
          reflow_real_wide hn hx hrhi hwc hk hhave hnL hf hsrc hsidx hrr hjf hR⟩
      · -- the next new line starts with the next cell of the old line
        rw [if_neg hwc] at edry
        have hrr2 : rowrest.drop (w - f) =
            (old.drop (r * old_cols + (t + ((w - f : Nat) : Int))).toNat).take
              (rowrest.drop (w - f)).length := by
          rw [hidx, List.length_drop]
          conv_lhs => rw [hrr]
          rw [drop_take_drop]
        obtain ⟨jf, ff, rf, pcf, tf, hD, hjf, hffw, hR⟩ :=
          ih r pc0 (t + ((w - f : Nat) : Int)) m (j + 1) 0 (rowrest.drop (w - f)) later
            hlo hm hmpos hpop (by omega)
            (by rw [List.length_drop]; push_cast [Nat.cast_sub (le_of_lt hnL)]; omega)
            hrr2 hlater hw
            (by
              simp only [List.length_append, List.length_drop, if_true] at hmeas ⊢
              omega)
        exact ⟨jf, ff, rf, pcf, tf, by rw [edry]; exact hD, by omega, hffw,
          reflow_real_split hn hx hrhi hwc hhave hnL hf hsrc hsidx hrr hjf hR⟩

theorem getLast_of_getD {rows : List (List ScreenCell)} {h : Nat} (hlen : rows.length = h + 1) :
    rows.getLast? = some (rows.getD h []) := by
  rw [List.getLast?_eq_getElem?, hlen, Nat.add_sub_cancel, List.getD_eq_getElem?_getD]
  have : h < rows.length := by omega
  rw [List.getElem?_eq_getElem this]
  rfl

/-- The function `reflow_line` on a paragraph inside the old buffer.  Called
without an output buffer it returns the line its output ends in; called with
a buffer that has room up to that line it returns the same position, lays the
cells of the paragraph out in rows from line 0 on, blanks the rest of every
line that holds cells, leaves every cell after these lines alone and moves the
cursor only when it is in the rows of the paragraph. -/
theorem reflow_line_run {old : List ScreenCell} {old_cols lo hi : Int} {w fuel : Nat}
    (hc : 0 ≤ old_cols) (hw : 0 < w) (h0 : 0 ≤ lo) (h1 : lo ≤ hi)
    (hb : (hi + 1) * old_cols ≤ old.length)
    (hprog : 2 ≤ w ∨ ∀ r, lo ≤ r → r ≤ hi → ∀ c, 0 ≤ c → c < old_cols →
      ∀ x, bufAt old (r * old_cols + c) = some x → x.char0 ≠ WIDE_CONT)
    (hfuel : 2 * (paragraph_cells old old_cols (hi - lo + 1).toNat lo).length +
      (hi - lo + 1).toNat < fuel) :
    ∃ (h ff : Nat), ff ≤ w ∧
      reflow_line fuel old lo hi old_cols (w : Int) none 0 none none 0 =
        some ({ col := if (ff : Int) ≤ 0 then 0 else (ff : Int) - 1, row := (h : Int) },
          none, none) ∧
      ∀ (nrs : Int) (ocur nc : VTermPos) (out : List ScreenCell), (h + 1) * w ≤ out.length →
        ∃ (outf : List ScreenCell) (ncf : VTermPos) (rows : List (List ScreenCell)),
          reflow_line fuel old lo hi old_cols (w : Int) (some out) 0 (some ocur) (some nc) nrs =
            some ({ col := if (ff : Int) ≤ 0 then 0 else (ff : Int) - 1, row := (h : Int) },
              some outf, some ncf) ∧
          outf.length = out.length ∧
          (∀ i, (h + 1) * w ≤ i → outf[i]? = out[i]?) ∧
          rows.flatten = paragraph_cells old old_cols (hi - lo + 1).toNat lo ∧
          rows.length = h + 1 ∧ (∀ row ∈ rows, row.length ≤ w) ∧
          (rows.getD h []).length = ff ∧
          RowsLaid outf w 0 rows ∧ RowsPadded outf w 0 rows h ∧
          (0 < ff → RowsPadded outf w 0 rows (h + 1)) ∧
          (ff = 0 → ∀ i, h * w ≤ i → outf[i]? = out[i]?) ∧
          ((ocur.row < lo ∨ hi < ocur.row) → ncf = nc) ∧
          (lo ≤ ocur.row → ocur.row ≤ hi → 0 ≤ ocur.col → nrs ≤ ncf.row ∧ 0 ≤ ncf.col) := by
  have hrows := rows_in_buffer hc h0 hb
  obtain ⟨m1, hm1⟩ : ∃ m1, (hi - lo + 1).toNat = m1 + 1 := ⟨(hi - lo).toNat, by omega⟩
  have hr := hrows lo le_rfl h1
  obtain ⟨pc, e, p1, p2, -, -⟩ := line_popcount_spec hc hr.1 hr.2
  have hslen := stripped_row_length hc hr.1 hr.2 e
  have hpara : paragraph_cells old old_cols (hi - lo + 1).toNat lo =
      stripped_row old old_cols lo ++ paragraph_cells old old_cols ((hi - lo + 1).toNat - 1)
        (lo + 1) := by
    rw [hm1]; rfl
  rw [hpara] at hfuel ⊢
  obtain ⟨jf, ff, rf, pcf, tf, hD, -, hffw, hR⟩ :=
    @reflow_loop_run old old_cols lo hi w hc hw hrows hprog fuel lo pc 0
      (hi - lo + 1).toNat 0 0 (stripped_row old old_cols lo)
      (paragraph_cells old old_cols ((hi - lo + 1).toNat - 1) (lo + 1)) le_rfl (by omega)
      (by omega) e le_rfl (by rw [hslen]; omega)
      (by rw [hslen, add_zero]; exact stripped_row_eq e) rfl hw (by simpa using hfuel)
  refine ⟨jf, ff, hffw, ?_, ?_⟩
  · unfold reflow_line
    rw [e]
    simp only [Option.some_bind]
    simp only [Nat.cast_zero] at hD
    rw [hD]
    unfold reflow_finish
    simp
  · intro nrs ocur nc out hroom
    obtain ⟨outf, ncf, rows, hE, hLen, -, hAfter, hFlat, hCount, hLe, hLast, hLaid, hPad, hC1,
        hC2⟩ := hR nrs ocur nc [] out rfl (fun c hcl => absurd hcl (Nat.not_lt_zero c)) hroom
    simp only [Nat.cast_zero] at hE
    simp only [Nat.sub_zero] at hLast
    have hlen : rows.length = jf + 1 := by omega
    have hstart : reflow_line fuel old lo hi old_cols (w : Int) (some out) 0 (some ocur)
        (some nc) nrs = (reflow_finish (w : Int) 0
          { new_row := (jf : Int), old_row := rf, old_line_cells := pcf, old_line_taken := tf
            new_line_filled := (ff : Int), out_buffer := some outf
            new_cursor := some ncf }).map fun out1 =>
          ({ col := if (ff : Int) ≤ 0 then 0 else (ff : Int) - 1, row := (jf : Int) }, out1,
            some ncf) := by
      unfold reflow_line
      rw [e]
      simp only [Option.some_bind]
      rw [hE]
      rfl
    have hcur1 : (ocur.row < lo ∨ hi < ocur.row) → ncf = nc := by
      intro h
      apply hC1
      rcases h with h | h
      · exact Or.inl h
      · exact Or.inr (Or.inl h)
    have hcur2 : lo ≤ ocur.row → ocur.row ≤ hi → 0 ≤ ocur.col → nrs ≤ ncf.row ∧ 0 ≤ ncf.col := by
      intro a1 a2 a3
      have := hC2 a1 a2 (fun _ => a3) a3
      simpa using this
    rw [hlen, Nat.add_sub_cancel] at hPad
    by_cases hzero : ff = 0
    · refine ⟨outf, ncf, rows, ?_, hLen, fun i hi => hAfter i (by
          rw [hzero]; have : (jf + 1) * w = jf * w + w := by ring
          omega), by simpa using hFlat, hlen, hLe, hLast, hLaid, hPad,
        fun h => absurd hzero (by omega), fun _ i hi => hAfter i (by omega), hcur1, hcur2⟩
      rw [hstart]
      unfold reflow_finish
      simp [hzero]
    · have hl1 := getLast_of_getD hlen
      have hff : (ff : Int) = ((rows.getD jf []).length : Int) := by rw [hLast]
      rw [hff] at hstart
      obtain ⟨out1, e1, hlen1, hLaid1, hPad1, hAfter1⟩ := reflow_finish_spec rf pcf tf
        (jf : Int) ncf hl1 (by omega) hLe (by rw [hlen]; push_cast; ring)
        (by rw [hLen, hlen]; exact hroom) hLaid (by rw [hlen, Nat.add_sub_cancel]; exact hPad)
      rw [hlen] at hPad1 hAfter1
      refine ⟨out1, ncf, rows, ?_, by rw [hlen1, hLen], fun i hi => by
          rw [hAfter1 i hi, hAfter i (by
            have : (jf + 1) * w = jf * w + w := by ring
            omega)], by simpa using hFlat, hlen, hLe, hLast, ?_, ?_, fun _ => hPad1,
        fun h => absurd h hzero, hcur1, hcur2⟩
      · rw [hstart, e1, ← hff]
        rfl
      · exact hLaid1
      · intro k c hk
        exact hPad1 k c (by omega)

/-! ## The first loop of `resize_buffer` -/

theorem infoAt_some {li : List VTermLineInfo} {i : Int} (h0 : 0 ≤ i) (h1 : i < li.length) :
    ∃ info, infoAt li i = some info ∧ li[i.toNat]? = some info := by
  have hlt : i.toNat < li.length := by omega
  refine ⟨li[i.toNat], ?_, List.getElem?_eq_getElem hlt⟩
  unfold infoAt
  rw [if_neg (by omega)]
  exact List.getElem?_eq_getElem hlt

theorem infoAt_nat (li : List VTermLineInfo) (i : Nat) : infoAt li (i : Int) = li[i]? := by
  unfold infoAt
  rw [if_neg (by omega)]
  simp

/-- The loop that looks for the first row of a paragraph stops at the nearest
row at or above `r` that is not a continuation row, or above row 0. -/
theorem paragraph_start_spec (li : List VTermLineInfo) :
    ∀ (fuel : Nat) (r : Int), -1 ≤ r → r < li.length → (r + 1).toNat < fuel →
      ∃ r0, paragraph_start (some li) fuel r = some r0 ∧ -1 ≤ r0 ∧ r0 ≤ r ∧
        (∀ k, r0 < k → k ≤ r → ∃ info, infoAt li k = some info ∧ info.continuation ≠ 0) ∧
        (0 ≤ r0 → ∃ info, infoAt li r0 = some info ∧ info.continuation = 0)
  | 0, _, _, _, h => by omega
  | fuel + 1, r, h0, h1, hf => by
    unfold paragraph_start
    by_cases hge : r ≥ 0
    · simp only [if_pos hge]
      obtain ⟨info, hinfo, -⟩ := infoAt_some hge h1
      rw [hinfo]
      simp only [Option.some_bind]
      by_cases hcont : info.continuation ≠ 0
      · rw [if_pos hcont]
        obtain ⟨r0, e, a1, a2, a3, a4⟩ := paragraph_start_spec li fuel (r - 1) (by omega)
          (by omega) (by omega)
        refine ⟨r0, e, a1, by omega, fun k k0 k1 => ?_, a4⟩
        by_cases hk : k = r
        · subst hk; exact ⟨info, hinfo, hcont⟩
        · exact a3 k k0 (by omega)
      · rw [if_neg hcont]
        refine ⟨r, rfl, by omega, le_rfl, fun k k0 k1 => by omega, fun _ => ⟨info, hinfo, ?_⟩⟩
        simpa using hcont
    · simp only [if_neg hge]
      exact ⟨r, rfl, h0, le_rfl, fun k k0 k1 => by omega, fun h => by omega⟩

theorem memmove_in_self {α : Type} (l : List α) (n : Int) (h : n = l.length) :
    memmove_in l 0 0 n = some l := by
  unfold memmove_in
  rw [if_pos (by omega)]
  subst h
  simp

/-- The scroll-down attempt of `resize_buffer` changes nothing as long as
`final_blank_row` is the number of new rows. -/
theorem resize_scroll_down_keeps (R w : Nat) (active : Bool) (st : ResizeState) (a b : Int)
    (hfb : st.final_blank_row = (R : Int)) (hbuf : st.new_buffer.length = R * w)
    (hli : st.new_lineinfo.length = R) :
    resize_scroll_down (R : Int) (w : Int) active st a b = some (st, a, b) := by
  cases st with
  | mk o n nb nl ncur fb =>
    simp only at hfb hbuf hli
    subst hfb
    unfold resize_scroll_down
    simp only [sub_self]
    by_cases h1 : a < 0 ∧ (0 : Int) ≥ 0 ∧ (active = false ∨ ncur.row = -1 ∨ ncur.row - a < (R : Int))
    · rw [if_pos h1]
      have hd : (if -a > 0 then (0 : Int) else -a) = 0 := by
        rw [if_pos (by omega)]
      have e1 : memmove_in nb (0 * (w : Int)) 0 (((R : Int) - 0) * (w : Int)) = some nb := by
        rw [zero_mul]
        apply memmove_in_self
        rw [hbuf]; push_cast; ring
      have e2 : memmove_in nl 0 0 ((R : Int) - 0) = some nl := by
        apply memmove_in_self
        rw [hli]; ring
      simp only [hd, e1, e2, Option.some_bind, Option.map_some', add_zero]
      congr 3
      split <;> rfl
    · rw [if_neg h1]

theorem set_continuation_some {li : List VTermLineInfo} {i : Int} (v : Nat) (h0 : 0 ≤ i)
    (h1 : i < li.length) :
    ∃ info, li[i.toNat]? = some info ∧
      set_continuation li i v = some (li.set i.toNat { info with continuation := v }) := by
  obtain ⟨info, e1, e2⟩ := infoAt_some h0 h1
  refine ⟨info, e2, ?_⟩
  unfold set_continuation
  rw [e1]
  rfl

/-- The loop of `resize_buffer` that flags the lines after the first line of a
placed paragraph as continuation lines. -/
theorem set_continuation_loop : ∀ (n a : Nat) (li : List VTermLineInfo), a + n ≤ li.length →
    ∃ li1, forLoop n (a : Int) 1 (fun r l => set_continuation l r 1) li = some li1 ∧
      li1.length = li.length ∧
      (∀ i, i < a ∨ a + n ≤ i → li1[i]? = li[i]?) ∧
      (∀ k, k < n → ∃ info, li[a + k]? = some info ∧
        li1[a + k]? = some { info with continuation := 1 })
  | 0, a, li, _ => ⟨li, rfl, rfl, fun _ _ => rfl, fun k hk => absurd hk (Nat.not_lt_zero k)⟩
  | n + 1, a, li, h => by
    obtain ⟨info, e1, e2⟩ := @set_continuation_some li (a : Int) 1 (by omega) (by omega)
    simp only [Int.toNat_ofNat] at e1 e2
    obtain ⟨li1, f1, f2, f3, f4⟩ := set_continuation_loop n (a + 1)
      (li.set a { info with continuation := 1 }) (by rw [List.length_set]; omega)
    refine ⟨li1, ?_, by rw [f2, List.length_set], ?_, ?_⟩
    · simp only [forLoop, e2, Option.some_bind]
      have : ((a : Int) + 1) = ((a + 1 : Nat) : Int) := by push_cast; ring
      rw [this]
      exact f1
    · intro i hi
      rw [f3 i (by omega), List.getElem?_set_ne (by omega)]
    · intro k hk
      cases k with
      | zero =>
        refine ⟨info, e1, ?_⟩
        rw [add_zero, f3 a (by omega), List.getElem?_set_eq_of_lt _ (by omega)]
      | succ k =>
        obtain ⟨info', g1, g2⟩ := f4 k (by omega)
        rw [List.getElem?_set_ne (by omega)] at g1
        have e : a + (k + 1) = a + 1 + k := by omega
        rw [e]
        exact ⟨info', g1, g2⟩

/-- The stores into the new line-info array after a paragraph is placed in the
lines `nrs .. nrs + h` (screen.c lines 1021-1025). -/
theorem placed_lineinfo (nli : List VTermLineInfo) (nrs h : Nat) (flag : Nat)
    (hroom : nrs + h < nli.length) :
    ∃ li2, ((forLoop (((nrs + h : Nat) : Int) - (nrs : Int)).toNat ((nrs : Int) + 1) 1
          (fun r l => set_continuation l r 1) nli).bind fun li1 =>
        set_continuation li1 (nrs : Int) flag) = some li2 ∧
      li2.length = nli.length ∧
      (∀ i, i < nrs ∨ nrs + h < i → li2[i]? = nli[i]?) ∧
      (∀ k, 0 < k → k ≤ h → ∃ info, nli[nrs + k]? = some info ∧
        li2[nrs + k]? = some { info with continuation := 1 }) ∧
      (∃ info, nli[nrs]? = some info ∧ li2[nrs]? = some { info with continuation := flag }) := by
  have e0 : (((nrs + h : Nat) : Int) - (nrs : Int)).toNat = h := by omega
  have e1 : ((nrs : Int) + 1) = ((nrs + 1 : Nat) : Int) := by push_cast; ring
  obtain ⟨li1, f1, f2, f3, f4⟩ := set_continuation_loop h (nrs + 1) nli (by omega)
  obtain ⟨info, g1, g2⟩ := @set_continuation_some li1 (nrs : Int) flag (by omega) (by omega)
  simp only [Int.toNat_ofNat] at g1 g2
  rw [f3 nrs (by omega)] at g1
  refine ⟨_, by rw [e0, e1, f1]; exact g2, by rw [List.length_set, f2], ?_, ?_, ⟨info, g1, ?_⟩⟩
  · intro i hi
    rw [List.getElem?_set_ne (by omega), f3 i (by omega)]
  · intro k hk0 hk
    obtain ⟨info', a1, a2⟩ := f4 (k - 1) (by omega)
    have e : nrs + 1 + (k - 1) = nrs + k := by omega
    rw [e] at a1 a2
    exact ⟨info', a1, by rw [List.getElem?_set_ne (by omega)]; exact a2⟩
  · rw [List.getElem?_set_eq_of_lt _ (by omega)]

/-- One iteration of the first loop of `resize_buffer` while `final_blank_row`
is the number of new rows.  The paragraph that ends in the row `old_row` starts
after the nearest row above that is not a continuation row; when the lines
`reflow_line` counts for it are more than the new rows left, the loop is left;
otherwise the paragraph is placed in the lowest lines left, the lines after
its first line are flagged as continuation lines, its first line gets the flag
of the first row, and the loop goes on above the paragraph. -/
theorem resize_place_step {old : List ScreenCell} {li : List VTermLineInfo} {old_cols : Int}
    {R w fuel : Nat} (active : Bool) (ocur : VTermPos) (n : Nat) (st : ResizeState)
    (hfb : st.final_blank_row = (R : Int)) (hbuf : st.new_buffer.length = R * w)
    (hli : st.new_lineinfo.length = R) (hold0 : 0 ≤ st.old_row)
    (holdr : st.old_row < li.length) (hnew : st.new_row < (R : Int)) :
    ∃ (a : Int) (oinfo : VTermLineInfo), 0 ≤ a ∧ a ≤ st.old_row ∧
      infoAt li a = some oinfo ∧ (0 < a → oinfo.continuation = 0) ∧
      (∀ k, a < k → k ≤ st.old_row → ∃ info, infoAt li k = some info ∧ info.continuation ≠ 0) ∧
      ∀ (h : Nat) (col : Int), 0 ≤ col →
        reflow_line fuel old a st.old_row old_cols (w : Int) none 0 none none 0 =
          some ({ col := col, row := (h : Int) }, none, none) →
        (st.new_row < (h : Int) →
          resize_place fuel old (some li) old_cols (R : Int) (w : Int) active ocur (n + 1) st =
            some { st with
              new_cursor := if a ≤ ocur.row ∧ ocur.row < st.old_row then
                  clamp_cursor ocur (w : Int) else st.new_cursor }) ∧
        ((h : Int) ≤ st.new_row → ∀ (rect : VTermPos) (outf : List ScreenCell) (ncf : VTermPos),
          reflow_line fuel old a st.old_row old_cols (w : Int)
            (some (st.new_buffer.drop ((st.new_row.toNat - h) * w))) 0 (some ocur)
            (some st.new_cursor) (st.new_row - (h : Int)) = some (rect, some outf, some ncf) →
          ∃ li2, li2.length = R ∧
            (∀ i, i < st.new_row.toNat - h ∨ st.new_row.toNat < i →
              li2[i]? = st.new_lineinfo[i]?) ∧
            (∀ k, 0 < k → k ≤ h → ∃ info, st.new_lineinfo[st.new_row.toNat - h + k]? = some info ∧
              li2[st.new_row.toNat - h + k]? = some { info with continuation := 1 }) ∧
            (∃ info, st.new_lineinfo[st.new_row.toNat - h]? = some info ∧
              li2[st.new_row.toNat - h]? = some { info with
                continuation := if oinfo.continuation ≠ 0 then 1 else 0 }) ∧
            resize_place fuel old (some li) old_cols (R : Int) (w : Int) active ocur (n + 1) st =
              resize_place fuel old (some li) old_cols (R : Int) (w : Int) active ocur n
                { old_row := a - 1, new_row := st.new_row - (h : Int) - 1
                  new_buffer := st.new_buffer.take ((st.new_row.toNat - h) * w) ++ outf
                  new_lineinfo := li2, new_cursor := ncf, final_blank_row := (R : Int) }) := by
  obtain ⟨r0, e0, a1, a2, a3, a4⟩ := paragraph_start_spec li (st.old_row.toNat + 2) st.old_row
    (by omega) holdr (by omega)
  have ha0 : 0 ≤ (if r0 < 0 then 0 else r0) := by split <;> omega
  obtain ⟨oinfo, hoinfo, -⟩ := @infoAt_some li (if r0 < 0 then 0 else r0) ha0
    (by split <;> omega)
  refine ⟨if r0 < 0 then 0 else r0, oinfo, ha0, by split <;> omega, hoinfo, ?_, ?_, ?_⟩
  · intro hpos
    have hr0 : ¬ r0 < 0 := by
      intro h; rw [if_pos h] at hpos; omega
    rw [if_neg hr0] at hoinfo
    obtain ⟨info, i1, i2⟩ := a4 (by omega)
    rw [hoinfo] at i1
    cases i1
    exact i2
  · intro k k0 k1
    exact a3 k (by split at k0 <;> omega) k1
  · intro h col hcol hdry
    have hstart : resize_place fuel old (some li) old_cols (R : Int) (w : Int) active ocur
        (n + 1) st =
        if st.new_row - ((h : Int) + 1) + 1 < 0 then
          some { st with
            new_cursor := if (if r0 < 0 then 0 else r0) ≤ ocur.row ∧ ocur.row < st.old_row then
                clamp_cursor ocur (w : Int) else st.new_cursor }
        else
          (resize_copy fuel old (some li) old_cols (w : Int) ocur (if r0 < 0 then 0 else r0)
            st.old_row (st.new_row - ((h : Int) + 1) + 1) st.new_row st).bind fun st2 =>
          resize_place fuel old (some li) old_cols (R : Int) (w : Int) active ocur n st2 := by
      rw [resize_place]
      simp only [ge_iff_le, if_pos hold0, e0, Option.some_bind, hdry]
      have hwidth : ¬ ((w : Int) * ((h : Int) + 1) + col + 1 = 0) := by
        have : 0 ≤ (w : Int) * ((h : Int) + 1) := mul_nonneg (by omega) (by omega)
        omega
      have hst : ({ st with final_blank_row :=
          if st.final_blank_row = st.new_row + 1 ∧ (w : Int) * ((h : Int) + 1) + col + 1 = 0 then
            st.new_row else st.final_blank_row } : ResizeState) = st := by
        rw [if_neg (fun hh => hwidth hh.2)]
      rw [hst, resize_scroll_down_keeps R w active st _ _ hfb hbuf hli]
      simp only [Option.some_bind]
    constructor
    · intro hlt
      rw [hstart, if_pos (by omega)]
    · intro hle rect outf ncf hreal
      obtain ⟨nr, hnr⟩ : ∃ nr : Nat, st.new_row = (nr : Int) := ⟨st.new_row.toNat, by omega⟩
      have hnrh : h ≤ nr := by omega
      have hnrR : nr < R := by omega
      have e1 : st.new_row - ((h : Int) + 1) + 1 = ((nr - h : Nat) : Int) := by
        rw [hnr]; push_cast [Nat.cast_sub hnrh]; ring
      have e2 : st.new_row - (h : Int) = ((nr - h : Nat) : Int) := by
        rw [hnr]; push_cast [Nat.cast_sub hnrh]; ring
      have e3 : st.new_row.toNat = nr := by omega
      have e4 : st.new_row = (((nr - h) + h : Nat) : Int) := by
        rw [hnr]; congr 1; omega
      rw [e3]
      rw [e3, e2] at hreal
      obtain ⟨li2, f1, f2, f3, f4, f5⟩ := placed_lineinfo st.new_lineinfo (nr - h) h
        (if oinfo.continuation ≠ 0 then 1 else 0) (by omega)
      have hoff : (((nr - h : Nat) : Int) * (w : Int)).toNat = (nr - h) * w := by
        have : ((nr - h : Nat) : Int) * (w : Int) = (((nr - h) * w : Nat) : Int) := by push_cast; ring
        rw [this]; exact Int.toNat_ofNat _
      have hoffle : (nr - h) * w ≤ R * w := Nat.mul_le_mul_right w (by omega)
      refine ⟨li2, by rw [f2, hli], ?_, f4, f5, ?_⟩
      · intro i hi
        exact f3 i (by omega)
      · rw [hstart, if_neg (by omega), e1]
        unfold resize_copy
        have hcond : ¬ (((nr - h : Nat) : Int) * (w : Int) < 0 ∨
            ((nr - h : Nat) : Int) * (w : Int) > (st.new_buffer.length : Int)) := by
          have : ((nr - h : Nat) : Int) * (w : Int) = (((nr - h) * w : Nat) : Int) := by
            push_cast; ring
          rw [this, hbuf]
          omega
        rw [if_neg hcond, hoff, hreal]
        simp only [Option.some_bind, hoinfo]
        have e5 : st.new_row - ((nr - h : Nat) : Int) = (((nr - h) + h : Nat) : Int) -
            ((nr - h : Nat) : Int) := by rw [← e4]
        obtain ⟨li1, g1, g2⟩ := Option.bind_eq_some.mp f1
        rw [e5, g1]
        simp only [Option.some_bind, g2, Option.map_some']
        congr 1
        rw [hfb, hnr]
        congr 1
        push_cast [Nat.cast_sub hnrh]
        ring

/-! ## A resize to the same size -/

theorem aligned_cursor_step (nrs : Int) (ocur nc : VTermPos) (j n : Nat) (r hi : Int)
    (h : r ≤ hi) :
    aligned_cursor nrs ocur (copy_cursor nrs ocur nc false j 0 n r 0) (j + 1) (r + 1) hi =
      aligned_cursor nrs ocur nc j r hi := by
  unfold aligned_cursor copy_cursor
  by_cases h1 : r + 1 ≤ ocur.row ∧ ocur.row ≤ hi ∧ 0 ≤ ocur.col
  · rw [if_pos h1, if_pos ⟨by omega, h1.2.1, h1.2.2⟩]
    congr 1
    push_cast
    ring
  · rw [if_neg h1]
    by_cases h2 : ocur.row = r ∧ 0 ≤ ocur.col
    · rw [if_pos ⟨h2.1, h2.2, fun hh => by simp at hh⟩, if_pos ⟨by omega, by omega, h2.2⟩]
      congr 1
      · rw [h2.1]; ring
      · simp
    · rw [if_neg (fun hh => h2 ⟨hh.1, hh.2.1⟩), if_neg]
      rintro ⟨b1, b2, b3⟩
      by_cases h3 : ocur.row = r
      · exact h2 ⟨h3, b3⟩
      · exact h1 ⟨by omega, b2, b3⟩

theorem aligned_cursor_last (nrs : Int) (ocur nc : VTermPos) (j n : Nat) (r : Int) :
    copy_cursor nrs ocur nc false j 0 n r 0 = aligned_cursor nrs ocur nc j r r := by
  unfold aligned_cursor copy_cursor
  by_cases h2 : ocur.row = r ∧ 0 ≤ ocur.col
  · rw [if_pos ⟨h2.1, h2.2, fun hh => by simp at hh⟩, if_pos ⟨by omega, by omega, h2.2⟩]
    congr 1
    · rw [h2.1]; ring
    · simp
  · rw [if_neg (fun hh => h2 ⟨hh.1, hh.2.1⟩), if_neg]
    rintro ⟨b1, b2, b3⟩
    exact h2 ⟨by omega, b3⟩

/-- The loop of `reflow_line` from the head of an old row and of a new line,
when the width stays and every row but the last is full: each old row goes to
one new line. -/
theorem reflow_loop_aligned {old : List ScreenCell} {lo hi : Int} {w : Nat} (hw : 0 < w)
    (hrows : ∀ r, lo ≤ r → r ≤ hi → 0 ≤ r ∧ (r + 1) * (w : Int) ≤ old.length)
    (hfull : ∀ r, lo ≤ r → r < hi → line_popcount old r (w : Int) = some (w : Int)) :
    ∀ (m fuel : Nat) (r pc : Int) (j : Nat), lo ≤ r → r + (m : Int) = hi + 1 → 0 < m →
      line_popcount old r (w : Int) = some pc → m ≤ fuel →
      ∃ p : Nat, line_popcount old hi (w : Int) = some (p : Int) ∧ p ≤ w ∧
        reflow_loop old hi (w : Int) (w : Int) 0 0 none fuel
          { new_row := (j : Int), old_row := r, old_line_cells := pc, old_line_taken := 0
            new_line_filled := ((0 : Nat) : Int), out_buffer := none, new_cursor := none } =
        some { new_row := ((j + (m - 1) : Nat) : Int), old_row := hi + 1
               old_line_cells := (p : Int), old_line_taken := 0, new_line_filled := (p : Int)
               out_buffer := none, new_cursor := none } ∧
        ∀ (nrs : Int) (ocur nc : VTermPos) (out : List ScreenCell),
          (j + m) * w ≤ out.length →
          ∃ outf, reflow_loop old hi (w : Int) (w : Int) 0 nrs (some ocur) fuel
              { new_row := (j : Int), old_row := r, old_line_cells := pc, old_line_taken := 0
                new_line_filled := ((0 : Nat) : Int), out_buffer := some out
                new_cursor := some nc } =
            some { new_row := ((j + (m - 1) : Nat) : Int), old_row := hi + 1
                   old_line_cells := (p : Int), old_line_taken := 0
                   new_line_filled := (p : Int), out_buffer := some outf
                   new_cursor := some (aligned_cursor nrs ocur nc j r hi) } ∧
            outf.length = out.length ∧
            (∀ i, i < j * w ∨ (j + (m - 1)) * w + p ≤ i → outf[i]? = out[i]?) ∧
            (∀ (k c : Nat) (pk : Int), k < m → line_popcount old (r + (k : Int)) (w : Int) = some pk →
              (c : Int) < pk → outf[(j + k) * w + c]? = old[((r + (k : Int)) * (w : Int)).toNat + c]?) := by
  intro m
  induction m with
  | zero => intro fuel r pc j _ _ h; omega
  | succ m ih =>
    intro fuel r pc j hlo hm _ hpop hfuel
    obtain ⟨fuel, rfl⟩ : ∃ f, fuel = f + 1 := ⟨fuel - 1, by omega⟩
    have hr := hrows r hlo (by omega)
    obtain ⟨pc0, e0, p1, p2, -, -⟩ := line_popcount_spec (by omega : (0 : Int) ≤ (w : Int)) hr.1 hr.2
    have hpc : pc0 = pc := by rw [hpop] at e0; exact (Option.some.inj e0).symm
    subst hpc
    obtain ⟨n, hn⟩ : ∃ n : Nat, pc0 = (n : Int) := ⟨pc0.toNat, by omega⟩
    have hnw : n ≤ w := by omega
    have hsrc0 : 0 ≤ r * (w : Int) := mul_nonneg hr.1 (by omega)
    have hrowend : r * (w : Int) + (w : Int) ≤ old.length := by
      have : (r + 1) * (w : Int) = r * (w : Int) + (w : Int) := by ring
      omega
    have hs : (r * (w : Int) + 0).toNat + n ≤ old.length := by omega
    have edry := reflow_loop_fits_dry old (w : Int) hi w fuel j 0 n r pc0 0 (by omega) (by omega)
    have hjw : ∀ a : Nat, (j + (a + 1)) * w = j * w + w + a * w := by intro a; ring
    -- the copy of the row
    have hstep : ∀ (nrs : Int) (ocur nc : VTermPos) (out : List ScreenCell),
        (j + 1) * w ≤ out.length →
        ∃ out1, out1.length = out.length ∧
          (∀ i, i < j * w ∨ j * w + n ≤ i → out1[i]? = out[i]?) ∧
          (∀ c, c < n → out1[j * w + c]? = old[(r * (w : Int)).toNat + c]?) ∧
          reflow_loop old hi (w : Int) (w : Int) 0 nrs (some ocur) (fuel + 1)
            { new_row := (j : Int), old_row := r, old_line_cells := pc0, old_line_taken := 0
              new_line_filled := ((0 : Nat) : Int), out_buffer := some out
              new_cursor := some nc } =
          if r + 1 > hi then
            some { new_row := (j : Int), old_row := r + 1, old_line_cells := pc0
                   old_line_taken := 0, new_line_filled := ((0 + n : Nat) : Int)
                   out_buffer := some out1
                   new_cursor := some (copy_cursor nrs ocur nc false j 0 n r 0) }
          else
            (line_popcount old (r + 1) (w : Int)).bind fun pc1 =>
              reflow_loop old hi (w : Int) (w : Int) 0 nrs (some ocur) fuel
                (if 0 + n = w then
                  { new_row := ((j + 1 : Nat) : Int), old_row := r + 1, old_line_cells := pc1
                    old_line_taken := 0, new_line_filled := ((0 : Nat) : Int)
                    out_buffer := some out1
                    new_cursor := some (copy_cursor nrs ocur nc false j 0 n r 0) }
                else
                  { new_row := (j : Int), old_row := r + 1, old_line_cells := pc1
                    old_line_taken := 0, new_line_filled := ((0 + n : Nat) : Int)
                    out_buffer := some out1
                    new_cursor := some (copy_cursor nrs ocur nc false j 0 n r 0) }) := by
      intro nrs ocur nc out hroom
      have hd : j * w + 0 + n ≤ out.length := by
        have : (j + 1) * w = j * w + w := by ring
        omega
      have estep := reflow_loop_fits_run old out (w : Int) hi nrs w ocur nc fuel j 0 n r pc0 0
        (by omega) (by omega) (by omega) hd hs
      have hout1len := memcpy_result_length out old (j * w + 0) (r * (w : Int) + 0).toNat n hd hs
      have hbefore := memcpy_result_before out old (j * w + 0) (r * (w : Int) + 0).toNat n hd
      have hat := memcpy_result_at out old (j * w + 0) (r * (w : Int) + 0).toNat n hd hs
      have hafter := memcpy_result_after out old (j * w + 0) (r * (w : Int) + 0).toNat n hd hs
      refine ⟨_, hout1len, ?_, ?_, estep⟩
      · intro i hi
        rcases hi with hi | hi
        · exact hbefore i (by omega)
        · exact hafter i (by omega)
      · intro c hc
        have := hat c hc
        simp only [add_zero] at this ⊢
        rw [this, List.getElem?_take_of_lt hc, List.getElem?_drop]
    by_cases hlast : r + 1 > hi
    · -- the last row
      have hrhi : r = hi := by omega
      have hm0 : m = 0 := by omega
      subst hrhi
      subst hm0
      rw [if_pos hlast] at edry
      refine ⟨n, by rw [hpop, hn], hnw, ?_, ?_⟩
      · rw [hn] at edry ⊢
        simpa using edry
      · intro nrs ocur nc out hroom
        obtain ⟨out1, hlen1, hkeep, hat, estep⟩ := hstep nrs ocur nc out (by simpa using hroom)
        rw [if_pos hlast] at estep
        refine ⟨out1, ?_, hlen1, ?_, ?_⟩
        · rw [hn] at estep ⊢
          rw [← aligned_cursor_last]
          simpa using estep
        · intro i hi
          exact hkeep i (by simpa using hi)
        · intro k c pk hk hpk hcp
          have hk0 : k = 0 := by omega
          subst hk0
          simp only [Nat.cast_zero, add_zero] at hpk ⊢
          rw [hpop] at hpk
          have : pk = pc0 := (Option.some.inj hpk).symm
          exact hat c (by omega)
    · -- a full row with rows after it
      have hpcw : pc0 = (w : Int) := by
        have := hfull r hlo (by omega)
        rw [hpop] at this
        exact Option.some.inj this
      have hnw2 : n = w := by omega
      subst hnw2
      rw [if_neg hlast] at edry
      have hr1 := hrows (r + 1) (by omega) (by omega)
      obtain ⟨pc1, e1, q1, q2, -, -⟩ := line_popcount_spec (by omega : (0 : Int) ≤ (n : Int))
        hr1.1 hr1.2
      rw [e1] at edry
      simp only [Option.some_bind, zero_add, if_true] at edry
      obtain ⟨p, hp1, hp2, hD, hR⟩ := ih fuel (r + 1) pc1 (j + 1) (by omega)
        (by push_cast at hm ⊢; omega) (by omega) e1 (by omega)
      have hidx : j + 1 + (m - 1) = j + (m + 1 - 1) := by omega
      refine ⟨p, hp1, hp2, ?_, ?_⟩
      · rw [edry, hD, hidx]
      · intro nrs ocur nc out hroom
        obtain ⟨out1, hlen1, hkeep, hat, estep⟩ := hstep nrs ocur nc out (by
          have := hjw m
          have : (j + 1) * n = j * n + n := by ring
          omega)
        rw [if_neg hlast, e1] at estep
        simp only [Option.some_bind, zero_add, if_true] at estep
        obtain ⟨outf, hE, hLen, hKeep, hAt⟩ := hR nrs ocur
          (copy_cursor nrs ocur nc false j 0 n r 0) out1 (by
            rw [hlen1]
            have : j + 1 + m = j + (m + 1) := by omega
            rw [this]; exact hroom)
        have hj1 : (j + 1) * n = j * n + n := by ring
        refine ⟨outf, ?_, hLen.trans hlen1, ?_, ?_⟩
        · rw [estep, hE, hidx, aligned_cursor_step nrs ocur nc j n r hi (by omega)]
        · intro i hi
          have hmul : (j + 1 + (m - 1)) * n = (j + (m + 1 - 1)) * n := by rw [hidx]
          have hge : (j + 1) * n ≤ (j + 1 + (m - 1)) * n :=
            Nat.mul_le_mul_right n (by omega)
          rw [hKeep i (by
            rcases hi with hi | hi
            · left; omega
            · right; omega), hkeep i (by
            rcases hi with hi | hi
            · left; exact hi
            · right; omega)]
        · intro k c pk hk hpk hcp
          cases k with
          | zero =>
            simp only [Nat.cast_zero, add_zero] at hpk ⊢
            rw [hpop] at hpk
            have : pk = pc0 := (Option.some.inj hpk).symm
            rw [hKeep _ (Or.inl (by omega))]
            exact hat c (by omega)
          | succ k =>
            have e : r + ((k + 1 : Nat) : Int) = r + 1 + (k : Int) := by push_cast; ring
            rw [e] at hpk ⊢
            have e2 : j + (k + 1) = j + 1 + k := by omega
            rw [e2]
            exact hAt k c pk (by omega) hpk hcp

/-- The function `reflow_line` when the width stays and every row of the
paragraph but the last is full: the paragraph takes as many lines as it has
rows, every row is copied to its line up to its last glyph, the rest of the
last line is blank if it was blank or the row holds a glyph, and the cursor
keeps its place. -/
theorem reflow_line_aligned {old : List ScreenCell} {lo hi : Int} {w fuel : Nat} (hw : 0 < w)
    (h0 : 0 ≤ lo) (h1 : lo ≤ hi) (hb : (hi + 1) * (w : Int) ≤ old.length)
    (hfull : ∀ r, lo ≤ r → r < hi → line_popcount old r (w : Int) = some (w : Int))
    (hfuel : (hi - lo + 1).toNat ≤ fuel) :
    ∃ p : Nat, line_popcount old hi (w : Int) = some (p : Int) ∧ p ≤ w ∧
      reflow_line fuel old lo hi (w : Int) (w : Int) none 0 none none 0 =
        some ({ col := if (p : Int) ≤ 0 then 0 else (p : Int) - 1
                row := (((hi - lo).toNat : Nat) : Int) }, none, none) ∧
      ∀ (nrs : Int) (ocur nc : VTermPos) (out : List ScreenCell),
        ((hi - lo).toNat + 1) * w ≤ out.length →
        ∃ outf, reflow_line fuel old lo hi (w : Int) (w : Int) (some out) 0 (some ocur) (some nc)
            nrs =
          some ({ col := if (p : Int) ≤ 0 then 0 else (p : Int) - 1
                  row := (((hi - lo).toNat : Nat) : Int) }, some outf,
            some (aligned_cursor nrs ocur nc 0 lo hi)) ∧
          outf.length = out.length ∧
          (∀ i, ((hi - lo).toNat + 1) * w ≤ i → outf[i]? = out[i]?) ∧
          (∀ (k c : Nat) (pk : Int), k ≤ (hi - lo).toNat →
            line_popcount old (lo + (k : Int)) (w : Int) = some pk → (c : Int) < pk →
            outf[k * w + c]? = old[((lo + (k : Int)) * (w : Int)).toNat + c]?) ∧
          (∀ c, p ≤ c → c < w → (∃ x, out[(hi - lo).toNat * w + c]? = some x ∧ x.char0 = 0) →
            ∃ x, outf[(hi - lo).toNat * w + c]? = some x ∧ x.char0 = 0) := by
  have hrows := rows_in_buffer (by omega : (0 : Int) ≤ (w : Int)) h0 hb
  have hr := hrows lo le_rfl h1
  obtain ⟨pc, e, -, -, -, -⟩ := line_popcount_spec (by omega : (0 : Int) ≤ (w : Int)) hr.1 hr.2
  obtain ⟨H, hH⟩ : ∃ H : Nat, (hi - lo).toNat = H := ⟨_, rfl⟩
  have hm : (hi - lo + 1).toNat = H + 1 := by omega
  obtain ⟨p, hp1, hp2, hD, hR⟩ := reflow_loop_aligned hw hrows hfull (H + 1) fuel lo pc 0 le_rfl
    (by push_cast; omega) (by omega) e (by omega)
  simp only [Nat.zero_add, Nat.add_sub_cancel, Nat.cast_zero] at hD hR
  rw [hH]
  refine ⟨p, hp1, hp2, ?_, ?_⟩
  · unfold reflow_line
    rw [e]
    simp only [Option.some_bind]
    rw [hD]
    unfold reflow_finish
    simp
  · intro nrs ocur nc out hroom
    obtain ⟨outl, hE, hLen, hKeep, hAt⟩ := hR nrs ocur nc out hroom
    have hstart : reflow_line fuel old lo hi (w : Int) (w : Int) (some out) 0 (some ocur)
        (some nc) nrs = (reflow_finish (w : Int) 0
          { new_row := (H : Int), old_row := hi + 1, old_line_cells := (p : Int)
            old_line_taken := 0, new_line_filled := (p : Int), out_buffer := some outl
            new_cursor := some (aligned_cursor nrs ocur nc 0 lo hi) }).map fun out1 =>
          ({ col := if (p : Int) ≤ 0 then 0 else (p : Int) - 1, row := (H : Int) }, out1,
            some (aligned_cursor nrs ocur nc 0 lo hi)) := by
      unfold reflow_line
      rw [e]
      simp only [Option.some_bind]
      rw [hE]
      rfl
    have hH1 : (H + 1) * w = H * w + w := by ring
    by_cases hzero : p = 0
    · subst hzero
      refine ⟨outl, ?_, hLen, fun i hi => hKeep i (Or.inr (by omega)), ?_, ?_⟩
      · rw [hstart]
        unfold reflow_finish
        simp
      · intro k c pk hk hpk hcp
        have := hAt k c pk (by omega) hpk hcp
        simpa using this
      · intro c _ hcw ⟨x, hx, hx0⟩
        exact ⟨x, by rw [hKeep _ (Or.inr (by omega))]; exact hx, hx0⟩
    · obtain ⟨out1, c1, c2, c3, c4⟩ := clear_loop_spec (H * w) (w - p) p outl
        (by rw [hLen]; omega)
      have hfin : reflow_finish (w : Int) 0
          { new_row := (H : Int), old_row := hi + 1, old_line_cells := (p : Int)
            old_line_taken := 0, new_line_filled := (p : Int), out_buffer := some outl
            new_cursor := some (aligned_cursor nrs ocur nc 0 lo hi) } = some (some out1) := by
        unfold reflow_finish
        have hpos : (p : Int) > 0 := by omega
        simp only [hpos, if_true, ge_iff_le, Int.natCast_nonneg]
        have e1 : ((w : Int) - (p : Int)).toNat = w - p := by omega
        have e2 : (fun (c : Int) (o : List ScreenCell) =>
            clear_at o (((H : Int) - 0) * (w : Int) + c)) =
            (fun c o => clear_at o (((H * w : Nat) : Int) + c)) := by
          funext c o
          congr 1
        rw [e1, e2, c1]
        rfl
      refine ⟨out1, ?_, by rw [c2, hLen], ?_, ?_, ?_⟩
      · rw [hstart, hfin]
        rfl
      · intro i hi
        rw [c3 i (Or.inr (by omega)), hKeep i (Or.inr (by omega))]
      · intro k c pk hk hpk hcp
        have h1 := hAt k c pk (by omega) hpk hcp
        simp only [Nat.zero_add] at h1
        rw [← h1]
        apply c3
        by_cases hkH : k = H
        · subst hkH
          left
          have : (lo + (k : Int)) = hi := by omega
          rw [this, hp1] at hpk
          have : pk = (p : Int) := (Option.some.inj hpk).symm
          omega
        · left
          have : (k + 1) * w ≤ H * w := Nat.mul_le_mul_right w (by omega)
          have e : (k + 1) * w = k * w + w := by ring
          have hpkw : pk ≤ (w : Int) := by
            have hrk := hrows (lo + (k : Int)) (by omega) (by omega)
            obtain ⟨pk', ek, -, ek2, -, -⟩ := line_popcount_spec
              (by omega : (0 : Int) ≤ (w : Int)) hrk.1 hrk.2
            rw [hpk] at ek
            cases ek
            exact ek2
          omega
      · intro c hc1 hc2 _
        obtain ⟨x, hx, hx0⟩ := c4 (c - p) (by omega)
        refine ⟨x, ?_, hx0⟩
        rw [← hx]
        congr 1
        omega

theorem row_offset (r w : Nat) : ((r : Int) * (w : Int)).toNat = r * w := by
  rw [← Nat.cast_mul, Int.toNat_ofNat]

theorem getElem?_take_append {α : Type} (l m : List α) (a i : Nat) (ha : a ≤ l.length) :
    (l.take a ++ m)[i]? = if i < a then l[i]? else m[i - a]? := by
  have hlen : (l.take a).length = a := by rw [List.length_take]; omega
  by_cases h : i < a
  · rw [if_pos h, List.getElem?_append_left (by omega), List.getElem?_take_of_lt h]
  · rw [if_neg h, List.getElem?_append_right (by omega), hlen]

/-- The function `reflow_line` writing the rows `A .. A + h` of the old buffer
into the rows `A .. A + h` of a new buffer of the same width, every row but
the last full: the rows keep their cells up to their last glyph, the rest of
the buffer stays, and the rest of the last row is blank if it was. -/
theorem reflow_line_aligned_into {old : List ScreenCell} {R w fuel A h : Nat} (hw : 0 < w)
    (hold : old.length = R * w) (hAh : A + h < R)
    (hfull : ∀ k : Nat, k < h → line_popcount old ((A + k : Nat) : Int) (w : Int) =
      some (w : Int))
    (hfuel : R ≤ fuel) :
    ∃ col : Int, 0 ≤ col ∧
      reflow_line fuel old (A : Int) ((A + h : Nat) : Int) (w : Int) (w : Int) none 0 none none
        0 = some ({ col := col, row := (h : Int) }, none, none) ∧
      ∀ (nrs : Int) (ocur nc : VTermPos) (nb : List ScreenCell), nb.length = R * w →
        ∃ outf, reflow_line fuel old (A : Int) ((A + h : Nat) : Int) (w : Int) (w : Int)
            (some (nb.drop (A * w))) 0 (some ocur) (some nc) nrs =
          some ({ col := col, row := (h : Int) }, some outf,
            some (aligned_cursor nrs ocur nc 0 (A : Int) ((A + h : Nat) : Int))) ∧
          (nb.take (A * w) ++ outf).length = R * w ∧
          (∀ i, i < A * w ∨ (A + h + 1) * w ≤ i → (nb.take (A * w) ++ outf)[i]? = nb[i]?) ∧
          (∀ (k c : Nat) (pk : Int), k ≤ h →
            line_popcount old ((A + k : Nat) : Int) (w : Int) = some pk → (c : Int) < pk →
            c < w → (nb.take (A * w) ++ outf)[(A + k) * w + c]? = old[(A + k) * w + c]?) ∧
          (∀ (c : Nat) (pk : Int), line_popcount old ((A + h : Nat) : Int) (w : Int) = some pk →
            pk ≤ (c : Int) → c < w → (∃ x, nb[(A + h) * w + c]? = some x ∧ x.char0 = 0) →
            ∃ x, (nb.take (A * w) ++ outf)[(A + h) * w + c]? = some x ∧ x.char0 = 0) := by
  have hRw : (A + h + 1) * w ≤ R * w := Nat.mul_le_mul_right w hAh
  have hsw : (A + h + 1) * w = A * w + (h + 1) * w := by ring
  have hb : (((A + h : Nat) : Int) + 1) * (w : Int) ≤ (old.length : Int) := by
    rw [hold]
    exact_mod_cast hRw
  have hH : (((A + h : Nat) : Int) - (A : Int)).toNat = h := by omega
  obtain ⟨p, hp1, hp2, hdry, hreal⟩ := @reflow_line_aligned old (A : Int) ((A + h : Nat) : Int)
    w fuel hw (by omega) (by omega) hb
    (by
      intro r r0 r1
      obtain ⟨k, rfl⟩ : ∃ k : Nat, r = ((A + k : Nat) : Int) := ⟨(r - (A : Int)).toNat, by omega⟩
      exact hfull k (by omega))
    (by omega)
  rw [hH] at hdry hreal
  refine ⟨_, by split <;> omega, hdry, ?_⟩
  intro nrs ocur nc nb hnb
  obtain ⟨outf, hE, hLen, hKeep, hAt, hPad⟩ := hreal nrs ocur nc (nb.drop (A * w)) (by
    rw [List.length_drop, hnb]
    omega)
  rw [List.length_drop, hnb] at hLen
  have hget : ∀ i, (nb.take (A * w) ++ outf)[i]? =
      if i < A * w then nb[i]? else outf[i - A * w]? :=
    fun i => getElem?_take_append _ _ _ _ (by omega)
  have hidx : ∀ k c, (A + k) * w + c = A * w + (k * w + c) := by
    intro k c
    ring
  refine ⟨outf, hE, ?_, ?_, ?_, ?_⟩
  · rw [List.length_append, List.length_take, hLen, hnb]
    omega
  · intro i hi
    rw [hget]
    by_cases h1 : i < A * w
    · rw [if_pos h1]
    · rw [if_neg h1, hKeep _ (by omega), List.getElem?_drop]
      congr 1
      omega
  · intro k c pk hk hpk hc hcw
    have e : (A : Int) + (k : Int) = ((A + k : Nat) : Int) := by push_cast; ring
    have := hAt k c pk hk (by rw [e]; exact hpk) hc
    rw [hget, hidx, if_neg (by omega), Nat.add_sub_cancel_left, this, e, row_offset, hidx]
  · intro c pk hpk hc hcw hb0
    have hpp : pk = (p : Int) := by
      rw [hpk] at hp1
      exact Option.some.inj hp1
    rw [hget, hidx, if_neg (by omega), Nat.add_sub_cancel_left]
    apply hPad c (by omega) hcw
    obtain ⟨x, hx, hx0⟩ := hb0
    refine ⟨x, ?_, hx0⟩
    rw [List.getElem?_drop, ← hidx]
    exact hx

/-- One iteration of the first loop of `resize_buffer` when the size stays and
every row that a continuation row follows is full: the paragraph that ends in
row `q - 1` is placed in the rows it had, and the loop goes on above it. -/
theorem aligned_iter {old : List ScreenCell} {li : List VTermLineInfo} {R w fuel q : Nat}
    (active : Bool) (ocur : VTermPos) (n : Nat) (st : ResizeState) (hw : 0 < w)
    (hold : old.length = R * w) (hlen : li.length = R) (hfuel : R ≤ fuel)
    (hfull : ∀ r : Nat, r + 1 < R → (∃ info, li[r + 1]? = some info ∧ info.continuation ≠ 0) →
      line_popcount old (r : Int) (w : Int) = some (w : Int))
    (hcol : 0 ≤ ocur.col) (hq0 : 0 < q) (hqR : q ≤ R)
    (hinv : AlignedInv old li R w ocur q st) :
    ∃ (A : Nat) (st2 : ResizeState), A < q ∧
      resize_place fuel old (some li) (w : Int) (R : Int) (w : Int) active ocur (n + 1) st =
        resize_place fuel old (some li) (w : Int) (R : Int) (w : Int) active ocur n st2 ∧
      AlignedInv old li R w ocur A st2 := by
  obtain ⟨ho, hn, hfb, hbuf, hli, hblank, hrowk, hflag, hcur⟩ := hinv
  obtain ⟨a, oinfo, a0, a1, hoinfo, -, hpara, hstep⟩ :=
    @resize_place_step old li (w : Int) R w fuel active ocur n st hfb hbuf hli
      (by omega) (by omega) (by omega)
  obtain ⟨A, hA⟩ : ∃ A : Nat, a = (A : Int) := ⟨a.toNat, by omega⟩
  subst hA
  obtain ⟨h, hh⟩ : ∃ h, q = A + h + 1 := ⟨q - 1 - A, by omega⟩
  subst hh
  have hoe : st.old_row = ((A + h : Nat) : Int) := by omega
  have hoff : st.new_row.toNat - h = A := by omega
  have hfull1 : ∀ k : Nat, k < h →
      line_popcount old ((A + k : Nat) : Int) (w : Int) = some (w : Int) := by
    intro k hk
    obtain ⟨info, i1, i2⟩ := hpara (((A + k + 1 : Nat) : Int)) (by omega) (by omega)
    rw [infoAt_nat] at i1
    exact hfull (A + k) (by omega) ⟨info, i1, i2⟩
  obtain ⟨col, hcol0, hdry, hreal⟩ := @reflow_line_aligned_into old R w fuel A h hw hold
    (by omega) hfull1 hfuel
  rw [← hoe] at hdry hreal
  obtain ⟨-, hplace⟩ := hstep h col hcol0 hdry
  obtain ⟨outf, hE, hLen, hKeep, hAt, hPad⟩ := hreal (st.new_row - (h : Int)) ocur
    st.new_cursor st.new_buffer hbuf
  rw [show A * w = (st.new_row.toNat - h) * w from by rw [hoff]] at hE
  obtain ⟨li2, f1, f2, f3, f4, hgo⟩ := hplace (by omega) _ outf _ hE
  rw [hoff] at f2 f3 f4 hgo
  have hqw : (A + h + 1) * w ≤ R * w := Nat.mul_le_mul_right w hqR
  have hAw : A * w ≤ (A + h + 1) * w := Nat.mul_le_mul_right w (by omega)
  have hnrt : st.new_row.toNat = A + h := by omega
  rw [hnrt] at f2
  refine ⟨A, _, by omega, hgo, rfl, ?_, rfl, hLen, f1, ?_, ?_, ?_, ?_⟩
  · show st.new_row - (h : Int) - 1 = (A : Int) - 1
    omega
  · intro i hi
    show ∃ x, (st.new_buffer.take (A * w) ++ outf)[i]? = some x ∧ x.char0 = 0
    rw [hKeep i (Or.inl hi)]
    exact hblank i (by omega)
  · intro r hr1 hr2 c pk hc hpk
    show ((c : Int) < pk → (st.new_buffer.take (A * w) ++ outf)[r * w + c]? = old[r * w + c]?) ∧
      (pk ≤ (c : Int) → ∃ x, (st.new_buffer.take (A * w) ++ outf)[r * w + c]? = some x ∧
        x.char0 = 0)
    by_cases hrq : A + h + 1 ≤ r
    · have hge : (A + h + 1) * w ≤ r * w + c := by
        have : (A + h + 1) * w ≤ r * w := Nat.mul_le_mul_right w hrq
        omega
      rw [hKeep _ (Or.inr hge)]
      exact hrowk r hrq hr2 c pk hc hpk
    · obtain ⟨k, rfl⟩ : ∃ k, r = A + k := ⟨r - A, by omega⟩
      constructor
      · intro hcp
        exact hAt k c pk (by omega) hpk hcp hc
      · intro hcp
        have hkh : k = h := by
          by_contra hne
          have := hfull1 k (by omega)
          rw [hpk] at this
          have : pk = (w : Int) := Option.some.inj this
          omega
        subst hkh
        apply hPad c pk (by rw [hoe]; exact hpk) hcp hc
        apply hblank
        have e : (A + k + 1) * w = (A + k) * w + w := by ring
        omega
  · intro r hr1 hr2
    show FlagKept li li2 r
    by_cases hrq : A + h + 1 ≤ r
    · obtain ⟨info, oi, b1, b2, b3⟩ := hflag r hrq hr2
      exact ⟨info, oi, by rw [f2 r (Or.inr (by omega))]; exact b1, b2, b3⟩
    · by_cases hrA : r = A
      · subst hrA
        obtain ⟨info, c1, c2⟩ := f4
        have hoi : li[r]? = some oinfo := by rw [← infoAt_nat]; exact hoinfo
        exact ⟨_, oinfo, c2, hoi, rfl⟩
      · obtain ⟨info, c1, c2⟩ := f3 (r - A) (by omega) (by omega)
        have e : A + (r - A) = r := by omega
        rw [e] at c1 c2
        obtain ⟨oi, d1, d2⟩ := hpara (r : Int) (by omega) (by omega)
        rw [infoAt_nat] at d1
        exact ⟨_, oi, c2, d1, by simp [d2]⟩
  · show aligned_cursor (st.new_row - (h : Int)) ocur st.new_cursor 0 (A : Int) st.old_row =
      (if (A : Int) ≤ ocur.row then ocur else { row := -1, col := -1 })
    unfold aligned_cursor
    rw [hcur]
    by_cases h1 : (A : Int) ≤ ocur.row ∧ ocur.row ≤ st.old_row ∧ 0 ≤ ocur.col
    · rw [if_pos h1, if_pos h1.1]
      have : st.new_row - (h : Int) + ((0 : Nat) : Int) + (ocur.row - (A : Int)) = ocur.row := by
        omega
      rw [this]
    · rw [if_neg h1]
      by_cases h2 : ((A + h + 1 : Nat) : Int) ≤ ocur.row
      · rw [if_pos h2, if_pos (by omega)]
      · rw [if_neg h2, if_neg]
        intro h3
        exact h1 ⟨h3, by omega, hcol⟩

/-- The first loop of `resize_buffer` when the size stays and every row that a
continuation row follows is full: every paragraph is placed in the rows it
had. -/
theorem resize_place_aligned {old : List ScreenCell} {li : List VTermLineInfo} {R w fuel : Nat}
    (active : Bool) (ocur : VTermPos) (hw : 0 < w) (hold : old.length = R * w)
    (hlen : li.length = R) (hfuel : R ≤ fuel)
    (hfull : ∀ r : Nat, r + 1 < R → (∃ info, li[r + 1]? = some info ∧ info.continuation ≠ 0) →
      line_popcount old (r : Int) (w : Int) = some (w : Int))
    (hcol : 0 ≤ ocur.col) :
    ∀ (q n : Nat) (st : ResizeState), q ≤ R → q < n → AlignedInv old li R w ocur q st →
      ∃ st', resize_place fuel old (some li) (w : Int) (R : Int) (w : Int) active ocur n st =
          some st' ∧ AlignedInv old li R w ocur 0 st' := by
  intro q
  induction q using Nat.strong_induction_on with
  | _ q ih =>
    intro n st hqR hqn hinv
    obtain ⟨n, rfl⟩ : ∃ n', n = n' + 1 := ⟨n - 1, by omega⟩
    by_cases hq0 : q = 0
    · subst hq0
      refine ⟨st, ?_, hinv⟩
      have ho : st.old_row = -1 := by
        have := hinv.1
        simpa using this
      rw [resize_place, if_neg (by rw [ho]; norm_num)]
    · obtain ⟨A, st2, hAq, hgo, hnext⟩ := aligned_iter active ocur n st hw hold hlen hfuel hfull
        hcol (Nat.pos_of_ne_zero hq0) hqR hinv
      have hAR : A ≤ R := by omega
      have hAn : A < n := by omega
      obtain ⟨st', g1, g2⟩ := ih A hAq n st2 hAR hAn hnext
      exact ⟨st', by rw [hgo]; exact g1, g2⟩

theorem alloc_cells_length (alloc : VTermAllocator) (n : Nat) :
    (alloc.cells (n : Int)).length = n := by
  simp [VTermAllocator.cells]

theorem alloc_cells_get (alloc : VTermAllocator) (n i : Nat) (h : i < n) :
    (alloc.cells (n : Int))[i]? = some (alloc.cell i) := by
  simp [VTermAllocator.cells, h]

theorem alloc_lineinfos_length (alloc : VTermAllocator) (n : Nat) :
    (alloc.lineinfos (n : Int)).length = n := by
  simp [VTermAllocator.lineinfos]

/-- `resize_buffer` to the size the grid has, when every row that a
continuation row follows is full, the cursor is on the grid and new memory is
blank: the call returns without a call to the host, every row keeps its cells
up to its last glyph and is blank after them, every row keeps its continuation
flag, and the cursor stays. -/
theorem resize_buffer_same_size (fuel : Nat) (alloc : VTermAllocator) (bufidx : BufIdx)
    (active : Bool) (fields : VTermStateFields) (s : VTermScreen) (R w : Nat)
    (old : List ScreenCell) (li : List VTermLineInfo)
    (hrows : s.rows = (R : Int)) (hcols : s.cols = (w : Int)) (hw : 0 < w)
    (hbuf : buffer_of bufidx s = some old) (hold : old.length = R * w)
    (hinfo : lineinfo_of bufidx fields = some li) (hlen : li.length = R)
    (hcur : 0 ≤ fields.pos.row ∧ fields.pos.row < (R : Int) ∧ 0 ≤ fields.pos.col)
    (hfull : ∀ r : Nat, r + 1 < R → (∃ info, li[r + 1]? = some info ∧ info.continuation ≠ 0) →
      line_popcount old (r : Int) (w : Int) = some (w : Int))
    (hblank : ∀ i, (alloc.cell i).char0 = 0) (hfuel : R ≤ fuel) :
    ∃ nb nli, resize_buffer fuel alloc bufidx (R : Int) (w : Int) active fields s =
        some (with_buffer bufidx s nb, with_lineinfo bufidx fields nli) ∧
      nb.length = R * w ∧ nli.length = R ∧ (∀ r, r < R → RowKept old nb w r) ∧
      (∀ r, r < R → FlagKept li nli r) := by
  have hinit := @resize_place_aligned old li R w fuel active fields.pos hw hold hlen hfuel hfull
    hcur.2.2 R (R + 1)
    { old_row := (R : Int) - 1, new_row := (R : Int) - 1
      new_buffer := alloc.cells ((R : Int) * (w : Int))
      new_lineinfo := alloc.lineinfos (R : Int)
      new_cursor := { row := -1, col := -1 }
      final_blank_row := (R : Int) } le_rfl (by omega)
    ⟨rfl, rfl, rfl,
      (by
        have : (R : Int) * (w : Int) = ((R * w : Nat) : Int) := by push_cast; ring
        show (alloc.cells ((R : Int) * (w : Int))).length = R * w
        rw [this, alloc_cells_length]),
      alloc_lineinfos_length alloc R,
      (by
        intro i hi
        have : (R : Int) * (w : Int) = ((R * w : Nat) : Int) := by push_cast; ring
        show ∃ x, (alloc.cells ((R : Int) * (w : Int)))[i]? = some x ∧ x.char0 = 0
        rw [this, alloc_cells_get alloc _ _ hi]
        exact ⟨_, rfl, hblank i⟩),
      (fun r h1 h2 => by omega), (fun r h1 h2 => by omega),
      (by
        show ({ row := -1, col := -1 } : VTermPos) = _
        rw [if_neg (by omega)])⟩
  obtain ⟨st', g1, g2, g3, -, g4, g5, -, g6, g7, g8⟩ := hinit
  have g2 : st'.old_row = -1 := by simpa using g2
  have g3 : st'.new_row = -1 := by simpa using g3
  have g6 : ∀ r, r < R → RowKept old st'.new_buffer w r := fun r hr => g6 r (Nat.zero_le r) hr
  have g7 : ∀ r, r < R → FlagKept li st'.new_lineinfo r := fun r hr => g7 r (Nat.zero_le r) hr
  rw [if_pos (by simpa using hcur.1)] at g8
  refine ⟨st'.new_buffer, st'.new_lineinfo, ?_, g4, g5, g6, g7⟩
  have hRt : (R : Int).toNat + 1 = R + 1 := by simp
  have c1 : ¬ (fields.pos.row ≤ st'.old_row) := by rw [g2]; omega
  have c3 : ¬ (st'.new_row ≥ 0) := by rw [g3]; omega
  have c4 : ¬ (active = true ∧ (fields.pos.row = -1 ∨ fields.pos.col = -1)) := by
    rintro ⟨-, h | h⟩ <;> omega
  have c5 : ¬ (st'.old_row ≥ 0) := by rw [g2]; omega
  cases bufidx with
  | PRIMARY =>
    simp only [buffer_of, Option.some.injEq] at hbuf
    simp only [lineinfo_of] at hinfo
    unfold resize_buffer
    simp only [hrows, hcols, hbuf, hinfo, Option.some_bind, hRt, g1, if_neg c1, g8, if_neg c4,
      c5, c3, false_and, and_false, if_false]
    unfold resize_fill
    simp only [if_neg c3, Option.map_some', ite_self]
    simp [with_buffer, with_lineinfo, hrows, hcols]
  | ALTSCREEN =>
    simp only [buffer_of] at hbuf
    simp only [lineinfo_of] at hinfo
    unfold resize_buffer
    simp only [hrows, hcols, hbuf, hinfo, Option.some_bind, hRt, g1, if_neg c1, g8, if_neg c4,
      c5, c3, false_and, and_false, if_false]
    unfold resize_fill
    simp only [if_neg c3, Option.map_some', ite_self]
    simp [with_buffer, with_lineinfo, hrows, hcols]

theorem ensure_sb_buffer_cols_eq (alloc : VTermAllocator) (cols : Int) (s : VTermScreen) :
    ∃ sb, ensure_sb_buffer_cols alloc cols s = { s with sb_buffer := sb } := by
  unfold ensure_sb_buffer_cols alloc_sb_buffer
  split
  · exact ⟨_, rfl⟩
  · exact ⟨_, rfl⟩

/-! ## Claims about `resize` to the same size -/

set_option maxRecDepth 100000 in
/-- C21, as stated, fails.  On `short_rows_screen` the second row continues the
first, which is not full: the resize from 2 x 3 to 2 x 3 joins `A` and `B` in
row 0.  On `styled_screen` the blank cell `(0, 1)` has a bold pen and row 0 is
a double-width line: after the resize to the same size the cell has the pen of
new memory and the row has lost the flag. -/
theorem resize_same_size_changes_grid :
    (resize 20 zero_alloc 2 3 cont_fields short_rows_screen).map
        (fun x => (x.1.rows, x.1.cols, x.1.buffers_primary)) =
      some (2, 3, letters [0x41, 0x42, 0, 0, 0, 0]) ∧
    cellAt styled_screen 0 1 = some bold_blank ∧
    (resize 20 zero_alloc 2 3 dwl_fields styled_screen).map
        (fun x => (x.1.rows, x.1.cols, x.1.buffers_primary, x.2.1.lineinfos_primary)) =
      some (2, 3, letters [0x41, 0, 0, 0, 0, 0], some [zero_info, zero_info]) := by
  decide

set_option maxHeartbeats 1600000 in
/-- C21, amended: `resize` to the size the grid has, on a screen whose buffers
have the size of the grid, in which every row that a continuation row follows
is full and the cursor is on the grid, with new memory blank.  The call
returns; in both buffers every row keeps its cells (chars and pen) up to its
last glyph and is blank after them (`RowKept`), every row keeps its
continuation flag (`FlagKept`), and the cursor stays where it is. -/
theorem resize_same_size (fuel : Nat) (alloc : VTermAllocator) (fields : VTermStateFields)
    (s : VTermScreen) (R w : Nat) (lip : List VTermLineInfo)
    (hrows : s.rows = (R : Int)) (hcols : s.cols = (w : Int)) (hw : 0 < w)
    (hprim : s.buffers_primary.length = R * w)
    (hlip : fields.lineinfos_primary = some lip) (hliplen : lip.length = R)
    (hfullp : ContinuedRowsFull s.buffers_primary lip R w)
    (halt : ∀ ba, s.buffers_altscreen = some ba → ba.length = R * w ∧
      ∃ lia, fields.lineinfos_altscreen = some lia ∧ lia.length = R ∧
        ContinuedRowsFull ba lia R w)
    (hcur : 0 ≤ fields.pos.row ∧ fields.pos.row < (R : Int) ∧ 0 ≤ fields.pos.col ∧
      fields.pos.col < (w : Int))
    (hblank : ∀ i, (alloc.cell i).char0 = 0) (hinv : DamageInv s) (hfuel : R < fuel) :
    ∃ s' f' ret, resize fuel alloc s.rows s.cols fields s = some (s', f', ret) ∧
      s'.rows = s.rows ∧ s'.cols = s.cols ∧ f'.pos = fields.pos ∧
      s'.buffers_primary.length = R * w ∧
      (∀ r, r < R → RowKept s.buffers_primary s'.buffers_primary w r) ∧
      (∃ nli, f'.lineinfos_primary = some nli ∧ nli.length = R ∧
        ∀ r, r < R → FlagKept lip nli r) ∧
      (s.buffers_altscreen = none → s'.buffers_altscreen = none) ∧
      (∀ ba lia, s.buffers_altscreen = some ba → fields.lineinfos_altscreen = some lia →
        ∃ nba nlia, s'.buffers_altscreen = some nba ∧ f'.lineinfos_altscreen = some nlia ∧
          nba.length = R * w ∧ nlia.length = R ∧
          ∀ r, r < R → RowKept ba nba w r ∧ FlagKept lia nlia r) := by
  obtain ⟨fuel, rfl⟩ : ∃ f, fuel = f + 1 := ⟨fuel - 1, by omega⟩
  obtain ⟨sb, hsb⟩ := ensure_sb_buffer_cols_eq alloc (w : Int) s
  -- the primary buffer
  obtain ⟨nb, nli, hP, hnb, hnli, hrowP, hflagP⟩ := resize_buffer_same_size (fuel + 1) alloc
    BufIdx.PRIMARY (!(s.buffers_altscreen.isSome && decide (s.buffer = BufIdx.ALTSCREEN))) fields
    { s with sb_buffer := sb } R w s.buffers_primary lip hrows hcols hw rfl hprim hlip hliplen
    ⟨hcur.1, hcur.2.1, hcur.2.2.1⟩ hfullp hblank (by omega)
  -- the buffers after the second call of `resize_buffer`
  have hsecond : ∃ (s2 : VTermScreen) (f2 : VTermStateFields),
      (if (with_buffer BufIdx.PRIMARY { s with sb_buffer := sb } nb).buffers_altscreen.isSome then
        resize_buffer (fuel + 1) alloc BufIdx.ALTSCREEN (R : Int) (w : Int)
          (s.buffers_altscreen.isSome && decide (s.buffer = BufIdx.ALTSCREEN))
          (with_lineinfo BufIdx.PRIMARY fields nli)
          (with_buffer BufIdx.PRIMARY { s with sb_buffer := sb } nb)
      else if (R : Int) ≠ s.rows then
        some (with_buffer BufIdx.PRIMARY { s with sb_buffer := sb } nb,
          { with_lineinfo BufIdx.PRIMARY fields nli with
            lineinfos_altscreen := some (List.replicate (R : Int).toNat
              { doublewidth := 0, doubleheight := 0, continuation := 0 }) })
      else some (with_buffer BufIdx.PRIMARY { s with sb_buffer := sb } nb,
        with_lineinfo BufIdx.PRIMARY fields nli)) = some (s2, f2) ∧
      DamageInv s2 ∧ s2.rows = s.rows ∧ s2.cols = s.cols ∧ s2.buffers_primary = nb ∧
      f2.pos = fields.pos ∧ f2.lineinfos_primary = some nli ∧
      (s.buffers_altscreen = none → s2.buffers_altscreen = none) ∧
      (∀ ba lia, s.buffers_altscreen = some ba → fields.lineinfos_altscreen = some lia →
        ∃ nba nlia, s2.buffers_altscreen = some nba ∧ f2.lineinfos_altscreen = some nlia ∧
          nba.length = R * w ∧ nlia.length = R ∧
          ∀ r, r < R → RowKept ba nba w r ∧ FlagKept lia nlia r) := by
    obtain halts | ⟨ba, halts⟩ : s.buffers_altscreen = none ∨
        ∃ ba, s.buffers_altscreen = some ba := by
      cases s.buffers_altscreen with
      | none => exact Or.inl rfl
      | some ba => exact Or.inr ⟨ba, rfl⟩
    · refine ⟨with_buffer BufIdx.PRIMARY { s with sb_buffer := sb } nb,
        with_lineinfo BufIdx.PRIMARY fields nli, ?_, hinv, rfl, rfl, rfl, rfl, rfl, ?_, ?_⟩
      · rw [if_neg (by simp only [with_buffer, halts, Option.isSome_none]; simp),
          if_neg (by rw [hrows]; simp)]
      · intro _
        simp only [with_buffer, halts]
      · intro ba lia h
        rw [halts] at h
        cases h
    · obtain ⟨hbalen, lia, hlia, hlialen, hfulla⟩ := halt ba halts
      obtain ⟨nba, nlia, hA, hnba, hnlia, hrowA, hflagA⟩ := resize_buffer_same_size (fuel + 1)
        alloc BufIdx.ALTSCREEN (s.buffers_altscreen.isSome && decide (s.buffer = BufIdx.ALTSCREEN))
        (with_lineinfo BufIdx.PRIMARY fields nli)
        (with_buffer BufIdx.PRIMARY { s with sb_buffer := sb } nb) R w ba lia hrows hcols hw
        (by simp only [buffer_of, with_buffer, halts]) hbalen
        (by simp only [lineinfo_of, with_lineinfo, hlia]) hlialen
        ⟨hcur.1, hcur.2.1, hcur.2.2.1⟩ hfulla hblank (by omega)
      refine ⟨with_buffer BufIdx.ALTSCREEN
          (with_buffer BufIdx.PRIMARY { s with sb_buffer := sb } nb) nba,
        with_lineinfo BufIdx.ALTSCREEN (with_lineinfo BufIdx.PRIMARY fields nli) nlia,
        ?_, hinv, rfl, rfl, rfl, rfl, rfl, ?_, ?_⟩
      · rw [if_pos (by simp only [with_buffer, halts, Option.isSome_some]), hA]
      · intro h
        rw [halts] at h
        cases h
      · intro ba' lia' h1 h2
        rw [hlia] at h2
        rw [halts] at h1
        cases h1
        cases h2
        exact ⟨nba, nlia, rfl, rfl, hnba, hnlia, fun r hr => ⟨hrowA r hr, hflagA r hr⟩⟩
  obtain ⟨s2, f2, hS, hinv2, h2rows, h2cols, h2prim, h2pos, h2li, h2none, h2alt⟩ := hsecond
  -- the damage of the whole screen
  obtain ⟨s5, hD, hod, -⟩ := damagerect_total fuel
    (alloc_sb_buffer alloc (w : Int)
      { s2 with
        buffer := if (s.buffers_altscreen.isSome && decide (s.buffer = BufIdx.ALTSCREEN)) = true
          then BufIdx.ALTSCREEN else BufIdx.PRIMARY
        rows := (R : Int), cols := (w : Int) })
    { start_row := 0, end_row := (R : Int), start_col := 0, end_col := (w : Int) } hinv2
  obtain ⟨d, p, pd, pr, tr, hs5⟩ := hod
  have h5rows : s5.rows = (R : Int) := by rw [hs5]; rfl
  have h5cols : s5.cols = (w : Int) := by rw [hs5]; rfl
  have h5prim : s5.buffers_primary = nb := by rw [hs5]; exact h2prim
  have h5alt : s5.buffers_altscreen = s2.buffers_altscreen := by rw [hs5]; rfl
  have hres : ∃ (s' : VTermScreen) (ret : Int),
      resize (fuel + 1) alloc s.rows s.cols fields s = some (s', f2, ret) ∧
      s'.rows = s5.rows ∧ s'.cols = s5.cols ∧ s'.buffers_primary = s5.buffers_primary ∧
      s'.buffers_altscreen = s5.buffers_altscreen := by
    unfold resize
    simp only [hrows, hcols] at hsb hP hS ⊢
    rw [hsb, hP]
    simp only [Option.some_bind]
    rw [hS]
    simp only [Option.some_bind]
    unfold damagescreen
    rw [show (alloc_sb_buffer alloc (w : Int)
        { s2 with
          buffer := if (s.buffers_altscreen.isSome && decide (s.buffer = BufIdx.ALTSCREEN)) = true
            then BufIdx.ALTSCREEN else BufIdx.PRIMARY
          rows := (R : Int), cols := (w : Int) }).rows = (R : Int) from rfl,
      show (alloc_sb_buffer alloc (w : Int)
        { s2 with
          buffer := if (s.buffers_altscreen.isSome && decide (s.buffer = BufIdx.ALTSCREEN)) = true
            then BufIdx.ALTSCREEN else BufIdx.PRIMARY
          rows := (R : Int), cols := (w : Int) }).cols = (w : Int) from rfl, hD]
    simp only [Option.map_some']
    generalize (s5.callbacks.bind fun cb => cb.resize) = o
    cases o with
    | none => exact ⟨s5, 1, rfl, rfl, rfl, rfl, rfl⟩
    | some host => exact ⟨_, _, rfl, rfl, rfl, rfl, rfl⟩
  obtain ⟨s', ret, he, e1, e2, e3, e4⟩ := hres
  refine ⟨s', f2, ret, he, by rw [e1, h5rows, hrows], by rw [e2, h5cols, hcols], h2pos,
    by rw [e3, h5prim]; exact hnb, by rw [e3, h5prim]; exact hrowP,
    ⟨nli, h2li, hnli, hflagP⟩, fun h => by rw [e4, h5alt]; exact h2none h, ?_⟩
  intro ba lia h1 h2
  rw [e4, h5alt]
  exact h2alt ba lia h1 h2

theorem hw_screen_rows_full :
    ContinuedRowsFull hw_screen.buffers_primary [zero_info, cont_info] 2 5 := by
  intro r hr _
  obtain rfl : r = 0 := by omega
  decide

theorem resize_same_size_witness :
    ContinuedRowsFull hw_screen.buffers_primary [zero_info, cont_info] 2 5 ∧
    ∃ s' f' ret, resize 3 zero_alloc hw_screen.rows hw_screen.cols hw_fields hw_screen =
        some (s', f', ret) ∧
      s'.rows = hw_screen.rows ∧ s'.cols = hw_screen.cols ∧ f'.pos = hw_fields.pos ∧
      s'.buffers_primary.length = 2 * 5 ∧
      (∀ r, r < 2 → RowKept hw_screen.buffers_primary s'.buffers_primary 5 r) ∧
      (∃ nli, f'.lineinfos_primary = some nli ∧ nli.length = 2 ∧
        ∀ r, r < 2 → FlagKept [zero_info, cont_info] nli r) ∧
      (hw_screen.buffers_altscreen = none → s'.buffers_altscreen = none) ∧
      (∀ ba lia, hw_screen.buffers_altscreen = some ba →
        hw_fields.lineinfos_altscreen = some lia →
        ∃ nba nlia, s'.buffers_altscreen = some nba ∧ f'.lineinfos_altscreen = some nlia ∧
          nba.length = 2 * 5 ∧ nlia.length = 2 ∧
          ∀ r, r < 2 → RowKept ba nba 5 r ∧ FlagKept lia nlia r) :=
  ⟨hw_screen_rows_full,
    resize_same_size 3 zero_alloc hw_fields hw_screen 2 5 [zero_info, cont_info] rfl rfl
      (by decide) rfl rfl rfl hw_screen_rows_full (fun _ h => Option.noConfusion h)
      (by decide) (fun _ => rfl) (fun _ => rfl) (by decide)⟩

/-! ## Rows of a buffer and their stripped cells -/

theorem cell_index (r w k : Nat) : (r : Int) * (w : Int) + (k : Int) = ((r * w + k : Nat) : Int) := by
  push_cast
  ring

theorem row_fits {R w r : Nat} (h : r < R) : (r + 1) * w ≤ R * w :=
  Nat.mul_le_mul_right w h

theorem row_cell_lt {R w r c : Nat} (h : r < R) (hc : c < w) : r * w + c < R * w := by
  have h1 : (r + 1) * w ≤ R * w := Nat.mul_le_mul_right w h
  have h2 : (r + 1) * w = r * w + w := by ring
  omega

/-- The count `line_popcount` gives for a row is the only one after whose last
cell the row is blank. -/
theorem line_popcount_eq {b : List ScreenCell} {w r n : Nat} (hb : (r + 1) * w ≤ b.length)
    (hn : n ≤ w) (hlast : 0 < n → ∃ x, b[r * w + (n - 1)]? = some x ∧ x.char0 ≠ 0)
    (hrest : ∀ c, n ≤ c → c < w → ∃ x, b[r * w + c]? = some x ∧ x.char0 = 0) :
    line_popcount b (r : Int) (w : Int) = some (n : Int) := by
  obtain ⟨m, e, m0, m1, mlast, mrest⟩ := @line_popcount_spec b (w : Int) (r : Int) (by omega)
    (by omega) (by exact_mod_cast hb)
  obtain ⟨M, rfl⟩ : ∃ M : Nat, m = (M : Int) := ⟨m.toNat, by omega⟩
  rw [e]
  by_cases hMn : M = n
  · rw [hMn]
  · exfalso
    rcases Nat.lt_or_gt_of_ne hMn with h | h
    · obtain ⟨x, hx, hx0⟩ := hlast (by omega)
      obtain ⟨c, hc, hc0⟩ := mrest ((n - 1 : Nat) : Int) (by omega) (by omega)
      rw [cell_index, bufAt_nat, hx] at hc
      cases hc
      exact hx0 hc0
    · obtain ⟨c, hc, hc0⟩ := mlast (by omega)
      have e1 : (M : Int) - 1 = ((M - 1 : Nat) : Int) := by omega
      rw [e1, cell_index, bufAt_nat] at hc
      obtain ⟨x, hx, hx0⟩ := hrest (M - 1) (by omega) (by omega)
      rw [hx] at hc
      cases hc
      exact hc0 hx0

/-- A row of the buffer that holds the cells `row`, none of them blank, and
blank cells after them has `row` as its stripped cells. -/
theorem stripped_row_laid {b : List ScreenCell} {w r : Nat} {row : List ScreenCell}
    (hb : (r + 1) * w ≤ b.length) (hlen : row.length ≤ w)
    (hlaid : ∀ c, c < row.length → b[r * w + c]? = row[c]?)
    (hpad : ∀ c, row.length ≤ c → c < w → ∃ x, b[r * w + c]? = some x ∧ x.char0 = 0)
    (hsolid : ∀ x ∈ row, x.char0 ≠ 0) :
    stripped_row b (w : Int) (r : Int) = row := by
  have hpc : line_popcount b (r : Int) (w : Int) = some (row.length : Int) := by
    apply line_popcount_eq hb hlen _ hpad
    intro hpos
    have hlt : row.length - 1 < row.length := by omega
    refine ⟨row[row.length - 1], ?_, hsolid _ (List.getElem_mem hlt)⟩
    rw [hlaid _ hlt]
    exact List.getElem?_eq_getElem hlt
  rw [stripped_row_eq hpc, row_offset, Int.toNat_ofNat]
  apply List.ext_getElem?
  intro i
  by_cases hi : i < row.length
  · rw [List.getElem?_take_of_lt hi, List.getElem?_drop, hlaid i hi]
  · rw [List.getElem?_eq_none (by rw [List.length_take]; omega),
      List.getElem?_eq_none (by omega)]

/-- Rows laid out in a buffer, none of their cells blank, each followed by
blank cells up to the end of its line: the stripped cells of these lines are
the cells of the rows. -/
theorem paragraph_cells_laid {b : List ScreenCell} {w : Nat} :
    ∀ (rows : List (List ScreenCell)) (j : Nat), (j + rows.length) * w ≤ b.length →
      RowsLaid b w j rows → RowsPadded b w j rows rows.length →
      (∀ row ∈ rows, row.length ≤ w) → (∀ row ∈ rows, ∀ x ∈ row, x.char0 ≠ 0) →
      paragraph_cells b (w : Int) rows.length (j : Int) = rows.flatten
  | [], _, _, _, _, _, _ => rfl
  | row0 :: rows1, j, hb, hlaid, hpad, hlen, hsolid => by
    have hb0 : (j + 1) * w ≤ b.length := by
      have : (j + 1) * w ≤ (j + (row0 :: rows1).length) * w :=
        Nat.mul_le_mul_right w (by rw [List.length_cons]; omega)
      omega
    have h0 : stripped_row b (w : Int) (j : Int) = row0 := by
      apply stripped_row_laid hb0 (hlen row0 (List.mem_cons_self _ _))
      · intro c hc
        have := hlaid 0 c (by rw [List.length_cons]; omega) (by simpa using hc)
        simpa using this
      · intro c hc1 hc2
        have := hpad 0 c (by rw [List.length_cons]; omega) (by simpa using hc1) hc2
        simpa using this
      · exact hsolid row0 (List.mem_cons_self _ _)
    have h1 := paragraph_cells_laid rows1 (j + 1)
      (by
        rw [List.length_cons] at hb
        have : j + 1 + rows1.length = j + (rows1.length + 1) := by omega
        rw [this]
        exact hb)
      (by
        intro k c hk hc
        have := hlaid (k + 1) c (by rw [List.length_cons]; omega) (by simpa using hc)
        have e : j + (k + 1) = j + 1 + k := by omega
        rw [e] at this
        simpa using this)
      (by
        intro k c hk hc1 hc2
        have := hpad (k + 1) c (by rw [List.length_cons]; omega) (by simpa using hc1) hc2
        have e : j + (k + 1) = j + 1 + k := by omega
        rw [e] at this
        exact this)
      (fun row hr => hlen row (List.mem_cons_of_mem _ hr))
      (fun row hr => hsolid row (List.mem_cons_of_mem _ hr))
    rw [List.length_cons, paragraph_cells, h0, List.flatten_cons]
    have e : ((j : Int) + 1) = ((j + 1 : Nat) : Int) := by push_cast; ring
    rw [e, h1]

/-- Two rows with the same cells have the same stripped cells. -/
theorem stripped_row_congr {b b' : List ScreenCell} {w r r' : Nat}
    (hb : (r + 1) * w ≤ b.length) (hb' : (r' + 1) * w ≤ b'.length)
    (h : ∀ c, c < w → b'[r' * w + c]? = b[r * w + c]?) :
    stripped_row b' (w : Int) (r' : Int) = stripped_row b (w : Int) (r : Int) := by
  obtain ⟨m, e, m0, m1, mlast, mrest⟩ := @line_popcount_spec b (w : Int) (r : Int) (by omega)
    (by omega) (by exact_mod_cast hb)
  obtain ⟨M, rfl⟩ : ∃ M : Nat, m = (M : Int) := ⟨m.toNat, by omega⟩
  have e' : line_popcount b' (r' : Int) (w : Int) = some (M : Int) := by
    apply line_popcount_eq hb' (by omega)
    · intro hpos
      obtain ⟨c, hc, hc0⟩ := mlast (by omega)
      have e1 : (M : Int) - 1 = ((M - 1 : Nat) : Int) := by omega
      rw [e1, cell_index, bufAt_nat] at hc
      exact ⟨c, by rw [h _ (by omega)]; exact hc, hc0⟩
    · intro c hc1 hc2
      obtain ⟨x, hx, hx0⟩ := mrest (c : Int) (by omega) (by omega)
      rw [cell_index, bufAt_nat] at hx
      exact ⟨x, by rw [h _ hc2]; exact hx, hx0⟩
  rw [stripped_row_eq e, stripped_row_eq e', row_offset, row_offset, Int.toNat_ofNat]
  apply List.ext_getElem?
  intro i
  by_cases hi : i < M
  · rw [List.getElem?_take_of_lt hi, List.getElem?_take_of_lt hi, List.getElem?_drop,
      List.getElem?_drop, h i (by omega)]
  · rw [List.getElem?_eq_none (by rw [List.length_take]; omega),
      List.getElem?_eq_none (by rw [List.length_take]; omega)]

/-- Runs of rows with the same cells have the same stripped cells. -/
theorem paragraph_cells_congr {b b' : List ScreenCell} {w : Nat} :
    ∀ (m r r' : Nat), (r + m) * w ≤ b.length → (r' + m) * w ≤ b'.length →
      (∀ k c, k < m → c < w → b'[(r' + k) * w + c]? = b[(r + k) * w + c]?) →
      paragraph_cells b' (w : Int) m (r' : Int) = paragraph_cells b (w : Int) m (r : Int)
  | 0, _, _, _, _, _ => rfl
  | m + 1, r, r', hb, hb', h => by
    have h1 : (r + 1) * w ≤ (r + (m + 1)) * w := Nat.mul_le_mul_right w (by omega)
    have h1' : (r' + 1) * w ≤ (r' + (m + 1)) * w := Nat.mul_le_mul_right w (by omega)
    have e0 := @stripped_row_congr b b' w r r' (by omega) (by omega) (fun c hc => by
      have := h 0 c (by omega) hc
      simpa using this)
    have e1 := paragraph_cells_congr m (r + 1) (r' + 1)
      (by
        have : r + 1 + m = r + (m + 1) := by omega
        rw [this]; exact hb)
      (by
        have : r' + 1 + m = r' + (m + 1) := by omega
        rw [this]; exact hb')
      (fun k c hk hc => by
        have := h (k + 1) c (by omega) hc
        have a1 : r' + (k + 1) = r' + 1 + k := by omega
        have a2 : r + (k + 1) = r + 1 + k := by omega
        rw [a1, a2] at this
        exact this)
    have c1 : ((r : Int) + 1) = ((r + 1 : Nat) : Int) := by push_cast; ring
    have c2 : ((r' : Int) + 1) = ((r' + 1 : Nat) : Int) := by push_cast; ring
    rw [paragraph_cells, paragraph_cells, e0, c1, c2, e1]

/-- A run of `m` rows of `w` columns has at most `m * w` stripped cells. -/
theorem paragraph_cells_le {b : List ScreenCell} {w : Nat} :
    ∀ (m r : Nat), (r + m) * w ≤ b.length →
      (paragraph_cells b (w : Int) m (r : Int)).length ≤ m * w
  | 0, _, _ => by simp [paragraph_cells]
  | m + 1, r, hb => by
    have h1 : (r + 1) * w ≤ (r + (m + 1)) * w := Nat.mul_le_mul_right w (by omega)
    have hb1 : ((r : Int) + 1) * (w : Int) ≤ (b.length : Int) := by
      have : (r + 1) * w ≤ b.length := by omega
      exact_mod_cast this
    obtain ⟨pc, e, p0, p1, -, -⟩ := @line_popcount_spec b (w : Int) (r : Int) (by omega)
      (by omega) hb1
    have hl := @stripped_row_length b (w : Int) (r : Int) pc (by omega) (by omega) hb1 e
    have ih := paragraph_cells_le m (r + 1) (by
      have : r + 1 + m = r + (m + 1) := by omega
      rw [this]; exact hb)
    have c1 : ((r : Int) + 1) = ((r + 1 : Nat) : Int) := by push_cast; ring
    rw [paragraph_cells, List.length_append, hl, c1]
    have : (m + 1) * w = m * w + w := by ring
    omega

/-! ## The end of `resize_buffer` -/

theorem memmove_in_front {α : Type} (l : List α) (r n : Nat) (h : r + n ≤ l.length) :
    ∃ l1, memmove_in l 0 (r : Int) (n : Int) = some l1 ∧ l1.length = l.length ∧
      (∀ i, i < n → l1[i]? = l[r + i]?) ∧ (∀ i, n ≤ i → l1[i]? = l[i]?) := by
  have hlen : ((l.drop r).take n).length = n := by
    rw [List.length_take, List.length_drop]; omega
  refine ⟨(l.drop r).take n ++ l.drop n, ?_, ?_, ?_, ?_⟩
  · unfold memmove_in
    rw [if_pos (by omega)]
    simp
  · rw [List.length_append, hlen, List.length_drop]; omega
  · intro i hi
    rw [List.getElem?_append_left (by omega), List.getElem?_take_of_lt hi, List.getElem?_drop]
  · intro i hi
    rw [List.getElem?_append_right (by omega), hlen, List.getElem?_drop]
    congr 1
    omega

/-- The end of `resize_buffer` when the lines `0 .. nr` of the new buffer are
left unused: the lines below them move up to line 0, with their line-info, and
the lines they leave are cleared. -/
theorem resize_fill_spec {R w : Nat} (nr : Nat) (nb : List ScreenCell)
    (nli : List VTermLineInfo) (cur : VTermPos) (hnr : nr < R) (hbuf : nb.length = R * w)
    (hli : nli.length = R) :
    ∃ nb1 nli1, resize_fill (R : Int) (w : Int) (nr : Int) nb nli cur =
        some (nb1, nli1, { cur with row := cur.row - ((nr : Int) + 1) }) ∧
      nb1.length = R * w ∧ nli1.length = R ∧
      (∀ r c, r + nr + 1 < R → c < w → nb1[r * w + c]? = nb[(r + nr + 1) * w + c]?) ∧
      (∀ r, r + nr + 1 < R → nli1[r]? = nli[r + nr + 1]?) ∧
      (∀ r, R ≤ r + nr + 1 → r < R →
        nli1[r]? = some { doublewidth := 0, doubleheight := 0, continuation := 0 }) ∧
      (∀ r c, R ≤ r + nr + 1 → r < R → c < w → ∃ x, nb1[r * w + c]? = some x ∧ x.char0 = 0) := by
  obtain ⟨M, hM⟩ : ∃ M : Nat, M + nr + 1 = R := ⟨R - nr - 1, by omega⟩
  have hMw : (nr + 1) * w + M * w = R * w := by rw [← hM]; ring
  obtain ⟨b1, eb1, lb1, fb1, gb1⟩ := memmove_in_front nb ((nr + 1) * w) (M * w) (by omega)
  obtain ⟨l1, el1, ll1, fl1, gl1⟩ := memmove_in_front nli (nr + 1) M (by omega)
  have hloop := forLoop_spec
    (fun k (st : List ScreenCell × List VTermLineInfo) =>
      st.1.length = R * w ∧ st.2.length = R ∧
      (∀ i, i < M * w ∨ (M + k) * w ≤ i → st.1[i]? = b1[i]?) ∧
      (∀ i, M * w ≤ i → i < (M + k) * w → ∃ x, st.1[i]? = some x ∧ x.char0 = 0) ∧
      (∀ r, r < M ∨ M + k ≤ r → st.2[r]? = l1[r]?) ∧
      (∀ r, M ≤ r → r < M + k →
        st.2[r]? = some { doublewidth := 0, doubleheight := 0, continuation := 0 }))
    (nr + 1) ((M : Nat) : Int) 1
    (fun row st =>
      (forLoop w 0 1 (fun col b => clear_at b (row * (w : Int) + col)) st.1).bind fun b2 =>
        (infoAt st.2 row).map fun _ =>
          (b2, st.2.set row.toNat { doublewidth := 0, doubleheight := 0, continuation := 0 }))
    (b1, l1)
    ⟨by rw [lb1, hbuf], by rw [ll1, hli], fun i _ => rfl,
      fun i h1 h2 => by simp only [add_zero] at h2; omega, fun r _ => rfl,
      fun r h1 h2 => by omega⟩
    (by
      intro k hk st ⟨i1, i2, i3, i4, i5, i6⟩
      have hrowk : ((M : Nat) : Int) + 1 * (k : Int) = ((M + k : Nat) : Int) := by
        push_cast; ring
      have hMk : M + k < R := by omega
      have hfit : (M + k) * w + w ≤ R * w := by
        have := @row_fits R w (M + k) hMk
        have e : (M + k + 1) * w = (M + k) * w + w := by ring
        omega
      have hMle : M * w ≤ (M + k) * w := Nat.mul_le_mul_right w (by omega)
      have e : (M + (k + 1)) * w = (M + k) * w + w := by ring
      obtain ⟨b2, c1, c2, c3, c4⟩ := clear_loop_spec ((M + k) * w) w 0 st.1 (by omega)
      have hbody : (fun (col : Int) (b : List ScreenCell) =>
          clear_at b ((((M : Nat) : Int) + 1 * (k : Int)) * (w : Int) + col)) =
          (fun c o => clear_at o ((((M + k) * w : Nat) : Int) + c)) := by
        funext col b
        rw [hrowk]
        congr 1
      obtain ⟨info, d1, d2⟩ := @infoAt_some st.2 ((M + k : Nat) : Int) (by omega) (by omega)
      refine ⟨(b2, st.2.set (M + k) { doublewidth := 0, doubleheight := 0, continuation := 0 }),
        ?_, by simpa [c2] using i1, by simpa using i2, ?_, ?_, ?_, ?_⟩
      · simp only [hbody]
        rw [show ((0 : Int)) = ((0 : Nat) : Int) from rfl, c1, hrowk, d1]
        simp only [Option.some_bind, Option.map_some', Int.toNat_ofNat]
      · intro i hi
        show b2[i]? = _
        rw [c3 i (by omega), i3 i (by omega)]
      · intro i hi1 hi2
        show ∃ x, b2[i]? = some x ∧ x.char0 = 0
        by_cases h1 : i < (M + k) * w
        · rw [c3 i (Or.inl (by omega))]
          exact i4 i hi1 h1
        · obtain ⟨x, hx, hx0⟩ := c4 (i - (M + k) * w) (by omega)
          have e2 : (M + k) * w + 0 + (i - (M + k) * w) = i := by omega
          rw [e2] at hx
          exact ⟨x, hx, hx0⟩
      · intro r hr
        show (st.2.set (M + k) _)[r]? = _
        rw [List.getElem?_set_ne (by omega), i5 r (by omega)]
      · intro r hr1 hr2
        show (st.2.set (M + k) _)[r]? = _
        by_cases h1 : r = M + k
        · subst h1
          rw [List.getElem?_set_eq_of_lt _ (by omega)]
        · rw [List.getElem?_set_ne (by omega), i6 r hr1 (by omega)])
  obtain ⟨⟨b3, l3⟩, hrun, j1, j2, j3, j4, j5, j6⟩ := hloop
  simp only at j1 j2 j3 j4 j5 j6
  have a1 : ((nr : Int) + 1) * (w : Int) = (((nr + 1) * w : Nat) : Int) := by push_cast; ring
  have a2 : ((R : Int) - (nr : Int) - 1) = ((M : Nat) : Int) := by omega
  have a3 : ((R : Int) - ((M : Nat) : Int)).toNat = nr + 1 := by omega
  have a4 : ((M : Nat) : Int) * (w : Int) = ((M * w : Nat) : Int) := by push_cast; ring
  have a5 : ((nr : Int) + 1) = ((nr + 1 : Nat) : Int) := by push_cast; ring
  refine ⟨b3, l3, ?_, j1, j2, ?_, ?_, ?_, ?_⟩
  · unfold resize_fill
    rw [if_pos (by omega)]
    simp only [a2, a3, a1, a4, eb1, Option.some_bind, Int.toNat_ofNat]
    rw [a5, el1]
    simp only [Option.some_bind]
    rw [hrun]
    rfl
  · intro r c hr hc
    have h1 : r * w + c < M * w := row_cell_lt (by omega) hc
    rw [j3 _ (Or.inl h1), fb1 _ h1]
    congr 1
    ring
  · intro r hr
    rw [j5 r (Or.inl (by omega)), fl1 r (by omega)]
    congr 1
    omega
  · intro r hr1 hr2
    exact j6 r (by omega) (by omega)
  · intro r c hr1 hr2 hc
    have h0 : M * w ≤ r * w := Nat.mul_le_mul_right w (by omega)
    have h1 : r * w + c < (M + (nr + 1)) * w := row_cell_lt (by omega) hc
    exact j4 _ (by omega) h1

/-! ## The first loop of `resize_buffer`, for any two sizes -/

/-- A placed paragraph stays placed when the buffer and the line-info array
change in the lines up to `nrt` only. -/
theorem placed_keeps {old : List ScreenCell} {wo lo hi : Nat} {nb nb1 : List ScreenCell}
    {nli nli1 : List VTermLineInfo} {R w nrt : Nat} {nr1 : Int}
    (hp : Placed old wo lo hi nb nli w (nrt : Int)) (hbuf : nb.length = R * w)
    (hbuf1 : nb1.length = R * w) (hli : nli.length = R) (hli1 : nli1.length = R)
    (hcells : ∀ i, (nrt + 1) * w ≤ i → nb1[i]? = nb[i]?)
    (hinfo : ∀ i, nrt < i → nli1[i]? = nli[i]?) (hnr : nr1 ≤ (nrt : Int)) :
    Placed old wo lo hi nb1 nli1 w nr1 := by
  obtain ⟨lo1, h0, p1, ⟨q1, q2, q3, q4, q5⟩, p3⟩ := hp
  have hlo : nrt < lo1 := by omega
  rw [hli] at q2
  have hfit : (lo1 + (h0 + 1)) * w ≤ R * w := Nat.mul_le_mul_right w (by omega)
  refine ⟨lo1, h0, by omega, ⟨q1, by rw [hli1]; exact q2, ?_, ?_, ?_⟩, ?_⟩
  · obtain ⟨info, i1, i2⟩ := q3
    exact ⟨info, by rw [hinfo lo1 hlo]; exact i1, i2⟩
  · intro k k1 k2
    obtain ⟨info, i1, i2⟩ := q4 k k1 k2
    exact ⟨info, by rw [hinfo k (by omega)]; exact i1, i2⟩
  · intro info hi1
    rw [hinfo _ (by omega)] at hi1
    exact q5 info hi1
  · rw [← p3]
    apply paragraph_cells_congr (h0 + 1) lo1 lo1 (by rw [hbuf]; exact hfit)
      (by rw [hbuf1]; exact hfit)
    intro k c hk hc
    apply hcells
    have : (nrt + 1) * w ≤ (lo1 + k) * w := Nat.mul_le_mul_right w (by omega)
    omega

/-- Rows laid out in the lines `j .. j + h` of the new buffer, padded with blank
cells and flagged as one paragraph, that hold the stripped cells of the
paragraph `lo .. hi` of the old buffer, none of them blank: the paragraph is
placed. -/
theorem placed_rows {old : List ScreenCell} {wo lo hi : Nat} {nb : List ScreenCell}
    {nli : List VTermLineInfo} {R w j h : Nat} {rows : List (List ScreenCell)}
    (hbuf : nb.length = R * w) (hli : nli.length = R) (hjh : j + h < R)
    (hflat : rows.flatten = paragraph_cells old (wo : Int) (hi - lo + 1) (lo : Int))
    (hrlen : rows.length = h + 1) (hrw : ∀ row ∈ rows, row.length ≤ w)
    (hlaid : RowsLaid nb w j rows) (hpad : RowsPadded nb w j rows (h + 1))
    (hsolid : ∀ x ∈ paragraph_cells old (wo : Int) (hi - lo + 1) (lo : Int), x.char0 ≠ 0)
    (hfirst : ∃ info, nli[j]? = some info ∧ info.continuation = 0)
    (hnext : ∀ k, 0 < k → k ≤ h → ∃ info, nli[j + k]? = some info ∧ info.continuation ≠ 0)
    (hafter : ∀ info, nli[j + h + 1]? = some info → info.continuation = 0) :
    Placed old wo lo hi nb nli w ((j : Int) - 1) := by
  refine ⟨j, h, by omega, ⟨by omega, by omega, hfirst, ?_, hafter⟩, ?_⟩
  · intro k k1 k2
    obtain ⟨info, i1, i2⟩ := hnext (k - j) (by omega) (by omega)
    have e : j + (k - j) = k := by omega
    rw [e] at i1
    exact ⟨info, i1, i2⟩
  · rw [← hflat, ← hrlen]
    have hfit : (j + (h + 1)) * w ≤ R * w := Nat.mul_le_mul_right w (by omega)
    apply paragraph_cells_laid rows j (by rw [hbuf, hrlen]; exact hfit) hlaid
      (by rw [hrlen]; exact hpad) hrw
    intro row hrow x hx
    apply hsolid
    rw [← hflat]
    exact List.mem_flatten.mpr ⟨row, hrow, hx⟩

/-- The function `reflow_line` writing a paragraph of the old buffer into the
lines of the new buffer from line `nrs` on: the dry run tells the last line
`h`; the run with the buffer changes the lines `nrs .. nrs + h` only, lays the
stripped cells of the paragraph out in them as rows, pads every row but the
last with blank cells, and the last one too when the line was blank. -/
theorem reflow_line_into {old : List ScreenCell} {old_cols lo hi : Int} {w fuel : Nat}
    (hc : 0 ≤ old_cols) (hw : 0 < w) (h0 : 0 ≤ lo) (h1 : lo ≤ hi)
    (hb : (hi + 1) * old_cols ≤ old.length)
    (hprog : 2 ≤ w ∨ ∀ (i : Nat) (x : ScreenCell), old[i]? = some x → x.char0 ≠ WIDE_CONT)
    (hfuel : 2 * (paragraph_cells old old_cols (hi - lo + 1).toNat lo).length +
      (hi - lo + 1).toNat < fuel) :
    ∃ (h : Nat) (col : Int), 0 ≤ col ∧
      reflow_line fuel old lo hi old_cols (w : Int) none 0 none none 0 =
        some ({ col := col, row := (h : Int) }, none, none) ∧
      ∀ (nrs : Nat) (ocur nc : VTermPos) (nb : List ScreenCell), (nrs + h + 1) * w ≤ nb.length →
        ∃ (outf : List ScreenCell) (ncf : VTermPos) (rows : List (List ScreenCell)),
          reflow_line fuel old lo hi old_cols (w : Int) (some (nb.drop (nrs * w))) 0 (some ocur)
            (some nc) (nrs : Int) = some ({ col := col, row := (h : Int) }, some outf, some ncf) ∧
          (nb.take (nrs * w) ++ outf).length = nb.length ∧
          (∀ i, i < nrs * w ∨ (nrs + h + 1) * w ≤ i →
            (nb.take (nrs * w) ++ outf)[i]? = nb[i]?) ∧
          rows.flatten = paragraph_cells old old_cols (hi - lo + 1).toNat lo ∧
          rows.length = h + 1 ∧ (∀ row ∈ rows, row.length ≤ w) ∧
          RowsLaid (nb.take (nrs * w) ++ outf) w nrs rows ∧
          ((∀ c, c < w → ∃ x, nb[(nrs + h) * w + c]? = some x ∧ x.char0 = 0) →
            RowsPadded (nb.take (nrs * w) ++ outf) w nrs rows (h + 1)) ∧
          ((ocur.row < lo ∨ hi < ocur.row) → ncf = nc) ∧
          (lo ≤ ocur.row → ocur.row ≤ hi → 0 ≤ ocur.col → (nrs : Int) ≤ ncf.row ∧ 0 ≤ ncf.col) := by
  obtain ⟨h, ff, hffw, hdry, hreal⟩ := @reflow_line_run old old_cols lo hi w fuel hc hw h0 h1 hb
    (by
      rcases hprog with hp | hp
      · exact Or.inl hp
      · refine Or.inr fun r _ _ c _ _ x hx => ?_
        unfold bufAt at hx
        split at hx
        · cases hx
        · exact hp _ x hx)
    hfuel
  refine ⟨h, _, by split <;> omega, hdry, ?_⟩
  intro nrs ocur nc nb hroom
  have hsw : (nrs + h + 1) * w = nrs * w + (h + 1) * w := by ring
  have hhw : (h + 1) * w = h * w + w := by ring
  obtain ⟨outf, ncf, rows, hE, hLen, hKeep, hflat, hrlen, hrw, hlast, hlaid, hpad, hpadf,
    hnof, hcout, hcin⟩ := hreal (nrs : Int) ocur nc (nb.drop (nrs * w)) (by
      rw [List.length_drop]
      omega)
  rw [List.length_drop] at hLen
  have hget : ∀ i, (nb.take (nrs * w) ++ outf)[i]? =
      if i < nrs * w then nb[i]? else outf[i - nrs * w]? :=
    fun i => getElem?_take_append _ _ _ _ (by omega)
  have hidx : ∀ k c, (nrs + k) * w + c = nrs * w + (k * w + c) := by
    intro k c
    ring
  refine ⟨outf, ncf, rows, hE, ?_, ?_, hflat, hrlen, hrw, ?_, ?_, hcout, hcin⟩
  · rw [List.length_append, List.length_take, hLen]
    omega
  · intro i hi
    rw [hget]
    by_cases h1 : i < nrs * w
    · rw [if_pos h1]
    · rw [if_neg h1, hKeep _ (by omega), List.getElem?_drop]
      congr 1
      omega
  · intro k c hk hcl
    have := hlaid k c hk hcl
    rw [Nat.zero_add] at this
    rw [hget, hidx, if_neg (by omega), Nat.add_sub_cancel_left]
    exact this
  · intro hblank k c hk hc1 hc2
    rw [hget, hidx, if_neg (by omega), Nat.add_sub_cancel_left]
    by_cases hkh : k < h
    · have := hpad k c hkh hc1 hc2
      rw [Nat.zero_add] at this
      exact this
    · have hkeq : k = h := by omega
      subst hkeq
      by_cases hff : 0 < ff
      · have := hpadf hff k c hk hc1 hc2
        rw [Nat.zero_add] at this
        exact this
      · rw [hnof (by omega) _ (by omega), List.getElem?_drop, ← hidx]
        exact hblank c hc2

/-- One iteration of the first loop of `resize_buffer` with `q` rows of the old
buffer left, for any two sizes.  The paragraph that ends in row `q - 1` starts
in a row `A`.  Either it needs more lines than are left and the loop is left,
or it is laid out as rows in the lowest lines left, `nrs .. nrs + h`, which are
flagged as one paragraph, and the loop goes on with `A` rows left. -/
theorem resize_place_iter {old : List ScreenCell} {li : List VTermLineInfo}
    {Ro wo R w fuel : Nat} (active : Bool) (ocur : VTermPos) (n : Nat) (st : ResizeState)
    {q : Nat} (hw : 0 < w) (hold : old.length = Ro * wo) (hlen : li.length = Ro)
    (hprog : 2 ≤ w ∨ ∀ (i : Nat) (x : ScreenCell), old[i]? = some x → x.char0 ≠ WIDE_CONT)
    (hfuel : 2 * (Ro * wo) + Ro < fuel) (hq0 : 0 < q) (hqR : q ≤ Ro)
    (ho : st.old_row = (q : Int) - 1) (hn0 : -1 ≤ st.new_row) (hn1 : st.new_row < (R : Int))
    (hfb : st.final_blank_row = (R : Int)) (hbuf : st.new_buffer.length = R * w)
    (hli : st.new_lineinfo.length = R) :
    ∃ (A : Nat) (oinfo : VTermLineInfo) (h : Nat), A < q ∧ li[A]? = some oinfo ∧
      (0 < A → oinfo.continuation = 0) ∧
      (∀ k, A < k → k < q → ∃ info, li[k]? = some info ∧ info.continuation ≠ 0) ∧
      ((st.new_row < (h : Int) ∧
          resize_place fuel old (some li) (wo : Int) (R : Int) (w : Int) active ocur (n + 1) st =
            some { st with
              new_cursor := if (A : Int) ≤ ocur.row ∧ ocur.row < st.old_row then
                  clamp_cursor ocur (w : Int) else st.new_cursor }) ∨
        ∃ (nrs : Nat) (nb2 : List ScreenCell) (li2 : List VTermLineInfo) (ncf : VTermPos)
          (rows : List (List ScreenCell)), ((nrs + h : Nat) : Int) = st.new_row ∧
          resize_place fuel old (some li) (wo : Int) (R : Int) (w : Int) active ocur (n + 1) st =
            resize_place fuel old (some li) (wo : Int) (R : Int) (w : Int) active ocur n
              { old_row := (A : Int) - 1, new_row := (nrs : Int) - 1, new_buffer := nb2
                new_lineinfo := li2, new_cursor := ncf, final_blank_row := (R : Int) } ∧
          nb2.length = R * w ∧ li2.length = R ∧
          (∀ i, i < nrs * w ∨ (nrs + h + 1) * w ≤ i → nb2[i]? = st.new_buffer[i]?) ∧
          rows.flatten = paragraph_cells old (wo : Int) (q - A) (A : Int) ∧
          rows.length = h + 1 ∧ (∀ row ∈ rows, row.length ≤ w) ∧ RowsLaid nb2 w nrs rows ∧
          ((∀ c, c < w → ∃ x, st.new_buffer[(nrs + h) * w + c]? = some x ∧ x.char0 = 0) →
            RowsPadded nb2 w nrs rows (h + 1)) ∧
          (∀ i, i < nrs ∨ nrs + h < i → li2[i]? = st.new_lineinfo[i]?) ∧
          (∀ k, 0 < k → k ≤ h → ∃ info, li2[nrs + k]? = some info ∧ info.continuation ≠ 0) ∧
          (∃ info, li2[nrs]? = some info ∧
            info.continuation = if oinfo.continuation ≠ 0 then 1 else 0) ∧
          ((ocur.row < (A : Int) ∨ (q : Int) ≤ ocur.row) → ncf = st.new_cursor) ∧
          ((A : Int) ≤ ocur.row → ocur.row < (q : Int) → 0 ≤ ocur.col →
            0 ≤ ncf.row ∧ 0 ≤ ncf.col)) := by
  obtain ⟨a, oinfo, a0, a1, hoinfo, hoflag, hpara, hstep⟩ :=
    @resize_place_step old li (wo : Int) R w fuel active ocur n st hfb hbuf hli
      (by omega) (by omega) hn1
  obtain ⟨A, hA⟩ : ∃ A : Nat, a = (A : Int) := ⟨a.toNat, by omega⟩
  subst hA
  have hb : (st.old_row + 1) * (wo : Int) ≤ (old.length : Int) := by
    rw [ho, hold]
    have e : (q : Int) - 1 + 1 = (q : Int) := by ring
    rw [e]
    have : q * wo ≤ Ro * wo := Nat.mul_le_mul_right wo hqR
    exact_mod_cast this
  have hm : (st.old_row - (A : Int) + 1).toNat = q - A := by omega
  have hcells : (paragraph_cells old (wo : Int) (q - A) (A : Int)).length ≤ (q - A) * wo := by
    apply paragraph_cells_le
    rw [hold]
    exact Nat.mul_le_mul_right wo (by omega)
  have hmw : (q - A) * wo ≤ Ro * wo := Nat.mul_le_mul_right wo (by omega)
  obtain ⟨h, col, hcol, hdry, hreal⟩ := @reflow_line_into old (wo : Int) (A : Int) st.old_row w
    fuel (by omega) hw (by omega) a1 hb hprog (by rw [hm]; omega)
  rw [hm] at hreal
  obtain ⟨hbreak, hplace⟩ := hstep h col hcol hdry
  rw [infoAt_nat] at hoinfo
  refine ⟨A, oinfo, h, by omega, hoinfo, fun hA => hoflag (by omega), ?_, ?_⟩
  · intro k k1 k2
    obtain ⟨info, i1, i2⟩ := hpara (k : Int) (by omega) (by omega)
    rw [infoAt_nat] at i1
    exact ⟨info, i1, i2⟩
  · by_cases hfits : (h : Int) ≤ st.new_row
    · right
      have hnrs : st.new_row - (h : Int) = ((st.new_row.toNat - h : Nat) : Int) := by omega
      have hRw : (st.new_row.toNat - h + h + 1) * w ≤ R * w :=
        Nat.mul_le_mul_right w (by omega)
      obtain ⟨outf, ncf, rows, hE, hLen, hKeep, hflat, hrlen, hrw, hlaid, hpad, hcout, hcin⟩ :=
        hreal (st.new_row.toNat - h) ocur st.new_cursor st.new_buffer (by rw [hbuf]; exact hRw)
      rw [← hnrs] at hE
      obtain ⟨li2, f1, f2, f3, f4, hgo⟩ := hplace hfits _ outf ncf hE
      have hnew : st.new_row - (h : Int) - 1 = ((st.new_row.toNat - h : Nat) : Int) - 1 := by
        omega
      rw [hnew] at hgo
      refine ⟨st.new_row.toNat - h, _, li2, ncf, rows, by omega, hgo, by rw [hLen, hbuf], f1,
        hKeep, hflat, hrlen, hrw, hlaid, hpad, ?_, ?_, ?_, ?_, ?_⟩
      · intro i hi
        exact f2 i (by omega)
      · intro k k1 k2
        obtain ⟨info, c1, c2⟩ := f3 k k1 k2
        exact ⟨_, c2, by simp⟩
      · obtain ⟨info, c1, c2⟩ := f4
        exact ⟨_, c2, rfl⟩
      · intro hc
        exact hcout (by omega)
      · intro hc1 hc2 hc3
        have := hcin hc1 (by omega) hc3
        exact ⟨by omega, this.2⟩
    · left
      exact ⟨by omega, hbreak (by omega)⟩

/-- The paragraph that the first loop of `resize_buffer` finds above a row that
starts a paragraph is the paragraph `lo .. hi` when it holds the row `lo`. -/
theorem paragraph_found {li : List VTermLineInfo} {Ro lo hi A q : Nat} {oinfo : VTermLineInfo}
    (hlen : li.length = Ro) (hpar : IsParagraph li lo hi) (hAq : A < q) (hqR : q ≤ Ro)
    (hoinfo : li[A]? = some oinfo)
    (hpara : ∀ k, A < k → k < q → ∃ info, li[k]? = some info ∧ info.continuation ≠ 0)
    (hfold : q < Ro → ∃ info, li[q]? = some info ∧ info.continuation = 0)
    (hAlo : A ≤ lo) (hloq : lo < q) :
    A = lo ∧ hi + 1 = q ∧ oinfo.continuation = 0 := by
  obtain ⟨q1, q2, ⟨linfo, q3, q3'⟩, q4, q5⟩ := hpar
  have hAeq : A = lo := by
    by_contra hne
    obtain ⟨info, i1, i2⟩ := hpara lo (by omega) hloq
    rw [q3] at i1
    cases i1
    exact i2 q3'
  subst hAeq
  refine ⟨rfl, ?_, ?_⟩
  · by_contra hne
    rcases Nat.lt_or_gt_of_ne hne with hlt | hgt
    · obtain ⟨info, i1, i2⟩ := hpara (hi + 1) (by omega) hlt
      exact i2 (q5 info i1)
    · obtain ⟨info, i1, i2⟩ := hfold (by omega)
      obtain ⟨info', j1, j2⟩ := q4 q (by omega) (by omega)
      rw [i1] at j1
      cases j1
      exact j2 i2
  · rw [q3] at hoinfo
    cases hoinfo
    exact q3'

/-- The state of the first loop of `resize_buffer` after a paragraph is placed
has the properties `PlaceInv` again. -/
theorem place_inv_next {old : List ScreenCell} {li : List VTermLineInfo} {Ro wo R w : Nat}
    {ocur : VTermPos} {lo hi q A h nrs : Nat} {st : ResizeState} {oinfo : VTermLineInfo}
    {nb2 : List ScreenCell} {li2 : List VTermLineInfo} {ncf : VTermPos}
    {rows : List (List ScreenCell)}
    (hlen : li.length = Ro)
    (hinv : PlaceInv old li Ro wo R w ocur lo hi q st) (hqR : q ≤ Ro)
    (hAq : A < q) (hoinfo : li[A]? = some oinfo) (hoflag : 0 < A → oinfo.continuation = 0)
    (hpara : ∀ k, A < k → k < q → ∃ info, li[k]? = some info ∧ info.continuation ≠ 0)
    (hnrs : ((nrs + h : Nat) : Int) = st.new_row) (hnb2 : nb2.length = R * w)
    (hli2 : li2.length = R)
    (hkeep : ∀ i, i < nrs * w ∨ (nrs + h + 1) * w ≤ i → nb2[i]? = st.new_buffer[i]?)
    (hflat : rows.flatten = paragraph_cells old (wo : Int) (q - A) (A : Int))
    (hrlen : rows.length = h + 1) (hrw : ∀ row ∈ rows, row.length ≤ w)
    (hlaid : RowsLaid nb2 w nrs rows)
    (hpad : (∀ c, c < w → ∃ x, st.new_buffer[(nrs + h) * w + c]? = some x ∧ x.char0 = 0) →
      RowsPadded nb2 w nrs rows (h + 1))
    (f2 : ∀ i, i < nrs ∨ nrs + h < i → li2[i]? = st.new_lineinfo[i]?)
    (f3 : ∀ k, 0 < k → k ≤ h → ∃ info, li2[nrs + k]? = some info ∧ info.continuation ≠ 0)
    (f4 : ∃ info, li2[nrs]? = some info ∧
      info.continuation = if oinfo.continuation ≠ 0 then 1 else 0)
    (hcout : (ocur.row < (A : Int) ∨ (q : Int) ≤ ocur.row) → ncf = st.new_cursor)
    (hcin : (A : Int) ≤ ocur.row → ocur.row < (q : Int) → 0 ≤ ocur.col →
      0 ≤ ncf.row ∧ 0 ≤ ncf.col) :
    PlaceInv old li Ro wo R w ocur lo hi A
      { old_row := (A : Int) - 1, new_row := (nrs : Int) - 1, new_buffer := nb2
        new_lineinfo := li2, new_cursor := ncf, final_blank_row := (R : Int) } := by
  obtain ⟨ho, hn0, hn1, hfb, hbuf, hli, hblank, hfold, hfnew, hcur, hplaced⟩ := hinv
  have hb1 : (st.new_row + 1).toNat = nrs + h + 1 := by omega
  rw [hb1] at hblank hfnew
  have hle : nrs * w ≤ (nrs + h + 1) * w := Nat.mul_le_mul_right w (by omega)
  have hnR : nrs + h < R := by omega
  have e0 : ((nrs : Int) - 1 + 1).toNat = nrs := by omega
  refine ⟨rfl, by show -1 ≤ (nrs : Int) - 1; omega, by show (nrs : Int) - 1 < (R : Int); omega,
    rfl, hnb2, hli2, ?_, ?_, ?_, ?_, ?_⟩
  · intro i hi
    simp only [e0] at hi
    show ∃ x, nb2[i]? = some x ∧ x.char0 = 0
    rw [hkeep i (Or.inl hi)]
    exact hblank i (by omega)
  · intro hA0 _
    exact ⟨oinfo, hoinfo, hoflag hA0⟩
  · intro hA0 info hinfo
    simp only [e0] at hinfo
    obtain ⟨info0, c1, c2⟩ := f4
    rw [c1] at hinfo
    cases hinfo
    rw [c2, hoflag hA0]
    rfl
  · intro hAc hrow hcol
    show 0 ≤ ncf.row ∧ 0 ≤ ncf.col
    by_cases hin : ocur.row < (q : Int)
    · exact hcin hAc hin hcol
    · rw [hcout (Or.inr (by omega))]
      exact hcur (by omega) hrow hcol
  · intro hAlo hpar hsolid
    show Placed old wo lo hi nb2 li2 w ((nrs : Int) - 1)
    by_cases hqlo : q ≤ lo
    · have hp := hplaced hqlo hpar hsolid
      rw [← hnrs] at hp
      exact placed_keeps hp hbuf hnb2 hli hli2 (fun i hi => hkeep i (Or.inr hi))
        (fun i hi => f2 i (Or.inr hi)) (by omega)
    · obtain ⟨hAeq, hhi, hzero⟩ := paragraph_found hlen hpar hAq hqR hoinfo hpara
        (fun h => hfold (by omega) h) hAlo (by omega)
      subst hAeq
      have hmm : q - A = hi - A + 1 := by omega
      rw [hmm] at hflat
      apply placed_rows hnb2 hli2 hnR hflat hrlen hrw hlaid _ hsolid _ f3
      · intro info hinfo
        rw [f2 _ (Or.inr (by omega))] at hinfo
        exact hfnew (by omega) info hinfo
      · apply hpad
        intro c hc
        apply hblank
        have : (nrs + h + 1) * w = (nrs + h) * w + w := by ring
        omega
      · obtain ⟨info0, c1, c2⟩ := f4
        refine ⟨info0, c1, ?_⟩
        rw [c2, hzero]
        rfl

/-- The first loop of `resize_buffer` as long as `final_blank_row` is the number
of new rows.  The loop returns, with the properties `PlaceInv` for the rows it
leaves unplaced: the cursor it leaves is set when the cursor is in a placed
row, and a paragraph without a blank cell before the end of a row that is
placed lies in the new buffer as a paragraph with the same stripped cells. -/
theorem resize_place_run {old : List ScreenCell} {li : List VTermLineInfo}
    {Ro wo R w fuel : Nat} (active : Bool) (ocur : VTermPos) (hw : 0 < w)
    (hold : old.length = Ro * wo) (hlen : li.length = Ro)
    (hprog : 2 ≤ w ∨ ∀ (i : Nat) (x : ScreenCell), old[i]? = some x → x.char0 ≠ WIDE_CONT)
    (hfuel : 2 * (Ro * wo) + Ro < fuel) {lo hi : Nat} :
    ∀ (q n : Nat) (st : ResizeState), q ≤ Ro → q < n →
      PlaceInv old li Ro wo R w ocur lo hi q st →
      ∃ st' q', resize_place fuel old (some li) (wo : Int) (R : Int) (w : Int) active ocur n st =
          some st' ∧ q' ≤ q ∧ PlaceInv old li Ro wo R w ocur lo hi q' st' := by
  intro q
  induction q using Nat.strong_induction_on with
  | _ q ih =>
    intro n st hqR hqn hinv
    obtain ⟨n, rfl⟩ : ∃ n', n = n' + 1 := ⟨n - 1, by omega⟩
    by_cases hq0 : q = 0
    · subst hq0
      refine ⟨st, 0, ?_, le_rfl, hinv⟩
      have ho : st.old_row = -1 := by
        have := hinv.1
        simpa using this
      rw [resize_place, if_neg (by rw [ho]; norm_num)]
    · have hqpos : 0 < q := Nat.pos_of_ne_zero hq0
      have ho : st.old_row = (q : Int) - 1 := hinv.1
      obtain ⟨A, oinfo, h, hAq, hoinfo, hoflag, hpara, hcase⟩ :=
        @resize_place_iter old li Ro wo R w fuel active ocur n st q hw hold hlen hprog hfuel
          hqpos hqR ho hinv.2.1 hinv.2.2.1 hinv.2.2.2.1 hinv.2.2.2.2.1 hinv.2.2.2.2.2.1
      have hAR : A ≤ Ro := by omega
      have hAn : A < n := by omega
      rcases hcase with ⟨hsmall, hbr⟩ | ⟨nrs, nb2, li2, ncf, rows, hnrs, hgo, hnb2, hli2, hkeep,
        hflat, hrlen, hrw, hlaid, hpad, f2, f3, f4, hcout, hcin⟩
      · have hneg : (q : Int) ≤ ocur.row → ¬ ((A : Int) ≤ ocur.row ∧ ocur.row < st.old_row) := by
          intro hc hx
          omega
        obtain ⟨-, hn0, hn1, hfb, hbuf, hli, hblank, hfold, hfnew, hcur, hplaced⟩ := hinv
        refine ⟨_, q, hbr, le_rfl, ho, hn0, hn1, hfb, hbuf, hli, hblank, hfold, hfnew, ?_,
          hplaced⟩
        intro hc hrow hcol
        show 0 ≤ (if (A : Int) ≤ ocur.row ∧ ocur.row < st.old_row then
            clamp_cursor ocur (w : Int) else st.new_cursor).row ∧
          0 ≤ (if (A : Int) ≤ ocur.row ∧ ocur.row < st.old_row then
            clamp_cursor ocur (w : Int) else st.new_cursor).col
        rw [if_neg (hneg hc)]
        exact hcur hc hrow hcol
      · have hnext := place_inv_next hlen hinv hqR hAq hoinfo
          hoflag hpara hnrs hnb2 hli2 hkeep hflat hrlen hrw hlaid hpad f2 f3 f4 hcout hcin
        obtain ⟨st', q', g1, g2, g3⟩ := ih A hAq n _ hAR hAn hnext
        exact ⟨st', q', by rw [hgo]; exact g1, le_trans g2 (Nat.le_of_lt hAq), g3⟩

/-! ## The scrollback in `resize_buffer` -/

/-- The call of the push callback by a screen with a push callback. -/
theorem sb_push_call_some {s : VTermScreen} (hreg : has_pushline s = true) (cols : Int)
    (continuation : Bool) :
    ∃ e, sb_push_call s cols continuation = some { s with trace := s.trace ++ [e] } := by
  unfold sb_push_call
  unfold has_pushline at hreg
  cases hcb : s.callbacks with
  | none => rw [hcb] at hreg; cases hreg
  | some cb =>
    rw [hcb] at hreg
    simp only
    by_cases h4 : s.callbacks_has_pushline4 = true ∧ cb.sb_pushline4 = true
    · rw [if_pos h4]
      exact ⟨_, rfl⟩
    · rw [if_neg h4]
      have hleg : cb.sb_pushline = true := by
        rcases Bool.or_eq_true _ _ |>.mp hreg with h | h
        · exact h
        · exact absurd (by simpa using h) h4
      rw [if_pos hleg]
      exact ⟨_, rfl⟩

/-- The loop of `resize_buffer` that pushes the rows `0 .. k` of the old buffer
to the scrollback returns when the staging buffer has room for a row; it
changes the staging buffer and the trace only. -/
theorem resize_push_total {s : VTermScreen} {li : List VTermLineInfo} (k : Int)
    (hwf : WF { s with buffer := BufIdx.PRIMARY }) (hsb : s.cols.toNat ≤ s.sb_buffer.length)
    (hreg : has_pushline s = true) (hlen : li.length = s.rows.toNat) (hk : k < s.rows) :
    ∃ sb tr, resize_push (some li) s.cols k { s with buffer := BufIdx.PRIMARY } =
      some { s with buffer := BufIdx.PRIMARY, sb_buffer := sb, trace := tr } := by
  have hloop := forLoop_spec
    (fun (_ : Nat) (st : VTermScreen) => ∃ sb tr,
      st = { s with buffer := BufIdx.PRIMARY, sb_buffer := sb, trace := tr } ∧
      sb.length = s.sb_buffer.length)
    (k + 1).toNat 0 1
    (fun row st =>
      ((some li).bind fun oli => infoAt oli row).bind fun lineinfo =>
        sb_pushline_from_row_with_cols st row (decide (lineinfo.continuation ≠ 0)) s.cols)
    { s with buffer := BufIdx.PRIMARY } ⟨s.sb_buffer, s.trace, rfl, rfl⟩
    (by
      rintro j hj st ⟨sb, tr, rfl, hl⟩
      have hrow : (0 : Int) + 1 * (j : Int) = (j : Int) := by ring
      rw [hrow]
      obtain ⟨info, hinfo, -⟩ := @infoAt_some li (j : Int) (by omega) (by omega)
      have hwf1 : WF { s with buffer := BufIdx.PRIMARY, sb_buffer := sb, trace := tr } := hwf
      obtain ⟨sb1, hfill, hl1, -⟩ := @sb_fill_row_spec
        { s with buffer := BufIdx.PRIMARY, sb_buffer := sb, trace := tr } hwf1 (j : Int)
        (by omega) (by show (j : Int) < s.rows; omega) (by show s.cols.toNat ≤ sb.length; omega)
      obtain ⟨e, he⟩ := @sb_push_call_some
        { s with buffer := BufIdx.PRIMARY, sb_buffer := sb1, trace := tr } hreg s.cols
        (decide (info.continuation ≠ 0))
      refine ⟨_, ?_, sb1, tr ++ [e], rfl, by rw [hl1]; exact hl⟩
      simp only [Option.some_bind, hinfo]
      unfold sb_pushline_from_row_with_cols
      rw [show sb_fill_row { s with buffer := BufIdx.PRIMARY, sb_buffer := sb, trace := tr }
          (j : Int) s.cols = _ from hfill]
      exact he)
  obtain ⟨s1, hrun, sb, tr, rfl, -⟩ := hloop
  exact ⟨sb, tr, hrun⟩

/-- The block of `resize_buffer` that pushes the rows that are not placed
(screen.c lines 1048-1063) returns; it changes the staging buffer and the
trace only. -/
theorem resize_pushed_spec (bufidx : BufIdx) (active : Bool) (pos : VTermPos) (s : VTermScreen)
    (li : List VTermLineInfo) (k : Int) (hlen : li.length = s.rows.toNat) (hk : k < s.rows)
    (hsafe : bufidx = BufIdx.PRIMARY → has_pushline s = true →
      WF { s with buffer := BufIdx.PRIMARY } ∧ s.cols.toNat ≤ s.sb_buffer.length) :
    ∃ sb tr p, (if k ≥ 0 ∧ bufidx = BufIdx.PRIMARY then
        (if has_pushline s then
          (resize_push (some li) s.cols k { s with buffer := BufIdx.PRIMARY }).map
            fun (s1 : VTermScreen) => { s1 with buffer := s.buffer }
        else some s).map fun (s1 : VTermScreen) =>
          (s1, if active then ({ pos with row := pos.row - (k + 1) } : VTermPos) else pos)
      else some (s, pos)) = some ({ s with sb_buffer := sb, trace := tr }, p) ∧
      (active = false → p = pos) := by
  have hpos : active = false →
      (if active = true then ({ pos with row := pos.row - (k + 1) } : VTermPos) else pos) =
        pos := by
    intro h
    rw [h]
    rfl
  by_cases h1 : k ≥ 0 ∧ bufidx = BufIdx.PRIMARY
  · rw [if_pos h1]
    by_cases h2 : has_pushline s = true
    · rw [if_pos h2]
      obtain ⟨hwf, hsb⟩ := hsafe h1.2 h2
      obtain ⟨sb, tr, hrun⟩ := resize_push_total k hwf hsb h2 hlen hk
      rw [hrun]
      exact ⟨sb, tr, _, rfl, hpos⟩
    · rw [if_neg h2]
      exact ⟨s.sb_buffer, s.trace, _, rfl, hpos⟩
  · rw [if_neg h1]
    exact ⟨s.sb_buffer, s.trace, _, rfl, fun _ => rfl⟩

/-- The block of `resize_buffer` that refills the grid from the scrollback
(screen.c lines 1065-1145) when no line is taken back: the block is not
entered, or the host answers the first `sb_peek` with 0.  It returns and
changes the trace only. -/
theorem resize_popped_spec (fuel : Nat) (alloc : VTermAllocator) (bufidx : BufIdx)
    (old_cols new_rows new_cols : Int) (active : Bool) (s1 : VTermScreen) (nr : Int)
    (nb : List ScreenCell) (nli : List VTermLineInfo) (p : VTermPos) (hfuel : 0 < fuel)
    (hnopop : bufidx = BufIdx.PRIMARY → s1.with_conpty ≠ 0 ∨
      (s1.callbacks.bind fun cb => cb.sb_popline) = none ∨
      ∃ cb peek, s1.callbacks = some cb ∧ cb.sb_peek = some peek ∧
        ∀ tr c b, (peek tr c b).1 = 0) :
    ∃ tr, (if s1.with_conpty = 0 ∧ nr ≥ 0 ∧ bufidx = BufIdx.PRIMARY ∧
          (s1.callbacks.bind fun cb => cb.sb_popline).isSome then
        resize_pop fuel alloc old_cols new_rows new_cols active fuel
          { new_row := nr, new_buffer := nb, new_lineinfo := nli, screen := s1, pos := p }
      else
        some { new_row := nr, new_buffer := nb, new_lineinfo := nli, screen := s1, pos := p }) =
      some { new_row := nr, new_buffer := nb, new_lineinfo := nli
             screen := { s1 with trace := tr }, pos := p } := by
  by_cases h1 : s1.with_conpty = 0 ∧ nr ≥ 0 ∧ bufidx = BufIdx.PRIMARY ∧
      (s1.callbacks.bind fun cb => cb.sb_popline).isSome
  · rw [if_pos h1]
    obtain ⟨c1, c2, c3, c4⟩ := h1
    rcases hnopop c3 with h | h | ⟨cb, peek, hcb, hpeek, hzero⟩
    · exact absurd c1 h
    · rw [h] at c4
      cases c4
    · obtain ⟨f, rfl⟩ : ∃ f, fuel = f + 1 := ⟨fuel - 1, by omega⟩
      refine ⟨s1.trace ++ [HostEvent.sb_peek], ?_⟩
      rw [resize_pop]
      simp only [if_pos c2, hcb, Option.some_bind, hpeek, hzero, if_true]
  · rw [if_neg h1]
    exact ⟨s1.trace, rfl⟩

/-- The end of `resize_buffer` returns, and a paragraph placed in the lines
below `nr` is placed in the buffer it leaves. -/
theorem resize_fill_placed {old : List ScreenCell} {wo lo hi : Nat} {nb : List ScreenCell}
    {nli : List VTermLineInfo} {R w : Nat} {nr : Int} (cur : VTermPos) (hnr0 : -1 ≤ nr)
    (hnr1 : nr < (R : Int)) (hbuf : nb.length = R * w) (hli : nli.length = R) :
    ∃ nb1 nli1 cur1, resize_fill (R : Int) (w : Int) nr nb nli cur = some (nb1, nli1, cur1) ∧
      nb1.length = R * w ∧ nli1.length = R ∧
      (Placed old wo lo hi nb nli w nr → Placed old wo lo hi nb1 nli1 w (-1)) := by
  by_cases hneg : nr = -1
  · subst hneg
    refine ⟨nb, nli, cur, ?_, hbuf, hli, fun h => h⟩
    unfold resize_fill
    rw [if_neg (by omega)]
  · obtain ⟨k, rfl⟩ : ∃ k : Nat, nr = (k : Int) := ⟨nr.toNat, by omega⟩
    obtain ⟨nb1, nli1, e, l1, l2, hcells, hinfo, hzero, -⟩ :=
      @resize_fill_spec R w k nb nli cur (by omega) hbuf hli
    refine ⟨nb1, nli1, _, e, l1, l2, ?_⟩
    rintro ⟨lo1, h, p1, ⟨q1, q2, q3, q4, q5⟩, p3⟩
    rw [hli] at q2
    have hlo : k < lo1 := by omega
    have hfit : (lo1 + (h + 1)) * w ≤ R * w := Nat.mul_le_mul_right w (by omega)
    have hfit2 : (lo1 - k - 1 + (h + 1)) * w ≤ R * w := Nat.mul_le_mul_right w (by omega)
    refine ⟨lo1 - k - 1, h, by omega, ⟨by omega, by rw [l2]; omega, ?_, ?_, ?_⟩, ?_⟩
    · obtain ⟨info, i1, i2⟩ := q3
      refine ⟨info, ?_, i2⟩
      rw [hinfo _ (by omega), ← i1]
      congr 1
      omega
    · intro j j1 j2
      obtain ⟨info, i1, i2⟩ := q4 (j + k + 1) (by omega) (by omega)
      exact ⟨info, by rw [hinfo _ (by omega)]; exact i1, i2⟩
    · intro info hi1
      by_cases hin : lo1 - k - 1 + h + 1 + k + 1 < R
      · rw [hinfo _ hin] at hi1
        apply q5 info
        rw [← hi1]
        congr 1
        omega
      · by_cases hin2 : lo1 - k - 1 + h + 1 < R
        · rw [hzero _ (by omega) hin2] at hi1
          cases hi1
          rfl
        · rw [List.getElem?_eq_none (by omega)] at hi1
          cases hi1
    · rw [← p3]
      apply paragraph_cells_congr (h + 1) lo1 (lo1 - k - 1) (by rw [hbuf]; exact hfit)
        (by rw [l1]; exact hfit2)
      intro j c hj hc
      rw [hcells _ _ (by omega) hc]
      congr 2
      have : lo1 - k - 1 + j + k + 1 = lo1 + j := by omega
      rw [this]

/-- The function `resize_buffer` with the slot of the buffer and of the
line-info array written through `buffer_of`, `lineinfo_of`, `with_buffer` and
`with_lineinfo`. -/
theorem resize_buffer_eq (fuel : Nat) (alloc : VTermAllocator) (bufidx : BufIdx)
    (new_rows new_cols : Int) (active : Bool) (fields : VTermStateFields) (s : VTermScreen) :
    resize_buffer fuel alloc bufidx new_rows new_cols active fields s =
      (buffer_of bufidx s).bind fun old_buffer =>
      (resize_place fuel old_buffer (lineinfo_of bufidx fields) s.cols new_rows new_cols active
        fields.pos (s.rows.toNat + 1)
        { old_row := s.rows - 1, new_row := new_rows - 1
          new_buffer := alloc.cells (new_rows * new_cols)
          new_lineinfo := alloc.lineinfos new_rows
          new_cursor := { row := -1, col := -1 }
          final_blank_row := new_rows }).bind fun st =>
      if active = true ∧
          ((if fields.pos.row ≤ st.old_row then clamp_cursor fields.pos new_cols
            else st.new_cursor).row = -1 ∨
           (if fields.pos.row ≤ st.old_row then clamp_cursor fields.pos new_cols
            else st.new_cursor).col = -1) then none
      else
        (if st.old_row ≥ 0 ∧ bufidx = BufIdx.PRIMARY then
          (if has_pushline s then
            (resize_push (lineinfo_of bufidx fields) s.cols st.old_row
              { s with buffer := BufIdx.PRIMARY }).map
              fun (s1 : VTermScreen) => { s1 with buffer := s.buffer }
          else some s).map fun (s1 : VTermScreen) =>
            (s1, if active then
                ({ fields.pos with row := fields.pos.row - (st.old_row + 1) } : VTermPos)
              else fields.pos)
        else some (s, fields.pos)).bind fun pushed =>
        (if pushed.1.with_conpty = 0 ∧ st.new_row ≥ 0 ∧ bufidx = BufIdx.PRIMARY ∧
            (pushed.1.callbacks.bind fun cb => cb.sb_popline).isSome then
          resize_pop fuel alloc s.cols new_rows new_cols active fuel
            { new_row := st.new_row, new_buffer := st.new_buffer
              new_lineinfo := st.new_lineinfo, screen := pushed.1, pos := pushed.2 }
        else
          some { new_row := st.new_row, new_buffer := st.new_buffer
                 new_lineinfo := st.new_lineinfo, screen := pushed.1, pos := pushed.2 }).bind
          fun popped =>
        (resize_fill new_rows new_cols popped.new_row popped.new_buffer popped.new_lineinfo
          (if fields.pos.row ≤ st.old_row then clamp_cursor fields.pos new_cols
            else st.new_cursor)).map
          fun (filled : List ScreenCell × List VTermLineInfo × VTermPos) =>
          (with_buffer bufidx popped.screen filled.1,
            { with_lineinfo bufidx fields filled.2.1 with
              pos := if active then filled.2.2 else popped.pos }) := by
  cases bufidx <;> rfl

/-- The state with which `resize_buffer` enters its first loop has the
properties `PlaceInv`. -/
theorem place_inv_init (alloc : VTermAllocator) {old : List ScreenCell}
    {li : List VTermLineInfo} {Ro wo R w : Nat} {ocur : VTermPos} {lo hi : Nat}
    (hlen : li.length = Ro)
    (hblank : ∀ i, (alloc.cell i).char0 = 0) :
    PlaceInv old li Ro wo R w ocur lo hi Ro
      { old_row := (Ro : Int) - 1, new_row := (R : Int) - 1
        new_buffer := alloc.cells ((R : Int) * (w : Int))
        new_lineinfo := alloc.lineinfos (R : Int)
        new_cursor := { row := -1, col := -1 }
        final_blank_row := (R : Int) } := by
  have hRw : (R : Int) * (w : Int) = ((R * w : Nat) : Int) := by push_cast; ring
  have e0 : ((R : Int) - 1 + 1).toNat = R := by omega
  refine ⟨rfl, by show -1 ≤ (R : Int) - 1; omega, by show (R : Int) - 1 < (R : Int); omega, rfl,
    ?_, alloc_lineinfos_length alloc R, ?_, fun _ h => absurd h (lt_irrefl _), ?_,
    fun h1 h2 => by omega, ?_⟩
  · show (alloc.cells ((R : Int) * (w : Int))).length = R * w
    rw [hRw, alloc_cells_length]
  · intro i hi
    simp only [e0] at hi
    show ∃ x, (alloc.cells ((R : Int) * (w : Int)))[i]? = some x ∧ x.char0 = 0
    rw [hRw, alloc_cells_get alloc _ _ hi]
    exact ⟨_, rfl, hblank i⟩
  · intro _ info hinfo
    simp only [e0] at hinfo
    rw [List.getElem?_eq_none (by rw [alloc_lineinfos_length])] at hinfo
    cases hinfo
  · intro h1 hpar _
    obtain ⟨q1, q2, -⟩ := hpar
    omega

/-- `resize_buffer` when no line is taken back from the scrollback and new
memory is blank: the call returns, and a paragraph of the old buffer without
a blank cell before the end of a row that the first loop places is a paragraph
of the new buffer with the same stripped cells; the call changes the buffer,
its line-info, the cursor, the staging buffer and the trace only, and the
cursor only when the buffer is the active one. -/
theorem resize_buffer_places (fuel : Nat) (alloc : VTermAllocator) (bufidx : BufIdx)
    (active : Bool) (fields : VTermStateFields) (s : VTermScreen) (Ro wo R w : Nat)
    (old : List ScreenCell) (li : List VTermLineInfo) (lo hi : Nat)
    (hrows : s.rows = (Ro : Int)) (hcols : s.cols = (wo : Int)) (hw : 0 < w)
    (hbuf : buffer_of bufidx s = some old) (hold : old.length = Ro * wo)
    (hinfo : lineinfo_of bufidx fields = some li) (hlen : li.length = Ro)
    (hcur : active = true →
      0 ≤ fields.pos.row ∧ fields.pos.row < (Ro : Int) ∧ 0 ≤ fields.pos.col)
    (hprog : 2 ≤ w ∨ ∀ (i : Nat) (x : ScreenCell), old[i]? = some x → x.char0 ≠ WIDE_CONT)
    (hblank : ∀ i, (alloc.cell i).char0 = 0)
    (hsafe : bufidx = BufIdx.PRIMARY → has_pushline s = true →
      WF { s with buffer := BufIdx.PRIMARY } ∧ wo ≤ s.sb_buffer.length)
    (hnopop : bufidx = BufIdx.PRIMARY → s.with_conpty ≠ 0 ∨
      (s.callbacks.bind fun cb => cb.sb_popline) = none ∨
      ∃ cb peek, s.callbacks = some cb ∧ cb.sb_peek = some peek ∧
        ∀ tr c b, (peek tr c b).1 = 0)
    (hfuel : 2 * (Ro * wo) + Ro < fuel) :
    ∃ st sb tr pos nb nli,
      resize_place fuel old (some li) (wo : Int) (R : Int) (w : Int) active fields.pos (Ro + 1)
        { old_row := (Ro : Int) - 1, new_row := (R : Int) - 1
          new_buffer := alloc.cells ((R : Int) * (w : Int))
          new_lineinfo := alloc.lineinfos (R : Int)
          new_cursor := { row := -1, col := -1 }
          final_blank_row := (R : Int) } = some st ∧
      resize_buffer fuel alloc bufidx (R : Int) (w : Int) active fields s =
        some (with_buffer bufidx { s with sb_buffer := sb, trace := tr } nb,
          { with_lineinfo bufidx fields nli with pos := pos }) ∧
      (active = false → pos = fields.pos) ∧ nb.length = R * w ∧ nli.length = R ∧
      (IsParagraph li lo hi →
        (∀ x ∈ paragraph_cells old (wo : Int) (hi - lo + 1) (lo : Int), x.char0 ≠ 0) →
        st.old_row < (lo : Int) → Placed old wo lo hi nb nli w (-1)) := by
  obtain ⟨st, q, hplace, hq, hinv⟩ := @resize_place_run old li Ro wo R w fuel active fields.pos
    hw hold hlen hprog hfuel lo hi Ro (Ro + 1) _ le_rfl (by omega)
    (place_inv_init alloc hlen hblank)
  obtain ⟨ho, hn0, hn1, -, hbufl, hlil, -, -, -, hcursor, hplaced⟩ := hinv
  have hw1 : (0 : Int) < (w : Int) := by omega
  have c4 : ¬ (active = true ∧
      ((if fields.pos.row ≤ st.old_row then clamp_cursor fields.pos (w : Int)
        else st.new_cursor).row = -1 ∨
       (if fields.pos.row ≤ st.old_row then clamp_cursor fields.pos (w : Int)
        else st.new_cursor).col = -1)) := by
    rintro ⟨hact, hbad⟩
    obtain ⟨hc1, hc2, hc3⟩ := hcur hact
    by_cases hc : fields.pos.row ≤ st.old_row
    · rw [if_pos hc] at hbad
      unfold clamp_cursor at hbad
      simp only at hbad
      rcases hbad with hbad | hbad
      · omega
      · split at hbad <;> omega
    · rw [if_neg hc] at hbad
      have := hcursor (by omega) hc2 hc3
      omega
  obtain ⟨sb, tr, p, hpush, hpos⟩ := resize_pushed_spec bufidx active fields.pos s li st.old_row
    (by rw [hlen, hrows]; simp) (by rw [hrows]; omega)
    (fun h1 h2 => by
      obtain ⟨a1, a2⟩ := hsafe h1 h2
      exact ⟨a1, by rw [hcols]; simpa using a2⟩)
  obtain ⟨tr1, hpop⟩ := resize_popped_spec fuel alloc bufidx s.cols (R : Int) (w : Int) active
    { s with sb_buffer := sb, trace := tr } st.new_row st.new_buffer st.new_lineinfo p
    (by omega) hnopop
  obtain ⟨nb1, nli1, cur1, hfill, l1, l2, hkeep⟩ := @resize_fill_placed old wo lo hi
    st.new_buffer st.new_lineinfo R w st.new_row
    (if fields.pos.row ≤ st.old_row then clamp_cursor fields.pos (w : Int) else st.new_cursor)
    hn0 hn1 hbufl hlil
  have hres : resize_buffer fuel alloc bufidx (R : Int) (w : Int) active fields s =
      some (with_buffer bufidx { s with sb_buffer := sb, trace := tr1 } nb1,
        { with_lineinfo bufidx fields nli1 with pos := if active then cur1 else p }) := by
    have hplace1 : resize_place fuel old (some li) s.cols (R : Int) (w : Int) active fields.pos
        (s.rows.toNat + 1)
        { old_row := s.rows - 1, new_row := (R : Int) - 1
          new_buffer := alloc.cells ((R : Int) * (w : Int))
          new_lineinfo := alloc.lineinfos (R : Int)
          new_cursor := { row := -1, col := -1 }
          final_blank_row := (R : Int) } = some st := by
      rw [hcols, hrows, Int.toNat_ofNat]
      exact hplace
    rw [resize_buffer_eq, hbuf]
    simp only [Option.some_bind]
    rw [hinfo, hplace1]
    simp only [Option.some_bind]
    rw [if_neg c4, hpush]
    simp only [Option.some_bind]
    rw [hpop]
    simp only [Option.some_bind]
    rw [hfill]
    rfl
  refine ⟨st, sb, tr1, _, nb1, nli1, hplace, hres, ?_, l1, l2, ?_⟩
  · intro hact
    rw [hact]
    exact hpos hact
  · intro hpar hsolid hlt
    exact hkeep (hplaced (by omega) hpar hsolid)

/-! ## The two calls of `resize_buffer` in `resize` -/

theorem ensure_sb_buffer_cols_length (alloc : VTermAllocator) (cols : Int) (s : VTermScreen) :
    ∃ sb, ensure_sb_buffer_cols alloc cols s = { s with sb_buffer := sb } ∧
      s.sb_buffer.length ≤ sb.length := by
  unfold ensure_sb_buffer_cols alloc_sb_buffer
  by_cases h : (s.sb_buffer.length : Int) < cols
  · rw [if_pos h]
    refine ⟨_, rfl, ?_⟩
    rw [List.length_map, List.length_range]
    omega
  · rw [if_neg h]
    exact ⟨_, rfl, le_rfl⟩

/-- The end of `resize` (screen.c lines 1217-1238) after the calls of
`resize_buffer`: the screen gets the new size, the staging buffer for the new
number of columns and damage for all of the grid; the buffers stay. -/
theorem resize_finish (fuel : Nat) (alloc : VTermAllocator) (new_rows new_cols : Int)
    (fields : VTermStateFields) (s : VTermScreen) (r1 r2 : VTermScreen × VTermStateFields)
    (h1 : resize_buffer (fuel + 1) alloc BufIdx.PRIMARY new_rows new_cols
      (!(s.buffers_altscreen.isSome && decide (s.buffer = BufIdx.ALTSCREEN))) fields
      (ensure_sb_buffer_cols alloc new_cols s) = some r1)
    (h2 : (if r1.1.buffers_altscreen.isSome then
        resize_buffer (fuel + 1) alloc BufIdx.ALTSCREEN new_rows new_cols
          (s.buffers_altscreen.isSome && decide (s.buffer = BufIdx.ALTSCREEN)) r1.2 r1.1
      else if new_rows ≠ s.rows then
        some (r1.1,
          { r1.2 with
            lineinfos_altscreen := some (List.replicate new_rows.toNat
              { doublewidth := 0, doubleheight := 0, continuation := 0 }) })
      else some r1) = some r2)
    (hinv : DamageInv r2.1) :
    ∃ s1 ret, resize (fuel + 1) alloc new_rows new_cols fields s = some (s1, r2.2, ret) ∧
      s1.rows = new_rows ∧ s1.cols = new_cols ∧ s1.buffers_primary = r2.1.buffers_primary ∧
      s1.buffers_altscreen = r2.1.buffers_altscreen ∧
      s1.buffer = (if (s.buffers_altscreen.isSome && decide (s.buffer = BufIdx.ALTSCREEN)) = true
        then BufIdx.ALTSCREEN else BufIdx.PRIMARY) := by
  obtain ⟨s5, hD, hod, -⟩ := damagerect_total fuel
    (alloc_sb_buffer alloc new_cols
      { r2.1 with
        buffer := if (s.buffers_altscreen.isSome && decide (s.buffer = BufIdx.ALTSCREEN)) = true
          then BufIdx.ALTSCREEN else BufIdx.PRIMARY
        rows := new_rows, cols := new_cols })
    { start_row := 0, end_row := new_rows, start_col := 0, end_col := new_cols } hinv
  obtain ⟨d, p, pd, pr, tr, hs5⟩ := hod
  have h5rows : s5.rows = new_rows := by rw [hs5]; rfl
  have h5cols : s5.cols = new_cols := by rw [hs5]; rfl
  have h5prim : s5.buffers_primary = r2.1.buffers_primary := by rw [hs5]; rfl
  have h5alt : s5.buffers_altscreen = r2.1.buffers_altscreen := by rw [hs5]; rfl
  have h5buf : s5.buffer =
      (if (s.buffers_altscreen.isSome && decide (s.buffer = BufIdx.ALTSCREEN)) = true
        then BufIdx.ALTSCREEN else BufIdx.PRIMARY) := by rw [hs5]; rfl
  unfold resize
  simp only []
  rw [h1]
  simp only [Option.some_bind]
  rw [h2]
  simp only [Option.some_bind]
  unfold damagescreen
  rw [show (alloc_sb_buffer alloc new_cols
      { r2.1 with
        buffer := if (s.buffers_altscreen.isSome && decide (s.buffer = BufIdx.ALTSCREEN)) = true
          then BufIdx.ALTSCREEN else BufIdx.PRIMARY
        rows := new_rows, cols := new_cols }).rows = new_rows from rfl,
    show (alloc_sb_buffer alloc new_cols
      { r2.1 with
        buffer := if (s.buffers_altscreen.isSome && decide (s.buffer = BufIdx.ALTSCREEN)) = true
          then BufIdx.ALTSCREEN else BufIdx.PRIMARY
        rows := new_rows, cols := new_cols }).cols = new_cols from rfl, hD]
  simp only [Option.map_some']
  generalize (s5.callbacks.bind fun cb => cb.resize) = o
  cases o with
  | none => exact ⟨s5, 1, rfl, h5rows, h5cols, h5prim, h5alt, h5buf⟩
  | some host => exact ⟨_, _, rfl, h5rows, h5cols, h5prim, h5alt, h5buf⟩

/-- The two calls of `resize_buffer` in `resize` when no line is taken back from
the scrollback and new memory is blank: both return; a paragraph of the primary
buffer, and one of the alternate buffer when that is the active one, that the
first loop of the call places is a paragraph of the new buffer with the same
stripped cells. -/
theorem resize_buffers_run (fuel : Nat) (alloc : VTermAllocator) (aa : Bool)
    (fields : VTermStateFields) (s : VTermScreen) (Ro wo R w : Nat) (lip : List VTermLineInfo)
    (lo hi : Nat) (hrows : s.rows = (Ro : Int)) (hcols : s.cols = (wo : Int)) (hw : 0 < w)
    (hprim : s.buffers_primary.length = Ro * wo)
    (hlip : fields.lineinfos_primary = some lip) (hliplen : lip.length = Ro)
    (halt : ∀ ba, s.buffers_altscreen = some ba → ba.length = Ro * wo ∧
      ∃ lia, fields.lineinfos_altscreen = some lia ∧ lia.length = Ro)
    (hcur : 0 ≤ fields.pos.row ∧ fields.pos.row < (Ro : Int) ∧ 0 ≤ fields.pos.col)
    (hprog : 2 ≤ w ∨
      ((∀ (i : Nat) (x : ScreenCell), s.buffers_primary[i]? = some x → x.char0 ≠ WIDE_CONT) ∧
        ∀ ba, s.buffers_altscreen = some ba →
          ∀ (i : Nat) (x : ScreenCell), ba[i]? = some x → x.char0 ≠ WIDE_CONT))
    (hblank : ∀ i, (alloc.cell i).char0 = 0)
    (hsafe : has_pushline s = true →
      WF { s with buffer := BufIdx.PRIMARY } ∧ wo ≤ s.sb_buffer.length)
    (hnopop : s.with_conpty ≠ 0 ∨ (s.callbacks.bind fun cb => cb.sb_popline) = none ∨
      ∃ cb peek, s.callbacks = some cb ∧ cb.sb_peek = some peek ∧
        ∀ tr c b, (peek tr c b).1 = 0)
    (hinv : DamageInv s) (hfuel : 2 * (Ro * wo) + Ro < fuel) :
    ∃ stp r1 r2 nbp nlip,
      resize_place fuel s.buffers_primary (some lip) (wo : Int) (R : Int) (w : Int) (!aa)
        fields.pos (Ro + 1)
        { old_row := (Ro : Int) - 1, new_row := (R : Int) - 1
          new_buffer := alloc.cells ((R : Int) * (w : Int))
          new_lineinfo := alloc.lineinfos (R : Int)
          new_cursor := { row := -1, col := -1 }
          final_blank_row := (R : Int) } = some stp ∧
      resize_buffer fuel alloc BufIdx.PRIMARY (R : Int) (w : Int) (!aa) fields
        (ensure_sb_buffer_cols alloc (w : Int) s) = some r1 ∧
      (if r1.1.buffers_altscreen.isSome then
        resize_buffer fuel alloc BufIdx.ALTSCREEN (R : Int) (w : Int) aa r1.2 r1.1
      else if (R : Int) ≠ s.rows then
        some (r1.1,
          { r1.2 with
            lineinfos_altscreen := some (List.replicate (R : Int).toNat
              { doublewidth := 0, doubleheight := 0, continuation := 0 }) })
      else some r1) = some r2 ∧
      DamageInv r2.1 ∧ r2.1.buffers_primary = nbp ∧ r2.2.lineinfos_primary = some nlip ∧
      nbp.length = R * w ∧ nlip.length = R ∧
      (IsParagraph lip lo hi →
        (∀ x ∈ paragraph_cells s.buffers_primary (wo : Int) (hi - lo + 1) (lo : Int),
          x.char0 ≠ 0) →
        stp.old_row < (lo : Int) → Placed s.buffers_primary wo lo hi nbp nlip w (-1)) ∧
      (∀ ba lia, s.buffers_altscreen = some ba → fields.lineinfos_altscreen = some lia →
        aa = true →
        ∃ sta nba nlia,
          resize_place fuel ba (some lia) (wo : Int) (R : Int) (w : Int) true fields.pos (Ro + 1)
            { old_row := (Ro : Int) - 1, new_row := (R : Int) - 1
              new_buffer := alloc.cells ((R : Int) * (w : Int))
              new_lineinfo := alloc.lineinfos (R : Int)
              new_cursor := { row := -1, col := -1 }
              final_blank_row := (R : Int) } = some sta ∧
          r2.1.buffers_altscreen = some nba ∧ r2.2.lineinfos_altscreen = some nlia ∧
          nba.length = R * w ∧ nlia.length = R ∧
          (IsParagraph lia lo hi →
            (∀ x ∈ paragraph_cells ba (wo : Int) (hi - lo + 1) (lo : Int), x.char0 ≠ 0) →
            sta.old_row < (lo : Int) → Placed ba wo lo hi nba nlia w (-1))) := by
  obtain ⟨sb0, hs0, hsb0⟩ := ensure_sb_buffer_cols_length alloc (w : Int) s
  rw [hs0]
  have hprogp : 2 ≤ w ∨
      ∀ (i : Nat) (x : ScreenCell), s.buffers_primary[i]? = some x → x.char0 ≠ WIDE_CONT := by
    rcases hprog with h | h
    · exact Or.inl h
    · exact Or.inr h.1
  obtain ⟨stp, sb, tr, pos, nbp, nlip, hplace, hres1, hpos, l1, l2, hplacedp⟩ :=
    resize_buffer_places fuel alloc BufIdx.PRIMARY (!aa) fields { s with sb_buffer := sb0 }
      Ro wo R w s.buffers_primary lip lo hi hrows hcols hw rfl hprim hlip hliplen
      (fun _ => hcur) hprogp hblank
      (fun _ h => ⟨(hsafe h).1, le_trans (hsafe h).2 hsb0⟩) (fun _ => hnopop) hfuel
  obtain halts | ⟨ba, halts⟩ : s.buffers_altscreen = none ∨
      ∃ ba, s.buffers_altscreen = some ba := by
    cases s.buffers_altscreen with
    | none => exact Or.inl rfl
    | some ba => exact Or.inr ⟨ba, rfl⟩
  · have hnone : (with_buffer BufIdx.PRIMARY
        { s with sb_buffer := sb, trace := tr } nbp).buffers_altscreen.isSome = false := by
      simp only [with_buffer, halts, Option.isSome_none]
    by_cases hR : (R : Int) ≠ s.rows
    · refine ⟨stp, (with_buffer BufIdx.PRIMARY { s with sb_buffer := sb, trace := tr } nbp,
        { with_lineinfo BufIdx.PRIMARY fields nlip with pos := pos }),
        (with_buffer BufIdx.PRIMARY { s with sb_buffer := sb, trace := tr } nbp,
          { with_lineinfo BufIdx.PRIMARY fields nlip with
            pos := pos
            lineinfos_altscreen := some (List.replicate (R : Int).toNat
              { doublewidth := 0, doubleheight := 0, continuation := 0 }) }),
        nbp, nlip, hplace, hres1, ?_, hinv, rfl, rfl, l1, l2, hplacedp, ?_⟩
      · rw [if_neg (by rw [hnone]; simp), if_pos hR]
      · intro ba lia h
        rw [halts] at h
        cases h
    · refine ⟨stp, (with_buffer BufIdx.PRIMARY { s with sb_buffer := sb, trace := tr } nbp,
        { with_lineinfo BufIdx.PRIMARY fields nlip with pos := pos }),
        (with_buffer BufIdx.PRIMARY { s with sb_buffer := sb, trace := tr } nbp,
        { with_lineinfo BufIdx.PRIMARY fields nlip with pos := pos }),
        nbp, nlip, hplace, hres1, ?_, hinv, rfl, rfl, l1, l2, hplacedp, ?_⟩
      · rw [if_neg (by rw [hnone]; simp), if_neg hR]
      · intro ba lia h
        rw [halts] at h
        cases h
  · obtain ⟨hbalen, lia, hlia, hlialen⟩ := halt ba halts
    have hproga : 2 ≤ w ∨
        ∀ (i : Nat) (x : ScreenCell), ba[i]? = some x → x.char0 ≠ WIDE_CONT := by
      rcases hprog with h | h
      · exact Or.inl h
      · exact Or.inr (h.2 ba halts)
    obtain ⟨sta, sb2, tr2, pos2, nba, nlia, hplace2, hres2, -, m1, m2, hplaceda⟩ :=
      resize_buffer_places fuel alloc BufIdx.ALTSCREEN aa
        { with_lineinfo BufIdx.PRIMARY fields nlip with pos := pos }
        (with_buffer BufIdx.PRIMARY { s with sb_buffer := sb, trace := tr } nbp)
        Ro wo R w ba lia lo hi hrows hcols hw
        (by simp only [buffer_of, with_buffer, halts]) hbalen
        (by simp only [lineinfo_of, with_lineinfo, hlia]) hlialen
        (fun h => by
          have : pos = fields.pos := hpos (by rw [h]; rfl)
          show 0 ≤ pos.row ∧ pos.row < (Ro : Int) ∧ 0 ≤ pos.col
          rw [this]
          exact hcur)
        hproga hblank (fun h => by cases h) (fun h => by cases h) hfuel
    have hsome : (with_buffer BufIdx.PRIMARY
        { s with sb_buffer := sb, trace := tr } nbp).buffers_altscreen.isSome = true := by
      simp only [with_buffer, halts, Option.isSome_some]
    refine ⟨stp, (with_buffer BufIdx.PRIMARY { s with sb_buffer := sb, trace := tr } nbp,
        { with_lineinfo BufIdx.PRIMARY fields nlip with pos := pos }),
      (with_buffer BufIdx.ALTSCREEN
        { with_buffer BufIdx.PRIMARY { s with sb_buffer := sb, trace := tr } nbp with
          sb_buffer := sb2, trace := tr2 } nba,
        { with_lineinfo BufIdx.ALTSCREEN
            { with_lineinfo BufIdx.PRIMARY fields nlip with pos := pos } nlia with pos := pos2 }),
      nbp, nlip, hplace, hres1, ?_, hinv, rfl, rfl, l1, l2, hplacedp, ?_⟩
    · rw [if_pos hsome]
      exact hres2
    · intro ba1 lia1 h1 h2 haa
      rw [halts] at h1
      rw [hlia] at h2
      cases h1
      cases h2
      have hp : pos = fields.pos := hpos (by rw [haa]; rfl)
      refine ⟨sta, nba, nlia, ?_, rfl, rfl, m1, m2, hplaceda⟩
      rw [← hplace2, haa]
      show _ = resize_place fuel ba (some lia) (wo : Int) (R : Int) (w : Int) true pos (Ro + 1) _
      rw [hp]

/-! ## Claims about the text of a paragraph across `resize` -/

set_option maxRecDepth 100000 in
/-- C23, as stated, fails.  The one row of `gap_screen`, `A`, blank, `B`, blank,
is a paragraph with the text `A`, blank, `B`.  The resize from 1 x 4 to 2 x 2
keeps it on the screen: the new grid holds `A`, blank in row 0 and `B`, blank
in row 1, a continuation row.  The blank cell between `A` and `B` ends row 0
now, so the text of the paragraph has become `A`, `B`. -/
theorem resize_drops_blank_cell :
    gap_fields.lineinfos_primary = some [zero_info] ∧
    paragraph_text gap_screen.buffers_primary 4 1 0 =
      [[0x41, 0, 0, 0, 0, 0], [0, 0, 0, 0, 0, 0], [0x42, 0, 0, 0, 0, 0]] ∧
    (resize 30 zero_alloc 2 2 gap_fields gap_screen).map
        (fun x => (x.1.rows, x.1.cols, x.1.buffers_primary, x.2.1.lineinfos_primary)) =
      some (2, 2, letters [0x41, 0, 0x42, 0], some [zero_info, cont_info]) ∧
    paragraph_text (letters [0x41, 0, 0x42, 0]) 2 2 0 =
      [[0x41, 0, 0, 0, 0, 0], [0x42, 0, 0, 0, 0, 0]] := by
  decide

/-- C23, amended: `resize` on a screen whose buffers have the size of the grid,
with the cursor on the grid, new memory blank, at least two new columns or no
wide glyph on the grid, room for a row in the staging buffer when rows are
pushed, and no line taken back from the scrollback (`with_conpty` is set, no
`sb_popline` is registered, or the host answers `sb_peek` with 0).  The call
returns with the new size.  For every paragraph `lo .. hi` of the active buffer
that has no blank cell before the last glyph of any of its rows (`hsolid`) and
is not among the rows `0 .. old_row` that the first loop of `resize_buffer`
leaves out of the new buffer, the new buffer holds a paragraph `lo' .. lo' + h`
with the same text. -/
theorem resize_keeps_paragraph_text (fuel : Nat) (alloc : VTermAllocator)
    (fields : VTermStateFields) (s : VTermScreen) (Ro wo R w : Nat)
    (old : List ScreenCell) (li lip : List VTermLineInfo) (lo hi : Nat)
    (hrows : s.rows = (Ro : Int)) (hcols : s.cols = (wo : Int)) (hw : 0 < w)
    (hprim : s.buffers_primary.length = Ro * wo)
    (hlip : fields.lineinfos_primary = some lip) (hliplen : lip.length = Ro)
    (halt : ∀ ba, s.buffers_altscreen = some ba → ba.length = Ro * wo ∧
      ∃ lia, fields.lineinfos_altscreen = some lia ∧ lia.length = Ro)
    (hact : buffer_of s.buffer s = some old) (hli : lineinfo_of s.buffer fields = some li)
    (hcur : 0 ≤ fields.pos.row ∧ fields.pos.row < (Ro : Int) ∧ 0 ≤ fields.pos.col)
    (hprog : 2 ≤ w ∨
      ((∀ (i : Nat) (x : ScreenCell), s.buffers_primary[i]? = some x → x.char0 ≠ WIDE_CONT) ∧
        ∀ ba, s.buffers_altscreen = some ba →
          ∀ (i : Nat) (x : ScreenCell), ba[i]? = some x → x.char0 ≠ WIDE_CONT))
    (hblank : ∀ i, (alloc.cell i).char0 = 0)
    (hsafe : has_pushline s = true →
      WF { s with buffer := BufIdx.PRIMARY } ∧ wo ≤ s.sb_buffer.length)
    (hnopop : s.with_conpty ≠ 0 ∨ (s.callbacks.bind fun cb => cb.sb_popline) = none ∨
      ∃ cb peek, s.callbacks = some cb ∧ cb.sb_peek = some peek ∧
        ∀ tr c b, (peek tr c b).1 = 0)
    (hinv : DamageInv s) (hpar : IsParagraph li lo hi)
    (hsolid : ∀ x ∈ paragraph_cells old (wo : Int) (hi - lo + 1) (lo : Int), x.char0 ≠ 0)
    (hfuel : 2 * (Ro * wo) + Ro < fuel) :
    ∃ st s1 f1 ret nb nli,
      resize_place fuel old (some li) (wo : Int) (R : Int) (w : Int) true fields.pos (Ro + 1)
        { old_row := (Ro : Int) - 1, new_row := (R : Int) - 1
          new_buffer := alloc.cells ((R : Int) * (w : Int))
          new_lineinfo := alloc.lineinfos (R : Int)
          new_cursor := { row := -1, col := -1 }
          final_blank_row := (R : Int) } = some st ∧
      resize fuel alloc (R : Int) (w : Int) fields s = some (s1, f1, ret) ∧
      s1.rows = (R : Int) ∧ s1.cols = (w : Int) ∧ s1.buffer = s.buffer ∧
      buffer_of s.buffer s1 = some nb ∧ lineinfo_of s.buffer f1 = some nli ∧
      nb.length = R * w ∧ nli.length = R ∧
      (st.old_row < (lo : Int) → ∃ lo1 h, IsParagraph nli lo1 (lo1 + h) ∧
        paragraph_text nb (w : Int) (h + 1) (lo1 : Int) =
          paragraph_text old (wo : Int) (hi - lo + 1) (lo : Int)) := by
  obtain ⟨f, rfl⟩ : ∃ f, fuel = f + 1 := ⟨fuel - 1, by omega⟩
  have htext : ∀ (nb : List ScreenCell) (nli : List VTermLineInfo),
      Placed old wo lo hi nb nli w (-1) → ∃ lo1 h, IsParagraph nli lo1 (lo1 + h) ∧
        paragraph_text nb (w : Int) (h + 1) (lo1 : Int) =
          paragraph_text old (wo : Int) (hi - lo + 1) (lo : Int) := by
    rintro nb nli ⟨lo1, h, -, p2, p3⟩
    refine ⟨lo1, h, p2, ?_⟩
    unfold paragraph_text
    rw [p3]
  obtain ⟨stp, r1, r2, nbp, nlip, hplace, h1, h2, hinv2, e1, e2, l1, l2, hplacedp, halts⟩ :=
    resize_buffers_run (f + 1) alloc
      (s.buffers_altscreen.isSome && decide (s.buffer = BufIdx.ALTSCREEN)) fields s Ro wo R w lip
      lo hi hrows hcols hw hprim hlip hliplen halt hcur hprog hblank hsafe hnopop hinv hfuel
  obtain ⟨s1, ret, hres, g1, g2, g3, g4, g5⟩ :=
    resize_finish f alloc (R : Int) (w : Int) fields s r1 r2 h1 h2 hinv2
  cases hb : s.buffer with
  | PRIMARY =>
    rw [hb] at hact hli hplace g5
    simp only [buffer_of, Option.some.injEq] at hact
    simp only [lineinfo_of] at hli
    rw [hlip] at hli
    cases hli
    subst hact
    have haa : (s.buffers_altscreen.isSome && decide (BufIdx.PRIMARY = BufIdx.ALTSCREEN)) =
        false := by simp
    rw [haa] at hplace g5
    exact ⟨stp, s1, r2.2, ret, nbp, nlip, hplace, hres, g1, g2, g5, by
      show some s1.buffers_primary = some nbp
      rw [g3, e1], e2, l1, l2, fun hlt => htext nbp nlip (hplacedp hpar hsolid hlt)⟩
  | ALTSCREEN =>
    rw [hb] at hact hli g5
    simp only [buffer_of] at hact
    simp only [lineinfo_of] at hli
    have haa : (s.buffers_altscreen.isSome && decide (BufIdx.ALTSCREEN = BufIdx.ALTSCREEN)) =
        true := by rw [hact]; simp
    rw [haa] at g5
    obtain ⟨sta, nba, nlia, hplace2, a1, a2, m1, m2, hplaceda⟩ := halts old li hact hli
      (by rw [hb]; exact haa)
    exact ⟨sta, s1, r2.2, ret, nba, nlia, hplace2, hres, g1, g2, g5, by
      show s1.buffers_altscreen = some nba
      rw [g4, a1], a2, m1, m2, fun hlt => htext nba nlia (hplaceda hpar hsolid hlt)⟩

theorem hw_rows_paragraph : IsParagraph [zero_info, cont_info] 0 1 := by
  refine ⟨by decide, by decide, ⟨zero_info, rfl, rfl⟩, ?_, ?_⟩
  · intro k h1 h2
    obtain rfl : k = 1 := by omega
    exact ⟨cont_info, rfl, by decide⟩
  · intro info h
    cases h

set_option maxRecDepth 100000 in
/-- The theorem `resize_keeps_paragraph_text` on `hw_screen`, whose two rows
`HELLO` and `WORLD` are one paragraph: after the resize from 2 x 5 to 4 x 3 the
new grid holds a paragraph with the same text. -/
theorem resize_keeps_paragraph_text_witness :
    IsParagraph [zero_info, cont_info] 0 1 ∧
    ∃ s1 f1 ret nb nli, resize 23 zero_alloc 4 3 hw_fields hw_screen = some (s1, f1, ret) ∧
      s1.rows = 4 ∧ s1.cols = 3 ∧ buffer_of hw_screen.buffer s1 = some nb ∧
      lineinfo_of hw_screen.buffer f1 = some nli ∧
      ∃ lo1 h, IsParagraph nli lo1 (lo1 + h) ∧
        paragraph_text nb 3 (h + 1) (lo1 : Int) =
          paragraph_text hw_screen.buffers_primary 5 2 0 := by
  refine ⟨hw_rows_paragraph, ?_⟩
  obtain ⟨st, s1, f1, ret, nb, nli, hplace, hres, g1, g2, -, g3, g4, -, -, himp⟩ :=
    resize_keeps_paragraph_text 23 zero_alloc hw_fields hw_screen 2 5 4 3
      hw_screen.buffers_primary [zero_info, cont_info] [zero_info, cont_info] 0 1 rfl rfl
      (by decide) rfl rfl rfl (fun _ h => Option.noConfusion h) rfl rfl (by decide)
      (Or.inl (by decide)) (fun _ => rfl) (fun h => Bool.noConfusion h) (Or.inr (Or.inl rfl))
      (fun _ => rfl) hw_rows_paragraph (by decide) (by decide)
  have hdec : (resize_place 23 hw_screen.buffers_primary (some [zero_info, cont_info]) 5 4 3 true
      hw_fields.pos 3
      { old_row := 1, new_row := 3, new_buffer := zero_alloc.cells 12
        new_lineinfo := zero_alloc.lineinfos 4, new_cursor := { row := -1, col := -1 }
        final_blank_row := 4 }).map (fun st => st.old_row) = some (-1) := by
    decide
  have hold : st.old_row = -1 := by
    have e : resize_place 23 hw_screen.buffers_primary (some [zero_info, cont_info]) 5 4 3 true
        hw_fields.pos 3
        { old_row := 1, new_row := 3, new_buffer := zero_alloc.cells 12
          new_lineinfo := zero_alloc.lineinfos 4, new_cursor := { row := -1, col := -1 }
          final_blank_row := 4 } = some st := hplace
    rw [e] at hdec
    exact Option.some.inj hdec
  exact ⟨s1, f1, ret, nb, nli, hres, g1, g2, g3, g4, himp (by rw [hold]; decide)⟩

/-! ## The round trip of a cell through the external form -/

/-- The copying loop stores every codepoint up to and including the first zero
it meets. -/
theorem get_cell_copy_spec (src : List Nat) : ∀ (fuel i : Nat) (dst : List Nat),
    i + fuel ≤ dst.length → ∀ k, i ≤ k → k < i + fuel →
      (∀ j, i ≤ j → j < k → src.getD j 0 ≠ 0) →
      (get_cell_copy src fuel i dst).getD k 0 = src.getD k 0 := by
  intro fuel
  induction fuel with
  | zero => intro i dst _ k h1 h2; omega
  | succ fuel ih =>
    intro i dst hlen k h1 h2 hpre
    unfold get_cell_copy
    by_cases hk : k = i
    · subst hk
      have hset : (dst.set k (src.getD k 0))[k]? = some (src.getD k 0) :=
        List.getElem?_set_eq_of_lt _ (by omega)
      split_ifs with h0
      · rw [List.getD_eq_getElem?_getD, hset]; rfl
      · rw [List.getD_eq_getElem?_getD, get_cell_copy_keeps src fuel (k + 1) _ k (by omega), hset]
        rfl
    · have hik : i < k := by omega
      rw [if_neg (hpre i le_rfl hik)]
      exact ih (i + 1) _ (by rw [List.length_set]; omega) k (by omega) (by omega)
        (fun j hj1 hj2 => hpre j (by omega) hj2)

/-- The XOR with the global reverse flag is its own inverse on one bit. -/
theorem reverse_xor_twice {r g : Nat} (hr : r < 2) (hg : g < 2) :
    ((r ^^^ g) % 2 ^^^ g) % 2 = r := by
  interval_cases r <;> interval_cases g <;> rfl

/-- What `vterm_screen_get_cell` writes for a cell of the grid. -/
theorem get_cell_result {s : VTermScreen} {pos : VTermPos} {intcell : ScreenCell}
    {ext0 ext : VTermScreenCell} {ret : Int}
    (hcell : cellAt s pos.row pos.col = some intcell)
    (hget : vterm_screen_get_cell s pos ext0 = some (ext, ret)) :
    ∃ wd, ext = { get_cell_fields s intcell ext0 with width := wd } := by
  unfold cellAt at hcell
  unfold vterm_screen_get_cell at hget
  cases hg : getcell s pos.row pos.col with
  | none => rw [hg] at hcell; simp [readcell] at hcell
  | some p =>
    rw [hg] at hcell hget
    simp only [hcell, Option.some_bind] at hget
    split_ifs at hget with h1
    · cases hr : readcell s (getcell s pos.row (pos.col + 1)) with
      | none => rw [hr] at hget; simp at hget
      | some right =>
        rw [hr] at hget
        simp only [Option.some_bind] at hget
        split_ifs at hget
        · cases hget; exact ⟨2, rfl⟩
        · cases hget; exact ⟨1, rfl⟩
    · cases hget; exact ⟨1, rfl⟩

/-- C38: a cell of the grid that `vterm_screen_get_cell` converts to the
external form and `copy_sb_cell_to_screen_cell` converts back has the same
codepoints up to and including the first zero, and the same colours and
attributes `bold` .. `baseline`; the XOR with the global reverse flag is
undone.  The flags are one bit wide, as the bit-fields of the source are. -/
theorem sb_cell_round_trip (s : VTermScreen) (pos : VTermPos) (intcell dst : ScreenCell)
    (ext0 ext : VTermScreenCell) (ret : Int)
    (hcell : cellAt s pos.row pos.col = some intcell)
    (hget : vterm_screen_get_cell s pos ext0 = some (ext, ret))
    (hrev : intcell.pen.reverse < 2) (hglob : s.global_reverse < 2)
    (hext : ext0.chars.length = VTERM_MAX_CHARS_PER_CELL)
    (hdst : dst.chars.length = VTERM_MAX_CHARS_PER_CELL) :
    (∀ i, i < VTERM_MAX_CHARS_PER_CELL → (∀ j, j < i → intcell.chars.getD j 0 ≠ 0) →
      (copy_sb_cell_to_screen_cell s dst ext).chars.getD i 0 = intcell.chars.getD i 0) ∧
    (copy_sb_cell_to_screen_cell s dst ext).pen.fg = intcell.pen.fg ∧
    (copy_sb_cell_to_screen_cell s dst ext).pen.bg = intcell.pen.bg ∧
    (copy_sb_cell_to_screen_cell s dst ext).pen.bold = intcell.pen.bold ∧
    (copy_sb_cell_to_screen_cell s dst ext).pen.underline = intcell.pen.underline ∧
    (copy_sb_cell_to_screen_cell s dst ext).pen.italic = intcell.pen.italic ∧
    (copy_sb_cell_to_screen_cell s dst ext).pen.blink = intcell.pen.blink ∧
    (copy_sb_cell_to_screen_cell s dst ext).pen.reverse = intcell.pen.reverse ∧
    (copy_sb_cell_to_screen_cell s dst ext).pen.conceal = intcell.pen.conceal ∧
    (copy_sb_cell_to_screen_cell s dst ext).pen.strike = intcell.pen.strike ∧
    (copy_sb_cell_to_screen_cell s dst ext).pen.font = intcell.pen.font ∧
    (copy_sb_cell_to_screen_cell s dst ext).pen.small = intcell.pen.small ∧
    (copy_sb_cell_to_screen_cell s dst ext).pen.baseline = intcell.pen.baseline := by
  obtain ⟨wd, rfl⟩ := get_cell_result hcell hget
  refine ⟨?_, rfl, rfl, rfl, rfl, rfl, rfl, reverse_xor_twice hrev hglob, rfl, rfl, rfl, rfl, rfl⟩
  intro i hi hpre
  have hout : ∀ k, k < VTERM_MAX_CHARS_PER_CELL → (∀ j, j < k → intcell.chars.getD j 0 ≠ 0) →
      (get_cell_copy intcell.chars VTERM_MAX_CHARS_PER_CELL 0 ext0.chars).getD k 0 =
        intcell.chars.getD k 0 := fun k hk hp =>
    get_cell_copy_spec intcell.chars VTERM_MAX_CHARS_PER_CELL 0 ext0.chars (by omega) k
      (Nat.zero_le k) (by omega) (fun j _ hj => hp j hj)
  show (get_cell_copy (get_cell_copy intcell.chars VTERM_MAX_CHARS_PER_CELL 0 ext0.chars)
    VTERM_MAX_CHARS_PER_CELL 0 dst.chars).getD i 0 = intcell.chars.getD i 0
  rw [get_cell_copy_spec _ VTERM_MAX_CHARS_PER_CELL 0 dst.chars (by omega) i (Nat.zero_le i)
    (by omega) (fun j _ hj => by
      rw [hout j (by omega) (fun j' hj' => hpre j' (by omega))]
      exact hpre j hj)]
  exact hout i hi hpre

theorem sb_cell_round_trip_witness :
    (copy_sb_cell_to_screen_cell reversed_screen blank_cell
        { get_cell_fields reversed_screen reversed_A blank_ext_cell with width := 1 }).chars.getD 2 0 =
      reversed_A.chars.getD 2 0 ∧
    (get_cell_fields reversed_screen reversed_A blank_ext_cell).attrs.reverse = 0 ∧
    (copy_sb_cell_to_screen_cell reversed_screen blank_cell
        { get_cell_fields reversed_screen reversed_A blank_ext_cell with width := 1 }).pen.reverse =
      1 := by
  have h := sb_cell_round_trip reversed_screen { row := 0, col := 0 } reversed_A blank_cell
    blank_ext_cell { get_cell_fields reversed_screen reversed_A blank_ext_cell with width := 1 } 1
    (by decide) (by decide) (by decide) (by decide) (by decide) (by decide)
  exact ⟨h.1 2 (by decide) (by decide), by decide, h.2.2.2.2.2.2.2.1⟩

/-! ## The pen `putglyph` stores -/

/-- An iteration of the copying loop stores the pen register, and so does every
later one. -/
theorem putglyph_copy_pen (chars : List Nat) (pen : ScreenPen) :
    ∀ (fuel i : Nat) (cell : ScreenCell), cell.pen = pen →
      (putglyph_copy chars pen fuel i cell).2.pen = pen := by
  intro fuel
  induction fuel with
  | zero => intro i cell h; exact h
  | succ fuel ih =>
    intro i cell h
    unfold putglyph_copy
    split_ifs
    · exact ih _ _ rfl
    · exact h

/-- A glyph with a first codepoint enters the copying loop, so the cell gets the
pen register. -/
theorem putglyph_cell_pen (chars : List Nat) (pen : ScreenPen) (x : ScreenCell)
    (h : chars.getD 0 0 ≠ 0) : (putglyph_cell chars pen x).pen = pen := by
  have h1 : (putglyph_copy chars pen VTERM_MAX_CHARS_PER_CELL 0 x).2.pen = pen := by
    show (putglyph_copy chars pen (5 + 1) 0 x).2.pen = pen
    unfold putglyph_copy
    rw [if_pos h]
    exact putglyph_copy_pen chars pen 5 1 _ rfl
  unfold putglyph_cell
  simp only
  split_ifs
  · exact h1
  · exact h1

/-- C33, as stated, fails for the empty glyph: `stale_pen_screen` has the
default pen in its pen register and a bold, reversed cell in font 3 at the
top-left; after `putglyph` of the empty glyph there, the cell still has the pen
it had, with only `chars[0]` cleared. -/
theorem putglyph_empty_keeps_pen :
    empty_glyph.chars.getD 0 0 = 0 ∧ InGrid stale_pen_screen 0 0 ∧
    stale_pen_screen.pen = default ∧
    (putglyph 1 empty_glyph { row := 0, col := 0 } stale_pen_screen).bind
        (fun r => cellAt r.1 0 0) =
      some { chars := [0, 0x301, 0, 0x42, 0, 0]
             pen := { (default : ScreenPen) with reverse := 1, bold := 1, font := 3 } } := by
  decide

/-- C33, amended: for a glyph with a first codepoint, written at a position of
the grid where it fits into the row, `putglyph` returns 1 and the pen of the
cell at the position is the pen register with `protected_cell`, `dwl` and `dhl`
taken from the glyph (cut to the width of their bit-fields). -/
theorem putglyph_stores_pen (fuel : Nat) (s : VTermScreen) (info : VTermGlyphInfo)
    (pos : VTermPos) (hwf : WF s) (hinv : DamageInv s) (hfuel : 0 < fuel)
    (hpos : InGrid s pos.row pos.col) (hfit : pos.col + info.width ≤ s.cols)
    (hch : info.chars.getD 0 0 ≠ 0) :
    ∃ s' c, putglyph fuel info pos s = some (s', 1) ∧ cellAt s' pos.row pos.col = some c ∧
      c.pen = { s.pen with protected_cell := info.protected_cell % 2
                           dwl := info.dwl % 2
                           dhl := info.dhl % 4 } := by
  obtain ⟨m, rfl⟩ : ∃ m, fuel = m + 1 := ⟨fuel - 1, by omega⟩
  obtain ⟨s3, g3, c3, e3⟩ := putglyph_spec (m + 1) s info pos hwf hpos hfit
  obtain ⟨s', e4, o4, -⟩ := damagerect_total m s3 (glyph_rect info pos) (g3.DamageInv hinv)
  obtain ⟨-, -, -, -, b, hb, hlen, hall⟩ := hwf
  obtain ⟨x, hx, -, -⟩ := readcell_getcell hb hlen hpos
  have hcell : cellAt s pos.row pos.col = some x := hx
  refine ⟨s', set_glyph_flags info (putglyph_cell info.chars s.pen x), by rw [e3, e4]; rfl, ?_, ?_⟩
  · rw [o4.od_cellAt, c3, if_pos ⟨rfl, rfl⟩, hcell]
    rfl
  · show ({ (putglyph_cell info.chars s.pen x).pen with
        protected_cell := info.protected_cell % 2, dwl := info.dwl % 2
        dhl := info.dhl % 4 } : ScreenPen) = _
    rw [putglyph_cell_pen info.chars s.pen x hch]

theorem putglyph_stores_pen_witness :
    ∃ s' c, putglyph 1 (glyph 0x41 1) { row := 0, col := 0 } stale_pen_screen = some (s', 1) ∧
      cellAt s' 0 0 = some c ∧ c.pen = default := by
  obtain ⟨s', c, h1, h2, h3⟩ := putglyph_stores_pen 1 stale_pen_screen (glyph 0x41 1)
    { row := 0, col := 0 } (by
      refine ⟨by decide, by decide, rfl, rfl, _, rfl, rfl, ?_⟩
      decide) (fun _ => rfl) (by decide) (by decide) (by decide) (by decide)
  exact ⟨s', c, h1, h2, h3⟩

/-! ## The deferred scroll in the reachable states -/

/-- A flush that returns leaves no deferred scroll and changes the damage
accumulator only. -/
theorem flush_returns {fuel : Nat} {s s' : VTermScreen}
    (h : vterm_screen_flush_damage fuel s = some s') (hinv : DamageInv s) :
    s'.pending_scrollrect.start_row = -1 ∧ OnlyDamage s s' := by
  cases fuel with
  | zero => simp [vterm_screen_flush_damage] at h
  | succ n =>
    obtain ⟨s2, e, -, p, o⟩ := flush_total n s hinv
    rw [e] at h
    cases h
    exact ⟨p, o⟩

theorem OnlyDamage.od_ReachInv {a b : VTermScreen} (h : OnlyDamage a b)
    (hc : ∃ x, a.cells = some x) (hp : DamageInv b) : ReachInv b :=
  ⟨by obtain ⟨x, hx⟩ := hc; exact ⟨x, by rw [h.od_cells]; exact hx⟩, hp⟩

theorem flush_keeps_inv {fuel : Nat} {s s' : VTermScreen}
    (h : vterm_screen_flush_damage fuel s = some s') (hinv : ReachInv s) : ReachInv s' := by
  obtain ⟨p, o⟩ := flush_returns h hinv.2
  exact o.od_ReachInv hinv.1 (fun _ => p)

/-- A call of `damagerect` that returns keeps the invariant. -/
theorem damagerect_keeps_inv {fuel : Nat} {s s' : VTermScreen} {rect : VTermRect}
    (h : damagerect (vterm_screen_flush_damage fuel) s rect = some s') (hinv : ReachInv s) :
    ReachInv s' := by
  have ho := damagerect_only (flush_damage_only fuel) h
  refine ho.od_ReachInv hinv.1 ?_
  unfold DamageInv
  rw [ho.od_damage_merge]
  intro hpol
  have hp := hinv.2 hpol
  unfold damagerect at h
  cases hm : s.damage_merge with
  | CELL =>
    simp only [hm] at h
    cases h
    simpa using hp
  | ROW =>
    simp only [hm] at h
    by_cases h1 : rect.end_row > rect.start_row + 1
    · rw [if_pos h1] at h
      cases hf : vterm_screen_flush_damage fuel s with
      | none => rw [hf] at h; simp at h
      | some s1 =>
        rw [hf] at h
        simp only [Option.some_bind] at h
        cases h
        simpa using (flush_returns hf hinv.2).1
    · rw [if_neg h1] at h
      split_ifs at h <;> (cases h; first | exact hp | simpa using hp)
  | SCREEN =>
    simp only [hm] at h
    split_ifs at h <;> (cases h; exact hp)
  | SCROLL => exact absurd hm hpol

/-- A call of `moverect_user` that returns keeps the invariant. -/
theorem moverect_user_keeps_inv {fuel : Nat} {s s' : VTermScreen} {dest src : VTermRect}
    (h : moverect_user (vterm_screen_flush_damage fuel) dest src s = some s')
    (hinv : ReachInv s) : ReachInv s' := by
  unfold moverect_user at h
  split at h
  · rename_i host _
    have h1 : ∃ s1, (if s.damage_merge ≠ VTermDamageSize.SCROLL then
          vterm_screen_flush_damage fuel s else some s) = some s1 ∧
        (let handled := host s1.trace dest src
          let s2 : VTermScreen := { s1 with trace := s1.trace ++ [HostEvent.moverect dest src] }
          if handled ≠ 0 then some s2
          else damagerect (vterm_screen_flush_damage fuel) s2 dest) = some s' := by
      cases hf : (if s.damage_merge ≠ VTermDamageSize.SCROLL then
          vterm_screen_flush_damage fuel s else some s) with
      | none => rw [hf] at h; simp at h
      | some s1 => rw [hf] at h; exact ⟨s1, rfl, h⟩
    obtain ⟨s1, e1, e2⟩ := h1
    have i1 : ReachInv s1 := by
      split_ifs at e1
      · exact flush_keeps_inv e1 hinv
      · cases e1; exact hinv
    have i2 : ReachInv { s1 with trace := s1.trace ++ [HostEvent.moverect dest src] } :=
      ⟨i1.1, DamageInv_trace i1.2 _⟩
    simp only at e2
    split_ifs at e2
    · cases e2; exact i2
    · exact damagerect_keeps_inv e2 i2
  · exact damagerect_keeps_inv h hinv

/-- A scroll of the grid that returns changes the cells of the active buffer
only. -/
theorem scroll_grid_returns {rect : VTermRect} {down right : Int} {s s' : VTermScreen}
    (h : vterm_scroll_rect rect down right (some moverect_internal) erase_internal s = some s')
    (hc : ∃ b, s.cells = some b) : ∃ b', s' = s.setCells b' := by
  obtain ⟨b', hb, -⟩ := GridNatural_scroll rect down right s s s' hc (sameGrid.sg_refl s) h
  exact ⟨b', hb⟩

theorem scroll_grid_keeps_inv {rect : VTermRect} {down right : Int} {s s' : VTermScreen}
    (h : vterm_scroll_rect rect down right (some moverect_internal) erase_internal s = some s')
    (hinv : ReachInv s) : ReachInv s' := by
  obtain ⟨b', rfl⟩ := scroll_grid_returns h hinv.1
  exact ⟨⟨b', setCells_cells b'⟩, DamageInv_setCells hinv.2 b'⟩

/-- A scroll that returns keeps every property its two callbacks keep. -/
theorem vterm_scroll_rect_keeps {σ : Type} (P : σ → Prop)
    (mv : VTermRect → VTermRect → σ → Option σ) (er : VTermRect → Int → σ → Option σ)
    (rect : VTermRect) (down right : Int)
    (hmv : ∀ d r a b, P a → mv d r a = some b → P b)
    (her : ∀ r sel a b, P a → er r sel a = some b → P b) {s s' : σ}
    (h : vterm_scroll_rect rect down right (some mv) er s = some s') (hs : P s) : P s' := by
  unfold vterm_scroll_rect at h
  split_ifs at h
  · exact her _ _ _ _ hs h
  · simp only at h
    cases hm : mv (scroll_dest rect down right) (scroll_src rect down right) s with
    | none => rw [hm] at h; simp at h
    | some s1 =>
      rw [hm] at h
      exact her _ _ _ _ (hmv _ _ _ _ hs hm) h

/-- The replay of a scroll to the host keeps the invariant. -/
theorem scroll_user_keeps_inv {fuel : Nat} {rect : VTermRect} {down right : Int}
    {s s' : VTermScreen}
    (h : vterm_scroll_rect rect down right (some (moverect_user (vterm_screen_flush_damage fuel)))
      (erase_user (vterm_screen_flush_damage fuel)) s = some s')
    (hinv : ReachInv s) : ReachInv s' :=
  vterm_scroll_rect_keeps ReachInv _ _ rect down right
    (fun _ _ _ _ ha hb => moverect_user_keeps_inv hb ha)
    (fun _ _ _ _ ha hb => damagerect_keeps_inv hb ha) h hinv

/-- A call of `scrollrect` that returns keeps the invariant. -/
theorem scrollrect_keeps_inv {fuel : Nat} {rect : VTermRect} {down right : Int}
    {s s' : VTermScreen} {ret : Int}
    (h : scrollrect fuel rect down right s = some (s', ret)) (hinv : ReachInv s) :
    ReachInv s' := by
  unfold scrollrect at h
  simp only at h
  by_cases hpol : s.damage_merge ≠ VTermDamageSize.SCROLL
  · rw [if_pos hpol] at h
    simp only [Option.bind_eq_some] at h
    obtain ⟨s1, h1, s2, h2, s3, h3, h4⟩ := h
    cases h4
    exact scroll_user_keeps_inv h3 (flush_keeps_inv h2 (scroll_grid_keeps_inv h1 hinv))
  · rw [if_neg hpol] at h
    have hsc : s.damage_merge = VTermDamageSize.SCROLL := by
      by_contra hne; exact hpol hne
    simp only [Option.bind_eq_some] at h
    obtain ⟨s1, h1, s2, h2, s3, h3, h4⟩ := h
    have k1 : (∃ b, s1.cells = some b) ∧ s1.damage_merge = VTermDamageSize.SCROLL := by
      split_ifs at h1
      · obtain ⟨-, o⟩ := flush_returns h1 hinv.2
        exact ⟨by rw [o.od_cells]; exact hinv.1, by rw [o.od_damage_merge]; exact hsc⟩
      · cases h1; exact ⟨hinv.1, hsc⟩
    have k2 : (∃ b, s2.cells = some b) ∧ s2.damage_merge = VTermDamageSize.SCROLL := by
      split_ifs at h2
      · cases h2; exact k1
      · cases h2; exact k1
      · simp only [Option.bind_eq_some] at h2
        obtain ⟨s1f, f1, f2⟩ := h2
        cases f2
        obtain ⟨-, o⟩ := flush_returns f1 (fun hn => absurd k1.2 hn)
        have c1 : ∃ b, s1f.cells = some b := by rw [o.od_cells]; exact k1.1
        have c2 : s1f.damage_merge = VTermDamageSize.SCROLL := by
          rw [o.od_damage_merge]; exact k1.2
        exact ⟨c1, c2⟩
    obtain ⟨b', rfl⟩ := scroll_grid_returns h3 k2.1
    have k3 : (s2.setCells b').damage_merge = VTermDamageSize.SCROLL := by
      rw [setCells_damage_merge]; exact k2.2
    split_ifs at h4
    · cases h4
      exact ⟨⟨b', setCells_cells b'⟩, fun hn => absurd k3 hn⟩
    · cases h4
      exact ⟨⟨b', setCells_cells b'⟩, fun hn => absurd k3 hn⟩

/-- Every reachable state has an allocated active buffer and stores a deferred
scroll only under the `SCROLL` policy. -/
theorem reachable_inv {s : VTermScreen} (h : Reachable s) : ReachInv s := by
  induction h with
  | fresh s hf =>
    exact ⟨⟨s.buffers_primary, by unfold VTermScreen.cells; rw [hf.2.2.2]⟩, fun _ => hf.2.2.1⟩
  | by_damagerect fuel rect s s' _ hstep ih => exact damagerect_keeps_inv hstep ih
  | by_scrollrect fuel rect d r s s' ret _ hstep ih => exact scrollrect_keeps_inv hstep ih
  | by_flush_damage fuel s s' _ hstep ih => exact flush_keeps_inv hstep ih
  | by_set_damage_merge fuel size s s' _ hstep ih =>
    unfold vterm_screen_set_damage_merge at hstep
    simp only [Option.bind_eq_some] at hstep
    obtain ⟨s1, f1, f2⟩ := hstep
    cases f2
    obtain ⟨p, o⟩ := flush_returns f1 ih.2
    exact ⟨by
      obtain ⟨x, hx⟩ := ih.1
      exact ⟨x, by rw [← o.od_cells] at hx; exact hx⟩, fun _ => p⟩
  | by_scroll_grid rect d r s s' _ hstep ih => exact scroll_grid_keeps_inv hstep ih
  | by_moverect_user fuel dest src s s' _ hstep ih => exact moverect_user_keeps_inv hstep ih

/-- The call `damagerect` makes of the flush is for the screen it is called
with. -/
theorem damagerect_congr (f g : VTermScreen → Option VTermScreen) (s : VTermScreen)
    (h : f s = g s) (rect : VTermRect) : damagerect f s rect = damagerect g s rect := by
  unfold damagerect
  rw [h]

/-- Without a deferred scroll, the nested flush of `moverect_user` emits the
stored damage and does nothing else. -/
theorem moverect_user_flush {s : VTermScreen} (hp : s.pending_scrollrect.start_row = -1)
    (fuel : Nat) (dest src : VTermRect) :
    moverect_user (vterm_screen_flush_damage (fuel + 1)) dest src s =
      moverect_user (fun a => some (flush_damaged a)) dest src s := by
  unfold moverect_user
  split
  · rw [flush_eq_of_no_pending fuel hp]
    split_ifs
    · simp only [Option.some_bind]
      split_ifs
      · rfl
      · exact damagerect_congr _ (fun a => some (flush_damaged a)) _
          (flush_eq_of_no_pending fuel (by simpa using hp)) dest
    · simp only [Option.some_bind]
      split_ifs
      · rfl
      · exact damagerect_congr _ (fun a => some (flush_damaged a)) _
          (flush_eq_of_no_pending fuel (by simpa using hp)) dest
  · exact damagerect_congr _ (fun a => some (flush_damaged a)) _
      (flush_eq_of_no_pending fuel hp) dest

/-! ## Claims about the reachable states of the damage accumulator -/

/-- C37: in every state reachable from a freshly created screen through
`damagerect`, `scrollrect`, `vterm_screen_flush_damage` and
`vterm_screen_set_damage_merge` (the states between the steps of `scrollrect`
and of the flush included), a deferred scroll is stored only under the `SCROLL`
policy; under any other policy the flush skips the branch of the deferred
scroll, and the flush inside `moverect_user` does what the second half of the
flush alone does. -/
theorem pending_scroll_needs_scroll_policy (s : VTermScreen) (h : Reachable s) :
    (s.pending_scrollrect.start_row ≠ -1 → s.damage_merge = VTermDamageSize.SCROLL) ∧
    (s.damage_merge ≠ VTermDamageSize.SCROLL → ∀ (fuel : Nat) (dest src : VTermRect),
      flush_pending (vterm_screen_flush_damage fuel) s = some s ∧
      moverect_user (vterm_screen_flush_damage (fuel + 1)) dest src s =
        moverect_user (fun a => some (flush_damaged a)) dest src s) := by
  have hinv := (reachable_inv h).2
  refine ⟨fun hp => ?_, fun hpol fuel dest src => ?_⟩
  · by_contra hne
    exact hp (hinv hne)
  · exact ⟨flush_pending_none (hinv hpol), moverect_user_flush (hinv hpol) fuel dest src⟩

theorem pending_scroll_needs_scroll_policy_witness :
    ∃ s1 s2, vterm_screen_set_damage_merge 1 (small_screen VTermDamageSize.CELL)
        VTermDamageSize.SCROLL = some s1 ∧
      scrollrect 1 { start_row := 0, end_row := 2, start_col := 0, end_col := 3 } 1 0 s1 =
        some (s2, 1) ∧
      s2.pending_scrollrect.start_row = 0 ∧ s2.damage_merge = VTermDamageSize.SCROLL := by
  have r0 : Reachable (small_screen VTermDamageSize.CELL) :=
    Reachable.fresh _ ⟨rfl, rfl, rfl, rfl⟩
  have e1 : vterm_screen_set_damage_merge 1 (small_screen VTermDamageSize.CELL)
      VTermDamageSize.SCROLL = some (small_screen VTermDamageSize.SCROLL) := rfl
  have hs : (scrollrect 1 { start_row := 0, end_row := 2, start_col := 0, end_col := 3 } 1 0
      (small_screen VTermDamageSize.SCROLL)).map
        (fun x => (x.1.pending_scrollrect.start_row, x.2)) = some (0, 1) := by decide
  obtain ⟨⟨s2, ret⟩, e2, e3⟩ := Option.map_eq_some'.mp hs
  simp only [Prod.mk.injEq] at e3
  obtain ⟨e3, rfl⟩ := e3
  have r2 : Reachable s2 :=
    Reachable.by_scrollrect _ _ _ _ _ _ _ (Reachable.by_set_damage_merge _ _ _ _ r0 e1) e2
  exact ⟨_, s2, e1, e2, e3,
    (pending_scroll_needs_scroll_policy s2 r2).1 (by rw [e3]; decide)⟩

/-! ## A wide glyph and one column -/

/-- With one column, the loop of `reflow_line` on the row of `wide_pair` comes
back to the state it started from, one line further down: it runs out of any
fuel. -/
theorem reflow_loop_wide_stalls : ∀ (fuel j : Nat),
    reflow_loop wide_pair 0 2 ((1 : Nat) : Int) 0 0 none fuel
      { new_row := (j : Int), old_row := 0, old_line_cells := 2, old_line_taken := 0
        new_line_filled := ((0 : Nat) : Int), out_buffer := none, new_cursor := none } = none := by
  intro fuel
  induction fuel with
  | zero => intro j; rfl
  | succ fuel ih =>
    intro j
    have h := reflow_loop_splits_dry wide_pair 2 0 1 fuel j 0 1 0 2 0
      { chars := [WIDE_CONT, 0, 0, 0, 0, 0], pen := default } rfl (by decide) (by decide) rfl
    have e : (0 : Int) + ((1 : Nat) : Int) - 1 = 0 := by norm_num
    rw [h, if_pos (by decide), e]
    exact ih (j + 1)

/-! ## Claims about `reflow_line` -/

/-- C35: the row of `wide_pair` holds one wide glyph, `old_row_start =
old_row_end = 0`, and the target width is one column.  Whatever the fuel, the
dry run of `reflow_line` does not return: every iteration takes the glyph,
finds its trailing half next, gives the glyph back and goes to the next
line. -/
theorem reflow_line_wide_glyph_one_column :
    line_popcount wide_pair 0 2 = some 2 ∧
    ∀ fuel, reflow_line fuel wide_pair 0 0 2 1 none 0 none none 0 = none := by
  refine ⟨by decide, fun fuel => ?_⟩
  have hp : line_popcount wide_pair 0 2 = some 2 := by decide
  unfold reflow_line
  rw [hp]
  simp only [Option.some_bind]
  have h := reflow_loop_wide_stalls fuel 0
  simp only [Nat.cast_zero, Nat.cast_one] at h
  rw [h]
  rfl

/-- C36, as stated, fails for a paragraph whose last new line holds no cell.
The rows `AB` and a blank row, rewrapped to two columns: both runs return row 1,
so the height is 2, and the real run writes line 0 only; line 1 of the output
keeps the two `Z` it held.  A blank row alone gives height 1 and no write at
all. -/
theorem reflow_line_skips_empty_line :
    (reflow_line 20 ab_blank_buffer 0 1 2 2 none 0 none none 0).map (fun r => r.1) =
      some { row := 1, col := 0 } ∧
    (reflow_line 20 ab_blank_buffer 0 1 2 2 (some (stale_cells 4)) 0
        (some { row := 5, col := 5 }) (some { row := -1, col := -1 }) 0).map
        (fun r => (r.1, r.2.1)) =
      some ({ row := 1, col := 0 },
        some [letter 0x41, letter 0x42, letter 0x5a, letter 0x5a]) ∧
    (reflow_line 20 (letters [0, 0]) 0 0 2 2 (some (stale_cells 2)) 0
        (some { row := 5, col := 5 }) (some { row := -1, col := -1 }) 0).map
        (fun r => (r.1, r.2.1)) =
      some ({ row := 0, col := 0 }, some [letter 0x5a, letter 0x5a]) := by
  decide

/-- C36, amended: for a paragraph inside the old buffer and a width of at least
two columns (or a paragraph without wide glyphs), the dry run of `reflow_line`
returns a position `rect`, and the real run into an output buffer with room for
the lines `0 .. rect.row` returns the same `rect`.  The cells of the paragraph
lie in the output as `rect.row + 1` rows from line 0 on, the last of them with
`ff` cells; when `ff = 0` the real run leaves line `rect.row` as it was, and in
every case it leaves every cell after line `rect.row` as it was. -/
theorem reflow_line_dry_run_agrees {old : List ScreenCell} {old_cols lo hi : Int}
    {w fuel : Nat} (hc : 0 ≤ old_cols) (hw : 0 < w) (h0 : 0 ≤ lo) (h1 : lo ≤ hi)
    (hb : (hi + 1) * old_cols ≤ old.length)
    (hprog : 2 ≤ w ∨ ∀ r, lo ≤ r → r ≤ hi → ∀ c, 0 ≤ c → c < old_cols →
      ∀ x, bufAt old (r * old_cols + c) = some x → x.char0 ≠ WIDE_CONT)
    (hfuel : 2 * (paragraph_cells old old_cols (hi - lo + 1).toNat lo).length +
      (hi - lo + 1).toNat < fuel) :
    ∃ (h ff : Nat) (rect : VTermPos),
      rect = { col := if (ff : Int) ≤ 0 then 0 else (ff : Int) - 1, row := (h : Int) } ∧
      reflow_line fuel old lo hi old_cols (w : Int) none 0 none none 0 =
        some (rect, none, none) ∧
      ∀ (nrs : Int) (ocur nc : VTermPos) (out : List ScreenCell), (h + 1) * w ≤ out.length →
        ∃ (outf : List ScreenCell) (ncf : VTermPos) (rows : List (List ScreenCell)),
          reflow_line fuel old lo hi old_cols (w : Int) (some out) 0 (some ocur) (some nc) nrs =
            some (rect, some outf, some ncf) ∧
          outf.length = out.length ∧
          (∀ i, (h + 1) * w ≤ i → outf[i]? = out[i]?) ∧
          rows.flatten = paragraph_cells old old_cols (hi - lo + 1).toNat lo ∧
          rows.length = h + 1 ∧ (∀ row ∈ rows, row.length ≤ w) ∧
          (rows.getD h []).length = ff ∧ RowsLaid outf w 0 rows ∧
          (ff = 0 → ∀ i, h * w ≤ i → outf[i]? = out[i]?) := by
  obtain ⟨h, ff, -, hdry, hreal⟩ := @reflow_line_run old old_cols lo hi w fuel hc hw h0 h1 hb
    hprog hfuel
  refine ⟨h, ff, _, rfl, hdry, fun nrs ocur nc out hroom => ?_⟩
  obtain ⟨outf, ncf, rows, e1, e2, e3, e4, e5, e6, e7, e8, -, -, e9, -, -⟩ :=
    hreal nrs ocur nc out hroom
  exact ⟨outf, ncf, rows, e1, e2, e3, e4, e5, e6, e7, e8, e9⟩

set_option maxRecDepth 100000 in
theorem reflow_line_dry_run_agrees_witness :
    reflow_line 100 hello_buffer 0 1 10 5 none 0 none none 0 =
      some ({ row := 2, col := 0 }, none, none) ∧
    ∃ outf ncf, reflow_line 100 hello_buffer 0 1 10 5 (some (stale_cells 20)) 0
        (some { row := 1, col := 0 }) (some { row := -1, col := -1 }) 0 =
      some ({ row := 2, col := 0 }, some outf, some ncf) ∧
      ∀ i, 15 ≤ i → outf[i]? = (stale_cells 20)[i]? := by
  obtain ⟨h, ff, rect, hrect, hdry, hreal⟩ :=
    @reflow_line_dry_run_agrees hello_buffer 10 0 1 5 100 (by decide) (by decide) (by decide)
      (by decide) (by decide) (Or.inl (by decide)) (by decide)
  have hd : reflow_line 100 hello_buffer 0 1 10 ((5 : Nat) : Int) none 0 none none 0 =
      some ({ row := 2, col := 0 }, none, none) := by decide
  rw [hd] at hdry
  simp only [Option.some.injEq, Prod.mk.injEq, and_true] at hdry
  subst hdry
  have hh : h = 2 := by
    have hrow : (2 : Int) = (h : Int) := congrArg VTermPos.row hrect
    omega
  subst hh
  obtain ⟨outf, ncf, rows, e1, -, e3, -⟩ := hreal 0 { row := 1, col := 0 }
    { row := -1, col := -1 } (stale_cells 20) (by decide)
  exact ⟨hd, outf, ncf, e1, e3⟩

/-! ## The cursor check of `resize_buffer` -/

/-- The function `resize_buffer` is its first loop, the check of the cursor and
`resize_scrollback`. -/
theorem resize_buffer_check (fuel : Nat) (alloc : VTermAllocator) (bufidx : BufIdx)
    (new_rows new_cols : Int) (active : Bool) (fields : VTermStateFields) (s : VTermScreen) :
    resize_buffer fuel alloc bufidx new_rows new_cols active fields s =
      (buffer_of bufidx s).bind fun old_buffer =>
      (resize_place fuel old_buffer (lineinfo_of bufidx fields) s.cols new_rows new_cols active
        fields.pos (s.rows.toNat + 1)
        { old_row := s.rows - 1, new_row := new_rows - 1
          new_buffer := alloc.cells (new_rows * new_cols)
          new_lineinfo := alloc.lineinfos new_rows
          new_cursor := { row := -1, col := -1 }
          final_blank_row := new_rows }).bind fun st =>
      if active = true ∧
          ((if fields.pos.row ≤ st.old_row then clamp_cursor fields.pos new_cols
              else st.new_cursor).row = -1 ∨
            (if fields.pos.row ≤ st.old_row then clamp_cursor fields.pos new_cols
              else st.new_cursor).col = -1) then none
      else resize_scrollback fuel alloc bufidx new_rows new_cols active fields s st
        (if fields.pos.row ≤ st.old_row then clamp_cursor fields.pos new_cols
          else st.new_cursor) := by
  cases bufidx <;> rfl

/-- The first loop of `resize_buffer` returns and keeps `CursorInv`. -/
theorem resize_place_cursor {old : List ScreenCell} {li : List VTermLineInfo}
    {Ro wo R w fuel : Nat} (active : Bool) (ocur : VTermPos) (hw : 0 < w)
    (hold : old.length = Ro * wo) (hlen : li.length = Ro)
    (hprog : 2 ≤ w ∨ ∀ (i : Nat) (x : ScreenCell), old[i]? = some x → x.char0 ≠ WIDE_CONT)
    (hfuel : 2 * (Ro * wo) + Ro < fuel) :
    ∀ (q n : Nat) (st : ResizeState), q ≤ Ro → q < n → CursorInv Ro R w ocur q st →
      ∃ st' q', resize_place fuel old (some li) (wo : Int) (R : Int) (w : Int) active ocur n st =
          some st' ∧ q' ≤ q ∧ CursorInv Ro R w ocur q' st' := by
  intro q
  induction q using Nat.strong_induction_on with
  | _ q ih =>
    intro n st hqR hqn hinv
    obtain ⟨n, rfl⟩ : ∃ n', n = n' + 1 := ⟨n - 1, by omega⟩
    obtain ⟨ho, hn0, hn1, hfb, hbuf, hli, hcur⟩ := hinv
    by_cases hq0 : q = 0
    · subst hq0
      refine ⟨st, 0, ?_, le_rfl, ho, hn0, hn1, hfb, hbuf, hli, hcur⟩
      have ho1 : st.old_row = -1 := by simpa using ho
      rw [resize_place, if_neg (by rw [ho1]; norm_num)]
    · have hqpos : 0 < q := Nat.pos_of_ne_zero hq0
      obtain ⟨A, oinfo, h, hAq, hoinfo, hoflag, hpara, hcase⟩ :=
        @resize_place_iter old li Ro wo R w fuel active ocur n st q hw hold hlen hprog hfuel
          hqpos hqR ho hn0 hn1 hfb hbuf hli
      rcases hcase with ⟨hsmall, hbr⟩ | ⟨nrs, nb2, li2, ncf, rows, hnrs, hgo, hnb2, hli2, -,
        -, -, -, -, -, -, -, -, hcout, hcin⟩
      · refine ⟨_, q, hbr, le_rfl, ho, hn0, hn1, hfb, hbuf, hli, ?_⟩
        intro hc hrow hcol
        have hneg : ¬ ((A : Int) ≤ ocur.row ∧ ocur.row < st.old_row) := by
          intro hx
          omega
        show 0 ≤ (if (A : Int) ≤ ocur.row ∧ ocur.row < st.old_row then
            clamp_cursor ocur (w : Int) else st.new_cursor).row ∧
          0 ≤ (if (A : Int) ≤ ocur.row ∧ ocur.row < st.old_row then
            clamp_cursor ocur (w : Int) else st.new_cursor).col
        rw [if_neg hneg]
        exact hcur hc hrow hcol
      · have hnext : CursorInv Ro R w ocur A
            { old_row := (A : Int) - 1, new_row := (nrs : Int) - 1, new_buffer := nb2
              new_lineinfo := li2, new_cursor := ncf, final_blank_row := (R : Int) } := by
          refine ⟨rfl, by show -1 ≤ (nrs : Int) - 1; omega,
            by show (nrs : Int) - 1 < (R : Int); omega, rfl, hnb2, hli2, ?_⟩
          intro hAc hrow hcol
          show 0 ≤ ncf.row ∧ 0 ≤ ncf.col
          by_cases hin : ocur.row < (q : Int)
          · exact hcin hAc hin hcol
          · rw [hcout (Or.inr (by omega))]
            exact hcur (by omega) hrow hcol
        obtain ⟨st', q', g1, g2, g3⟩ := ih A hAq n _ (by omega) (by omega) hnext
        exact ⟨st', q', by rw [hgo]; exact g1, le_trans g2 (Nat.le_of_lt hAq), g3⟩

/-- The cursor that goes through the check is set when the first loop leaves
`CursorInv`. -/
theorem checked_cursor_set {Ro R w q : Nat} {ocur : VTermPos} {st : ResizeState}
    (hw : 0 < w) (hq : q ≤ Ro) (hinv : CursorInv Ro R w ocur q st)
    (hcur : 0 ≤ ocur.row ∧ ocur.row < (Ro : Int) ∧ 0 ≤ ocur.col) :
    0 ≤ (if ocur.row ≤ st.old_row then clamp_cursor ocur (w : Int) else st.new_cursor).row ∧
    0 ≤ (if ocur.row ≤ st.old_row then clamp_cursor ocur (w : Int) else st.new_cursor).col := by
  obtain ⟨ho, -, -, -, -, -, hc⟩ := hinv
  by_cases hle : ocur.row ≤ st.old_row
  · rw [if_pos hle]
    unfold clamp_cursor
    refine ⟨le_refl _, ?_⟩
    show 0 ≤ (if ocur.col ≥ (w : Int) then (w : Int) - 1 else ocur.col)
    split_ifs
    · omega
    · exact hcur.2.2
  · rw [if_neg hle]
    exact hc (by omega) hcur.2.1 hcur.2.2

/-! ## Claims about the cursor check of `resize_buffer` -/

/-- C34: for a screen whose buffer `bufidx` holds `Ro * wo` cells with a
line-info record for each row, a cursor with `0 ≤ row < Ro` and `0 ≤ col`, any
number of new rows and at least two new columns, `resize_buffer` for the active
buffer leaves its first loop, the cursor that reaches the check of line 1045 has
a row and a column that are not negative, so neither is `-1`, and the call goes
on with the part after the check instead of the abort. -/
theorem resize_cursor_is_set (fuel : Nat) (alloc : VTermAllocator) (bufidx : BufIdx)
    (fields : VTermStateFields) (s : VTermScreen) (Ro wo R w : Nat)
    (old : List ScreenCell) (li : List VTermLineInfo)
    (hrows : s.rows = (Ro : Int)) (hcols : s.cols = (wo : Int)) (hw : 2 ≤ w)
    (hbuf : buffer_of bufidx s = some old) (hold : old.length = Ro * wo)
    (hinfo : lineinfo_of bufidx fields = some li) (hlen : li.length = Ro)
    (hcur : 0 ≤ fields.pos.row ∧ fields.pos.row < (Ro : Int) ∧ 0 ≤ fields.pos.col)
    (hfuel : 2 * (Ro * wo) + Ro < fuel) :
    ∃ (st : ResizeState) (nc : VTermPos),
      resize_place fuel old (some li) (wo : Int) (R : Int) (w : Int) true fields.pos (Ro + 1)
        { old_row := (Ro : Int) - 1, new_row := (R : Int) - 1
          new_buffer := alloc.cells ((R : Int) * (w : Int))
          new_lineinfo := alloc.lineinfos (R : Int)
          new_cursor := { row := -1, col := -1 }
          final_blank_row := (R : Int) } = some st ∧
      nc = (if fields.pos.row ≤ st.old_row then clamp_cursor fields.pos (w : Int)
        else st.new_cursor) ∧
      0 ≤ nc.row ∧ 0 ≤ nc.col ∧
      resize_buffer fuel alloc bufidx (R : Int) (w : Int) true fields s =
        resize_scrollback fuel alloc bufidx (R : Int) (w : Int) true fields s st nc := by
  have hRw : (R : Int) * (w : Int) = ((R * w : Nat) : Int) := by push_cast; ring
  have hinit : CursorInv Ro R w fields.pos Ro
      { old_row := (Ro : Int) - 1, new_row := (R : Int) - 1
        new_buffer := alloc.cells ((R : Int) * (w : Int))
        new_lineinfo := alloc.lineinfos (R : Int)
        new_cursor := { row := -1, col := -1 }
        final_blank_row := (R : Int) } := by
    refine ⟨rfl, by show -1 ≤ (R : Int) - 1; omega, by show (R : Int) - 1 < (R : Int); omega,
      rfl, ?_, alloc_lineinfos_length alloc R, fun h1 h2 => by omega⟩
    show (alloc.cells ((R : Int) * (w : Int))).length = R * w
    rw [hRw, alloc_cells_length]
  obtain ⟨st, q', hplace, hq', hinv⟩ := @resize_place_cursor old li Ro wo R w fuel true
    fields.pos (by omega) hold hlen (Or.inl hw) hfuel Ro (Ro + 1) _ le_rfl (by omega) hinit
  have hset := checked_cursor_set (by omega) hq' hinv hcur
  refine ⟨st, _, hplace, rfl, hset.1, hset.2, ?_⟩
  have hplace1 : resize_place fuel old (some li) s.cols (R : Int) (w : Int) true fields.pos
      (s.rows.toNat + 1)
      { old_row := s.rows - 1, new_row := (R : Int) - 1
        new_buffer := alloc.cells ((R : Int) * (w : Int))
        new_lineinfo := alloc.lineinfos (R : Int)
        new_cursor := { row := -1, col := -1 }
        final_blank_row := (R : Int) } = some st := by
    rw [hrows, hcols, Int.toNat_ofNat]
    exact hplace
  rw [resize_buffer_check, hbuf, hinfo]
  simp only [Option.some_bind, hplace1]
  rw [if_neg]
  intro hab
  rcases hab.2 with h1 | h1
  · have := hset.1; omega
  · have := hset.2; omega

set_option maxRecDepth 100000 in
theorem resize_cursor_is_set_witness :
    ∃ (st : ResizeState) (nc : VTermPos),
      resize_place 40 hw_screen.buffers_primary (some [zero_info, cont_info]) 5 3 4 true
        { row := 1, col := 3 } 3
        { old_row := 1, new_row := 2, new_buffer := zero_alloc.cells 12
          new_lineinfo := zero_alloc.lineinfos 3, new_cursor := { row := -1, col := -1 }
          final_blank_row := 3 } = some st ∧
      0 ≤ nc.row ∧ 0 ≤ nc.col ∧
      resize_buffer 40 zero_alloc BufIdx.PRIMARY 3 4 true hw_fields hw_screen =
        resize_scrollback 40 zero_alloc BufIdx.PRIMARY 3 4 true hw_fields hw_screen st nc ∧
      (resize_buffer 40 zero_alloc BufIdx.PRIMARY 3 4 true hw_fields hw_screen).map
        (fun r => r.2.pos) = some { row := 2, col := 0 } := by
  obtain ⟨st, nc, h1, -, h3, h4, h5⟩ := resize_cursor_is_set 40 zero_alloc BufIdx.PRIMARY
    hw_fields hw_screen 2 5 3 4 hw_screen.buffers_primary [zero_info, cont_info] rfl rfl
    (by decide) rfl (by decide) rfl (by decide) (by decide) (by decide)
  exact ⟨st, nc, h1, h3, h4, h5, by decide⟩

/-! ## Claims about the spare rows of `resize_buffer` and about `combine_contination_lines` -/

set_option maxRecDepth 100000 in
/-- C31: `top_screen` has its content, the letter `A`, in row 0 and two blank
rows below it; the cursor is at the top-left and no callbacks are registered.
The first loop of `resize_buffer` for two new rows gives both new rows to the
blank rows, keeps `final_blank_row` at 2, the number of new rows, and stops at
the row with the `A` with nothing scrolled down; `resize` to 2 x 3 returns a
blank grid. -/
theorem resize_shrink_spills_content :
    cellAt top_screen 0 0 = some (letter 0x41) ∧
    top_screen.buffers_primary.drop 3 = List.replicate 6 blank_cell ∧
    (resize_place 30 top_screen.buffers_primary top_fields.lineinfos_primary 3 2 3 true
        top_fields.pos 4
        { old_row := 2, new_row := 1, new_buffer := zero_alloc.cells 6
          new_lineinfo := zero_alloc.lineinfos 2, new_cursor := { row := -1, col := -1 }
          final_blank_row := 2 }).map
        (fun st => (st.old_row, st.new_row, st.final_blank_row, st.new_buffer)) =
      some (0, -1, 2, List.replicate 6 blank_cell) ∧
    (resize 30 zero_alloc 2 3 top_fields top_screen).map
        (fun x => (x.1.rows, x.1.buffers_primary, x.2.1.pos)) =
      some (2, List.replicate 6 blank_cell, { row := 0, col := 0 }) := by
  decide

set_option maxRecDepth 100000 in
/-- C32: the rows of `split_paragraph` are one paragraph with the text
`ABCDEFGH`; rows 1 and 2 are continuation rows.  `combine_contination_lines`
from row 0 returns -1 and leaves a blank row, the row `ABCD` and a blank row:
the cells `EFGH` are gone.  On the rows `A`, `B`, `C` of one paragraph followed
by the row `XY` of the next, the call returns -2 and the row `XY` is
overwritten with what was left of the row `B`. -/
theorem combine_contination_lines_drops_cells :
    paragraph_cells split_paragraph 4 3 0 =
      letters [0x41, 0x42, 0x43, 0x44, 0x45, 0x46, 0x47, 0x48] ∧
    combine_contination_lines 10 split_paragraph 0 3 4 [zero_info, cont_info, cont_info] =
      some (-1, letters [0, 0, 0, 0, 0x41, 0x42, 0x43, 0x44, 0, 0, 0, 0],
        [zero_info, zero_info, cont_info]) ∧
    combine_contination_lines 10
        (letters [0x41, 0, 0, 0, 0x42, 0, 0, 0, 0x43, 0, 0, 0, 0x58, 0x59, 0, 0]) 0 4 4
        [zero_info, cont_info, cont_info, zero_info] =
      some (-2, letters [0, 0, 0, 0, 0, 0, 0, 0, 0x41, 0x42, 0x43, 0, 0x42, 0, 0, 0],
        [zero_info, cont_info, zero_info, cont_info]) := by
  decide

end Screen
